import Mathlib

/-!
# Primitives extractor: a shallow embedding

Verification development for `design_edit/src/primitives_extractor.cc`.

Conventions of the embedding

* A `std::string` is a `CppString`, the list of its char units.  String
  constants of the source are written as Lean string literals and turned
  into lists with `String.toList`.
* A `std::map<std::string, V>` is a `CppMap V`: an association list kept in
  ascending key order (the order a C++ range-for visits it).
* A failed `log_assert`, an uncaught C++ exception and a null dereference
  end the run; functions that can do so return `Except Fault _`.
* Recursion of the source that is bounded only by the shape of the netlist
  takes a fuel argument.
-/

namespace PrimitivesExtractor

/-! ## Part 1: definitions -/

/-- A `std::string`, one `Char` per char unit. -/
abbrev CppString := List Char

/-- Ways in which a run of the source ends without returning. -/
inductive Fault where
  | assertion
  | out_of_range
  | invalid_argument
  | null_deref
  | bad_cast
  | out_of_fuel
  deriving DecidableEq, Repr

deriving instance DecidableEq for Except

/-- What `std::string::c_str()` shows to a `%s` conversion: the char units
before the first NUL. -/
def c_str (s : CppString) : CppString :=
  s.takeWhile (fun c => c.toNat != 0)

/-! ### Strings and maps of the C++ standard library -/

/-- The value `std::string::npos`, the largest `size_t`. -/
def npos : Nat := 2 ^ 64 - 1

/-- Whether `pat` is a prefix of `s`. -/
def startsWith : CppString → CppString → Bool
  | _, [] => true
  | [], _ :: _ => false
  | c :: s, d :: pat => c == d && startsWith s pat

/-- Position of the first occurrence of `pat` in `s` at or after the
position `i` the scan has reached, `npos` when there is none. -/
def findFrom (pat : CppString) : CppString → Nat → Nat
  | [], i => if pat.isEmpty then i else npos
  | c :: s, i => if startsWith (c :: s) pat then i else findFrom pat s (i + 1)

/-- The call `s.find(pat)`. -/
def find (s pat : CppString) : Nat := findFrom pat s 0

/-- The call `s.substr(pos, len)`; `pos > s.size()` throws
`std::out_of_range`. -/
def substr (s : CppString) (pos : Nat) (len : Nat := npos) : Except Fault CppString :=
  if pos > s.length then .error .out_of_range else .ok ((s.drop pos).take len)

/-- The comparison `a < b` of two `std::string`s: lexicographic on the char
units, a proper prefix being smaller. -/
def strLt : CppString → CppString → Bool
  | [], [] => false
  | [], _ :: _ => true
  | _ :: _, [] => false
  | a :: as, b :: bs =>
    if a.toNat < b.toNat then true
    else if b.toNat < a.toNat then false
    else strLt as bs

/-- A `std::map<std::string, V>`: the entries in the order a range-for
visits them, which is ascending key order. -/
abbrev CppMap (V : Type) := List (CppString × V)

/-- The lookup `m.find(k)`: the mapped value, `none` for `m.end()`. -/
def CppMap.find {V : Type} (m : CppMap V) (k : CppString) : Option V :=
  match m with
  | [] => none
  | (k1, v) :: rest => if k1 = k then some v else CppMap.find rest k

/-- The test `m.find(k) != m.end()`. -/
def CppMap.contains {V : Type} (m : CppMap V) (k : CppString) : Bool :=
  (CppMap.find m k).isSome

/-- The access `m.at(k)`, which throws `std::out_of_range` for a missing
key. -/
def CppMap.at {V : Type} (m : CppMap V) (k : CppString) : Except Fault V :=
  match CppMap.find m k with
  | some v => .ok v
  | none => .error .out_of_range

/-- The assignment `m[k] = v`: replaces the value of an existing key, and
otherwise puts the new entry at its place in key order. -/
def CppMap.set {V : Type} (m : CppMap V) (k : CppString) (v : V) : CppMap V :=
  match m with
  | [] => [(k, v)]
  | (k1, v1) :: rest =>
    if strLt k k1 then (k, v) :: (k1, v1) :: rest
    else if k1 = k then (k, v) :: rest
    else (k1, v1) :: CppMap.set rest k v

/-- A map built from an initializer list: entries are inserted one by one
and a key that is already present keeps its first value. -/
def CppMap.ofList {V : Type} (l : List (CppString × V)) : CppMap V :=
  l.foldl (fun m kv => if CppMap.contains m kv.1 then m else CppMap.set m kv.1 kv.2) []

/-- The keys of a map are strictly ascending. -/
def CppMap.Ordered {V : Type} (m : CppMap V) : Prop :=
  List.Pairwise (fun a b => strLt a.1 b.1 = true) m

/-- The helper `get_original_name`: drop a leading backslash. -/
def get_original_name (name : CppString) : CppString :=
  match name with
  | '\\' :: rest => rest
  | _ => name

/-- The helper `get_rid_trait`. -/
def get_rid_trait : List CppString → Except Fault (List CppString)
  | [] => .ok []
  | str :: strings =>
    if str.length = 0 then .error .assertion
    else
      let index := find str ":".toList
      if ¬ (index = npos ∨ index > 0) then .error .assertion
      else do
        let head ← if index > 0 then substr str 0 index else .ok str
        let tail ← get_rid_trait strings
        pure (head :: tail)

/-- The loop of `get_trait`, with the map built so far. -/
def get_trait_loop : List CppString → CppMap CppString → Except Fault (CppMap CppString)
  | [], temp => .ok temp
  | str :: strings, temp =>
    if str.length = 0 then .error .assertion
    else
      let index := find str ":".toList
      if ¬ (index = npos ∨ index > 0) then .error .assertion
      else if index > 0 then do
        let k ← substr str 0 index
        let v ← substr str ((index + 1) % 2 ^ 64)
        if v.length = 0 then .error .assertion
        else if CppMap.contains temp k then .error .assertion
        else get_trait_loop strings (CppMap.set temp k v)
      else get_trait_loop strings temp

/-- The helper `get_trait`. -/
def get_trait (strings : List CppString) : Except Fault (CppMap CppString) :=
  get_trait_loop strings []

/-- The loop of `split_string`: `n` bounds the number of rounds (each round
with a non-empty delimiter shortens `str`). -/
def split_string_loop (delimiter : CppString) (max_split : Int) :
    Nat → CppString → List CppString → Except Fault (List CppString)
  | 0, _, _ => .error .out_of_fuel
  | n + 1, str, strs =>
    let index := find str delimiter
    if index ≠ npos then do
      let piece ← substr str 0 index
      let strs := strs ++ [piece]
      let str ← substr str (index + delimiter.length)
      if (strs.length : Int) = max_split then .ok (strs ++ [str])
      else split_string_loop delimiter max_split n str strs
    else .ok (strs ++ [str])

/-- The helper `split_string(str, delimiter, max_split)`. -/
def split_string (str delimiter : CppString) (max_split : Int := -1) :
    Except Fault (List CppString) :=
  if str.length = 0 then .error .assertion
  else if delimiter.length = 0 then .error .assertion
  else split_string_loop delimiter max_split (str.length + 1) str []

/-- The helper `get_param_string`: strip one pair of enclosing double
quotes. -/
def get_param_string (str : CppString) : CppString :=
  if str.length ≥ 2 ∧ str.head? = some '"' ∧ str.getLast? = some '"' then
    (str.drop 1).take (str.length - 2)
  else str

/-! ### Locations -/

def PARSED_LOCATION_UNKNOWN : Nat := 0
def PARSED_LOCATION_GOOD : Nat := 1
def PARSED_LOCATION_BAD : Nat := 2
def PARSED_LOCATION_SKIP : Nat := 3

/-- The record `PARSED_LOCATION` (declared in the header; the fields and
their defaults are the ones the assertions of `parse_location` and
`finalize_location` read). -/
structure PARSED_LOCATION where
  location : CppString := []
  type : CppString := []
  bank : CppString := []
  is_clock : Bool := false
  index : Int := 0
  status : Nat := PARSED_LOCATION_UNKNOWN
  failure_reason : CppString := []
  deriving DecidableEq, Repr

/-- A default-constructed `PARSED_LOCATION`. -/
def PARSED_LOCATION.fresh : PARSED_LOCATION := {}

/-- The regex class `[0-9]`. -/
def isDigitChar (c : Char) : Bool :=
  decide (48 ≤ c.toNat) && decide (c.toNat ≤ 57)

/-- The regex class `[1-6]`. -/
def isBankChar (c : Char) : Bool :=
  decide (49 ≤ c.toNat) && decide (c.toNat ≤ 54)

/-- The regex class `[PR]`. -/
def isTypeChar (c : Char) : Bool :=
  c == 'P' || c == 'R'

/-- The regex class `[PN]`. -/
def isPolarityChar (c : Char) : Bool :=
  c == 'P' || c == 'N'

/-- The six sub-matches `m[1]` .. `m[6]` of a successful `std::regex_match`
against `H([PR])_([1-6])_(CC_|)([0-9]+)_([0-9]+)([PN])`. -/
structure LocationMatch where
  m1 : CppString
  m2 : CppString
  m3 : CppString
  m4 : CppString
  m5 : CppString
  m6 : CppString
  deriving DecidableEq, Repr

/-- The alternation `(CC_|)`: the first alternative is taken when the input
continues with `CC_`, the empty one otherwise (after it a digit must follow,
so the two never both lead to a match). -/
def matchClockMarker : CppString → CppString × CppString
  | 'C' :: 'C' :: '_' :: rest => ("CC_".toList, rest)
  | rest => ([], rest)

/-- Whole-string match `std::regex_match(location, m, e)` for
`e = H([PR])_([1-6])_(CC_|)([0-9]+)_([0-9]+)([PN])`. -/
def regex_match_location (location : CppString) : Option LocationMatch :=
  match location with
  | 'H' :: t :: '_' :: b :: '_' :: rest =>
    if isTypeChar t && isBankChar b then
      let cc := matchClockMarker rest
      let idx := cc.2.takeWhile isDigitChar
      match cc.2.dropWhile isDigitChar with
      | '_' :: rest2 =>
        let pair := rest2.takeWhile isDigitChar
        match rest2.dropWhile isDigitChar with
        | [pol] =>
          if !idx.isEmpty && !pair.isEmpty && isPolarityChar pol then
            some ⟨[t], [b], cc.1, idx, pair, [pol]⟩
          else none
        | _ => none
      | _ => none
    else none
  | _ => none

/-- Value of a decimal digit string, most significant digit first. -/
def decimalValue (ds : CppString) : Nat :=
  ds.foldl (fun acc c => 10 * acc + (c.toNat - 48)) 0

/-- White space as `std::isspace` sees it in the C locale. -/
def isSpaceChar (c : Char) : Bool :=
  c.toNat == 32 || (decide (9 ≤ c.toNat) && decide (c.toNat ≤ 13))

def INT_MAX : Int := 2147483647
def INT_MIN : Int := -2147483648

/-- The optional sign that `std::stoi` (through `strtol`) reads in front of
the digits: whether it is a minus, and the rest of the string. -/
def stoiSign : CppString → Bool × CppString
  | '-' :: r => (true, r)
  | '+' :: r => (false, r)
  | s => (false, s)

/-- The call `std::stoi(str)`: skip white space, read an optional sign and
the longest run of decimal digits; no digit throws `std::invalid_argument`,
a value that does not fit an `int` throws `std::out_of_range`. -/
def stoi (str : CppString) : Except Fault Int :=
  let signed := stoiSign (str.dropWhile isSpaceChar)
  let ds := signed.2.takeWhile isDigitChar
  if ds.isEmpty then .error .invalid_argument
  else
    let v : Int := if signed.1 then - (decimalValue ds : Int) else (decimalValue ds : Int)
    if INT_MIN ≤ v ∧ v ≤ INT_MAX then .ok v else .error .out_of_range

/-- The function `INSTANCE::parse_location(location, parsed)`; the result is
the record `parsed` as the call leaves it (its `status` is the value
returned). -/
def parse_location (location : CppString) (parsed : PARSED_LOCATION) :
    Except Fault PARSED_LOCATION :=
  if parsed.type.length = 0 ∧ parsed.bank.length = 0 ∧ parsed.is_clock = false ∧
      parsed.index = 0 ∧ parsed.status = PARSED_LOCATION_UNKNOWN ∧
      parsed.failure_reason.length = 0 then
    let parsed := { parsed with status := PARSED_LOCATION_BAD }
    if location.length ≠ 0 then
      match regex_match_location location with
      | some m =>
        let parsed := { parsed with type := m.m1 }
        if parsed.type = "P".toList ∨ parsed.type = "R".toList then
          let parsed := { parsed with bank := m.m2 }
          let parsed := { parsed with is_clock := decide (m.m3 = "CC_".toList) }
          match stoi m.m4 with
          | .error e => .error e
          | .ok idx =>
            let parsed := { parsed with index := idx }
            if parsed.index ≥ (0 : Int) ∧ parsed.index < (40 : Int) then
              let pair_index : Int := Int.tdiv parsed.index 2
              match stoi m.m5 with
              | .error e => .error e
              | .ok pair =>
                if pair_index = pair then
                  if (Int.tmod parsed.index 2 = 0 ∧ m.m6 = "P".toList) ∨
                      (Int.tmod parsed.index 2 = 1 ∧ m.m6 = "N".toList) then
                    .ok { parsed with status := PARSED_LOCATION_GOOD }
                  else
                    .ok { parsed with failure_reason :=
                      "Location ".toList ++ c_str location ++ " P/N is invalid".toList }
                else
                  .ok { parsed with failure_reason :=
                    "Location ".toList ++ c_str location ++
                      " pair index is invalid".toList }
            else
              .ok { parsed with failure_reason :=
                "Location ".toList ++ c_str location ++
                  " is range of index range".toList }
        else .error .assertion
      | none =>
        .ok { parsed with failure_reason :=
          "Location ".toList ++ c_str location ++ " does not meet regex".toList }
    else
      .ok { parsed with status := PARSED_LOCATION_SKIP,
                        failure_reason := "Location is not assigned".toList }
  else .error .assertion

/-- The location grammar in the words of the specification:
`H<P|R>_<bank>_<CC_?><index>_<pairIndex><P|N>`, with the pieces named. -/
def LocationGrammar (s : CppString) (t b : Char) (cc idx pair : CppString)
    (pol : Char) : Prop :=
  s = 'H' :: t :: '_' :: b :: '_' :: (cc ++ idx ++ '_' :: (pair ++ [pol])) ∧
  (t = 'P' ∨ t = 'R') ∧
  (49 ≤ b.toNat ∧ b.toNat ≤ 54) ∧
  (cc = [] ∨ cc = "CC_".toList) ∧
  (idx ≠ [] ∧ ∀ c ∈ idx, isDigitChar c = true) ∧
  (pair ≠ [] ∧ ∀ c ∈ pair, isDigitChar c = true) ∧
  (pol = 'P' ∨ pol = 'N')

/-- A string matches the location grammar. -/
def MatchesLocationGrammar (s : CppString) : Prop :=
  ∃ t b cc idx pair pol, LocationGrammar s t b cc idx pair pol

/-- The location string the claims build from a type letter, a bank digit,
a clock marker and an index written in decimal. -/
def mkLocation (t : Char) (b : Nat) (clock : Bool) (i : Nat) : CppString :=
  'H' :: t :: '_' :: Char.ofNat (48 + b) :: '_' ::
    ((if clock then "CC_".toList else []) ++ Nat.toDigits 10 i ++
      '_' :: (Nat.toDigits 10 (i / 2) ++ [if i % 2 = 0 then 'P' else 'N']))

/-- The precondition asserted at the entry of `parse_location`. -/
def ParseLocationEntry (parsed : PARSED_LOCATION) : Prop :=
  parsed.type.length = 0 ∧ parsed.bank.length = 0 ∧ parsed.is_clock = false ∧
    parsed.index = 0 ∧ parsed.status = PARSED_LOCATION_UNKNOWN ∧
    parsed.failure_reason.length = 0

instance (parsed : PARSED_LOCATION) : Decidable (ParseLocationEntry parsed) := by
  unfold ParseLocationEntry
  infer_instance

/-- The pair/polarity consistency check of the specification on the decimal
values of the index and pair index and the trailing letter. -/
def PairPolarityConsistent (idx pair : CppString) (pol : Char) : Prop :=
  decimalValue pair = decimalValue idx / 2 ∧
    ((decimalValue idx % 2 = 0 ∧ pol = 'P') ∨ (decimalValue idx % 2 = 1 ∧ pol = 'N'))

instance (idx pair : CppString) (pol : Char) :
    Decidable (PairPolarityConsistent idx pair pol) := by
  unfold PairPolarityConsistent
  infer_instance

/-- The fields `parse_location` has written when it reaches the index range
check on a matched string. -/
def matchedRecord (parsed : PARSED_LOCATION) (t b : Char) (cc idx : CppString) :
    PARSED_LOCATION :=
  { parsed with status := PARSED_LOCATION_BAD, type := [t], bank := [b],
                is_clock := decide (cc = "CC_".toList),
                index := (decimalValue idx : Int) }

/-! ### Descriptor table -/

def P_IS_NULL : Nat := 0
def P_IS_NOT_READY : Nat := 1 <<< 0
def P_IS_PORT : Nat := 1 <<< 1
def P_IS_STANDALONE : Nat := 1 <<< 2
def P_IS_PORT_CLOCK : Nat := 1 <<< 3
def P_IS_CLOCK : Nat := 1 <<< 4
def P_IS_GEARBOX_CLOCK : Nat := 1 <<< 5
def P_IS_ANY_INPUTS : Nat := 1 <<< 6
def P_IS_ANY_OUTPUTS : Nat := 1 <<< 7
def P_IS_OPTIONAL_INPUT : Nat := 1 <<< 8
def P_IS_OPTIONAL_OUTPUT : Nat := 1 <<< 9
def P_IS_IN_DIR : Nat := 1 <<< 10
def P_IS_FABRIC_CLKBUF : Nat := 1 <<< 11
def P_IS_LOWER_FAST_CLOCK_PRIORITY : Nat := 1 <<< 12

def MAX_FABRIC_CLOCK_SLOT : Nat := 16

/-- The enumeration `IO_DIR` of the header. -/
inductive IO_DIR where
  | IN
  | OUT
  | INOUT
  | UNKNOWN
  deriving DecidableEq, Repr

/-- The enumeration `PRIMITIVE_REQ` of the header. -/
inductive PRIMITIVE_REQ where
  | DONT_CARE
  | IS_PORT
  | NOT_PORT
  | IS_STANDALONE
  | IS_FABRIC_CLKBUF
  deriving DecidableEq, Repr

/-- The record `PRIMITIVE_DB`. -/
structure PRIMITIVE_DB where
  name : CppString
  feature : Nat
  inputs : List CppString
  outputs : List CppString
  output_traits : CppMap CppString
  intrace_connection : CppString
  outtrace_connection : CppString
  fast_clock : CppString
  core_clock : CppString
  data_signal : CppString
  properties : CppMap CppString
  deriving DecidableEq, Repr

/-- The constructor of `PRIMITIVE_DB`: the output list is stored without its
traits and the traits in a map of their own. -/
def PRIMITIVE_DB.construct (n : String) (f : Nat) (is os : List String)
    (it ot fc cc d : String) (p : List (String × String)) :
    Except Fault PRIMITIVE_DB := do
  let outputs ← get_rid_trait (os.map String.toList)
  let output_traits ← get_trait (os.map String.toList)
  pure { name := n.toList, feature := f, inputs := is.map String.toList,
         outputs := outputs, output_traits := output_traits,
         intrace_connection := it.toList, outtrace_connection := ot.toList,
         fast_clock := fc.toList, core_clock := cc.toList, data_signal := d.toList,
         properties := CppMap.ofList (p.map (fun kv => (kv.1.toList, kv.2.toList))) }

def PRIMITIVE_DB.get_checking_ports (db : PRIMITIVE_DB) : List CppString :=
  if db.feature &&& P_IS_IN_DIR ≠ P_IS_NULL then db.inputs else db.outputs

def PRIMITIVE_DB.is_ready (db : PRIMITIVE_DB) : Bool :=
  decide (db.feature &&& P_IS_NOT_READY = P_IS_NULL)
def PRIMITIVE_DB.is_port (db : PRIMITIVE_DB) : Bool :=
  decide (db.feature &&& P_IS_PORT ≠ P_IS_NULL)
def PRIMITIVE_DB.is_standalone (db : PRIMITIVE_DB) : Bool :=
  decide (db.feature &&& P_IS_STANDALONE ≠ P_IS_NULL)
def PRIMITIVE_DB.is_port_clock (db : PRIMITIVE_DB) : Bool :=
  decide (db.feature &&& P_IS_PORT_CLOCK ≠ P_IS_NULL)
def PRIMITIVE_DB.is_clock (db : PRIMITIVE_DB) : Bool :=
  decide (db.feature &&& P_IS_CLOCK ≠ P_IS_NULL)
def PRIMITIVE_DB.is_fabric_clkbuf (db : PRIMITIVE_DB) : Bool :=
  decide (db.feature &&& P_IS_FABRIC_CLKBUF ≠ P_IS_NULL)
def PRIMITIVE_DB.is_gearbox_clock (db : PRIMITIVE_DB) : Bool :=
  decide (db.feature &&& P_IS_GEARBOX_CLOCK ≠ P_IS_NULL)
def PRIMITIVE_DB.is_any_inputs (db : PRIMITIVE_DB) : Bool :=
  decide (db.feature &&& P_IS_ANY_INPUTS ≠ P_IS_NULL)
def PRIMITIVE_DB.is_any_outputs (db : PRIMITIVE_DB) : Bool :=
  decide (db.feature &&& P_IS_ANY_OUTPUTS ≠ P_IS_NULL)
def PRIMITIVE_DB.is_optional_input (db : PRIMITIVE_DB) : Bool :=
  decide (db.feature &&& P_IS_OPTIONAL_INPUT ≠ P_IS_NULL)
def PRIMITIVE_DB.is_optional_output (db : PRIMITIVE_DB) : Bool :=
  decide (db.feature &&& P_IS_OPTIONAL_OUTPUT ≠ P_IS_NULL)
def PRIMITIVE_DB.is_lower_fast_clock_priority (db : PRIMITIVE_DB) : Bool :=
  decide (db.feature &&& P_IS_LOWER_FAST_CLOCK_PRIORITY ≠ P_IS_NULL)
def PRIMITIVE_DB.is_in_dir (db : PRIMITIVE_DB) : Bool :=
  decide (db.feature &&& P_IS_IN_DIR ≠ P_IS_NULL)
def PRIMITIVE_DB.is_out_dir (db : PRIMITIVE_DB) : Bool :=
  decide (db.feature &&& P_IS_IN_DIR = P_IS_NULL)

/-- The initializer of the `genesis3` entry of `SUPPORTED_PRIMITIVES`, one
constructor call per descriptor, in source order. -/
def genesis3_initializer : List (Except Fault PRIMITIVE_DB) :=
  [ PRIMITIVE_DB.construct "\\I_BUF" (P_IS_PORT ||| P_IS_IN_DIR)
      ["\\I"] ["\\O"] "" "\\O" "" "" "\\O" [],
    PRIMITIVE_DB.construct "\\I_BUF_DS" (P_IS_PORT ||| P_IS_IN_DIR)
      ["\\I_P", "\\I_N"] ["\\O"] "" "\\O" "" "" "\\O" [],
    PRIMITIVE_DB.construct "\\O_BUF" P_IS_PORT
      ["\\I"] ["\\O"] "" "\\I" "" "" "\\I" [],
    PRIMITIVE_DB.construct "\\O_BUFT" P_IS_PORT
      ["\\I"] ["\\O"] "" "\\I" "" "" "\\I" [],
    PRIMITIVE_DB.construct "\\O_BUF_DS" P_IS_PORT
      ["\\I"] ["\\O_P", "\\O_N"] "" "\\I" "" "" "\\I" [],
    PRIMITIVE_DB.construct "\\O_BUFT_DS" P_IS_PORT
      ["\\I"] ["\\O_P", "\\O_N"] "" "\\I" "" "" "\\I" [],
    PRIMITIVE_DB.construct "\\CLK_BUF"
      (P_IS_PORT_CLOCK ||| P_IS_CLOCK ||| P_IS_GEARBOX_CLOCK ||| P_IS_IN_DIR)
      ["\\I"] ["\\O"] "\\I" "\\O" "" "" "" [],
    PRIMITIVE_DB.construct "\\I_DELAY" (P_IS_IN_DIR ||| P_IS_LOWER_FAST_CLOCK_PRIORITY)
      ["\\I", "\\CLK_IN"] ["\\O"] "\\I" "\\O" "\\CLK_IN" "\\CLK_IN" "\\O" [],
    PRIMITIVE_DB.construct "\\I_DDR" P_IS_IN_DIR
      ["\\D", "\\C"] [] "\\D" "" "\\C" "" "\\Q" [],
    PRIMITIVE_DB.construct "\\I_SERDES" (P_IS_IN_DIR ||| P_IS_OPTIONAL_OUTPUT)
      ["\\D", "\\CLK_IN", "\\PLL_CLK"] ["\\CLK_OUT"] "\\D" "" "\\PLL_CLK" "\\CLK_IN" "\\Q"
      [("MUST_HAVE_PARAMS", "\\WIDTH"), ("DEFINE_DATA_WIDTH_FROM_PARAMS", "\\WIDTH"),
       ("CLK_OUT_PORT", "\\CLK_OUT")],
    PRIMITIVE_DB.construct "\\BOOT_CLOCK" (P_IS_CLOCK ||| P_IS_STANDALONE ||| P_IS_IN_DIR)
      [] ["\\O"] "" "\\O" "" "" "" [],
    PRIMITIVE_DB.construct "\\PLL"
      (P_IS_CLOCK ||| P_IS_GEARBOX_CLOCK ||| P_IS_ANY_OUTPUTS ||| P_IS_IN_DIR)
      ["\\CLK_IN"]
      ["\\CLK_OUT", "\\CLK_OUT_DIV2", "\\CLK_OUT_DIV3", "\\CLK_OUT_DIV4",
       "\\FAST_CLK:NOT_CORE"]
      "\\CLK_IN" "" "" "" "" [],
    PRIMITIVE_DB.construct "\\O_DELAY" P_IS_LOWER_FAST_CLOCK_PRIORITY
      ["\\I", "\\CLK_IN"] ["\\O"] "\\O" "\\I" "\\CLK_IN" "\\CLK_IN" "\\I" [],
    PRIMITIVE_DB.construct "\\O_DDR" P_IS_NULL
      ["\\C"] ["\\Q"] "\\Q" "" "" "\\C" "\\D" [],
    PRIMITIVE_DB.construct "\\O_SERDES" P_IS_NULL
      ["\\CLK_IN", "\\PLL_CLK"] ["\\Q"] "\\Q" "" "\\PLL_CLK" "\\CLK_IN" "\\D"
      [("MUST_HAVE_PARAMS", "\\WIDTH"), ("DEFINE_DATA_WIDTH_FROM_PARAMS", "\\WIDTH")],
    PRIMITIVE_DB.construct "\\O_SERDES_CLK" P_IS_NULL
      ["\\PLL_CLK"] ["\\OUTPUT_CLK"] "\\OUTPUT_CLK" "" "\\PLL_CLK" "" "" [],
    PRIMITIVE_DB.construct "\\FCLK_BUF" (P_IS_FABRIC_CLKBUF ||| P_IS_IN_DIR)
      ["\\I"] ["\\O"] "\\I" "\\O" "" "" "" [] ]

/-- The descriptors of technology `genesis3` (empty should a constructor
assertion fail; `genesis3_initializer_ok` shows that none does). -/
def genesis3_primitives : List PRIMITIVE_DB :=
  match genesis3_initializer.mapM id with
  | .ok dbs => dbs
  | .error _ => []

/-- The table `SUPPORTED_PRIMITIVES`. -/
def SUPPORTED_PRIMITIVES : CppMap (List PRIMITIVE_DB) :=
  [("genesis3".toList, genesis3_primitives)]

/-! ### The netlist as the extractor reads it -/

/-- The conversion `%d` of `stringf` applied to an `int`. -/
def fmt_d (n : Int) : CppString :=
  if n < 0 then '-' :: Nat.toDigits 10 n.natAbs else Nat.toDigits 10 n.toNat

/-- The `int` that `%d` reads when it is handed a `uint32_t`. -/
def int_of_uint32 (n : Nat) : Int :=
  if n % 2 ^ 32 < 2 ^ 31 then ((n % 2 ^ 32 : Nat) : Int)
  else ((n % 2 ^ 32 : Nat) : Int) - 2 ^ 32

/-- An `RTLIL::SigChunk` as `get_chunks` reads it: the wire (its name and
width) or, for a constant, the text `dump_const` prints for it. -/
structure SigChunk where
  wire : Option (CppString × Int)
  const_str : CppString := []
  width : Int
  offset : Int
  deriving DecidableEq, Repr

/-- An `RTLIL::SigSpec`: its chunks and the text that
`RTLIL_BACKEND::dump_sigspec(_, sig, true, true)` prints for it. -/
structure SigSpec where
  chunks : List SigChunk
  dump : CppString
  deriving DecidableEq, Repr

/-- An `RTLIL::Cell`: name, type, the port connections in the order
`cell->connections()` enumerates them, and the parameters with the text
`dump_const` prints for each. -/
structure Cell where
  name : CppString
  type : CppString
  connections : List (CppString × SigSpec)
  parameters : List (CppString × CppString) := []
  deriving DecidableEq, Repr

/-- An `RTLIL::Wire`; `width` and `start_offset` are its two `int` fields. -/
structure Wire where
  name : CppString
  port_input : Bool
  port_output : Bool
  width : Int
  start_offset : Int
  deriving DecidableEq, Repr

/-- The fields `width` and `start_offset` of the wire are in the range of
`int`, as those of every `RTLIL::Wire` are. -/
@[reducible] def Wire.is_int (w : Wire) : Prop :=
  (-2 ^ 31 ≤ w.width ∧ w.width < 2 ^ 31) ∧
    (-2 ^ 31 ≤ w.start_offset ∧ w.start_offset < 2 ^ 31)

/-- An `RTLIL::Module`: wires, cells and alias pairs, each in the order the
netlist enumerates them. -/
structure Module where
  wires : List Wire
  cells : List Cell
  connections : List (SigSpec × SigSpec)
  deriving DecidableEq, Repr

/-- The function `get_chunks`: the per-bit signal names of one chunk. -/
def get_chunks (chunk : SigChunk) : List CppString :=
  match chunk.wire with
  | none =>
    let keyword := fmt_d chunk.width ++ [Char.ofNat 39]
    if find chunk.const_str keyword = 0 ∧
        (chunk.const_str.length : Int) = (keyword.length : Int) + chunk.width then
      (List.range chunk.width.toNat).map (fun i =>
        "__const_bit_".toList ++
          ((chunk.const_str.reverse.drop i).head?.toList) ++ "__".toList)
    else (List.range chunk.width.toNat).map (fun _ => [])
  | some (wname, wwidth) =>
    if wwidth = 1 ∧ chunk.width = 1 ∧ chunk.offset = 0 then [wname]
    else (List.range chunk.width.toNat).map (fun i =>
      c_str wname ++ "[".toList ++ fmt_d (chunk.offset + i) ++ "]".toList)

/-- The function `get_signals`: the per-bit signal names of a signal. -/
def get_signals (sig : SigSpec) : List CppString :=
  sig.chunks.flatMap get_chunks

/-- The function `is_real_net`: neither unconnected nor a constant bit. -/
def is_real_net (net : CppString) : Bool :=
  if net = [] ∨ (net.length > 14 ∧ find net "__const_bit_".toList = 0 ∧
      (net.drop (net.length - 2) = "__".toList)) then false else true

/-! ### Nodes, instances and the extractor state -/

/-- The record `PORT_INFO` of the header, with the constructor's argument
order. -/
structure PORT_INFO where
  dir : IO_DIR
  name : CppString
  fullname : CppString
  realname : CppString
  offset : Int
  index : Int
  width : Nat
  bidir : Bool
  deriving DecidableEq, Repr

/-- A `PRIMITIVE*`: the position of the node in `m_ports` or in
`m_child_primitives`. -/
inductive PrimRef where
  | port (i : Nat)
  | child (i : Nat)
  deriving DecidableEq, Repr

/-- The record `PRIMITIVE`; `inst` is the field `instance`, the position of
the instance in `m_instances`. -/
structure PRIMITIVE where
  db : PRIMITIVE_DB
  name : CppString
  parent : Option PrimRef
  grandparent : Option PrimRef
  connections : CppMap CppString
  is_port_primitive : Bool
  bidir : Bool
  data_width : Int := -2
  parameters : CppMap CppString := []
  child : CppMap PrimRef := []
  child_connections : CppMap (List CppString) := []
  gearbox_clocks : CppMap (List PrimRef) := []
  errors : List CppString := []
  inst : Option Nat := none
  deriving DecidableEq, Repr

/-- The record `PORT_PRIMITIVE`, a `PRIMITIVE` with the port data. -/
structure PORT_PRIMITIVE where
  base : PRIMITIVE
  port_infos : List PORT_INFO
  dir : IO_DIR
  standalone_name : CppString := []
  chain_data_width : Int := -2
  deriving DecidableEq, Repr

/-- The record `INSTANCE`. -/
structure INSTANCE where
  module : CppString
  name : CppString
  linked_objects : List CppString
  primitive : Option PrimRef
  pre_primitive : CppString
  post_primitives : List CppString
  gearbox_clocks : CppMap (List CppString) := []
  connections : CppMap CppString := []
  parameters : CppMap CppString := []
  locations : CppMap CppString := []
  properties : CppMap (CppMap CppString) := []
  flags : List CppString := []
  primary_object : CppString := []
  parsed_location : PARSED_LOCATION := {}
  deriving DecidableEq, Repr

/-- The record `FABRIC_CLOCK`. -/
structure FABRIC_CLOCK where
  linked_object : CppString
  module : CppString
  name : CppString
  iport : CppString
  oport : CppString
  inet : CppString
  onet : CppString
  is_fabric_clkbuf : Bool
  gearboxes : List CppString
  core_logic : Bool
  deriving DecidableEq, Repr

/-- The record `PIN_PORT`. -/
structure PIN_PORT where
  name : CppString
  primitive : PrimRef
  is_input : Bool
  is_standalone : Bool
  is_fabric_clkbuf : Bool
  location : CppString := []
  mode : CppString := []
  traces : List CppString := []
  full_traces : List CppString := []
  skip_reason : CppString := []
  deriving DecidableEq, Repr

/-- The state of a `PRIMITIVES_EXTRACTOR` together with the global
`g_standalone_tracker`.  The diagnostic log `m_msgs` is not kept; the
functions whose messages a property speaks of return them. -/
structure Extractor where
  m_technology : CppString
  m_status : Bool := true
  m_netlist_status : Bool := true
  m_ports : List PORT_PRIMITIVE := []
  m_child_primitives : List PRIMITIVE := []
  m_instances : List INSTANCE := []
  m_fabric_clocks : List FABRIC_CLOCK := []
  m_pin_infos : List PIN_PORT := []
  m_location_mode : CppMap CppString := []
  g_standalone_tracker : CppMap Nat := []
  deriving DecidableEq, Repr

/-- Reading through a `PRIMITIVE*`. -/
def Extractor.deref (st : Extractor) : PrimRef → Except Fault PRIMITIVE
  | .port i =>
    match st.m_ports[i]? with
    | some p => .ok p.base
    | none => .error .null_deref
  | .child i =>
    match st.m_child_primitives[i]? with
    | some c => .ok c
    | none => .error .null_deref

/-- Writing through a `PRIMITIVE*`. -/
def Extractor.update (st : Extractor) (r : PrimRef) (f : PRIMITIVE → PRIMITIVE) :
    Extractor :=
  match r with
  | .port i =>
    { st with m_ports := st.m_ports.modify (fun p => { p with base := f p.base }) i }
  | .child i =>
    { st with m_child_primitives := st.m_child_primitives.modify f i }

/-- The method `is_supported_primitive`: the first ready descriptor with the
name, provided it meets the requirement. -/
def is_supported_primitive_in (name : CppString) (req : PRIMITIVE_REQ) :
    List PRIMITIVE_DB → Option PRIMITIVE_DB
  | [] => none
  | d :: rest =>
    if d.is_ready && decide (d.name = name) then
      if req = PRIMITIVE_REQ.DONT_CARE ∨
          (req = PRIMITIVE_REQ.IS_PORT ∧ d.is_port = true) ∨
          (req = PRIMITIVE_REQ.NOT_PORT ∧ d.is_port = false) ∨
          (req = PRIMITIVE_REQ.IS_STANDALONE ∧ d.is_standalone = true) ∨
          (req = PRIMITIVE_REQ.IS_FABRIC_CLKBUF ∧ d.is_fabric_clkbuf = true) then
        some d
      else none
    else is_supported_primitive_in name req rest

/-- The method `is_supported_primitive` on the table of the technology
(`SUPPORTED_PRIMITIVES.at` throws for an unknown technology). -/
def is_supported_primitive (st : Extractor) (name : CppString) (req : PRIMITIVE_REQ) :
    Except Fault (Option PRIMITIVE_DB) := do
  let table ← CppMap.at SUPPORTED_PRIMITIVES st.m_technology
  pure (is_supported_primitive_in name req table)

/-! ### Chain tracing -/

/-- The constructor of `PRIMITIVE`: the chain root (`grandparent`) is the
parent when the parent has none, and the parent's chain root otherwise. -/
def PRIMITIVE.construct (st : Extractor) (d : PRIMITIVE_DB) (n : CppString)
    (p : Option PrimRef) (c : CppMap CppString) (i b : Bool) :
    Except Fault PRIMITIVE :=
  match p with
  | none =>
    .ok { db := d, name := n, parent := none, grandparent := none, connections := c,
          is_port_primitive := i, bidir := b }
  | some pr => do
    let parent ← st.deref pr
    pure { db := d, name := n, parent := some pr,
           grandparent := if parent.grandparent = none then some pr else parent.grandparent,
           connections := c, is_port_primitive := i, bidir := b }

/-- The method `PRIMITIVE::get_outtrace_connection`. -/
def PRIMITIVE.get_outtrace_connection (p : PRIMITIVE) : Except Fault CppString :=
  if CppMap.contains p.connections p.db.outtrace_connection then
    CppMap.at p.connections p.db.outtrace_connection
  else .error .assertion

/-- The first loop of `get_primitive_parameters`: copy the cell
parameters. -/
def copy_parameters (params : List (CppString × CppString))
    (m : CppMap CppString) : CppMap CppString :=
  params.foldl (fun acc kv => CppMap.set acc kv.1 kv.2) m

/-- The `MUST_HAVE_PARAMS` check of `get_primitive_parameters`. -/
def check_must_have_params (primitive : PRIMITIVE) : Except Fault Unit :=
  if CppMap.contains primitive.db.properties "MUST_HAVE_PARAMS".toList then do
    let param ← CppMap.at primitive.db.properties "MUST_HAVE_PARAMS".toList
    if param.length = 0 then throw Fault.assertion
    let params ← split_string param ";".toList
    if params.any (fun q => !CppMap.contains primitive.parameters q) then
      throw Fault.assertion
  else pure ()

/-- The `DEFINE_DATA_WIDTH_FROM_PARAMS` part of `get_primitive_parameters`:
the data width read from the parameter is stored in the node and in its
chain root, which is cast to `PORT_PRIMITIVE`. -/
def define_data_width (st : Extractor) (r : PrimRef) (primitive : PRIMITIVE) :
    Except Fault Extractor :=
  if CppMap.contains primitive.db.properties "DEFINE_DATA_WIDTH_FROM_PARAMS".toList then do
    let param ← CppMap.at primitive.db.properties "DEFINE_DATA_WIDTH_FROM_PARAMS".toList
    if param.length = 0 then throw Fault.assertion
    if !CppMap.contains primitive.parameters param then throw Fault.assertion
    let param ← CppMap.at primitive.parameters param
    let data_width ← stoi param
    let st := st.update r (fun p => { p with data_width := data_width })
    if ¬ data_width > 0 then throw Fault.assertion
    if primitive.is_port_primitive then throw Fault.assertion
    match primitive.grandparent with
    | none => throw Fault.assertion
    | some g =>
      let ptr ← st.deref g
      if !ptr.is_port_primitive then throw Fault.assertion
      match g with
      | .port i =>
        pure { st with m_ports :=
          st.m_ports.modify (fun q => { q with chain_data_width := data_width }) i }
      | .child _ => throw Fault.bad_cast
  else pure st

/-- The method `get_primitive_parameters(cell, primitive)`. -/
def get_primitive_parameters (st : Extractor) (cell : Cell) (r : PrimRef) :
    Except Fault Extractor := do
  let st := st.update r (fun p =>
    { p with parameters := copy_parameters cell.parameters p.parameters })
  let primitive ← st.deref r
  check_must_have_params primitive
  define_data_width st r primitive

/-- The connection loop of `is_connected_cell`: the connections on declared
ports and the numbers of connected inputs and outputs. -/
def connected_ports (db : PRIMITIVE_DB) :
    List (CppString × SigSpec) → CppMap CppString × Nat × Nat →
      CppMap CppString × Nat × Nat
  | [], acc => acc
  | it :: rest, (connections, input_connections, output_connections) =>
    let is_input := decide (it.1 ∈ db.inputs)
    let is_output := !is_input && decide (it.1 ∈ db.outputs)
    if is_input || is_output then
      connected_ports db rest
        (CppMap.set connections it.1 it.2.dump,
         if is_input then input_connections + 1 else input_connections,
         if is_output then output_connections + 1 else output_connections)
    else connected_ports db rest (connections, input_connections, output_connections)

/-- The search loop of `is_connected_cell` over the checking ports. -/
def checking_port_found (connections : CppMap CppString) (connection : CppString) :
    List CppString → Except Fault Bool
  | [] => .ok false
  | key :: rest => do
    let net ← CppMap.at connections key
    if net = connection then pure true
    else checking_port_found connections connection rest

/-- The method `is_connected_cell(cell, db, connection)`. -/
def is_connected_cell (cell : Cell) (db : PRIMITIVE_DB) (connection : CppString) :
    Except Fault (CppMap CppString) := do
  if cell.type ≠ db.name then throw Fault.assertion
  let total_expected_connections := db.inputs.length + db.outputs.length
  if total_expected_connections = 0 then throw Fault.assertion
  let (connections, input_connections, output_connections) :=
    connected_ports db cell.connections ([], 0, 0)
  if (db.inputs.length = input_connections ∨
        (db.is_any_inputs = true ∧ input_connections > 0) ∨
        db.is_optional_input = true) ∧
      (db.outputs.length = output_connections ∨
        (db.is_any_outputs = true ∧ output_connections > 0) ∨
        db.is_optional_output = true) then do
    let found ← checking_port_found connections connection db.get_checking_ports
    if found then pure connections else pure []
  else pure []

/-- The inner loop over one alias pair in the recursive
`trace_next_primitive`: the destination of the first bit whose source is
the traced net. -/
def first_alias_dest (src_is_right : Bool) (connection : CppString) :
    List CppString → List CppString → Option CppString
  | l :: left, r :: right =>
    let src := if src_is_right then r else l
    let dest := if src_is_right then l else r
    if src = connection then some dest
    else first_alias_dest src_is_right connection left right
  | _, _ => none

/-- The loop over `module->connections()` in the recursive
`trace_next_primitive`; `call` is the recursive call on the destination
net. -/
def trace_alias_pairs (call : Extractor → CppString → Except Fault (Bool × Extractor))
    (parent : PrimRef) (cell : Cell) (src_is_right : Bool) (connection : CppString) :
    List (SigSpec × SigSpec) → Extractor → Except Fault (Bool × Extractor)
  | [], st => .ok (false, st)
  | it :: rest, st =>
    let left_signals := get_signals it.1
    let right_signals := get_signals it.2
    if left_signals.length ≠ right_signals.length then .error .assertion
    else
      match first_alias_dest src_is_right connection left_signals right_signals with
      | none => trace_alias_pairs call parent cell src_is_right connection rest st
      | some dest =>
        match call st dest with
        | .error e => .error e
        | .ok (found, st) =>
          if found then
            .ok (true, st.update parent (fun p =>
              let path := (CppMap.find p.child_connections cell.name).getD []
              let child_connections := CppMap.set p.child_connections cell.name (dest :: path)
              { p with child_connections := child_connections }))
          else trace_alias_pairs call parent cell src_is_right connection rest st

/-- The successful branch of the recursive `trace_next_primitive`: the new
node is appended to `m_child_primitives`, entered in the child map of its
parent under the cell name, and given its parameters. -/
def attach_child (st : Extractor) (parent : PrimRef) (parentNode : PRIMITIVE) (cell : Cell)
    (db : PRIMITIVE_DB) (connections : CppMap CppString) : Except Fault Extractor := do
  let node ← PRIMITIVE.construct st db cell.name (some parent) connections false
    parentNode.bidir
  let ref := PrimRef.child st.m_child_primitives.length
  let st := { st with m_child_primitives := st.m_child_primitives ++ [node] }
  let st := st.update parent (fun p => { p with child := CppMap.set p.child cell.name ref })
  get_primitive_parameters st cell ref

/-- The recursive helper `trace_next_primitive(module, parent, cell,
connection)`; the fuel bounds the number of alias hops. -/
def trace_next_primitive_rec (module : Module) :
    Nat → Extractor → PrimRef → Cell → CppString → Except Fault (Bool × Extractor)
  | 0, _, _, _, _ => .error .out_of_fuel
  | fuel + 1, st, parent, cell, connection =>
    match st.deref parent with
    | .error e => .error e
    | .ok parentNode =>
      if CppMap.contains parentNode.child cell.name then .error .assertion
      else
        match is_supported_primitive st cell.type PRIMITIVE_REQ.NOT_PORT with
        | .error e => .error e
        | .ok none => .error .assertion
        | .ok (some db) =>
          match is_connected_cell cell db connection with
          | .error e => .error e
          | .ok connections =>
            if connections.length ≠ 0 then
              match attach_child st parent parentNode cell db connections with
              | .error e => .error e
              | .ok st => .ok (true, st)
            else
              trace_alias_pairs
                (fun st dest => trace_next_primitive_rec module fuel st parent cell dest)
                parent cell db.is_in_dir connection module.connections st

/-- The access `primitive->child_connections[name]` with which the entry
function `trace_next_primitive` lists the path of a child it has found:
`operator[]` enters an empty path for a child that has none. -/
def touch_child_connections (st : Extractor) (primitive : PrimRef) (name : CppString) :
    Extractor :=
  st.update primitive (fun p =>
    if CppMap.contains p.child_connections name then p
    else { p with child_connections := CppMap.set p.child_connections name [] })

/-- The cell loop of the entry function `trace_next_primitive` for one
source primitive. -/
def trace_cells (module : Module) (fuel : Nat) (src_primitive_name
    dest_primitive_name : CppString) (primitive : PrimRef) :
    List Cell → Extractor → Except Fault Extractor
  | [], st => .ok st
  | cell :: cells, st =>
    match st.deref primitive with
    | .error e => .error e
    | .ok node =>
      if node.db.name = src_primitive_name ∧ cell.type = dest_primitive_name then
        match node.get_outtrace_connection with
        | .error e => .error e
        | .ok trace_connection =>
          match trace_next_primitive_rec module fuel st primitive cell trace_connection with
          | .error e => .error e
          | .ok (found, st) =>
            trace_cells module fuel src_primitive_name dest_primitive_name primitive cells
              (if found then touch_child_connections st primitive cell.name else st)
      else trace_cells module fuel src_primitive_name dest_primitive_name primitive cells st

/-- The loop of the entry function `trace_next_primitive` over the source
primitives collected at its start. -/
def trace_sources (module : Module) (fuel : Nat) (src_primitive_name
    dest_primitive_name : CppString) : List PrimRef → Extractor → Except Fault Extractor
  | [], st => .ok st
  | primitive :: rest, st =>
    match trace_cells module fuel src_primitive_name dest_primitive_name primitive
        module.cells st with
    | .error e => .error e
    | .ok st => trace_sources module fuel src_primitive_name dest_primitive_name rest st

/-- The entry function `trace_next_primitive(module, src_primitive_name,
dest_primitive_name)`. -/
def trace_next_primitive (module : Module) (fuel : Nat) (st : Extractor)
    (src_primitive_name dest_primitive_name : CppString) : Except Fault Extractor := do
  let src_primitive ← is_supported_primitive st src_primitive_name PRIMITIVE_REQ.DONT_CARE
  match src_primitive with
  | none => throw Fault.assertion
  | some src_primitive =>
    let src_primitives : List PrimRef :=
      if src_primitive.is_port || src_primitive.is_standalone then
        (List.range st.m_ports.length).map PrimRef.port
      else (List.range st.m_child_primitives.length).map PrimRef.child
    trace_sources module fuel src_primitive_name dest_primitive_name src_primitives st

/-! ### Port and root discovery -/

/-- The sum of two `int`s as an `int`: the sum of the two numbers, wrapped
around into the range of `int` when it leaves it. -/
def int_add (a b : Int) : Int := (a + b + 2 ^ 31) % 2 ^ 32 - 2 ^ 31

/-- The wire loop body of `get_ports` for one wire: the port records of its
bits, an inout bit giving an input-side and an output-side record. The bit
number of the real name and of the offset is the `int` sum
`wire->start_offset + index`. -/
def wire_port_infos (wire : Wire) : List PORT_INFO :=
  let dir : IO_DIR :=
    if wire.port_input ∧ ¬ wire.port_output then IO_DIR.IN
    else if ¬ wire.port_input ∧ wire.port_output then IO_DIR.OUT
    else if wire.port_input ∧ wire.port_output then IO_DIR.INOUT
    else IO_DIR.UNKNOWN
  if dir = IO_DIR.IN ∨ dir = IO_DIR.OUT ∨ dir = IO_DIR.INOUT then
    (List.range wire.width.toNat).flatMap (fun i =>
      let index : Int := i
      let port_name := wire.name
      let port_fullname :=
        if wire.width > 1 then c_str wire.name ++ "[".toList ++ fmt_d index ++ "]".toList
        else wire.name
      let port_realname :=
        if wire.width > 1 then
          c_str wire.name ++ "[".toList ++ fmt_d (int_add wire.start_offset index) ++
            "]".toList
        else wire.name
      let width : Nat := (wire.width % 2 ^ 32).toNat
      let first : PORT_INFO :=
        { dir := if dir = IO_DIR.INOUT then IO_DIR.IN else dir, name := port_name,
          fullname := port_fullname, realname := port_realname,
          offset := int_add wire.start_offset index, index := index, width := width,
          bidir := decide (dir = IO_DIR.INOUT) }
      if dir = IO_DIR.INOUT then
        [first, { first with dir := IO_DIR.OUT }]
      else [first])
  else []

/-- The connection loop of `get_port_cell_connections`: the primary and
the secondary connections; a port met twice fails the assertion. -/
def port_cell_connections (db : PRIMITIVE_DB) :
    List (CppString × SigSpec) → CppMap CppString × CppMap CppString →
      Except Fault (CppMap CppString × CppMap CppString)
  | [], acc => .ok acc
  | it :: rest, (primary_connections, secondary_connections) =>
    let is_input := decide (it.1 ∈ db.inputs)
    let is_output := !is_input && decide (it.1 ∈ db.outputs)
    if is_input || is_output then
      if (db.is_in_dir && is_input) || (db.is_out_dir && is_output) then
        if CppMap.contains primary_connections it.1 then .error .assertion
        else port_cell_connections db rest
          (CppMap.set primary_connections it.1 it.2.dump, secondary_connections)
      else
        if CppMap.contains secondary_connections it.1 then .error .assertion
        else port_cell_connections db rest
          (primary_connections, CppMap.set secondary_connections it.1 it.2.dump)
    else port_cell_connections db rest (primary_connections, secondary_connections)

/-- The method `get_port_cell_connections`: its status and the two maps. -/
def get_port_cell_connections (cell : Cell) (db : PRIMITIVE_DB) :
    Except Fault (Bool × CppMap CppString × CppMap CppString) := do
  if !(db.is_port || db.is_standalone) then throw Fault.assertion
  if cell.type ≠ db.name then throw Fault.assertion
  let checking_ports := db.get_checking_ports
  if !(decide (checking_ports.length ≠ 0) || db.is_standalone) then throw Fault.assertion
  let (primary_connections, secondary_connections) ←
    port_cell_connections db cell.connections ([], [])
  pure (decide (checking_ports.length = primary_connections.length),
        primary_connections, secondary_connections)

/-- The references that `get_connected_port` updates. -/
structure PortSearch where
  port_trackers : List Nat := []
  connected_ports : List PORT_INFO := []
  is_bidir : Bool := false
  m_netlist_status : Bool := true
  deriving DecidableEq, Repr

/-- The `while` loop of `get_connected_port`: position of the first port
record with the net and the direction, counted from `index`. -/
def find_port_info (connection : CppString) (dir : IO_DIR) :
    List PORT_INFO → Nat → Option (Nat × PORT_INFO)
  | [], _ => none
  | info :: rest, index =>
    if connection = info.fullname ∧ dir = info.dir then some (index, info)
    else find_port_info connection dir rest (index + 1)

/-- The loop over `module->connections()` in `get_connected_port`; `call` is
the recursive call on the destination net. -/
def port_alias_pairs (call : PortSearch → CppString → Except Fault (Bool × PortSearch))
    (dir : IO_DIR) (connection : CppString) :
    List (SigSpec × SigSpec) → PortSearch → Except Fault (Bool × PortSearch)
  | [], ps => .ok (false, ps)
  | it :: rest, ps =>
    let left_signals := get_signals it.1
    let right_signals := get_signals it.2
    if left_signals.length ≠ right_signals.length then .error .assertion
    else
      match first_alias_dest (decide (dir ≠ IO_DIR.IN)) connection left_signals
          right_signals with
      | none => port_alias_pairs call dir connection rest ps
      | some dest =>
        match call ps dest with
        | .error e => .error e
        | .ok (status, ps) =>
          if status then .ok (true, ps)
          else port_alias_pairs call dir connection rest ps

/-- The method `get_connected_port`; the fuel bounds the number of alias
hops and `loop` is the recursion depth the source passes along. -/
def get_connected_port (module : Module) (connection : CppString) (dir : IO_DIR)
    (port_infos : List PORT_INFO) :
    Nat → PortSearch → Nat → Except Fault (Bool × PortSearch)
  | 0, _, _ => .error .out_of_fuel
  | fuel + 1, ps, loop =>
    if ps.port_trackers.length > port_infos.length then .error .assertion
    else
      match find_port_info connection dir port_infos 0 with
      | some (index, info) =>
        .ok (true,
          { ps with is_bidir := ps.is_bidir || info.bidir,
                    connected_ports := ps.connected_ports ++ [info],
                    port_trackers :=
                      if index ∈ ps.port_trackers then ps.port_trackers
                      else ps.port_trackers ++ [index] })
      | none =>
        match port_alias_pairs
            (fun ps dest => get_connected_port module dest dir port_infos fuel ps (loop + 1))
            dir connection module.connections ps with
        | .error e => .error e
        | .ok (status, ps) =>
          if !status && decide (loop = 0) then
            .ok (status, { ps with m_netlist_status := false })
          else .ok (status, ps)

/-- The constructor of `PORT_PRIMITIVE`, which also advances
`g_standalone_tracker`; the result is the new root and the tracker. -/
def PORT_PRIMITIVE.construct (tracker : CppMap Nat) (db : PRIMITIVE_DB) (p : CppString)
    (c : CppMap CppString) (ps : List PORT_INFO) (b : Bool) :
    Except Fault (PORT_PRIMITIVE × CppMap Nat) := do
  let base : PRIMITIVE :=
    { db := db, name := p, parent := none, grandparent := none, connections := c,
      is_port_primitive := true, bidir := b }
  let dir : IO_DIR :=
    if db.is_standalone || db.is_fabric_clkbuf then IO_DIR.IN
    else match ps with
      | info :: _ => info.dir
      | [] => IO_DIR.UNKNOWN
  if !(decide (ps.length ≠ 0) || db.is_standalone || db.is_fabric_clkbuf) then
    throw Fault.assertion
  if !(decide (dir = IO_DIR.IN) || decide (dir = IO_DIR.OUT)) then throw Fault.assertion
  if ps.any (fun port => decide (dir ≠ port.dir)) then throw Fault.assertion
  if db.is_standalone || db.is_fabric_clkbuf then
    let standalone_name :=
      if db.is_standalone then get_original_name db.name else "FABRIC_CLKBUF".toList
    let tracker :=
      if CppMap.contains tracker standalone_name then tracker
      else CppMap.set tracker standalone_name 0
    let index := (CppMap.find tracker standalone_name).getD 0
    let tracker := CppMap.set tracker standalone_name ((index + 1) % 2 ^ 32)
    pure ({ base := base, port_infos := ps, dir := dir,
            standalone_name :=
              c_str standalone_name ++ "#".toList ++ fmt_d (int_of_uint32 index) },
          tracker)
  else pure ({ base := base, port_infos := ps, dir := dir }, tracker)

/-- The loop of `trace_and_create_port` over the primary connections of a
cell. -/
def connect_primary (module : Module) (fuel : Nat) (dir : IO_DIR)
    (port_infos : List PORT_INFO) :
    List (CppString × CppString) → PortSearch → Except Fault (Bool × PortSearch)
  | [], ps => .ok (true, ps)
  | iter :: rest, ps =>
    match get_connected_port module iter.2 dir port_infos fuel ps 0 with
    | .error e => .error e
    | .ok (status, ps) =>
      if !status then .ok (false, { ps with m_netlist_status := false })
      else connect_primary module fuel dir port_infos rest ps

/-- The cell loop of `trace_and_create_port`; `port_trackers` lives across
the cells. -/
def trace_and_create_port_cells (module : Module) (fuel : Nat)
    (port_infos : List PORT_INFO) :
    List Cell → List Nat → Extractor → Except Fault Extractor
  | [], _, st => .ok st
  | cell :: cells, port_trackers, st => do
    let db1 ← is_supported_primitive st cell.type PRIMITIVE_REQ.IS_PORT
    let db ← match db1 with
      | some d => pure (some d)
      | none => is_supported_primitive st cell.type PRIMITIVE_REQ.IS_STANDALONE
    match db with
    | none => trace_and_create_port_cells module fuel port_infos cells port_trackers st
    | some db =>
      let (ok, primary_connections, secondary_connections) ←
        get_port_cell_connections cell db
      if ok then do
        let (status, ps) ← connect_primary module fuel
          (if db.is_in_dir then IO_DIR.IN else IO_DIR.OUT) port_infos primary_connections
          { port_trackers := port_trackers, m_netlist_status := st.m_netlist_status }
        let st := { st with m_netlist_status := ps.m_netlist_status }
        if status then do
          let connections :=
            secondary_connections.foldl (fun m it => CppMap.set m it.1 it.2)
              (primary_connections.foldl (fun m it => CppMap.set m it.1 it.2) [])
          let (port, tracker) ← PORT_PRIMITIVE.construct st.g_standalone_tracker db
            cell.name connections ps.connected_ports ps.is_bidir
          let index := st.m_ports.length
          let st := { st with m_ports := st.m_ports ++ [port],
                              g_standalone_tracker := tracker }
          let st ← get_primitive_parameters st cell (.port index)
          trace_and_create_port_cells module fuel port_infos cells ps.port_trackers st
        else
          trace_and_create_port_cells module fuel port_infos cells ps.port_trackers st
      else
        trace_and_create_port_cells module fuel port_infos cells port_trackers
          { st with m_netlist_status := false }

/-- The method `trace_and_create_port`. -/
def trace_and_create_port (module : Module) (fuel : Nat) (port_infos : List PORT_INFO)
    (st : Extractor) : Except Fault Extractor :=
  trace_and_create_port_cells module fuel port_infos module.cells [] st

/-- The method `get_ports`: the value returned and the state. -/
def get_ports (module : Module) (fuel : Nat) (st : Extractor) :
    Except Fault (Bool × Extractor) := do
  if st.m_ports.length ≠ 0 then throw Fault.assertion
  if !st.m_status then throw Fault.assertion
  let port_infos := module.wires.flatMap wire_port_infos
  if port_infos.length ≠ 0 then do
    let st ← trace_and_create_port module fuel port_infos st
    pure (st.m_status, st)
  else
    pure (false, { st with m_status := false })

/-! ### Fabric clock buffers and gearbox fast clocks -/

/-- The connection loop of `trace_fabric_clkbuf`: the input net, the output
net and the connections kept. -/
def clkbuf_nets (db_input db_output : CppString) :
    List (CppString × SigSpec) → CppString × CppString × CppMap CppString →
      CppString × CppString × CppMap CppString
  | [], acc => acc
  | it :: rest, (input_net, output_net, connections) =>
    if it.1 = db_input then
      match get_signals it.2 with
      | [sig] =>
        if is_real_net sig then
          clkbuf_nets db_input db_output rest (sig, output_net, CppMap.set connections it.1 sig)
        else clkbuf_nets db_input db_output rest (input_net, output_net, connections)
      | _ => clkbuf_nets db_input db_output rest (input_net, output_net, connections)
    else if it.1 = db_output then
      match get_signals it.2 with
      | [sig] =>
        if is_real_net sig then
          clkbuf_nets db_input db_output rest (input_net, sig, CppMap.set connections it.1 sig)
        else clkbuf_nets db_input db_output rest (input_net, output_net, connections)
      | _ => clkbuf_nets db_input db_output rest (input_net, output_net, connections)
    else clkbuf_nets db_input db_output rest (input_net, output_net, connections)

/-- The connection loop over one fabric cell in `trace_fabric_clkbuf`. -/
def fabric_cell_touches (input_net output_net : CppString) :
    List (CppString × SigSpec) → Bool × Bool → Bool × Bool
  | [], acc => acc
  | it :: rest, (i, o) =>
    match get_signals it.2 with
    | [sig] =>
      if sig = input_net then fabric_cell_touches input_net output_net rest (true, o)
      else if sig = output_net then fabric_cell_touches input_net output_net rest (i, true)
      else fabric_cell_touches input_net output_net rest (i, o)
    | _ => fabric_cell_touches input_net output_net rest (i, o)

/-- The loop of `trace_fabric_clkbuf` over the secondary cells. -/
def connected_to_fabric (st : Extractor) (input_net output_net : CppString) :
    List Cell → Bool × Bool → Except Fault (Bool × Bool)
  | [], acc => .ok acc
  | secondary_cell :: rest, acc => do
    let fdb ← is_supported_primitive st secondary_cell.type PRIMITIVE_REQ.DONT_CARE
    match fdb with
    | some _ => connected_to_fabric st input_net output_net rest acc
    | none =>
      let acc := fabric_cell_touches input_net output_net secondary_cell.connections acc
      if acc.1 && acc.2 then pure acc
      else connected_to_fabric st input_net output_net rest acc

/-- The cell loop of `trace_fabric_clkbuf`. -/
def trace_fabric_clkbuf_cells (module : Module) :
    List Cell → Extractor → Except Fault Extractor
  | [], st => .ok st
  | cell :: cells, st => do
    let db ← is_supported_primitive st cell.type PRIMITIVE_REQ.IS_FABRIC_CLKBUF
    match db with
    | none => trace_fabric_clkbuf_cells module cells st
    | some db =>
      match db.inputs, db.outputs with
      | [db_input], [db_output] =>
        let (input_net, output_net, connections) :=
          clkbuf_nets db_input db_output cell.connections ([], [], [])
        if input_net.length > 0 ∧ output_net.length > 0 then do
          let touched ← connected_to_fabric st input_net output_net module.cells
            (false, false)
          if touched.1 && touched.2 then do
            let (port, tracker) ← PORT_PRIMITIVE.construct st.g_standalone_tracker db
              cell.name connections [] false
            trace_fabric_clkbuf_cells module cells
              { st with m_ports := st.m_ports ++ [port], g_standalone_tracker := tracker }
          else trace_fabric_clkbuf_cells module cells st
        else trace_fabric_clkbuf_cells module cells st
      | _, _ => throw Fault.assertion

/-- The method `trace_fabric_clkbuf`. -/
def trace_fabric_clkbuf (module : Module) (st : Extractor) : Except Fault Extractor :=
  trace_fabric_clkbuf_cells module module.cells st

/-- The search of `trace_gearbox_fast_clock` for a chain member with a
fast-clock port of normal priority. -/
def high_priority_fast_clock (primitive : PRIMITIVE) : List PRIMITIVE → CppString
  | [] => []
  | second_primitive :: rest =>
    if primitive.name ≠ second_primitive.name ∧
        primitive.grandparent = second_primitive.grandparent ∧
        second_primitive.db.fast_clock.length > 0 ∧
        second_primitive.db.is_lower_fast_clock_priority = false then
      c_str second_primitive.db.name ++ " ".toList ++ c_str second_primitive.name
    else high_priority_fast_clock primitive rest

/-- The output loop over one gearbox clock primitive in
`trace_gearbox_fast_clock`: the first output that carries the clock. -/
def clock_output (clock : CppString) (connections : CppMap CppString) :
    List CppString → Option CppString
  | [] => none
  | clock_o :: rest =>
    if CppMap.find connections clock_o = some clock then some clock_o
    else clock_output clock connections rest

/-- The search of `trace_gearbox_fast_clock` for the producer of a clock:
its position in `m_child_primitives` and its output port. -/
def clock_producer (clock : CppString) : List PRIMITIVE → Nat → Option (Nat × CppString)
  | [], _ => none
  | clock_primitive :: rest, index =>
    if clock_primitive.db.is_gearbox_clock then
      match clock_output clock clock_primitive.connections clock_primitive.db.outputs with
      | some clock_o => some (index, clock_o)
      | none => clock_producer clock rest (index + 1)
    else clock_producer clock rest (index + 1)

/-- The body of the loop of `trace_gearbox_fast_clock` for the child at
position `index`. -/
def trace_gearbox_fast_clock_step (st : Extractor) (index : Nat) :
    Except Fault Extractor := do
  let primitive ← st.deref (.child index)
  let need_fast_clock := decide (primitive.db.fast_clock.length > 0)
  let high_priority_fast_clock_primitive :=
    if need_fast_clock && primitive.db.is_lower_fast_clock_priority then
      high_priority_fast_clock primitive st.m_child_primitives
    else []
  if need_fast_clock then do
    if primitive.db.is_clock then throw Fault.assertion
    if !CppMap.contains primitive.connections primitive.db.fast_clock then
      throw Fault.assertion
    let clock ← CppMap.at primitive.connections primitive.db.fast_clock
    if high_priority_fast_clock_primitive.length ≠ 0 then pure st
    else
      match clock_producer clock st.m_child_primitives 0 with
      | some (producer, clock_o) =>
        let port_name := get_original_name clock_o
        pure (st.update (.child producer) (fun q =>
          let consumers := (CppMap.find q.gearbox_clocks port_name).getD []
          let gearbox_clocks := CppMap.set q.gearbox_clocks port_name
            (consumers ++ [PrimRef.child index])
          { q with gearbox_clocks := gearbox_clocks }))
      | none =>
        let msg := c_str primitive.db.name ++ " ".toList ++ c_str primitive.name ++
          " fast clock port ".toList ++ c_str primitive.db.fast_clock ++
          " (net: ".toList ++ c_str clock ++ ") is not routable".toList
        let st := st.update (.child index) (fun q => { q with errors := q.errors ++ [msg] })
        pure { st with m_netlist_status := false }
  else pure st

/-- The loop of `trace_gearbox_fast_clock` over the positions of
`m_child_primitives`. -/
def trace_gearbox_fast_clock_loop : List Nat → Extractor → Except Fault Extractor
  | [], st => .ok st
  | index :: rest, st => do
    let st ← trace_gearbox_fast_clock_step st index
    trace_gearbox_fast_clock_loop rest st

/-- The method `trace_gearbox_fast_clock`. -/
def trace_gearbox_fast_clock (st : Extractor) : Except Fault Extractor :=
  trace_gearbox_fast_clock_loop (List.range st.m_child_primitives.length) st

/-! ### Instance generation -/

/-- The `while` loop of `sort_name`, collecting the pieces between `+` in a
`std::set`; the fuel bounds the number of rounds. -/
def sort_name_split : Nat → CppString → CppMap Unit → Except Fault (CppString × CppMap Unit)
  | 0, _, _ => .error .out_of_fuel
  | n + 1, names, sorted_names =>
    let index := find names "+".toList
    if index ≠ npos then
      if index = 0 then .error .assertion
      else do
        let piece ← substr names 0 index
        let names ← substr names (index + 1)
        sort_name_split n names (CppMap.set sorted_names piece ())
    else .ok (names, sorted_names)

/-- The helper `sort_name`. -/
def sort_name (names : CppString) : Except Fault CppString := do
  let (names, sorted_names) ← sort_name_split (names.length + 1) names []
  if names.length = 0 then throw Fault.assertion
  let sorted_names := CppMap.set sorted_names names ()
  pure (sorted_names.foldl (fun acc it =>
    if acc.length ≠ 0 then c_str acc ++ "+".toList ++ c_str it.1 else it.1) [])

/-- The string that the loops of `linked_object()` build and hand to
`sort_name`: every name with a `+` in front, the first character erased. -/
def join_plus (objects : List CppString) : CppString :=
  (objects.foldl (fun name o => c_str name ++ "+".toList ++ c_str o) []).drop 1

/-- The method `PORT_PRIMITIVE::linked_objects`. -/
def PORT_PRIMITIVE.linked_objects (p : PORT_PRIMITIVE) : List CppString :=
  if p.base.db.is_standalone || p.base.db.is_fabric_clkbuf then [p.standalone_name]
  else p.port_infos.map (fun port => get_original_name port.realname)

/-- The method `PORT_PRIMITIVE::linked_object`. -/
def PORT_PRIMITIVE.linked_object (p : PORT_PRIMITIVE) : Except Fault CppString :=
  if p.base.db.is_standalone || p.base.db.is_fabric_clkbuf then sort_name p.standalone_name
  else sort_name (join_plus (p.port_infos.map (fun port => get_original_name port.realname)))

/-- The method `INSTANCE::linked_object`. -/
def INSTANCE.linked_object (i : INSTANCE) : Except Fault CppString :=
  sort_name (join_plus i.linked_objects)

/-- The method `INSTANCE::add_connections`. -/
def INSTANCE.add_connections (i : INSTANCE) (cs : List (CppString × CppString)) :
    INSTANCE :=
  { i with connections := cs.foldl (fun m it =>
      CppMap.set m (get_original_name it.1) (get_original_name it.2)) i.connections }

/-- The method `INSTANCE::add_parameters`. -/
def INSTANCE.add_parameters (i : INSTANCE) (ps : List (CppString × CppString)) :
    INSTANCE :=
  { i with parameters := ps.foldl (fun m it =>
      CppMap.set m (get_original_name it.1) (get_param_string it.2)) i.parameters }

/-- The names `get_original_name(p->name)` of the primitives behind a list
of pointers. -/
def original_names (st : Extractor) : List PrimRef → Except Fault (List CppString)
  | [] => .ok []
  | r :: rest => do
    let p ← st.deref r
    let names ← original_names st rest
    pure (get_original_name p.name :: names)

/-- The gearbox clock loop of the `INSTANCE` constructor. -/
def instance_gearbox_clocks (st : Extractor) :
    List (CppString × List PrimRef) → CppMap (List CppString) →
      Except Fault (CppMap (List CppString))
  | [], m => .ok m
  | gc :: rest, m => do
    let names ← original_names st gc.2
    instance_gearbox_clocks st rest (CppMap.set m gc.1 names)

/-- The constructor of `INSTANCE`. -/
def INSTANCE.construct (st : Extractor) (m n : CppString) (ls : List CppString)
    (p : Option PrimRef) (pre : CppString) (post : List CppString)
    (gcs : CppMap (List PrimRef)) : Except Fault INSTANCE := do
  if ls.length = 0 then throw Fault.assertion
  let gearbox_clocks ← instance_gearbox_clocks st gcs []
  pure { module := get_original_name m, name := get_original_name n,
         linked_objects := ls, primitive := p, pre_primitive := pre,
         post_primitives := post, gearbox_clocks := gearbox_clocks,
         properties := ls.foldl (fun acc o => CppMap.set acc o []) [],
         locations := ls.foldl (fun acc o => CppMap.set acc o []) [],
         flags := [get_original_name m] }

/-- The descriptor names `get_original_name(child.second->db->name)` of the
children of a node, in child-map order. -/
def child_primitive_types (st : Extractor) :
    List (CppString × PrimRef) → Except Fault (List CppString)
  | [] => .ok []
  | child :: rest => do
    let c ← st.deref child.2
    let types ← child_primitive_types st rest
    pure (get_original_name c.db.name :: types)

/-- The method `gen_instance(linked_objects, primitive, pre_primitive)`. -/
def gen_instance (st : Extractor) (linked_objects : List CppString) (r : PrimRef)
    (pre_primitive : CppString) : Except Fault Extractor := do
  let primitive ← st.deref r
  let child_primitive_type ← child_primitive_types st primitive.child
  let inst ← INSTANCE.construct st primitive.db.name primitive.name linked_objects
    (some r) pre_primitive child_primitive_type primitive.gearbox_clocks
  let inst := inst.add_connections primitive.connections
  let inst := inst.add_parameters primitive.parameters
  let inst := if primitive.bidir then { inst with flags := inst.flags ++ ["INOUT".toList] }
              else inst
  let index := st.m_instances.length
  let st := { st with m_instances := st.m_instances ++ [inst] }
  if primitive.inst ≠ none then throw Fault.assertion
  pure (st.update r (fun q => { q with inst := some index }))

/-- The wire loop of `gen_wire`: one `WIRE` instance per recorded net, each
named with the counter `index`, which the loop never advances. -/
def gen_wire_loop (linked_object : CppString) (linked_objects : List CppString)
    (child : CppString) (index : Nat) :
    List CppString → CppString → Extractor → Except Fault Extractor
  | [], _, st => .ok st
  | wire :: rest, trace_connection, st => do
    let primitive_name :=
      "AUTO_".toList ++ c_str (get_original_name child) ++ "_".toList ++
        c_str linked_object ++ "_#".toList ++ fmt_d (int_of_uint32 index)
    let inst ← INSTANCE.construct st "WIRE".toList primitive_name linked_objects none
      [] [] []
    let inst := inst.add_connections [("I".toList, trace_connection), ("O".toList, wire)]
    gen_wire_loop linked_object linked_objects child index rest wire
      { st with m_instances := st.m_instances ++ [inst] }

/-- The method `gen_wire(linked_object, linked_objects, primitive, child)`. -/
def gen_wire (st : Extractor) (linked_object : CppString)
    (linked_objects : List CppString) (r : PrimRef) (child : CppString) :
    Except Fault Extractor := do
  let primitive ← st.deref r
  if !CppMap.contains primitive.child child then throw Fault.assertion
  match CppMap.find primitive.child_connections child with
  | some wires =>
    let trace_connection ← primitive.get_outtrace_connection
    gen_wire_loop linked_object linked_objects child 0 wires trace_connection st
  | none => pure st

/-- The body of the child loop of the recursive `gen_instances` for one
entry of the child map: the pass-through wires of the child, the instance of
the child, then the recursive call `call` on the child. -/
def gen_child (call : Extractor → PrimRef → Except Fault Extractor)
    (linked_object : CppString) (linked_objects : List CppString) (r : PrimRef)
    (primitive_type : CppString) (st : Extractor) (child : CppString × PrimRef) :
    Except Fault Extractor :=
  match gen_wire st linked_object linked_objects r child.1 with
  | .error e => .error e
  | .ok st =>
    match gen_instance st linked_objects child.2 primitive_type with
    | .error e => .error e
    | .ok st => call st child.2

/-- The child loop of the recursive `gen_instances`, over the entries of
the child map in key order. -/
def gen_children (call : Extractor → PrimRef → Except Fault Extractor)
    (linked_object : CppString) (linked_objects : List CppString) (r : PrimRef)
    (primitive_type : CppString) :
    List (CppString × PrimRef) → Extractor → Except Fault Extractor
  | [], st => .ok st
  | child :: rest, st =>
    match gen_child call linked_object linked_objects r primitive_type st child with
    | .error e => .error e
    | .ok st => gen_children call linked_object linked_objects r primitive_type rest st

/-- The recursive method `gen_instances(linked_object, linked_objects,
primitive, pre_primitive)` as compiled, with
`GENERATION_ALWAYS_INWARD_DIRECTION` set; the fuel bounds the depth of the
recursion. -/
def gen_instances_rec (linked_object : CppString) (linked_objects : List CppString) :
    Nat → Extractor → PrimRef → CppString → Except Fault Extractor
  | 0, _, _, _ => .error .out_of_fuel
  | fuel + 1, st, r, pre_primitive =>
    if !st.m_status then .error .assertion
    else
      match st.deref r with
      | .error e => .error e
      | .ok primitive =>
        let primitive_type := get_original_name primitive.db.name
        match (if primitive.is_port_primitive then
            gen_instance st linked_objects r pre_primitive else .ok st) with
        | .error e => .error e
        | .ok st =>
          gen_children
            (fun st c =>
              gen_instances_rec linked_object linked_objects fuel st c primitive_type)
            linked_object linked_objects r primitive_type primitive.child st

/-- The port loop of `gen_instances()`. -/
def gen_instances_ports (fuel : Nat) : List Nat → Extractor → Except Fault Extractor
  | [], st => .ok st
  | i :: rest, st =>
    match st.m_ports[i]? with
    | none => .error .null_deref
    | some port =>
      match port.linked_object with
      | .error e => .error e
      | .ok linked_object =>
        match gen_instances_rec linked_object port.linked_objects fuel st (.port i) [] with
        | .error e => .error e
        | .ok st => gen_instances_ports fuel rest st

/-- The method `gen_instances()`. -/
def gen_instances (fuel : Nat) (st : Extractor) : Except Fault Extractor :=
  if !st.m_status then .error .assertion
  else if st.m_instances.length ≠ 0 then .error .assertion
  else gen_instances_ports fuel (List.range st.m_ports.length) st

/-! ### Fabric clock determination -/

/-- The triple that `need_to_route_to_fabric` returns: the gearboxes that
take the clock as core clock, whether fabric logic uses it, and whether a
primitive uses it on another port. -/
abbrev FabricStatus := List CppString × Bool × Bool

/-- The loop of `need_to_route_to_fabric` over the connections of one
cell. -/
def route_connections (st : Extractor) (module_type net_name : CppString) (cell : Cell) :
    List (CppString × SigSpec) → FabricStatus → Except Fault FabricStatus
  | [], fabric => .ok fabric
  | it :: rest, fabric =>
    if it.2.dump = net_name then do
      let db ← is_supported_primitive st cell.type PRIMITIVE_REQ.DONT_CARE
      match db with
      | some db =>
        let index := find db.core_clock ":".toList
        let source_modules ←
          if index ≠ npos then do
            let head ← substr db.core_clock 0 index
            split_string head ",".toList
          else pure []
        let core_clk ←
          if index ≠ npos then substr db.core_clock (index + 1) else pure db.core_clock
        if it.1 = core_clk ∧ (source_modules.length = 0 ∨ module_type ∈ source_modules) then
          route_connections st module_type net_name cell rest
            (fabric.1 ++ [get_original_name cell.name], fabric.2.1, fabric.2.2)
        else
          route_connections st module_type net_name cell rest (fabric.1, fabric.2.1, true)
      | none =>
        route_connections st module_type net_name cell rest (fabric.1, true, fabric.2.2)
    else route_connections st module_type net_name cell rest fabric

/-- The cell loop of `need_to_route_to_fabric`. -/
def route_cells (st : Extractor) (module_type module_name net_name : CppString)
    (is_clock_primitive : Bool) : List Cell → FabricStatus → Except Fault FabricStatus
  | [], fabric => .ok fabric
  | cell :: rest, fabric =>
    if cell.name ≠ module_name ∨ is_clock_primitive = false then do
      let fabric ← route_connections st module_type net_name cell cell.connections fabric
      route_cells st module_type module_name net_name is_clock_primitive rest fabric
    else route_cells st module_type module_name net_name is_clock_primitive rest fabric

/-- The method `need_to_route_to_fabric`. -/
def need_to_route_to_fabric (st : Extractor) (module : Module)
    (module_type module_name _port_name net_name : CppString) (is_clock_primitive : Bool) :
    Except Fault FabricStatus :=
  route_cells st module_type module_name net_name is_clock_primitive module.cells
    ([], false, false)

/-- Stamping a parameter on an instance and on the property map of each of
its linked objects (an object without a property map fails the
assertion). -/
def stamp_parameter (inst : INSTANCE) (name value : CppString) : Except Fault INSTANCE := do
  let inst := { inst with parameters := CppMap.set inst.parameters name value }
  let properties ← inst.linked_objects.foldlM (fun (props : CppMap (CppMap CppString)) object =>
    match CppMap.find props object with
    | none => Except.error Fault.assertion
    | some m => Except.ok (CppMap.set props object (CppMap.set m name value))) inst.properties
  pure { inst with properties := properties }

/-- The name of the parameter that carries the slot of the output at
position `i`. -/
def route_to_fabric_name (db : PRIMITIVE_DB) (i : Nat) : CppString :=
  if db.outputs.length > 1 then
    "OUT".toList ++ fmt_d (int_of_uint32 i) ++ "_ROUTE_TO_FABRIC_CLK".toList
  else "ROUTE_TO_FABRIC_CLK".toList

/-- The text of the next free slot, `stringf` of the number of fabric
clocks recorded so far. -/
def slot_text (n : Nat) : CppString := fmt_d (int_of_uint32 n)

/-- The input port and the input net that `determine_fabric_clock` records
for a clock primitive with inputs; both are empty otherwise. -/
def fabric_clock_input (db : PRIMITIVE_DB) (inst : INSTANCE) (is_clock_primitive : Bool) :
    Except Fault (CppString × CppString) :=
  if is_clock_primitive ∧ db.inputs.length > 0 then
    match db.inputs with
    | [input] =>
      match CppMap.find inst.connections (get_original_name input) with
      | some inet => .ok (get_original_name input, inet)
      | none => .error .assertion
    | _ => .error .assertion
  else .ok ([], [])

/-- The stamp `ROUTE_FROM_FABRIC_CLK` that `determine_fabric_clock` puts on
the instance of a fabric clock buffer: the number behind `FABRIC_CLKBUF#` in
the standalone name of its root. -/
def stamp_from_clock (st : Extractor) (r : PrimRef) (primitive : PRIMITIVE)
    (inst : INSTANCE) : Except Fault INSTANCE :=
  if primitive.db.is_fabric_clkbuf then
    if !primitive.is_port_primitive then .error .assertion
    else
      match r with
      | .child _ => .error .bad_cast
      | .port p =>
        match st.m_ports[p]? with
        | none => .error .null_deref
        | some port =>
          if find port.standalone_name "FABRIC_CLKBUF#".toList ≠ 0 then .error .assertion
          else
            match substr port.standalone_name 14 with
            | .error e => .error e
            | .ok from_clock =>
              if from_clock.length = 0 then .error .assertion
              else stamp_parameter inst "ROUTE_FROM_FABRIC_CLK".toList from_clock
  else .ok inst

/-- The slot assignment of `determine_fabric_clock` for the instance `inst`
at position `j` and its output at counter `i`: the slot, which is the number
of fabric clocks recorded so far, is stamped on the instance, and a
`FABRIC_CLOCK` record is appended. -/
def assign_slot (st : Extractor) (j : Nat) (r : PrimRef) (primitive : PRIMITIVE)
    (inst : INSTANCE) (i : Nat) (iport inet oport onet : CppString)
    (fabric : FabricStatus) : Except Fault Extractor :=
  match stamp_parameter inst (route_to_fabric_name primitive.db i)
      (slot_text st.m_fabric_clocks.length) with
  | .error e => .error e
  | .ok inst =>
    match stamp_from_clock st r primitive inst with
    | .error e => .error e
    | .ok inst =>
      match inst.linked_object with
      | .error e => .error e
      | .ok linked_object =>
        if ¬ (fabric.1.length > 0 ∨ fabric.2.1 = true) then .error .assertion
        else
          let record : FABRIC_CLOCK :=
            { linked_object := linked_object, module := inst.module, name := inst.name,
              iport := iport, oport := oport, inet := inet, onet := onet,
              is_fabric_clkbuf := primitive.db.is_fabric_clkbuf, gearboxes := fabric.1,
              core_logic := fabric.2.1 }
          let inst :=
            if primitive.db.is_port_clock ∧ fabric.2.2 = false ∧
                inst.gearbox_clocks.length = 0 then
              { inst with flags := inst.flags ++ ["PIN_CLOCK_CORE_ONLY".toList] }
            else inst
          .ok { st with m_instances := st.m_instances.set j inst,
                        m_fabric_clocks := st.m_fabric_clocks ++ [record] }

/-- The body of the output loop of `determine_fabric_clock` for the
instance at position `j` and the output `out` at counter `i`; the result is
the state and the counter for the next output (the `continue` of an output
that cannot be a core clock leaves the counter alone). -/
def fabric_clock_output (module : Module) (j : Nat) (r : PrimRef) (primitive : PRIMITIVE)
    (is_clock_primitive : Bool) (out : CppString) (st : Extractor) (i : Nat) :
    Except Fault (Extractor × Nat) :=
  let not_core :=
    decide (CppMap.find primitive.db.output_traits out = some "NOT_CORE".toList)
  if CppMap.contains primitive.connections out then
    match st.m_instances[j]? with
    | none => .error .null_deref
    | some inst =>
      match fabric_clock_input primitive.db inst is_clock_primitive with
      | .error e => .error e
      | .ok input =>
        match CppMap.find inst.connections (get_original_name out) with
        | none => .error .assertion
        | some onet =>
          match CppMap.at primitive.connections out with
          | .error e => .error e
          | .ok net =>
            match need_to_route_to_fabric st module primitive.db.name primitive.name out net
                is_clock_primitive with
            | .error e => .error e
            | .ok fabric =>
              if fabric.1.length > 0 ∨ fabric.2.1 = true then
                if not_core then .ok ({ st with m_netlist_status := false }, i)
                else
                  match assign_slot st j r primitive inst i input.1 input.2
                      (get_original_name out) onet fabric with
                  | .error e => .error e
                  | .ok st => .ok (st, i + 1)
              else .ok (st, i + 1)
  else .ok (st, i + 1)

/-- The output loop of `determine_fabric_clock` for one instance. -/
def fabric_clock_outputs (module : Module) (j : Nat) (r : PrimRef) (primitive : PRIMITIVE)
    (is_clock_primitive : Bool) : List CppString → Extractor → Nat → Except Fault Extractor
  | [], st, _ => .ok st
  | out :: rest, st, i =>
    match fabric_clock_output module j r primitive is_clock_primitive out st i with
    | .error e => .error e
    | .ok next => fabric_clock_outputs module j r primitive is_clock_primitive rest next.1 next.2

/-- The body of the first loop of `determine_fabric_clock` for the instance
at position `j`; an instance without a primitive (a `WIRE`) is
dereferenced all the same. -/
def fabric_clock_instance (module : Module) (st : Extractor) (j : Nat) :
    Except Fault Extractor :=
  match st.m_instances[j]? with
  | none => .error .null_deref
  | some inst =>
    match inst.primitive with
    | none => .error .null_deref
    | some r =>
      match st.deref r with
      | .error e => .error e
      | .ok primitive =>
        let db := primitive.db
        if db.is_clock || db.is_fabric_clkbuf ||
            CppMap.contains db.properties "CLK_OUT_PORT".toList then
          if !db.is_in_dir then .error .assertion
          else if db.outputs.length = 0 then .error .assertion
          else
            fabric_clock_outputs module j r primitive (db.is_clock || db.is_fabric_clkbuf)
              db.outputs st 0
        else .ok st

/-- The first loop of `determine_fabric_clock`. -/
def fabric_clock_instances (module : Module) : List Nat → Extractor → Except Fault Extractor
  | [], st => .ok st
  | j :: rest, st =>
    match fabric_clock_instance module st j with
    | .error e => .error e
    | .ok st => fabric_clock_instances module rest st

/-- The second loop of `determine_fabric_clock`: every instance with a core
clock port is the gearbox of at most one fabric clock. -/
def check_core_clocks (st : Extractor) : List INSTANCE → Except Fault Unit
  | [] => .ok ()
  | inst :: rest => do
    let r ← match inst.primitive with
      | some r => pure r
      | none => throw Fault.null_deref
    let primitive ← st.deref r
    if primitive.db.core_clock.length ≠ 0 then
      let found := (st.m_fabric_clocks.filter (fun f => decide (inst.name ∈ f.gearboxes))).length
      if ¬ (found = 0 ∨ found = 1) then throw Fault.assertion
    check_core_clocks st rest

/-- The method `determine_fabric_clock`. -/
def determine_fabric_clock (module : Module) (st : Extractor) : Except Fault Extractor :=
  if !st.m_status then .error .assertion
  else
    match fabric_clock_instances module (List.range st.m_instances.length) st with
    | .error e => .error e
    | .ok st =>
      match check_core_clocks st st.m_instances with
      | .error e => .error e
      | .ok _ => .ok st

/-! ### Summary and pin report -/

/-- The search loop of `get_pin_info`: the position of the pin. -/
def find_pin (name : CppString) (dir_in : Bool) : List PIN_PORT → Nat → Option Nat
  | [], _ => none
  | q :: rest, index =>
    if q.name = name ∧ ((q.is_input = true ∧ dir_in = true) ∨
        (q.is_input = false ∧ dir_in = false)) then some index
    else find_pin name dir_in rest (index + 1)

/-- The method `get_pin_info(name, dir)`, `none` for a null result. -/
def get_pin_info (st : Extractor) (name : CppString) (dir : IO_DIR) :
    Except Fault (Option Nat) :=
  if dir = IO_DIR.IN ∨ dir = IO_DIR.OUT then
    .ok (find_pin name (decide (dir = IO_DIR.IN)) st.m_pin_infos 0)
  else .error .assertion

/-- The method `update_pin_info(pin_name, primitive)`. -/
def update_pin_info (st : Extractor) (pin_name : CppString) (primitive : PRIMITIVE) :
    Except Fault Extractor := do
  let found ← get_pin_info st pin_name
    (if primitive.db.is_in_dir then IO_DIR.IN else IO_DIR.OUT)
  let index ← match found with
    | some index => pure index
    | none => throw Fault.assertion
  let pin ← match st.m_pin_infos[index]? with
    | some pin => pure pin
    | none => throw Fault.null_deref
  let pin ←
    if primitive.db.name = "\\I_DDR".toList ∨ primitive.db.name = "\\O_DDR".toList then do
      if pin.mode.length ≠ 0 then throw Fault.assertion
      pure { pin with mode := "DDR".toList }
    else if primitive.db.name = "\\I_SERDES".toList ∨
        primitive.db.name = "\\O_SERDES".toList ∨
        primitive.db.name = "\\O_SERDES_CLK".toList then do
      if pin.mode.length ≠ 0 then throw Fault.assertion
      let mode ←
        match CppMap.find primitive.parameters "\\WIDTH".toList with
        | some w => do
          let width ← stoi w
          pure ("RATE_".toList ++ fmt_d width)
        | none =>
          match CppMap.find primitive.parameters "\\DATA_RATE".toList with
          | some d => pure (get_param_string d)
          | none => pure pin.mode
      let mode := if mode.length = 0 then "SDR".toList else mode
      if ¬ (mode = "SDR".toList ∨ mode = "DDR".toList ∨ find mode "RATE_".toList = 0) then
        throw Fault.assertion
      pure { pin with mode := mode }
    else pure pin
  let pin ←
    if primitive.db.name = "\\I_BUF_DS".toList ∨ primitive.db.name = "\\O_BUF_DS".toList ∨
        primitive.db.name = "\\O_BUFT_DS".toList then do
      let secondary_port :=
        if primitive.db.name = "\\I_BUF_DS".toList then "\\I_N".toList else "\\O_N".toList
      match CppMap.find primitive.connections secondary_port with
      | none => throw Fault.assertion
      | some net =>
        if get_original_name net = pin_name then
          pure { pin with skip_reason :=
            ("This is secondary pin. But IO bitstream generation will still make " ++
             "sure it is used in pair. Otherwise the IO bitstream will be " ++
             "invalid").toList }
        else pure pin
    else pure pin
  pure { st with m_pin_infos := st.m_pin_infos.set index pin }

/-- The trace loops of `summarize` and `update_pin_traces`: the names joined
by `sep` in the given order; an empty name fails the assertion. -/
def join_trace (sep : CppString) : List CppString → CppString → Except Fault CppString
  | [], trace => .ok trace
  | t :: rest, trace =>
    if t.length = 0 then .error .assertion
    else if trace.length ≠ 0 then join_trace sep rest (c_str trace ++ sep ++ c_str t)
    else join_trace sep rest t

/-- The method `update_pin_traces(pin_traces, traces, is_in_dir)`. -/
def update_pin_traces (pin_traces traces : List CppString) (is_in_dir : Bool) :
    Except Fault (List CppString) := do
  let trace ← join_trace " |-> ".toList (if is_in_dir then traces else traces.reverse) []
  pure (pin_traces ++ [trace])

/-- The child loop of the first recursive `summarize`; `call` is the
recursive call on a child. -/
def summarize_size_children (st : Extractor)
    (call : PrimRef → List CppString → Except Fault Unit) (traces : List CppString)
    (is_in_dir : Bool) : List (CppString × PrimRef) → Except Fault Unit
  | [] => .ok ()
  | child :: rest => do
    let c ← st.deref child.2
    if is_in_dir ≠ c.db.is_in_dir then throw Fault.assertion
    call child.2 (traces ++ [get_original_name c.db.name])
    summarize_size_children st call traces is_in_dir rest

/-- The first recursive `summarize(primitive, traces, is_in_dir)`, which
measures the traces; only its assertions matter here. -/
def summarize_size (st : Extractor) (is_in_dir : Bool) :
    Nat → PrimRef → List CppString → Except Fault Unit
  | 0, _, _ => .error .out_of_fuel
  | fuel + 1, r, traces => do
    if traces.length = 0 then throw Fault.assertion
    let primitive ← st.deref r
    if primitive.child.length ≠ 0 then
      summarize_size_children st (fun c t => summarize_size st is_in_dir fuel c t)
        traces is_in_dir primitive.child
    else do
      let _ ← join_trace " -> ".toList traces []
      pure ()

/-- The loop of the second `summarize` that stores the traces of a leaf in
the pins of the objects. -/
def store_pin_traces (traces full_traces : List CppString) (is_in_dir : Bool) :
    List CppString → Extractor → Except Fault Extractor
  | [], st => .ok st
  | object :: rest, st => do
    let found ← get_pin_info st object (if is_in_dir then IO_DIR.IN else IO_DIR.OUT)
    let index ← match found with
      | some index => pure index
      | none => throw Fault.assertion
    let pin ← match st.m_pin_infos[index]? with
      | some pin => pure pin
      | none => throw Fault.null_deref
    let t ← update_pin_traces pin.traces traces is_in_dir
    let f ← update_pin_traces pin.full_traces full_traces is_in_dir
    store_pin_traces traces full_traces is_in_dir rest
      { st with m_pin_infos := st.m_pin_infos.set index { pin with traces := t, full_traces := f } }

/-- The indentation that replaces the traces for every child but the first
in the second `summarize`. -/
def trace_indent (traces : List CppString) : Except Fault CppString :=
  if traces.any (fun t => decide (t.length = 0)) then .error .assertion
  else
    let s : Int := ((traces.map List.length).sum : Int) + ((traces.length : Int) - 1) * 5
    .ok (List.replicate (max s.natAbs 1) ' ')

/-- The child loop of the second recursive `summarize`; `call` is the
recursive call on a child and `i` the number of children done. -/
def summarize_children
    (call : Extractor → PrimRef → List CppString → List CppString → Except Fault Extractor)
    (traces full_traces : List CppString) (is_in_dir : Bool) :
    List (CppString × PrimRef) → Nat → Extractor → Except Fault Extractor
  | [], _, st => .ok st
  | child :: rest, i, st => do
    let c ← st.deref child.2
    if is_in_dir ≠ c.db.is_in_dir then throw Fault.assertion
    let temp ← if i = 0 then pure traces else do
      let indent ← trace_indent traces
      pure [indent]
    let temp := temp ++ [get_original_name c.db.name]
    let fulltemp := full_traces ++ [get_original_name c.db.name]
    let st ← call st child.2 temp fulltemp
    summarize_children call traces full_traces is_in_dir rest (i + 1) st

/-- The second recursive `summarize(primitive, object_name, objects, traces,
full_traces, is_in_dir)`. -/
def summarize_pins (objects : List CppString) (is_in_dir : Bool) :
    Nat → Extractor → PrimRef → List CppString → List CppString → Except Fault Extractor
  | 0, _, _, _, _ => .error .out_of_fuel
  | fuel + 1, st, r, traces, full_traces => do
    if traces.length = 0 then throw Fault.assertion
    let primitive ← st.deref r
    let st ← objects.foldlM (fun st object => update_pin_info st object primitive) st
    if primitive.child.length ≠ 0 then
      summarize_children
        (fun st c t f => summarize_pins objects is_in_dir fuel st c t f)
        traces full_traces is_in_dir primitive.child 0 st
    else do
      let st ← store_pin_traces traces full_traces is_in_dir objects st
      let _ ← join_trace " |-> ".toList (if is_in_dir then traces else traces.reverse) []
      pure st

/-- The pin loop of `summarize()` for one root: one `PIN_PORT` per linked
object, which must not exist yet. -/
def add_pins (port : PORT_PRIMITIVE) (r : PrimRef) :
    List CppString → Extractor → Except Fault Extractor
  | [], st => .ok st
  | object :: rest, st => do
    let found ← get_pin_info st object port.dir
    if found ≠ none then throw Fault.assertion
    let pin : PIN_PORT :=
      { name := object, primitive := r, is_input := port.base.db.is_in_dir,
        is_standalone := port.base.db.is_standalone,
        is_fabric_clkbuf := port.base.db.is_fabric_clkbuf }
    add_pins port r rest { st with m_pin_infos := st.m_pin_infos ++ [pin] }

/-- The measuring loops of `summarize()` over the roots. -/
def summarize_measure (fuel : Nat) (st : Extractor) : List Nat → Except Fault Unit
  | [] => .ok ()
  | i :: rest =>
    match st.m_ports[i]? with
    | none => .error .null_deref
    | some port => do
      let _ ← port.linked_object
      summarize_size st port.base.db.is_in_dir fuel (.port i)
        [get_original_name port.base.db.name]
      summarize_measure fuel st rest

/-- The reporting loop of `summarize()` over the roots. -/
def summarize_report (fuel : Nat) : List Nat → Extractor → Except Fault Extractor
  | [], st => .ok st
  | i :: rest, st =>
    match st.m_ports[i]? with
    | none => .error .null_deref
    | some port => do
      let st ← add_pins port (.port i) port.linked_objects st
      let _ ← port.linked_object
      let st ← summarize_pins port.linked_objects port.base.db.is_in_dir fuel st (.port i)
        [get_original_name port.base.db.name] [get_original_name port.base.db.name]
      summarize_report fuel rest st

/-- The method `summarize()`. -/
def summarize (fuel : Nat) (st : Extractor) : Except Fault Extractor := do
  if !st.m_status then throw Fault.assertion
  summarize_measure fuel st (List.range st.m_ports.length)
  summarize_report fuel (List.range st.m_ports.length) st

/-! ### Final check -/

/-- Number of cells of the module whose type is a supported primitive. -/
def design_count (st : Extractor) : List Cell → Except Fault Nat
  | [] => .ok 0
  | cell :: rest => do
    let db ← is_supported_primitive st cell.type PRIMITIVE_REQ.DONT_CARE
    let n ← design_count st rest
    pure (if db.isSome then n + 1 else n)

/-- Number of instances whose module is not `WIRE`. -/
def instance_count (instances : List INSTANCE) : Nat :=
  (instances.filter (fun inst => decide (inst.module ≠ "WIRE".toList))).length

/-- The supported cells that the report loops of `finalize` find missing
according to `found`. -/
def missing_cells (st : Extractor) (found : Cell → Bool) :
    List Cell → Except Fault (List Cell)
  | [] => .ok []
  | cell :: rest => do
    let db ← is_supported_primitive st cell.type PRIMITIVE_REQ.DONT_CARE
    let others ← missing_cells st found rest
    pure (if db.isSome && !found cell then cell :: others else others)

/-- The verdict of `finalize`. -/
inductive FinalCheck where
  | good
  | failed (design_count primitive_count instance_count : Nat)
      (missing_in_primitive_list missing_in_instance_list : List Cell)
  deriving DecidableEq, Repr

/-- The method `finalize(module)`: the state it leaves and the verdict it
posts, `Final checking is good` or `Error: Final checking failed` followed
by the missing cells. -/
def finalize (st : Extractor) (module : Module) : Except Fault (Extractor × FinalCheck) := do
  let primitive_count := st.m_ports.length + st.m_child_primitives.length
  let dcount ← design_count st module.cells
  let icount := instance_count st.m_instances
  if dcount = primitive_count ∧ dcount = icount then pure (st, FinalCheck.good)
  else do
    let st := { st with m_netlist_status := false }
    let missing_primitive ←
      if dcount ≠ primitive_count then
        missing_cells st (fun cell =>
          st.m_ports.any (fun q => decide (q.base.name = cell.name)) ||
          st.m_child_primitives.any (fun q => decide (q.name = cell.name))) module.cells
      else pure []
    let missing_instance ←
      if dcount ≠ icount then
        missing_cells st (fun cell =>
          st.m_instances.any (fun inst =>
            decide (inst.name = get_original_name cell.name))) module.cells
      else pure []
    pure (st, FinalCheck.failed dcount primitive_count icount missing_primitive
      missing_instance)

/-! ### Extraction -/

/-- The constructor `PRIMITIVES_EXTRACTOR(technology)`. -/
def Extractor.construct (technology : CppString) : Extractor :=
  { m_technology := technology,
    m_status := CppMap.contains SUPPORTED_PRIMITIVES technology }

/-- The (source, destination) pairs that `extract` traces, in order. -/
def extract_trace_pairs : List (CppString × CppString) :=
  let pairs (inputs outputs : List String) : List (CppString × CppString) :=
    inputs.flatMap (fun input =>
      (outputs.filter (fun output => decide (input ≠ output))).map
        (fun output => (input.toList, output.toList)))
  [("\\I_BUF".toList, "\\CLK_BUF".toList), ("\\I_BUF_DS".toList, "\\CLK_BUF".toList),
   ("\\CLK_BUF".toList, "\\PLL".toList), ("\\BOOT_CLOCK".toList, "\\PLL".toList)] ++
  pairs ["\\I_BUF", "\\I_BUF_DS", "\\I_DELAY"] ["\\I_DELAY", "\\I_DDR", "\\I_SERDES"] ++
  pairs ["\\O_BUF", "\\O_BUFT", "\\O_BUF_DS", "\\O_BUFT_DS", "\\O_DELAY"]
    ["\\O_DELAY", "\\O_DDR", "\\O_SERDES"] ++
  ["\\O_BUF", "\\O_BUFT", "\\O_BUF_DS", "\\O_BUFT_DS"].map
    (fun input => (input.toList, "\\O_SERDES_CLK".toList))

/-- A sequence of calls of the entry function `trace_next_primitive`. -/
def trace_calls (module : Module) (fuel : Nat) :
    List (CppString × CppString) → Extractor → Except Fault Extractor
  | [], st => .ok st
  | call :: rest, st =>
    match trace_next_primitive module fuel st call.1 call.2 with
    | .error e => .error e
    | .ok st => trace_calls module fuel rest st

/-- The method `extract(design)` on the top module: the value returned, the
state and the verdict of `finalize` when it was reached. -/
def extract (module : Module) (fuel : Nat) (st : Extractor) :
    Except Fault (Bool × Extractor × Option FinalCheck) := do
  let st := { st with g_standalone_tracker := [] }
  if !st.m_status then pure (st.m_status, st, none)
  else do
    let (ok, st) ← get_ports module fuel st
    if !ok then pure (st.m_status, st, none)
    else do
      let st ← trace_calls module fuel extract_trace_pairs st
      let st ← trace_fabric_clkbuf module st
      let st ← trace_gearbox_fast_clock st
      if st.m_status then do
        let st ← gen_instances fuel st
        let st ← determine_fabric_clock module st
        let st ← summarize fuel st
        let (st, verdict) ← finalize st module
        pure (st.m_status, st, some verdict)
      else pure (st.m_status, st, none)

/-! ### Tree structure of the nodes -/

/-- Two nodes agree on the fields that make up the tree (name, parent,
chain root, port flag and child map) and on their descriptor and
instance. -/
def SameShape (a b : PRIMITIVE) : Prop :=
  a.name = b.name ∧ a.parent = b.parent ∧ a.grandparent = b.grandparent ∧
    a.is_port_primitive = b.is_port_primitive ∧ a.child = b.child ∧
    a.db = b.db ∧ a.inst = b.inst

/-- Two heaps hold the same nodes up to the fields that do not belong to
the tree. -/
def ShapeEq (D E : PrimRef → Except Fault PRIMITIVE) : Prop :=
  ∀ r, (∀ n, D r = .ok n → ∃ m, E r = .ok m ∧ SameShape n m) ∧
       (∀ m, E r = .ok m → ∃ n, D r = .ok n ∧ SameShape n m)

/-- The structural invariant of the nodes, on the heap `D` that maps a
pointer to the node it points to: roots have neither parent nor chain root;
a traced node has a parent that was created before it and holds it in its
child map under its name, and its chain root is the one the constructor
computes; every entry of a child map is a traced node with that parent and
that name; child maps are in ascending key order. -/
structure TreeInvD (D : PrimRef → Except Fault PRIMITIVE) : Prop where
  roots : ∀ i n, D (.port i) = .ok n →
    n.parent = none ∧ n.grandparent = none ∧ n.is_port_primitive = true
  children : ∀ j c, D (.child j) = .ok c →
    c.is_port_primitive = false ∧
    ∃ pr pn, c.parent = some pr ∧ D pr = .ok pn ∧ (∀ i, pr = .child i → i < j) ∧
      CppMap.find pn.child c.name = some (.child j) ∧
      c.grandparent = some (pn.grandparent.getD pr)
  childmaps : ∀ r n k x, D r = .ok n → (k, x) ∈ n.child →
    ∃ j c, x = .child j ∧ D (.child j) = .ok c ∧ c.parent = some r ∧ c.name = k
  ordered : ∀ r n, D r = .ok n → CppMap.Ordered n.child

/-- The structural invariant of the nodes of an extractor state. -/
def TreeInv (st : Extractor) : Prop := TreeInvD st.deref

/-- The state right after port discovery: roots only, none with a
child. -/
def RootsOnly (st : Extractor) : Prop :=
  st.m_child_primitives = [] ∧
  ∀ p ∈ st.m_ports, p.base.parent = none ∧ p.base.grandparent = none ∧
    p.base.is_port_primitive = true ∧ p.base.child = []

/-- The pointers met when following `parent` links from a node up to a node
without parent, the node itself first; `none` when the walk is longer than
the fuel or leaves the heap. -/
def parent_chain (st : Extractor) : Nat → PrimRef → Option (List PrimRef)
  | 0, _ => none
  | fuel + 1, r =>
    match st.deref r with
    | .error _ => none
    | .ok n =>
      match n.parent with
      | none => some [r]
      | some pr => (parent_chain st fuel pr).map (fun path => r :: path)

/-- A property of extractor states that chain tracing keeps: it survives
every change that leaves the shape of all nodes alone, and it survives the
attachment of a new child. -/
structure TraceClosed (P : Extractor → Prop) : Prop where
  shape : ∀ st st2, ShapeEq st.deref st2.deref → P st → P st2
  attach : ∀ st st2 parent parentNode cell db connections, P st →
    st.deref parent = .ok parentNode →
    CppMap.contains parentNode.child cell.name = false →
    is_supported_primitive st cell.type PRIMITIVE_REQ.NOT_PORT = .ok (some db) →
    attach_child st parent parentNode cell db connections = .ok st2 → P st2

/-! ### Example netlists -/

/-- A one-bit signal that is the whole of the wire `n`. -/
def wire_sig (n : String) : SigSpec :=
  { chunks := [{ wire := some (n.toList, 1), width := 1, offset := 0 }], dump := n.toList }

/-- A cell whose ports are connected to one-bit wires. -/
def cell_of (type name : String) (connections : List (String × String)) : Cell :=
  { name := name.toList, type := type.toList,
    connections := connections.map (fun c => (c.1.toList, wire_sig c.2)) }

/-- A one-bit input port wire. -/
def input_wire (n : String) : Wire :=
  { name := n.toList, port_input := true, port_output := false, width := 1, start_offset := 0 }

/-- An input buffer on port `clk` that drives, on net `n1`, the clock buffer
`z` and the delay `a`; the netlist lists `z` before `a`. -/
def example_clock_and_delay : Module :=
  { wires := [input_wire "\\clk"],
    cells := [cell_of "\\I_BUF" "\\ibuf" [("\\I", "\\clk"), ("\\O", "\\n1")],
              cell_of "\\CLK_BUF" "\\z" [("\\I", "\\n1"), ("\\O", "\\c")],
              cell_of "\\I_DELAY" "\\a" [("\\I", "\\n1"), ("\\CLK_IN", "\\c"), ("\\O", "\\d")]],
    connections := [] }

/-- The state of the run on `example_clock_and_delay` after port
discovery. -/
def example_clock_and_delay_roots : Extractor :=
  match get_ports example_clock_and_delay 10 (Extractor.construct "genesis3".toList) with
  | .ok (_, st) => st
  | .error _ => Extractor.construct "genesis3".toList

/-- The state of the run on `example_clock_and_delay` after the tracing
calls of `extract`. -/
def example_clock_and_delay_traced : Extractor :=
  match trace_calls example_clock_and_delay 10 extract_trace_pairs
      example_clock_and_delay_roots with
  | .ok st => st
  | .error _ => example_clock_and_delay_roots


/-- During the run of the child loop of `gen_instances` that ends in `st2`,
everything appended for the child entry `x` (its pass-through wires, its
instance and the instances of its descendants: `blockA`) stands in
`m_instances` before everything appended for the child entry `y`
(`blockB`). -/
def EmittedBefore (call : Extractor → PrimRef → Except Fault Extractor)
    (linked_object : CppString) (linked_objects : List CppString) (r : PrimRef)
    (primitive_type : CppString) (x y : CppString × PrimRef) (st2 : Extractor) : Prop :=
  ∃ s1 s2 s3 s4 blockA mid blockB rest,
    gen_child call linked_object linked_objects r primitive_type s1 x = .ok s2 ∧
    gen_child call linked_object linked_objects r primitive_type s3 y = .ok s4 ∧
    s2.m_instances = s1.m_instances ++ blockA ∧
    s3.m_instances = s2.m_instances ++ mid ∧
    s4.m_instances = s3.m_instances ++ blockB ∧
    st2.m_instances = s4.m_instances ++ rest


/-! ### Counting nodes and instances -/

/-- No descriptor of a node is called `WIRE`. -/
def NonWire (st : Extractor) : Prop :=
  ∀ r n, st.deref r = .ok n → get_original_name n.db.name ≠ "WIRE".toList

/-- No node has an instance yet, and no descriptor of a node is called
`WIRE`: the nodes as tracing leaves them. -/
def NodesFresh (st : Extractor) : Prop :=
  ∀ r n, st.deref r = .ok n →
    n.inst = none ∧ get_original_name n.db.name ≠ "WIRE".toList

/-- Number of nodes, roots and traced children, that have their instance. -/
def marked_count (st : Extractor) : Nat :=
  st.m_ports.countP (fun p => p.base.inst.isSome) +
    st.m_child_primitives.countP (fun c => c.inst.isSome)

/-- The node at `r` has its instance. -/
def Marked (st : Extractor) (r : PrimRef) : Prop :=
  ∃ m, st.deref r = .ok m ∧ m.inst.isSome = true

/-- What instance generation leaves of a node: child map, port flag and
descriptor stay, an instance once set stays set. -/
def GrownNode (n m : PRIMITIVE) : Prop :=
  m.child = n.child ∧ m.is_port_primitive = n.is_port_primitive ∧ m.db = n.db ∧
    (n.inst.isSome = true → m.inst.isSome = true)

/-- The heap of `s2` holds the nodes of `s`, each one grown. -/
def Grown (s s2 : Extractor) : Prop :=
  ∀ r, (∀ n, s.deref r = .ok n → ∃ m, s2.deref r = .ok m ∧ GrownNode n m) ∧
       (∀ m, s2.deref r = .ok m → ∃ n, s.deref r = .ok n ∧ GrownNode n m)

/-- A step of instance generation: the nodes grow, and as many instances
that are not wires are added as nodes get their instance. -/
structure GenStep (s s2 : Extractor) : Prop where
  grown : Grown s s2
  counted : instance_count s2.m_instances + marked_count s =
    instance_count s.m_instances + marked_count s2

/-- The node at `c` is an entry of the child map of the node at `r`. -/
def Edge (s : Extractor) (r c : PrimRef) : Prop :=
  ∃ n k, s.deref r = .ok n ∧ (k, c) ∈ n.child

/-- The node at `d` is below the node at `r`: one or more child map entries
lead from `r` to `d`. -/
inductive Reach (s : Extractor) : PrimRef → PrimRef → Prop
  | edge {r c : PrimRef} : Edge s r c → Reach s r c
  | step {r c d : PrimRef} : Edge s r c → Reach s c d → Reach s r d

/-- What the phases after instance generation leave alone: the roots, the
traced nodes and the module of every instance. -/
def SameCounts (s s2 : Extractor) : Prop :=
  s2.m_ports = s.m_ports ∧ s2.m_child_primitives = s.m_child_primitives ∧
    s2.m_instances.map (fun inst => inst.module) =
      s.m_instances.map (fun inst => inst.module)

/-- An input buffer on port `din`, and a delay `dly` that no chain
reaches. -/
def example_untraced_delay : Module :=
  { wires := [input_wire "\\din"],
    cells := [cell_of "\\I_BUF" "\\ibuf" [("\\I", "\\din"), ("\\O", "\\n1")],
              cell_of "\\I_DELAY" "\\dly" [("\\I", "\\other"), ("\\O", "\\d")]],
    connections := [] }


/-- The result of `extract` on `example_clock_and_delay`. -/
def example_clock_and_delay_extracted : Bool × Extractor × Option FinalCheck :=
  match extract example_clock_and_delay 10 (Extractor.construct "genesis3".toList) with
  | .ok result => result
  | .error _ => (false, Extractor.construct "genesis3".toList, none)


/-- The three counts that a failed final check reports: supported cells of
the design, nodes, and instances that are not wires. -/
def FinalCheck.counts : FinalCheck → Option (Nat × Nat × Nat)
  | .good => none
  | .failed d p i _ _ => some (d, p, i)


/-! ### Slots of fabric clocks -/

/-- The order in which `determine_fabric_clock` meets the outputs: by
position of the instance, then by output counter. -/
def MetBefore (a b : Nat × Nat) : Prop :=
  a.1 < b.1 ∨ (a.1 = b.1 ∧ a.2 < b.2)

/-- The record `record` at position `k` of `m_fabric_clocks` belongs to the
output with counter `i` of the instance at position `j`: the instance has
the module and the name of the record, and its parameter for that output
holds the text of `k`. -/
def SlotOwned (st : Extractor) (k : Nat) (record : FABRIC_CLOCK) (j i : Nat) : Prop :=
  ∃ inst r p, st.m_instances[j]? = some inst ∧ inst.name = record.name ∧
    inst.module = record.module ∧ inst.primitive = some r ∧ st.deref r = .ok p ∧
    i < p.db.outputs.length ∧
    CppMap.find inst.parameters (route_to_fabric_name p.db i) = some (slot_text k)

/-- A step of `determine_fabric_clock` that leaves instances, fabric clocks
and nodes alone. -/
def Idle (st st2 : Extractor) : Prop :=
  st2.m_instances = st.m_instances ∧ st2.m_fabric_clocks = st.m_fabric_clocks ∧
    st2.m_ports = st.m_ports ∧ st2.m_child_primitives = st.m_child_primitives

/-- A property of the state, the position `J` of the instance at work and
its output counter `I` that every step of `determine_fabric_clock` keeps. -/
structure SlotClosed (Q : Extractor → Nat → Nat → Prop) : Prop where
  idle : ∀ st st2 J I I2, Idle st st2 → I ≤ I2 → Q st J I → Q st2 J I2
  next : ∀ st J I, Q st J I → Q st (J + 1) 0
  slot : ∀ st st2 J I r p inst iport inet oport onet fabric, Q st J I →
    st.m_instances[J]? = some inst → inst.primitive = some r → st.deref r = .ok p →
    I < p.db.outputs.length →
    assign_slot st J r p inst I iport inet oport onet fabric = .ok st2 → Q st2 J (I + 1)

/-- The records from position `n0` on each belong to an output met before
the instance `J` and its counter `I`, records with larger positions to
outputs met later. -/
structure SlotInv (n0 : Nat) (owner : Nat → Nat × Nat) (st : Extractor) (J I : Nat) :
    Prop where
  owned : ∀ k record, n0 ≤ k → st.m_fabric_clocks[k]? = some record →
    SlotOwned st k record (owner k).1 (owner k).2
  bound : ∀ k, n0 ≤ k → k < st.m_fabric_clocks.length → MetBefore (owner k) (J, I)
  order : ∀ k1 k2, n0 ≤ k1 → k1 < k2 → k2 < st.m_fabric_clocks.length →
    MetBefore (owner k1) (owner k2)

/-- There are `n0` fabric clocks or more, and every parameter of an
instance is a parameter the instance had in `st0`, the source stamp of a
fabric clock buffer, or the text of a slot from `n0` on that is smaller than
the number of fabric clocks. -/
def ParamInv (st0 : Extractor) (n0 : Nat) (st : Extractor) : Prop :=
  n0 ≤ st.m_fabric_clocks.length ∧
  ∀ (j : Nat) (inst : INSTANCE) (name v : CppString), st.m_instances[j]? = some inst →
    CppMap.find inst.parameters name = some v →
    (∃ inst0 : INSTANCE, st0.m_instances[j]? = some inst0 ∧
      CppMap.find inst0.parameters name = some v) ∨
    name = "ROUTE_FROM_FABRIC_CLK".toList ∨
    ∃ k, n0 ≤ k ∧ k < st.m_fabric_clocks.length ∧ v = slot_text k

/-- The state of the run on `example_clock_and_delay` after instance
generation. -/
def example_clock_and_delay_generated : Extractor :=
  match trace_fabric_clkbuf example_clock_and_delay example_clock_and_delay_traced with
  | .error _ => example_clock_and_delay_traced
  | .ok s3 =>
    match trace_gearbox_fast_clock s3 with
    | .error _ => s3
    | .ok s4 =>
      match gen_instances 10 s4 with
      | .error _ => s4
      | .ok s5 => s5

/-- The state of the run on `example_clock_and_delay` after
`determine_fabric_clock`. -/
def example_clock_and_delay_slotted : Extractor :=
  match determine_fabric_clock example_clock_and_delay
      example_clock_and_delay_generated with
  | .ok st => st
  | .error _ => example_clock_and_delay_generated

/-- Seventeen boot clocks, each driving one port of a fabric cell. -/
def example_seventeen_clocks : Module :=
  { wires := [input_wire "\\din"],
    cells := (List.range 17).map (fun k =>
        cell_of "\\BOOT_CLOCK" ("\\osc" ++ toString k) [("\\O", "\\c" ++ toString k)]) ++
      [cell_of "\\LOGIC" "\\logic"
        ((List.range 17).map (fun k => ("\\C" ++ toString k, "\\c" ++ toString k)))],
    connections := [] }


/-- The state of the slots while `determine_fabric_clock` is at the
instance `J` and its output counter `I`: no descriptor has `2 ^ 32` outputs
or more, and the records from position `n0` on have owners in the order
met. -/
def SlotsInOrder (n0 : Nat) (st : Extractor) (J I : Nat) : Prop :=
  (∀ r n, st.deref r = .ok n → n.db.outputs.length < 2 ^ 32) ∧
    ∃ owner, SlotInv n0 owner st J I


/-! ### Control signals -/

def CSR_IS_NULL : Nat := 0
def CSR_IS_AB : Nat := 1 <<< 0
def CSR_IS_SHARED_HALF_BANK : Nat := 1 <<< 1

def ERROR_STR : CppString := "Error".toList

def TRACKED_CONTROL_GOOD : Nat := 0
def TRACKED_CONTROL_MATCH : Nat := 1
def TRACKED_CONTROL_ACCEPTABLE_CONFLICT : Nat := 2
def TRACKED_CONTROL_CONFLICT : Nat := 3
def TRACKED_CONTROL_BAD_LOCATION : Nat := 4
def TRACKED_CONTROL_BAD_WRAPPED_NET : Nat := 5

/-- The record `CONTROL_SIGNAL_PRIMITIVE`: a primitive and its port for a
control signal, and whether a conflict on it is an error (`true`) or is
skipped (`false`). -/
structure CONTROL_SIGNAL_PRIMITIVE where
  name : CppString
  oname : CppString
  port : CppString
  oport : CppString
  error : Bool
  deriving DecidableEq, Repr

/-- The constructor of `CONTROL_SIGNAL_PRIMITIVE`; `e` is `true` when the
source leaves it out. Its assertions (no empty name or port) hold for every
entry of the table. -/
def CONTROL_SIGNAL_PRIMITIVE.construct (n p : String) (e : Bool) :
    CONTROL_SIGNAL_PRIMITIVE :=
  { name := n.toList, oname := get_original_name n.toList, port := p.toList,
    oport := get_original_name p.toList, error := e }

/-- The record `CONTROL_SIGNAL_INFO`. -/
structure CONTROL_SIGNAL_INFO where
  name : CppString
  dir : IO_DIR
  rules : Nat
  primitives : List CONTROL_SIGNAL_PRIMITIVE
  deriving DecidableEq, Repr

/-- The table `CONTROL_SIGNAL_DB`. -/
def CONTROL_SIGNAL_DB : List CONTROL_SIGNAL_INFO :=
  [{ name := "f2g_in_en".toList, dir := IO_DIR.IN, rules := CSR_IS_AB,
     primitives :=
       [CONTROL_SIGNAL_PRIMITIVE.construct "\\I_SERDES" "\\EN" true,
        CONTROL_SIGNAL_PRIMITIVE.construct "\\I_DDR" "\\E" true,
        CONTROL_SIGNAL_PRIMITIVE.construct "\\O_SERDES" "\\OE_IN" true,
        CONTROL_SIGNAL_PRIMITIVE.construct "\\I_BUF" "\\EN" false,
        CONTROL_SIGNAL_PRIMITIVE.construct "\\I_BUF_DS" "\\EN" false] },
   { name := "f2g_tx_oe".toList, dir := IO_DIR.IN, rules := CSR_IS_AB,
     primitives :=
       [CONTROL_SIGNAL_PRIMITIVE.construct "\\O_DDR" "\\E" true,
        CONTROL_SIGNAL_PRIMITIVE.construct "\\O_BUFT" "\\T" false,
        CONTROL_SIGNAL_PRIMITIVE.construct "\\O_BUFT_DS" "\\T" false] },
   { name := "f2g_trx_dly_ld".toList, dir := IO_DIR.IN, rules := CSR_IS_SHARED_HALF_BANK,
     primitives :=
       [CONTROL_SIGNAL_PRIMITIVE.construct "\\I_DELAY" "\\DLY_LOAD" true,
        CONTROL_SIGNAL_PRIMITIVE.construct "\\O_DELAY" "\\DLY_LOAD" true] },
   { name := "f2g_trx_dly_adj".toList, dir := IO_DIR.IN, rules := CSR_IS_SHARED_HALF_BANK,
     primitives :=
       [CONTROL_SIGNAL_PRIMITIVE.construct "\\I_DELAY" "\\DLY_ADJ" true,
        CONTROL_SIGNAL_PRIMITIVE.construct "\\O_DELAY" "\\DLY_ADJ" true] },
   { name := "f2g_trx_dly_inc".toList, dir := IO_DIR.IN, rules := CSR_IS_SHARED_HALF_BANK,
     primitives :=
       [CONTROL_SIGNAL_PRIMITIVE.construct "\\I_DELAY" "\\DLY_INCDEC" true,
        CONTROL_SIGNAL_PRIMITIVE.construct "\\O_DELAY" "\\DLY_INCDEC" true] },
   { name := "g2f_trx_dly_tap".toList, dir := IO_DIR.OUT, rules := CSR_IS_SHARED_HALF_BANK,
     primitives :=
       [CONTROL_SIGNAL_PRIMITIVE.construct "\\I_DELAY" "\\DLY_TAP_VALUE" true,
        CONTROL_SIGNAL_PRIMITIVE.construct "\\O_DELAY" "\\DLY_TAP_VALUE" true] },
   { name := "f2g_trx_reset_n".toList, dir := IO_DIR.IN, rules := CSR_IS_AB,
     primitives :=
       [CONTROL_SIGNAL_PRIMITIVE.construct "\\I_SERDES" "\\RST" true,
        CONTROL_SIGNAL_PRIMITIVE.construct "\\O_SERDES" "\\RST" true,
        CONTROL_SIGNAL_PRIMITIVE.construct "\\I_DDR" "\\R" true,
        CONTROL_SIGNAL_PRIMITIVE.construct "\\O_DDR" "\\R" true] },
   { name := "g2f_rx_dvalid".toList, dir := IO_DIR.OUT, rules := CSR_IS_AB,
     primitives := [CONTROL_SIGNAL_PRIMITIVE.construct "\\I_SERDES" "\\DATA_VALID" true] },
   { name := "f2g_rx_bitslip_adj".toList, dir := IO_DIR.IN,
     rules := CSR_IS_SHARED_HALF_BANK,
     primitives := [CONTROL_SIGNAL_PRIMITIVE.construct "\\I_SERDES" "\\BITSLIP_ADJ" true] },
   { name := "g2f_rx_dpa_lock".toList, dir := IO_DIR.OUT, rules := CSR_IS_SHARED_HALF_BANK,
     primitives := [CONTROL_SIGNAL_PRIMITIVE.construct "\\I_SERDES" "\\DPA_LOCK" true] },
   { name := "g2f_rx_dpa_error".toList, dir := IO_DIR.OUT, rules := CSR_IS_SHARED_HALF_BANK,
     primitives := [CONTROL_SIGNAL_PRIMITIVE.construct "\\I_SERDES" "\\DPA_ERROR" true] },
   { name := "f2g_tx_dvalid".toList, dir := IO_DIR.IN, rules := CSR_IS_AB,
     primitives := [CONTROL_SIGNAL_PRIMITIVE.construct "\\O_SERDES" "\\DATA_VALID" true] },
   { name := "f2g_tx_clk_en".toList, dir := IO_DIR.IN, rules := CSR_IS_AB,
     primitives := [CONTROL_SIGNAL_PRIMITIVE.construct "\\O_SERDES_CLK" "\\CLK_EN" true] }]

/-- A value in the `connectivity` object of a wrapped instance, as far as the
extractor tells values apart: a string, an array (an element that is not a
string is `none`), or anything else. -/
inductive WrappedValue where
  | str (s : CppString)
  | arr (vs : List (Option CppString))
  | other
  deriving DecidableEq, Repr

/-- An element of the JSON array `wrapped_instances`, as far as the
extractor reads it: `module`, `name`, the optional `linked_object` and the
`connectivity` object with its keys in order. -/
structure WrappedInstance where
  module : CppString
  name : CppString := []
  linked_object : Option CppString := none
  connectivity : List (CppString × WrappedValue) := []
  deriving DecidableEq, Repr

/-- The loop of `get_wrapped_instance_net_by_port` over the connectivity of
the instance found: `found_port` and the nets. -/
def wrapped_port_nets (port : CppString) :
    List (CppString × WrappedValue) → Bool × List CppString →
      Except Fault (Bool × List CppString)
  | [], acc => .ok acc
  | (key, value) :: rest, (found_port, nets) =>
    if key = port then
      match value with
      | .arr vs =>
        if vs.any (fun v => v.isNone) then .error .assertion
        else wrapped_port_nets port rest (true, nets ++ vs.filterMap id)
      | .str s => wrapped_port_nets port rest (true, nets ++ [s])
      | .other => .error .assertion
    else wrapped_port_nets port rest (found_port, nets)

/-- The search of `get_wrapped_instance_net_by_port` for the first wrapped
instance of the module with the linked object. -/
def find_wrapped_instance (module linked_object : CppString) :
    List WrappedInstance → Except Fault (Option WrappedInstance)
  | [] => .ok none
  | found :: rest =>
    if found.module = module then
      match found.linked_object with
      | some lo =>
        match sort_name lo with
        | .error e => .error e
        | .ok sorted =>
          if sorted = linked_object then .ok (some found)
          else find_wrapped_instance module linked_object rest
      | none => find_wrapped_instance module linked_object rest
    else find_wrapped_instance module linked_object rest

/-- The method `get_wrapped_instance_net_by_port`: the reason (both parts
empty when all is well) and the nets. -/
def get_wrapped_instance_net_by_port (wrapped_instances : List WrappedInstance)
    (module linked_object port : CppString) :
    Except Fault ((CppString × CppString) × List CppString) :=
  match find_wrapped_instance module linked_object wrapped_instances with
  | .error e => .error e
  | .ok none =>
    .ok ((ERROR_STR, "Unable to find linked-object ".toList ++ c_str linked_object ++
      " wrapped-instance".toList), [])
  | .ok (some found) =>
    match wrapped_port_nets port found.connectivity (false, []) with
    | .error e => .error e
    | .ok (found_port, nets) =>
      if found_port then
        if nets.length = 0 then
          .ok ((ERROR_STR, "Unable to find linked-object ".toList ++ c_str linked_object ++
            " wrapped-instance port ".toList ++ c_str port ++ " data net".toList), nets)
        else .ok (([], []), nets)
      else
        .ok (("Skip".toList, "User design does not utilize linked-object ".toList ++
          c_str linked_object ++ " wrapped-instance port ".toList ++ c_str port), nets)

/-- The three maps that `write_control_signal` keeps while it groups the
signals, and `m_netlist_status`. A record of `tracked_instances` is the pair
of its code (`TRACKED_CONTROL_*`) and its messages. -/
structure ControlTracker where
  tracked_signals : CppMap (List CppString) := []
  tracked_prioritized_instances : CppMap (CppString × CppString) := []
  tracked_instances : CppMap (CppMap (Nat × List CppString)) := []
  m_netlist_status : Bool := true
  deriving DecidableEq, Repr

/-- The name of the rule in `write_control_signal`: the signal, with the
half `_A` or `_B` of the pin for a signal that exists per half. -/
def control_rule_name (iter0 : CONTROL_SIGNAL_INFO) (inst : INSTANCE) : CppString :=
  if iter0.rules &&& CSR_IS_AB ≠ 0 then
    if inst.parsed_location.status = PARSED_LOCATION_GOOD then
      iter0.name ++ (if inst.parsed_location.index % 2 = 0 then "_A".toList else "_B".toList)
    else iter0.name ++ "_\x7bA|B\x7d".toList
  else iter0.name

/-- The assigned location in `write_control_signal`: the location of the
instance, or the first pin of its half bank for a signal shared by the half
bank. -/
def control_assigned_location (iter0 : CONTROL_SIGNAL_INFO) (inst : INSTANCE) : CppString :=
  if inst.parsed_location.status = PARSED_LOCATION_GOOD ∧
      iter0.rules &&& CSR_IS_SHARED_HALF_BANK ≠ 0 then
    if inst.parsed_location.index < 20 then
      "H".toList ++ c_str inst.parsed_location.type ++ "_".toList ++
        c_str inst.parsed_location.bank ++ "_0_0P".toList
    else
      "H".toList ++ c_str inst.parsed_location.type ++ "_".toList ++
        c_str inst.parsed_location.bank ++ "_20_10P".toList
  else inst.parsed_location.location

/-- The key `inst_key` of a record of `tracked_instances`. -/
def control_inst_key (iter0 : CONTROL_SIGNAL_INFO) (iter1 : CONTROL_SIGNAL_PRIMITIVE)
    (inst : INSTANCE) : CppString :=
  c_str iter1.oport ++ "+".toList ++
    (if iter0.dir = IO_DIR.IN then "in".toList else "out".toList) ++ "+".toList ++
    c_str (control_rule_name iter0 inst) ++ "+".toList ++
    c_str (control_assigned_location iter0 inst)

/-- The key of `tracked_signals`: the signal and the assigned location. -/
def control_key (iter0 : CONTROL_SIGNAL_INFO) (inst : INSTANCE) : CppString :=
  c_str iter0.name ++ " + ".toList ++ c_str (control_assigned_location iter0 inst)


/-- The loop of `write_control_signal` over the wrapped nets of one claim.
The record `tracked_instances.at(inst->name).at(inst_key)` that the loop
writes to is carried as `record`; `i` is the `uint32_t` counter. A net at a
position that `tracked_signals.at(key)` does not have yet is appended there
(the first one also names the instance as prioritized); a net that differs
from the tracked one is a conflict, an error or an acceptable one by the
flag `error` of the table entry; an equal net is a match. -/
def track_nets (error : Bool) (key inst_name oport : CppString) :
    List CppString → Nat → Nat × List CppString → ControlTracker →
      Except Fault ((Nat × List CppString) × ControlTracker)
  | [], _, record, T => .ok (record, T)
  | wrapped_net :: rest, i, record, T =>
    match CppMap.find T.tracked_signals key with
    | none => .error .out_of_range
    | some signals =>
      if i = signals.length then
        track_nets error key inst_name oport rest ((i + 1) % 2 ^ 32)
          (record.1, record.2 ++ [wrapped_net])
          { T with
            tracked_signals := CppMap.set T.tracked_signals key (signals ++ [wrapped_net]),
            tracked_prioritized_instances :=
              if CppMap.contains T.tracked_prioritized_instances key then
                T.tracked_prioritized_instances
              else CppMap.set T.tracked_prioritized_instances key (inst_name, oport) }
      else
        match signals[i]? with
        | none => .error .out_of_range
        | some tracked =>
          if tracked ≠ wrapped_net then
            if !CppMap.contains T.tracked_prioritized_instances key then .error .assertion
            else if error then
              track_nets error key inst_name oport rest ((i + 1) % 2 ^ 32)
                (TRACKED_CONTROL_CONFLICT, record.2 ++ [wrapped_net])
                { T with m_netlist_status := false }
            else
              track_nets error key inst_name oport rest ((i + 1) % 2 ^ 32)
                (TRACKED_CONTROL_ACCEPTABLE_CONFLICT, record.2 ++ [wrapped_net]) T
          else
            track_nets error key inst_name oport rest ((i + 1) % 2 ^ 32)
              (if record.1 = TRACKED_CONTROL_GOOD then TRACKED_CONTROL_MATCH else record.1,
                record.2 ++ [wrapped_net]) T

/-- The message put in front of the nets of a record that is not good. -/
def conflict_reason (code : Nat) (prioritized : CppString × CppString) : CppString :=
  (if code = TRACKED_CONTROL_MATCH then "Match".toList
   else if code = TRACKED_CONTROL_ACCEPTABLE_CONFLICT then "Accpetable-conflict".toList
   else "Conflict".toList) ++
    " with primitive ".toList ++ c_str prioritized.1 ++ " port ".toList ++
    c_str prioritized.2

/-- The assignment `tracked_instances.at(inst->name)[inst_key] = record`;
the map of the instance name exists by then. -/
def store_record (T : ControlTracker) (inst_name inst_key : CppString)
    (record : Nat × List CppString) : ControlTracker :=
  let records := (CppMap.find T.tracked_instances inst_name).getD []
  let records := CppMap.set records inst_key record
  { T with tracked_instances := CppMap.set T.tracked_instances inst_name records }

/-- The record of `tracked_instances` under an instance name and an
instance key. -/
def tracked_record (T : ControlTracker) (inst_name inst_key : CppString) :
    Option (Nat × List CppString) :=
  match CppMap.find T.tracked_instances inst_name with
  | none => none
  | some records => CppMap.find records inst_key

/-- The claim of a good location whose wrapped nets were found, in
`write_control_signal`; the record is stored when the loop over the nets is
done. -/
def control_claim_nets (iter0 : CONTROL_SIGNAL_INFO) (iter1 : CONTROL_SIGNAL_PRIMITIVE)
    (inst : INSTANCE) (wrapped_nets : List CppString) (T : ControlTracker) :
    Except Fault ControlTracker :=
  if wrapped_nets.length = 0 then .error .assertion
  else
    let key := control_key iter0 inst
    let T :=
      if CppMap.contains T.tracked_signals key then T
      else { T with tracked_signals := CppMap.set T.tracked_signals key [] }
    match CppMap.find T.tracked_signals key with
    | none => .error .out_of_range
    | some signals =>
      if ¬ (signals.length = 0 ∨ signals.length = wrapped_nets.length) then .error .assertion
      else
        match track_nets iter1.error key inst.name iter1.oport wrapped_nets 0
            (TRACKED_CONTROL_GOOD, []) T with
        | .error e => .error e
        | .ok (record, T) =>
          if record.1 ≠ TRACKED_CONTROL_GOOD then
            match CppMap.find T.tracked_prioritized_instances key with
            | none => .error .out_of_range
            | some prioritized =>
              .ok (store_record T inst.name (control_inst_key iter0 iter1 inst)
                (record.1, conflict_reason record.1 prioritized :: record.2))
          else .ok (store_record T inst.name (control_inst_key iter0 iter1 inst) record)

/-- The first statement of a claim in `write_control_signal`: an instance
name without a map in `tracked_instances` gets an empty one. -/
def track_instance_name (T : ControlTracker) (inst_name : CppString) : ControlTracker :=
  if CppMap.contains T.tracked_instances inst_name then T
  else { T with tracked_instances := CppMap.set T.tracked_instances inst_name [] }

/-- The body of the loops of `write_control_signal` for an instance of the
module of the table entry: one claim. -/
def control_claim (wrapped_instances : List WrappedInstance) (iter0 : CONTROL_SIGNAL_INFO)
    (iter1 : CONTROL_SIGNAL_PRIMITIVE) (inst : INSTANCE) (T : ControlTracker) :
    Except Fault ControlTracker :=
  let T := track_instance_name T inst.name
  let inst_key := control_inst_key iter0 iter1 inst
  if (tracked_record T inst.name inst_key).isSome then .error .assertion
  else if inst.parsed_location.status = PARSED_LOCATION_UNKNOWN then .error .assertion
  else if inst.parsed_location.status = PARSED_LOCATION_GOOD then
    match inst.linked_object with
    | .error e => .error e
    | .ok linked_object =>
      match get_wrapped_instance_net_by_port wrapped_instances inst.module linked_object
          iter1.oport with
      | .error e => .error e
      | .ok (reason, wrapped_nets) =>
        if decide (reason.1.length = 0) ≠ decide (reason.2.length = 0) then .error .assertion
        else if reason.1.length = 0 then control_claim_nets iter0 iter1 inst wrapped_nets T
        else
          .ok { (store_record T inst.name inst_key
                  (TRACKED_CONTROL_BAD_WRAPPED_NET,
                    [c_str reason.1 ++ ": ".toList ++ c_str reason.2])) with
                m_netlist_status := T.m_netlist_status && decide (reason.1 ≠ ERROR_STR) }
  else
    .ok { (store_record T inst.name inst_key
            (TRACKED_CONTROL_BAD_LOCATION,
              [(if inst.parsed_location.status = PARSED_LOCATION_BAD then "Error".toList
                else "Skip".toList) ++ ": ".toList ++
                c_str inst.parsed_location.failure_reason])) with
          m_netlist_status :=
            T.m_netlist_status && decide (inst.parsed_location.status ≠ PARSED_LOCATION_BAD) }

/-- The claims that the three nested loops of `write_control_signal` meet,
in their order: by entry of `CONTROL_SIGNAL_DB`, then by primitive of the
entry, then by instance of that module. -/
def control_claims (instances : List INSTANCE) :
    List (CONTROL_SIGNAL_INFO × CONTROL_SIGNAL_PRIMITIVE × INSTANCE) :=
  CONTROL_SIGNAL_DB.flatMap (fun iter0 =>
    iter0.primitives.flatMap (fun iter1 =>
      (instances.filter (fun inst => decide (inst.module = iter1.oname))).map
        (fun inst => (iter0, iter1, inst))))

/-- The grouping loops of `write_control_signal` run over a list of
claims. -/
def track_claims (wrapped_instances : List WrappedInstance) :
    List (CONTROL_SIGNAL_INFO × CONTROL_SIGNAL_PRIMITIVE × INSTANCE) → ControlTracker →
      Except Fault ControlTracker
  | [], T => .ok T
  | claim :: rest, T =>
    match control_claim wrapped_instances claim.1 claim.2.1 claim.2.2 T with
    | .error e => .error e
    | .ok T => track_claims wrapped_instances rest T

/-- The record `SDC_ASSIGNMENT` (declared in the header): the seven
strings of a line, the ones left out being empty. -/
structure SDC_ASSIGNMENT where
  str1 : CppString
  str2 : CppString
  str3 : CppString
  str4 : CppString
  str5 : CppString := []
  str6 : CppString := []
  str7 : CppString := []
  deriving DecidableEq, Repr

/-- The record `SDC_ENTRY` (declared in the header): comment lines and
assignment lines, written in this order by `write_sdc_entries`. -/
structure SDC_ENTRY where
  comments : List CppString := []
  assignments : List SDC_ASSIGNMENT := []
  deriving DecidableEq, Repr

/-- The assignment lines of an entry of `write_control_signal`: one
`set_io` per net, commented out unless the record is good; `count` is the
number of messages of the record and `i` the `uint32_t` counter. -/
def control_assignments (code count : Nat) (rule location mode : CppString) :
    List CppString → Nat → List SDC_ASSIGNMENT
  | [], _ => []
  | wrapped_net :: rest, i =>
    { str1 := (if code = TRACKED_CONTROL_GOOD then [] else "# ".toList) ++ "set_io".toList,
      str2 := wrapped_net, str3 := c_str location, str4 := "-mode".toList, str5 := mode,
      str6 := "-internal_pin".toList,
      str7 := c_str rule ++
        c_str (if count = 1 then []
               else "[".toList ++ fmt_d (int_of_uint32 i) ++ "]".toList) } ::
      control_assignments code count rule location mode rest ((i + 1) % 2 ^ 32)

/-- The entry that the second loop of `write_control_signal` builds for one
record of an instance. -/
def control_entry (st : Extractor) (inst : INSTANCE) (db : PRIMITIVE_DB)
    (linked_object inst_key : CppString) (record : Nat × List CppString) :
    Except Fault SDC_ENTRY :=
  match split_string inst_key "+".toList 3 with
  | .error e => .error e
  | .ok [port, dir, rule, location] =>
    let comments : List CppString :=
      ["# Module: ".toList ++ c_str inst.module,
       "# LinkedObject: ".toList ++ c_str linked_object,
       "# Location: ".toList ++ c_str inst.parsed_location.location,
       "# Port: ".toList ++ c_str port,
       "# Signal: ".toList ++ c_str dir ++ ":".toList ++ c_str rule]
    let checked : Except Fault (List CppString × List CppString) :=
      if record.1 = TRACKED_CONTROL_BAD_LOCATION ∨
          record.1 = TRACKED_CONTROL_BAD_WRAPPED_NET then
        match record.2 with
        | [msg] => .ok (comments ++ ["# ".toList ++ c_str msg], [])
        | _ => .error .assertion
      else if record.1 = TRACKED_CONTROL_MATCH ∨
          record.1 = TRACKED_CONTROL_ACCEPTABLE_CONFLICT ∨
          record.1 = TRACKED_CONTROL_CONFLICT then
        match record.2 with
        | msg :: net :: nets =>
          .ok (comments ++
            ["# ".toList ++
              c_str ((if record.1 = TRACKED_CONTROL_CONFLICT then "Error".toList
                      else "Skip".toList) ++ ": ".toList ++ c_str msg)],
            net :: nets)
        | _ => .error .assertion
      else if record.1 ≠ TRACKED_CONTROL_GOOD then .error .assertion
      else if record.2.length = 0 then .error .assertion
      else .ok (comments, record.2)
    match checked with
    | .error e => .error e
    | .ok (comments, msgs) =>
      if msgs.length ≠ 0 then
        let location_key :=
          (if db.is_in_dir then "I".toList else "O".toList) ++ ":".toList ++
            c_str inst.parsed_location.location
        match CppMap.find st.m_location_mode location_key with
        | none => .error .assertion
        | some mode =>
          .ok { comments := comments,
                assignments :=
                  control_assignments record.1 record.2.length rule location mode msgs 0 }
      else .ok { comments := comments }
  | .ok _ => .error .assertion

/-- The entries of one instance in the second loop of
`write_control_signal`, by instance key. -/
def control_entries_records (st : Extractor) (inst : INSTANCE) (db : PRIMITIVE_DB)
    (linked_object : CppString) :
    List (CppString × Nat × List CppString) → Except Fault (List SDC_ENTRY)
  | [] => .ok []
  | (inst_key, record) :: rest =>
    match control_entry st inst db linked_object inst_key record with
    | .error e => .error e
    | .ok entry =>
      match control_entries_records st inst db linked_object rest with
      | .error e => .error e
      | .ok entries => .ok (entry :: entries)

/-- The second loop of `write_control_signal`: the entries handed to
`write_sdc_entries`. -/
def control_entries (st : Extractor) (T : ControlTracker) :
    List INSTANCE → Except Fault (List SDC_ENTRY)
  | [] => .ok []
  | inst :: rest =>
    if inst.module ≠ "WIRE".toList then
      match inst.primitive with
      | none => .error .null_deref
      | some r =>
        match st.deref r with
        | .error e => .error e
        | .ok primitive =>
          match inst.linked_object with
          | .error e => .error e
          | .ok linked_object =>
            match control_entries_records st inst primitive.db linked_object
                ((CppMap.find T.tracked_instances inst.name).getD []) with
            | .error e => .error e
            | .ok entries =>
              match control_entries st T rest with
              | .error e => .error e
              | .ok more => .ok (entries ++ more)
    else control_entries st T rest

/-- The method `write_control_signal`: the state it leaves and the entries
it hands to `write_sdc_entries`, which writes for each entry its comment
lines and then its assignment lines, `str1` first. -/
def write_control_signal (wrapped_instances : List WrappedInstance) (st : Extractor) :
    Except Fault (Extractor × List SDC_ENTRY) :=
  match track_claims wrapped_instances (control_claims st.m_instances)
      { m_netlist_status := st.m_netlist_status } with
  | .error e => .error e
  | .ok T =>
    match control_entries { st with m_netlist_status := T.m_netlist_status } T
        st.m_instances with
    | .error e => .error e
    | .ok entries => .ok ({ st with m_netlist_status := T.m_netlist_status }, entries)


/-- Two input buffers, on the ports `din0` and `din1`, each followed by a
delay; the load signals of the delays are different nets. -/
def example_two_delays : Module :=
  { wires := [input_wire "\\din0", input_wire "\\din1"],
    cells := [cell_of "\\I_BUF" "\\buf0" [("\\I", "\\din0"), ("\\O", "\\n0")],
              cell_of "\\I_DELAY" "\\dly0"
                [("\\I", "\\n0"), ("\\CLK_IN", "\\c0"), ("\\O", "\\q0"),
                 ("\\DLY_LOAD", "\\ld0")],
              cell_of "\\I_BUF" "\\buf1" [("\\I", "\\din1"), ("\\O", "\\n1")],
              cell_of "\\I_DELAY" "\\dly1"
                [("\\I", "\\n1"), ("\\CLK_IN", "\\c1"), ("\\O", "\\q1"),
                 ("\\DLY_LOAD", "\\ld1")]],
    connections := [] }

/-- The state after `extract` on `example_two_delays`, with the netlist
status set, the instances of `din0` placed at `HP_1_2_1P` and those of `din1`
at `HP_1_4_2P` (two pins of one half bank), and a mode for both pins. -/
def example_two_delays_located : Extractor :=
  match extract example_two_delays 10 (Extractor.construct "genesis3".toList) with
  | .error _ => Extractor.construct "genesis3".toList
  | .ok (_, st, _) =>
    { st with
      m_netlist_status := true,
      m_instances := st.m_instances.map (fun inst =>
        if inst.linked_objects = ["din0".toList] then
          { inst with parsed_location :=
              { location := "HP_1_2_1P".toList, type := "P".toList, bank := "1".toList,
                index := 2, status := PARSED_LOCATION_GOOD } }
        else
          { inst with parsed_location :=
              { location := "HP_1_4_2P".toList, type := "P".toList, bank := "1".toList,
                index := 4, status := PARSED_LOCATION_GOOD } }),
      m_location_mode :=
        [("I:HP_1_2_1P".toList, "MODE_BP_SDR_A_RX".toList),
         ("I:HP_1_4_2P".toList, "MODE_BP_SDR_A_RX".toList)] }

/-- The wrapped instances of `example_two_delays`. -/
def example_two_delays_wrapped : List WrappedInstance :=
  [{ module := "I_BUF".toList, linked_object := some "din0".toList,
     connectivity := [("I".toList, .str "din0".toList), ("O".toList, .str "n0".toList)] },
   { module := "I_DELAY".toList, linked_object := some "din0".toList,
     connectivity :=
       [("DLY_LOAD".toList, .str "ld0".toList), ("I".toList, .str "n0".toList)] },
   { module := "I_BUF".toList, linked_object := some "din1".toList,
     connectivity := [("I".toList, .str "din1".toList), ("O".toList, .str "n1".toList)] },
   { module := "I_DELAY".toList, linked_object := some "din1".toList,
     connectivity :=
       [("DLY_LOAD".toList, .str "ld1".toList), ("I".toList, .str "n1".toList)] }]

/-- The wrapped instances of `example_two_delays` with two load nets on the
second delay. -/
def example_two_delays_wide : List WrappedInstance :=
  [{ module := "I_BUF".toList, linked_object := some "din0".toList,
     connectivity := [("I".toList, .str "din0".toList), ("O".toList, .str "n0".toList)] },
   { module := "I_DELAY".toList, linked_object := some "din0".toList,
     connectivity :=
       [("DLY_LOAD".toList, .str "ld0".toList), ("I".toList, .str "n0".toList)] },
   { module := "I_BUF".toList, linked_object := some "din1".toList,
     connectivity := [("I".toList, .str "din1".toList), ("O".toList, .str "n1".toList)] },
   { module := "I_DELAY".toList, linked_object := some "din1".toList,
     connectivity :=
       [("DLY_LOAD".toList, .arr [some "ld1".toList, some "ld2".toList]),
        ("I".toList, .str "n1".toList)] }]

/-- The table entry of the delay load signal, which is shared by a half
bank. -/
def example_load_signal : CONTROL_SIGNAL_INFO :=
  { name := "f2g_trx_dly_ld".toList, dir := IO_DIR.IN, rules := CSR_IS_SHARED_HALF_BANK,
    primitives :=
      [CONTROL_SIGNAL_PRIMITIVE.construct "\\I_DELAY" "\\DLY_LOAD" true,
       CONTROL_SIGNAL_PRIMITIVE.construct "\\O_DELAY" "\\DLY_LOAD" true] }

/-- The instance at a position of `example_two_delays_located`. -/
def example_two_delays_instance (j : Nat) : INSTANCE :=
  match example_two_delays_located.m_instances[j]? with
  | some inst => inst
  | none =>
    { module := [], name := [], linked_objects := [], primitive := none,
      pre_primitive := [], post_primitives := [] }

/-- The tracker of `write_control_signal` on `example_two_delays_located`
after the given number of claims. -/
def example_two_delays_tracker (claims : Nat) : ControlTracker :=
  match track_claims example_two_delays_wrapped
      ((control_claims example_two_delays_located.m_instances).take claims) {} with
  | .ok T => T
  | .error _ => {}


/-! ### Joined names -/

/-- Names joined by `+`. -/
def plus_join : List CppString → CppString
  | [] => []
  | [a] => a
  | a :: b :: rest => a ++ '+' :: plus_join (b :: rest)

/-- A name that `sort_name` can take as one piece: not empty, without `+`
and without a NUL char unit. -/
def PlainName (a : CppString) : Prop :=
  a ≠ [] ∧ '+' ∉ a ∧ ∀ c ∈ a, c.toNat ≠ 0

instance (a : CppString) : Decidable (PlainName a) := by
  unfold PlainName
  infer_instance


/-! ### Connections of a cell on declared ports -/

/-- The ports of a list that are connected on the cell. -/
def connected_among (cell : Cell) (ports : List CppString) : List CppString :=
  ports.filter (fun p => decide (p ∈ cell.connections.map Prod.fst))

/-- The test of `is_connected_cell` and `get_port_cell_connections` for a
declared port: an input, or else an output. -/
def is_declared_port (db : PRIMITIVE_DB) (k : CppString) : Bool :=
  decide (k ∈ db.inputs) || (!decide (k ∈ db.inputs) && decide (k ∈ db.outputs))

/-- The test of `get_port_cell_connections` for a port whose connection goes
to the primary map. -/
def is_primary_port (db : PRIMITIVE_DB) (k : CppString) : Bool :=
  is_declared_port db k &&
    ((db.is_in_dir && decide (k ∈ db.inputs)) ||
      (db.is_out_dir && (!decide (k ∈ db.inputs) && decide (k ∈ db.outputs))))

/-- The map that the assignments `connections[port] = dump` build from a
list of connections. -/
def dump_map (conns : List (CppString × SigSpec)) (m : CppMap CppString) : CppMap CppString :=
  conns.foldl (fun m it => CppMap.set m it.1 it.2.dump) m

/-- What makes a descriptor regular: no port is declared twice, and the side
that is checked (inputs of an inward, outputs of an outward descriptor) is
neither optional nor relaxed to any number of connections. -/
def RegularDescriptor (db : PRIMITIVE_DB) : Prop :=
  db.inputs.Nodup ∧ db.outputs.Nodup ∧ (∀ k ∈ db.inputs, k ∉ db.outputs) ∧
  db.inputs.length + db.outputs.length ≠ 0 ∧
  (db.is_in_dir = true → db.is_any_inputs = false ∧ db.is_optional_input = false) ∧
  (db.is_in_dir = false → db.is_any_outputs = false ∧ db.is_optional_output = false)

instance (db : PRIMITIVE_DB) : Decidable (RegularDescriptor db) := by
  unfold RegularDescriptor
  infer_instance


/-- The descriptor of the `genesis3` table with the given name (an empty
descriptor if the table has none). -/
def genesis3_descriptor (name : String) : PRIMITIVE_DB :=
  match is_supported_primitive_in name.toList PRIMITIVE_REQ.DONT_CARE genesis3_primitives with
  | some db => db
  | none =>
    { name := [], feature := P_IS_NULL, inputs := [], outputs := [], output_traits := [],
      intrace_connection := [], outtrace_connection := [], fast_clock := [],
      core_clock := [], data_signal := [], properties := [] }


/-! ### A single input buffer on a single input port -/

/-- The port record that `get_ports` creates for a one-bit input wire; its
offset is the `int` sum `wire->start_offset + 0`. -/
def input_port_info (w : Wire) : PORT_INFO :=
  { dir := IO_DIR.IN, name := w.name, fullname := w.name, realname := w.name,
    offset := int_add w.start_offset 0, index := 0, width := 1, bidir := false }

/-- The connection map of a root: the primary connections, then the
secondary ones, copied entry by entry as `trace_and_create_port` does. -/
def root_connections (primary secondary : CppMap CppString) : CppMap CppString :=
  secondary.foldl (fun m it => CppMap.set m it.1 it.2)
    (primary.foldl (fun m it => CppMap.set m it.1 it.2) [])

/-- The root that `trace_and_create_port` creates for the input buffer `c`
on the one-bit input wire `w`. -/
def input_buffer_root (c : Cell) (w : Wire) : PORT_PRIMITIVE :=
  { base :=
      { db := genesis3_descriptor "\\I_BUF", name := c.name, parent := none,
        grandparent := none,
        connections := root_connections [("\\I".toList, w.name)]
          (dump_map (c.connections.filter (fun it =>
            is_declared_port (genesis3_descriptor "\\I_BUF") it.1 &&
              !is_primary_port (genesis3_descriptor "\\I_BUF") it.1)) []),
        is_port_primitive := true, bidir := false,
        parameters := copy_parameters c.parameters [] },
    port_infos := [input_port_info w], dir := IO_DIR.IN }

/-- The instance that `gen_instance` creates for a node without children
and without gearbox clocks. -/
def leaf_instance (primitive : PRIMITIVE) (ls : List CppString) (r : PrimRef)
    (pre : CppString) : INSTANCE :=
  let inst : INSTANCE :=
    { module := get_original_name primitive.db.name,
      name := get_original_name primitive.name, linked_objects := ls, primitive := some r,
      pre_primitive := pre, post_primitives := [],
      properties := ls.foldl (fun acc o => CppMap.set acc o []) [],
      locations := ls.foldl (fun acc o => CppMap.set acc o []) [],
      flags := [get_original_name primitive.db.name] }
  let inst := (inst.add_connections primitive.connections).add_parameters primitive.parameters
  if primitive.bidir then { inst with flags := inst.flags ++ ["INOUT".toList] } else inst

/-- The instance that `gen_instance` creates for the root of the input
buffer `c` on the wire `w`. -/
def input_buffer_instance (c : Cell) (w : Wire) : INSTANCE :=
  leaf_instance (input_buffer_root c w).base [get_original_name w.name] (.port 0) []

/-- A module with exactly one one-bit input port `w` and the input buffer
`c` on it (the port names of `c` being distinct, as in a netlist) as its
only cell of a supported type. -/
structure SingleInputBuffer (module : Module) (c : Cell) (w : Wire)
    (before after : List Cell) : Prop where
  wire : w ∈ module.wires
  input : w.port_input = true ∧ w.port_output = false ∧ w.width = 1
  only_input : ∀ x ∈ module.wires, x.port_input = true → x = w
  cells : module.cells = before ++ c :: after
  buffer : c.type = "\\I_BUF".toList
  others : ∀ x ∈ before ++ after,
    is_supported_primitive_in x.type PRIMITIVE_REQ.DONT_CARE genesis3_primitives = none
  ports : (c.connections.map Prod.fst).Nodup
  on_port : ∃ sig, ("\\I".toList, sig) ∈ c.connections ∧ sig.dump = w.name


/-- A name that `sort_name` can take apart: read as a C string it is a list
of plain pieces joined by `+`. -/
def JoinedName (s : CppString) : Prop :=
  ∃ pieces : List CppString, pieces ≠ [] ∧ (∀ p ∈ pieces, PlainName p) ∧
    (plus_join pieces).length < npos ∧ c_str s = plus_join pieces


/-- The pin that `summarize` creates for a linked object of a root. -/
def pin_of_root (port : PORT_PRIMITIVE) (r : PrimRef) (object : CppString) : PIN_PORT :=
  { name := object, primitive := r, is_input := port.base.db.is_in_dir,
    is_standalone := port.base.db.is_standalone,
    is_fabric_clkbuf := port.base.db.is_fabric_clkbuf }


/-- An input buffer on the one-bit input port `din`, followed by a cell of
fabric logic. -/
def example_single_buffer : Module :=
  { wires := [input_wire "\\din"],
    cells := [cell_of "\\I_BUF" "\\ibuf" [("\\I", "\\din"), ("\\O", "\\n1")],
              cell_of "\\LOGIC" "\\u1" [("\\A", "\\n1")]],
    connections := [] }

/-- An input buffer on a one-bit input port whose name, the escaped
identifier `\+a`, starts with `+`. -/
def example_plus_port : Module :=
  { wires := [input_wire "\\+a"],
    cells := [cell_of "\\I_BUF" "\\ibuf" [("\\I", "\\+a"), ("\\O", "\\n1")]],
    connections := [] }


/-! ### Locations of the instances -/

/-- The loop of `assign_location` over the given properties, for one
instance: `instance->properties[port][iter.first] = iter.second`. -/
def assign_properties (port : CppString) (properties : List (CppString × CppString))
    (inst : INSTANCE) : INSTANCE :=
  let inst :=
    if CppMap.contains inst.properties port then inst
    else { inst with properties := CppMap.set inst.properties port [] }
  properties.foldl (fun inst iter =>
    { inst with
      properties := CppMap.set inst.properties port
        (CppMap.set ((CppMap.find inst.properties port).getD []) iter.1 iter.2) }) inst

/-- The body of the loop of `assign_location` for the instance at position
`i`; the descriptor of the instance is read before the instance is tested for
a primitive. -/
def assign_location_at (port location : CppString)
    (properties : List (CppString × CppString)) (st : Extractor) (i : Nat) :
    Except Fault Extractor :=
  match st.m_instances[i]? with
  | none => .error .out_of_range
  | some inst =>
    if port ∈ inst.linked_objects then
      match inst.primitive with
      | none => .error .null_deref
      | some r =>
        match st.deref r with
        | .error e => .error e
        | .ok primitive =>
          match get_pin_info st port
              (if primitive.db.is_in_dir then IO_DIR.IN else IO_DIR.OUT) with
          | .error e => .error e
          | .ok none => .error .assertion
          | .ok (some p) =>
            let inst := { inst with locations := CppMap.set inst.locations port location }
            let inst :=
              if primitive.is_port_primitive then assign_properties port properties inst
              else inst
            .ok { st with
                  m_pin_infos :=
                    st.m_pin_infos.modify (fun pin => { pin with location := location }) p,
                  m_instances := st.m_instances.set i inst }
    else .ok st

/-- The loop of `assign_location` over the positions of `m_instances`. -/
def assign_location_loop (port location : CppString)
    (properties : List (CppString × CppString)) :
    List Nat → Extractor → Except Fault Extractor
  | [], st => .ok st
  | i :: rest, st =>
    match assign_location_at port location properties st i with
    | .error e => .error e
    | .ok st => assign_location_loop port location properties rest st

/-- The method `assign_location(port, location, properties)`; the
properties come in the order in which the loop over the unordered map meets
them. -/
def assign_location (port location : CppString)
    (properties : List (CppString × CppString)) (st : Extractor) :
    Except Fault Extractor :=
  assign_location_loop port location properties (List.range st.m_instances.length) st

/-- The first entry of a map with a value that is not empty. -/
def first_located : CppMap CppString → Option CppString
  | [] => none
  | (k, v) :: rest => if v.length ≠ 0 then some k else first_located rest

/-- The branch of `INSTANCE::get_primary_object` for an instance of a root
(`primitive->grandparent == nullptr`) without a primary object: the value
that `primary_object` gets. -/
def INSTANCE.choose_primary_object (inst : INSTANCE) (ports : List CppString) :
    CppString :=
  let design_object : CppString :=
    match ports.find? (fun port => CppMap.contains inst.connections port) with
    | some port => (CppMap.find inst.connections port).getD []
    | none => []
  let primary_object : CppString :=
    if design_object.length > 0 ∧ CppMap.contains inst.locations design_object = true ∧
        ((CppMap.find inst.locations design_object).getD []).length > 0 then design_object
    else (first_located inst.locations).getD inst.primary_object
  let primary_object :=
    if primary_object.length = 0 ∧ design_object.length > 0 then design_object
    else primary_object
  let primary_object :=
    if primary_object.length = 0 then
      match inst.locations with
      | [] => primary_object
      | (k, _) :: _ => k
    else primary_object
  primary_object

/-- The method `INSTANCE::get_primary_object(ports)` on the instance at
position `i`, when the node of the instance is a root or the instance has no
node: the state with the field `primary_object` set, and the value
returned. -/
def get_primary_object_root (st : Extractor) (i : Nat) (ports : List CppString) :
    Except Fault (Extractor × CppString) :=
  match st.m_instances[i]? with
  | none => .error .null_deref
  | some inst =>
    if inst.primary_object.length = 0 ∧ inst.primitive ≠ none then
      .ok ({ st with
             m_instances :=
               st.m_instances.set i
                 { inst with primary_object := inst.choose_primary_object ports } },
           inst.choose_primary_object ports)
    else .ok (st, inst.primary_object)

/-- The three assertions of `get_primary_object` and `get_primary_location`
on the instance of the chain root `g`: the position of that instance. -/
def root_instance (st : Extractor) (g : PrimRef) : Except Fault Nat :=
  match st.deref g with
  | .error e => .error e
  | .ok root =>
    match root.inst with
    | none => .error .assertion
    | some j =>
      match st.m_instances[j]? with
      | none => .error .null_deref
      | some rinst =>
        match rinst.primitive with
        | none => .error .assertion
        | some r =>
          match st.deref r with
          | .error e => .error e
          | .ok rp => if rp.grandparent = none then .ok j else .error .assertion

/-- The method `INSTANCE::get_primary_object(ports)` on the instance at
position `i`. -/
def get_primary_object (st : Extractor) (i : Nat) (ports : List CppString) :
    Except Fault (Extractor × CppString) :=
  match st.m_instances[i]? with
  | none => .error .null_deref
  | some inst =>
    if inst.primary_object.length = 0 ∧ inst.primitive ≠ none then
      match inst.primitive with
      | none => .ok (st, inst.primary_object)
      | some r =>
        match st.deref r with
        | .error e => .error e
        | .ok primitive =>
          match primitive.grandparent with
          | none => get_primary_object_root st i ports
          | some g =>
            match root_instance st g with
            | .error e => .error e
            | .ok j =>
              match get_primary_object_root st j ports with
              | .error e => .error e
              | .ok (st, primary_object) =>
                match st.m_instances[i]? with
                | none => .error .null_deref
                | some inst =>
                  .ok ({ st with
                         m_instances :=
                           st.m_instances.set i
                             { inst with primary_object := primary_object } },
                       primary_object)
    else .ok (st, inst.primary_object)

/-- The assignment `parsed_location.location = value` on the instance at
position `i`. -/
def set_location (st : Extractor) (i : Nat) (value : CppString) : Extractor :=
  { st with
    m_instances :=
      st.m_instances.modify
        (fun inst =>
          { inst with parsed_location := { inst.parsed_location with location := value } })
        i }

/-- The method `INSTANCE::get_primary_location(ports)` on the instance at
position `i`, when the node of the instance is a root or the instance has no
node. -/
def get_primary_location_root (st : Extractor) (i : Nat) (ports : List CppString) :
    Except Fault (Extractor × CppString) :=
  match st.m_instances[i]? with
  | none => .error .null_deref
  | some inst =>
    if inst.parsed_location.location.length = 0 ∧ inst.primitive ≠ none then
      match get_primary_object_root st i ports with
      | .error e => .error e
      | .ok (st, location_object) =>
        if location_object.length ≠ 0 then
          match st.m_instances[i]? with
          | none => .error .null_deref
          | some inst =>
            match CppMap.find inst.locations location_object with
            | none => .error .assertion
            | some location => .ok (set_location st i location, location)
        else .ok (st, inst.parsed_location.location)
    else .ok (st, inst.parsed_location.location)

/-- The method `INSTANCE::get_primary_location(ports)` on the instance at
position `i`. -/
def get_primary_location (st : Extractor) (i : Nat) (ports : List CppString) :
    Except Fault (Extractor × CppString) :=
  match st.m_instances[i]? with
  | none => .error .null_deref
  | some inst =>
    if inst.parsed_location.location.length = 0 ∧ inst.primitive ≠ none then
      match inst.primitive with
      | none => .ok (st, inst.parsed_location.location)
      | some r =>
        match st.deref r with
        | .error e => .error e
        | .ok primitive =>
          match primitive.grandparent with
          | none => get_primary_location_root st i ports
          | some g =>
            match root_instance st g with
            | .error e => .error e
            | .ok j =>
              match get_primary_location_root st j ports with
              | .error e => .error e
              | .ok (st, location) => .ok (set_location st i location, location)
    else .ok (st, inst.parsed_location.location)

/-- The default argument of `get_primary_object` and
`get_primary_location`. -/
def PRIMARY_PORTS : List CppString := ["I_P".toList, "O_P".toList]

/-- The method `INSTANCE::finalize_location` on the instance at position
`i`. -/
def finalize_location (st : Extractor) (i : Nat) : Except Fault Extractor :=
  match st.m_instances[i]? with
  | none => .error .null_deref
  | some inst =>
    if inst.parsed_location.type.length = 0 ∧ inst.parsed_location.bank.length = 0 ∧
        inst.parsed_location.is_clock = false ∧ inst.parsed_location.index = 0 ∧
        inst.parsed_location.status = PARSED_LOCATION_UNKNOWN ∧
        inst.parsed_location.failure_reason.length = 0 then
      match get_primary_object st i PRIMARY_PORTS with
      | .error e => .error e
      | .ok (st, primary_object) =>
        match st.m_instances[i]? with
        | none => .error .null_deref
        | some inst =>
          let st :=
            { st with
              m_instances :=
                st.m_instances.set i { inst with primary_object := primary_object } }
          match get_primary_location st i PRIMARY_PORTS with
          | .error e => .error e
          | .ok (st, location) =>
            let st := set_location st i location
            match st.m_instances[i]? with
            | none => .error .null_deref
            | some inst =>
              match parse_location inst.parsed_location.location inst.parsed_location with
              | .error e => .error e
              | .ok parsed =>
                .ok { st with
                      m_instances :=
                        st.m_instances.set i { inst with parsed_location := parsed } }
    else .error .assertion

/-- The loop of `write_sdc` that finalizes the location of every
instance. -/
def finalize_locations : List Nat → Extractor → Except Fault Extractor
  | [], st => .ok st
  | i :: rest, st =>
    match finalize_location st i with
    | .error e => .error e
    | .ok st => finalize_locations rest st


/-! ### The JSON report -/

/-- The record `MSG`: a message of the log `m_msgs` and its indentation. -/
structure MSG where
  offset : Nat
  msg : CppString
  deriving DecidableEq, Repr

/-- The method `write_json_data`: the char units it sends to the stream. -/
def write_json_data (str : CppString) : CppString :=
  str.flatMap (fun c =>
    if c = '\\' then ['\\', c]
    else if c = '"' then ['\\', c]
    else [c])

/-- The indentation loops of the JSON writer: `space` times two blanks. -/
def json_indent : Nat → CppString
  | 0 => []
  | space + 1 => "  ".toList ++ json_indent space

/-- The method `write_json_object`. -/
def write_json_object (space : Nat) (key value : CppString) : CppString :=
  json_indent space ++ "\"".toList ++ write_json_data key ++ "\"".toList ++ ": ".toList ++
    "\"".toList ++ write_json_data value ++ "\"".toList

/-- The loop of `write_instance_map`, `index` counting the entries written,
and the line end that follows a map that is not empty. -/
def write_instance_map_loop (space : Nat) : List (CppString × CppString) → Nat → CppString
  | [], index => if index ≠ 0 then "\n".toList else []
  | iter :: rest, index =>
    (if index ≠ 0 then ",\n".toList else []) ++ write_json_object space iter.1 iter.2 ++
      write_instance_map_loop space rest (index + 1)

/-- The method `write_instance_map`. -/
def write_instance_map (map : CppMap CppString) (space : Nat) : CppString :=
  write_instance_map_loop space map 0

/-- The loop of `write_instance_array`. -/
def write_instance_array_loop (space : Nat) : List CppString → Nat → CppString
  | [], index => if index ≠ 0 then "\n".toList else []
  | iter :: rest, index =>
    (if index ≠ 0 then ",\n".toList else []) ++ json_indent space ++ "\"".toList ++
      write_json_data iter ++ "\"".toList ++ write_instance_array_loop space rest (index + 1)

/-- The method `write_instance_array`; the calls pass 4 or 5 for `space`. -/
def write_instance_array (array : List CppString) (space : Nat) : CppString :=
  write_instance_array_loop space array 0

/-- The loop of `write_instance` over the linked objects. -/
def write_linked_objects (inst : INSTANCE) : List CppString → Nat → Except Fault CppString
  | [], _ => .ok []
  | object :: rest, index =>
    match CppMap.at inst.locations object with
    | .error e => .error e
    | .ok location =>
      match CppMap.at inst.properties object with
      | .error e => .error e
      | .ok properties =>
        match write_linked_objects inst rest (index + 1) with
        | .error e => .error e
        | .ok more =>
          .ok ((if index ≠ 0 then ",\n".toList else []) ++
            "        \"".toList ++ c_str object ++ "\": \x7b\n".toList ++
            write_json_object 5 "location".toList location ++ ",\n".toList ++
            "          \"properties\": \x7b\n".toList ++
            write_instance_map properties 6 ++
            "          \x7d\n".toList ++
            "        \x7d".toList ++ more)

/-- The loop of `write_instance` over the gearbox clocks, and the line end
that follows when there was one. -/
def write_route_clock_to : List (CppString × List CppString) → Nat → CppString
  | [], index => if index ≠ 0 then "\n".toList else []
  | c :: rest, index =>
    (if index ≠ 0 then ",\n".toList else []) ++
      "        \"".toList ++ c_str c.1 ++ "\": [\n".toList ++
      write_instance_array c.2 5 ++ "        ]".toList ++
      write_route_clock_to rest (index + 1)

/-- The method `write_instance`: the text of one instance. The argument
`map_space` is the default of the parameter `space` of `write_instance_map`,
which the header declares. -/
def write_instance (st : Extractor) (map_space : Nat) (inst : INSTANCE) :
    Except Fault CppString :=
  match inst.linked_object with
  | .error e => .error e
  | .ok linked_object =>
    if inst.linked_objects.length = 0 then .error .assertion
    else
      match write_linked_objects inst inst.linked_objects 0 with
      | .error e => .error e
      | .ok linked_objects =>
        match inst.primitive with
        | none => .error .null_deref
        | some r =>
          match st.deref r with
          | .error e => .error e
          | .ok primitive =>
            .ok ("\n    \x7b\n".toList ++
              write_json_object 3 "module".toList inst.module ++ ",\n".toList ++
              write_json_object 3 "name".toList inst.name ++ ",\n".toList ++
              write_json_object 3 "location_object".toList inst.primary_object ++
              ",\n".toList ++
              write_json_object 3 "location".toList inst.parsed_location.location ++
              ",\n".toList ++
              write_json_object 3 "linked_object".toList linked_object ++ ",\n".toList ++
              "      \"linked_objects\": \x7b\n".toList ++ linked_objects ++ "\n".toList ++
              "      \x7d,\n".toList ++
              "      \"connectivity\": \x7b\n".toList ++
              write_instance_map inst.connections map_space ++
              "      \x7d,\n".toList ++
              "      \"parameters\": \x7b\n".toList ++
              write_instance_map inst.parameters map_space ++
              "      \x7d,\n".toList ++
              "      \"flags\": [\n".toList ++ write_instance_array inst.flags 4 ++
              "      ],\n".toList ++
              write_json_object 3 "pre_primitive".toList inst.pre_primitive ++
              ",\n".toList ++
              "      \"post_primitives\": [\n".toList ++
              write_instance_array inst.post_primitives 4 ++ "      ],\n".toList ++
              "      \"route_clock_to\": \x7b\n".toList ++
              write_route_clock_to inst.gearbox_clocks 0 ++ "      \x7d,\n".toList ++
              "      \"errors\": [\n".toList ++ write_instance_array primitive.errors 4 ++
              "      ]\n".toList ++ "    \x7d".toList)

/-- The loop of `write_json` over the instances: the text of the instances
written in full, and the fault that ended the loop, if one did. -/
def write_instances (st : Extractor) (map_space : Nat) :
    List INSTANCE → Nat → CppString × Option Fault
  | [], _ => ([], none)
  | inst :: rest, index =>
    match write_instance st map_space inst with
    | .error e => ([], some e)
    | .ok text =>
      let more := write_instances st map_space rest (index + 1)
      ((if index ≠ 0 then ",".toList else []) ++ text ++ more.1, more.2)

/-- The word of `write_json` for the status. -/
def json_status (st : Extractor) : CppString :=
  if st.m_status && st.m_netlist_status then "true".toList else "false".toList

/-- The messages of `write_json`: the log between its two fixed lines. -/
def write_json_messages (msgs : List MSG) : CppString :=
  "    \"messages\": [\n".toList ++ "    \"Start of IO Analysis\",\n".toList ++
    msgs.flatMap (fun msg =>
      "    \"".toList ++ json_indent msg.offset ++ write_json_data msg.msg ++
        "\",\n".toList) ++
    "    \"End of IO Analysis\"\n  ],\n".toList

/-- The text of `write_json` up to the opening bracket of the array of
instances. -/
def write_json_head (msgs : List MSG) (st : Extractor) : CppString :=
  "\x7b\n".toList ++ "    \"status\": ".toList ++ json_status st ++ ",\n".toList ++
    write_json_messages msgs ++ "  \"instances\": [".toList

/-- The method `write_json`: the text sent to the stream, and the fault
that ended the run, if one did; `msgs` is the log `m_msgs`. -/
def write_json (msgs : List MSG) (map_space : Nat) (st : Extractor) :
    CppString × Option Fault :=
  if st.m_status = true ∧ st.m_instances.length > 0 then
    match write_instances st map_space st.m_instances 0 with
    | (text, some e) => (write_json_head msgs st ++ text, some e)
    | (text, none) =>
      (write_json_head msgs st ++ text ++ "\n  ]".toList ++ "\n\x7d\n".toList, none)
  else (write_json_head msgs st ++ "\n  ]".toList ++ "\n\x7d\n".toList, none)


/-! ### The wrapped netlist -/

/-- The call `s.rfind(pat)`: the position of the last occurrence of `pat` in
`s`, `npos` when there is none. -/
def rfind (s pat : CppString) : Nat :=
  match (List.range (s.length + 1)).reverse.find? (fun i => startsWith (s.drop i) pat) with
  | some i => i
  | none => npos

/-- The test of `get_wrapped_instance` on the name of a wrapped instance:
it is the name asked for, or ends in a dot and that name. -/
def wrapped_name_matches (name inst_name : CppString) : Bool :=
  decide (inst_name = name) ||
    (decide (inst_name.length > name.length + 1) &&
      decide (rfind inst_name (".".toList ++ name) = inst_name.length - name.length - 1))

/-- The search loop of `get_wrapped_instance`: the position of the first
instance whose name matches, counted from `index`. -/
def find_wrapped_name (name : CppString) : List WrappedInstance → Nat → Option Nat
  | [], _ => none
  | inst :: rest, index =>
    if wrapped_name_matches name inst.name then some index
    else find_wrapped_name name rest (index + 1)

/-- The method `get_wrapped_instance`. -/
def get_wrapped_instance (wrapped_instances : List WrappedInstance) (name : CppString) :
    Except Fault Nat :=
  if name.length = 0 then .error .assertion
  else
    match find_wrapped_name name wrapped_instances 0 with
    | some index => .ok index
    | none => .error .assertion

/-- The read `instance["connectivity"][key]` of a constant JSON value; a key
that is not there is a failed assertion of the JSON library. -/
def wrapped_at (inst : WrappedInstance) (key : CppString) : Except Fault WrappedValue :=
  match inst.connectivity.lookup key with
  | some v => .ok v
  | none => .error .assertion

/-- The conversion of a JSON value to `std::string`, which throws unless
the value is a string. -/
def wrapped_string : WrappedValue → Except Fault CppString
  | .str s => .ok s
  | _ => .error .bad_cast

/-- The loop of `get_input_wrapped_net` (`src` is `O`, `dest` is `I`) and of
`get_output_wrapped_net` (`src` is `I`, `dest` is `O`) over the wrapped
instances: one pass, in which a `WIRE` whose `src` net is the net reached
moves the net to its `dest` net. -/
def follow_wires (src dest : CppString) :
    List WrappedInstance → CppString → Except Fault CppString
  | [], wrapped_net => .ok wrapped_net
  | inst :: rest, wrapped_net =>
    if inst.module = "WIRE".toList then
      match wrapped_at inst src with
      | .error e => .error e
      | .ok v =>
        if v = WrappedValue.str wrapped_net then
          match wrapped_at inst dest with
          | .error e => .error e
          | .ok d =>
            match wrapped_string d with
            | .error e => .error e
            | .ok next => follow_wires src dest rest next
        else follow_wires src dest rest wrapped_net
    else follow_wires src dest rest wrapped_net

/-- The first wrapped instance whose module name starts with `fabric_`. -/
def first_fabric : List WrappedInstance → Option WrappedInstance
  | [] => none
  | fabric :: rest =>
    if find fabric.module "fabric_".toList = 0 then some fabric else first_fabric rest

/-- The last loop of `get_input_wrapped_net` and `get_output_wrapped_net`:
whether the net is a key of the connectivity of the first fabric
instance. -/
def on_fabric (wrapped_instances : List WrappedInstance) (wrapped_net : CppString) : Bool :=
  match first_fabric wrapped_instances with
  | some fabric => (fabric.connectivity.lookup wrapped_net).isSome
  | none => false

/-- The common body of `get_input_wrapped_net` and
`get_output_wrapped_net`, which differ in the port of the clock primitive
read and in the direction of the wires. -/
def get_wrapped_net (wrapped_instances : List WrappedInstance) (index : Nat)
    (port src dest : CppString) : Except Fault CppString :=
  match wrapped_instances[index]? with
  | none => .error .assertion
  | some inst =>
    match inst.connectivity.lookup port with
    | none => .error .assertion
    | some v =>
      match wrapped_string v with
      | .error e => .error e
      | .ok wrapped_net =>
        if wrapped_net.length = 0 then .error .assertion
        else
          match follow_wires src dest wrapped_instances wrapped_net with
          | .error e => .error e
          | .ok wrapped_net =>
            if on_fabric wrapped_instances wrapped_net then .ok wrapped_net else .ok []

/-- The method `get_input_wrapped_net`. -/
def get_input_wrapped_net (wrapped_instances : List WrappedInstance) (index : Nat)
    (clk : FABRIC_CLOCK) : Except Fault CppString :=
  get_wrapped_net wrapped_instances index clk.iport "O".toList "I".toList

/-- The method `get_output_wrapped_net`. -/
def get_output_wrapped_net (wrapped_instances : List WrappedInstance) (index : Nat)
    (clk : FABRIC_CLOCK) : Except Fault CppString :=
  get_wrapped_net wrapped_instances index clk.oport "I".toList "O".toList

/-- The inner loop of `get_wrapped_instance_potential_next_wire` for one
net: the first `WIRE` whose `src` net is the net replaces it by its `dest`
net. -/
def next_wire (src dest : CppString) : List WrappedInstance → CppString →
    Except Fault CppString
  | [], net => .ok net
  | inst :: rest, net =>
    if inst.module = "WIRE".toList then
      match wrapped_at inst src with
      | .error e => .error e
      | .ok v =>
        if v = WrappedValue.str net then
          match wrapped_at inst dest with
          | .error e => .error e
          | .ok d => wrapped_string d
        else next_wire src dest rest net
    else next_wire src dest rest net

/-- The outer loop of `get_wrapped_instance_potential_next_wire`. -/
def next_wires (wrapped_instances : List WrappedInstance) (src dest : CppString) :
    List CppString → Except Fault (List CppString)
  | [] => .ok []
  | net :: rest =>
    match next_wire src dest wrapped_instances net with
    | .error e => .error e
    | .ok next =>
      match next_wires wrapped_instances src dest rest with
      | .error e => .error e
      | .ok more => .ok (next :: more)

/-- The method `get_wrapped_instance_potential_next_wire`: the nets as the
call leaves them. -/
def get_wrapped_instance_potential_next_wire (wrapped_instances : List WrappedInstance)
    (src dest : CppString) (nets : List CppString) : Except Fault (List CppString) :=
  if ¬ (src = "I".toList ∨ src = "O".toList) then .error .assertion
  else if ¬ (dest = "I".toList ∨ dest = "O".toList) then .error .assertion
  else if src = dest then .error .assertion
  else next_wires wrapped_instances src dest nets

/-- The method `check_fabric_port`: for each net whether it is a key of the
connectivity of the first fabric instance; empty when there is no fabric
instance. -/
def check_fabric_port (wrapped_instances : List WrappedInstance) (nets : List CppString) :
    List Bool :=
  match first_fabric wrapped_instances with
  | some fabric => nets.map (fun net => (fabric.connectivity.lookup net).isSome)
  | none => []

/-! ### The SDC writers -/

/-- What `<<` prints for a `uint32_t`. -/
def fmt_u (n : Nat) : CppString := Nat.toDigits 10 n

/-- The line `original_setting` of `write_fabric_clock`. -/
def clock_original_setting (i : Nat) (clk : FABRIC_CLOCK) : CppString :=
  "# set_clock_pin -device_clock clk[".toList ++ fmt_d (int_of_uint32 i) ++
    "] -design_clock ".toList ++ c_str clk.linked_object ++
    " (Physical port name, clock module: ".toList ++ c_str clk.module ++ " ".toList ++
    c_str clk.name ++ ")\n".toList

/-- A line `<head> -device_clock clk[i] -design_clock <net><tail>` of
`write_fabric_clock`. -/
def clock_line (head : String) (i : Nat) (net : CppString) (tail : String) : CppString :=
  head.toList ++ " -device_clock clk[".toList ++ fmt_d (int_of_uint32 i) ++
    "] -design_clock ".toList ++ c_str net ++ tail.toList

/-- A line `<set_io pin="clk[i]" net="..."/>` of the pin constraints. -/
def clock_pin_xml (i : Nat) (net : CppString) : CppString :=
  "  <set_io pin=\"clk[".toList ++ fmt_d (int_of_uint32 i) ++ "]\" net=\"".toList ++
    c_str net ++ "\"/>\n".toList

/-- What the loop of `write_fabric_clock` carries: the counters `i` and `j`,
the text sent to the SDC stream and to the XML stream, and
`m_netlist_status`. -/
structure ClockWriter where
  i : Nat := 0
  j : Nat := 0
  sdc : CppString := []
  xml : CppString := []
  m_netlist_status : Bool := true
  deriving DecidableEq, Repr

/-- The part of the body of the loop of `write_fabric_clock` for the
output of a fabric clock buffer. -/
def write_clkbuf_output (wrapped_instances : List WrappedInstance) (clk : FABRIC_CLOCK)
    (W : ClockWriter) : Except Fault ClockWriter :=
  match get_wrapped_instance wrapped_instances clk.name with
  | .error e => .error e
  | .ok index =>
    match get_input_wrapped_net wrapped_instances index clk with
    | .error e => .error e
    | .ok wrapped_net =>
      let W := { W with sdc := W.sdc ++ "\n# For fabric clock buffer output\n".toList }
      if wrapped_net.length ≠ 0 then
        .ok { W with
              sdc := W.sdc ++ clock_line "# set_clock_out" W.j clk.inet "\n" ++
                clock_line "set_clock_out  " W.j wrapped_net "\n",
              j := (W.j + 1) % 2 ^ 32 }
      else
        .ok { W with
              sdc := W.sdc ++ "# Error reason: Failed to find the mapped name\n".toList ++
                clock_line "set_clock_out  " W.j clk.inet "\n",
              m_netlist_status := false,
              j := (W.j + 1) % 2 ^ 32 }

/-- The part of the body of the loop of `write_fabric_clock` for a clock
that goes to the fabric, once the wrapped output net is known (it is empty
when none was found): the lines of the clock pin. -/
def write_clock_pin (clk : FABRIC_CLOCK) (wrapped_net : CppString) (W : ClockWriter) :
    ClockWriter :=
  { W with
    sdc := W.sdc ++ "# This clock need to route to fabric slot #".toList ++ fmt_u W.i ++
      "\n".toList ++
      (if clk.is_fabric_clkbuf then "# This is fabric clock buffer\n".toList else []) ++
      (if wrapped_net.length = 0 then
        "# Error reason: Failed to find the mapped name\n".toList
       else []) ++
      clock_original_setting W.i clk ++
      (if wrapped_net.length ≠ 0 then
        clock_line "# set_clock_pin" W.i clk.onet
            " (Original clock primitive out-net to fabric)\n" ++
          clock_line "set_clock_pin  " W.i wrapped_net "\n"
       else clock_line "set_clock_pin  " W.i clk.onet "\n"),
    xml := W.xml ++
      (if wrapped_net.length ≠ 0 then clock_pin_xml W.i wrapped_net
       else clock_pin_xml W.i clk.onet),
    m_netlist_status := if wrapped_net.length = 0 then false else W.m_netlist_status }

/-- The body of the loop of `write_fabric_clock` for one fabric clock. -/
def write_one_fabric_clock (wrapped_instances : List WrappedInstance) (clk : FABRIC_CLOCK)
    (W : ClockWriter) : Except Fault ClockWriter :=
  if clk.core_logic then
    match get_wrapped_instance wrapped_instances clk.name with
    | .error e => .error e
    | .ok index =>
      match get_output_wrapped_net wrapped_instances index clk with
      | .error e => .error e
      | .ok wrapped_net =>
        match (if clk.is_fabric_clkbuf then
            write_clkbuf_output wrapped_instances clk (write_clock_pin clk wrapped_net W)
          else .ok (write_clock_pin clk wrapped_net W)) with
        | .error e => .error e
        | .ok W => .ok { W with sdc := W.sdc ++ "\n".toList, i := (W.i + 1) % 2 ^ 32 }
  else if clk.gearboxes.length = 0 then .error .assertion
  else
    .ok { W with
          sdc := W.sdc ++
            ("# This clock is only used by gearbox, does not need to route to " ++
              "fabric slot #").toList ++ fmt_u W.i ++ "\n".toList ++
            clock_original_setting W.i clk ++ "\n".toList,
          xml := W.xml ++ clock_pin_xml W.i "OPEN".toList,
          i := (W.i + 1) % 2 ^ 32 }

/-- The loop of `write_fabric_clock` over `m_fabric_clocks`. -/
def write_fabric_clocks (wrapped_instances : List WrappedInstance) :
    List FABRIC_CLOCK → ClockWriter → Except Fault ClockWriter
  | [], W => .ok W
  | clk :: rest, W =>
    match write_one_fabric_clock wrapped_instances clk W with
    | .error e => .error e
    | .ok W => write_fabric_clocks wrapped_instances rest W

/-- The last loop of `write_fabric_clock`: the slots from `i` on are
open. -/
def open_slots (i : Nat) : CppString :=
  (List.range' i (MAX_FABRIC_CLOCK_SLOT - i)).flatMap
    (fun k => clock_pin_xml k "OPEN".toList)

/-- The banner of a section of the SDC file. -/
def sdc_banner (title : String) : CppString :=
  "#############\n".toList ++ "#\n".toList ++ "# ".toList ++ title.toList ++ "\n".toList ++
    "#\n".toList ++ "#############\n".toList

/-- The method `write_fabric_clock`: the state it leaves, the text sent to
the SDC stream and the text sent to the XML stream. -/
def write_fabric_clock (wrapped_instances : List WrappedInstance) (st : Extractor) :
    Except Fault (Extractor × CppString × CppString) :=
  match write_fabric_clocks wrapped_instances st.m_fabric_clocks
      { sdc := sdc_banner "Fabric clock assignment", xml := "<pin_constraints>\n".toList,
        m_netlist_status := st.m_netlist_status } with
  | .error e => .error e
  | .ok W =>
    .ok ({ st with m_netlist_status := W.m_netlist_status },
         W.sdc ++ (if W.i = 0 then "\n".toList else []),
         W.xml ++ open_slots W.i ++ "</pin_constraints>\n".toList)


/-- The first loop of `get_fabric_data`: the position of the last instance
of the direction that is linked to the object and is neither a `WIRE` nor a
`CLK_BUF`; the descriptor of every instance is read. -/
def find_data_instance (st : Extractor) (object : CppString) (input : Bool) :
    List INSTANCE → Nat → Option Nat → Except Fault (Option Nat)
  | [], _, found => .ok found
  | inst :: rest, i, found =>
    match inst.primitive with
    | none => .error .null_deref
    | some r =>
      match st.deref r with
      | .error e => .error e
      | .ok primitive =>
        if input = primitive.db.is_in_dir ∧ object ∈ inst.linked_objects ∧
            inst.module ≠ "WIRE".toList ∧ inst.module ≠ "CLK_BUF".toList then
          find_data_instance st object input rest (i + 1) (some i)
        else find_data_instance st object input rest (i + 1) found

/-- Whether two instances have the same linked object. -/
def same_linked_object (a b : INSTANCE) : Except Fault Bool :=
  match a.linked_object with
  | .error e => .error e
  | .ok x =>
    match b.linked_object with
    | .error e => .error e
    | .ok y => .ok (decide (x = y))

/-- The test of `get_fabric_data` on the instances that follow an input
buffer: a clock buffer of the same linked object comes next, or comes after
one wire of the same linked object. -/
def feeds_clock_buffer (st : Extractor) (inst : INSTANCE) (instance_index : Nat) :
    Except Fault Bool :=
  let direct : Except Fault Bool :=
    match st.m_instances[instance_index + 1]? with
    | none => .ok false
    | some next =>
      if next.module = "CLK_BUF".toList then same_linked_object inst next else .ok false
  match direct with
  | .error e => .error e
  | .ok true => .ok true
  | .ok false =>
    if instance_index + 2 < st.m_instances.length then
      match st.m_instances[instance_index + 1]?, st.m_instances[instance_index + 2]? with
      | some next, some after =>
        if next.module = "WIRE".toList then
          match same_linked_object inst next with
          | .error e => .error e
          | .ok false => .ok false
          | .ok true =>
            if after.module = "CLK_BUF".toList then same_linked_object inst after
            else .ok false
        else .ok false
      | _, _ => .ok false
    else .ok false

/-- What `get_fabric_data` hands back: the reason, the data nets, whether
each is found on the fabric, and `not_an_error`. -/
structure FabricData where
  reason : CppString := []
  data_nets : List CppString := []
  found_nets : List Bool := []
  not_an_error : Bool := false
  deriving DecidableEq, Repr

/-- The part of `get_fabric_data` for the instance found. -/
def fabric_data_of (wrapped_instances : List WrappedInstance) (st : Extractor)
    (object : CppString) (inst : INSTANCE) (instance_index : Nat) (db : PRIMITIVE_DB) :
    Except Fault FabricData :=
  if db.data_signal.length ≠ 0 then
    match inst.linked_object with
    | .error e => .error e
    | .ok linked_object =>
      let data_port := get_original_name db.data_signal
      match get_wrapped_instance_net_by_port wrapped_instances inst.module linked_object
          data_port with
      | .error e => .error e
      | .ok (wrapped_reason, data_nets) =>
        if decide (wrapped_reason.1.length = 0) ≠ decide (wrapped_reason.2.length = 0) then
          .error .assertion
        else if wrapped_reason.2.length = 0 then
          match get_wrapped_instance_potential_next_wire wrapped_instances
              (if db.is_in_dir then "I".toList else "O".toList)
              (if db.is_in_dir then "O".toList else "I".toList) data_nets with
          | .error e => .error e
          | .ok data_nets =>
            let found_nets := check_fabric_port wrapped_instances data_nets
            if data_nets.length = found_nets.length ∧ found_nets.all (fun f => !f) then
              if inst.module = "I_BUF".toList ∨ inst.module = "I_BUF_DS".toList then
                match feeds_clock_buffer st inst instance_index with
                | .error e => .error e
                | .ok true =>
                  .ok { reason :=
                          "Clock data from object ".toList ++ c_str object ++
                            " port ".toList ++ c_str data_port ++
                            " does not need to route to fabric".toList,
                        data_nets := data_nets, found_nets := found_nets,
                        not_an_error := true }
                | .ok false =>
                  .ok { reason :=
                          "Fail to map all data signal(s) from object ".toList ++
                            c_str object ++ " port ".toList ++ c_str data_port ++
                            " to fabric".toList,
                        data_nets := data_nets, found_nets := found_nets }
              else
                .ok { reason :=
                        "Fail to map all data signal(s) from object ".toList ++
                          c_str object ++ " port ".toList ++ c_str data_port ++
                          " to fabric".toList,
                      data_nets := data_nets, found_nets := found_nets }
            else .ok { data_nets := data_nets, found_nets := found_nets }
        else .ok { reason := wrapped_reason.2, data_nets := data_nets }
  else
    .ok { reason :=
            "Object ".toList ++ c_str object ++ " is primitive ".toList ++ c_str db.name ++
              " but data signal is not defined".toList,
          not_an_error := true }

/-- The method `get_fabric_data`; the vectors `data_nets` and `found_nets`
are the empty ones the caller passes. -/
def get_fabric_data (wrapped_instances : List WrappedInstance) (object : CppString)
    (input : Bool) (st : Extractor) : Except Fault (Extractor × FabricData) :=
  match find_data_instance st object input st.m_instances 0 none with
  | .error e => .error e
  | .ok found =>
    let data : Except Fault FabricData :=
      match found with
      | some instance_index =>
        match st.m_instances[instance_index]? with
        | none => .error .null_deref
        | some inst =>
          match inst.primitive with
          | none => .error .null_deref
          | some r =>
            match st.deref r with
            | .error e => .error e
            | .ok primitive =>
              fabric_data_of wrapped_instances st object inst instance_index primitive.db
      | none =>
        .ok { reason := "Unable to find instance for object ".toList ++ c_str object }
    match data with
    | .error e => .error e
    | .ok data =>
      if data.reason.length ≠ 0 ∧ data.not_an_error = false then
        .ok ({ st with m_netlist_status := false }, data)
      else .ok (st, data)

/-- The 4-argument constructor of `SDC_ASSIGNMENT`. -/
def SDC_ASSIGNMENT.four (s1 s2 s3 s4 : CppString) : SDC_ASSIGNMENT :=
  { str1 := s1, str2 := s2, str3 := s3, str4 := s4 }

/-- The loop of `write_data_mode_and_location` over the traces of a pin. -/
def pin_trace_lines (name : CppString) : List CppString → Nat → List SDC_ASSIGNMENT
  | [], _ => []
  | trace :: rest, i =>
    (if i = 0 then SDC_ASSIGNMENT.four "# Pin".toList name (":: ".toList ++ trace) []
     else SDC_ASSIGNMENT.four "#".toList [] (":: ".toList ++ trace) []) ::
      pin_trace_lines name rest ((i + 1) % 2 ^ 32)

/-- The mode of a pin in `write_data_mode_and_location`, with the half `ab`
and the direction. -/
def pin_mode (pin : PIN_PORT) (ab : Char) : CppString :=
  let mode : CppString :=
    if pin.mode = "SDR".toList then "MODE_BP_SDR".toList
    else if pin.mode = "DDR".toList then "MODE_BP_DDR".toList
    else if find pin.mode "RATE_".toList = 0 then "MODE_".toList ++ c_str pin.mode
    else "MODE_BP_DIR".toList
  c_str mode ++ "_".toList ++ [ab] ++ "_".toList ++
    (if pin.is_input then "RX".toList else "TX".toList)

/-- The location of the data nets of a pin: the location of the pin for the
half `A`, and otherwise the positive pin of the pair. -/
def pair_location (pin : PIN_PORT) (ab : Char) (parsed : PARSED_LOCATION) : CppString :=
  if ab = 'A' then pin.location
  else
    "H".toList ++ c_str parsed.type ++ "_".toList ++ c_str parsed.bank ++
      (if parsed.is_clock then "_CC".toList else []) ++ "_".toList ++
      fmt_d (parsed.index - 1) ++ "_".toList ++ fmt_d (Int.tdiv parsed.index 2) ++
      "P".toList

/-- The loop of `write_data_mode_and_location` over the data nets; a
position that `found_data_nets` does not have is read out of range. -/
def data_net_lines (pin : PIN_PORT) (location mode : CppString) (found : List Bool) :
    List CppString → Nat → Nat → Except Fault (List SDC_ASSIGNMENT)
  | [], _, _ => .ok []
  | net :: rest, data_i, data_j =>
    match found[data_i]? with
    | none => .error .out_of_range
    | some f =>
      match data_net_lines pin location mode found rest (data_i + 1) (data_j + 1) with
      | .error e => .error e
      | .ok more =>
        .ok ({ str1 := (if f then [] else "# ".toList) ++ "set_io".toList,
               str2 := net, str3 := location, str4 := "-mode".toList, str5 := mode,
               str6 := "-internal_pin".toList,
               str7 := (if pin.is_input then "g2f_rx_in".toList else "f2g_tx_out".toList) ++
                 "[".toList ++ Nat.toDigits 10 data_j ++ "]_A".toList } :: more)

/-- The parsed location that `write_data_mode_and_location` reads for a
pin: the one of the instance of the pin's node when it has the location of
the pin, and otherwise the location of the pin parsed afresh. -/
def pin_parsed_location (st : Extractor) (pin : PIN_PORT) : Except Fault PARSED_LOCATION :=
  match st.deref pin.primitive with
  | .error e => .error e
  | .ok primitive =>
    let of_instance : Option PARSED_LOCATION :=
      match primitive.inst with
      | none => none
      | some j =>
        match st.m_instances[j]? with
        | none => none
        | some inst =>
          if inst.parsed_location.location = pin.location then some inst.parsed_location
          else none
    match of_instance with
    | some parsed => .ok parsed
    | none => parse_location pin.location PARSED_LOCATION.fresh

/-- The entry of `m_location_mode` that `write_data_mode_and_location`
makes for a location key that has none. -/
def note_location_mode (st : Extractor) (location_key mode : CppString) : Extractor :=
  if CppMap.contains st.m_location_mode location_key then st
  else { st with m_location_mode := CppMap.set st.m_location_mode location_key mode }

/-- The body of the loop of `write_data_mode_and_location` for a pin that is
neither standalone nor a fabric clock buffer: the state and the entry. -/
def write_pin (wrapped_instances : List WrappedInstance) (pin : PIN_PORT) (st : Extractor) :
    Except Fault (Extractor × SDC_ENTRY) :=
  let entry : SDC_ENTRY := { assignments := pin_trace_lines pin.name pin.traces 0 }
  match pin_parsed_location st pin with
  | .error e => .error e
  | .ok parsed =>
    if parsed.status = PARSED_LOCATION_GOOD then
      match pin.location.getLast? with
      | none => .error .out_of_range
      | some last =>
        let ab : Char := if last = 'P' then 'A' else 'B'
        let mode := pin_mode pin ab
        let location_key :=
          (if pin.is_input then "I".toList else "O".toList) ++ ":".toList ++
            c_str pin.location
        let st := note_location_mode st location_key mode
        if pin.skip_reason.length ≠ 0 then
          .ok (st, { entry with
                     comments := entry.comments ++
                       ["# Skip this because '".toList ++ c_str pin.skip_reason ++
                         "'".toList] })
        else
          match get_fabric_data wrapped_instances pin.name pin.is_input st with
          | .error e => .error e
          | .ok (st, data) =>
            if data.reason.length ≠ 0 then
              if data.not_an_error then
                .ok (st, { entry with
                           comments := entry.comments ++
                             ["# Skip reason: ".toList ++ c_str data.reason] })
              else
                .ok ({ st with m_netlist_status := false },
                     { entry with
                       comments := entry.comments ++
                         ["# Error reason: ".toList ++ c_str data.reason] })
            else
              match data_net_lines pin (pair_location pin ab parsed) mode data.found_nets
                  data.data_nets 0 (if ab = 'A' then 0 else 5) with
              | .error e => .error e
              | .ok lines =>
                .ok (st, { entry with
                           assignments := entry.assignments ++
                             [SDC_ASSIGNMENT.four "# set_mode".toList mode pin.location [],
                              SDC_ASSIGNMENT.four "# set_io".toList pin.name pin.location
                                "--> (original)".toList] ++ lines })
    else if pin.location.length ≠ 0 then
      .ok (st, { entry with comments := entry.comments ++ ["# Pin location is invalid".toList] })
    else
      .ok (st, { entry with
                 comments := entry.comments ++ ["# Pin location is not assigned".toList] })

/-- The loop of `write_data_mode_and_location` over `m_pin_infos`. -/
def write_pins (wrapped_instances : List WrappedInstance) :
    List PIN_PORT → Extractor → Except Fault (Extractor × List SDC_ENTRY)
  | [], st => .ok (st, [])
  | pin :: rest, st =>
    if pin.is_standalone ∨ pin.is_fabric_clkbuf then write_pins wrapped_instances rest st
    else
      match write_pin wrapped_instances pin st with
      | .error e => .error e
      | .ok (st, entry) =>
        match write_pins wrapped_instances rest st with
        | .error e => .error e
        | .ok (st, entries) => .ok (st, entry :: entries)

/-- The method `write_data_mode_and_location`: the state it leaves and the
entries it hands to `write_sdc_entries`. The pins are the ones the call
starts with: the loop changes no pin. The column width `m_max_object_name`,
which nothing reads, is left out. -/
def write_data_mode_and_location (wrapped_instances : List WrappedInstance)
    (st : Extractor) : Except Fault (Extractor × List SDC_ENTRY) :=
  write_pins wrapped_instances st.m_pin_infos st


/-- The record `CORE_CLOCK_INFO`. -/
structure CORE_CLOCK_INFO where
  module : CppString
  name : CppString
  location : CppString
  index : Nat
  deriving DecidableEq, Repr

/-- What the loop of `write_gearbox_core_clock` carries: the map
`core_clocks` and `m_netlist_status`. -/
structure CoreClockTracker where
  core_clocks : CppMap CORE_CLOCK_INFO := []
  m_netlist_status : Bool := true
  deriving DecidableEq, Repr

/-- The name of the core clock port of a descriptor, as
`write_gearbox_core_clock` computes it. -/
def core_clock_port (db : PRIMITIVE_DB) : Except Fault CppString :=
  let core_clk := get_original_name db.core_clock
  let index := find core_clk ":".toList
  if index ≠ npos then substr db.core_clock ((index + 1) % 2 ^ 64) else .ok core_clk

/-- The search of `write_gearbox_core_clock` for the fabric clock that
lists the instance among its gearboxes: its position, or the number of
fabric clocks, as a `uint32_t` counted from `index`. -/
def gearbox_slot (name : CppString) : List FABRIC_CLOCK → Nat → Nat
  | [], index => index
  | fabric_clk :: rest, index =>
    if name ∈ fabric_clk.gearboxes then index
    else gearbox_slot name rest ((index + 1) % 2 ^ 32)

/-- The key of `core_clocks` for a parsed location. -/
def core_clock_key (parsed : PARSED_LOCATION) : CppString :=
  c_str parsed.type ++ "_".toList ++ c_str parsed.bank ++ "_".toList ++
    fmt_d (Int.tdiv parsed.index 2)

/-- The part of `write_gearbox_core_clock` for an instance whose core clock
port has a net on it that names a location with a mode. -/
def core_clock_claim (st : Extractor) (inst : INSTANCE) (entry : SDC_ENTRY)
    (T : CoreClockTracker) : Except Fault (CoreClockTracker × SDC_ENTRY) :=
  let index := gearbox_slot inst.name st.m_fabric_clocks 0
  if index < st.m_fabric_clocks.length % 2 ^ 32 then
    let entry :=
      { entry with
        comments := entry.comments ++ ["# Slot: ".toList ++ fmt_d (int_of_uint32 index)] }
    if inst.parsed_location.status ≠ PARSED_LOCATION_GOOD then .error .assertion
    else
      let key := core_clock_key inst.parsed_location
      match CppMap.find T.core_clocks key with
      | none =>
        .ok ({ T with
               core_clocks := CppMap.set T.core_clocks key
                 { module := inst.module, name := inst.name,
                   location := inst.parsed_location.location, index := index } },
             { entry with
               assignments := entry.assignments ++
                 [SDC_ASSIGNMENT.four "set_core_clk".toList inst.parsed_location.location
                   (fmt_d (int_of_uint32 index)) []] })
      | some info =>
        if info.index = index then
          .ok (T, { entry with
                    comments := entry.comments ++
                      ["# Skip reason: Had been defined by ".toList ++ c_str info.module ++
                        " ".toList ++ c_str info.name] })
        else
          .ok ({ T with m_netlist_status := false },
               { entry with
                 comments := entry.comments ++
                   ["# Error reason: Conflict - ".toList ++ c_str info.module ++
                     " ".toList ++ c_str info.name ++ " already use slot=".toList ++
                     fmt_d (int_of_uint32 info.index)] })
  else
    .ok ({ T with m_netlist_status := false },
         { entry with
           comments := entry.comments ++
             ["# Error reason: Cannot locate the fabric clock".toList] })

/-- The body of the loop of `write_gearbox_core_clock` for an instance that
is not a wire: the tracker, and the entry when the descriptor names a core
clock port. -/
def core_clock_entry (st : Extractor) (inst : INSTANCE) (T : CoreClockTracker) :
    Except Fault (CoreClockTracker × Option SDC_ENTRY) :=
  match inst.primitive with
  | none => .error .null_deref
  | some r =>
    match st.deref r with
    | .error e => .error e
    | .ok primitive =>
      match core_clock_port primitive.db with
      | .error e => .error e
      | .ok core_clk =>
        if core_clk.length ≠ 0 then
          let entry : SDC_ENTRY :=
            { comments :=
                ["# Module: ".toList ++ c_str inst.module,
                 "# Name: ".toList ++ c_str inst.name,
                 "# Location: ".toList ++ c_str inst.parsed_location.location,
                 "# Port: ".toList ++ c_str core_clk] }
          match CppMap.find inst.connections core_clk with
          | some clk_net =>
            let entry :=
              { entry with comments := entry.comments ++ ["# Net: ".toList ++ c_str clk_net] }
            if clk_net.length > 0 then
              let location_key :=
                (if primitive.db.is_in_dir then "I".toList else "O".toList) ++ ":".toList ++
                  c_str inst.parsed_location.location
              if inst.parsed_location.location.length > 0 ∧
                  CppMap.contains st.m_location_mode location_key = true then
                match core_clock_claim st inst entry T with
                | .error e => .error e
                | .ok (T, entry) => .ok (T, some entry)
              else
                .ok ({ T with m_netlist_status := false },
                     some { entry with
                            comments := entry.comments ++
                              ["# Error reason: Location is invalid".toList] })
            else
              .ok ({ T with m_netlist_status := false },
                   some { entry with
                          comments := entry.comments ++
                            ["# Error reason: Port does not connect to valid net".toList] })
          | none =>
            .ok ({ T with m_netlist_status := false },
                 some { entry with
                        comments := entry.comments ++
                          ["# Error reason: Port does not connect to valid net".toList] })
        else .ok (T, none)

/-- The loop of `write_gearbox_core_clock` over `m_instances`. -/
def core_clock_entries (st : Extractor) :
    List INSTANCE → CoreClockTracker → Except Fault (CoreClockTracker × List SDC_ENTRY)
  | [], T => .ok (T, [])
  | inst :: rest, T =>
    if inst.module ≠ "WIRE".toList then
      match core_clock_entry st inst T with
      | .error e => .error e
      | .ok (T, entry) =>
        match core_clock_entries st rest T with
        | .error e => .error e
        | .ok (T, entries) => .ok (T, entry.toList ++ entries)
    else core_clock_entries st rest T

/-- The method `write_gearbox_core_clock`: the state it leaves and the
entries it hands to `write_sdc_entries`. -/
def write_gearbox_core_clock (st : Extractor) : Except Fault (Extractor × List SDC_ENTRY) :=
  match core_clock_entries st st.m_instances
      { m_netlist_status := st.m_netlist_status } with
  | .error e => .error e
  | .ok (T, entries) => .ok ({ st with m_netlist_status := T.m_netlist_status }, entries)

/-- The method `post_sdc_comment`: the state and the entry it leaves. -/
def post_sdc_comment (entry : SDC_ENTRY) (type comment : CppString) (st : Extractor) :
    Except Fault (Extractor × SDC_ENTRY) :=
  if type = "Skip".toList ∨ type = ERROR_STR then
    .ok ({ st with m_netlist_status := st.m_netlist_status && decide (type ≠ ERROR_STR) },
         { entry with
           comments := entry.comments ++
             ["# ".toList ++ c_str type ++ " reason: ".toList ++ c_str comment] })
  else .error .assertion

/-- The `int` that a cast `(int)` makes of a `size_t`. -/
def int_of_size (n : Nat) : Int := int_of_uint32 n

/-- The method `file_write_string`: the text up to the first NUL, padded
with blanks on the right to the width `size` by `%-*s`, unless `size` is
`-1`, the value of a call that passes no size. -/
def file_write_string (string : CppString) (size : Int := -1) : CppString :=
  if size = -1 then c_str string
  else c_str string ++ List.replicate (size.natAbs - (c_str string).length) ' '

/-- The widths of the first six columns in `write_sdc_entries`. -/
structure Columns where
  col1 : Nat := 0
  col2 : Nat := 0
  col3 : Nat := 0
  col4 : Nat := 0
  col5 : Nat := 0
  col6 : Nat := 0
  deriving DecidableEq, Repr

/-- The first loop of `write_sdc_entries`: the longest string of each
column. -/
def sdc_columns (sdc_entries : List SDC_ENTRY) : Columns :=
  (sdc_entries.flatMap (fun entry => entry.assignments)).foldl
    (fun cols assignment =>
      { col1 := if assignment.str1.length > cols.col1 then assignment.str1.length
                else cols.col1,
        col2 := if assignment.str2.length > cols.col2 then assignment.str2.length
                else cols.col2,
        col3 := if assignment.str3.length > cols.col3 then assignment.str3.length
                else cols.col3,
        col4 := if assignment.str4.length > cols.col4 then assignment.str4.length
                else cols.col4,
        col5 := if assignment.str5.length > cols.col5 then assignment.str5.length
                else cols.col5,
        col6 := if assignment.str6.length > cols.col6 then assignment.str6.length
                else cols.col6 })
    {}

/-- The line of one assignment in `write_sdc_entries`. -/
def write_sdc_assignment (cols : Columns) (assignment : SDC_ASSIGNMENT) :
    Except Fault CppString :=
  let head :=
    file_write_string assignment.str1 (int_of_size (cols.col1 + 1)) ++
      file_write_string assignment.str2 (int_of_size (cols.col2 + 1))
  if assignment.str4.length ≠ 0 then
    let head := head ++ file_write_string assignment.str3 (int_of_size (cols.col3 + 1))
    if assignment.str5.length ≠ 0 then
      if assignment.str6.length = 0 then .error .assertion
      else if assignment.str7.length = 0 then .error .assertion
      else
        .ok (head ++ file_write_string assignment.str4 (int_of_size (cols.col4 + 1)) ++
          file_write_string assignment.str5 (int_of_size (cols.col5 + 1)) ++
          file_write_string assignment.str6 (int_of_size (cols.col6 + 1)) ++
          file_write_string assignment.str7 ++ "\n".toList)
    else if assignment.str6.length ≠ 0 then .error .assertion
    else if assignment.str7.length ≠ 0 then .error .assertion
    else .ok (head ++ file_write_string assignment.str4 ++ "\n".toList)
  else if assignment.str5.length ≠ 0 then .error .assertion
  else if assignment.str6.length ≠ 0 then .error .assertion
  else if assignment.str7.length ≠ 0 then .error .assertion
  else .ok (head ++ file_write_string assignment.str3 ++ "\n".toList)

/-- The lines of the assignments of one entry. -/
def write_sdc_assignments (cols : Columns) : List SDC_ASSIGNMENT → Except Fault CppString
  | [] => .ok []
  | assignment :: rest =>
    match write_sdc_assignment cols assignment with
    | .error e => .error e
    | .ok line =>
      match write_sdc_assignments cols rest with
      | .error e => .error e
      | .ok more => .ok (line ++ more)

/-- The second loop of `write_sdc_entries`: for each entry its comment
lines, its assignment lines and an empty line. -/
def write_sdc_entries_loop (cols : Columns) : List SDC_ENTRY → Except Fault CppString
  | [] => .ok []
  | entry :: rest =>
    match write_sdc_assignments cols entry.assignments with
    | .error e => .error e
    | .ok lines =>
      match write_sdc_entries_loop cols rest with
      | .error e => .error e
      | .ok more =>
        .ok (entry.comments.flatMap (fun comment => c_str comment ++ "\n".toList) ++
          lines ++ "\n".toList ++ more)

/-- The method `write_sdc_entries`: the text sent to the SDC stream. -/
def write_sdc_entries (sdc_entries : List SDC_ENTRY) : Except Fault CppString :=
  write_sdc_entries_loop (sdc_columns sdc_entries) sdc_entries

/-- The cross-check loop of `write_sdc`: every instance that is not a wire
has a wrapped instance. -/
def cross_check (wrapped_instances : List WrappedInstance) :
    List INSTANCE → Except Fault Unit
  | [] => .ok ()
  | inst :: rest =>
    if inst.module ≠ "WIRE".toList then
      match get_wrapped_instance wrapped_instances inst.name with
      | .error e => .error e
      | .ok _ => cross_check wrapped_instances rest
    else cross_check wrapped_instances rest

/-- The two files that `write_sdc` writes. -/
structure SdcFiles where
  sdc : CppString
  xml : CppString
  deriving DecidableEq, Repr

/-- The method `write_sdc`: the state it leaves and the text of the SDC
file and of the pin constraint file. -/
def write_sdc (wrapped_instances : List WrappedInstance) (st : Extractor) :
    Except Fault (Extractor × SdcFiles) := do
  cross_check wrapped_instances st.m_instances
  let st ← finalize_locations (List.range st.m_instances.length) st
  let (st, clock_text, xml) ← write_fabric_clock wrapped_instances st
  let (st, data) ← write_data_mode_and_location wrapped_instances st
  let data_text ← write_sdc_entries data
  let (st, control) ← write_control_signal wrapped_instances st
  let control_text ← write_sdc_entries control
  let (st, gearbox) ← write_gearbox_core_clock st
  let gearbox_text ← write_sdc_entries gearbox
  pure (st,
    { sdc := clock_text ++ sdc_banner "Each pin mode and location assignment" ++ data_text ++
        sdc_banner "Internal Control Signals" ++ control_text ++
        sdc_banner "Each gearbox core clock" ++ gearbox_text,
      xml := xml })


/-! ### The status flags -/

/-- Neither flag is `true` in `st2` unless it is `true` in `st`. -/
def FlagsKept (st st2 : Extractor) : Prop :=
  (st2.m_status = true → st.m_status = true) ∧
    (st2.m_netlist_status = true → st.m_netlist_status = true)

/-- One operation on an extractor that returns: the constructor, run on
the default values of the members; `extract` or one of its stages;
`assign_location`; `write_sdc` or one of its four section writers; and
`post_sdc_comment`. -/
inductive Operation : Extractor → Extractor → Prop
  | step_construct (technology : CppString) :
    Operation { m_technology := technology } (Extractor.construct technology)
  | step_extract (module : Module) (fuel : Nat) (st st2 : Extractor) (r : Bool)
      (verdict : Option FinalCheck) :
    extract module fuel st = .ok (r, st2, verdict) → Operation st st2
  | step_get_ports (module : Module) (fuel : Nat) (st st2 : Extractor) (ok : Bool) :
    get_ports module fuel st = .ok (ok, st2) → Operation st st2
  | step_trace_next_primitive (module : Module) (fuel : Nat) (st st2 : Extractor)
      (src dst : CppString) :
    trace_next_primitive module fuel st src dst = .ok st2 → Operation st st2
  | step_trace_fabric_clkbuf (module : Module) (st st2 : Extractor) :
    trace_fabric_clkbuf module st = .ok st2 → Operation st st2
  | step_trace_gearbox_fast_clock (st st2 : Extractor) :
    trace_gearbox_fast_clock st = .ok st2 → Operation st st2
  | step_gen_instances (fuel : Nat) (st st2 : Extractor) :
    gen_instances fuel st = .ok st2 → Operation st st2
  | step_determine_fabric_clock (module : Module) (st st2 : Extractor) :
    determine_fabric_clock module st = .ok st2 → Operation st st2
  | step_summarize (fuel : Nat) (st st2 : Extractor) :
    summarize fuel st = .ok st2 → Operation st st2
  | step_finalize (module : Module) (st st2 : Extractor) (verdict : FinalCheck) :
    finalize st module = .ok (st2, verdict) → Operation st st2
  | step_assign_location (port location : CppString)
      (properties : List (CppString × CppString)) (st st2 : Extractor) :
    assign_location port location properties st = .ok st2 → Operation st st2
  | step_write_sdc (wrapped_instances : List WrappedInstance) (st st2 : Extractor)
      (files : SdcFiles) :
    write_sdc wrapped_instances st = .ok (st2, files) → Operation st st2
  | step_write_fabric_clock (wrapped_instances : List WrappedInstance) (st st2 : Extractor)
      (sdc xml : CppString) :
    write_fabric_clock wrapped_instances st = .ok (st2, sdc, xml) → Operation st st2
  | step_write_data_mode_and_location (wrapped_instances : List WrappedInstance)
      (st st2 : Extractor) (entries : List SDC_ENTRY) :
    write_data_mode_and_location wrapped_instances st = .ok (st2, entries) →
      Operation st st2
  | step_write_control_signal (wrapped_instances : List WrappedInstance)
      (st st2 : Extractor) (entries : List SDC_ENTRY) :
    write_control_signal wrapped_instances st = .ok (st2, entries) → Operation st st2
  | step_write_gearbox_core_clock (st st2 : Extractor) (entries : List SDC_ENTRY) :
    write_gearbox_core_clock st = .ok (st2, entries) → Operation st st2
  | step_post_sdc_comment (entry entry2 : SDC_ENTRY) (type comment : CppString)
      (st st2 : Extractor) :
    post_sdc_comment entry type comment st = .ok (st2, entry2) → Operation st st2

/-- An input buffer between two nets of which none is a port of the
module. -/
def example_no_ports : Module :=
  { wires := [{ name := "\\n0".toList, port_input := false, port_output := false, width := 1,
                start_offset := 0 }],
    cells := [cell_of "\\I_BUF" "\\ibuf" [("\\I", "\\n0"), ("\\O", "\\n1")]],
    connections := [] }


/-! ### Alias pairs -/

/-- The nets `a` and `b` stand at the same bit position of an alias pair of
the module, `a` on the side that is read as the source (the right side when
`src_is_right`) and `b` on the other side. -/
def AliasStep (module : Module) (src_is_right : Bool) (a b : CppString) : Prop :=
  ∃ it ∈ module.connections, ∃ i : Nat,
    (get_signals (if src_is_right then it.2 else it.1))[i]? = some a ∧
    (get_signals (if src_is_right then it.1 else it.2))[i]? = some b

/-- A port record of the direction is reached from the net through alias
pairs, read as `get_connected_port` reads them for the direction. -/
def PortReachable (module : Module) (dir : IO_DIR) (port_infos : List PORT_INFO)
    (connection : CppString) : Prop :=
  ∃ net, Relation.ReflTransGen (AliasStep module (decide (dir ≠ IO_DIR.IN))) connection net ∧
    ∃ info ∈ port_infos, net = info.fullname ∧ dir = info.dir

/-- What a call of `get_connected_port` that started in `ps` has done when
it hands back `r`: nothing but the netlist status has changed after `false`,
and one record of the direction has been appended after `true`. -/
def PortFound (dir : IO_DIR) (ps : PortSearch) (r : Bool × PortSearch) : Prop :=
  (r.1 = false → r.2.connected_ports = ps.connected_ports ∧
    r.2.port_trackers = ps.port_trackers) ∧
  (r.1 = true → ∃ info, r.2.connected_ports = ps.connected_ports ++ [info] ∧ info.dir = dir)

/-- An input buffer on the net `n1`, which an alias pair connects to
itself. -/
def example_self_alias : Module :=
  { wires := [input_wire "\\din"],
    cells := [cell_of "\\I_BUF" "\\ibuf" [("\\I", "\\n1"), ("\\O", "\\n2")]],
    connections := [(wire_sig "\\n1", wire_sig "\\n1")] }

/-- An input buffer on the net `n1`, which an alias pair connects to the
input port `din`. -/
def example_alias_hop : Module :=
  { wires := [input_wire "\\din"],
    cells := [cell_of "\\I_BUF" "\\ibuf" [("\\I", "\\n1"), ("\\O", "\\n2")]],
    connections := [(wire_sig "\\n1", wire_sig "\\din")] }


/-! ### Paths of traced children -/

/-- Two nodes agree on name, descriptor, connections, child map and on the
paths recorded for their children. -/
def SamePaths (a b : PRIMITIVE) : Prop :=
  a.name = b.name ∧ a.db = b.db ∧ a.connections = b.connections ∧ a.child = b.child ∧
    a.child_connections = b.child_connections

/-- Every node of `st` is a node of `st2`, with the same paths. -/
def PathsKept (st st2 : Extractor) : Prop :=
  ∀ q n, st.deref q = .ok n → ∃ m, st2.deref q = .ok m ∧ SamePaths n m

/-- What the recursive `trace_next_primitive` has done when it returns
`true` in the state `st2`, after a call for the cell on the net `connection`
in a state where the parent had no path for the cell: the cell is a child of
the parent, the nets of `path` lead from `connection` to the net on a
checking port of the child, each by an alias pair read in the direction of the
descriptor, and `path` is the path recorded for the child, none being
recorded when `path` is empty. -/
def TracedThrough (module : Module) (parent : PrimRef) (cell : Cell) (db : PRIMITIVE_DB)
    (connection : CppString) (path : List CppString) (st2 : Extractor) : Prop :=
  List.Chain (AliasStep module db.is_in_dir) connection path ∧
  ∃ (p2 child : PRIMITIVE) (j : Nat),
    st2.deref parent = .ok p2 ∧
    CppMap.find p2.child cell.name = some (.child j) ∧
    st2.deref (.child j) = .ok child ∧ child.name = cell.name ∧ child.db = db ∧
    (∃ port ∈ db.get_checking_ports,
      CppMap.find child.connections port = some ((connection :: path).getLast (by simp))) ∧
    CppMap.find p2.child_connections cell.name = (if path = [] then none else some path)

/-- An input buffer on port `din` whose output net `n1` reaches the input
`n3` of a delay through the alias pairs `n2 = n1` and `n3 = n2`. -/
def example_two_hops : Module :=
  { wires := [input_wire "\\din"],
    cells := [cell_of "\\I_BUF" "\\ibuf" [("\\I", "\\din"), ("\\O", "\\n1")],
              cell_of "\\I_DELAY" "\\dly" [("\\I", "\\n3"), ("\\CLK_IN", "\\c"), ("\\O", "\\d")]],
    connections := [(wire_sig "\\n2", wire_sig "\\n1"), (wire_sig "\\n3", wire_sig "\\n2")] }

/-- The delay of `example_two_hops`. -/
def example_two_hops_delay : Cell :=
  cell_of "\\I_DELAY" "\\dly" [("\\I", "\\n3"), ("\\CLK_IN", "\\c"), ("\\O", "\\d")]

/-- The state of the run on `example_two_hops` after port discovery. -/
def example_two_hops_roots : Extractor :=
  match get_ports example_two_hops 10 (Extractor.construct "genesis3".toList) with
  | .ok (_, st) => st
  | .error _ => Extractor.construct "genesis3".toList

/-- The state of the run on `example_two_hops` after the recursive
`trace_next_primitive` has traced the delay from the output net of the input
buffer. -/
def example_two_hops_traced : Extractor :=
  match trace_next_primitive_rec example_two_hops 10 example_two_hops_roots (.port 0)
      example_two_hops_delay "\\n1".toList with
  | .ok (_, st) => st
  | .error _ => example_two_hops_roots


/-! ### Pass-through wires of a traced child -/

/-- The state of the run of `extract` on `example_two_hops` right before
instance generation. -/
def example_two_hops_ready : Extractor :=
  match trace_calls example_two_hops 10 extract_trace_pairs example_two_hops_roots with
  | .error _ => example_two_hops_roots
  | .ok s2 =>
    match trace_fabric_clkbuf example_two_hops s2 with
    | .error _ => s2
    | .ok s3 =>
      match trace_gearbox_fast_clock s3 with
      | .error _ => s3
      | .ok s4 => s4

/-- The input buffer of `example_two_hops` right before instance
generation. -/
def example_two_hops_parent : PRIMITIVE :=
  match example_two_hops_ready.deref (.port 0) with
  | .ok p => p
  | .error _ =>
    (input_buffer_root (cell_of "\\I_BUF" "\\ibuf" [("\\I", "\\din"), ("\\O", "\\n1")])
      (input_wire "\\din")).base

/-- The state of the run of `extract` on `example_two_hops` after instance
generation. -/
def example_two_hops_generated : Extractor :=
  match gen_instances 10 example_two_hops_ready with
  | .ok st => st
  | .error _ => example_two_hops_ready


/-! ### Escaping in the JSON report -/

/-- Reading back an escaped text, as the claim about `write_json_data`
words it: a backslash is dropped and the character after it is kept as it
is; `escaped` tells that the character before was such a backslash. -/
def spec_unescape (escaped : Bool) : CppString → CppString
  | [] => []
  | c :: rest =>
    if escaped then c :: spec_unescape false rest
    else if c = '\\' then spec_unescape true rest
    else c :: spec_unescape false rest


/-! ### The remapped location -/

/-- The method `get_assigned_location(entry, rule, parsed_location)`, which
no other method calls: the entry that `entry` points to as the call leaves it,
and the location returned. -/
def get_assigned_location (entry : SDC_ENTRY) (rule : CppString)
    (parsed_location : PARSED_LOCATION) : Except Fault (SDC_ENTRY × CppString) :=
  if ¬ (rule = [] ∨ rule = "half-first".toList) then .error .assertion
  else if parsed_location.status ≠ PARSED_LOCATION_GOOD then .error .assertion
  else if parsed_location.failure_reason.length ≠ 0 then .error .assertion
  else if rule = "half-first".toList then
    let assigned_location :=
      if parsed_location.index < 20 then
        "H".toList ++ c_str parsed_location.type ++ "_".toList ++
          c_str parsed_location.bank ++ "_0_0P".toList
      else
        "H".toList ++ c_str parsed_location.type ++ "_".toList ++
          c_str parsed_location.bank ++ "_20_10P".toList
    .ok ({ entry with
           comments := entry.comments ++
             ["# Remap location from ".toList ++ c_str parsed_location.location ++
               " to ".toList ++ c_str assigned_location] },
         assigned_location)
  else .ok (entry, parsed_location.location)


/-! ### The port records of a wire -/

/-- The port record of bit `i` of a port wire in the words of the claim about
`get_ports`: for a wire wider than one bit the indexed name is `name[i]` and
the real name `name[start_offset + i]`, otherwise both are the name of the
wire. -/
def spec_port_record (wire : Wire) (dir : IO_DIR) (bidir : Bool) (i : Nat) : PORT_INFO :=
  { dir := dir, name := wire.name,
    fullname :=
      if wire.width > 1 then wire.name ++ "[".toList ++ Nat.toDigits 10 i ++ "]".toList
      else wire.name,
    realname :=
      if wire.width > 1 then
        wire.name ++ "[".toList ++ fmt_d (wire.start_offset + (i : Int)) ++ "]".toList
      else wire.name,
    offset := wire.start_offset + (i : Int), index := (i : Int),
    width := (wire.width % 2 ^ 32).toNat, bidir := bidir }

/-- A bus of three bits that is both input and output, with start offset
4. -/
def example_inout_bus : Wire :=
  { name := "\\io".toList, port_input := true, port_output := true, width := 3,
    start_offset := 4 }


/-! ### Following the wires of the wrapped netlist -/

/-- A `WIRE` of the wrapped netlist leads from the net `a` on its `I` to the
net `b` on its `O`. -/
def WireStep (wrapped_instances : List WrappedInstance) (a b : CppString) : Prop :=
  ∃ w ∈ wrapped_instances, w.module = "WIRE".toList ∧
    w.connectivity.lookup "I".toList = some (WrappedValue.str a) ∧
    w.connectivity.lookup "O".toList = some (WrappedValue.str b)

/-- The wires are listed in chain order: a `WIRE` comes after every `WIRE`
whose `O` net is its `I` net. -/
def ChainOrdered (wrapped_instances : List WrappedInstance) : Prop :=
  ∀ (i j : Nat) (w1 w2 : WrappedInstance) (x : CppString),
    wrapped_instances[i]? = some w1 → wrapped_instances[j]? = some w2 →
    w1.module = "WIRE".toList → w2.module = "WIRE".toList →
    w1.connectivity.lookup "O".toList = some (WrappedValue.str x) →
    w2.connectivity.lookup "I".toList = some (WrappedValue.str x) → i < j

/-- Every `WIRE` has a connection `I` and a connection `O` that is a
string. -/
def WiresComplete (wrapped_instances : List WrappedInstance) : Prop :=
  ∀ w ∈ wrapped_instances, w.module = "WIRE".toList →
    (∃ a, w.connectivity.lookup "I".toList = some a) ∧
    ∃ b, w.connectivity.lookup "O".toList = some (WrappedValue.str b)

/-- A clock buffer whose output net `n1` reaches the fabric net `n3` through
two wires, the second of which is listed first. -/
def example_wires_reversed : List WrappedInstance :=
  [{ module := "CLK_BUF".toList, name := "z".toList,
     connectivity := [("I".toList, .str "clk".toList), ("O".toList, .str "n1".toList)] },
   { module := "WIRE".toList, name := "w2".toList,
     connectivity := [("I".toList, .str "n2".toList), ("O".toList, .str "n3".toList)] },
   { module := "WIRE".toList, name := "w1".toList,
     connectivity := [("I".toList, .str "n1".toList), ("O".toList, .str "n2".toList)] },
   { module := "fabric_top".toList, name := "fabric".toList,
     connectivity := [("n3".toList, .str "n3".toList)] }]

/-- The netlist of `example_wires_reversed` with the wires in chain
order. -/
def example_wires_in_order : List WrappedInstance :=
  [{ module := "CLK_BUF".toList, name := "z".toList,
     connectivity := [("I".toList, .str "clk".toList), ("O".toList, .str "n1".toList)] },
   { module := "WIRE".toList, name := "w1".toList,
     connectivity := [("I".toList, .str "n1".toList), ("O".toList, .str "n2".toList)] },
   { module := "WIRE".toList, name := "w2".toList,
     connectivity := [("I".toList, .str "n2".toList), ("O".toList, .str "n3".toList)] },
   { module := "fabric_top".toList, name := "fabric".toList,
     connectivity := [("n3".toList, .str "n3".toList)] }]

/-- The fabric clock of the clock buffer `z` of the examples. -/
def example_wires_clock : FABRIC_CLOCK :=
  { linked_object := "clk".toList, module := "CLK_BUF".toList, name := "z".toList,
    iport := "I".toList, oport := "O".toList, inet := "clk".toList, onet := "n1".toList,
    is_fabric_clkbuf := false, gearboxes := [], core_logic := true }


/-! ### Gearboxes on one clock -/

/-- A clock port `clk` with its buffer and clock buffer, and two data ports
`din0` and `din1`, each with a buffer and a delay; both delays take the
output `c` of the clock buffer on `CLK_IN`. -/
def example_shared_clock : Module :=
  { wires := [input_wire "\\clk", input_wire "\\din0", input_wire "\\din1"],
    cells := [cell_of "\\I_BUF" "\\cbuf" [("\\I", "\\clk"), ("\\O", "\\cn")],
              cell_of "\\CLK_BUF" "\\z" [("\\I", "\\cn"), ("\\O", "\\c")],
              cell_of "\\I_BUF" "\\buf0" [("\\I", "\\din0"), ("\\O", "\\n0")],
              cell_of "\\I_DELAY" "\\dly0"
                [("\\I", "\\n0"), ("\\CLK_IN", "\\c"), ("\\O", "\\q0")],
              cell_of "\\I_BUF" "\\buf1" [("\\I", "\\din1"), ("\\O", "\\n1")],
              cell_of "\\I_DELAY" "\\dly1"
                [("\\I", "\\n1"), ("\\CLK_IN", "\\c"), ("\\O", "\\q1")]],
    connections := [] }

/-- Two nodes agree on what `trace_gearbox_fast_clock` reads of a node:
descriptor, name, chain root and connections. -/
def SameWiring (a b : PRIMITIVE) : Prop :=
  a.db = b.db ∧ a.name = b.name ∧ a.grandparent = b.grandparent ∧
    a.connections = b.connections

/-- The node has a fast-clock port of lower priority, and a traced node with
the same chain root has a fast-clock port of normal priority. -/
def OutPrioritized (children : List PRIMITIVE) (p : PRIMITIVE) : Prop :=
  p.db.fast_clock ≠ [] ∧ p.db.is_lower_fast_clock_priority = true ∧
    ∃ s ∈ children, s.grandparent = p.grandparent ∧ s.db.fast_clock ≠ [] ∧
      s.db.is_lower_fast_clock_priority = false

/-- The condition of the claim about the errors of
`trace_gearbox_fast_clock`: the descriptor of the node names a fast-clock port,
the node is not out-prioritized, and no declared output of a traced
gearbox-clock node carries the net on the fast-clock port of the node. -/
def NotRoutable (children : List PRIMITIVE) (p : PRIMITIVE) : Prop :=
  p.db.fast_clock ≠ [] ∧ ¬ OutPrioritized children p ∧
    ∀ c ∈ children, c.db.is_gearbox_clock = true → ∀ o ∈ c.db.outputs,
      CppMap.find c.connections o ≠ CppMap.find p.connections p.db.fast_clock

/-- The error message of `trace_gearbox_fast_clock` for a node and the net
on its fast-clock port. -/
def not_routable_msg (p : PRIMITIVE) (clock : CppString) : CppString :=
  c_str p.db.name ++ " ".toList ++ c_str p.name ++ " fast clock port ".toList ++
    c_str p.db.fast_clock ++ " (net: ".toList ++ c_str clock ++ ") is not routable".toList

/-- The consumers that a node lists for a clock output. -/
def PRIMITIVE.consumers (p : PRIMITIVE) (port : CppString) : List PrimRef :=
  (CppMap.find p.gearbox_clocks port).getD []

/-- The state of the run of `extract` on `example_shared_clock` right before
`trace_gearbox_fast_clock`. -/
def example_shared_clock_traced : Extractor :=
  match get_ports example_shared_clock 10 (Extractor.construct "genesis3".toList) with
  | .error _ => Extractor.construct "genesis3".toList
  | .ok (_, s1) =>
    match trace_calls example_shared_clock 10 extract_trace_pairs s1 with
    | .error _ => s1
    | .ok s2 =>
      match trace_fabric_clkbuf example_shared_clock s2 with
      | .error _ => s2
      | .ok s3 => s3

/-- The state of the run of `extract` on `example_shared_clock` right after
`trace_gearbox_fast_clock`. -/
def example_shared_clock_routed : Extractor :=
  match trace_gearbox_fast_clock example_shared_clock_traced with
  | .ok st => st
  | .error _ => example_shared_clock_traced

/-- The node at a position of the traced nodes, an empty buffer when there
is none. -/
def child_at (st : Extractor) (j : Nat) : PRIMITIVE :=
  match st.m_child_primitives[j]? with
  | some c => c
  | none =>
    { db := { name := [], feature := 0, inputs := [], outputs := [], output_traits := [],
              intrace_connection := [], outtrace_connection := [], fast_clock := [],
              core_clock := [], data_signal := [], properties := [] },
      name := [], parent := none, grandparent := none, connections := [],
      is_port_primitive := false, bidir := false }

/-- The decision of `trace_gearbox_fast_clock` to give a node an error, as
the code takes it on the list of traced nodes: the node needs a fast clock, the
net `clock` is on its fast-clock port, it is not skipped for a chain member of
higher priority, and the search for a producer finds none. -/
def Unrouted (children : List PRIMITIVE) (p : PRIMITIVE) (clock : CppString) : Prop :=
  p.db.fast_clock ≠ [] ∧ CppMap.find p.connections p.db.fast_clock = some clock ∧
    ¬ (p.db.is_lower_fast_clock_priority = true ∧
      high_priority_fast_clock p children ≠ []) ∧
    clock_producer clock children 0 = none

/-- The decision of `trace_gearbox_fast_clock` to register a node with the
producer at position `j` under the port name `port`. -/
def Routed (children : List PRIMITIVE) (p : PRIMITIVE) (j : Nat) (port : CppString) :
    Prop :=
  p.db.fast_clock ≠ [] ∧ p.db.is_clock = false ∧
    ∃ clock o, CppMap.find p.connections p.db.fast_clock = some clock ∧
      ¬ (p.db.is_lower_fast_clock_priority = true ∧
        high_priority_fast_clock p children ≠ []) ∧
      clock_producer clock children 0 = some (j, o) ∧ port = get_original_name o

/-- The state of the run of `extract` on `example_two_hops` right before
`trace_gearbox_fast_clock`. -/
def example_two_hops_linked : Extractor :=
  match trace_calls example_two_hops 10 extract_trace_pairs example_two_hops_roots with
  | .error _ => example_two_hops_roots
  | .ok s2 =>
    match trace_fabric_clkbuf example_two_hops s2 with
    | .error _ => s2
    | .ok s3 => s3


/-! ### The walk of the second `summarize` -/

/-- What the second recursive `summarize` does on its walk through a chain
tree: at every node the pin update for the node, and at every leaf the storing
of the traces collected on the way to it. -/
inductive SummaryEvent where
  | node (primitive : PRIMITIVE)
  | leaf (traces full_traces : List CppString)
  deriving DecidableEq, Repr

/-- The child loop of the walk of the second `summarize` on the heap `D`:
the traces handed to each child are the ones `summarize` builds. -/
def summary_walk_children (D : PrimRef → Except Fault PRIMITIVE)
    (call : PrimRef → List CppString → List CppString → Except Fault (List SummaryEvent))
    (traces full_traces : List CppString) (is_in_dir : Bool) :
    List (CppString × PrimRef) → Nat → Except Fault (List SummaryEvent)
  | [], _ => .ok []
  | child :: rest, i =>
    match D child.2 with
    | .error e => .error e
    | .ok c =>
      if is_in_dir ≠ c.db.is_in_dir then .error .assertion
      else
        match (if i = 0 then Except.ok traces
            else (trace_indent traces).map (fun indent => [indent])) with
        | .error e => .error e
        | .ok temp =>
          match call child.2 (temp ++ [get_original_name c.db.name])
              (full_traces ++ [get_original_name c.db.name]) with
          | .error e => .error e
          | .ok evs =>
            match summary_walk_children D call traces full_traces is_in_dir rest (i + 1) with
            | .error e => .error e
            | .ok more => .ok (evs ++ more)

/-- The walk of the second recursive `summarize` on the heap `D`, without
the pins: the nodes in the order they are visited and, after each leaf, the
traces collected for it. -/
def summary_walk (D : PrimRef → Except Fault PRIMITIVE) (is_in_dir : Bool) :
    Nat → PrimRef → List CppString → List CppString → Except Fault (List SummaryEvent)
  | 0, _, _, _ => .error .out_of_fuel
  | fuel + 1, r, traces, full_traces =>
    if traces.length = 0 then .error .assertion
    else
      match D r with
      | .error e => .error e
      | .ok primitive =>
        if primitive.child.length ≠ 0 then
          match summary_walk_children D
              (fun c t f => summary_walk D is_in_dir fuel c t f)
              traces full_traces is_in_dir primitive.child 0 with
          | .error e => .error e
          | .ok evs => .ok (SummaryEvent.node primitive :: evs)
        else .ok [SummaryEvent.node primitive, SummaryEvent.leaf traces full_traces]

/-- What the second recursive `summarize` does to the pins of the objects
at one stop of its walk. -/
def run_summary_event (objects : List CppString) (is_in_dir : Bool) (st : Extractor) :
    SummaryEvent → Except Fault Extractor
  | .node primitive =>
    objects.foldlM (fun st object => update_pin_info st object primitive) st
  | .leaf traces full_traces =>
    match store_pin_traces traces full_traces is_in_dir objects st with
    | .error e => .error e
    | .ok st =>
      match join_trace " |-> ".toList (if is_in_dir then traces else traces.reverse) [] with
      | .error e => .error e
      | .ok _ => .ok st

/-- The nodes of a walk, in the order of the walk. -/
def walk_nodes : List SummaryEvent → List PRIMITIVE
  | [] => []
  | .node primitive :: rest => primitive :: walk_nodes rest
  | .leaf _ _ :: rest => walk_nodes rest

/-- The full traces of the leaves of a walk, in the order of the walk. -/
def walk_chains : List SummaryEvent → List (List CppString)
  | [] => []
  | .node _ :: rest => walk_chains rest
  | .leaf _ full_traces :: rest => full_traces :: walk_chains rest

/-- A chain of the heap `D` leads from the node `r` down to a leaf, and
`names` is `start` followed by the type names of the nodes below `r` on the
chain, in this order. -/
inductive LeafChain (D : PrimRef → Except Fault PRIMITIVE) :
    PrimRef → List CppString → List CppString → Prop where
  | leaf (r : PrimRef) (p : PRIMITIVE) (start : List CppString) :
      D r = .ok p → p.child = [] → LeafChain D r start start
  | step (r c : PrimRef) (p cn : PRIMITIVE) (k : CppString) (start names : List CppString) :
      D r = .ok p → (k, c) ∈ p.child → D c = .ok cn →
      LeafChain D c (start ++ [get_original_name cn.db.name]) names →
      LeafChain D r start names

/-- The text that the trace loops of `summarize` and `update_pin_traces`
build from names that pass their assertion, starting with `trace`. -/
def joined_trace (sep : CppString) : List CppString → CppString → CppString
  | [], trace => trace
  | t :: rest, trace =>
    if trace.length ≠ 0 then joined_trace sep rest (c_str trace ++ sep ++ c_str t)
    else joined_trace sep rest t

/-- The trace that `update_pin_traces` stores for the names of a chain. -/
def pin_trace (names : List CppString) (is_in_dir : Bool) : CppString :=
  joined_trace " |-> ".toList (if is_in_dir then names else names.reverse) []

/-- How many of the objects `get_pin_info` resolves to the pin at position
`i`. -/
def pin_hits (pins : List PIN_PORT) (objects : List CppString) (dir_in : Bool) (i : Nat) :
    Nat :=
  (objects.filter (fun o => decide (find_pin o dir_in pins 0 = some i))).length


/-- The node `p` lies in the chain tree of the heap `D` under the node
`r`: it is `r` itself or is reached from it through children. -/
inductive InChain (D : PrimRef → Except Fault PRIMITIVE) : PrimRef → PRIMITIVE → Prop where
  | root (r : PrimRef) (p : PRIMITIVE) : D r = .ok p → InChain D r p
  | step (r c : PrimRef) (p0 p : PRIMITIVE) (k : CppString) :
      D r = .ok p0 → (k, c) ∈ p0.child → InChain D c p → InChain D r p


/-- What `get_pin_info` compares of a pin: its name and its direction. -/
def pin_key (q : PIN_PORT) : CppString × Bool := (q.name, q.is_input)

/-- The pins before and after a loop over `objects` that looks each object
up with `get_pin_info` and replaces the pin found by one that `R` relates to
it. -/
inductive PinSteps (R : PIN_PORT → PIN_PORT → Prop) (dir_in : Bool) :
    List CppString → List PIN_PORT → List PIN_PORT → Prop where
  | nil (pins : List PIN_PORT) : PinSteps R dir_in [] pins pins
  | cons (o : CppString) (rest : List CppString) (pins pins2 : List PIN_PORT) (idx : Nat)
      (pin pin2 : PIN_PORT) :
      find_pin o dir_in pins 0 = some idx → pins[idx]? = some pin → R pin pin2 →
      PinSteps R dir_in rest (pins.set idx pin2) pins2 →
      PinSteps R dir_in (o :: rest) pins pins2

/-- The relation `R` applied `n` times in a row. -/
def IterRel (R : PIN_PORT → PIN_PORT → Prop) : Nat → PIN_PORT → PIN_PORT → Prop
  | 0, q, q2 => q2 = q
  | n + 1, q, q2 => ∃ q1, R q q1 ∧ IterRel R n q1 q2

/-- The primitive is an `I_DDR` or an `O_DDR`. -/
def IsDdrType (p : PRIMITIVE) : Prop :=
  p.db.name = "\\I_DDR".toList ∨ p.db.name = "\\O_DDR".toList

/-- The primitive is an `I_SERDES`, an `O_SERDES` or an `O_SERDES_CLK`. -/
def IsSerdesType (p : PRIMITIVE) : Prop :=
  p.db.name = "\\I_SERDES".toList ∨ p.db.name = "\\O_SERDES".toList ∨
    p.db.name = "\\O_SERDES_CLK".toList

/-- The mode of a pin by the parameters of a SERDES primitive of its chain:
`RATE_<n>` for the `WIDTH` parameter `n`; without `WIDTH`, the value of the
`DATA_RATE` parameter if this is not empty; and `SDR` if the value is empty or
neither parameter is there. -/
def SerdesMode (p : PRIMITIVE) (mode : CppString) : Prop :=
  (∀ w, CppMap.find p.parameters "\\WIDTH".toList = some w →
    ∃ n : Int, stoi w = .ok n ∧ mode = "RATE_".toList ++ fmt_d n) ∧
  (CppMap.find p.parameters "\\WIDTH".toList = none →
    ∀ d, CppMap.find p.parameters "\\DATA_RATE".toList = some d →
      get_param_string d ≠ [] → mode = get_param_string d) ∧
  (CppMap.find p.parameters "\\WIDTH".toList = none →
    ∀ d, CppMap.find p.parameters "\\DATA_RATE".toList = some d →
      get_param_string d = [] → mode = "SDR".toList) ∧
  (CppMap.find p.parameters "\\WIDTH".toList = none →
    CppMap.find p.parameters "\\DATA_RATE".toList = none → mode = "SDR".toList)

/-- The mode of a pin before and after `update_pin_info` has returned for
the primitive `p`. -/
def ModeStep (p : PRIMITIVE) (m m2 : CppString) : Prop :=
  (IsDdrType p → m = [] ∧ m2 = "DDR".toList) ∧
  (IsSerdesType p → m = [] ∧ m2 ≠ [] ∧ SerdesMode p m2) ∧
  (¬ IsDdrType p → ¬ IsSerdesType p → m2 = m)

/-- The mode of a pin before and after `update_pin_info` has returned for
each of the primitives in turn. -/
def ModeFold : List PRIMITIVE → CppString → CppString → Prop
  | [], m, m2 => m2 = m
  | p :: rest, m, m2 => ∃ m1, ModeStep p m m1 ∧ ModeFold rest m1 m2

/-- A pin before and after `update_pin_info` has returned for it and the
primitive `p`. -/
def NodeRel (p : PRIMITIVE) (q q2 : PIN_PORT) : Prop :=
  q2.name = q.name ∧ q2.is_input = q.is_input ∧ q2.primitive = q.primitive ∧
    q2.traces = q.traces ∧ q2.full_traces = q.full_traces ∧ ModeStep p q.mode q2.mode

/-- A pin before and after the two calls of `update_pin_traces` at a leaf
have returned for it. -/
def LeafRel (traces full_traces : List CppString) (is_in_dir : Bool) (q q2 : PIN_PORT) :
    Prop :=
  q2.name = q.name ∧ q2.is_input = q.is_input ∧ q2.primitive = q.primitive ∧
    q2.mode = q.mode ∧
    (∃ t, join_trace " |-> ".toList (if is_in_dir then traces else traces.reverse) [] = .ok t ∧
      q2.traces = q.traces ++ [t]) ∧
    (∃ f, join_trace " |-> ".toList
        (if is_in_dir then full_traces else full_traces.reverse) [] = .ok f ∧
      q2.full_traces = q.full_traces ++ [f])

/-- A pin before and after one stop of the walk has updated it once. -/
def EventRel (is_in_dir : Bool) : SummaryEvent → PIN_PORT → PIN_PORT → Prop
  | .node p => NodeRel p
  | .leaf traces full_traces => LeafRel traces full_traces is_in_dir

/-- A pin before and after a walk each stop of which has updated it `n`
times. -/
def PinRun (is_in_dir : Bool) (n : Nat) : List SummaryEvent → PIN_PORT → PIN_PORT → Prop
  | [], q, q2 => q2 = q
  | e :: rest, q, q2 => ∃ q1, IterRel (EventRel is_in_dir e) n q q1 ∧ PinRun is_in_dir n rest q1 q2

/-- The pin `q` is the summary of the linked object of a root of `ports`:
it is the pin created for the object, updated once at every stop of the walk
through the chain tree of the root. -/
def PinSummary (D : PrimRef → Except Fault PRIMITIVE) (ports : List PORT_PRIMITIVE)
    (q : PIN_PORT) : Prop :=
  ∃ (i : Nat) (port : PORT_PRIMITIVE) (fuel : Nat) (evs : List SummaryEvent),
    ports[i]? = some port ∧ q.name ∈ port.linked_objects ∧
    summary_walk D port.base.db.is_in_dir fuel (.port i)
      [get_original_name port.base.db.name] [get_original_name port.base.db.name] = .ok evs ∧
    PinRun port.base.db.is_in_dir 1 evs (pin_of_root port (.port i) q.name) q


/-- A one-bit output port wire. -/
def output_wire (n : String) : Wire :=
  { name := n.toList, port_input := false, port_output := true, width := 1, start_offset := 0 }

/-- The state that `summarize` returns on `example_clock_and_delay_traced`. -/
def example_clock_and_delay_summarized : Extractor :=
  match summarize 10 example_clock_and_delay_traced with
  | .ok st => st
  | .error _ => example_clock_and_delay_traced

/-- The pin of port `clk` of `example_clock_and_delay` after `summarize`. -/
def example_clock_pin : PIN_PORT :=
  { name := "clk".toList, primitive := .port 0, is_input := true, is_standalone := false,
    is_fabric_clkbuf := false,
    traces := ["I_BUF |-> I_DELAY".toList, "      |-> CLK_BUF".toList],
    full_traces := ["I_BUF |-> I_DELAY".toList, "I_BUF |-> CLK_BUF".toList] }

/-- An input buffer on port `din` that drives, on net `n1`, the data input
of the `I_DDR` cell `ddr`. -/
def example_ddr_input : Module :=
  { wires := [input_wire "\\din"],
    cells := [cell_of "\\I_BUF" "\\ibuf" [("\\I", "\\din"), ("\\O", "\\n1")],
              cell_of "\\I_DDR" "\\ddr" [("\\D", "\\n1"), ("\\C", "\\c"), ("\\Q", "\\q")]],
    connections := [] }

/-- The state of the run of `extract` on `example_ddr_input` after the
tracing calls. -/
def example_ddr_input_traced : Extractor :=
  match get_ports example_ddr_input 10 (Extractor.construct "genesis3".toList) with
  | .error _ => Extractor.construct "genesis3".toList
  | .ok (_, s1) =>
    match trace_calls example_ddr_input 10 extract_trace_pairs s1 with
    | .error _ => s1
    | .ok s2 => s2

/-- The state that `summarize` returns on `example_ddr_input_traced`. -/
def example_ddr_input_summarized : Extractor :=
  match summarize 10 example_ddr_input_traced with
  | .ok st => st
  | .error _ => example_ddr_input_traced

/-- The pin of port `din` of `example_ddr_input` after `summarize`. -/
def example_ddr_pin : PIN_PORT :=
  { name := "din".toList, primitive := .port 0, is_input := true, is_standalone := false,
    is_fabric_clkbuf := false, mode := "DDR".toList,
    traces := ["I_BUF |-> I_DDR".toList], full_traces := ["I_BUF |-> I_DDR".toList] }

/-- An output buffer on port `cko` that is driven, on net `n1`, by the
`O_SERDES_CLK` cell `sclk`, which has no `WIDTH` parameter and the empty string
as `DATA_RATE` parameter (printed by `dump_const` as two double quotes). -/
def example_serdes_clock : Module :=
  { wires := [output_wire "\\cko"],
    cells := [cell_of "\\O_BUF" "\\obuf" [("\\I", "\\n1"), ("\\O", "\\cko")],
              { cell_of "\\O_SERDES_CLK" "\\sclk"
                  [("\\PLL_CLK", "\\p"), ("\\OUTPUT_CLK", "\\n1")]
                with parameters := [("\\DATA_RATE".toList, "\"\"".toList)] }],
    connections := [] }

/-- The state in which `extract` leaves the extractor on
`example_serdes_clock`. -/
def example_serdes_clock_extracted : Extractor :=
  match extract example_serdes_clock 10 (Extractor.construct "genesis3".toList) with
  | .ok result => result.2.1
  | .error _ => Extractor.construct "genesis3".toList


/-! ### Standalone names -/

/-- The key under which the constructor of `PORT_PRIMITIVE` counts a root
in `g_standalone_tracker`: the type name of a standalone root, `FABRIC_CLKBUF`
for a fabric clock buffer that is not standalone, and none for any other
root. -/
def standalone_kind (db : PRIMITIVE_DB) : Option CppString :=
  if db.is_standalone || db.is_fabric_clkbuf then
    some (if db.is_standalone then get_original_name db.name else "FABRIC_CLKBUF".toList)
  else none

/-- What the constructor fixes of a root for good: its descriptor and its
standalone name. -/
def root_sig (p : PORT_PRIMITIVE) : PRIMITIVE_DB × CppString := (p.base.db, p.standalone_name)

/-- Number of roots with the key `K` among the first `i` roots. -/
def earlier_of_kind (sigs : List (PRIMITIVE_DB × CppString)) (i : Nat) (K : CppString) : Nat :=
  ((sigs.take i).filter (fun s => decide (standalone_kind s.1 = some K))).length

/-- The roots of `t` are the roots of `s` up to what changes in a root after
its creation, and the tracker is the same. -/
def RootsKept (s t : Extractor) : Prop :=
  t.m_ports.map root_sig = s.m_ports.map root_sig ∧
    t.g_standalone_tracker = s.g_standalone_tracker

/-- The roots created so far in a run of `extract` and the tracker: the
descriptors are of technology `genesis3`, every root with a key has the name
the constructor prints from the key and the number of earlier roots with that
key, and the tracker holds for every key the number of roots with it. -/
def NamedRoots (sigs : List (PRIMITIVE_DB × CppString)) (tracker : CppMap Nat) : Prop :=
  (∀ s ∈ sigs, s.1 ∈ genesis3_primitives) ∧
  (∀ (i : Nat) (s : PRIMITIVE_DB × CppString) (K : CppString), sigs[i]? = some s →
    standalone_kind s.1 = some K →
    s.2 = c_str K ++ "#".toList ++ fmt_d (int_of_uint32 (earlier_of_kind sigs i K))) ∧
  (∀ K, (CppMap.find tracker K).getD 0 = earlier_of_kind sigs sigs.length K % 2 ^ 32)

/-- An input buffer, two boot clocks and two fabric clock buffers, all on
one cell of fabric logic. -/
def example_two_oscillators : Module :=
  { wires := [input_wire "\\din"],
    cells := [cell_of "\\I_BUF" "\\ibuf" [("\\I", "\\din"), ("\\O", "\\n1")],
              cell_of "\\BOOT_CLOCK" "\\osc0" [("\\O", "\\c0")],
              cell_of "\\FCLK_BUF" "\\fb0" [("\\I", "\\a0"), ("\\O", "\\b0")],
              cell_of "\\BOOT_CLOCK" "\\osc1" [("\\O", "\\c1")],
              cell_of "\\FCLK_BUF" "\\fb1" [("\\I", "\\a1"), ("\\O", "\\b1")],
              cell_of "\\LOGIC" "\\u1" [("\\A", "\\n1"), ("\\C0", "\\c0"), ("\\C1", "\\c1"),
                ("\\A0", "\\a0"), ("\\B0", "\\b0"), ("\\A1", "\\a1"), ("\\B1", "\\b1")]],
    connections := [] }

/-- An extractor whose standalone tracker a former run has left behind. -/
def example_used_extractor : Extractor :=
  { Extractor.construct "genesis3".toList with
    g_standalone_tracker := [("BOOT_CLOCK".toList, 7)] }

/-- The result of `extract` on `example_two_oscillators`, started with
`example_used_extractor`. -/
def example_two_oscillators_extracted : Bool × Extractor × Option FinalCheck :=
  match extract example_two_oscillators 10 example_used_extractor with
  | .ok result => result
  | .error _ => (false, example_used_extractor, none)


/-! ### The record a call of parse_location leaves -/

/-- The record `parsed` as a call of `parse_location` leaves it, whether the
call returns, fails an assertion or is left by an exception of `std::stoi`:
the reference parameter keeps what has been written to it until then. -/
def parse_location_left (location : CppString) (parsed : PARSED_LOCATION) :
    PARSED_LOCATION :=
  if parsed.type.length = 0 ∧ parsed.bank.length = 0 ∧ parsed.is_clock = false ∧
      parsed.index = 0 ∧ parsed.status = PARSED_LOCATION_UNKNOWN ∧
      parsed.failure_reason.length = 0 then
    let parsed := { parsed with status := PARSED_LOCATION_BAD }
    if location.length ≠ 0 then
      match regex_match_location location with
      | some m =>
        let parsed := { parsed with type := m.m1 }
        if parsed.type = "P".toList ∨ parsed.type = "R".toList then
          let parsed := { parsed with bank := m.m2 }
          let parsed := { parsed with is_clock := decide (m.m3 = "CC_".toList) }
          match stoi m.m4 with
          | .error _ => parsed
          | .ok idx =>
            let parsed := { parsed with index := idx }
            if parsed.index ≥ (0 : Int) ∧ parsed.index < (40 : Int) then
              let pair_index : Int := Int.tdiv parsed.index 2
              match stoi m.m5 with
              | .error _ => parsed
              | .ok pair =>
                if pair_index = pair then
                  if (Int.tmod parsed.index 2 = 0 ∧ m.m6 = "P".toList) ∨
                      (Int.tmod parsed.index 2 = 1 ∧ m.m6 = "N".toList) then
                    { parsed with status := PARSED_LOCATION_GOOD }
                  else
                    { parsed with failure_reason :=
                      "Location ".toList ++ c_str location ++ " P/N is invalid".toList }
                else
                  { parsed with failure_reason :=
                    "Location ".toList ++ c_str location ++
                      " pair index is invalid".toList }
            else
              { parsed with failure_reason :=
                "Location ".toList ++ c_str location ++
                  " is range of index range".toList }
        else parsed
      | none =>
        { parsed with failure_reason :=
          "Location ".toList ++ c_str location ++ " does not meet regex".toList }
    else
      { parsed with status := PARSED_LOCATION_SKIP,
                    failure_reason := "Location is not assigned".toList }
  else parsed

/-- The six fields of a `PARSED_LOCATION` that `parse_location` writes. -/
def parsed_fields (r : PARSED_LOCATION) :
    CppString × CppString × Bool × Int × Nat × CppString :=
  (r.type, r.bank, r.is_clock, r.index, r.status, r.failure_reason)

/-- A string of the location grammar whose index, or whose pair index when
the index is below 40, does not fit an `int`. -/
def LocationOverflows (s : CppString) : Prop :=
  ∃ t b cc idx pair pol, LocationGrammar s t b cc idx pair pol ∧
    (INT_MAX < (decimalValue idx : Int) ∨
      (decimalValue idx < 40 ∧ INT_MAX < (decimalValue pair : Int)))

/-! ### Output entries and their traits -/

/-- The name part of an output entry `name:trait`: the text before the first
colon, the whole entry when it has no colon. -/
def trait_name (str : CppString) : CppString :=
  str.takeWhile (fun c => c != ':')

/-- The trait of an output entry `name:trait`: the text after the first
colon. -/
def trait_text (str : CppString) : CppString :=
  (str.dropWhile (fun c => c != ':')).drop 1

/-- The value that `get_trait` stores for an entry: its trait, and for an
entry without a colon the entry itself. -/
def stored_trait (str : CppString) : CppString :=
  if ':' ∈ str then trait_text str else str

/-- The entries on which the assertions of `get_trait` hold: none is empty or
starts with a colon, none ends with its first colon, and no two have the same
name part. -/
def TraitEntries (strings : List CppString) : Prop :=
  (∀ str ∈ strings, str ≠ [] ∧ str.head? ≠ some ':' ∧ stored_trait str ≠ []) ∧
    (strings.map trait_name).Nodup

/-- The first pass-through wire of the run of `extract` on
`example_two_hops`. -/
def example_two_hops_wire : INSTANCE :=
  match example_two_hops_generated.m_instances[1]? with
  | some w => w
  | none =>
    { module := [], name := [], linked_objects := [], primitive := none,
      pre_primitive := [], post_primitives := [] }

/-- An input buffer on port `din` whose output `O` is not connected, and a
clock buffer `z` elsewhere in the module. -/
def example_open_buffer : Module :=
  { wires := [input_wire "\\din"],
    cells := [cell_of "\\I_BUF" "\\ibuf" [("\\I", "\\din")],
              cell_of "\\CLK_BUF" "\\z" [("\\I", "\\n1"), ("\\O", "\\c")]],
    connections := [] }

/-- The state of the run on `example_open_buffer` after port discovery. -/
def example_open_buffer_roots : Extractor :=
  match get_ports example_open_buffer 10 (Extractor.construct "genesis3".toList) with
  | .ok (_, st) => st
  | .error _ => Extractor.construct "genesis3".toList

/-! ### The primary object of a root instance -/

/-- The first loop of `INSTANCE::get_primary_object`: the net on the first of
the ports that the instance connects, the empty string when it connects
none. -/
def design_object_of (inst : INSTANCE) (ports : List CppString) : CppString :=
  match ports.find? (fun port => CppMap.contains inst.connections port) with
  | some port => (CppMap.find inst.connections port).getD []
  | none => []

/-- A differential input buffer on the ports `p` and `n`; its input `I_P` is
connected to the net `n1`, which an alias pair joins to the port `p`. -/
def example_pair_alias : Module :=
  { wires := [input_wire "\\p", input_wire "\\n"],
    cells := [cell_of "\\I_BUF_DS" "\\ibuf"
      [("\\I_P", "\\n1"), ("\\I_N", "\\n"), ("\\O", "\\o1")]],
    connections := [(wire_sig "\\n1", wire_sig "\\p")] }

/-- The state that `extract` returns on `example_pair_alias`. -/
def example_pair_alias_extracted : Extractor :=
  match extract example_pair_alias 10 (Extractor.construct "genesis3".toList) with
  | .ok r => r.2.1
  | .error _ => Extractor.construct "genesis3".toList

/-- The instance of the buffer of `example_pair_alias`. -/
def example_pair_alias_instance : INSTANCE :=
  match example_pair_alias_extracted.m_instances[0]? with
  | some w => w
  | none =>
    { module := [], name := [], linked_objects := [], primitive := none,
      pre_primitive := [], post_primitives := [] }

/-- The root of `example_pair_alias` after `extract`. -/
def example_pair_alias_root : PRIMITIVE :=
  match example_pair_alias_extracted.deref (.port 0) with
  | .ok p => p
  | .error _ =>
    (input_buffer_root (cell_of "\\I_BUF" "\\ibuf" []) (input_wire "\\p")).base

/-! ### Properties kept by the traced pairs -/

/-- A property of extractor states that the tracing of the pairs `calls` on
the cells of a module keeps: it survives every change that leaves the shape
of all nodes alone, and it survives the attachment of a cell of the module as
a new child of a node, when the descriptor of the node and the type of the
cell are a traced pair. -/
structure PairClosed (module : Module) (calls : List (CppString × CppString))
    (P : Extractor → Prop) : Prop where
  shape : ∀ st st2, ShapeEq st.deref st2.deref → P st → P st2
  attach : ∀ st st2 parent parentNode cell db connections, P st →
    st.deref parent = .ok parentNode → cell ∈ module.cells →
    (parentNode.db.name, cell.type) ∈ calls →
    CppMap.contains parentNode.child cell.name = false →
    is_supported_primitive st cell.type PRIMITIVE_REQ.NOT_PORT = .ok (some db) →
    attach_child st parent parentNode cell db connections = .ok st2 → P st2

/-! ### Properties kept by the creation of roots -/

/-- A property of the cells still to visit and of the extractor state that
the loops creating roots keep: it survives every change that leaves the
shape of all nodes alone, the passing over of a cell, and the creation of a
root for the cell at hand from a descriptor found for its type under one of
the requirements `reqs`. -/
structure RootClosed (reqs : List PRIMITIVE_REQ) (P : List Cell → Extractor → Prop) :
    Prop where
  shape : ∀ rest st st2, ShapeEq st.deref st2.deref → P rest st → P rest st2
  skip : ∀ cell rest st, P (cell :: rest) st → P rest st
  push : ∀ cell rest st db req c ps bd v, P (cell :: rest) st → req ∈ reqs →
    is_supported_primitive st cell.type req = .ok (some db) →
    PORT_PRIMITIVE.construct st.g_standalone_tracker db cell.name c ps bd = .ok v →
    P rest { st with m_ports := st.m_ports ++ [v.1], g_standalone_tracker := v.2 }

/-- Every node was created from a cell of the module: its descriptor is a
ready entry of the genesis3 table with the type of a cell that has the name
of the node; a root has a port, standalone or fabric clock buffer
descriptor; a node with a parent has a descriptor that is no port and that
is the destination of a traced pair whose source is the descriptor of the
parent; and a node with a chain root has the direction flag of its chain
root. -/
def NodesOfCells (module : Module) (st : Extractor) : Prop :=
  ∀ r n, st.deref r = .ok n →
    n.db ∈ genesis3_primitives ∧ n.db.is_ready = true ∧
    (∃ cell ∈ module.cells, cell.name = n.name ∧ cell.type = n.db.name) ∧
    (∀ i, r = .port i →
      (n.db.is_port || n.db.is_standalone || n.db.is_fabric_clkbuf) = true) ∧
    (∀ pr, n.parent = some pr → ∃ pn, st.deref pr = .ok pn ∧
      (pn.db.name, n.db.name) ∈ extract_trace_pairs ∧ n.db.is_port = false) ∧
    (∀ g, n.grandparent = some g → ∃ gn, st.deref g = .ok gn ∧
      n.db.is_in_dir = gn.db.is_in_dir)

/-! ### Direction flags along the chains -/

/-- Every entry of a child map points to a node that has the direction flag
of the node holding the map and a descriptor of the genesis3 table. -/
def EdgesAgree (st : Extractor) : Prop :=
  ∀ r n k x, st.deref r = .ok n → (k, x) ∈ n.child →
    ∃ c, st.deref x = .ok c ∧ c.db.is_in_dir = n.db.is_in_dir ∧
      c.db ∈ genesis3_primitives

/-- Two states hold the same roots and the same traced nodes. -/
def SameNodes (s t : Extractor) : Prop :=
  t.m_ports = s.m_ports ∧ t.m_child_primitives = s.m_child_primitives

/-- The state of the run on `example_clock_and_delay` after the search for
the producers of the fast clocks. -/
def example_clock_and_delay_clocked : Extractor :=
  match trace_gearbox_fast_clock example_clock_and_delay_traced with
  | .ok st => st
  | .error _ => example_clock_and_delay_traced

/-! ### One root per cell -/

/-- No two roots have the same name. -/
def RootsDistinct (st : Extractor) : Prop :=
  ∀ i j ni nj, st.deref (.port i) = .ok ni → st.deref (.port j) = .ok nj →
    ni.name = nj.name → i = j

/-- No root has the descriptor of a fabric clock buffer. -/
def NoFabricRoot (st : Extractor) : Prop :=
  ∀ i n, st.deref (.port i) = .ok n → n.db.is_fabric_clkbuf = false

/-- Two output buffers `a` and `b` that are both driven by the output of one
output register `d`, and an input register `x` that no chain reaches. -/
def example_shared_ddr : Module :=
  { wires := [output_wire "\\q0", output_wire "\\q1"],
    cells := [cell_of "\\O_BUF" "\\a" [("\\I", "\\n1"), ("\\O", "\\q0")],
              cell_of "\\O_BUF" "\\b" [("\\I", "\\n1"), ("\\O", "\\q1")],
              cell_of "\\O_DDR" "\\d" [("\\C", "\\c"), ("\\Q", "\\n1")],
              cell_of "\\I_DDR" "\\x" [("\\D", "\\u1"), ("\\C", "\\u2")]],
    connections := [] }

/-- The state of the run on `example_shared_ddr` after port discovery. -/
def example_shared_ddr_roots : Extractor :=
  match get_ports example_shared_ddr 10 (Extractor.construct "genesis3".toList) with
  | .ok (_, st) => st
  | .error _ => Extractor.construct "genesis3".toList

/-- The state of the run on `example_shared_ddr` after the tracing calls. -/
def example_shared_ddr_traced : Extractor :=
  match trace_calls example_shared_ddr 10 extract_trace_pairs example_shared_ddr_roots with
  | .ok st => st
  | .error _ => example_shared_ddr_roots

/-! ### Properties kept by instance generation -/

/-- A property of extractor states that instance generation keeps: it
survives the appending of an instance and the call of `gen_instance` for a
node. -/
structure GenClosed (P : Extractor → Prop) : Prop where
  append : ∀ st inst, P st → P { st with m_instances := st.m_instances ++ [inst] }
  mark : ∀ st st2 linked_objects r pre, P st →
    gen_instance st linked_objects r pre = .ok st2 → P st2

/-- Every node has a ready descriptor of the genesis3 table with the type of
a cell of the module that has the name of the node. -/
def NodesNamed (module : Module) (st : Extractor) : Prop :=
  ∀ r n, st.deref r = .ok n →
    n.db ∈ genesis3_primitives ∧ n.db.is_ready = true ∧
    ∃ cell ∈ module.cells, cell.name = n.name ∧ cell.type = n.db.name

/-- Every node that has its instance has, among the instances, one that is
no `WIRE` and carries its name without the leading backslash. -/
def InstancesNamed (st : Extractor) : Prop :=
  ∀ r n, st.deref r = .ok n → n.inst.isSome = true →
    ∃ inst ∈ st.m_instances, inst.name = get_original_name n.name ∧
      inst.module ≠ "WIRE".toList

/-- Two states hold the same roots, the same traced nodes and the same
instances. -/
def SameInstances (s t : Extractor) : Prop :=
  t.m_ports = s.m_ports ∧ t.m_child_primitives = s.m_child_primitives ∧
    t.m_instances = s.m_instances

/-- The names of all nodes, roots first. -/
def node_names (st : Extractor) : List CppString :=
  st.m_ports.map (fun p => p.base.name) ++ st.m_child_primitives.map (fun c => c.name)

/-- The test of `finalize` for a cell: its type is a supported primitive. -/
def cell_supported (st : Extractor) (cell : Cell) : Bool :=
  match is_supported_primitive st cell.type PRIMITIVE_REQ.DONT_CARE with
  | .ok (some _) => true
  | _ => false

/-- The result of `extract` on `example_shared_ddr`. -/
def example_shared_ddr_extracted : Bool × Extractor × Option FinalCheck :=
  match extract example_shared_ddr 10 (Extractor.construct "genesis3".toList) with
  | .ok result => result
  | .error _ => (false, Extractor.construct "genesis3".toList, none)

/-! ## Part 2: theorems -/

/-! ### Lists and digits -/

theorem takeWhile_append_stop {p : Char → Bool} (l : CppString) (x : Char)
    (r : CppString) (hl : ∀ c ∈ l, p c = true) (hx : p x = false) :
    (l ++ x :: r).takeWhile p = l := by
  induction l with
  | nil => simp [List.takeWhile, hx]
  | cons a t ih =>
    have ha : p a = true := hl a (List.mem_cons_self a t)
    have ht : ∀ c ∈ t, p c = true := fun c hc => hl c (List.mem_cons_of_mem a hc)
    simp [List.takeWhile, ha, ih ht]

theorem dropWhile_append_stop {p : Char → Bool} (l : CppString) (x : Char)
    (r : CppString) (hl : ∀ c ∈ l, p c = true) (hx : p x = false) :
    (l ++ x :: r).dropWhile p = x :: r := by
  induction l with
  | nil => simp [List.dropWhile, hx]
  | cons a t ih =>
    have ha : p a = true := hl a (List.mem_cons_self a t)
    have ht : ∀ c ∈ t, p c = true := fun c hc => hl c (List.mem_cons_of_mem a hc)
    simp [List.dropWhile, ha, ih ht]

theorem takeWhile_all {p : Char → Bool} (l : CppString)
    (hl : ∀ c ∈ l, p c = true) : l.takeWhile p = l := by
  induction l with
  | nil => rfl
  | cons a t ih =>
    have ha : p a = true := hl a (List.mem_cons_self a t)
    have ht : ∀ c ∈ t, p c = true := fun c hc => hl c (List.mem_cons_of_mem a hc)
    simp [List.takeWhile, ha, ih ht]

theorem takeWhile_forall {p : Char → Bool} (l : CppString) :
    ∀ c ∈ l.takeWhile p, p c = true := by
  induction l with
  | nil => simp
  | cons a t ih =>
    intro c hc
    by_cases ha : p a = true
    · simp only [List.takeWhile, ha, List.mem_cons] at hc
      rcases hc with rfl | hc
      · exact ha
      · exact ih c hc
    · simp [List.takeWhile, ha] at hc

theorem isDigitChar_iff (c : Char) :
    isDigitChar c = true ↔ 48 ≤ c.toNat ∧ c.toNat ≤ 57 := by
  simp [isDigitChar]

theorem isBankChar_iff (c : Char) :
    isBankChar c = true ↔ 49 ≤ c.toNat ∧ c.toNat ≤ 54 := by
  simp [isBankChar]

theorem digit_not_space (c : Char) (h : isDigitChar c = true) :
    isSpaceChar c = false := by
  rw [isDigitChar_iff] at h
  simp only [isSpaceChar, Bool.or_eq_false_iff, beq_eq_false_iff_ne, ne_eq,
    Bool.and_eq_false_iff, decide_eq_false_iff_not]
  omega

theorem digit_toNat_ne (c : Char) (h : isDigitChar c = true) (d : Char)
    (hd : isDigitChar d = false) : c ≠ d := by
  rintro rfl
  rw [h] at hd
  exact Bool.noConfusion hd

/-- On a non-empty string of decimal digits `std::stoi` reads the whole
string: it returns its value when that fits an `int` and throws
`std::out_of_range` otherwise. -/
theorem stoi_digits (ds : CppString) (hne : ds ≠ [])
    (hd : ∀ c ∈ ds, isDigitChar c = true) :
    stoi ds = if (decimalValue ds : Int) ≤ INT_MAX then .ok (decimalValue ds : Int)
              else .error .out_of_range := by
  cases ds with
  | nil => exact absurd rfl hne
  | cons a t =>
    have ha : isDigitChar a = true := hd a (List.mem_cons_self a t)
    have hsp : isSpaceChar a = false := digit_not_space a ha
    have hminus : a ≠ '-' := digit_toNat_ne a ha '-' (by decide)
    have hplus : a ≠ '+' := digit_toNat_ne a ha '+' (by decide)
    have hdrop : (a :: t).dropWhile isSpaceChar = a :: t := by
      simp [List.dropWhile, hsp]
    have htake : (a :: t).takeWhile isDigitChar = a :: t := takeWhile_all _ hd
    have hsign : stoiSign (a :: t) = (false, a :: t) := by
      unfold stoiSign
      split
      · rename_i r heq
        exact absurd (List.cons.inj heq).1 hminus
      · rename_i r heq
        exact absurd (List.cons.inj heq).1 hplus
      · rfl
    have hmin : INT_MIN ≤ (decimalValue (a :: t) : Int) := by
      have : (0 : Int) ≤ (decimalValue (a :: t) : Int) := Int.ofNat_nonneg _
      unfold INT_MIN
      omega
    unfold stoi
    simp [hdrop, hsign, htake, hmin]

/-! ### The location regex -/

theorem matchClockMarker_digit (d : Char) (r : CppString)
    (hd : isDigitChar d = true) : matchClockMarker (d :: r) = ([], d :: r) := by
  unfold matchClockMarker
  split
  · rename_i rest heq
    have hC : d = 'C' := (List.cons.inj heq).1
    rw [hC] at hd
    exact absurd hd (by decide)
  · rfl

theorem matchClockMarker_cc (r : CppString) :
    matchClockMarker ("CC_".toList ++ r) = ("CC_".toList, r) := rfl

theorem matchClockMarker_split (s : CppString) :
    (matchClockMarker s).1 ++ (matchClockMarker s).2 = s ∧
      ((matchClockMarker s).1 = [] ∨ (matchClockMarker s).1 = "CC_".toList) := by
  unfold matchClockMarker
  split
  · exact ⟨rfl, Or.inr rfl⟩
  · exact ⟨rfl, Or.inl rfl⟩

/-- Completeness of the matcher: a string built according to the grammar is
matched, and the sub-matches are the pieces it was built from. -/
theorem regex_match_of_grammar (s : CppString) (t b : Char)
    (cc idx pair : CppString) (pol : Char)
    (h : LocationGrammar s t b cc idx pair pol) :
    regex_match_location s = some ⟨[t], [b], cc, idx, pair, [pol]⟩ := by
  obtain ⟨hs, ht, hb, hcc, ⟨hine, hid⟩, ⟨hpne, hpd⟩, hpol⟩ := h
  subst hs
  have htc : isTypeChar t = true := by
    rcases ht with rfl | rfl <;> decide
  have hbc : isBankChar b = true := (isBankChar_iff b).2 hb
  have hus : isDigitChar '_' = false := by decide
  have hpc : isPolarityChar pol = true := by
    rcases hpol with rfl | rfl <;> decide
  have hpnd : isDigitChar pol = false := by
    rcases hpol with rfl | rfl <;> decide
  have hmark : matchClockMarker (cc ++ idx ++ '_' :: (pair ++ [pol])) =
      (cc, idx ++ '_' :: (pair ++ [pol])) := by
    rcases hcc with rfl | rfl
    · cases idx with
      | nil => exact absurd rfl hine
      | cons d ds =>
        exact matchClockMarker_digit d _ (hid d (List.mem_cons_self d ds))
    · rw [List.append_assoc]
      exact matchClockMarker_cc _
  have h1 : (idx ++ '_' :: (pair ++ [pol])).takeWhile isDigitChar = idx :=
    takeWhile_append_stop idx '_' _ hid hus
  have h2 : (idx ++ '_' :: (pair ++ [pol])).dropWhile isDigitChar =
      '_' :: (pair ++ [pol]) := dropWhile_append_stop idx '_' _ hid hus
  have h3 : (pair ++ [pol]).takeWhile isDigitChar = pair :=
    takeWhile_append_stop pair pol [] hpd hpnd
  have h4 : (pair ++ [pol]).dropWhile isDigitChar = [pol] :=
    dropWhile_append_stop pair pol [] hpd hpnd
  have hie : idx.isEmpty = false := by
    cases idx with
    | nil => exact absurd rfl hine
    | cons d ds => rfl
  have hpe : pair.isEmpty = false := by
    cases pair with
    | nil => exact absurd rfl hpne
    | cons d ds => rfl
  simp only [regex_match_location, htc, hbc, hmark, h1, h2, h3, h4, hie, hpe, hpc,
    Bool.and_self, Bool.not_false, if_true]

/-- Soundness of the matcher: whatever it matches was built according to
the grammar from the sub-matches it reports. -/
theorem grammar_of_regex_match (s : CppString) (m : LocationMatch)
    (h : regex_match_location s = some m) :
    ∃ t b cc idx pair pol, LocationGrammar s t b cc idx pair pol ∧
      m = ⟨[t], [b], cc, idx, pair, [pol]⟩ := by
  unfold regex_match_location at h
  split at h
  · rename_i t b rest
    split at h
    · rename_i hcls
      simp only [Bool.and_eq_true] at hcls
      obtain ⟨htc, hbc⟩ := hcls
      dsimp only at h
      split at h
      · rename_i rest2 hdrop1
        split at h
        · rename_i pol hdrop2
          split at h
          · rename_i hcond
            simp only [Bool.and_eq_true, Bool.not_eq_true'] at hcond
            have hm := (Option.some.inj h).symm
            refine ⟨t, b, (matchClockMarker rest).1,
              (matchClockMarker rest).2.takeWhile isDigitChar,
              rest2.takeWhile isDigitChar, pol, ⟨?_, ?_, ?_, ?_, ⟨?_, ?_⟩, ⟨?_, ?_⟩, ?_⟩, hm⟩
            · have e1 := List.takeWhile_append_dropWhile isDigitChar
                (matchClockMarker rest).2
              have e2 := List.takeWhile_append_dropWhile isDigitChar rest2
              rw [hdrop1] at e1
              rw [hdrop2] at e2
              have e3 := (matchClockMarker_split rest).1
              rw [List.append_assoc, e2, e1, e3]
            · simpa [isTypeChar] using htc
            · exact (isBankChar_iff b).1 hbc
            · exact (matchClockMarker_split rest).2
            · intro hnil
              rw [hnil] at hcond
              exact Bool.noConfusion hcond.1.1
            · exact takeWhile_forall _
            · intro hnil
              rw [hnil] at hcond
              exact Bool.noConfusion hcond.1.2
            · exact takeWhile_forall _
            · simpa [isPolarityChar] using hcond.2
          · exact Option.noConfusion h
        · exact Option.noConfusion h
      · exact Option.noConfusion h
    · exact Option.noConfusion h
  · exact Option.noConfusion h

/-- The matcher accepts exactly the strings of the grammar. -/
theorem regex_match_isSome_iff (s : CppString) :
    (regex_match_location s).isSome = true ↔ MatchesLocationGrammar s := by
  constructor
  · intro h
    obtain ⟨m, hm⟩ := Option.isSome_iff_exists.1 h
    obtain ⟨t, b, cc, idx, pair, pol, hg, _⟩ := grammar_of_regex_match s m hm
    exact ⟨t, b, cc, idx, pair, pol, hg⟩
  · rintro ⟨t, b, cc, idx, pair, pol, hg⟩
    rw [regex_match_of_grammar s t b cc idx pair pol hg]
    rfl

/-! ### parse_location -/

theorem parse_location_matched (s : CppString) (p : PARSED_LOCATION) (t b : Char)
    (cc idx pair : CppString) (pol : Char) (hp : ParseLocationEntry p)
    (hg : LocationGrammar s t b cc idx pair pol) :
    parse_location s p =
      if INT_MAX < (decimalValue idx : Int) then .error .out_of_range
      else if decimalValue idx < 40 then
        if INT_MAX < (decimalValue pair : Int) then .error .out_of_range
        else if decimalValue idx / 2 = decimalValue pair then
          if (decimalValue idx % 2 = 0 ∧ pol = 'P') ∨
              (decimalValue idx % 2 = 1 ∧ pol = 'N') then
            .ok { (matchedRecord p t b cc idx) with status := PARSED_LOCATION_GOOD }
          else
            .ok { (matchedRecord p t b cc idx) with
                    failure_reason :=
                      "Location ".toList ++ c_str s ++ " P/N is invalid".toList }
        else
          .ok { (matchedRecord p t b cc idx) with
                  failure_reason :=
                    "Location ".toList ++ c_str s ++ " pair index is invalid".toList }
      else
        .ok { (matchedRecord p t b cc idx) with
                failure_reason :=
                  "Location ".toList ++ c_str s ++ " is range of index range".toList } := by
  have hm := regex_match_of_grammar s t b cc idx pair pol hg
  obtain ⟨hs, ht, hb, hcc, ⟨hine, hid⟩, ⟨hpne, hpd⟩, hpol⟩ := hg
  have hlen : s.length ≠ 0 := by
    rw [hs]
    simp
  have hi := stoi_digits idx hine hid
  have hq := stoi_digits pair hpne hpd
  have htype : ([t] : CppString) = "P".toList ∨ ([t] : CppString) = "R".toList := by
    rcases ht with rfl | rfl
    · exact Or.inl rfl
    · exact Or.inr rfl
  have hpolP : ([pol] : CppString) = "P".toList ↔ pol = 'P' := by
    constructor
    · intro h
      exact (List.cons.inj h).1
    · rintro rfl
      rfl
  have hpolN : ([pol] : CppString) = "N".toList ↔ pol = 'N' := by
    constructor
    · intro h
      exact (List.cons.inj h).1
    · rintro rfl
      rfl
  have hdiv : Int.tdiv (decimalValue idx : Int) 2 = ((decimalValue idx / 2 : Nat) : Int) :=
    (Int.ofNat_tdiv _ 2).symm
  have hmod : Int.tmod (decimalValue idx : Int) 2 = ((decimalValue idx % 2 : Nat) : Int) :=
    (Int.ofNat_tmod _ 2).symm
  unfold ParseLocationEntry at hp
  unfold parse_location
  rw [if_pos hp, if_pos hlen, hm]
  simp only [if_pos htype, hi, hq]
  by_cases h1 : INT_MAX < (decimalValue idx : Int)
  · rw [if_pos h1, if_neg (not_le.2 h1)]
  · rw [if_neg h1, if_pos (not_lt.1 h1)]
    simp only
    by_cases h2 : decimalValue idx < 40
    · have h2i : (decimalValue idx : Int) ≥ 0 ∧ (decimalValue idx : Int) < 40 :=
        ⟨Int.ofNat_nonneg _, by exact_mod_cast h2⟩
      rw [if_pos h2, if_pos h2i]
      by_cases h3 : INT_MAX < (decimalValue pair : Int)
      · rw [if_pos h3, if_neg (not_le.2 h3)]
      · rw [if_neg h3, if_pos (not_lt.1 h3)]
        simp only [hdiv, hmod, hpolP, hpolN]
        by_cases h4 : decimalValue idx / 2 = decimalValue pair
        · have h4i : ((decimalValue idx / 2 : Nat) : Int) = (decimalValue pair : Int) := by
            exact_mod_cast h4
          rw [if_pos h4, if_pos h4i]
          have hc0 : (((decimalValue idx % 2 : Nat) : Int) = 0) ↔ decimalValue idx % 2 = 0 := by
            exact_mod_cast Iff.rfl
          have hc1 : (((decimalValue idx % 2 : Nat) : Int) = 1) ↔ decimalValue idx % 2 = 1 := by
            exact_mod_cast Iff.rfl
          simp only [hc0, hc1]
          rfl
        · have h4i : ¬ ((decimalValue idx / 2 : Nat) : Int) = (decimalValue pair : Int) := by
            exact_mod_cast h4
          rw [if_neg h4, if_neg h4i]
          rfl
    · have h2i : ¬ ((decimalValue idx : Int) ≥ 0 ∧ (decimalValue idx : Int) < 40) := by
        intro hh
        exact h2 (by exact_mod_cast hh.2)
      rw [if_neg h2, if_neg h2i]
      rfl

theorem parse_location_empty (p : PARSED_LOCATION) (hp : ParseLocationEntry p) :
    parse_location [] p =
      .ok { p with status := PARSED_LOCATION_SKIP,
                   failure_reason := "Location is not assigned".toList } := by
  unfold ParseLocationEntry at hp
  unfold parse_location
  rw [if_pos hp]
  rfl

theorem parse_location_unmatched (s : CppString) (p : PARSED_LOCATION)
    (hp : ParseLocationEntry p) (hne : s ≠ [])
    (hno : regex_match_location s = none) :
    parse_location s p =
      .ok { p with status := PARSED_LOCATION_BAD,
                   failure_reason :=
                     "Location ".toList ++ c_str s ++ " does not meet regex".toList } := by
  have hlen : s.length ≠ 0 := by
    intro h
    exact hne (List.length_eq_zero.1 h)
  unfold ParseLocationEntry at hp
  unfold parse_location
  rw [if_pos hp, if_pos hlen, hno]

theorem parse_location_entry_of_ok (s : CppString) (p r : PARSED_LOCATION)
    (h : parse_location s p = .ok r) : ParseLocationEntry p := by
  by_contra hp
  unfold ParseLocationEntry at hp
  unfold parse_location at h
  rw [if_neg hp] at h
  exact Except.noConfusion h

/-- Every returning run of `parse_location` is of one of three kinds: the
empty string (SKIP), a non-empty string outside the grammar (BAD, with the
regex reason), or a string of the grammar, which is GOOD exactly when its
index is below 40 and the pair/polarity check holds and BAD with a reason
otherwise. -/
theorem parse_location_cases (s : CppString) (p r : PARSED_LOCATION)
    (h : parse_location s p = .ok r) :
    (s = [] ∧ r.status = PARSED_LOCATION_SKIP ∧ r.failure_reason ≠ []) ∨
    (s ≠ [] ∧ ¬ MatchesLocationGrammar s ∧ r.status = PARSED_LOCATION_BAD ∧
      r.failure_reason ≠ []) ∨
    (∃ t b cc idx pair pol, LocationGrammar s t b cc idx pair pol ∧
      ((decimalValue idx < 40 ∧ PairPolarityConsistent idx pair pol ∧
          r = { (matchedRecord p t b cc idx) with status := PARSED_LOCATION_GOOD }) ∨
        ((¬ decimalValue idx < 40 ∨ ¬ PairPolarityConsistent idx pair pol) ∧
          r.status = PARSED_LOCATION_BAD ∧ r.failure_reason ≠ []))) := by
  have hp := parse_location_entry_of_ok s p r h
  by_cases hs : s = []
  · subst hs
    rw [parse_location_empty p hp] at h
    have hr := (Except.ok.inj h).symm
    subst hr
    exact Or.inl ⟨rfl, rfl, by simp⟩
  · cases hm : regex_match_location s with
    | none =>
      rw [parse_location_unmatched s p hp hs hm] at h
      have hr := (Except.ok.inj h).symm
      subst hr
      refine Or.inr (Or.inl ⟨hs, ?_, rfl, ?_⟩)
      · intro hg
        have := (regex_match_isSome_iff s).2 hg
        rw [hm] at this
        exact Bool.noConfusion this
      · simp
    | some m =>
      obtain ⟨t, b, cc, idx, pair, pol, hg, _⟩ := grammar_of_regex_match s m hm
      refine Or.inr (Or.inr ⟨t, b, cc, idx, pair, pol, hg, ?_⟩)
      rw [parse_location_matched s p t b cc idx pair pol hp hg] at h
      unfold PairPolarityConsistent
      split_ifs at h with h1 h2 h3 h4 h5
      · have hr := (Except.ok.inj h).symm
        exact Or.inl ⟨h2, ⟨h4.symm, h5⟩, hr⟩
      · have hr := (Except.ok.inj h).symm
        subst hr
        refine Or.inr ⟨Or.inr (fun hc => h5 hc.2), rfl, ?_⟩
        simp
      · have hr := (Except.ok.inj h).symm
        subst hr
        refine Or.inr ⟨Or.inr (fun hc => h4 hc.1.symm), rfl, ?_⟩
        simp
      · have hr := (Except.ok.inj h).symm
        subst hr
        refine Or.inr ⟨Or.inl h2, rfl, ?_⟩
        simp

theorem toDigits_small (n : Nat) (h : n < 40) :
    Nat.toDigits 10 n ≠ [] ∧ (∀ c ∈ Nat.toDigits 10 n, isDigitChar c = true) ∧
      decimalValue (Nat.toDigits 10 n) = n := by
  interval_cases n <;> decide

theorem bankChar_toNat (b : Nat) (h1 : 1 ≤ b) (h6 : b ≤ 6) :
    (Char.ofNat (48 + b)).toNat = 48 + b := by
  interval_cases b <;> decide

theorem fresh_entry : ParseLocationEntry PARSED_LOCATION.fresh := by
  decide

theorem mkLocation_grammar (t : Char) (b : Nat) (clock : Bool) (i : Nat)
    (ht : t = 'P' ∨ t = 'R') (hb1 : 1 ≤ b) (hb6 : b ≤ 6) (hi : i < 40) :
    LocationGrammar (mkLocation t b clock i) t (Char.ofNat (48 + b))
      (if clock then "CC_".toList else []) (Nat.toDigits 10 i)
      (Nat.toDigits 10 (i / 2)) (if i % 2 = 0 then 'P' else 'N') := by
  have h2 : i / 2 < 40 := by omega
  obtain ⟨hne, hd, _⟩ := toDigits_small i hi
  obtain ⟨hne2, hd2, _⟩ := toDigits_small (i / 2) h2
  have hbn := bankChar_toNat b hb1 hb6
  refine ⟨rfl, ht, ?_, ?_, ⟨hne, hd⟩, ⟨hne2, hd2⟩, ?_⟩
  · omega
  · cases clock
    · exact Or.inl rfl
    · exact Or.inr rfl
  · by_cases h : i % 2 = 0
    · exact Or.inl (if_pos h)
    · exact Or.inr (if_neg h)

/-- C1: for every type letter t in P, R, bank digit b in 1..6, clock marker
and index i below 40, `parse_location` applied with a fresh record to the
string H t _ b _ [CC_] i _ floor(i/2) followed by P for even i and N for odd
i returns status GOOD with type t, bank b, is_clock set exactly for the CC_
marker, index i and an empty failure reason; in particular HP_3_12_6P is GOOD
with bank 3 and index 12. -/
theorem C1_parse_location_accepts_well_formed :
    (∀ (t : Char) (b : Nat) (clock : Bool) (i : Nat),
      (t = 'P' ∨ t = 'R') → 1 ≤ b → b ≤ 6 → i < 40 →
      parse_location (mkLocation t b clock i) PARSED_LOCATION.fresh =
        .ok { location := [], type := [t], bank := [Char.ofNat (48 + b)],
              is_clock := clock, index := (i : Int),
              status := PARSED_LOCATION_GOOD, failure_reason := [] }) ∧
    parse_location "HP_3_12_6P".toList PARSED_LOCATION.fresh =
      .ok { location := [], type := "P".toList, bank := "3".toList,
            is_clock := false, index := 12,
            status := PARSED_LOCATION_GOOD, failure_reason := [] } := by
  refine ⟨?_, by decide⟩
  intro t b clock i ht hb1 hb6 hi
  have hg := mkLocation_grammar t b clock i ht hb1 hb6 hi
  have h2 : i / 2 < 40 := by omega
  obtain ⟨_, _, hv⟩ := toDigits_small i hi
  obtain ⟨_, _, hv2⟩ := toDigits_small (i / 2) h2
  rw [parse_location_matched _ _ _ _ _ _ _ _ fresh_entry hg]
  have hmax : ¬ INT_MAX < ((i : Nat) : Int) := by
    unfold INT_MAX
    omega
  have hmax2 : ¬ INT_MAX < ((i / 2 : Nat) : Int) := by
    unfold INT_MAX
    omega
  have hpol : (i % 2 = 0 ∧ (if i % 2 = 0 then 'P' else 'N') = 'P') ∨
      (i % 2 = 1 ∧ (if i % 2 = 0 then 'P' else 'N') = 'N') := by
    by_cases h : i % 2 = 0
    · exact Or.inl ⟨h, if_pos h⟩
    · exact Or.inr ⟨by omega, if_neg h⟩
  rw [hv, hv2, if_neg hmax, if_pos hi, if_neg hmax2, if_pos rfl, if_pos hpol]
  cases clock <;> simp [matchedRecord, PARSED_LOCATION.fresh, hv]

/-- Witness for C1: the general statement applied to HR_6_CC_39_19N. -/
theorem C1_parse_location_accepts_well_formed_witness :
    ('R' = 'P' ∨ 'R' = 'R') ∧ 1 ≤ 6 ∧ 6 ≤ 6 ∧ 39 < 40 ∧
    parse_location (mkLocation 'R' 6 true 39) PARSED_LOCATION.fresh =
      .ok { location := [], type := ['R'], bank := [Char.ofNat (48 + 6)],
            is_clock := true, index := ((39 : Nat) : Int),
            status := PARSED_LOCATION_GOOD, failure_reason := [] } :=
  ⟨Or.inr rfl, by decide, by decide, by decide,
    C1_parse_location_accepts_well_formed.1 'R' 6 true 39 (Or.inr rfl)
      (by decide) (by decide) (by decide)⟩

/-- C2: whenever `parse_location` returns status GOOD for a string, the
string matches the location grammar, its pair index equals floor(index/2) and
its trailing letter is P for an even index and N for an odd one; in particular
HP_3_12_6N is BAD. -/
theorem C2_good_only_for_consistent_grammar_strings :
    (∀ (s : CppString) (p r : PARSED_LOCATION),
      parse_location s p = .ok r → r.status = PARSED_LOCATION_GOOD →
      ∃ t b cc idx pair pol, LocationGrammar s t b cc idx pair pol ∧
        decimalValue pair = decimalValue idx / 2 ∧
        (decimalValue idx % 2 = 0 → pol = 'P') ∧
        (decimalValue idx % 2 = 1 → pol = 'N')) ∧
    Except.map PARSED_LOCATION.status
      (parse_location "HP_3_12_6N".toList PARSED_LOCATION.fresh) =
        .ok PARSED_LOCATION_BAD := by
  refine ⟨?_, by decide⟩
  intro s p r h hgood
  rcases parse_location_cases s p r h with ⟨_, hst, _⟩ | ⟨_, _, hst, _⟩ | hm
  · rw [hst] at hgood
    exact absurd hgood (by decide)
  · rw [hst] at hgood
    exact absurd hgood (by decide)
  · obtain ⟨t, b, cc, idx, pair, pol, hg, hcase⟩ := hm
    rcases hcase with ⟨_, hc, _⟩ | ⟨_, hst, _⟩
    · refine ⟨t, b, cc, idx, pair, pol, hg, hc.1, ?_, ?_⟩
      · intro h0
        rcases hc.2 with ⟨_, hP⟩ | ⟨h1, _⟩
        · exact hP
        · omega
      · intro h1
        rcases hc.2 with ⟨h0, _⟩ | ⟨_, hN⟩
        · omega
        · exact hN
    · rw [hst] at hgood
      exact absurd hgood (by decide)

/-- Witness for C2: the statement applied to the GOOD run on HP_3_12_6P. -/
theorem C2_good_only_for_consistent_grammar_strings_witness :
    ∃ t b cc idx pair pol,
      LocationGrammar "HP_3_12_6P".toList t b cc idx pair pol ∧
        decimalValue pair = decimalValue idx / 2 ∧
        (decimalValue idx % 2 = 0 → pol = 'P') ∧
        (decimalValue idx % 2 = 1 → pol = 'N') :=
  C2_good_only_for_consistent_grammar_strings.1 "HP_3_12_6P".toList
    PARSED_LOCATION.fresh
    { location := [], type := "P".toList, bank := "3".toList, is_clock := false,
      index := 12, status := PARSED_LOCATION_GOOD, failure_reason := [] }
    (by decide) (by decide)

/-- C3 as stated fails: HP_3_40_20P matches the grammar, its pair index 20
is floor(40/2) and P fits the even index, yet `parse_location` returns BAD
because the index is not below 40. -/
theorem C3_counterexample_index_40 :
    LocationGrammar "HP_3_40_20P".toList 'P' '3' [] "40".toList "20".toList 'P' ∧
    PairPolarityConsistent "40".toList "20".toList 'P' ∧
    parse_location "HP_3_40_20P".toList PARSED_LOCATION.fresh =
      .ok { location := [], type := "P".toList, bank := "3".toList,
            is_clock := false, index := 40, status := PARSED_LOCATION_BAD,
            failure_reason :=
              "Location HP_3_40_20P is range of index range".toList } := by
  refine ⟨⟨rfl, Or.inl rfl, by decide, Or.inl rfl, ⟨by decide, by decide⟩,
    ⟨by decide, by decide⟩, Or.inl rfl⟩, by decide, by decide⟩

/-- C3 (amended): for every string that matches the location grammar and
whose index is below 40, `parse_location` returns GOOD whenever the pair index
equals floor(index/2) and the polarity letter matches the index parity; and a
BAD result on a string of the grammar means that the index is 40 or more or
that the pair/polarity check fails. -/
theorem C3_matching_string_good_below_40 (s : CppString) (t b : Char)
    (cc idx pair : CppString) (pol : Char)
    (hg : LocationGrammar s t b cc idx pair pol) :
    (decimalValue idx < 40 → PairPolarityConsistent idx pair pol →
      ∃ r, parse_location s PARSED_LOCATION.fresh = .ok r ∧
        r.status = PARSED_LOCATION_GOOD) ∧
    (∀ r, parse_location s PARSED_LOCATION.fresh = .ok r →
      r.status = PARSED_LOCATION_BAD →
      40 ≤ decimalValue idx ∨ ¬ PairPolarityConsistent idx pair pol) := by
  have hm := parse_location_matched s PARSED_LOCATION.fresh t b cc idx pair pol
    fresh_entry hg
  constructor
  · intro hlt hc
    have h1 : ¬ INT_MAX < (decimalValue idx : Int) := by
      unfold INT_MAX
      omega
    have h3 : ¬ INT_MAX < (decimalValue pair : Int) := by
      have := hc.1
      unfold INT_MAX
      omega
    rw [if_neg h1, if_pos hlt, if_neg h3, if_pos hc.1.symm, if_pos hc.2] at hm
    exact ⟨_, hm, rfl⟩
  · intro r hr hbad
    by_cases hlt : decimalValue idx < 40
    · right
      intro hc
      have h1 : ¬ INT_MAX < (decimalValue idx : Int) := by
        unfold INT_MAX
        omega
      have h3 : ¬ INT_MAX < (decimalValue pair : Int) := by
        have := hc.1
        unfold INT_MAX
        omega
      rw [if_neg h1, if_pos hlt, if_neg h3, if_pos hc.1.symm, if_pos hc.2, hr] at hm
      have hr2 := Except.ok.inj hm
      rw [hr2] at hbad
      exact absurd hbad (show PARSED_LOCATION_GOOD ≠ PARSED_LOCATION_BAD by decide)
    · left
      omega

/-- Witness for C3 (amended): the statement applied to HR_1_CC_7_3N. -/
theorem C3_matching_string_good_below_40_witness :
    LocationGrammar "HR_1_CC_7_3N".toList 'R' '1' "CC_".toList "7".toList
      "3".toList 'N' ∧
    decimalValue "7".toList < 40 ∧
    PairPolarityConsistent "7".toList "3".toList 'N' ∧
    ∃ r, parse_location "HR_1_CC_7_3N".toList PARSED_LOCATION.fresh = .ok r ∧
      r.status = PARSED_LOCATION_GOOD :=
  have hg : LocationGrammar "HR_1_CC_7_3N".toList 'R' '1' "CC_".toList "7".toList
      "3".toList 'N' :=
    ⟨rfl, Or.inr rfl, by decide, Or.inr rfl, ⟨by decide, by decide⟩,
      ⟨by decide, by decide⟩, Or.inr rfl⟩
  ⟨hg, by decide, by decide,
    (C3_matching_string_good_below_40 "HR_1_CC_7_3N".toList 'R' '1' "CC_".toList
      "7".toList "3".toList 'N' hg).1 (by decide) (by decide)⟩

/-- C4: `parse_location` returns status SKIP if and only if the location
string is empty, and for every non-empty string that does not match the
location grammar it returns status BAD with a non-empty failure reason. -/
theorem C4_skip_iff_empty_and_bad_outside_grammar :
    (∀ s : CppString,
      (∃ r, parse_location s PARSED_LOCATION.fresh = .ok r ∧
        r.status = PARSED_LOCATION_SKIP) ↔ s = []) ∧
    (∀ s : CppString, s ≠ [] → ¬ MatchesLocationGrammar s →
      ∃ r, parse_location s PARSED_LOCATION.fresh = .ok r ∧
        r.status = PARSED_LOCATION_BAD ∧ r.failure_reason ≠ []) := by
  constructor
  · intro s
    constructor
    · rintro ⟨r, hr, hskip⟩
      rcases parse_location_cases s _ r hr with ⟨hs, _, _⟩ | ⟨_, _, hst, _⟩ | hm
      · exact hs
      · rw [hst] at hskip
        exact absurd hskip (by decide)
      · obtain ⟨t, b, cc, idx, pair, pol, _, hcase⟩ := hm
        rcases hcase with ⟨_, _, hrec⟩ | ⟨_, hst, _⟩
        · rw [hrec] at hskip
          exact absurd hskip (show PARSED_LOCATION_GOOD ≠ PARSED_LOCATION_SKIP by decide)
        · rw [hst] at hskip
          exact absurd hskip (by decide)
    · rintro rfl
      exact ⟨_, parse_location_empty _ fresh_entry, rfl⟩
  · intro s hne hng
    have hno : regex_match_location s = none := by
      cases hm : regex_match_location s with
      | none => rfl
      | some m =>
        exfalso
        apply hng
        apply (regex_match_isSome_iff s).1
        rw [hm]
        rfl
    refine ⟨_, parse_location_unmatched s _ fresh_entry hne hno, rfl, ?_⟩
    simp

/-- Witness for C4: the second part applied to the string HP_3_12. -/
theorem C4_skip_iff_empty_and_bad_outside_grammar_witness :
    "HP_3_12".toList ≠ [] ∧ ¬ MatchesLocationGrammar "HP_3_12".toList ∧
    ∃ r, parse_location "HP_3_12".toList PARSED_LOCATION.fresh = .ok r ∧
      r.status = PARSED_LOCATION_BAD ∧ r.failure_reason ≠ [] :=
  have hng : ¬ MatchesLocationGrammar "HP_3_12".toList := fun hg =>
    absurd ((regex_match_isSome_iff "HP_3_12".toList).2 hg) (by decide)
  ⟨by decide, hng,
    C4_skip_iff_empty_and_bad_outside_grammar.2 "HP_3_12".toList (by decide) hng⟩

/-! ### String order and maps -/

theorem strLt_irrefl (a : CppString) : strLt a a = false := by
  induction a with
  | nil => rfl
  | cons c t ih => simp [strLt, ih]

theorem strLt_trans (a b c : CppString) (hab : strLt a b = true)
    (hbc : strLt b c = true) : strLt a c = true := by
  induction a generalizing b c with
  | nil =>
    cases b with
    | nil => exact absurd hab (by simp [strLt])
    | cons y bs =>
      cases c with
      | nil => exact absurd hbc (by simp [strLt])
      | cons z cs => simp [strLt]
  | cons x as ih =>
    cases b with
    | nil => exact absurd hab (by simp [strLt])
    | cons y bs =>
      cases c with
      | nil => exact absurd hbc (by simp [strLt])
      | cons z cs =>
        simp only [strLt] at hab hbc ⊢
        by_cases h1 : x.toNat < y.toNat
        · by_cases h2 : y.toNat < z.toNat
          · have : x.toNat < z.toNat := by omega
            simp [this]
          · by_cases h3 : z.toNat < y.toNat
            · simp [h2, h3] at hbc
            · have : x.toNat < z.toNat := by omega
              simp [this]
        · by_cases h1b : y.toNat < x.toNat
          · simp [h1, h1b] at hab
          · simp only [h1, h1b, if_false] at hab
            by_cases h2 : y.toNat < z.toNat
            · have : x.toNat < z.toNat := by omega
              simp [this]
            · by_cases h3 : z.toNat < y.toNat
              · simp [h2, h3] at hbc
              · simp only [h2, h3, if_false] at hbc
                have e1 : ¬ x.toNat < z.toNat := by omega
                have e2 : ¬ z.toNat < x.toNat := by omega
                simp only [e1, e2, if_false]
                exact ih bs cs hab hbc

theorem strLt_total (a b : CppString) (h1 : strLt a b = false) (h2 : a ≠ b) :
    strLt b a = true := by
  induction a generalizing b with
  | nil =>
    cases b with
    | nil => exact absurd rfl h2
    | cons y bs => simp [strLt] at h1
  | cons x as ih =>
    cases b with
    | nil => simp [strLt]
    | cons y bs =>
      simp only [strLt] at h1 ⊢
      by_cases hxy : x.toNat < y.toNat
      · simp [hxy] at h1
      · by_cases hyx : y.toNat < x.toNat
        · simp [hyx]
        · simp only [hxy, hyx, if_false] at h1 ⊢
          have hx : x = y := Char.ext (UInt32.ext (by
            show x.toNat = y.toNat
            omega))
          subst hx
          apply ih bs h1
          intro hEq
          exact h2 (by rw [hEq])

theorem strLt_ne (a b : CppString) (h : strLt a b = true) : a ≠ b := by
  rintro rfl
  rw [strLt_irrefl] at h
  exact Bool.noConfusion h

theorem strLt_asymm (a b : CppString) (h : strLt a b = true) : strLt b a = false := by
  cases hba : strLt b a with
  | false => rfl
  | true =>
    have := strLt_trans a b a h hba
    rw [strLt_irrefl] at this
    exact Bool.noConfusion this

theorem CppMap.find_set_self {V : Type} (m : CppMap V) (k : CppString) (v : V) :
    CppMap.find (CppMap.set m k v) k = some v := by
  induction m with
  | nil => simp [CppMap.set, CppMap.find]
  | cons e rest ih =>
    obtain ⟨k1, v1⟩ := e
    simp only [CppMap.set]
    by_cases h1 : strLt k k1 = true
    · simp [h1, CppMap.find]
    · by_cases h2 : k1 = k
      · subst h2
        simp [h1, CppMap.find]
      · simp [h1, h2, CppMap.find, ih]

theorem CppMap.find_set_ne {V : Type} (m : CppMap V) (k k2 : CppString) (v : V)
    (hne : k2 ≠ k) : CppMap.find (CppMap.set m k v) k2 = CppMap.find m k2 := by
  induction m with
  | nil =>
    have : ¬ k = k2 := fun h => hne h.symm
    simp [CppMap.set, CppMap.find, this]
  | cons e rest ih =>
    obtain ⟨k1, v1⟩ := e
    have hk : ¬ k = k2 := fun h => hne h.symm
    simp only [CppMap.set]
    by_cases h1 : strLt k k1 = true
    · simp [h1, CppMap.find, hk]
    · by_cases h2 : k1 = k
      · subst h2
        simp [h1, CppMap.find, hk]
      · simp only [h1, h2, if_false, CppMap.find, Bool.false_eq_true]
        by_cases h3 : k1 = k2
        · simp [h3]
        · simp [h3, ih]

theorem CppMap.mem_set {V : Type} (m : CppMap V) (k : CppString) (v : V)
    (x : CppString × V) (hx : x ∈ CppMap.set m k v) : x = (k, v) ∨ x ∈ m := by
  induction m with
  | nil =>
    simp only [CppMap.set, List.mem_singleton] at hx
    exact Or.inl hx
  | cons e rest ih =>
    obtain ⟨k1, v1⟩ := e
    simp only [CppMap.set] at hx
    by_cases h1 : strLt k k1 = true
    · simp only [h1, if_true, List.mem_cons] at hx
      rcases hx with h | h | h
      · exact Or.inl h
      · exact Or.inr (by rw [h]; exact List.mem_cons_self _ _)
      · exact Or.inr (List.mem_cons_of_mem _ h)
    · by_cases h2 : k1 = k
      · subst h2
        simp only [h1, if_true, if_false, List.mem_cons, Bool.false_eq_true] at hx
        rcases hx with h | h
        · exact Or.inl h
        · exact Or.inr (List.mem_cons_of_mem _ h)
      · simp only [h1, h2, if_false, List.mem_cons, Bool.false_eq_true] at hx
        rcases hx with h | h
        · exact Or.inr (by rw [h]; exact List.mem_cons_self _ _)
        · rcases ih h with h3 | h3
          · exact Or.inl h3
          · exact Or.inr (List.mem_cons_of_mem _ h3)

theorem CppMap.mem_of_find {V : Type} (m : CppMap V) (k : CppString) (v : V)
    (h : CppMap.find m k = some v) : (k, v) ∈ m := by
  induction m with
  | nil => simp [CppMap.find] at h
  | cons e rest ih =>
    obtain ⟨k1, v1⟩ := e
    simp only [CppMap.find] at h
    by_cases h1 : k1 = k
    · simp only [h1, if_true, Option.some.injEq] at h
      rw [h1, h]
      exact List.mem_cons_self _ _
    · simp only [h1, if_false] at h
      exact List.mem_cons_of_mem _ (ih h)

theorem CppMap.find_of_not_contains {V : Type} (m : CppMap V) (k : CppString)
    (h : CppMap.contains m k = false) : CppMap.find m k = none := by
  unfold CppMap.contains at h
  cases hf : CppMap.find m k with
  | none => rfl
  | some v =>
    rw [hf] at h
    exact Bool.noConfusion h

theorem CppMap.ordered_set {V : Type} (m : CppMap V) (k : CppString) (v : V)
    (h : CppMap.Ordered m) : CppMap.Ordered (CppMap.set m k v) := by
  unfold CppMap.Ordered at h ⊢
  induction m with
  | nil => simp [CppMap.set]
  | cons e rest ih =>
    obtain ⟨k1, v1⟩ := e
    rw [List.pairwise_cons] at h
    obtain ⟨hhead, htail⟩ := h
    simp only [CppMap.set]
    by_cases h1 : strLt k k1 = true
    · simp only [h1, if_true]
      rw [List.pairwise_cons]
      refine ⟨?_, List.pairwise_cons.2 ⟨hhead, htail⟩⟩
      intro a ha
      rcases List.mem_cons.1 ha with rfl | ha
      · exact h1
      · exact strLt_trans k k1 a.1 h1 (hhead a ha)
    · by_cases h2 : k1 = k
      · subst h2
        simp only [h1, if_true, if_false, Bool.false_eq_true]
        rw [List.pairwise_cons]
        exact ⟨hhead, htail⟩
      · simp only [h1, h2, if_false, Bool.false_eq_true]
        rw [List.pairwise_cons]
        refine ⟨?_, ih htail⟩
        intro a ha
        rcases CppMap.mem_set rest k v a ha with rfl | ha
        · have hf : strLt k k1 = false := by
            cases hh : strLt k k1 with
            | false => rfl
            | true => exact absurd hh h1
          exact strLt_total k k1 hf (fun hEq => h2 hEq.symm)
        · exact hhead a ha


/-! ### The heap of nodes -/

theorem Except.bind_eq_ok {α β : Type} (x : Except Fault α) (f : α → Except Fault β)
    (b : β) (h : (x >>= f) = .ok b) : ∃ a, x = .ok a ∧ f a = .ok b := by
  cases x with
  | error e => exact Except.noConfusion h
  | ok a => exact ⟨a, rfl, h⟩

theorem deref_update (st : Extractor) (r : PrimRef) (f : PRIMITIVE → PRIMITIVE)
    (q : PrimRef) :
    (st.update r f).deref q =
      if q = r then
        (match st.deref q with
          | .ok n => .ok (f n)
          | .error e => .error e)
      else st.deref q := by
  cases r with
  | port i =>
    cases q with
    | port j =>
      simp only [Extractor.update, Extractor.deref, List.getElem?_modify]
      by_cases h : j = i
      · subst h
        cases hg : st.m_ports[j]? with
        | none => simp
        | some p => simp
      · have h2 : ¬ i = j := fun e => h e.symm
        have h3 : ¬ PrimRef.port j = PrimRef.port i := fun e => h (PrimRef.port.inj e)
        cases hg : st.m_ports[j]? with
        | none => simp [h3]
        | some p => simp [h2, h3]
    | child j =>
      simp [Extractor.update, Extractor.deref]
  | child i =>
    cases q with
    | port j =>
      simp [Extractor.update, Extractor.deref]
    | child j =>
      simp only [Extractor.update, Extractor.deref, List.getElem?_modify]
      by_cases h : j = i
      · subst h
        cases hg : st.m_child_primitives[j]? with
        | none => simp
        | some p => simp
      · have h2 : ¬ i = j := fun e => h e.symm
        have h3 : ¬ PrimRef.child j = PrimRef.child i := fun e => h (PrimRef.child.inj e)
        cases hg : st.m_child_primitives[j]? with
        | none => simp [h3]
        | some p => simp [h2, h3]

theorem deref_child_lt (st : Extractor) (j : Nat) (c : PRIMITIVE)
    (h : st.deref (.child j) = .ok c) : j < st.m_child_primitives.length := by
  simp only [Extractor.deref] at h
  cases hg : st.m_child_primitives[j]? with
  | none =>
    rw [hg] at h
    exact Except.noConfusion h
  | some p =>
    exact (List.getElem?_eq_some.1 hg).1

theorem deref_child_iff (st : Extractor) (j : Nat) (c : PRIMITIVE) :
    st.deref (.child j) = .ok c ↔ st.m_child_primitives[j]? = some c := by
  simp only [Extractor.deref]
  cases hg : st.m_child_primitives[j]? with
  | none => simp
  | some p => simp

theorem deref_port_iff (st : Extractor) (i : Nat) (n : PRIMITIVE) :
    st.deref (.port i) = .ok n ↔ ∃ p, st.m_ports[i]? = some p ∧ p.base = n := by
  simp only [Extractor.deref]
  cases hg : st.m_ports[i]? with
  | none => simp
  | some p => simp

theorem sameShape_refl (a : PRIMITIVE) : SameShape a a :=
  ⟨rfl, rfl, rfl, rfl, rfl, rfl, rfl⟩

theorem SameShape.symm {a b : PRIMITIVE} (h : SameShape a b) : SameShape b a :=
  ⟨h.1.symm, h.2.1.symm, h.2.2.1.symm, h.2.2.2.1.symm, h.2.2.2.2.1.symm,
    h.2.2.2.2.2.1.symm, h.2.2.2.2.2.2.symm⟩

theorem sameShape_trans {a b c : PRIMITIVE} (h : SameShape a b) (g : SameShape b c) :
    SameShape a c :=
  ⟨h.1.trans g.1, h.2.1.trans g.2.1, h.2.2.1.trans g.2.2.1,
    h.2.2.2.1.trans g.2.2.2.1, h.2.2.2.2.1.trans g.2.2.2.2.1,
    h.2.2.2.2.2.1.trans g.2.2.2.2.2.1, h.2.2.2.2.2.2.trans g.2.2.2.2.2.2⟩

theorem shapeEq_refl (D : PrimRef → Except Fault PRIMITIVE) : ShapeEq D D :=
  fun _ => ⟨fun n h => ⟨n, h, sameShape_refl n⟩, fun n h => ⟨n, h, sameShape_refl n⟩⟩

theorem shapeEq_trans {D E F : PrimRef → Except Fault PRIMITIVE} (h : ShapeEq D E)
    (g : ShapeEq E F) : ShapeEq D F := by
  intro r
  constructor
  · intro n hn
    obtain ⟨m, hm, s1⟩ := (h r).1 n hn
    obtain ⟨k, hk, s2⟩ := (g r).1 m hm
    exact ⟨k, hk, sameShape_trans s1 s2⟩
  · intro k hk
    obtain ⟨m, hm, s2⟩ := (g r).2 k hk
    obtain ⟨n, hn, s1⟩ := (h r).2 m hm
    exact ⟨n, hn, sameShape_trans s1 s2⟩

theorem ShapeEq.of_eq {D E : PrimRef → Except Fault PRIMITIVE} (h : ∀ r, E r = D r) :
    ShapeEq D E := by
  intro r
  rw [h r]
  exact shapeEq_refl D r

theorem shapeEq_update (st : Extractor) (r : PrimRef) (f : PRIMITIVE → PRIMITIVE)
    (hf : ∀ n, SameShape n (f n)) : ShapeEq st.deref (st.update r f).deref := by
  intro q
  rw [deref_update]
  by_cases h : q = r
  · rw [if_pos h]
    cases hd : st.deref q with
    | error e =>
      exact ⟨fun n hn => Except.noConfusion hn, fun n hn => Except.noConfusion hn⟩
    | ok n =>
      constructor
      · intro n2 hn2
        have := Except.ok.inj hn2
        subst this
        exact ⟨f n, rfl, hf n⟩
      · intro m hm
        have := Except.ok.inj hm
        subst this
        exact ⟨n, rfl, hf n⟩
  · rw [if_neg h]
    exact shapeEq_refl st.deref q

/-- The invariant speaks of the tree fields only. -/
theorem TreeInvD.of_shapeEq {D E : PrimRef → Except Fault PRIMITIVE} (h : ShapeEq D E)
    (inv : TreeInvD D) : TreeInvD E := by
  constructor
  · intro i m hm
    obtain ⟨n, hn, s⟩ := (h (.port i)).2 m hm
    obtain ⟨a, b, c⟩ := inv.roots i n hn
    exact ⟨s.2.1 ▸ a, s.2.2.1 ▸ b, s.2.2.2.1 ▸ c⟩
  · intro j m hm
    obtain ⟨n, hn, s⟩ := (h (.child j)).2 m hm
    obtain ⟨a, pr, pn, hp, hpn, hlt, hfind, hgp⟩ := inv.children j n hn
    obtain ⟨pm, hpm, sp⟩ := (h pr).1 pn hpn
    refine ⟨s.2.2.2.1 ▸ a, pr, pm, s.2.1 ▸ hp, hpm, hlt, ?_, ?_⟩
    · rw [← sp.2.2.2.2.1, ← s.1]
      exact hfind
    · rw [← sp.2.2.1, ← s.2.2.1]
      exact hgp
  · intro r m k x hm hx
    obtain ⟨n, hn, s⟩ := (h r).2 m hm
    rw [← s.2.2.2.2.1] at hx
    obtain ⟨j, c, hxj, hc, hcp, hck⟩ := inv.childmaps r n k x hn hx
    obtain ⟨c2, hc2, sc⟩ := (h (.child j)).1 c hc
    exact ⟨j, c2, hxj, hc2, sc.2.1 ▸ hcp, sc.1 ▸ hck⟩
  · intro r m hm
    obtain ⟨n, hn, s⟩ := (h r).2 m hm
    rw [← s.2.2.2.2.1]
    exact inv.ordered r n hn


/-- Attaching a new node: the new node gets the next free position `n`, its
parent `pr` gets the entry `k ↦ n` in its child map, and nothing else
changes.  The invariant is kept. -/
theorem TreeInvD.attach {D E : PrimRef → Except Fault PRIMITIVE} (inv : TreeInvD D)
    (pr : PrimRef) (pn : PRIMITIVE) (n : Nat) (k : CppString) (node pm : PRIMITIVE)
    (hpr : D pr = .ok pn)
    (hfresh : ∀ c, D (.child n) ≠ .ok c)
    (hbound : ∀ j c, D (.child j) = .ok c → j < n)
    (hnot : CppMap.find pn.child k = none)
    (hname : node.name = k) (hparent : node.parent = some pr)
    (hgp : node.grandparent = some (pn.grandparent.getD pr))
    (hisport : node.is_port_primitive = false) (hchild : node.child = [])
    (hnew : E (.child n) = .ok node)
    (hpm : E pr = .ok pm)
    (hpm_name : pm.name = pn.name) (hpm_parent : pm.parent = pn.parent)
    (hpm_gp : pm.grandparent = pn.grandparent)
    (hpm_port : pm.is_port_primitive = pn.is_port_primitive)
    (hpm_child : pm.child = CppMap.set pn.child k (.child n))
    (hother : ∀ r, r ≠ pr → r ≠ .child n → E r = D r) : TreeInvD E := by
  have hprn : pr ≠ .child n := by
    intro h
    rw [h] at hpr
    exact hfresh pn hpr
  -- every old node is still there, with the tree fields other than `child` unchanged
  have lift : ∀ r a, D r = .ok a → ∃ b, E r = .ok b ∧ b.name = a.name ∧
      b.parent = a.parent ∧ b.grandparent = a.grandparent ∧
      b.is_port_primitive = a.is_port_primitive ∧
      (r ≠ pr → b.child = a.child) ∧
      (r = pr → b.child = CppMap.set a.child k (.child n)) := by
    intro r a ha
    by_cases h : r = pr
    · subst h
      rw [hpr] at ha
      have := Except.ok.inj ha
      subst this
      exact ⟨pm, hpm, hpm_name, hpm_parent, hpm_gp, hpm_port, fun h => absurd rfl h,
        fun _ => hpm_child⟩
    · have hn : r ≠ .child n := by
        intro e
        rw [e] at ha
        exact hfresh a ha
      refine ⟨a, ?_, rfl, rfl, rfl, rfl, fun _ => rfl, fun e => absurd e h⟩
      rw [hother r h hn]
      exact ha
  -- every node of the new heap is the new node or comes from an old one
  have back : ∀ r b, E r = .ok b → (r = .child n ∧ b = node) ∨
      (r ≠ .child n ∧ ∃ a, D r = .ok a ∧ b.name = a.name ∧ b.parent = a.parent ∧
        b.grandparent = a.grandparent ∧ b.is_port_primitive = a.is_port_primitive ∧
        (r ≠ pr → b.child = a.child) ∧
        (r = pr → b.child = CppMap.set a.child k (.child n))) := by
    intro r b hb
    by_cases hn : r = .child n
    · left
      subst hn
      rw [hnew] at hb
      exact ⟨rfl, (Except.ok.inj hb).symm⟩
    · right
      refine ⟨hn, ?_⟩
      by_cases h : r = pr
      · subst h
        rw [hpm] at hb
        have := Except.ok.inj hb
        subst this
        exact ⟨pn, hpr, hpm_name, hpm_parent, hpm_gp, hpm_port, fun h => absurd rfl h,
          fun _ => hpm_child⟩
      · rw [hother r h hn] at hb
        exact ⟨b, hb, rfl, rfl, rfl, rfl, fun _ => rfl, fun e => absurd e h⟩
  constructor
  · intro i m hm
    rcases back (.port i) m hm with ⟨h, _⟩ | ⟨_, a, ha, _, h2, h3, h4, _⟩
    · exact PrimRef.noConfusion h
    · obtain ⟨x, y, z⟩ := inv.roots i a ha
      exact ⟨h2 ▸ x, h3 ▸ y, h4 ▸ z⟩
  · intro j m hm
    rcases back (.child j) m hm with ⟨h, hb⟩ | ⟨hjn, a, ha, h1, h2, h3, h4, h5, h6⟩
    · have hj : j = n := PrimRef.child.inj h
      subst hj
      subst hb
      refine ⟨hisport, pr, pm, hparent, hpm, ?_, ?_, ?_⟩
      · intro i hi
        rw [hi] at hpr
        exact hbound i pn hpr
      · rw [hpm_child, hname]
        exact CppMap.find_set_self _ _ _
      · rw [hpm_gp]
        exact hgp
    · obtain ⟨x, pr2, pn2, hp2, hpn2, hlt, hfind, hg⟩ := inv.children j a ha
      obtain ⟨b2, hb2, _, _, g3, _, g5, g6⟩ := lift pr2 pn2 hpn2
      refine ⟨h4 ▸ x, pr2, b2, h2 ▸ hp2, hb2, hlt, ?_, ?_⟩
      · rw [h1]
        by_cases hp : pr2 = pr
        · rw [g6 hp]
          have hne : a.name ≠ k := by
            intro e
            rw [e] at hfind
            rw [hp] at hpn2
            rw [hpr] at hpn2
            have := Except.ok.inj hpn2
            subst this
            rw [hnot] at hfind
            exact Option.noConfusion hfind
          rw [CppMap.find_set_ne _ _ _ _ hne]
          exact hfind
        · rw [g5 hp]
          exact hfind
      · rw [h3, g3]
        exact hg
  · intro r m key x hm hx
    have old : ∀ a, D r = .ok a → (key, x) ∈ a.child →
        ∃ j c, x = .child j ∧ E (.child j) = .ok c ∧ c.parent = some r ∧ c.name = key := by
      intro a ha hmem
      obtain ⟨j, c, hxj, hc, hcp, hck⟩ := inv.childmaps r a key x ha hmem
      obtain ⟨c2, hc2, e1, e2, _, _, _, _⟩ := lift (.child j) c hc
      exact ⟨j, c2, hxj, hc2, e2 ▸ hcp, e1 ▸ hck⟩
    rcases back r m hm with ⟨_, hb⟩ | ⟨_, a, ha, _, _, _, _, h5, h6⟩
    · subst hb
      rw [hchild] at hx
      exact absurd hx (List.not_mem_nil _)
    · by_cases hp : r = pr
      · rw [h6 hp] at hx
        rcases CppMap.mem_set _ _ _ _ hx with he | hmem
        · have hk : key = k := congrArg Prod.fst he
          have hxv : x = .child n := congrArg Prod.snd he
          exact ⟨n, node, hxv, hnew, hp ▸ hparent, hk ▸ hname⟩
        · exact old a ha hmem
      · rw [h5 hp] at hx
        exact old a ha hx
  · intro r m hm
    rcases back r m hm with ⟨_, hb⟩ | ⟨_, a, ha, _, _, _, _, h5, h6⟩
    · subst hb
      rw [hchild]
      exact List.Pairwise.nil
    · by_cases hp : r = pr
      · rw [h6 hp]
        exact CppMap.ordered_set _ _ _ (inv.ordered r a ha)
      · rw [h5 hp]
        exact inv.ordered r a ha


theorem deref_chain_data_width (st : Extractor) (i : Nat) (w : Int) (q : PrimRef) :
    Extractor.deref
      { st with m_ports := st.m_ports.modify (fun p => { p with chain_data_width := w }) i } q =
      st.deref q := by
  cases q with
  | port j =>
    simp only [Extractor.deref, List.getElem?_modify]
    cases hg : st.m_ports[j]? with
    | none => simp
    | some p =>
      by_cases h : i = j
      · simp [h]
      · simp [h]
  | child j => rfl

theorem shapeEq_data_width (st : Extractor) (r : PrimRef) (w : Int) (i : Nat) :
    ShapeEq st.deref
      (Extractor.deref
        { (st.update r (fun p => { p with data_width := w })) with
          m_ports := (st.update r (fun p => { p with data_width := w })).m_ports.modify
            (fun q => { q with chain_data_width := w }) i }) :=
  shapeEq_trans (shapeEq_update st r (fun p => { p with data_width := w })
      (fun _ => ⟨rfl, rfl, rfl, rfl, rfl, rfl, rfl⟩))
    (ShapeEq.of_eq (fun q => deref_chain_data_width _ i w q))

theorem define_data_width_shape (st st2 : Extractor) (r : PrimRef) (primitive : PRIMITIVE)
    (h : define_data_width st r primitive = .ok st2) :
    ShapeEq st.deref st2.deref := by
  unfold define_data_width at h
  simp only [bind, Except.bind, pure, Except.pure, throw, throwThe,
    MonadExceptOf.throw] at h
  repeat' split at h
  all_goals first
    | exact Except.noConfusion h
    | (have e := Except.ok.inj h
       subst e
       exact shapeEq_refl _)
    | (have e := Except.ok.inj h
       subst e
       exact shapeEq_data_width _ _ _ _)

theorem get_primitive_parameters_shape (st st2 : Extractor) (cell : Cell) (r : PrimRef)
    (h : get_primitive_parameters st cell r = .ok st2) :
    ShapeEq st.deref st2.deref := by
  unfold get_primitive_parameters at h
  simp only [bind, Except.bind] at h
  split at h
  · exact Except.noConfusion h
  · split at h
    · exact Except.noConfusion h
    · exact shapeEq_trans (shapeEq_update st r
          (fun p => { p with parameters := copy_parameters cell.parameters p.parameters })
          (fun _ => ⟨rfl, rfl, rfl, rfl, rfl, rfl, rfl⟩))
        (define_data_width_shape _ _ _ _ h)


/-! ### Chain tracing keeps the tree invariant -/

theorem deref_push (st : Extractor) (node : PRIMITIVE) (q : PrimRef) :
    Extractor.deref { st with m_child_primitives := st.m_child_primitives ++ [node] } q =
      if q = .child st.m_child_primitives.length then .ok node else st.deref q := by
  cases q with
  | port j =>
    have : ¬ PrimRef.port j = PrimRef.child st.m_child_primitives.length :=
      fun e => PrimRef.noConfusion e
    rw [if_neg this]
    rfl
  | child j =>
    simp only [Extractor.deref]
    by_cases h : j = st.m_child_primitives.length
    · subst h
      simp
    · have h2 : ¬ PrimRef.child j = PrimRef.child st.m_child_primitives.length :=
        fun e => h (PrimRef.child.inj e)
      rw [if_neg h2]
      by_cases hlt : j < st.m_child_primitives.length
      · rw [List.getElem?_append_left hlt]
      · have hge : st.m_child_primitives.length ≤ j := by omega
        have hn : (st.m_child_primitives ++ [node])[j]? = none := by
          apply List.getElem?_eq_none
          simp only [List.length_append, List.length_singleton]
          omega
        rw [hn, List.getElem?_eq_none hge]

theorem attach_child_inv (st st2 : Extractor) (parent : PrimRef) (parentNode : PRIMITIVE)
    (cell : Cell) (db : PRIMITIVE_DB) (connections : CppMap CppString)
    (inv : TreeInv st) (hpr : st.deref parent = .ok parentNode)
    (hnot : CppMap.contains parentNode.child cell.name = false)
    (h : attach_child st parent parentNode cell db connections = .ok st2) :
    TreeInv st2 := by
  unfold attach_child at h
  simp only [PRIMITIVE.construct, hpr, bind, Except.bind, pure, Except.pure] at h
  refine TreeInvD.of_shapeEq (get_primitive_parameters_shape _ _ _ _ h) ?_
  have hfresh : ∀ c, st.deref (.child st.m_child_primitives.length) ≠ .ok c := by
    intro c hc
    exact Nat.lt_irrefl _ (deref_child_lt st _ c hc)
  have hparent_ne : parent ≠ .child st.m_child_primitives.length := by
    intro e
    rw [e] at hpr
    exact hfresh _ hpr
  refine TreeInvD.attach inv parent parentNode st.m_child_primitives.length cell.name
    { db := db, name := cell.name, parent := some parent,
      grandparent :=
        if parentNode.grandparent = none then some parent else parentNode.grandparent,
      connections := connections, is_port_primitive := false, bidir := parentNode.bidir }
    { parentNode with
        child := CppMap.set parentNode.child cell.name (.child st.m_child_primitives.length) }
    hpr hfresh (fun j c hc => deref_child_lt st j c hc)
    (CppMap.find_of_not_contains _ _ hnot) rfl rfl ?_ rfl rfl ?_ ?_ rfl rfl rfl rfl rfl ?_
  · cases hg : parentNode.grandparent with
    | none => simp
    | some g => simp
  · rw [deref_update, if_neg (fun e => hparent_ne e.symm), deref_push, if_pos rfl]
  · rw [deref_update, if_pos rfl, deref_push, if_neg hparent_ne, hpr]
  · intro r hr hn
    rw [deref_update, if_neg hr, deref_push, if_neg hn]

theorem traceClosed_treeInv : TraceClosed TreeInv where
  shape := fun _ _ h inv => TreeInvD.of_shapeEq h inv
  attach := fun st st2 parent parentNode cell db connections inv hpr hnot _ h =>
    attach_child_inv st st2 parent parentNode cell db connections inv hpr hnot h

theorem trace_alias_pairs_inv {P : Extractor → Prop} (hP : TraceClosed P)
    (call : Extractor → CppString → Except Fault (Bool × Extractor))
    (parent : PrimRef) (cell : Cell) (src_is_right : Bool) (connection : CppString)
    (hcall : ∀ st dest found st2, P st → call st dest = .ok (found, st2) → P st2) :
    ∀ (pairs : List (SigSpec × SigSpec)) (st : Extractor) (found : Bool) (st2 : Extractor),
      P st →
      trace_alias_pairs call parent cell src_is_right connection pairs st = .ok (found, st2) →
      P st2 := by
  intro pairs
  induction pairs with
  | nil =>
    intro st found st2 inv h
    simp only [trace_alias_pairs] at h
    have e := Except.ok.inj h
    have e2 : st = st2 := congrArg Prod.snd e
    exact e2 ▸ inv
  | cons it rest ih =>
    intro st found st2 inv h
    simp only [trace_alias_pairs] at h
    split at h
    · exact Except.noConfusion h
    · split at h
      · exact ih st found st2 inv h
      · split at h
        · exact Except.noConfusion h
        · rename_i _ dest hd _ f s hc
          have inv2 : P s := hcall st dest f s inv hc
          split at h
          · have e := Except.ok.inj h
            have e2 := congrArg Prod.snd e
            simp only at e2
            rw [← e2]
            exact hP.shape _ _
              (shapeEq_update s parent _ (fun _ => ⟨rfl, rfl, rfl, rfl, rfl, rfl, rfl⟩)) inv2
          · exact ih s found st2 inv2 h

theorem trace_next_primitive_rec_inv {P : Extractor → Prop} (hP : TraceClosed P)
    (module : Module) :
    ∀ (fuel : Nat) (st : Extractor) (parent : PrimRef) (cell : Cell) (connection : CppString)
      (found : Bool) (st2 : Extractor),
      P st →
      trace_next_primitive_rec module fuel st parent cell connection = .ok (found, st2) →
      P st2 := by
  intro fuel
  induction fuel with
  | zero =>
    intro st parent cell connection found st2 _ h
    simp only [trace_next_primitive_rec] at h
    exact Except.noConfusion h
  | succ fuel ih =>
    intro st parent cell connection found st2 inv h
    simp only [trace_next_primitive_rec] at h
    split at h
    · exact Except.noConfusion h
    · rename_i parentNode hpr
      split at h
      · exact Except.noConfusion h
      · rename_i hnot
        split at h
        · exact Except.noConfusion h
        · exact Except.noConfusion h
        · rename_i db hdb
          split at h
          · exact Except.noConfusion h
          · split at h
            · split at h
              · exact Except.noConfusion h
              · rename_i s hs
                have e := Except.ok.inj h
                have e2 : s = st2 := congrArg Prod.snd e
                rw [← e2]
                refine hP.attach st s parent parentNode cell db _ inv hpr ?_ hdb hs
                cases hc : CppMap.contains parentNode.child cell.name with
                | false => rfl
                | true => exact absurd hc hnot
            · exact trace_alias_pairs_inv hP _ parent cell _ connection
                (fun s dest f s2 hi hc => ih s parent cell dest f s2 hi hc)
                module.connections st found st2 inv h

theorem trace_cells_inv {P : Extractor → Prop} (hP : TraceClosed P) (module : Module)
    (fuel : Nat) (src dst : CppString) (primitive : PrimRef) :
    ∀ (cells : List Cell) (st st2 : Extractor), P st →
      trace_cells module fuel src dst primitive cells st = .ok st2 → P st2 := by
  intro cells
  induction cells with
  | nil =>
    intro st st2 inv h
    simp only [trace_cells] at h
    exact (Except.ok.inj h) ▸ inv
  | cons cell rest ih =>
    intro st st2 inv h
    simp only [trace_cells] at h
    split at h
    · exact Except.noConfusion h
    · split at h
      · split at h
        · exact Except.noConfusion h
        · split at h
          · exact Except.noConfusion h
          · rename_i _ f s hs
            have inv2 : P s :=
              trace_next_primitive_rec_inv hP module fuel st primitive cell _ f s inv hs
            refine ih _ st2 ?_ h
            split
            · exact hP.shape _ _ (shapeEq_update s primitive _ (fun p => by
                split
                · exact ⟨rfl, rfl, rfl, rfl, rfl, rfl, rfl⟩
                · exact ⟨rfl, rfl, rfl, rfl, rfl, rfl, rfl⟩)) inv2
            · exact inv2
      · exact ih st st2 inv h

theorem trace_sources_inv {P : Extractor → Prop} (hP : TraceClosed P) (module : Module)
    (fuel : Nat) (src dst : CppString) :
    ∀ (sources : List PrimRef) (st st2 : Extractor), P st →
      trace_sources module fuel src dst sources st = .ok st2 → P st2 := by
  intro sources
  induction sources with
  | nil =>
    intro st st2 inv h
    simp only [trace_sources] at h
    exact (Except.ok.inj h) ▸ inv
  | cons primitive rest ih =>
    intro st st2 inv h
    simp only [trace_sources] at h
    split at h
    · exact Except.noConfusion h
    · rename_i s hs
      exact ih s st2 (trace_cells_inv hP module fuel src dst primitive _ st s inv hs) h

theorem trace_next_primitive_inv {P : Extractor → Prop} (hP : TraceClosed P)
    (module : Module) (fuel : Nat) (st st2 : Extractor)
    (src dst : CppString) (inv : P st)
    (h : trace_next_primitive module fuel st src dst = .ok st2) : P st2 := by
  unfold trace_next_primitive at h
  simp only [bind, Except.bind] at h
  split at h
  · exact Except.noConfusion h
  · split at h
    · exact Except.noConfusion h
    · exact trace_sources_inv hP module fuel src dst _ st st2 inv h

theorem trace_calls_inv {P : Extractor → Prop} (hP : TraceClosed P) (module : Module)
    (fuel : Nat) :
    ∀ (calls : List (CppString × CppString)) (st st2 : Extractor), P st →
      trace_calls module fuel calls st = .ok st2 → P st2 := by
  intro calls
  induction calls with
  | nil =>
    intro st st2 inv h
    simp only [trace_calls] at h
    exact (Except.ok.inj h) ▸ inv
  | cons call rest ih =>
    intro st st2 inv h
    simp only [trace_calls] at h
    split at h
    · exact Except.noConfusion h
    · rename_i s hs
      exact ih s st2 (trace_next_primitive_inv hP module fuel st s call.1 call.2 inv hs) h

theorem treeInv_of_rootsOnly (st : Extractor) (h : RootsOnly st) : TreeInv st := by
  obtain ⟨hc, hp⟩ := h
  have hport : ∀ i n, st.deref (.port i) = .ok n →
      n.parent = none ∧ n.grandparent = none ∧ n.is_port_primitive = true ∧ n.child = [] := by
    intro i n hn
    obtain ⟨p, hpi, hb⟩ := (deref_port_iff st i n).1 hn
    have hmem : p ∈ st.m_ports := List.getElem?_mem hpi
    rw [← hb]
    exact hp p hmem
  have hchild : ∀ j c, st.deref (.child j) ≠ .ok c := by
    intro j c hcj
    have := deref_child_lt st j c hcj
    rw [hc] at this
    exact Nat.not_lt_zero _ this
  constructor
  · intro i n hn
    obtain ⟨a, b, c, _⟩ := hport i n hn
    exact ⟨a, b, c⟩
  · intro j c hcj
    exact absurd hcj (hchild j c)
  · intro r n k x hn hx
    cases r with
    | port i =>
      rw [(hport i n hn).2.2.2] at hx
      exact absurd hx (List.not_mem_nil _)
    | child j => exact absurd hn (hchild j n)
  · intro r n hn
    cases r with
    | port i =>
      rw [(hport i n hn).2.2.2]
      exact List.Pairwise.nil
    | child j => exact absurd hn (hchild j n)

/-! ### Consequences of the tree invariant -/

/-- Under the invariant the chain root of every traced node is a root. -/
theorem TreeInvD.grandparent_port {D : PrimRef → Except Fault PRIMITIVE} (inv : TreeInvD D) :
    ∀ j c, D (.child j) = .ok c → ∃ g root, c.grandparent = some (.port g) ∧
      D (.port g) = .ok root := by
  intro j
  induction j using Nat.strong_induction_on with
  | _ j ih =>
    intro c hc
    obtain ⟨_, pr, pn, _, hpn, hlt, _, hgp⟩ := inv.children j c hc
    cases pr with
    | port i =>
      have hroot := (inv.roots i pn hpn).2.1
      rw [hroot] at hgp
      exact ⟨i, pn, hgp, hpn⟩
    | child i =>
      obtain ⟨g, root, hg, hroot⟩ := ih i (hlt i rfl) pn hpn
      rw [hg] at hgp
      exact ⟨g, root, hgp, hroot⟩

theorem parent_chain_mono (st : Extractor) :
    ∀ (fuel : Nat) (r : PrimRef) (path : List PrimRef),
      parent_chain st fuel r = some path →
      ∀ fuel2, fuel ≤ fuel2 → parent_chain st fuel2 r = some path := by
  intro fuel
  induction fuel with
  | zero =>
    intro r path h
    simp only [parent_chain] at h
    exact Option.noConfusion h
  | succ fuel ih =>
    intro r path h fuel2 hle
    cases fuel2 with
    | zero => omega
    | succ f2 =>
      simp only [parent_chain] at h ⊢
      split at h
      · exact Option.noConfusion h
      · rename_i n hn
        split at h
        · exact h
        · rename_i pr hp
          cases hq : parent_chain st fuel pr with
          | none =>
            rw [hq] at h
            exact Option.noConfusion h
          | some p2 =>
            rw [hq] at h
            rw [ih pr p2 hq f2 (by omega)]
            exact h

/-- Under the invariant, following parent links from the traced node at
position `j` ends after at most `j + 1` steps at the root that is the
node's chain root, and all nodes met on the way are different. -/
theorem TreeInv.parent_chain_root (st : Extractor) (inv : TreeInv st) :
    ∀ j c, st.deref (.child j) = .ok c →
      ∃ path g root, parent_chain st (j + 2) (.child j) = some path ∧
        path.Nodup ∧ path.getLast? = some (.port g) ∧
        (∀ x ∈ path, x = .port g ∨ ∃ i, x = .child i ∧ i ≤ j) ∧
        st.deref (.port g) = .ok root ∧ root.parent = none ∧
        root.is_port_primitive = true ∧ c.grandparent = some (.port g) := by
  intro j
  induction j using Nat.strong_induction_on with
  | _ j ih =>
    intro c hc
    obtain ⟨_, pr, pn, hp, hpn, hlt, _, hgp⟩ := inv.children j c hc
    cases pr with
    | port i =>
      obtain ⟨hr1, hr2, hr3⟩ := inv.roots i pn hpn
      refine ⟨[.child j, .port i], i, pn, ?_, ?_, rfl, ?_, hpn, hr1, hr3, ?_⟩
      · show parent_chain st ((j + 1) + 1) (.child j) = _
        rw [parent_chain]
        simp only [hc, hp]
        cases j with
        | zero => simp only [parent_chain, hpn, hr1, Option.map_some']
        | succ j2 => simp only [parent_chain, hpn, hr1, Option.map_some']
      · simp
      · intro x hx
        simp only [List.mem_cons, List.mem_singleton, List.not_mem_nil, or_false] at hx
        rcases hx with rfl | rfl
        · exact Or.inr ⟨j, rfl, le_refl j⟩
        · exact Or.inl rfl
      · rw [hr2] at hgp
        exact hgp
    | child i =>
      have hij : i < j := hlt i rfl
      obtain ⟨path, g, root, hpath, hnd, hlast, hmem, hroot, hrp, hri, hcg⟩ := ih i hij pn hpn
      have hpath2 := parent_chain_mono st (i + 2) (.child i) path hpath (j + 1) (by omega)
      refine ⟨.child j :: path, g, root, ?_, ?_, ?_, ?_, hroot, hrp, hri, ?_⟩
      · show parent_chain st ((j + 1) + 1) (.child j) = _
        rw [parent_chain]
        simp only [hc, hp, hpath2, Option.map_some']
      · rw [List.nodup_cons]
        refine ⟨?_, hnd⟩
        intro hin
        rcases hmem _ hin with h | ⟨i2, h, hle⟩
        · exact PrimRef.noConfusion h
        · have := PrimRef.child.inj h
          omega
      · cases path with
        | nil => exact Option.noConfusion hlast
        | cons a t =>
          rw [List.getLast?_cons_cons]
          exact hlast
      · intro x hx
        rcases List.mem_cons.1 hx with rfl | hx
        · exact Or.inr ⟨j, rfl, le_refl j⟩
        · rcases hmem x hx with h | ⟨i2, h, hle⟩
          · exact Or.inl h
          · exact Or.inr ⟨i2, h, by omega⟩
      · rw [hcg] at hgp
        exact hgp


/-- C6: after any finite sequence of `trace_next_primitive` calls on any
module, started from a state with roots only, every traced node has one
parent, is held in that parent's child map under its name and in no other
child map, and following parent links from it reaches, without repeating a
node and within `j + 2` steps for the node at position `j`, a root (a port
primitive without parent) that is the node's `grandparent`. -/
theorem C6_traced_nodes_form_a_forest (module : Module) (fuel : Nat)
    (calls : List (CppString × CppString)) (st0 st : Extractor) (h0 : RootsOnly st0)
    (hrun : trace_calls module fuel calls st0 = .ok st) :
    ∀ j c, st.m_child_primitives[j]? = some c →
      (∃ pr pn, c.parent = some pr ∧ st.deref pr = .ok pn ∧
        CppMap.find pn.child c.name = some (.child j) ∧
        ∀ r n k, st.deref r = .ok n → (k, PrimRef.child j) ∈ n.child →
          r = pr ∧ k = c.name) ∧
      (∃ path g root, parent_chain st (j + 2) (.child j) = some path ∧ path.Nodup ∧
        path.getLast? = some (.port g) ∧ st.m_ports[g]? = some root ∧
        root.base.parent = none ∧ root.base.is_port_primitive = true ∧
        c.grandparent = some (.port g)) := by
  have inv : TreeInv st :=
    trace_calls_inv traceClosed_treeInv module fuel calls st0 st
      (treeInv_of_rootsOnly st0 h0) hrun
  intro j c hj
  have hc : st.deref (.child j) = .ok c := (deref_child_iff st j c).2 hj
  constructor
  · obtain ⟨_, pr, pn, hp, hpn, _, hfind, _⟩ := inv.children j c hc
    refine ⟨pr, pn, hp, hpn, hfind, ?_⟩
    intro r n k hn hk
    obtain ⟨j2, c2, hx, hc2, hcp, hck⟩ := inv.childmaps r n k _ hn hk
    have hjj : j = j2 := PrimRef.child.inj hx
    subst hjj
    rw [hc] at hc2
    have hcc := Except.ok.inj hc2
    subst hcc
    rw [hp] at hcp
    exact ⟨(Option.some.inj hcp).symm, hck.symm⟩
  · obtain ⟨path, g, root, hpath, hnd, hlast, _, hroot, hrp, hri, hcg⟩ :=
      TreeInv.parent_chain_root st inv j c hc
    obtain ⟨p, hp, hb⟩ := (deref_port_iff st g root).1 hroot
    exact ⟨path, g, p, hpath, hnd, hlast, hp, hb ▸ hrp, hb ▸ hri, hcg⟩

set_option maxRecDepth 100000 in
/-- Witness for C6: the tracing calls of `extract` on the example with a
clock buffer and a delay behind one input buffer. -/
theorem C6_traced_nodes_form_a_forest_witness :
    RootsOnly example_clock_and_delay_roots ∧
    trace_calls example_clock_and_delay 10 extract_trace_pairs
      example_clock_and_delay_roots = .ok example_clock_and_delay_traced ∧
    example_clock_and_delay_traced.m_child_primitives.length = 2 ∧
    ∀ j c, example_clock_and_delay_traced.m_child_primitives[j]? = some c →
      (∃ pr pn, c.parent = some pr ∧ example_clock_and_delay_traced.deref pr = .ok pn ∧
        CppMap.find pn.child c.name = some (.child j) ∧
        ∀ r n k, example_clock_and_delay_traced.deref r = .ok n →
          (k, PrimRef.child j) ∈ n.child → r = pr ∧ k = c.name) ∧
      (∃ path g root,
        parent_chain example_clock_and_delay_traced (j + 2) (.child j) = some path ∧
        path.Nodup ∧ path.getLast? = some (.port g) ∧
        example_clock_and_delay_traced.m_ports[g]? = some root ∧
        root.base.parent = none ∧ root.base.is_port_primitive = true ∧
        c.grandparent = some (.port g)) :=
  have h0 : RootsOnly example_clock_and_delay_roots := by
    unfold RootsOnly
    decide
  have hrun : trace_calls example_clock_and_delay 10 extract_trace_pairs
      example_clock_and_delay_roots = .ok example_clock_and_delay_traced := by
    decide
  ⟨h0, hrun, by decide,
    C6_traced_nodes_form_a_forest example_clock_and_delay 10 extract_trace_pairs
      example_clock_and_delay_roots example_clock_and_delay_traced h0 hrun⟩


/-! ### Instance generation only appends -/

theorem update_m_instances (st : Extractor) (r : PrimRef) (f : PRIMITIVE → PRIMITIVE) :
    (st.update r f).m_instances = st.m_instances := by
  cases r <;> rfl

theorem gen_instance_appends (st st2 : Extractor) (linked_objects : List CppString)
    (r : PrimRef) (pre : CppString) (h : gen_instance st linked_objects r pre = .ok st2) :
    ∃ inst, st2.m_instances = st.m_instances ++ [inst] := by
  unfold gen_instance at h
  simp only [bind, Except.bind, pure, Except.pure, throw, throwThe,
    MonadExceptOf.throw] at h
  repeat' split at h
  all_goals first
    | exact Except.noConfusion h
    | (have e := Except.ok.inj h
       subst e
       rw [update_m_instances]
       exact ⟨_, rfl⟩)

theorem gen_wire_loop_appends (linked_object : CppString) (linked_objects : List CppString)
    (child : CppString) (index : Nat) :
    ∀ (wires : List CppString) (trace_connection : CppString) (st st2 : Extractor),
      gen_wire_loop linked_object linked_objects child index wires trace_connection st =
        .ok st2 →
      ∃ block, st2.m_instances = st.m_instances ++ block := by
  intro wires
  induction wires with
  | nil =>
    intro tc st st2 h
    simp only [gen_wire_loop] at h
    exact ⟨[], by rw [← Except.ok.inj h, List.append_nil]⟩
  | cons wire rest ih =>
    intro tc st st2 h
    simp only [gen_wire_loop, bind, Except.bind] at h
    split at h
    · exact Except.noConfusion h
    · rename_i v _
      obtain ⟨block, hb⟩ := ih _ _ _ h
      exact ⟨v.add_connections [("I".toList, tc), ("O".toList, wire)] :: block,
        by rw [hb]; simp⟩

theorem gen_wire_appends (st st2 : Extractor) (linked_object : CppString)
    (linked_objects : List CppString) (r : PrimRef) (child : CppString)
    (h : gen_wire st linked_object linked_objects r child = .ok st2) :
    ∃ block, st2.m_instances = st.m_instances ++ block := by
  unfold gen_wire at h
  simp only [bind, Except.bind, pure, Except.pure, throw, throwThe,
    MonadExceptOf.throw] at h
  repeat' split at h
  all_goals first
    | exact Except.noConfusion h
    | exact gen_wire_loop_appends _ _ _ _ _ _ _ _ h
    | exact ⟨[], by rw [← Except.ok.inj h, List.append_nil]⟩

theorem gen_child_appends (call : Extractor → PrimRef → Except Fault Extractor)
    (hcall : ∀ st c st2, call st c = .ok st2 →
      ∃ block, st2.m_instances = st.m_instances ++ block)
    (linked_object : CppString) (linked_objects : List CppString) (r : PrimRef)
    (primitive_type : CppString) (st st2 : Extractor) (child : CppString × PrimRef)
    (h : gen_child call linked_object linked_objects r primitive_type st child = .ok st2) :
    ∃ block, st2.m_instances = st.m_instances ++ block := by
  unfold gen_child at h
  split at h
  · exact Except.noConfusion h
  · rename_i s1 h1
    split at h
    · exact Except.noConfusion h
    · rename_i s2 h2
      obtain ⟨b1, e1⟩ := gen_wire_appends _ _ _ _ _ _ h1
      obtain ⟨i2, e2⟩ := gen_instance_appends _ _ _ _ _ h2
      obtain ⟨b3, e3⟩ := hcall _ _ _ h
      exact ⟨b1 ++ [i2] ++ b3, by rw [e3, e2, e1]; simp⟩

theorem gen_children_appends (call : Extractor → PrimRef → Except Fault Extractor)
    (hcall : ∀ st c st2, call st c = .ok st2 →
      ∃ block, st2.m_instances = st.m_instances ++ block)
    (linked_object : CppString) (linked_objects : List CppString) (r : PrimRef)
    (primitive_type : CppString) :
    ∀ (children : List (CppString × PrimRef)) (st st2 : Extractor),
      gen_children call linked_object linked_objects r primitive_type children st = .ok st2 →
      ∃ block, st2.m_instances = st.m_instances ++ block := by
  intro children
  induction children with
  | nil =>
    intro st st2 h
    simp only [gen_children] at h
    exact ⟨[], by rw [← Except.ok.inj h, List.append_nil]⟩
  | cons child rest ih =>
    intro st st2 h
    simp only [gen_children] at h
    split at h
    · exact Except.noConfusion h
    · rename_i s hs
      obtain ⟨b1, e1⟩ := gen_child_appends call hcall _ _ _ _ _ _ _ hs
      obtain ⟨b2, e2⟩ := ih _ _ h
      exact ⟨b1 ++ b2, by rw [e2, e1]; simp⟩

theorem gen_instances_rec_appends (linked_object : CppString)
    (linked_objects : List CppString) :
    ∀ (fuel : Nat) (st : Extractor) (r : PrimRef) (pre : CppString) (st2 : Extractor),
      gen_instances_rec linked_object linked_objects fuel st r pre = .ok st2 →
      ∃ block, st2.m_instances = st.m_instances ++ block := by
  intro fuel
  induction fuel with
  | zero =>
    intro st r pre st2 h
    simp only [gen_instances_rec] at h
    exact Except.noConfusion h
  | succ fuel ih =>
    intro st r pre st2 h
    simp only [gen_instances_rec] at h
    split at h
    · exact Except.noConfusion h
    · split at h
      · exact Except.noConfusion h
      · rename_i primitive hp
        split at h
        · exact Except.noConfusion h
        · rename_i s hs
          have e1 : ∃ block, s.m_instances = st.m_instances ++ block := by
            split at hs
            · obtain ⟨i, hi⟩ := gen_instance_appends _ _ _ _ _ hs
              exact ⟨[i], hi⟩
            · exact ⟨[], by rw [← Except.ok.inj hs, List.append_nil]⟩
          obtain ⟨b1, e1⟩ := e1
          obtain ⟨b2, e2⟩ := gen_children_appends _
            (fun s c s2 hc => ih s c _ s2 hc) _ _ _ _ _ _ _ h
          exact ⟨b1 ++ b2, by rw [e2, e1]; simp⟩

theorem gen_children_append (call : Extractor → PrimRef → Except Fault Extractor)
    (linked_object : CppString) (linked_objects : List CppString) (r : PrimRef)
    (primitive_type : CppString) :
    ∀ (l1 l2 : List (CppString × PrimRef)) (st st2 : Extractor),
      gen_children call linked_object linked_objects r primitive_type (l1 ++ l2) st = .ok st2 →
      ∃ s, gen_children call linked_object linked_objects r primitive_type l1 st = .ok s ∧
        gen_children call linked_object linked_objects r primitive_type l2 s = .ok st2 := by
  intro l1
  induction l1 with
  | nil =>
    intro l2 st st2 h
    exact ⟨st, rfl, h⟩
  | cons child rest ih =>
    intro l2 st st2 h
    simp only [List.cons_append, gen_children] at h ⊢
    split at h
    · exact Except.noConfusion h
    · rename_i s hs
      obtain ⟨s2, h1, h2⟩ := ih l2 s st2 h
      exact ⟨s2, h1, h2⟩

/-- In a map in key order an entry with a smaller key stands before an
entry with a larger key. -/
theorem CppMap.ordered_split {V : Type} (m : CppMap V) (hord : CppMap.Ordered m)
    (a b : CppString) (x y : V) (hx : (a, x) ∈ m) (hy : (b, y) ∈ m)
    (hab : strLt a b = true) :
    ∃ l1 l2 l3, m = l1 ++ (a, x) :: (l2 ++ (b, y) :: l3) := by
  obtain ⟨l1, t, hm⟩ := List.append_of_mem hx
  subst hm
  unfold CppMap.Ordered at hord
  rw [List.pairwise_append] at hord
  obtain ⟨_, hcons, hcross⟩ := hord
  rcases List.mem_append.1 hy with h1 | h2
  · have := hcross (b, y) h1 (a, x) (List.mem_cons_self _ _)
    simp only at this
    rw [strLt_asymm a b hab] at this
    exact Bool.noConfusion this
  · rcases List.mem_cons.1 h2 with h3 | h3
    · have hba : b = a := congrArg Prod.fst h3
      rw [hba, strLt_irrefl] at hab
      exact Bool.noConfusion hab
    · obtain ⟨l2, l3, ht⟩ := List.append_of_mem h3
      exact ⟨l1, l2, l3, by rw [ht]⟩


set_option maxRecDepth 100000 in
/-- C5 as stated fails: in the example the clock buffer `z` is attached to
the root before the delay `a` (it is first in `m_child_primitives`, and both
have the root as parent), yet `gen_instances` emits the instance of `a`
before the instance of `z`, because the child map is visited in key
order. -/
theorem C5_counterexample_traced_z_then_a_emitted_a_then_z :
    (extract example_clock_and_delay 10 (Extractor.construct "genesis3".toList)).map
      (fun r => (r.1, r.2.1.m_child_primitives.map (fun c => c.name),
        r.2.1.m_instances.map (fun i => i.name))) =
      .ok (true, ["\\z".toList, "\\a".toList], ["ibuf".toList, "a".toList, "z".toList]) ∧
    (extract example_clock_and_delay 10 (Extractor.construct "genesis3".toList)).map
      (fun r => r.2.1.m_child_primitives.map (fun c => c.parent)) =
      .ok [some (.port 0), some (.port 0)] := by
  constructor <;> decide

/-- C5 (amended): for every node reached by chain tracing whose child map
holds the children A and B, A under a cell name that is smaller than the
cell name of B in string order, `gen_instances` appends every instance of
the subtree of A (the wires of A, A itself and all descendants of A) before
it appends any instance of the subtree of B, whatever the order in which
tracing attached them. -/
theorem C5_children_emitted_in_cell_name_order (linked_object : CppString)
    (linked_objects : List CppString) (fuel : Nat) (st st2 : Extractor) (r : PrimRef)
    (n : PRIMITIVE) (pre a b : CppString) (A B : PrimRef)
    (inv : TreeInv st) (hn : st.deref r = .ok n)
    (hA : (a, A) ∈ n.child) (hB : (b, B) ∈ n.child) (hab : strLt a b = true)
    (hrun : gen_instances_rec linked_object linked_objects (fuel + 1) st r pre = .ok st2) :
    EmittedBefore
      (fun s c => gen_instances_rec linked_object linked_objects fuel s c
        (get_original_name n.db.name))
      linked_object linked_objects r (get_original_name n.db.name) (a, A) (b, B) st2 := by
  obtain ⟨l1, l2, l3, hsplit⟩ :=
    CppMap.ordered_split n.child (inv.ordered r n hn) a b A B hA hB hab
  have hcall : ∀ s c s2,
      gen_instances_rec linked_object linked_objects fuel s c (get_original_name n.db.name) =
        .ok s2 → ∃ block, s2.m_instances = s.m_instances ++ block :=
    fun s c s2 h => gen_instances_rec_appends _ _ fuel s c _ s2 h
  simp only [gen_instances_rec, hn] at hrun
  split at hrun
  · exact Except.noConfusion hrun
  · split at hrun
    · exact Except.noConfusion hrun
    · rename_i s0 _
      rw [hsplit] at hrun
      obtain ⟨s1, _, h2⟩ := gen_children_append _ _ _ _ _ l1 _ s0 st2 hrun
      simp only [gen_children] at h2
      split at h2
      · exact Except.noConfusion h2
      · rename_i s2 hs2
        obtain ⟨s3, h3, h4⟩ := gen_children_append _ _ _ _ _ l2 _ s2 st2 h2
        simp only [gen_children] at h4
        split at h4
        · exact Except.noConfusion h4
        · rename_i s4 hs4
          obtain ⟨blockA, eA⟩ := gen_child_appends _ hcall _ _ _ _ _ _ _ hs2
          obtain ⟨mid, eM⟩ := gen_children_appends _ hcall _ _ _ _ _ _ _ h3
          obtain ⟨blockB, eB⟩ := gen_child_appends _ hcall _ _ _ _ _ _ _ hs4
          obtain ⟨rest, eR⟩ := gen_children_appends _ hcall _ _ _ _ _ _ _ h4
          exact ⟨s1, s2, s3, s4, blockA, mid, blockB, rest, hs2, hs4, eA, eM, eB, eR⟩

set_option maxRecDepth 100000 in
/-- Witness for C5 (amended): the root of the example after tracing, whose
child map holds the delay `a` and the clock buffer `z`. -/
theorem C5_children_emitted_in_cell_name_order_witness :
    ∃ n st2, TreeInv example_clock_and_delay_traced ∧
      example_clock_and_delay_traced.deref (.port 0) = .ok n ∧
      ("\\a".toList, PrimRef.child 1) ∈ n.child ∧
      ("\\z".toList, PrimRef.child 0) ∈ n.child ∧
      strLt "\\a".toList "\\z".toList = true ∧
      gen_instances_rec "clk".toList ["clk".toList] (2 + 1) example_clock_and_delay_traced
        (.port 0) [] = .ok st2 ∧
      EmittedBefore
        (fun s c => gen_instances_rec "clk".toList ["clk".toList] 2 s c
          (get_original_name n.db.name))
        "clk".toList ["clk".toList] (.port 0) (get_original_name n.db.name)
        ("\\a".toList, .child 1) ("\\z".toList, .child 0) st2 := by
  have h0 : RootsOnly example_clock_and_delay_roots := by
    unfold RootsOnly
    decide
  have htr : trace_calls example_clock_and_delay 10 extract_trace_pairs
      example_clock_and_delay_roots = .ok example_clock_and_delay_traced := by
    decide
  have inv : TreeInv example_clock_and_delay_traced :=
    trace_calls_inv traceClosed_treeInv _ _ _ _ _ (treeInv_of_rootsOnly _ h0) htr
  have key : (match example_clock_and_delay_traced.deref (.port 0) with
      | .ok n => decide (("\\a".toList, PrimRef.child 1) ∈ n.child ∧
          ("\\z".toList, PrimRef.child 0) ∈ n.child)
      | .error _ => false) = true := by
    decide
  have run : (match gen_instances_rec "clk".toList ["clk".toList] (2 + 1)
      example_clock_and_delay_traced (.port 0) [] with
      | .ok _ => true
      | .error _ => false) = true := by
    decide
  cases hd : example_clock_and_delay_traced.deref (.port 0) with
  | error e =>
    rw [hd] at key
    exact Bool.noConfusion key
  | ok n =>
    rw [hd] at key
    have hmem := of_decide_eq_true key
    cases hr : gen_instances_rec "clk".toList ["clk".toList] (2 + 1)
        example_clock_and_delay_traced (.port 0) [] with
    | error e =>
      rw [hr] at run
      exact Bool.noConfusion run
    | ok st2 =>
      exact ⟨n, st2, inv, rfl, hmem.1, hmem.2, by decide, rfl,
        C5_children_emitted_in_cell_name_order "clk".toList ["clk".toList] 2
          example_clock_and_delay_traced st2 (.port 0) n [] "\\a".toList "\\z".toList
          (.child 1) (.child 0) inv hd hmem.1 hmem.2 (by decide) hr⟩


/-! ### Instance generation gives every node its instance -/

theorem grownNode_refl (n : PRIMITIVE) : GrownNode n n :=
  ⟨rfl, rfl, rfl, fun h => h⟩

theorem grownNode_trans {a b c : PRIMITIVE} (h : GrownNode a b) (g : GrownNode b c) :
    GrownNode a c :=
  ⟨g.1.trans h.1, g.2.1.trans h.2.1, g.2.2.1.trans h.2.2.1, fun x => g.2.2.2 (h.2.2.2 x)⟩

theorem grown_refl (s : Extractor) : Grown s s :=
  fun _ => ⟨fun n h => ⟨n, h, grownNode_refl n⟩, fun n h => ⟨n, h, grownNode_refl n⟩⟩

theorem grown_trans {s t u : Extractor} (h : Grown s t) (g : Grown t u) : Grown s u := by
  intro r
  constructor
  · intro n hn
    obtain ⟨m, hm, s1⟩ := (h r).1 n hn
    obtain ⟨k, hk, s2⟩ := (g r).1 m hm
    exact ⟨k, hk, grownNode_trans s1 s2⟩
  · intro k hk
    obtain ⟨m, hm, s2⟩ := (g r).2 k hk
    obtain ⟨n, hn, s1⟩ := (h r).2 m hm
    exact ⟨n, hn, grownNode_trans s1 s2⟩

theorem Grown.of_deref_eq {s t : Extractor} (h : ∀ r, t.deref r = s.deref r) : Grown s t := by
  intro r
  rw [h r]
  exact grown_refl s r

theorem genStep_refl (s : Extractor) : GenStep s s :=
  ⟨grown_refl s, rfl⟩

theorem genStep_trans {s t u : Extractor} (h : GenStep s t) (g : GenStep t u) :
    GenStep s u :=
  ⟨grown_trans h.grown g.grown, by have := h.counted; have := g.counted; omega⟩

theorem Grown.edge {s t : Extractor} (h : Grown s t) {r c : PrimRef} (e : Edge s r c) :
    Edge t r c := by
  obtain ⟨n, k, hn, hk⟩ := e
  obtain ⟨m, hm, g⟩ := (h r).1 n hn
  exact ⟨m, k, hm, g.1 ▸ hk⟩

theorem Grown.reach {s t : Extractor} (h : Grown s t) {r d : PrimRef} (p : Reach s r d) :
    Reach t r d := by
  induction p with
  | edge e => exact Reach.edge (h.edge e)
  | step e _ ih => exact Reach.step (h.edge e) ih

theorem Grown.marked {s t : Extractor} (h : Grown s t) {r : PrimRef} (p : Marked s r) :
    Marked t r := by
  obtain ⟨n, hn, hi⟩ := p
  obtain ⟨m, hm, g⟩ := (h r).1 n hn
  exact ⟨m, hm, g.2.2.2 hi⟩

theorem Grown.nonWire {s t : Extractor} (h : Grown s t) (p : NonWire s) : NonWire t := by
  intro r m hm
  obtain ⟨n, hn, g⟩ := (h r).2 m hm
  rw [g.2.2.1]
  exact p r n hn

theorem Reach.snoc {s : Extractor} {a b c : PrimRef} (p : Reach s a b) (e : Edge s b c) :
    Reach s a c := by
  induction p with
  | edge e1 => exact Reach.step e1 (Reach.edge e)
  | step e1 _ ih => exact Reach.step e1 (ih e)

theorem countP_modify_mark {α : Type} (p : α → Bool) (f : α → α) :
    ∀ (l : List α) (i : Nat) (a : α), l[i]? = some a → p a = false → p (f a) = true →
      (l.modify f i).countP p = l.countP p + 1 := by
  intro l
  induction l with
  | nil =>
    intro i a h
    simp at h
  | cons x xs ih =>
    intro i a h hpa hpf
    cases i with
    | zero =>
      simp only [List.getElem?_cons_zero, Option.some.injEq] at h
      subst h
      simp [List.modify_zero_cons, List.countP_cons, hpa, hpf]
    | succ i =>
      simp only [List.getElem?_cons_succ] at h
      simp only [List.modify_succ_cons, List.countP_cons, ih i a h hpa hpf]
      omega

theorem marked_count_update (s : Extractor) (r : PrimRef) (n : PRIMITIVE) (k : Nat)
    (hn : s.deref r = .ok n) (hi : n.inst = none) :
    marked_count (s.update r (fun q => { q with inst := some k })) = marked_count s + 1 := by
  cases r with
  | port i =>
    obtain ⟨p, hp, hb⟩ := (deref_port_iff s i n).1 hn
    simp only [marked_count, Extractor.update]
    rw [countP_modify_mark (fun p : PORT_PRIMITIVE => p.base.inst.isSome) _ s.m_ports i p hp
      (by simp [hb, hi]) (by simp)]
    omega
  | child j =>
    have hc := (deref_child_iff s j n).1 hn
    simp only [marked_count, Extractor.update]
    rw [countP_modify_mark (fun c : PRIMITIVE => c.inst.isSome) _ s.m_child_primitives j n hc
      (by simp [hi]) (by simp)]
    omega

theorem grown_update_inst (s : Extractor) (r : PrimRef) (k : Nat) :
    Grown s (s.update r (fun q => { q with inst := some k })) := by
  intro q
  rw [deref_update]
  by_cases h : q = r
  · rw [if_pos h]
    cases hd : s.deref q with
    | error e =>
      exact ⟨fun n hn => Except.noConfusion hn, fun n hn => Except.noConfusion hn⟩
    | ok n =>
      constructor
      · intro n2 hn2
        have := Except.ok.inj hn2
        subst this
        exact ⟨_, rfl, rfl, rfl, rfl, fun _ => rfl⟩
      · intro m hm
        have := Except.ok.inj hm
        subst this
        exact ⟨n, rfl, rfl, rfl, rfl, fun _ => rfl⟩
  · rw [if_neg h]
    exact grown_refl s q

theorem instance_count_append (l : List INSTANCE) (inst : INSTANCE) :
    instance_count (l ++ [inst]) =
      instance_count l + (if inst.module = "WIRE".toList then 0 else 1) := by
  unfold instance_count
  rw [List.filter_append, List.length_append]
  generalize "WIRE".toList = w
  by_cases h : inst.module = w
  · simp [h]
  · simp [h]

theorem instance_construct_module (st : Extractor) (m n : CppString) (ls : List CppString)
    (p : Option PrimRef) (pre : CppString) (post : List CppString)
    (gcs : CppMap (List PrimRef)) (inst : INSTANCE)
    (h : INSTANCE.construct st m n ls p pre post gcs = .ok inst) :
    inst.module = get_original_name m := by
  unfold INSTANCE.construct at h
  simp only [bind, Except.bind, pure, Except.pure, throw, throwThe,
    MonadExceptOf.throw] at h
  repeat' split at h
  all_goals first
    | exact Except.noConfusion h
    | (have e := Except.ok.inj h
       subst e
       rfl)


theorem deref_m_instances (s : Extractor) (l : List INSTANCE) (q : PrimRef) :
    Extractor.deref { s with m_instances := l } q = s.deref q := by
  cases q <;> rfl

theorem gen_instance_step (s s2 : Extractor) (linked_objects : List CppString)
    (r : PrimRef) (pre : CppString) (hw : NonWire s)
    (h : gen_instance s linked_objects r pre = .ok s2) :
    GenStep s s2 ∧ Marked s2 r := by
  unfold gen_instance at h
  simp only [bind, Except.bind, pure, Except.pure, throw, throwThe,
    MonadExceptOf.throw] at h
  split at h
  · exact Except.noConfusion h
  · rename_i primitive hprim
    split at h
    · exact Except.noConfusion h
    · rename_i types htypes
      split at h
      · exact Except.noConfusion h
      · rename_i inst hinst
        have hmod : inst.module = get_original_name primitive.db.name :=
          instance_construct_module _ _ _ _ _ _ _ _ _ hinst
        by_cases hnone : primitive.inst = none
        · rw [if_neg (not_not.2 hnone)] at h
          have e := Except.ok.inj h
          subst e
          refine ⟨⟨?_, ?_⟩, ?_⟩
          · exact grown_trans (Grown.of_deref_eq (fun q => deref_m_instances s _ q))
              (grown_update_inst _ r _)
          · rw [update_m_instances, marked_count_update _ r primitive _
              ((deref_m_instances s _ r).trans hprim) hnone]
            simp only [instance_count_append]
            have hne : ¬ (if primitive.bidir = true then
                  { ((inst.add_connections primitive.connections).add_parameters
                      primitive.parameters) with
                    flags := ((inst.add_connections primitive.connections).add_parameters
                      primitive.parameters).flags ++ ["INOUT".toList] }
                else (inst.add_connections primitive.connections).add_parameters
                  primitive.parameters).module = "WIRE".toList := by
              have : (if primitive.bidir = true then
                  { ((inst.add_connections primitive.connections).add_parameters
                      primitive.parameters) with
                    flags := ((inst.add_connections primitive.connections).add_parameters
                      primitive.parameters).flags ++ ["INOUT".toList] }
                else (inst.add_connections primitive.connections).add_parameters
                  primitive.parameters).module = inst.module := by
                split <;> rfl
              rw [this, hmod]
              exact hw r primitive hprim
            rw [if_neg hne]
            show _ = _ + (marked_count s + 1)
            omega
          · refine ⟨{ primitive with inst := some s.m_instances.length }, ?_, rfl⟩
            rw [deref_update, if_pos rfl, deref_m_instances, hprim]
        · rw [if_pos hnone] at h
          exact Except.noConfusion h

theorem genStep_push_wire (s : Extractor) (inst : INSTANCE)
    (hm : inst.module = "WIRE".toList) :
    GenStep s { s with m_instances := s.m_instances ++ [inst] } := by
  refine ⟨Grown.of_deref_eq (fun q => deref_m_instances s _ q), ?_⟩
  simp only [instance_count_append, hm, if_true]
  rfl

theorem gen_wire_loop_step (linked_object : CppString) (linked_objects : List CppString)
    (child : CppString) (index : Nat) :
    ∀ (wires : List CppString) (trace_connection : CppString) (s s2 : Extractor),
      gen_wire_loop linked_object linked_objects child index wires trace_connection s =
        .ok s2 → GenStep s s2 := by
  intro wires
  induction wires with
  | nil =>
    intro tc s s2 h
    simp only [gen_wire_loop] at h
    exact (Except.ok.inj h) ▸ genStep_refl s
  | cons wire rest ih =>
    intro tc s s2 h
    simp only [gen_wire_loop, bind, Except.bind] at h
    split at h
    · exact Except.noConfusion h
    · rename_i inst hinst
      refine genStep_trans (genStep_push_wire s _ ?_) (ih _ _ _ h)
      exact instance_construct_module _ _ _ _ _ _ _ _ _ hinst

theorem gen_wire_step (s s2 : Extractor) (linked_object : CppString)
    (linked_objects : List CppString) (r : PrimRef) (child : CppString)
    (h : gen_wire s linked_object linked_objects r child = .ok s2) : GenStep s s2 := by
  unfold gen_wire at h
  simp only [bind, Except.bind, pure, Except.pure, throw, throwThe,
    MonadExceptOf.throw] at h
  repeat' split at h
  all_goals first
    | exact Except.noConfusion h
    | exact (Except.ok.inj h) ▸ genStep_refl s
    | exact gen_wire_loop_step _ _ _ _ _ _ _ _ h

theorem gen_children_step (call : Extractor → PrimRef → Except Fault Extractor)
    (linked_object : CppString) (linked_objects : List CppString) (r : PrimRef)
    (primitive_type : CppString)
    (hcall : ∀ s c s2, NonWire s → call s c = .ok s2 →
      GenStep s s2 ∧ ∀ d, Reach s c d → Marked s2 d) :
    ∀ (children : List (CppString × PrimRef)) (s s2 : Extractor), NonWire s →
      gen_children call linked_object linked_objects r primitive_type children s = .ok s2 →
      GenStep s s2 ∧ ∀ x ∈ children, Marked s2 x.2 ∧ ∀ d, Reach s x.2 d → Marked s2 d := by
  intro children
  induction children with
  | nil =>
    intro s s2 _ h
    simp only [gen_children] at h
    exact ⟨(Except.ok.inj h) ▸ genStep_refl s, fun x hx => absurd hx (List.not_mem_nil _)⟩
  | cons child rest ih =>
    intro s s2 hw h
    simp only [gen_children, gen_child] at h
    split at h
    · exact Except.noConfusion h
    · rename_i s3 h3
      split at h3
      · exact Except.noConfusion h3
      · rename_i s1 h1
        split at h3
        · exact Except.noConfusion h3
        · rename_i sa ha
          have g1 := gen_wire_step _ _ _ _ _ _ h1
          have w1 := g1.grown.nonWire hw
          obtain ⟨ga, ma⟩ := gen_instance_step _ _ _ _ _ w1 ha
          have wa := ga.grown.nonWire w1
          obtain ⟨g3, m3⟩ := hcall _ _ _ wa h3
          have w3 := g3.grown.nonWire wa
          obtain ⟨g2, m2⟩ := ih s3 s2 w3 h
          have g13 : GenStep s s3 := genStep_trans (genStep_trans g1 ga) g3
          refine ⟨genStep_trans g13 g2, ?_⟩
          intro x hx
          rcases List.mem_cons.1 hx with e | hmem
          · subst e
            refine ⟨g2.grown.marked (g3.grown.marked ma), ?_⟩
            intro d hd
            exact g2.grown.marked (m3 d ((genStep_trans g1 ga).grown.reach hd))
          · obtain ⟨a, b⟩ := m2 x hmem
            exact ⟨a, fun d hd => b d (g13.grown.reach hd)⟩

theorem gen_instances_rec_step (linked_object : CppString)
    (linked_objects : List CppString) :
    ∀ (fuel : Nat) (s : Extractor) (r : PrimRef) (pre : CppString) (s2 : Extractor),
      NonWire s → gen_instances_rec linked_object linked_objects fuel s r pre = .ok s2 →
      GenStep s s2 ∧ (∀ d, Reach s r d → Marked s2 d) ∧
        (∀ n, s.deref r = .ok n → n.is_port_primitive = true → Marked s2 r) := by
  intro fuel
  induction fuel with
  | zero =>
    intro s r pre s2 _ h
    simp only [gen_instances_rec] at h
    exact Except.noConfusion h
  | succ fuel ih =>
    intro s r pre s2 hw h
    simp only [gen_instances_rec] at h
    split at h
    · exact Except.noConfusion h
    · split at h
      · exact Except.noConfusion h
      · rename_i primitive hprim
        split at h
        · exact Except.noConfusion h
        · rename_i s1 h1
          have first : GenStep s s1 ∧ (primitive.is_port_primitive = true → Marked s1 r) := by
            split at h1
            · rename_i hport
              obtain ⟨a, b⟩ := gen_instance_step _ _ _ _ _ hw h1
              exact ⟨a, fun _ => b⟩
            · rename_i hport
              exact ⟨(Except.ok.inj h1) ▸ genStep_refl s, fun e => absurd e hport⟩
          obtain ⟨g1, m1⟩ := first
          have w1 := g1.grown.nonWire hw
          obtain ⟨g2, m2⟩ := gen_children_step _ linked_object linked_objects r _
            (fun s c s2 hws hc => by
              obtain ⟨a, b, _⟩ := ih s c _ s2 hws hc
              exact ⟨a, b⟩)
            primitive.child s1 s2 w1 h
          refine ⟨genStep_trans g1 g2, ?_, ?_⟩
          · intro d hd
            cases hd with
            | edge e =>
              obtain ⟨n, k, hn, hk⟩ := e
              rw [hprim] at hn
              have := Except.ok.inj hn
              subst this
              exact (m2 (k, d) hk).1
            | step e p =>
              obtain ⟨n, k, hn, hk⟩ := e
              rw [hprim] at hn
              have := Except.ok.inj hn
              subst this
              exact (m2 (k, _) hk).2 d (g1.grown.reach p)
          · intro n hn hport
            rw [hprim] at hn
            have := Except.ok.inj hn
            subst this
            exact g2.grown.marked (m1 hport)


theorem gen_instances_ports_step (fuel : Nat) :
    ∀ (ports : List Nat) (s s2 : Extractor), NonWire s →
      (∀ i n, s.deref (.port i) = .ok n → n.is_port_primitive = true) →
      gen_instances_ports fuel ports s = .ok s2 →
      GenStep s s2 ∧
        ∀ i ∈ ports, Marked s2 (.port i) ∧ ∀ d, Reach s (.port i) d → Marked s2 d := by
  intro ports
  induction ports with
  | nil =>
    intro s s2 _ _ h
    simp only [gen_instances_ports] at h
    exact ⟨(Except.ok.inj h) ▸ genStep_refl s, fun x hx => absurd hx (List.not_mem_nil _)⟩
  | cons i rest ih =>
    intro s s2 hw hroots h
    simp only [gen_instances_ports] at h
    split at h
    · exact Except.noConfusion h
    · rename_i port hport
      split at h
      · exact Except.noConfusion h
      · split at h
        · exact Except.noConfusion h
        · rename_i s3 h3
          have hd : s.deref (.port i) = .ok port.base :=
            (deref_port_iff s i port.base).2 ⟨port, hport, rfl⟩
          obtain ⟨g3, m3, mr⟩ := gen_instances_rec_step _ _ fuel s (.port i) _ s3 hw h3
          have w3 := g3.grown.nonWire hw
          have hroots3 : ∀ i n, s3.deref (.port i) = .ok n → n.is_port_primitive = true := by
            intro k m hm
            obtain ⟨n, hn, g⟩ := (g3.grown (.port k)).2 m hm
            rw [g.2.1]
            exact hroots k n hn
          obtain ⟨g2, m2⟩ := ih s3 s2 w3 hroots3 h
          refine ⟨genStep_trans g3 g2, ?_⟩
          intro k hk
          rcases List.mem_cons.1 hk with e | hmem
          · subst e
            exact ⟨g2.grown.marked (mr _ hd (hroots _ _ hd)),
              fun d hd2 => g2.grown.marked (m3 d hd2)⟩
          · obtain ⟨a, b⟩ := m2 k hmem
            exact ⟨a, fun d hd2 => b d (g3.grown.reach hd2)⟩

theorem reach_of_treeInv (s : Extractor) (inv : TreeInv s) :
    ∀ (j : Nat) (c : PRIMITIVE), s.deref (.child j) = .ok c →
      ∃ i, Reach s (.port i) (.child j) := by
  intro j
  induction j using Nat.strong_induction_on with
  | _ j ih =>
    intro c hc
    obtain ⟨_, pr, pn, _, hpn, hlt, hfind, _⟩ := inv.children j c hc
    have e : Edge s pr (.child j) := ⟨pn, c.name, hpn, CppMap.mem_of_find _ _ _ hfind⟩
    cases pr with
    | port i => exact ⟨i, Reach.edge e⟩
    | child k =>
      obtain ⟨i, p⟩ := ih k (hlt k rfl) pn hpn
      exact ⟨i, p.snoc e⟩

theorem marked_count_zero (s : Extractor) (h : NodesFresh s) : marked_count s = 0 := by
  unfold marked_count
  have h1 : s.m_ports.countP (fun p => p.base.inst.isSome) = 0 := by
    rw [List.countP_eq_zero]
    intro p hp
    obtain ⟨i, hi⟩ := List.getElem?_of_mem hp
    have := (h (.port i) p.base ((deref_port_iff s i p.base).2 ⟨p, hi, rfl⟩)).1
    simp [this]
  have h2 : s.m_child_primitives.countP (fun c => c.inst.isSome) = 0 := by
    rw [List.countP_eq_zero]
    intro c hc
    obtain ⟨j, hj⟩ := List.getElem?_of_mem hc
    have := (h (.child j) c ((deref_child_iff s j c).2 hj)).1
    simp [this]
  omega

theorem marked_count_all (s : Extractor) (h : ∀ r n, s.deref r = .ok n → Marked s r) :
    marked_count s = s.m_ports.length + s.m_child_primitives.length := by
  unfold marked_count
  have h1 : s.m_ports.countP (fun p => p.base.inst.isSome) = s.m_ports.length := by
    rw [List.countP_eq_length]
    intro p hp
    obtain ⟨i, hi⟩ := List.getElem?_of_mem hp
    have hd := (deref_port_iff s i p.base).2 ⟨p, hi, rfl⟩
    obtain ⟨m, hm, hmi⟩ := h _ _ hd
    rw [hd] at hm
    have := Except.ok.inj hm
    subst this
    exact hmi
  have h2 : s.m_child_primitives.countP (fun c => c.inst.isSome) =
      s.m_child_primitives.length := by
    rw [List.countP_eq_length]
    intro c hc
    obtain ⟨j, hj⟩ := List.getElem?_of_mem hc
    have hd := (deref_child_iff s j c).2 hj
    obtain ⟨m, hm, hmi⟩ := h _ _ hd
    rw [hd] at hm
    have := Except.ok.inj hm
    subst this
    exact hmi
  omega

/-- After `gen_instances` on a forest of fresh nodes there are as many
instances that are not wires as there are nodes. -/
theorem gen_instances_count (fuel : Nat) (s s2 : Extractor) (inv : TreeInv s)
    (fresh : NodesFresh s) (h : gen_instances fuel s = .ok s2) :
    instance_count s2.m_instances = s2.m_ports.length + s2.m_child_primitives.length := by
  unfold gen_instances at h
  split at h
  · exact Except.noConfusion h
  · split at h
    · exact Except.noConfusion h
    · rename_i _ hlen
      have hnil : s.m_instances = [] := List.length_eq_zero.1 (not_not.1 hlen)
      have hw : NonWire s := fun r n hn => (fresh r n hn).2
      obtain ⟨g, m⟩ := gen_instances_ports_step fuel _ s s2 hw
        (fun i n hn => (inv.roots i n hn).2.2) h
      have hall : ∀ r n, s2.deref r = .ok n → Marked s2 r := by
        intro r n hn
        obtain ⟨n0, hn0, _⟩ := (g.grown r).2 n hn
        cases r with
        | port i =>
          obtain ⟨p, hp, _⟩ := (deref_port_iff s i n0).1 hn0
          have hi : i < s.m_ports.length := (List.getElem?_eq_some.1 hp).1
          exact (m i (List.mem_range.2 hi)).1
        | child j =>
          obtain ⟨i, p⟩ := reach_of_treeInv s inv j n0 hn0
          have hi : i < s.m_ports.length := by
            cases p with
            | edge e =>
              obtain ⟨x, _, hx, _⟩ := e
              obtain ⟨q, hq, _⟩ := (deref_port_iff s i x).1 hx
              exact (List.getElem?_eq_some.1 hq).1
            | step e _ =>
              obtain ⟨x, _, hx, _⟩ := e
              obtain ⟨q, hq, _⟩ := (deref_port_iff s i x).1 hx
              exact (List.getElem?_eq_some.1 hq).1
          exact (m i (List.mem_range.2 hi)).2 _ p
      have hc := g.counted
      rw [marked_count_zero s fresh, marked_count_all s2 hall, hnil] at hc
      simpa [instance_count] using hc


/-! ### The nodes before instance generation -/

theorem is_supported_primitive_in_mem (name : CppString) (req : PRIMITIVE_REQ)
    (db : PRIMITIVE_DB) :
    ∀ (table : List PRIMITIVE_DB), is_supported_primitive_in name req table = some db →
      db ∈ table := by
  intro table
  induction table with
  | nil =>
    intro h
    simp [is_supported_primitive_in] at h
  | cons d rest ih =>
    intro h
    simp only [is_supported_primitive_in] at h
    split at h
    · split at h
      · exact (Option.some.inj h) ▸ List.mem_cons_self _ _
      · exact Option.noConfusion h
    · exact List.mem_cons_of_mem _ (ih h)

theorem genesis3_not_wire :
    ∀ db ∈ genesis3_primitives, get_original_name db.name ≠ "WIRE".toList := by
  decide

theorem supported_not_wire (st : Extractor) (name : CppString) (req : PRIMITIVE_REQ)
    (db : PRIMITIVE_DB) (h : is_supported_primitive st name req = .ok (some db)) :
    get_original_name db.name ≠ "WIRE".toList := by
  unfold is_supported_primitive at h
  simp only [bind, Except.bind, pure, Except.pure] at h
  split at h
  · exact Except.noConfusion h
  · rename_i table htable
    have hin := is_supported_primitive_in_mem name req db table
      (Except.ok.inj h)
    have ht : table = genesis3_primitives := by
      unfold CppMap.at at htable
      simp only [SUPPORTED_PRIMITIVES, CppMap.find] at htable
      repeat' split at htable
      all_goals first
        | exact Except.noConfusion htable
        | simp_all
    exact genesis3_not_wire db (ht ▸ hin)

theorem nodesFresh_of_shapeEq {st st2 : Extractor} (h : ShapeEq st.deref st2.deref)
    (p : NodesFresh st) : NodesFresh st2 := by
  intro r m hm
  obtain ⟨n, hn, s⟩ := (h r).2 m hm
  rw [← s.2.2.2.2.2.1, ← s.2.2.2.2.2.2]
  exact p r n hn

theorem attach_child_fresh (st st2 : Extractor) (parent : PrimRef) (parentNode : PRIMITIVE)
    (cell : Cell) (db : PRIMITIVE_DB) (connections : CppMap CppString)
    (fresh : NodesFresh st) (hpr : st.deref parent = .ok parentNode)
    (hdb : get_original_name db.name ≠ "WIRE".toList)
    (h : attach_child st parent parentNode cell db connections = .ok st2) :
    NodesFresh st2 := by
  unfold attach_child at h
  simp only [PRIMITIVE.construct, hpr, bind, Except.bind, pure, Except.pure] at h
  refine nodesFresh_of_shapeEq (get_primitive_parameters_shape _ _ _ _ h) ?_
  have hparent_ne : parent ≠ .child st.m_child_primitives.length := by
    intro e
    rw [e] at hpr
    exact Nat.lt_irrefl _ (deref_child_lt st _ _ hpr)
  intro r n hn
  rw [deref_update] at hn
  by_cases hr : r = parent
  · subst hr
    rw [if_pos rfl, deref_push, if_neg hparent_ne, hpr] at hn
    have := Except.ok.inj hn
    subst this
    exact fresh r parentNode hpr
  · rw [if_neg hr, deref_push] at hn
    by_cases hnew : r = .child st.m_child_primitives.length
    · rw [if_pos hnew] at hn
      have := Except.ok.inj hn
      subst this
      exact ⟨rfl, hdb⟩
    · rw [if_neg hnew] at hn
      exact fresh r n hn

theorem traceClosed_nodesFresh : TraceClosed NodesFresh where
  shape := fun _ _ h p => nodesFresh_of_shapeEq h p
  attach := fun st st2 parent parentNode cell db connections p hpr _ hdb h =>
    attach_child_fresh st st2 parent parentNode cell db connections p hpr
      (supported_not_wire st cell.type _ db hdb) h

theorem deref_push_port (st : Extractor) (port : PORT_PRIMITIVE) (tracker : CppMap Nat)
    (q : PrimRef) :
    Extractor.deref
      { st with m_ports := st.m_ports ++ [port], g_standalone_tracker := tracker } q =
      if q = .port st.m_ports.length then .ok port.base else st.deref q := by
  cases q with
  | child j =>
    have : ¬ PrimRef.child j = PrimRef.port st.m_ports.length :=
      fun e => PrimRef.noConfusion e
    rw [if_neg this]
    rfl
  | port j =>
    simp only [Extractor.deref]
    by_cases h : j = st.m_ports.length
    · subst h
      simp
    · have h2 : ¬ PrimRef.port j = PrimRef.port st.m_ports.length :=
        fun e => h (PrimRef.port.inj e)
      rw [if_neg h2]
      by_cases hlt : j < st.m_ports.length
      · rw [List.getElem?_append_left hlt]
      · have hge : st.m_ports.length ≤ j := by omega
        have hn : (st.m_ports ++ [port])[j]? = none := by
          apply List.getElem?_eq_none
          simp only [List.length_append, List.length_singleton]
          omega
        rw [hn, List.getElem?_eq_none hge]

/-- The nodes before instance generation: a forest of fresh nodes. -/
theorem push_root_inv (st : Extractor) (port : PORT_PRIMITIVE) (tracker : CppMap Nat)
    (inv : TreeInv st) (fresh : NodesFresh st)
    (hparent : port.base.parent = none) (hgp : port.base.grandparent = none)
    (hport : port.base.is_port_primitive = true) (hchild : port.base.child = [])
    (hinst : port.base.inst = none)
    (hdb : get_original_name port.base.db.name ≠ "WIRE".toList) :
    TreeInv { st with m_ports := st.m_ports ++ [port], g_standalone_tracker := tracker } ∧
    NodesFresh { st with m_ports := st.m_ports ++ [port], g_standalone_tracker := tracker } := by
  have hnew : ∀ n, st.deref (.port st.m_ports.length) ≠ .ok n := by
    intro n hn
    obtain ⟨p, hp, _⟩ := (deref_port_iff st _ n).1 hn
    exact Nat.lt_irrefl _ (List.getElem?_eq_some.1 hp).1
  have old : ∀ r n, st.deref r = .ok n →
      Extractor.deref
        { st with m_ports := st.m_ports ++ [port], g_standalone_tracker := tracker } r =
        .ok n := by
    intro r n hn
    rw [deref_push_port, if_neg]
    · exact hn
    · intro e
      rw [e] at hn
      exact hnew n hn
  have back : ∀ r n,
      Extractor.deref
        { st with m_ports := st.m_ports ++ [port], g_standalone_tracker := tracker } r =
        .ok n → (r = .port st.m_ports.length ∧ n = port.base) ∨ st.deref r = .ok n := by
    intro r n hn
    rw [deref_push_port] at hn
    by_cases hr : r = .port st.m_ports.length
    · rw [if_pos hr] at hn
      exact Or.inl ⟨hr, (Except.ok.inj hn).symm⟩
    · rw [if_neg hr] at hn
      exact Or.inr hn
  constructor
  · constructor
    · intro i n hn
      rcases back _ _ hn with ⟨_, e⟩ | h
      · subst e
        exact ⟨hparent, hgp, hport⟩
      · exact inv.roots i n h
    · intro j c hc
      rcases back _ _ hc with ⟨e, _⟩ | h
      · exact PrimRef.noConfusion e
      · obtain ⟨a, pr, pn, hp, hpn, hlt, hfind, hg⟩ := inv.children j c h
        exact ⟨a, pr, pn, hp, old pr pn hpn, hlt, hfind, hg⟩
    · intro r n k x hn hx
      rcases back _ _ hn with ⟨_, e⟩ | h
      · subst e
        rw [hchild] at hx
        exact absurd hx (List.not_mem_nil _)
      · obtain ⟨j, c, hxj, hc, hcp, hck⟩ := inv.childmaps r n k x h hx
        exact ⟨j, c, hxj, old _ c hc, hcp, hck⟩
    · intro r n hn
      rcases back _ _ hn with ⟨_, e⟩ | h
      · subst e
        rw [hchild]
        exact List.Pairwise.nil
      · exact inv.ordered r n h
  · intro r n hn
    rcases back _ _ hn with ⟨_, e⟩ | h
    · subst e
      exact ⟨hinst, hdb⟩
    · exact fresh r n h

theorem port_construct_base (tracker : CppMap Nat) (db : PRIMITIVE_DB) (p : CppString)
    (c : CppMap CppString) (ps : List PORT_INFO) (b : Bool) (port : PORT_PRIMITIVE)
    (tracker2 : CppMap Nat)
    (h : PORT_PRIMITIVE.construct tracker db p c ps b = .ok (port, tracker2)) :
    port.base.parent = none ∧ port.base.grandparent = none ∧
      port.base.is_port_primitive = true ∧ port.base.child = [] ∧
      port.base.inst = none ∧ port.base.db = db := by
  unfold PORT_PRIMITIVE.construct at h
  simp only [bind, Except.bind, pure, Except.pure, throw, throwThe,
    MonadExceptOf.throw] at h
  repeat' split at h
  all_goals first
    | exact Except.noConfusion h
    | (have e := congrArg Prod.fst (Except.ok.inj h)
       simp only at e
       subst e
       exact ⟨rfl, rfl, rfl, rfl, rfl, rfl⟩)


theorem TraceClosed.and {P Q : Extractor → Prop} (hP : TraceClosed P) (hQ : TraceClosed Q) :
    TraceClosed (fun st => P st ∧ Q st) where
  shape := fun st st2 h p => ⟨hP.shape st st2 h p.1, hQ.shape st st2 h p.2⟩
  attach := fun st st2 parent parentNode cell db connections p hpr hnot hdb h =>
    ⟨hP.attach st st2 parent parentNode cell db connections p.1 hpr hnot hdb h,
     hQ.attach st st2 parent parentNode cell db connections p.2 hpr hnot hdb h⟩

theorem inv_netlist_status (st : Extractor) (b : Bool)
    (inv : TreeInv st ∧ NodesFresh st) :
    TreeInv { st with m_netlist_status := b } ∧
      NodesFresh { st with m_netlist_status := b } :=
  (traceClosed_treeInv.and traceClosed_nodesFresh).shape st _
    (ShapeEq.of_eq (fun r => by cases r <;> rfl)) inv

theorem port_cell_step (st st3 : Extractor) (b : Bool) (db : PRIMITIVE_DB)
    (req : PRIMITIVE_REQ) (name : CppString) (c : CppMap CppString) (ps : List PORT_INFO)
    (bd : Bool) (v : PORT_PRIMITIVE × CppMap Nat) (cell : Cell)
    (inv : TreeInv st ∧ NodesFresh st)
    (hdb : is_supported_primitive st cell.type req = .ok (some db))
    (hc : PORT_PRIMITIVE.construct st.g_standalone_tracker db name c ps bd = .ok v)
    (hg : get_primitive_parameters
      { st with m_netlist_status := b, m_ports := st.m_ports ++ [v.1],
                g_standalone_tracker := v.2 } cell (.port st.m_ports.length) = .ok st3) :
    TreeInv st3 ∧ NodesFresh st3 := by
  obtain ⟨h1, h2, h3, h4, h5, h6⟩ := port_construct_base _ _ _ _ _ _ v.1 v.2 hc
  have inv1 := inv_netlist_status st b inv
  have inv2 := push_root_inv _ v.1 v.2 inv1.1 inv1.2 h1 h2 h3 h4 h5
    (h6 ▸ supported_not_wire st cell.type req db hdb)
  exact (traceClosed_treeInv.and traceClosed_nodesFresh).shape _ _
    (get_primitive_parameters_shape _ _ _ _ hg) inv2

theorem trace_and_create_port_cells_inv (module : Module) (fuel : Nat)
    (port_infos : List PORT_INFO) :
    ∀ (cells : List Cell) (port_trackers : List Nat) (st st2 : Extractor),
      TreeInv st ∧ NodesFresh st →
      trace_and_create_port_cells module fuel port_infos cells port_trackers st = .ok st2 →
      TreeInv st2 ∧ NodesFresh st2 := by
  intro cells
  induction cells with
  | nil =>
    intro pt st st2 inv h
    simp only [trace_and_create_port_cells] at h
    exact (Except.ok.inj h) ▸ inv
  | cons cell rest ih =>
    intro pt st st2 inv h
    simp only [trace_and_create_port_cells, bind, Except.bind, pure, Except.pure] at h
    repeat' split at h
    all_goals first
      | exact Except.noConfusion h
      | exact ih _ _ _ inv h
      | exact ih _ _ _ (inv_netlist_status st _ inv) h
      | exact ih _ _ _ (port_cell_step st _ _ _ _ _ _ _ _ _ cell inv
          ‹is_supported_primitive st cell.type _ = Except.ok (some _)›
          ‹PORT_PRIMITIVE.construct _ _ _ _ _ _ = Except.ok _›
          ‹get_primitive_parameters _ _ _ = Except.ok _›) h

theorem get_ports_inv (module : Module) (fuel : Nat) (st st2 : Extractor) (ok : Bool)
    (inv : TreeInv st ∧ NodesFresh st) (h : get_ports module fuel st = .ok (ok, st2)) :
    TreeInv st2 ∧ NodesFresh st2 := by
  unfold get_ports at h
  simp only [bind, Except.bind, pure, Except.pure, throw, throwThe,
    MonadExceptOf.throw, trace_and_create_port] at h
  repeat' split at h
  all_goals first
    | exact Except.noConfusion h
    | (have e := congrArg Prod.snd (Except.ok.inj h)
       simp only at e
       subst e
       first
         | exact trace_and_create_port_cells_inv _ _ _ _ _ _ _ inv
             ‹trace_and_create_port_cells _ _ _ _ _ _ = Except.ok _›
         | exact (traceClosed_treeInv.and traceClosed_nodesFresh).shape st _
             (ShapeEq.of_eq (fun r => by cases r <;> rfl)) inv)


theorem clkbuf_cell_step (st : Extractor) (db : PRIMITIVE_DB) (req : PRIMITIVE_REQ)
    (name type : CppString) (c : CppMap CppString) (ps : List PORT_INFO) (bd : Bool)
    (v : PORT_PRIMITIVE × CppMap Nat) (inv : TreeInv st ∧ NodesFresh st)
    (hdb : is_supported_primitive st type req = .ok (some db))
    (hc : PORT_PRIMITIVE.construct st.g_standalone_tracker db name c ps bd = .ok v) :
    TreeInv { st with m_ports := st.m_ports ++ [v.1], g_standalone_tracker := v.2 } ∧
      NodesFresh { st with m_ports := st.m_ports ++ [v.1], g_standalone_tracker := v.2 } := by
  obtain ⟨h1, h2, h3, h4, h5, h6⟩ := port_construct_base _ _ _ _ _ _ v.1 v.2 hc
  exact push_root_inv _ v.1 v.2 inv.1 inv.2 h1 h2 h3 h4 h5
    (h6 ▸ supported_not_wire st type req db hdb)

theorem trace_fabric_clkbuf_cells_inv (module : Module) :
    ∀ (cells : List Cell) (st st2 : Extractor), TreeInv st ∧ NodesFresh st →
      trace_fabric_clkbuf_cells module cells st = .ok st2 →
      TreeInv st2 ∧ NodesFresh st2 := by
  intro cells
  induction cells with
  | nil =>
    intro st st2 inv h
    simp only [trace_fabric_clkbuf_cells] at h
    exact (Except.ok.inj h) ▸ inv
  | cons cell rest ih =>
    intro st st2 inv h
    simp only [trace_fabric_clkbuf_cells, bind, Except.bind, pure, Except.pure, throw,
      throwThe, MonadExceptOf.throw] at h
    repeat' split at h
    all_goals first
      | exact Except.noConfusion h
      | exact ih _ _ inv h
      | exact ih _ _ (clkbuf_cell_step st _ _ _ cell.type _ _ _ _ inv
          ‹is_supported_primitive st cell.type _ = Except.ok (some _)›
          ‹PORT_PRIMITIVE.construct _ _ _ _ _ _ = Except.ok _›) h

theorem trace_gearbox_fast_clock_step_inv (st st2 : Extractor) (index : Nat)
    (inv : TreeInv st ∧ NodesFresh st)
    (h : trace_gearbox_fast_clock_step st index = .ok st2) :
    TreeInv st2 ∧ NodesFresh st2 := by
  unfold trace_gearbox_fast_clock_step at h
  simp only [bind, Except.bind, pure, Except.pure, throw, throwThe,
    MonadExceptOf.throw] at h
  repeat' split at h
  all_goals first
    | exact Except.noConfusion h
    | exact (Except.ok.inj h) ▸ inv
    | (have e := Except.ok.inj h
       subst e
       exact (traceClosed_treeInv.and traceClosed_nodesFresh).shape st _
         (shapeEq_update st _ _ (fun _ => ⟨rfl, rfl, rfl, rfl, rfl, rfl, rfl⟩)) inv)

theorem trace_gearbox_fast_clock_loop_inv :
    ∀ (indices : List Nat) (st st2 : Extractor), TreeInv st ∧ NodesFresh st →
      trace_gearbox_fast_clock_loop indices st = .ok st2 →
      TreeInv st2 ∧ NodesFresh st2 := by
  intro indices
  induction indices with
  | nil =>
    intro st st2 inv h
    simp only [trace_gearbox_fast_clock_loop] at h
    exact (Except.ok.inj h) ▸ inv
  | cons index rest ih =>
    intro st st2 inv h
    simp only [trace_gearbox_fast_clock_loop, bind, Except.bind] at h
    split at h
    · exact Except.noConfusion h
    · rename_i s hs
      exact ih s st2 (trace_gearbox_fast_clock_step_inv st s index inv hs) h

theorem construct_inv (technology : CppString) (b : Bool) (tracker : CppMap Nat) :
    TreeInv { (Extractor.construct technology) with
      m_status := b, g_standalone_tracker := tracker } ∧
    NodesFresh { (Extractor.construct technology) with
      m_status := b, g_standalone_tracker := tracker } := by
  have hno : ∀ r n, Extractor.deref { (Extractor.construct technology) with
      m_status := b, g_standalone_tracker := tracker } r ≠ .ok n := by
    intro r n hn
    cases r with
    | port i => simp [Extractor.deref, Extractor.construct] at hn
    | child i => simp [Extractor.deref, Extractor.construct] at hn
  constructor
  · constructor
    · intro i n hn
      exact absurd hn (hno _ _)
    · intro i n hn
      exact absurd hn (hno _ _)
    · intro r n k x hn
      exact absurd hn (hno _ _)
    · intro r n hn
      exact absurd hn (hno _ _)
  · intro r n hn
    exact absurd hn (hno _ _)


/-! ### The phases after instance generation keep the counts -/

theorem sameCounts_refl (s : Extractor) : SameCounts s s := ⟨rfl, rfl, rfl⟩

theorem sameCounts_trans {s t u : Extractor} (h : SameCounts s t) (g : SameCounts t u) :
    SameCounts s u :=
  ⟨g.1.trans h.1, g.2.1.trans h.2.1, g.2.2.trans h.2.2⟩

theorem map_set_same {α β : Type} (f : α → β) :
    ∀ (l : List α) (j : Nat) (a b : α), l[j]? = some a → f b = f a →
      (l.set j b).map f = l.map f := by
  intro l
  induction l with
  | nil =>
    intro j a b h
    simp at h
  | cons x xs ih =>
    intro j a b h hf
    cases j with
    | zero =>
      simp only [List.getElem?_cons_zero, Option.some.injEq] at h
      subst h
      simp [hf]
    | succ j =>
      simp only [List.getElem?_cons_succ] at h
      simp only [List.set_cons_succ, List.map_cons, ih j a b h hf]

theorem stamp_parameter_module (inst inst2 : INSTANCE) (name value : CppString)
    (h : stamp_parameter inst name value = .ok inst2) : inst2.module = inst.module := by
  unfold stamp_parameter at h
  simp only [bind, Except.bind, pure, Except.pure] at h
  split at h
  · exact Except.noConfusion h
  · have e := Except.ok.inj h
    subst e
    rfl

theorem stamp_from_clock_module (st : Extractor) (r : PrimRef) (primitive : PRIMITIVE)
    (inst inst2 : INSTANCE) (h : stamp_from_clock st r primitive inst = .ok inst2) :
    inst2.module = inst.module := by
  unfold stamp_from_clock at h
  repeat' split at h
  all_goals first
    | exact Except.noConfusion h
    | exact (Except.ok.inj h) ▸ rfl
    | exact stamp_parameter_module _ _ _ _ h

theorem assign_slot_same (st st2 : Extractor) (j : Nat) (r : PrimRef)
    (primitive : PRIMITIVE) (inst : INSTANCE) (i : Nat)
    (iport inet oport onet : CppString) (fabric : FabricStatus)
    (hj : st.m_instances[j]? = some inst)
    (h : assign_slot st j r primitive inst i iport inet oport onet fabric = .ok st2) :
    SameCounts st st2 := by
  unfold assign_slot at h
  split at h
  · exact Except.noConfusion h
  · rename_i inst1 h1
    split at h
    · exact Except.noConfusion h
    · rename_i inst2 h2
      split at h
      · exact Except.noConfusion h
      · split at h
        · exact Except.noConfusion h
        · have e := Except.ok.inj h
          subst e
          refine ⟨rfl, rfl, ?_⟩
          refine map_set_same _ _ _ inst _ hj ?_
          have hm : inst2.module = inst.module :=
            (stamp_from_clock_module _ _ _ _ _ h2).trans
              (stamp_parameter_module _ _ _ _ h1)
          rw [← hm]
          split <;> rfl

theorem fabric_clock_output_same (module : Module) (j : Nat) (r : PrimRef)
    (primitive : PRIMITIVE) (is_clock_primitive : Bool) (out : CppString)
    (st : Extractor) (i : Nat) (res : Extractor × Nat)
    (h : fabric_clock_output module j r primitive is_clock_primitive out st i = .ok res) :
    SameCounts st res.1 := by
  unfold fabric_clock_output at h
  dsimp only at h
  repeat' split at h
  all_goals first
    | exact Except.noConfusion h
    | exact (Except.ok.inj h) ▸ sameCounts_refl st
    | exact (Except.ok.inj h) ▸ (⟨rfl, rfl, rfl⟩ : SameCounts st _)
    | exact (Except.ok.inj h) ▸
        assign_slot_same st _ j r primitive _ i _ _ _ _ _ ‹st.m_instances[j]? = some _›
          ‹assign_slot _ _ _ _ _ _ _ _ _ _ _ = Except.ok _›

theorem fabric_clock_outputs_same (module : Module) (j : Nat) (r : PrimRef)
    (primitive : PRIMITIVE) (is_clock_primitive : Bool) :
    ∀ (outs : List CppString) (st : Extractor) (i : Nat) (st2 : Extractor),
      fabric_clock_outputs module j r primitive is_clock_primitive outs st i = .ok st2 →
      SameCounts st st2 := by
  intro outs
  induction outs with
  | nil =>
    intro st i st2 h
    simp only [fabric_clock_outputs] at h
    exact (Except.ok.inj h) ▸ sameCounts_refl st
  | cons out rest ih =>
    intro st i st2 h
    simp only [fabric_clock_outputs] at h
    split at h
    · exact Except.noConfusion h
    · rename_i next hn
      exact sameCounts_trans (fabric_clock_output_same _ _ _ _ _ _ _ _ _ hn) (ih _ _ _ h)

theorem fabric_clock_instance_same (module : Module) (st st2 : Extractor) (j : Nat)
    (h : fabric_clock_instance module st j = .ok st2) : SameCounts st st2 := by
  unfold fabric_clock_instance at h
  dsimp only at h
  repeat' split at h
  all_goals first
    | exact Except.noConfusion h
    | exact (Except.ok.inj h) ▸ sameCounts_refl st
    | exact fabric_clock_outputs_same _ _ _ _ _ _ _ _ _ h

theorem fabric_clock_instances_same (module : Module) :
    ∀ (js : List Nat) (st st2 : Extractor),
      fabric_clock_instances module js st = .ok st2 → SameCounts st st2 := by
  intro js
  induction js with
  | nil =>
    intro st st2 h
    simp only [fabric_clock_instances] at h
    exact (Except.ok.inj h) ▸ sameCounts_refl st
  | cons j rest ih =>
    intro st st2 h
    simp only [fabric_clock_instances] at h
    split at h
    · exact Except.noConfusion h
    · rename_i s hs
      exact sameCounts_trans (fabric_clock_instance_same _ _ _ _ hs) (ih _ _ h)

theorem determine_fabric_clock_same (module : Module) (st st2 : Extractor)
    (h : determine_fabric_clock module st = .ok st2) : SameCounts st st2 := by
  unfold determine_fabric_clock at h
  repeat' split at h
  all_goals first
    | exact Except.noConfusion h
    | exact (Except.ok.inj h) ▸
        fabric_clock_instances_same _ _ _ _
          ‹fabric_clock_instances _ _ _ = Except.ok _›


theorem update_pin_info_same (st st2 : Extractor) (pin_name : CppString)
    (primitive : PRIMITIVE) (h : update_pin_info st pin_name primitive = .ok st2) :
    SameCounts st st2 := by
  unfold update_pin_info at h
  simp only [bind, Except.bind] at h
  repeat' split at h
  all_goals first
    | exact Except.noConfusion h
    | exact (Except.ok.inj h) ▸ (⟨rfl, rfl, rfl⟩ : SameCounts st _)

theorem foldlM_same {α : Type} (f : Extractor → α → Except Fault Extractor)
    (hf : ∀ s a s2, f s a = .ok s2 → SameCounts s s2) :
    ∀ (l : List α) (s s2 : Extractor), l.foldlM f s = .ok s2 → SameCounts s s2 := by
  intro l
  induction l with
  | nil =>
    intro s s2 h
    simp only [List.foldlM, pure, Except.pure] at h
    exact (Except.ok.inj h) ▸ sameCounts_refl s
  | cons a rest ih =>
    intro s s2 h
    simp only [List.foldlM, bind, Except.bind] at h
    split at h
    · exact Except.noConfusion h
    · rename_i s1 h1
      exact sameCounts_trans (hf _ _ _ h1) (ih _ _ h)

theorem store_pin_traces_same (traces full_traces : List CppString) (is_in_dir : Bool) :
    ∀ (objects : List CppString) (st st2 : Extractor),
      store_pin_traces traces full_traces is_in_dir objects st = .ok st2 →
      SameCounts st st2 := by
  intro objects
  induction objects with
  | nil =>
    intro st st2 h
    simp only [store_pin_traces] at h
    exact (Except.ok.inj h) ▸ sameCounts_refl st
  | cons object rest ih =>
    intro st st2 h
    simp only [store_pin_traces, bind, Except.bind] at h
    repeat' split at h
    all_goals first
      | exact Except.noConfusion h
      | (refine sameCounts_trans ?_ (ih _ _ h)
         exact ⟨rfl, rfl, rfl⟩)

theorem summarize_children_same
    (call : Extractor → PrimRef → List CppString → List CppString → Except Fault Extractor)
    (hcall : ∀ s c t f s2, call s c t f = .ok s2 → SameCounts s s2)
    (traces full_traces : List CppString) (is_in_dir : Bool) :
    ∀ (children : List (CppString × PrimRef)) (i : Nat) (st st2 : Extractor),
      summarize_children call traces full_traces is_in_dir children i st = .ok st2 →
      SameCounts st st2 := by
  intro children
  induction children with
  | nil =>
    intro i st st2 h
    simp only [summarize_children] at h
    exact (Except.ok.inj h) ▸ sameCounts_refl st
  | cons child rest ih =>
    intro i st st2 h
    simp only [summarize_children, bind, Except.bind] at h
    repeat' split at h
    all_goals first
      | exact Except.noConfusion h
      | exact sameCounts_trans
          (hcall _ _ _ _ _ ‹call _ _ _ _ = Except.ok _›) (ih _ _ _ h)

theorem summarize_pins_same (objects : List CppString) (is_in_dir : Bool) :
    ∀ (fuel : Nat) (st : Extractor) (r : PrimRef) (traces full_traces : List CppString)
      (st2 : Extractor),
      summarize_pins objects is_in_dir fuel st r traces full_traces = .ok st2 →
      SameCounts st st2 := by
  intro fuel
  induction fuel with
  | zero =>
    intro st r t f st2 h
    simp only [summarize_pins] at h
    exact Except.noConfusion h
  | succ fuel ih =>
    intro st r t f st2 h
    simp only [summarize_pins, bind, Except.bind] at h
    repeat' split at h
    all_goals first
      | exact Except.noConfusion h
      | exact sameCounts_trans
          (foldlM_same _ (fun s a s2 hs => update_pin_info_same s s2 a _ hs) _ _ _
            ‹List.foldlM _ _ _ = Except.ok _›)
          (summarize_children_same _ (fun s c t f s2 hs => ih s c t f s2 hs) _ _ _ _ _ _ _ h)
      | exact (Except.ok.inj h) ▸ sameCounts_trans
          (foldlM_same _ (fun s a s2 hs => update_pin_info_same s s2 a _ hs) _ _ _
            ‹List.foldlM _ _ _ = Except.ok _›)
          (store_pin_traces_same _ _ _ _ _ _ ‹store_pin_traces _ _ _ _ _ = Except.ok _›)

theorem add_pins_same (port : PORT_PRIMITIVE) (r : PrimRef) :
    ∀ (objects : List CppString) (st st2 : Extractor),
      add_pins port r objects st = .ok st2 → SameCounts st st2 := by
  intro objects
  induction objects with
  | nil =>
    intro st st2 h
    simp only [add_pins] at h
    exact (Except.ok.inj h) ▸ sameCounts_refl st
  | cons object rest ih =>
    intro st st2 h
    simp only [add_pins, bind, Except.bind] at h
    repeat' split at h
    all_goals first
      | exact Except.noConfusion h
      | (refine sameCounts_trans ?_ (ih _ _ h)
         exact ⟨rfl, rfl, rfl⟩)

theorem summarize_report_same (fuel : Nat) :
    ∀ (ports : List Nat) (st st2 : Extractor),
      summarize_report fuel ports st = .ok st2 → SameCounts st st2 := by
  intro ports
  induction ports with
  | nil =>
    intro st st2 h
    simp only [summarize_report] at h
    exact (Except.ok.inj h) ▸ sameCounts_refl st
  | cons i rest ih =>
    intro st st2 h
    simp only [summarize_report, bind, Except.bind] at h
    repeat' split at h
    all_goals first
      | exact Except.noConfusion h
      | exact sameCounts_trans
          (sameCounts_trans (add_pins_same _ _ _ _ _ ‹add_pins _ _ _ _ = Except.ok _›)
            (summarize_pins_same _ _ _ _ _ _ _ _
              ‹summarize_pins _ _ _ _ _ _ _ = Except.ok _›))
          (ih _ _ h)

theorem summarize_same (fuel : Nat) (st st2 : Extractor)
    (h : summarize fuel st = .ok st2) : SameCounts st st2 := by
  unfold summarize at h
  simp only [bind, Except.bind, pure, Except.pure, throw, throwThe,
    MonadExceptOf.throw] at h
  repeat' split at h
  all_goals first
    | exact Except.noConfusion h
    | exact summarize_report_same _ _ _ _ h


/-! ### The final check -/

theorem empty_inv (st : Extractor) (hp : st.m_ports = []) (hc : st.m_child_primitives = []) :
    TreeInv st ∧ NodesFresh st := by
  have hno : ∀ r n, st.deref r ≠ .ok n := by
    intro r n hn
    cases r with
    | port i => simp [Extractor.deref, hp] at hn
    | child i => simp [Extractor.deref, hc] at hn
  constructor
  · constructor
    · intro i n hn
      exact absurd hn (hno _ _)
    · intro i n hn
      exact absurd hn (hno _ _)
    · intro r n k x hn
      exact absurd hn (hno _ _)
    · intro r n hn
      exact absurd hn (hno _ _)
  · intro r n hn
    exact absurd hn (hno _ _)

theorem instance_count_of_modules (l l2 : List INSTANCE)
    (h : l2.map (fun inst => inst.module) = l.map (fun inst => inst.module)) :
    instance_count l2 = instance_count l := by
  have key : ∀ l : List INSTANCE, instance_count l =
      ((l.map (fun inst => inst.module)).filter
        (fun m => decide (m ≠ "WIRE".toList))).length := by
    intro l
    unfold instance_count
    rw [List.filter_map, List.length_map]
    rfl
  rw [key l2, key l, h]

theorem SameCounts.counts {s t : Extractor} (h : SameCounts s t) :
    t.m_ports.length + t.m_child_primitives.length =
      s.m_ports.length + s.m_child_primitives.length ∧
    instance_count t.m_instances = instance_count s.m_instances := by
  obtain ⟨a, b, c⟩ := h
  exact ⟨by rw [a, b], instance_count_of_modules _ _ c⟩

/-- The phases of `extract` up to the summary leave as many instances that
are not wires as there are nodes. -/
theorem pipeline_counts (module : Module) (fuel : Nat) (s0 s1 s2 s3 s4 s5 s6 s7 : Extractor)
    (ok : Bool) (hp : s0.m_ports = []) (hc : s0.m_child_primitives = [])
    (h1 : get_ports module fuel s0 = .ok (ok, s1))
    (h2 : trace_calls module fuel extract_trace_pairs s1 = .ok s2)
    (h3 : trace_fabric_clkbuf module s2 = .ok s3)
    (h4 : trace_gearbox_fast_clock s3 = .ok s4)
    (h5 : gen_instances fuel s4 = .ok s5)
    (h6 : determine_fabric_clock module s5 = .ok s6)
    (h7 : summarize fuel s6 = .ok s7) :
    instance_count s7.m_instances = s7.m_ports.length + s7.m_child_primitives.length := by
  have i1 := get_ports_inv module fuel s0 s1 ok (empty_inv s0 hp hc) h1
  have i2 := trace_calls_inv (traceClosed_treeInv.and traceClosed_nodesFresh) module fuel
    _ s1 s2 i1 h2
  have i3 := trace_fabric_clkbuf_cells_inv module _ s2 s3 i2 h3
  have i4 := trace_gearbox_fast_clock_loop_inv _ s3 s4 i3 h4
  have c5 := gen_instances_count fuel s4 s5 i4.1 i4.2 h5
  have c7 := (sameCounts_trans (determine_fabric_clock_same module s5 s6 h6)
    (summarize_same fuel s6 s7 h7)).counts
  rw [c7.1, c7.2]
  exact c5

theorem design_count_technology (s t : Extractor) (h : t.m_technology = s.m_technology) :
    ∀ cells, design_count t cells = design_count s cells := by
  intro cells
  induction cells with
  | nil => rfl
  | cons cell rest ih =>
    simp only [design_count, is_supported_primitive, h, ih]

theorem finalize_verdict (s st : Extractor) (module : Module) (verdict : FinalCheck)
    (h : finalize s module = .ok (st, verdict)) :
    st.m_ports = s.m_ports ∧ st.m_child_primitives = s.m_child_primitives ∧
    st.m_instances = s.m_instances ∧
    ∃ N, design_count st module.cells = .ok N ∧
      (verdict = FinalCheck.good ↔
        N = s.m_ports.length + s.m_child_primitives.length ∧
        N = instance_count s.m_instances) := by
  unfold finalize at h
  simp only [bind, Except.bind, pure, Except.pure] at h
  split at h
  · exact Except.noConfusion h
  · rename_i N hN
    split at h
    · rename_i hgood
      have e := Except.ok.inj h
      have e1 : s = st := congrArg Prod.fst e
      have e2 : FinalCheck.good = verdict := congrArg Prod.snd e
      subst e1
      subst e2
      exact ⟨rfl, rfl, rfl, N, hN, fun _ => hgood, fun _ => rfl⟩
    · rename_i hbad
      repeat' split at h
      all_goals first
        | exact Except.noConfusion h
        | (have e := Except.ok.inj h
           have e1 := congrArg Prod.fst e
           have e2 := congrArg Prod.snd e
           simp only at e1 e2
           subst e1
           subst e2
           refine ⟨rfl, rfl, rfl, N, ?_, fun hv => FinalCheck.noConfusion hv,
             fun hg => absurd hg hbad⟩
           refine Eq.trans ?_ hN
           exact design_count_technology s { s with m_netlist_status := false } rfl _)


set_option maxRecDepth 100000 in
/-- Counterexample to C7 as stated: in `example_untraced_delay` two cells
have a type of the genesis3 descriptor table, `extract` returns `true`, and
there are one node and one instance only; `finalize` reports that the final
check failed, with the counts 2, 1 and 1. -/
theorem C7_counterexample_untraced_delay :
    design_count (Extractor.construct "genesis3".toList) example_untraced_delay.cells =
      .ok 2 ∧
    (extract example_untraced_delay 10 (Extractor.construct "genesis3".toList)).map
      (fun result => (result.1,
        result.2.1.m_ports.length + result.2.1.m_child_primitives.length,
        instance_count result.2.1.m_instances)) = .ok (true, 1, 1) ∧
    (extract example_untraced_delay 10 (Extractor.construct "genesis3".toList)).map
      (fun result => result.2.2.map FinalCheck.counts) = .ok (some (some (2, 1, 1))) := by
  refine ⟨?_, ?_, ?_⟩ <;> decide

/-- C7, amended: whenever `extract` on a fresh extractor runs up to
`finalize`, the number of nodes (roots plus traced children) equals the
number of flattened instances that are not wires, and `finalize` reports
`Final checking is good` exactly when the number `N` of cells with a type
of the descriptor table, as `finalize` counts them, equals that number. -/
theorem C7_nodes_match_instances_and_good_iff_all_counted (module : Module) (fuel : Nat)
    (technology : CppString) (ret : Bool) (st : Extractor) (verdict : FinalCheck)
    (h : extract module fuel (Extractor.construct technology) =
      .ok (ret, st, some verdict)) :
    st.m_ports.length + st.m_child_primitives.length = instance_count st.m_instances ∧
    ∃ N, design_count st module.cells = .ok N ∧
      (verdict = FinalCheck.good ↔
        N = st.m_ports.length + st.m_child_primitives.length) := by
  unfold extract at h
  simp only [bind, Except.bind, pure, Except.pure] at h
  repeat' split at h
  all_goals first
    | exact Except.noConfusion h
    | exact Option.noConfusion (congrArg (fun o => o.2.2) (Except.ok.inj h))
    | skip
  have e := Except.ok.inj h
  have e1 := congrArg (fun o => o.2.1) e
  have e2 := Option.some.inj (congrArg (fun o => o.2.2) e)
  simp only at e1 e2
  obtain ⟨a, b, c, N, hN, hiff⟩ := finalize_verdict _ _ module _ ‹finalize _ _ = Except.ok _›
  have hc := pipeline_counts module fuel _ _ _ _ _ _ _ _ _ rfl rfl
    ‹get_ports _ _ _ = Except.ok _› ‹trace_calls _ _ _ _ = Except.ok _›
    ‹trace_fabric_clkbuf _ _ = Except.ok _› ‹trace_gearbox_fast_clock _ = Except.ok _›
    ‹gen_instances _ _ = Except.ok _› ‹determine_fabric_clock _ _ = Except.ok _›
    ‹summarize _ _ = Except.ok _›
  rw [← e1, ← e2, a, b, c]
  refine ⟨hc.symm, N, hN, ?_⟩
  rw [hiff]
  constructor
  · intro x
    exact x.1
  · intro x
    exact ⟨x, x.trans hc.symm⟩

set_option maxRecDepth 100000 in
/-- Witness for C7: the run of `extract` on the example with a clock buffer
and a delay behind one input buffer, where all three cells are traced. -/
theorem C7_nodes_match_instances_and_good_iff_all_counted_witness :
    extract example_clock_and_delay 10 (Extractor.construct "genesis3".toList) =
      .ok (true, example_clock_and_delay_extracted.2.1, some FinalCheck.good) ∧
    (example_clock_and_delay_extracted.2.1.m_ports.length +
        example_clock_and_delay_extracted.2.1.m_child_primitives.length =
      instance_count example_clock_and_delay_extracted.2.1.m_instances ∧
    ∃ N, design_count example_clock_and_delay_extracted.2.1
        example_clock_and_delay.cells = .ok N ∧
      (FinalCheck.good = FinalCheck.good ↔
        N = example_clock_and_delay_extracted.2.1.m_ports.length +
          example_clock_and_delay_extracted.2.1.m_child_primitives.length)) :=
  have hrun : extract example_clock_and_delay 10 (Extractor.construct "genesis3".toList) =
      .ok (true, example_clock_and_delay_extracted.2.1, some FinalCheck.good) := by
    decide
  ⟨hrun, C7_nodes_match_instances_and_good_iff_all_counted example_clock_and_delay 10
    "genesis3".toList true example_clock_and_delay_extracted.2.1 FinalCheck.good hrun⟩


/-! ### Decimal texts -/

theorem digitChar_value (m : Nat) (h : m < 10) :
    (Nat.digitChar m).toNat - 48 = m ∧ Nat.digitChar m ≠ '-' := by
  interval_cases m <;> decide

theorem toDigitsCore_decimal :
    ∀ (fuel n : Nat) (ds : CppString), n < fuel →
      decimalValue (Nat.toDigitsCore 10 fuel n ds) =
        ds.foldl (fun a c => 10 * a + (c.toNat - 48)) n := by
  intro fuel
  induction fuel with
  | zero =>
    intro n ds h
    omega
  | succ fuel ih =>
    intro n ds h
    have hd := (digitChar_value (n % 10) (Nat.mod_lt n (by decide))).1
    by_cases h0 : n / 10 = 0
    · have hlt : n < 10 := by omega
      have hm : n % 10 = n := Nat.mod_eq_of_lt hlt
      have hd2 := (digitChar_value n hlt).1
      simp only [Nat.toDigitsCore, h0, if_true, decimalValue, List.foldl_cons, hm, hd2]
      simp
    · have hlt : n / 10 < fuel := by omega
      simp only [Nat.toDigitsCore, h0, if_false]
      rw [ih (n / 10) _ hlt]
      simp only [List.foldl_cons, hd]
      congr 1
      omega

theorem toDigits_decimal (n : Nat) : decimalValue (Nat.toDigits 10 n) = n := by
  unfold Nat.toDigits
  rw [toDigitsCore_decimal (n + 1) n [] (Nat.lt_succ_self n)]
  rfl

theorem toDigits_injective (a b : Nat) (h : Nat.toDigits 10 a = Nat.toDigits 10 b) :
    a = b := by
  have := congrArg decimalValue h
  rwa [toDigits_decimal, toDigits_decimal] at this

theorem toDigitsCore_no_minus :
    ∀ (fuel n : Nat) (ds : CppString), (∀ c ∈ ds, c ≠ '-') →
      ∀ c ∈ Nat.toDigitsCore 10 fuel n ds, c ≠ '-' := by
  intro fuel
  induction fuel with
  | zero =>
    intro n ds h
    simpa [Nat.toDigitsCore] using h
  | succ fuel ih =>
    intro n ds h
    have hd := (digitChar_value (n % 10) (Nat.mod_lt n (by decide))).2
    have hcons : ∀ c ∈ Nat.digitChar (n % 10) :: ds, c ≠ '-' := by
      intro c hc
      rcases List.mem_cons.1 hc with e | hm
      · exact e ▸ hd
      · exact h c hm
    by_cases h0 : n / 10 = 0
    · simp only [Nat.toDigitsCore, h0, if_true]
      exact hcons
    · simp only [Nat.toDigitsCore, h0, if_false]
      exact ih _ _ hcons

theorem fmt_d_injective (a b : Int) (h : fmt_d a = fmt_d b) : a = b := by
  unfold fmt_d at h
  have nominus : ∀ n, ∀ c ∈ Nat.toDigits 10 n, c ≠ '-' := fun n =>
    toDigitsCore_no_minus (n + 1) n [] (fun c hc => absurd hc (List.not_mem_nil c))
  by_cases ha : a < 0
  · by_cases hb : b < 0
    · rw [if_pos ha, if_pos hb] at h
      have := toDigits_injective _ _ (List.cons.inj h).2
      omega
    · rw [if_pos ha, if_neg hb] at h
      have hm : '-' ∈ Nat.toDigits 10 b.toNat := by
        rw [← h]
        exact List.mem_cons_self _ _
      exact absurd rfl (nominus _ _ hm)
  · by_cases hb : b < 0
    · rw [if_neg ha, if_pos hb] at h
      have hm : '-' ∈ Nat.toDigits 10 a.toNat := by
        rw [h]
        exact List.mem_cons_self _ _
      exact absurd rfl (nominus _ _ hm)
    · rw [if_neg ha, if_neg hb] at h
      have := toDigits_injective _ _ h
      omega

theorem int_of_uint32_injective (a b : Nat) (ha : a < 2 ^ 32) (hb : b < 2 ^ 32)
    (h : int_of_uint32 a = int_of_uint32 b) : a = b := by
  unfold int_of_uint32 at h
  rw [Nat.mod_eq_of_lt ha, Nat.mod_eq_of_lt hb] at h
  split at h <;> split at h <;> omega

/-- Below `2 ^ 32` different slot numbers have different texts. -/
theorem slot_text_injective (a b : Nat) (ha : a < 2 ^ 32) (hb : b < 2 ^ 32)
    (h : slot_text a = slot_text b) : a = b :=
  int_of_uint32_injective a b ha hb (fmt_d_injective _ _ h)


/-! ### Slot assignment -/

theorem stamp_parameter_fields (inst inst2 : INSTANCE) (name value : CppString)
    (h : stamp_parameter inst name value = .ok inst2) :
    inst2.name = inst.name ∧ inst2.module = inst.module ∧
      inst2.primitive = inst.primitive ∧
      inst2.parameters = CppMap.set inst.parameters name value := by
  unfold stamp_parameter at h
  simp only [bind, Except.bind, pure, Except.pure] at h
  split at h
  · exact Except.noConfusion h
  · have e := Except.ok.inj h
    subst e
    exact ⟨rfl, rfl, rfl, rfl⟩

theorem stamp_from_clock_fields (st : Extractor) (r : PrimRef) (primitive : PRIMITIVE)
    (inst inst2 : INSTANCE) (h : stamp_from_clock st r primitive inst = .ok inst2) :
    inst2.name = inst.name ∧ inst2.module = inst.module ∧
      inst2.primitive = inst.primitive ∧
      (inst2.parameters = inst.parameters ∨
        ∃ v, inst2.parameters =
          CppMap.set inst.parameters "ROUTE_FROM_FABRIC_CLK".toList v) := by
  unfold stamp_from_clock at h
  repeat' split at h
  all_goals first
    | exact Except.noConfusion h
    | exact (Except.ok.inj h) ▸ ⟨rfl, rfl, rfl, Or.inl rfl⟩
    | (obtain ⟨a, b, c, d⟩ := stamp_parameter_fields _ _ _ _ h
       exact ⟨a, b, c, Or.inr ⟨_, d⟩⟩)

theorem route_name_ne_from (db : PRIMITIVE_DB) (i : Nat) :
    route_to_fabric_name db i ≠ "ROUTE_FROM_FABRIC_CLK".toList := by
  unfold route_to_fabric_name
  split
  · intro h
    have h2 : 'O' = 'R' := (List.cons.inj h).1
    exact absurd h2 (by decide)
  · decide

theorem route_name_injective (db : PRIMITIVE_DB) (i1 i2 : Nat) (h1 : i1 < i2)
    (h2 : i2 < db.outputs.length) (hb : db.outputs.length < 2 ^ 32) :
    route_to_fabric_name db i1 ≠ route_to_fabric_name db i2 := by
  unfold route_to_fabric_name
  split
  · intro h
    rw [List.append_assoc, List.append_assoc] at h
    have h3 := List.append_cancel_right (List.append_cancel_left h)
    have := int_of_uint32_injective i1 i2 (by omega) (by omega) (fmt_d_injective _ _ h3)
    omega
  · omega

theorem assign_slot_effect (st st2 : Extractor) (j : Nat) (r : PrimRef)
    (primitive : PRIMITIVE) (inst : INSTANCE) (i : Nat)
    (iport inet oport onet : CppString) (fabric : FabricStatus)
    (h : assign_slot st j r primitive inst i iport inet oport onet fabric = .ok st2) :
    ∃ inst2 record,
      st2.m_instances = st.m_instances.set j inst2 ∧
      st2.m_fabric_clocks = st.m_fabric_clocks ++ [record] ∧
      st2.m_ports = st.m_ports ∧ st2.m_child_primitives = st.m_child_primitives ∧
      inst2.name = inst.name ∧ inst2.module = inst.module ∧
      inst2.primitive = inst.primitive ∧
      record.name = inst.name ∧ record.module = inst.module ∧
      CppMap.find inst2.parameters (route_to_fabric_name primitive.db i) =
        some (slot_text st.m_fabric_clocks.length) ∧
      ∀ name, name ≠ route_to_fabric_name primitive.db i →
        name ≠ "ROUTE_FROM_FABRIC_CLK".toList →
        CppMap.find inst2.parameters name = CppMap.find inst.parameters name := by
  unfold assign_slot at h
  split at h
  · exact Except.noConfusion h
  · rename_i inst1 h1
    split at h
    · exact Except.noConfusion h
    · rename_i inst2 h2
      split at h
      · exact Except.noConfusion h
      · split at h
        · exact Except.noConfusion h
        · have e := Except.ok.inj h
          subst e
          obtain ⟨a1, b1, c1, d1⟩ := stamp_parameter_fields _ _ _ _ h1
          obtain ⟨a2, b2, c2, d2⟩ := stamp_from_clock_fields _ _ _ _ _ h2
          have hname : inst2.name = inst.name := a2.trans a1
          have hmod : inst2.module = inst.module := b2.trans b1
          have hprim : inst2.primitive = inst.primitive := c2.trans c1
          have hslot : CppMap.find inst2.parameters (route_to_fabric_name primitive.db i) =
              some (slot_text st.m_fabric_clocks.length) := by
            rcases d2 with e | ⟨v, e⟩
            · rw [e, d1]
              exact CppMap.find_set_self _ _ _
            · rw [e, CppMap.find_set_ne _ _ _ _ (route_name_ne_from _ _), d1]
              exact CppMap.find_set_self _ _ _
          have hother : ∀ name, name ≠ route_to_fabric_name primitive.db i →
              name ≠ "ROUTE_FROM_FABRIC_CLK".toList →
              CppMap.find inst2.parameters name = CppMap.find inst.parameters name := by
            intro name n1 n2
            rcases d2 with e | ⟨v, e⟩
            · rw [e, d1]
              exact CppMap.find_set_ne _ _ _ _ n1
            · rw [e, CppMap.find_set_ne _ _ _ _ n2, d1]
              exact CppMap.find_set_ne _ _ _ _ n1
          refine ⟨_, _, rfl, rfl, rfl, rfl, ?_, ?_, ?_, hname, hmod, ?_, ?_⟩
          · split <;> exact hname
          · split <;> exact hmod
          · split <;> exact hprim
          · split <;> exact hslot
          · intro name n1 n2
            split <;> exact hother name n1 n2


theorem deref_congr (s t : Extractor) (hp : t.m_ports = s.m_ports)
    (hc : t.m_child_primitives = s.m_child_primitives) (r : PrimRef) :
    t.deref r = s.deref r := by
  cases r <;> simp [Extractor.deref, hp, hc]

theorem idle_refl (st : Extractor) : Idle st st := ⟨rfl, rfl, rfl, rfl⟩

theorem fabric_clock_output_closed {Q : Extractor → Nat → Nat → Prop} (hQ : SlotClosed Q)
    (module : Module) (J : Nat) (r : PrimRef) (p : PRIMITIVE) (is_clock_primitive : Bool)
    (out : CppString) (st : Extractor) (I : Nat) (res : Extractor × Nat)
    (hctx : ∀ inst, st.m_instances[J]? = some inst → inst.primitive = some r)
    (hp : st.deref r = .ok p) (hI : I < p.db.outputs.length) (q : Q st J I)
    (h : fabric_clock_output module J r p is_clock_primitive out st I = .ok res) :
    Q res.1 J res.2 ∧ res.2 ≤ I + 1 ∧
      (∀ inst, res.1.m_instances[J]? = some inst → inst.primitive = some r) ∧
      res.1.deref r = .ok p := by
  unfold fabric_clock_output at h
  dsimp only at h
  repeat' split at h
  all_goals first
    | exact Except.noConfusion h
    | (have e := Except.ok.inj h
       subst e
       exact ⟨hQ.idle st _ J I _ ⟨rfl, rfl, rfl, rfl⟩ (by omega) q, by simp, hctx, hp⟩)
    | (have e := Except.ok.inj h
       subst e
       have hinst := ‹st.m_instances[J]? = some _›
       have hslot := ‹assign_slot _ _ _ _ _ _ _ _ _ _ _ = Except.ok _›
       obtain ⟨inst2, record, e1, _, e3, e4, _, _, e7, _⟩ :=
         assign_slot_effect _ _ _ _ _ _ _ _ _ _ _ _ hslot
       refine ⟨hQ.slot st _ J I r p _ _ _ _ _ _ q hinst (hctx _ hinst) hp hI hslot,
         Nat.le_refl _, ?_, ?_⟩
       · intro inst3 h3
         rw [e1, List.getElem?_set] at h3
         simp only [if_true] at h3
         split at h3
         · exact (Option.some.inj h3) ▸ (e7.trans (hctx _ hinst))
         · exact Option.noConfusion h3
       · exact (deref_congr st _ e3 e4 r).trans hp)

theorem fabric_clock_outputs_closed {Q : Extractor → Nat → Nat → Prop} (hQ : SlotClosed Q)
    (module : Module) (J : Nat) (r : PrimRef) (p : PRIMITIVE) (is_clock_primitive : Bool) :
    ∀ (outs : List CppString) (st : Extractor) (I : Nat) (st2 : Extractor),
      (∀ inst, st.m_instances[J]? = some inst → inst.primitive = some r) →
      st.deref r = .ok p → I + outs.length ≤ p.db.outputs.length → Q st J I →
      fabric_clock_outputs module J r p is_clock_primitive outs st I = .ok st2 →
      ∃ I2, Q st2 J I2 := by
  intro outs
  induction outs with
  | nil =>
    intro st I st2 _ _ _ q h
    simp only [fabric_clock_outputs] at h
    exact ⟨I, (Except.ok.inj h) ▸ q⟩
  | cons out rest ih =>
    intro st I st2 hctx hp hI q h
    simp only [fabric_clock_outputs] at h
    split at h
    · exact Except.noConfusion h
    · rename_i next hn
      simp only [List.length_cons] at hI
      obtain ⟨q2, hle, hctx2, hp2⟩ :=
        fabric_clock_output_closed hQ module J r p _ out st I next hctx hp (by omega) q hn
      exact ih next.1 next.2 st2 hctx2 hp2 (by omega) q2 h

theorem fabric_clock_instance_closed {Q : Extractor → Nat → Nat → Prop} (hQ : SlotClosed Q)
    (module : Module) (st st2 : Extractor) (J : Nat) (q : Q st J 0)
    (h : fabric_clock_instance module st J = .ok st2) : ∃ I2, Q st2 J I2 := by
  unfold fabric_clock_instance at h
  dsimp only at h
  repeat' split at h
  all_goals first
    | exact Except.noConfusion h
    | exact ⟨0, (Except.ok.inj h) ▸ q⟩
    | (have hinst := ‹st.m_instances[J]? = some _›
       have hprim := ‹INSTANCE.primitive _ = some _›
       refine fabric_clock_outputs_closed hQ module J _ _ _ _ st 0 st2 ?_
         ‹Extractor.deref st _ = Except.ok _› (by omega) q h
       intro inst3 h3
       rw [hinst] at h3
       exact (Option.some.inj h3) ▸ hprim)

theorem fabric_clock_instances_closed {Q : Extractor → Nat → Nat → Prop}
    (hQ : SlotClosed Q) (module : Module) :
    ∀ (n J : Nat) (st st2 : Extractor), Q st J 0 →
      fabric_clock_instances module (List.range' J n) st = .ok st2 → Q st2 (J + n) 0 := by
  intro n
  induction n with
  | zero =>
    intro J st st2 q h
    simp only [List.range', fabric_clock_instances] at h
    exact (Except.ok.inj h) ▸ q
  | succ n ih =>
    intro J st st2 q h
    simp only [List.range', fabric_clock_instances] at h
    split at h
    · exact Except.noConfusion h
    · rename_i s hs
      obtain ⟨I2, q2⟩ := fabric_clock_instance_closed hQ module st s J q hs
      have := ih (J + 1) s st2 (hQ.next s J I2 q2) h
      rwa [Nat.add_assoc, Nat.add_comm 1 n] at this

theorem determine_fabric_clock_closed {Q : Extractor → Nat → Nat → Prop}
    (hQ : SlotClosed Q) (module : Module) (st st2 : Extractor) (q : Q st 0 0)
    (h : determine_fabric_clock module st = .ok st2) : ∃ J, Q st2 J 0 := by
  unfold determine_fabric_clock at h
  repeat' split at h
  all_goals first
    | exact Except.noConfusion h
    | (have hrun := ‹fabric_clock_instances _ _ _ = Except.ok _›
       rw [List.range_eq_range'] at hrun
       have e := Except.ok.inj h
       subst e
       exact ⟨_, fabric_clock_instances_closed hQ module _ 0 st _ q hrun⟩)


theorem getElem?_set_self {α : Type} (l : List α) (J : Nat) (a b : α)
    (h : l[J]? = some a) : (l.set J b)[J]? = some b := by
  have hlt : J < l.length := (List.getElem?_eq_some.1 h).1
  rw [List.getElem?_set]
  simp [hlt]

theorem getElem?_set_other {α : Type} (l : List α) (J j : Nat) (b : α) (h : j ≠ J) :
    (l.set J b)[j]? = l[j]? := by
  rw [List.getElem?_set, if_neg (fun e : J = j => h e.symm)]

theorem getElem?_append_single {α : Type} (l : List α) (x y : α) (k : Nat)
    (h : (l ++ [x])[k]? = some y) :
    (k < l.length ∧ l[k]? = some y) ∨ (k = l.length ∧ y = x) := by
  by_cases hlt : k < l.length
  · rw [List.getElem?_append_left hlt] at h
    exact Or.inl ⟨hlt, h⟩
  · right
    have hk : k < (l ++ [x]).length := (List.getElem?_eq_some.1 h).1
    simp only [List.length_append, List.length_singleton] at hk
    have hkl : k = l.length := by omega
    subst hkl
    simp at h
    exact ⟨rfl, h.symm⟩

theorem SlotOwned.idle {st st2 : Extractor} (h : Idle st st2) {k : Nat}
    {record : FABRIC_CLOCK} {j i : Nat} (o : SlotOwned st k record j i) :
    SlotOwned st2 k record j i := by
  obtain ⟨inst, r, p, h1, h2, h3, h4, h5, h6, h7⟩ := o
  exact ⟨inst, r, p, h.1 ▸ h1, h2, h3, h4, (deref_congr st st2 h.2.2.1 h.2.2.2 r).trans h5,
    h6, h7⟩

theorem slotClosed_slotsInOrder (n0 : Nat) : SlotClosed (SlotsInOrder n0) where
  idle := by
    intro st st2 J I I2 hidle hle q
    obtain ⟨hb, owner, inv⟩ := q
    refine ⟨fun r n hn => hb r n ((deref_congr st st2 hidle.2.2.1 hidle.2.2.2 r).symm.trans hn),
      owner, ?_, ?_, ?_⟩
    · intro k record hk hrec
      rw [hidle.2.1] at hrec
      exact (inv.owned k record hk hrec).idle hidle
    · intro k hk hlt
      rw [hidle.2.1] at hlt
      rcases inv.bound k hk hlt with a | ⟨a, b⟩
      · exact Or.inl a
      · exact Or.inr ⟨a, Nat.lt_of_lt_of_le b hle⟩
    · intro k1 k2 h1 h2 h3
      rw [hidle.2.1] at h3
      exact inv.order k1 k2 h1 h2 h3
  next := by
    intro st J I q
    obtain ⟨hb, owner, inv⟩ := q
    refine ⟨hb, owner, inv.owned, ?_, inv.order⟩
    intro k hk hlt
    rcases inv.bound k hk hlt with a | ⟨a, _⟩
    · exact Or.inl (Nat.lt_succ_of_lt a)
    · exact Or.inl (by simp only at a; omega)
  slot := by
    intro st st2 J I r p inst iport inet oport onet fabric q hinst hprim hp hI h
    obtain ⟨hb, owner, inv⟩ := q
    obtain ⟨inst2, record, e1, e2, e3, e4, n1, n2, n3, r1, r2, hslot, hother⟩ :=
      assign_slot_effect _ _ _ _ _ _ _ _ _ _ _ _ h
    have hderef : ∀ q, st2.deref q = st.deref q := deref_congr st st2 e3 e4
    have hJ : st2.m_instances[J]? = some inst2 := by
      rw [e1]
      exact getElem?_set_self _ _ _ _ hinst
    have hlen : st2.m_fabric_clocks.length = st.m_fabric_clocks.length + 1 := by
      rw [e2, List.length_append, List.length_singleton]
    refine ⟨fun q n hn => hb q n ((hderef q).symm.trans hn),
      fun k => if k = st.m_fabric_clocks.length then (J, I) else owner k, ?_, ?_, ?_⟩
    · intro k rec hk hrec
      rw [e2] at hrec
      rcases getElem?_append_single _ _ _ _ hrec with ⟨hlt, hold⟩ | ⟨hkl, hy⟩
      · have hne : k ≠ st.m_fabric_clocks.length := by omega
        simp only [if_neg hne]
        obtain ⟨instk, rk, pk, h1, h2, h3, h4, h5, h6, h7⟩ := inv.owned k rec hk hold
        by_cases hj : (owner k).1 = J
        · rw [hj] at h1
          rw [hinst] at h1
          have hi := Option.some.inj h1
          subst hi
          rw [hprim] at h4
          have hr := Option.some.inj h4
          subst hr
          rw [hp] at h5
          have hpp := Except.ok.inj h5
          subst hpp
          have hlt2 : (owner k).2 < I := by
            rcases inv.bound k hk hlt with a | ⟨_, b⟩
            · exact absurd hj (Nat.ne_of_lt a)
            · exact b
          refine ⟨inst2, r, p, hj ▸ hJ, n1.trans h2, n2.trans h3, n3.trans hprim,
            (hderef r).trans hp, h6, ?_⟩
          rw [hother _ (route_name_injective p.db _ _ hlt2 hI (hb r p hp))
            (route_name_ne_from _ _)]
          exact h7
        · refine ⟨instk, rk, pk, ?_, h2, h3, h4, (hderef rk).trans h5, h6, h7⟩
          rw [e1, getElem?_set_other _ _ _ _ hj]
          exact h1
      · subst hy
        simp only [if_pos hkl]
        refine ⟨inst2, r, p, hJ, n1.trans r1.symm, n2.trans r2.symm, n3.trans hprim,
          (hderef r).trans hp, hI, ?_⟩
        rw [hkl]
        exact hslot
    · intro k hk hlt
      rw [hlen] at hlt
      by_cases hkl : k = st.m_fabric_clocks.length
      · simp only [if_pos hkl]
        exact Or.inr ⟨rfl, Nat.lt_succ_self I⟩
      · simp only [if_neg hkl]
        rcases inv.bound k hk (by omega) with a | ⟨a, b⟩
        · exact Or.inl a
        · exact Or.inr ⟨a, Nat.lt_succ_of_lt b⟩
    · intro k1 k2 h1 h2 h3
      rw [hlen] at h3
      have hne1 : k1 ≠ st.m_fabric_clocks.length := by omega
      simp only [if_neg hne1]
      by_cases hkl : k2 = st.m_fabric_clocks.length
      · simp only [if_pos hkl]
        exact inv.bound k1 h1 (by omega)
      · simp only [if_neg hkl]
        exact inv.order k1 k2 h1 h2 (by omega)


theorem outputs_bounded (st : Extractor)
    (hports : ∀ p ∈ st.m_ports, p.base.db.outputs.length < 2 ^ 32)
    (hchildren : ∀ c ∈ st.m_child_primitives, c.db.outputs.length < 2 ^ 32) :
    ∀ r n, st.deref r = .ok n → n.db.outputs.length < 2 ^ 32 := by
  intro r n hn
  cases r with
  | port i =>
    obtain ⟨p, hp, hb⟩ := (deref_port_iff st i n).1 hn
    exact hb ▸ hports p (List.getElem?_mem hp)
  | child j =>
    exact hchildren n (List.getElem?_mem ((deref_child_iff st j n).1 hn))

/-- C8: after `determine_fabric_clock` every `FABRIC_CLOCK` record the call
created, at position `k` of `m_fabric_clocks`, has an owning instance (same
module and name) whose route-to-fabric parameter for one of its outputs
holds the text of `k`; records created later belong to outputs met later
(by instance position, then by output counter), so the slots are the
consecutive positions in encounter order; and below `2 ^ 32` different
slots have different texts, so no two records share a slot. -/
theorem C8_fabric_clock_slots_follow_encounter_order (module : Module)
    (st st2 : Extractor)
    (hports : ∀ p ∈ st.m_ports, p.base.db.outputs.length < 2 ^ 32)
    (hchildren : ∀ c ∈ st.m_child_primitives, c.db.outputs.length < 2 ^ 32)
    (h : determine_fabric_clock module st = .ok st2) :
    ∃ owner : Nat → Nat × Nat,
      (∀ k record, st.m_fabric_clocks.length ≤ k →
        st2.m_fabric_clocks[k]? = some record →
        SlotOwned st2 k record (owner k).1 (owner k).2) ∧
      (∀ k1 k2, st.m_fabric_clocks.length ≤ k1 → k1 < k2 →
        k2 < st2.m_fabric_clocks.length → MetBefore (owner k1) (owner k2)) ∧
      (∀ k1 k2, k1 < 2 ^ 32 → k2 < 2 ^ 32 → slot_text k1 = slot_text k2 → k1 = k2) := by
  have start : SlotsInOrder st.m_fabric_clocks.length st 0 0 := by
    refine ⟨outputs_bounded st hports hchildren, fun _ => (0, 0), ?_, ?_, ?_⟩
    · intro k record hk hrec
      have := (List.getElem?_eq_some.1 hrec).1
      omega
    · intro k hk hlt
      omega
    · intro k1 k2 h1 h2 h3
      omega
  obtain ⟨J, _, owner, inv⟩ :=
    determine_fabric_clock_closed (slotClosed_slotsInOrder _) module st st2 start h
  exact ⟨owner, inv.owned, inv.order, slot_text_injective⟩

set_option maxRecDepth 100000 in
/-- Witness for C8: `determine_fabric_clock` on the example with a clock
buffer and a delay behind one input buffer, which records one fabric
clock. -/
theorem C8_fabric_clock_slots_follow_encounter_order_witness :
    determine_fabric_clock example_clock_and_delay example_clock_and_delay_generated =
      .ok example_clock_and_delay_slotted ∧
    example_clock_and_delay_slotted.m_fabric_clocks.length = 1 ∧
    ∃ owner : Nat → Nat × Nat,
      (∀ k record, example_clock_and_delay_generated.m_fabric_clocks.length ≤ k →
        example_clock_and_delay_slotted.m_fabric_clocks[k]? = some record →
        SlotOwned example_clock_and_delay_slotted k record (owner k).1 (owner k).2) ∧
      (∀ k1 k2, example_clock_and_delay_generated.m_fabric_clocks.length ≤ k1 → k1 < k2 →
        k2 < example_clock_and_delay_slotted.m_fabric_clocks.length →
        MetBefore (owner k1) (owner k2)) ∧
      (∀ k1 k2, k1 < 2 ^ 32 → k2 < 2 ^ 32 → slot_text k1 = slot_text k2 → k1 = k2) :=
  have hrun : determine_fabric_clock example_clock_and_delay
      example_clock_and_delay_generated = .ok example_clock_and_delay_slotted := by
    decide
  ⟨hrun, by decide,
    C8_fabric_clock_slots_follow_encounter_order example_clock_and_delay
      example_clock_and_delay_generated example_clock_and_delay_slotted
      (by decide) (by decide) hrun⟩

theorem slotClosed_paramInv (st0 : Extractor) (n0 : Nat) :
    SlotClosed (fun st _ _ => ParamInv st0 n0 st) where
  idle := by
    intro st st2 J I I2 hidle _ q
    refine ⟨hidle.2.1 ▸ q.1, ?_⟩
    intro j inst name v hj hv
    rw [hidle.1] at hj
    rw [hidle.2.1]
    exact q.2 j inst name v hj hv
  next := fun _ _ _ q => q
  slot := by
    intro st st2 J I r p inst iport inet oport onet fabric q hinst hprim hp hI h
    obtain ⟨inst2, record, e1, e2, _, _, _, _, _, _, _, hslot, hother⟩ :=
      assign_slot_effect _ _ _ _ _ _ _ _ _ _ _ _ h
    have hlen : st2.m_fabric_clocks.length = st.m_fabric_clocks.length + 1 := by
      rw [e2, List.length_append, List.length_singleton]
    have hn0 := q.1
    refine ⟨by omega, ?_⟩
    intro j instj name v hj hv
    have old : ∀ i0, st.m_instances[j]? = some i0 →
        CppMap.find i0.parameters name = some v →
        (∃ inst0 : INSTANCE, st0.m_instances[j]? = some inst0 ∧
          CppMap.find inst0.parameters name = some v) ∨
        name = "ROUTE_FROM_FABRIC_CLK".toList ∨
        ∃ k, n0 ≤ k ∧ k < st2.m_fabric_clocks.length ∧ v = slot_text k := by
      intro i0 h0 hv0
      rcases q.2 j i0 name v h0 hv0 with a | b | ⟨k, k1, k2, k3⟩
      · exact Or.inl a
      · exact Or.inr (Or.inl b)
      · exact Or.inr (Or.inr ⟨k, k1, by omega, k3⟩)
    by_cases hjJ : j = J
    · subst hjJ
      rw [e1, getElem?_set_self _ _ _ _ hinst] at hj
      have := Option.some.inj hj
      subst this
      by_cases hfrom : name = "ROUTE_FROM_FABRIC_CLK".toList
      · exact Or.inr (Or.inl hfrom)
      · by_cases hroute : name = route_to_fabric_name p.db I
        · rw [hroute, hslot] at hv
          exact Or.inr (Or.inr ⟨st.m_fabric_clocks.length, hn0, by omega,
            (Option.some.inj hv).symm⟩)
        · rw [hother name hroute hfrom] at hv
          exact old inst hinst hv
    · rw [e1, getElem?_set_other _ _ _ _ hjJ] at hj
      exact old instj hj hv

set_option maxRecDepth 1000000 in
/-- Counterexample to C9 as stated: in `example_seventeen_clocks` every boot
clock feeds fabric logic, `determine_fabric_clock` records seventeen fabric
clocks, and the instance of the last boot clock is stamped with slot 16,
which is not smaller than `MAX_FABRIC_CLOCK_SLOT`. -/
theorem C9_counterexample_seventeen_clocks :
    (extract example_seventeen_clocks 10 (Extractor.construct "genesis3".toList)).map
      (fun result => (result.1, result.2.1.m_fabric_clocks.length,
        result.2.1.m_instances.map
          (fun inst => CppMap.find inst.parameters "ROUTE_TO_FABRIC_CLK".toList))) =
      .ok (true, 17, (List.range 17).map (fun k => some (slot_text k))) ∧
    slot_text 16 = "16".toList ∧ ¬ 16 < MAX_FABRIC_CLOCK_SLOT := by
  refine ⟨?_, ?_, ?_⟩ <;> decide

/-- C9, amended: every parameter value that an instance has after
`determine_fabric_clock` and did not have before, the source stamp of a
fabric clock buffer apart, is the text of a slot `k` that is the position of
a record created by the call, so `k` is smaller than the number of
`FABRIC_CLOCK` records after the call, and smaller than
`MAX_FABRIC_CLOCK_SLOT` whenever that number is at most
`MAX_FABRIC_CLOCK_SLOT`; the call itself does not bound the number. -/
theorem C9_assigned_slots_below_number_of_records (module : Module) (st st2 : Extractor)
    (h : determine_fabric_clock module st = .ok st2) :
    ∀ (j : Nat) (inst : INSTANCE) (name v : CppString),
      st2.m_instances[j]? = some inst → CppMap.find inst.parameters name = some v →
      (∃ inst0 : INSTANCE, st.m_instances[j]? = some inst0 ∧
        CppMap.find inst0.parameters name = some v) ∨
      name = "ROUTE_FROM_FABRIC_CLK".toList ∨
      ∃ k, st.m_fabric_clocks.length ≤ k ∧ k < st2.m_fabric_clocks.length ∧
        v = slot_text k ∧
        (st2.m_fabric_clocks.length ≤ MAX_FABRIC_CLOCK_SLOT → k < MAX_FABRIC_CLOCK_SLOT) := by
  have start : ParamInv st st.m_fabric_clocks.length st :=
    ⟨Nat.le_refl _, fun j inst name v hj hv => Or.inl ⟨inst, hj, hv⟩⟩
  obtain ⟨_, q⟩ := determine_fabric_clock_closed
    (slotClosed_paramInv st st.m_fabric_clocks.length) module st st2 start h
  intro j inst name v hj hv
  rcases q.2 j inst name v hj hv with a | b | ⟨k, k1, k2, k3⟩
  · exact Or.inl a
  · exact Or.inr (Or.inl b)
  · exact Or.inr (Or.inr ⟨k, k1, k2, k3, fun hle => Nat.lt_of_lt_of_le k2 hle⟩)

set_option maxRecDepth 100000 in
/-- Witness for C9: `determine_fabric_clock` on the example with a clock
buffer and a delay behind one input buffer. -/
theorem C9_assigned_slots_below_number_of_records_witness :
    determine_fabric_clock example_clock_and_delay example_clock_and_delay_generated =
      .ok example_clock_and_delay_slotted ∧
    ∀ (j : Nat) (inst : INSTANCE) (name v : CppString),
      example_clock_and_delay_slotted.m_instances[j]? = some inst →
      CppMap.find inst.parameters name = some v →
      (∃ inst0 : INSTANCE, example_clock_and_delay_generated.m_instances[j]? = some inst0 ∧
        CppMap.find inst0.parameters name = some v) ∨
      name = "ROUTE_FROM_FABRIC_CLK".toList ∨
      ∃ k, example_clock_and_delay_generated.m_fabric_clocks.length ≤ k ∧
        k < example_clock_and_delay_slotted.m_fabric_clocks.length ∧ v = slot_text k ∧
        (example_clock_and_delay_slotted.m_fabric_clocks.length ≤ MAX_FABRIC_CLOCK_SLOT →
          k < MAX_FABRIC_CLOCK_SLOT) :=
  have hrun : determine_fabric_clock example_clock_and_delay
      example_clock_and_delay_generated = .ok example_clock_and_delay_slotted := by
    decide
  ⟨hrun, C9_assigned_slots_below_number_of_records example_clock_and_delay
    example_clock_and_delay_generated example_clock_and_delay_slotted hrun⟩


/-! ### Splitting at a plus sign -/

theorem findFrom_plus_none (a : CppString) (i : Nat) (h : '+' ∉ a) :
    findFrom "+".toList a i = npos := by
  induction a generalizing i with
  | nil => rfl
  | cons c t ih =>
    have hc : c ≠ '+' := fun e => h (by rw [e]; exact List.mem_cons_self _ _)
    have ht : '+' ∉ t := fun m => h (List.mem_cons_of_mem _ m)
    show (if startsWith (c :: t) ['+'] then i else findFrom ['+'] t (i + 1)) = npos
    have : startsWith (c :: t) ['+'] = false := by
      simp [startsWith, hc]
    rw [this]
    exact ih (i + 1) ht

theorem findFrom_plus_at (a rest : CppString) (i : Nat) (h : '+' ∉ a) :
    findFrom "+".toList (a ++ '+' :: rest) i = i + a.length := by
  induction a generalizing i with
  | nil =>
    show (if startsWith ('+' :: rest) ['+'] then i else _) = i + 0
    simp [startsWith]
  | cons c t ih =>
    have hc : c ≠ '+' := fun e => h (by rw [e]; exact List.mem_cons_self _ _)
    have ht : '+' ∉ t := fun m => h (List.mem_cons_of_mem _ m)
    show (if startsWith (c :: (t ++ '+' :: rest)) ['+'] then i
      else findFrom ['+'] (t ++ '+' :: rest) (i + 1)) = i + (t.length + 1)
    have : startsWith (c :: (t ++ '+' :: rest)) ['+'] = false := by
      simp [startsWith, hc]
    rw [this]
    have := ih (i + 1) ht
    simp only [Bool.false_eq_true, if_false]
    rw [show "+".toList = ['+'] from rfl] at this
    rw [this]
    omega

theorem take_npos_of_short (s : CppString) (h : s.length < npos) : s.take npos = s :=
  List.take_of_length_le (Nat.le_of_lt h)

/-- A string with a `+` is a part without one, the `+`, and the rest. -/
theorem exists_first_plus : ∀ (s : CppString), '+' ∈ s →
    ∃ a rest, s = a ++ '+' :: rest ∧ '+' ∉ a
  | [], h => absurd h (List.not_mem_nil _)
  | c :: t, h => by
    by_cases hc : c = '+'
    · exact ⟨[], t, by rw [hc]; rfl, List.not_mem_nil _⟩
    · have ht : '+' ∈ t := by
        rcases List.mem_cons.1 h with e | e
        · exact absurd e.symm hc
        · exact e
      obtain ⟨a, rest, e, ha⟩ := exists_first_plus t ht
      refine ⟨c :: a, rest, by rw [e]; rfl, ?_⟩
      intro hm
      rcases List.mem_cons.1 hm with e2 | e2
      · exact hc e2.symm
      · exact ha e2

/-- One round of the loop of `split_string` on a string with a `+`. -/
theorem split_string_loop_plus (n : Nat) (a rest : CppString) (strs : List CppString)
    (h : '+' ∉ a) (hlen : (a ++ '+' :: rest).length < npos) :
    split_string_loop "+".toList 3 (n + 1) (a ++ '+' :: rest) strs =
      if ((strs ++ [a]).length : Int) = 3 then .ok (strs ++ [a] ++ [rest])
      else split_string_loop "+".toList 3 n rest (strs ++ [a]) := by
  have hfind : find (a ++ '+' :: rest) "+".toList = a.length := by
    unfold find
    rw [findFrom_plus_at a rest 0 h, Nat.zero_add]
  have hal : a.length < npos := by
    rw [List.length_append] at hlen
    omega
  have hrl : rest.length < npos := by
    rw [List.length_append, List.length_cons] at hlen
    omega
  have h1 : substr (a ++ '+' :: rest) 0 a.length = .ok a := by
    unfold substr
    rw [if_neg (by omega)]
    simp
  have h2 : substr (a ++ '+' :: rest) (a.length + "+".toList.length) = .ok rest := by
    unfold substr
    rw [if_neg (by simp)]
    have : "+".toList.length = 1 := rfl
    rw [this, List.drop_append]
    simp [take_npos_of_short rest hrl]
  simp only [split_string_loop]
  rw [hfind, if_pos (Nat.ne_of_lt hal)]
  simp only [bind, Except.bind, h1, h2]

/-- The helper `split_string` with at most three splits gives four pieces
on a string with three or more `+`. -/
theorem split_string_four (s : CppString) (h : 3 ≤ s.count '+') (hlen : s.length < npos) :
    ∃ p d r l, split_string s "+".toList 3 = .ok [p, d, r, l] := by
  have count_split : ∀ (t : CppString), 0 < t.count '+' →
      ∃ a rest, t = a ++ '+' :: rest ∧ '+' ∉ a ∧ rest.count '+' + 1 = t.count '+' ∧
        rest.length < t.length := by
    intro t ht
    obtain ⟨a, rest, e, ha⟩ := exists_first_plus t (List.count_pos_iff.1 ht)
    refine ⟨a, rest, e, ha, ?_, ?_⟩
    · rw [e, List.count_append, List.count_eq_zero_of_not_mem ha, List.count_cons_self]
      omega
    · rw [e, List.length_append, List.length_cons]
      omega
  obtain ⟨a1, r1, e1, n1, c1, l1⟩ := count_split s (by omega)
  obtain ⟨a2, r2, e2, n2, c2, l2⟩ := count_split r1 (by omega)
  obtain ⟨a3, r3, e3, n3, c3, l3⟩ := count_split r2 (by omega)
  refine ⟨a1, a2, a3, r3, ?_⟩
  have hs0 : s.length ≠ 0 := by omega
  have hfuel : s.length + 1 = (s.length - 2) + 1 + 1 + 1 := by omega
  unfold split_string
  rw [if_neg hs0, if_neg (by decide), hfuel]
  have k1 := split_string_loop_plus (s.length - 2 + 1 + 1) a1 r1 [] n1
    (by rw [← e1]; exact hlen)
  have k2 := split_string_loop_plus (s.length - 2 + 1) a2 r2 [a1] n2 (by rw [← e2]; omega)
  have k3 := split_string_loop_plus (s.length - 2) a3 r3 [a1, a2] n3 (by rw [← e3]; omega)
  rw [← e1] at k1
  rw [← e2] at k2
  rw [← e3] at k3
  rw [k1]
  simp only [List.nil_append, List.length_singleton]
  rw [if_neg (by decide), k2]
  simp only [List.singleton_append, List.length_cons, List.length_singleton, List.length_nil]
  rw [if_neg (by decide), k3]
  simp


/-! ### Control signal claims -/

theorem tracked_record_store_self (T : ControlTracker) (n k : CppString)
    (record : Nat × List CppString) :
    tracked_record (store_record T n k record) n k = some record := by
  simp only [tracked_record, store_record, CppMap.find_set_self]

theorem tracked_record_store_other (T : ControlTracker) (n k n2 k2 : CppString)
    (record : Nat × List CppString) (h : ¬ (n2 = n ∧ k2 = k)) :
    tracked_record (store_record T n k record) n2 k2 = tracked_record T n2 k2 := by
  simp only [tracked_record, store_record]
  by_cases hn : n2 = n
  · subst hn
    have hk : k2 ≠ k := fun e => h ⟨rfl, e⟩
    rw [CppMap.find_set_self]
    simp only
    rw [CppMap.find_set_ne _ _ _ _ hk]
    cases hf : CppMap.find T.tracked_instances n2 with
    | none => simp [CppMap.find]
    | some records => simp
  · rw [CppMap.find_set_ne _ _ _ _ hn]

theorem track_nets_frame (error : Bool) (key inst_name oport : CppString) :
    ∀ (nets : List CppString) (i : Nat) (record : Nat × List CppString)
      (T : ControlTracker) (res : (Nat × List CppString) × ControlTracker),
      track_nets error key inst_name oport nets i record T = .ok res →
      res.2.tracked_instances = T.tracked_instances ∧
      res.1.2 = record.2 ++ nets ∧
      ∀ k, k ≠ key → CppMap.find res.2.tracked_signals k = CppMap.find T.tracked_signals k := by
  intro nets
  induction nets with
  | nil =>
    intro i record T res h
    simp only [track_nets] at h
    have e := Except.ok.inj h
    subst e
    exact ⟨rfl, by simp, fun _ _ => rfl⟩
  | cons net rest ih =>
    intro i record T res h
    simp only [track_nets] at h
    repeat' split at h
    all_goals first
      | exact Except.noConfusion h
      | (obtain ⟨a, b, c⟩ := ih _ _ _ _ h
         refine ⟨a, ?_, ?_⟩
         · rw [b]
           simp
         · intro k hk
           exact (c k hk).trans (by
             first
               | rfl
               | exact CppMap.find_set_ne _ _ _ _ hk))

theorem track_nets_fresh (error : Bool) (key inst_name oport : CppString) :
    ∀ (nets : List CppString) (i : Nat) (record : Nat × List CppString)
      (T : ControlTracker) (signals : List CppString)
      (res : (Nat × List CppString) × ControlTracker),
      CppMap.find T.tracked_signals key = some signals → signals.length = i →
      i + nets.length < 2 ^ 32 →
      track_nets error key inst_name oport nets i record T = .ok res →
      res.1.1 = record.1 ∧
      CppMap.find res.2.tracked_signals key = some (signals ++ nets) ∧
      res.2.m_netlist_status = T.m_netlist_status := by
  intro nets
  induction nets with
  | nil =>
    intro i record T signals res hs _ _ h
    simp only [track_nets] at h
    have e := Except.ok.inj h
    subst e
    exact ⟨rfl, by simpa using hs, rfl⟩
  | cons net rest ih =>
    intro i record T signals res hs hi hb h
    simp only [track_nets, hs, hi, if_true] at h
    simp only [List.length_cons] at hb
    have hmod : (i + 1) % 2 ^ 32 = i + 1 := Nat.mod_eq_of_lt (by omega)
    rw [← hi, hi, hmod] at h
    obtain ⟨a, b, c⟩ := ih (i + 1) _ _ (signals ++ [net]) res
      (CppMap.find_set_self _ _ _) (by simp [hi]) (by omega) h
    refine ⟨a, ?_, c⟩
    rw [b]
    simp

theorem track_nets_held (error : Bool) (key inst_name oport : CppString) :
    ∀ (nets : List CppString) (i : Nat) (record : Nat × List CppString)
      (T : ControlTracker) (signals : List CppString)
      (res : (Nat × List CppString) × ControlTracker),
      CppMap.find T.tracked_signals key = some signals →
      i + nets.length ≤ signals.length → signals.length < 2 ^ 32 →
      track_nets error key inst_name oport nets i record T = .ok res →
      res.2.tracked_signals = T.tracked_signals ∧
      (record.1 = (if error then TRACKED_CONTROL_CONFLICT
          else TRACKED_CONTROL_ACCEPTABLE_CONFLICT) →
        (error = true → T.m_netlist_status = false) →
        res.1.1 = record.1 ∧ res.2.m_netlist_status = T.m_netlist_status) ∧
      ((signals.drop i).take nets.length ≠ nets →
        res.1.1 = (if error then TRACKED_CONTROL_CONFLICT
          else TRACKED_CONTROL_ACCEPTABLE_CONFLICT) ∧
        res.2.m_netlist_status = (if error then false else T.m_netlist_status)) := by
  intro nets
  induction nets with
  | nil =>
    intro i record T signals res _ _ _ h
    simp only [track_nets] at h
    have e := Except.ok.inj h
    subst e
    exact ⟨rfl, fun _ _ => ⟨rfl, rfl⟩, fun hne => absurd (by simp) hne⟩
  | cons net rest ih =>
    intro i record T signals res hs hi hb h
    simp only [List.length_cons] at hi
    have hlt : i < signals.length := by omega
    have hne : i ≠ signals.length := by omega
    have hget : signals[i]? = some signals[i] := List.getElem?_eq_getElem hlt
    have hmod : (i + 1) % 2 ^ 32 = i + 1 := Nat.mod_eq_of_lt (by omega)
    have hdrop : (signals.drop i).take (rest.length + 1) =
        signals[i] :: (signals.drop (i + 1)).take rest.length := by
      rw [List.drop_eq_getElem_cons hlt, List.take_succ_cons]
    simp only [track_nets, hs, if_neg hne, hget, hmod] at h
    by_cases heq : signals[i] = net
    · simp only [heq, ne_eq, not_true_eq_false, if_false] at h
      obtain ⟨a, b, c⟩ := ih (i + 1) _ T signals res hs (by omega) hb h
      refine ⟨a, ?_, ?_⟩
      · intro hc hst
        have hng : record.1 ≠ TRACKED_CONTROL_GOOD := by
          rw [hc]
          cases error <;> decide
        simp only [if_neg hng] at b
        exact b hc hst
      · intro hd
        rw [List.length_cons, hdrop, heq] at hd
        exact c (fun e => hd (by rw [e]))
    · simp only [ne_eq, heq, not_false_eq_true, if_true] at h
      split at h
      · exact Except.noConfusion h
      · cases error with
        | true =>
          simp only [if_true] at h
          obtain ⟨a, b, _⟩ := ih (i + 1) _ { T with m_netlist_status := false } signals res
            hs (by omega) hb h
          have hb2 := b rfl (fun _ => rfl)
          refine ⟨a, ?_, ?_⟩
          · intro hc hst
            exact ⟨hb2.1.trans hc.symm, hb2.2.trans (hst rfl).symm⟩
          · intro _
            exact ⟨hb2.1, hb2.2⟩
        | false =>
          simp only [Bool.false_eq_true, if_false] at h
          obtain ⟨a, b, _⟩ := ih (i + 1) _ _ signals res hs (by omega) hb h
          have hb2 := b rfl (fun e => Bool.noConfusion e)
          refine ⟨a, ?_, ?_⟩
          · intro hc _
            exact ⟨hb2.1.trans hc.symm, hb2.2⟩
          · intro _
            exact ⟨hb2.1, hb2.2⟩


theorem tracked_record_congr (T T2 : ControlTracker)
    (h : T2.tracked_instances = T.tracked_instances) (n k : CppString) :
    tracked_record T2 n k = tracked_record T n k := by
  simp only [tracked_record, h]

theorem control_claim_nets_effect (iter0 : CONTROL_SIGNAL_INFO)
    (iter1 : CONTROL_SIGNAL_PRIMITIVE) (inst : INSTANCE) (nets : List CppString)
    (T T2 : ControlTracker) (h : control_claim_nets iter0 iter1 inst nets T = .ok T2) :
    ∃ (signals : List CppString) (res : (Nat × List CppString) × ControlTracker),
      CppMap.find
        (if CppMap.contains T.tracked_signals (control_key iter0 inst) then T
         else { T with tracked_signals :=
                  CppMap.set T.tracked_signals (control_key iter0 inst) [] }).tracked_signals
        (control_key iter0 inst) = some signals ∧
      (signals.length = 0 ∨ signals.length = nets.length) ∧ nets.length ≠ 0 ∧
      track_nets iter1.error (control_key iter0 inst) inst.name iter1.oport nets 0
        (TRACKED_CONTROL_GOOD, [])
        (if CppMap.contains T.tracked_signals (control_key iter0 inst) then T
         else { T with tracked_signals :=
                  CppMap.set T.tracked_signals (control_key iter0 inst) [] }) = .ok res ∧
      ((res.1.1 = TRACKED_CONTROL_GOOD ∧
          T2 = store_record res.2 inst.name (control_inst_key iter0 iter1 inst) res.1) ∨
        (res.1.1 ≠ TRACKED_CONTROL_GOOD ∧ ∃ prioritized,
          T2 = store_record res.2 inst.name (control_inst_key iter0 iter1 inst)
            (res.1.1, conflict_reason res.1.1 prioritized :: res.1.2))) := by
  unfold control_claim_nets at h
  dsimp only at h
  split at h
  · exact Except.noConfusion h
  · rename_i hlen
    split at h
    · exact Except.noConfusion h
    · rename_i signals hs
      split at h
      · exact Except.noConfusion h
      · rename_i hassert
        split at h
        · exact Except.noConfusion h
        · rename_i record Tn hrun
          refine ⟨signals, (record, Tn), hs, not_not.1 hassert, hlen, hrun, ?_⟩
          split at h
          · rename_i hcode
            split at h
            · exact Except.noConfusion h
            · rename_i prioritized _
              exact Or.inr ⟨hcode, prioritized, (Except.ok.inj h).symm⟩
          · rename_i hcode
            exact Or.inl ⟨not_not.1 hcode, (Except.ok.inj h).symm⟩

theorem control_claim_nets_records (iter0 : CONTROL_SIGNAL_INFO)
    (iter1 : CONTROL_SIGNAL_PRIMITIVE) (inst : INSTANCE) (nets : List CppString)
    (T T2 : ControlTracker) (h : control_claim_nets iter0 iter1 inst nets T = .ok T2)
    (n k : CppString) (hnk : ¬ (n = inst.name ∧ k = control_inst_key iter0 iter1 inst)) :
    tracked_record T2 n k = tracked_record T n k := by
  obtain ⟨signals, res, _, _, _, hrun, hres⟩ := control_claim_nets_effect _ _ _ _ _ _ h
  have hframe := (track_nets_frame _ _ _ _ _ _ _ _ _ hrun).1
  have hT : tracked_record res.2 n k = tracked_record T n k := by
    refine tracked_record_congr _ _ (hframe.trans ?_) n k
    split <;> rfl
  rcases hres with ⟨_, e⟩ | ⟨_, p, e⟩
  · rw [e, tracked_record_store_other _ _ _ _ _ _ hnk]
    exact hT
  · rw [e, tracked_record_store_other _ _ _ _ _ _ hnk]
    exact hT

theorem control_claim_nets_first (iter0 : CONTROL_SIGNAL_INFO)
    (iter1 : CONTROL_SIGNAL_PRIMITIVE) (inst : INSTANCE) (nets : List CppString)
    (T T2 : ControlTracker)
    (hfirst : (CppMap.find T.tracked_signals (control_key iter0 inst)).getD [] = [])
    (hsize : nets.length < 2 ^ 32)
    (h : control_claim_nets iter0 iter1 inst nets T = .ok T2) :
    tracked_record T2 inst.name (control_inst_key iter0 iter1 inst) =
      some (TRACKED_CONTROL_GOOD, nets) ∧
    CppMap.find T2.tracked_signals (control_key iter0 inst) = some nets ∧
    T2.m_netlist_status = T.m_netlist_status := by
  obtain ⟨signals, res, hs, _, _, hrun, hres⟩ := control_claim_nets_effect _ _ _ _ _ _ h
  have hnil : signals = [] := by
    unfold CppMap.contains at hs
    cases hf : CppMap.find T.tracked_signals (control_key iter0 inst) with
    | none =>
      rw [hf] at hs
      simp only [Option.isSome_none, Bool.false_eq_true, if_false,
        CppMap.find_set_self] at hs
      exact (Option.some.inj hs).symm
    | some s =>
      rw [hf] at hs hfirst
      simp only [Option.isSome_some, if_true] at hs
      rw [hf] at hs
      simp only [Option.getD_some] at hfirst
      exact (Option.some.inj hs).symm.trans hfirst
  subst hnil
  obtain ⟨c1, c2, c3⟩ := track_nets_fresh _ _ _ _ _ _ _ _ [] res hs rfl
    (by simpa using hsize) hrun
  obtain ⟨_, f2, _⟩ := track_nets_frame _ _ _ _ _ _ _ _ _ hrun
  have hrec : res.1 = (TRACKED_CONTROL_GOOD, nets) := by
    apply Prod.ext
    · exact c1
    · simpa using f2
  have hst : res.2.m_netlist_status = T.m_netlist_status := by
    rw [c3]
    split <;> rfl
  rcases hres with ⟨_, e⟩ | ⟨hbad, _⟩
  · rw [e]
    refine ⟨?_, ?_, hst⟩
    · rw [tracked_record_store_self, hrec]
    · simpa using c2
  · exact absurd c1 hbad

theorem control_claim_nets_later (iter0 : CONTROL_SIGNAL_INFO)
    (iter1 : CONTROL_SIGNAL_PRIMITIVE) (inst : INSTANCE) (nets signals : List CppString)
    (T T2 : ControlTracker)
    (hs : CppMap.find T.tracked_signals (control_key iter0 inst) = some signals)
    (hne : signals ≠ []) (hsize : signals.length < 2 ^ 32) (hdiff : signals ≠ nets)
    (h : control_claim_nets iter0 iter1 inst nets T = .ok T2) :
    (∃ reason, tracked_record T2 inst.name (control_inst_key iter0 iter1 inst) =
      some (if iter1.error then TRACKED_CONTROL_CONFLICT
        else TRACKED_CONTROL_ACCEPTABLE_CONFLICT, reason :: nets)) ∧
    T2.tracked_signals = T.tracked_signals ∧
    T2.m_netlist_status = (if iter1.error then false else T.m_netlist_status) := by
  obtain ⟨signals2, res, hs2, hassert, _, hrun, hres⟩ :=
    control_claim_nets_effect _ _ _ _ _ _ h
  have hcont : CppMap.contains T.tracked_signals (control_key iter0 inst) = true := by
    simp [CppMap.contains, hs]
  rw [if_pos hcont] at hs2 hrun
  rw [hs] at hs2
  have e := Option.some.inj hs2
  subst e
  have hlen : signals.length = nets.length := by
    rcases hassert with z | e
    · exact absurd (List.length_eq_zero.1 z) hne
    · exact e
  obtain ⟨k1, _, k3⟩ := track_nets_held _ _ _ _ _ _ _ _ signals res hs
    (by simp [hlen]) hsize hrun
  obtain ⟨_, f2, _⟩ := track_nets_frame _ _ _ _ _ _ _ _ _ hrun
  have hd : (signals.drop 0).take nets.length ≠ nets := by
    rw [List.drop_zero, ← hlen, List.take_length]
    exact hdiff
  obtain ⟨c1, c2⟩ := k3 hd
  have hbad : res.1.1 ≠ TRACKED_CONTROL_GOOD := by
    rw [c1]
    cases iter1.error <;> decide
  rcases hres with ⟨hgood, _⟩ | ⟨_, p, e⟩
  · exact absurd hgood hbad
  · rw [e]
    refine ⟨⟨conflict_reason res.1.1 p, ?_⟩, k1, c2⟩
    rw [tracked_record_store_self, c1, f2]
    simp

theorem control_claim_nets_keeps (iter0 : CONTROL_SIGNAL_INFO)
    (iter1 : CONTROL_SIGNAL_PRIMITIVE) (inst : INSTANCE) (nets : List CppString)
    (T T2 : ControlTracker) (K : CppString) (signals : List CppString)
    (hK : CppMap.find T.tracked_signals K = some signals)
    (hne : signals ≠ []) (hsize : signals.length < 2 ^ 32)
    (h : control_claim_nets iter0 iter1 inst nets T = .ok T2) :
    CppMap.find T2.tracked_signals K = some signals := by
  obtain ⟨signals2, res, hs2, hassert, _, hrun, hres⟩ :=
    control_claim_nets_effect _ _ _ _ _ _ h
  have hT2 : T2.tracked_signals = res.2.tracked_signals := by
    rcases hres with ⟨_, e⟩ | ⟨_, p, e⟩ <;> rw [e] <;> rfl
  rw [hT2]
  by_cases hk : K = control_key iter0 inst
  · subst hk
    have hcont : CppMap.contains T.tracked_signals (control_key iter0 inst) = true := by
      simp [CppMap.contains, hK]
    rw [if_pos hcont] at hs2 hrun
    rw [hK] at hs2
    have e := Option.some.inj hs2
    subst e
    have hlen : signals.length = nets.length := by
      rcases hassert with z | e
      · exact absurd (List.length_eq_zero.1 z) hne
      · exact e
    obtain ⟨k1, _, _⟩ := track_nets_held _ _ _ _ _ _ _ _ signals res hK
      (by simp [hlen]) hsize hrun
    rw [k1]
    exact hK
  · obtain ⟨_, _, f3⟩ := track_nets_frame _ _ _ _ _ _ _ _ _ hrun
    rw [f3 K hk]
    split
    · exact hK
    · exact (CppMap.find_set_ne _ _ _ _ hk).trans hK


theorem tracked_record_created (T : ControlTracker) (name n k : CppString) :
    tracked_record (track_instance_name T name) n k = tracked_record T n k := by
  unfold track_instance_name
  cases hc : CppMap.contains T.tracked_instances name with
  | true => simp
  | false =>
    simp only [Bool.false_eq_true, if_false, tracked_record]
    have hnone : CppMap.find T.tracked_instances name = none := by
      unfold CppMap.contains at hc
      cases hf : CppMap.find T.tracked_instances name with
      | none => rfl
      | some v =>
        rw [hf] at hc
        exact Bool.noConfusion hc
    by_cases hn : n = name
    · subst hn
      rw [CppMap.find_set_self, hnone]
      rfl
    · rw [CppMap.find_set_ne _ _ _ _ hn]

theorem track_instance_name_signals (T : ControlTracker) (name : CppString) :
    (track_instance_name T name).tracked_signals = T.tracked_signals ∧
      (track_instance_name T name).m_netlist_status = T.m_netlist_status := by
  unfold track_instance_name
  split <;> exact ⟨rfl, rfl⟩

/-- A successful claim with a good location and found nets is the claim of
these nets on the tracker with the map of the instance name created. -/
theorem control_claim_good (wrapped_instances : List WrappedInstance)
    (iter0 : CONTROL_SIGNAL_INFO) (iter1 : CONTROL_SIGNAL_PRIMITIVE) (inst : INSTANCE)
    (T T2 : ControlTracker) (lo : CppString) (nets : List CppString)
    (hgood : inst.parsed_location.status = PARSED_LOCATION_GOOD)
    (hlo : inst.linked_object = .ok lo)
    (hnets : get_wrapped_instance_net_by_port wrapped_instances inst.module lo iter1.oport =
      .ok (([], []), nets))
    (h : control_claim wrapped_instances iter0 iter1 inst T = .ok T2) :
    control_claim_nets iter0 iter1 inst nets (track_instance_name T inst.name) = .ok T2 := by
  unfold control_claim at h
  dsimp only at h
  by_cases hrec : (tracked_record (track_instance_name T inst.name) inst.name
      (control_inst_key iter0 iter1 inst)).isSome = true
  · rw [if_pos hrec] at h
    exact Except.noConfusion h
  · rw [if_neg hrec] at h
    have hunk : ¬ inst.parsed_location.status = PARSED_LOCATION_UNKNOWN := by
      rw [hgood]
      decide
    rw [if_neg hunk, if_pos hgood, hlo] at h
    dsimp only at h
    rw [hnets] at h
    simpa using h

theorem control_claim_keeps (wrapped_instances : List WrappedInstance)
    (iter0 : CONTROL_SIGNAL_INFO) (iter1 : CONTROL_SIGNAL_PRIMITIVE) (inst : INSTANCE)
    (T T2 : ControlTracker)
    (h : control_claim wrapped_instances iter0 iter1 inst T = .ok T2) :
    (∀ n k record, tracked_record T n k = some record →
      tracked_record T2 n k = some record) ∧
    (∀ K signals, CppMap.find T.tracked_signals K = some signals → signals ≠ [] →
      signals.length < 2 ^ 32 → CppMap.find T2.tracked_signals K = some signals) := by
  unfold control_claim at h
  dsimp only at h
  have hcreated := tracked_record_created T inst.name
  have hsig := (track_instance_name_signals T inst.name).1
  generalize track_instance_name T inst.name = T0 at h hcreated hsig
  by_cases hrec : (tracked_record T0 inst.name
      (control_inst_key iter0 iter1 inst)).isSome = true
  · rw [if_pos hrec] at h
    exact Except.noConfusion h
  · rw [if_neg hrec] at h
    have hnone : tracked_record T inst.name (control_inst_key iter0 iter1 inst) = none := by
      rw [← hcreated]
      cases hr : tracked_record T0 inst.name (control_inst_key iter0 iter1 inst) with
      | none => rfl
      | some v =>
        rw [hr] at hrec
        exact absurd rfl hrec
    have hother : ∀ n k record, tracked_record T n k = some record →
        ¬ (n = inst.name ∧ k = control_inst_key iter0 iter1 inst) := by
      intro n k record hr hnk
      rw [hnk.1, hnk.2, hnone] at hr
      exact Option.noConfusion hr
    have stored : ∀ (record : Nat × List CppString) (b : Bool),
        (∀ n k r, tracked_record T n k = some r →
          tracked_record
            { (store_record T0 inst.name (control_inst_key iter0 iter1 inst) record) with
              m_netlist_status := b } n k = some r) ∧
        (∀ K signals, CppMap.find T.tracked_signals K = some signals → signals ≠ [] →
          signals.length < 2 ^ 32 →
          CppMap.find
            { (store_record T0 inst.name (control_inst_key iter0 iter1 inst) record) with
              m_netlist_status := b }.tracked_signals K = some signals) := by
      intro record b
      constructor
      · intro n k r hr
        have e1 := tracked_record_store_other T0 inst.name
          (control_inst_key iter0 iter1 inst) n k record (hother n k r hr)
        rw [hcreated] at e1
        exact (tracked_record_congr _ _ rfl n k).trans (e1.trans hr)
      · intro K signals hK _ _
        show CppMap.find T0.tracked_signals K = some signals
        rw [hsig]
        exact hK
    by_cases hunk : inst.parsed_location.status = PARSED_LOCATION_UNKNOWN
    · rw [if_pos hunk] at h
      exact Except.noConfusion h
    · rw [if_neg hunk] at h
      by_cases hgood : inst.parsed_location.status = PARSED_LOCATION_GOOD
      · rw [if_pos hgood] at h
        cases hlo : inst.linked_object with
        | error e =>
          rw [hlo] at h
          exact Except.noConfusion h
        | ok lo =>
          rw [hlo] at h
          dsimp only at h
          cases hw : get_wrapped_instance_net_by_port wrapped_instances inst.module lo
            iter1.oport with
          | error e =>
            rw [hw] at h
            exact Except.noConfusion h
          | ok res =>
            rw [hw] at h
            dsimp only at h
            by_cases hbool : decide (res.1.1.length = 0) ≠ decide (res.1.2.length = 0)
            · rw [if_pos hbool] at h
              exact Except.noConfusion h
            · rw [if_neg hbool] at h
              by_cases hempty : res.1.1.length = 0
              · rw [if_pos hempty] at h
                constructor
                · intro n k r hr
                  rw [control_claim_nets_records _ _ _ _ _ _ h n k (hother n k r hr),
                    hcreated]
                  exact hr
                · intro K signals hK hne hsz
                  exact control_claim_nets_keeps _ _ _ _ _ _ K signals
                    (hsig ▸ hK) hne hsz h
              · rw [if_neg hempty] at h
                exact (Except.ok.inj h) ▸ stored _ _
      · rw [if_neg hgood] at h
        exact (Except.ok.inj h) ▸ stored _ _

theorem track_claims_keeps (wrapped_instances : List WrappedInstance) :
    ∀ (claims : List (CONTROL_SIGNAL_INFO × CONTROL_SIGNAL_PRIMITIVE × INSTANCE))
      (T T2 : ControlTracker), track_claims wrapped_instances claims T = .ok T2 →
      (∀ n k record, tracked_record T n k = some record →
        tracked_record T2 n k = some record) ∧
      (∀ K signals, CppMap.find T.tracked_signals K = some signals → signals ≠ [] →
        signals.length < 2 ^ 32 → CppMap.find T2.tracked_signals K = some signals) := by
  intro claims
  induction claims with
  | nil =>
    intro T T2 h
    simp only [track_claims] at h
    have e := Except.ok.inj h
    subst e
    exact ⟨fun _ _ _ hr => hr, fun _ _ hK _ _ => hK⟩
  | cons claim rest ih =>
    intro T T2 h
    simp only [track_claims] at h
    split at h
    · exact Except.noConfusion h
    · rename_i T1 h1
      obtain ⟨a1, b1⟩ := control_claim_keeps _ _ _ _ _ _ h1
      obtain ⟨a2, b2⟩ := ih T1 T2 h
      exact ⟨fun n k r hr => a2 n k r (a1 n k r hr),
        fun K s hK hne hsz => b2 K s (b1 K s hK hne hsz) hne hsz⟩


theorem control_assignments_lines (code count : Nat) (rule location mode : CppString) :
    ∀ (nets : List CppString) (i : Nat),
      (control_assignments code count rule location mode nets i).map
        (fun x => (x.str1, x.str2)) =
      nets.map (fun net =>
        ((if code = TRACKED_CONTROL_GOOD then [] else "# ".toList) ++ "set_io".toList, net)) := by
  intro nets
  induction nets with
  | nil =>
    intro i
    rfl
  | cons net rest ih =>
    intro i
    simp only [control_assignments, List.map_cons, ih]

/-- The entry of a good record: one active `set_io` line per net. -/
theorem control_entry_good (st : Extractor) (inst : INSTANCE) (db : PRIMITIVE_DB)
    (linked_object inst_key : CppString) (nets : List CppString) (entry : SDC_ENTRY)
    (h : control_entry st inst db linked_object inst_key (TRACKED_CONTROL_GOOD, nets) =
      .ok entry) :
    entry.assignments.map (fun x => (x.str1, x.str2)) =
      nets.map (fun net => ("set_io".toList, net)) := by
  unfold control_entry at h
  split at h
  · exact Except.noConfusion h
  · dsimp only at h
    have h1 : ¬ (TRACKED_CONTROL_GOOD = TRACKED_CONTROL_BAD_LOCATION ∨
        TRACKED_CONTROL_GOOD = TRACKED_CONTROL_BAD_WRAPPED_NET) := by decide
    have h2 : ¬ (TRACKED_CONTROL_GOOD = TRACKED_CONTROL_MATCH ∨
        TRACKED_CONTROL_GOOD = TRACKED_CONTROL_ACCEPTABLE_CONFLICT ∨
        TRACKED_CONTROL_GOOD = TRACKED_CONTROL_CONFLICT) := by decide
    rw [if_neg h1, if_neg h2, if_neg (not_not.2 rfl)] at h
    by_cases hlen : nets.length = 0
    · rw [if_pos hlen] at h
      exact Except.noConfusion h
    · rw [if_neg hlen] at h
      dsimp only at h
      rw [if_pos hlen] at h
      split at h
      · exact Except.noConfusion h
      · have e := Except.ok.inj h
        subst e
        simp only [control_assignments_lines, if_true]
        rfl
  · exact Except.noConfusion h

/-- The entry of a record in conflict: the comment that names it an error
or a skip, and one commented-out `set_io` line per net. -/
theorem control_entry_conflict (st : Extractor) (inst : INSTANCE) (db : PRIMITIVE_DB)
    (linked_object inst_key reason : CppString) (nets : List CppString) (error : Bool)
    (entry : SDC_ENTRY)
    (h : control_entry st inst db linked_object inst_key
      (if error then TRACKED_CONTROL_CONFLICT else TRACKED_CONTROL_ACCEPTABLE_CONFLICT,
        reason :: nets) = .ok entry) :
    entry.assignments.map (fun x => (x.str1, x.str2)) =
      nets.map (fun net => ("# set_io".toList, net)) ∧
    ("# ".toList ++ c_str ((if error then "Error".toList else "Skip".toList) ++
      ": ".toList ++ c_str reason)) ∈ entry.comments := by
  unfold control_entry at h
  split at h
  · exact Except.noConfusion h
  · dsimp only at h
    have h1 : ¬ ((if error then TRACKED_CONTROL_CONFLICT
          else TRACKED_CONTROL_ACCEPTABLE_CONFLICT) = TRACKED_CONTROL_BAD_LOCATION ∨
        (if error then TRACKED_CONTROL_CONFLICT
          else TRACKED_CONTROL_ACCEPTABLE_CONFLICT) = TRACKED_CONTROL_BAD_WRAPPED_NET) := by
      cases error <;> decide
    have h2 : ((if error then TRACKED_CONTROL_CONFLICT
          else TRACKED_CONTROL_ACCEPTABLE_CONFLICT) = TRACKED_CONTROL_MATCH ∨
        (if error then TRACKED_CONTROL_CONFLICT
          else TRACKED_CONTROL_ACCEPTABLE_CONFLICT) = TRACKED_CONTROL_ACCEPTABLE_CONFLICT ∨
        (if error then TRACKED_CONTROL_CONFLICT
          else TRACKED_CONTROL_ACCEPTABLE_CONFLICT) = TRACKED_CONTROL_CONFLICT) := by
      cases error <;> decide
    have h3 : ((if error then TRACKED_CONTROL_CONFLICT
          else TRACKED_CONTROL_ACCEPTABLE_CONFLICT) = TRACKED_CONTROL_CONFLICT) ↔
        error = true := by
      cases error <;> decide
    have h4 : ¬ (if error then TRACKED_CONTROL_CONFLICT
          else TRACKED_CONTROL_ACCEPTABLE_CONFLICT) = TRACKED_CONTROL_GOOD := by
      cases error <;> decide
    rw [if_neg h1, if_pos h2] at h
    cases nets with
    | nil => exact Except.noConfusion h
    | cons net rest =>
      dsimp only at h
      have hlen : ¬ (net :: rest).length = 0 := by simp
      rw [if_pos hlen] at h
      split at h
      · exact Except.noConfusion h
      · have e := Except.ok.inj h
        subst e
        constructor
        · simp only [control_assignments_lines, if_neg h4]
          rfl
        · simp only [h3]
          simp
  · exact Except.noConfusion h


theorem CppMap.contains_set {V : Type} (m : CppMap V) (k K : CppString) (v : V)
    (h : CppMap.contains m K = true ∨ K = k) :
    CppMap.contains (CppMap.set m k v) K = true := by
  unfold CppMap.contains
  by_cases hk : K = k
  · rw [hk, CppMap.find_set_self]
    rfl
  · rw [CppMap.find_set_ne _ _ _ _ hk]
    rcases h with h | h
    · exact h
    · exact absurd h hk

/-- The loop over the nets of a claim takes no instance from
`tracked_prioritized_instances`. -/
theorem track_nets_prioritized (error : Bool) (key inst_name oport : CppString) :
    ∀ (nets : List CppString) (i : Nat) (record : Nat × List CppString)
      (T : ControlTracker) (res : (Nat × List CppString) × ControlTracker),
      track_nets error key inst_name oport nets i record T = .ok res →
      ∀ K, CppMap.contains T.tracked_prioritized_instances K = true →
        CppMap.contains res.2.tracked_prioritized_instances K = true := by
  intro nets
  induction nets with
  | nil =>
    intro i record T res h K hK
    simp only [track_nets] at h
    have e := Except.ok.inj h
    subst e
    exact hK
  | cons net rest ih =>
    intro i record T res h K hK
    simp only [track_nets] at h
    repeat' split at h
    all_goals first
      | exact Except.noConfusion h
      | exact ih _ _ _ _ h K hK
      | exact ih _ _ _ _ h K (CppMap.contains_set _ _ _ _ (Or.inl hK))

/-- The loop over the nets of a claim returns when the nets are the first
ones on the key, and then the key has a prioritized instance. -/
theorem track_nets_fresh_ok (error : Bool) (key inst_name oport : CppString) :
    ∀ (nets : List CppString) (i : Nat) (record : Nat × List CppString)
      (T : ControlTracker) (signals : List CppString),
      CppMap.find T.tracked_signals key = some signals → signals.length = i →
      i + nets.length < 2 ^ 32 →
      ∃ res, track_nets error key inst_name oport nets i record T = .ok res ∧
        (nets ≠ [] → CppMap.contains res.2.tracked_prioritized_instances key = true) := by
  intro nets
  induction nets with
  | nil =>
    intro i record T signals _ _ _
    exact ⟨(record, T), rfl, fun h => absurd rfl h⟩
  | cons net rest ih =>
    intro i record T signals hs hi hb
    simp only [track_nets, hs, hi, if_true]
    simp only [List.length_cons] at hb
    have hmod : (i + 1) % 2 ^ 32 = i + 1 := Nat.mod_eq_of_lt (by omega)
    rw [hmod]
    obtain ⟨res, hrun, _⟩ := ih (i + 1) (record.1, record.2 ++ [net])
      { T with
        tracked_signals := CppMap.set T.tracked_signals key (signals ++ [net]),
        tracked_prioritized_instances :=
          if CppMap.contains T.tracked_prioritized_instances key then
            T.tracked_prioritized_instances
          else CppMap.set T.tracked_prioritized_instances key (inst_name, oport) }
      (signals ++ [net]) (CppMap.find_set_self _ _ _) (by simp [hi]) (by omega)
    refine ⟨res, hrun, fun _ => ?_⟩
    refine track_nets_prioritized _ _ _ _ _ _ _ _ _ hrun key ?_
    dsimp only
    split
    · assumption
    · exact CppMap.contains_set _ _ _ _ (Or.inr rfl)

/-- The loop over the nets of a claim returns when the key holds as many
nets as the claim brings and has a prioritized instance. -/
theorem track_nets_held_ok (error : Bool) (key inst_name oport : CppString) :
    ∀ (nets : List CppString) (i : Nat) (record : Nat × List CppString)
      (T : ControlTracker) (signals : List CppString),
      CppMap.find T.tracked_signals key = some signals →
      i + nets.length ≤ signals.length → signals.length < 2 ^ 32 →
      CppMap.contains T.tracked_prioritized_instances key = true →
      ∃ res, track_nets error key inst_name oport nets i record T = .ok res := by
  intro nets
  induction nets with
  | nil =>
    intro i record T signals _ _ _ _
    exact ⟨(record, T), rfl⟩
  | cons net rest ih =>
    intro i record T signals hs hi hb hp
    simp only [List.length_cons] at hi
    have hlt : i < signals.length := by omega
    have hne : i ≠ signals.length := by omega
    have hget : signals[i]? = some signals[i] := List.getElem?_eq_getElem hlt
    have hmod : (i + 1) % 2 ^ 32 = i + 1 := Nat.mod_eq_of_lt (by omega)
    simp only [track_nets, hs, if_neg hne, hget, hmod, hp]
    by_cases heq : signals[i] = net
    · simp only [heq, ne_eq, not_true_eq_false, if_false]
      exact ih (i + 1) _ T signals hs (by omega) hb hp
    · simp only [ne_eq, heq, not_false_eq_true, if_true, Bool.not_true, Bool.false_eq_true,
        if_false]
      cases error with
      | true =>
        simp only [if_true]
        exact ih (i + 1) _ { T with m_netlist_status := false } signals hs (by omega) hb hp
      | false =>
        simp only [Bool.false_eq_true, if_false]
        exact ih (i + 1) _ T signals hs (by omega) hb hp

theorem store_record_prioritized (T : ControlTracker) (n k : CppString)
    (record : Nat × List CppString) :
    (store_record T n k record).tracked_prioritized_instances =
      T.tracked_prioritized_instances := rfl

/-- A claim of nets takes no instance from `tracked_prioritized_instances`. -/
theorem control_claim_nets_prioritized (iter0 : CONTROL_SIGNAL_INFO)
    (iter1 : CONTROL_SIGNAL_PRIMITIVE) (inst : INSTANCE) (nets : List CppString)
    (T T2 : ControlTracker) (h : control_claim_nets iter0 iter1 inst nets T = .ok T2)
    (K : CppString) (hK : CppMap.contains T.tracked_prioritized_instances K = true) :
    CppMap.contains T2.tracked_prioritized_instances K = true := by
  obtain ⟨signals, res, _, _, _, hrun, hres⟩ := control_claim_nets_effect _ _ _ _ _ _ h
  have hp := track_nets_prioritized _ _ _ _ _ _ _ _ _ hrun K (by
    split
    · exact hK
    · exact hK)
  rcases hres with ⟨_, e⟩ | ⟨_, p, e⟩
  · rw [e, store_record_prioritized]
    exact hp
  · rw [e, store_record_prioritized]
    exact hp

/-- The first claim of nets on a key returns, its record is good, and the
key has a prioritized instance afterwards. -/
theorem control_claim_nets_first_ok (iter0 : CONTROL_SIGNAL_INFO)
    (iter1 : CONTROL_SIGNAL_PRIMITIVE) (inst : INSTANCE) (nets : List CppString)
    (T : ControlTracker)
    (hfirst : (CppMap.find T.tracked_signals (control_key iter0 inst)).getD [] = [])
    (hne : nets.length ≠ 0) (hsize : nets.length < 2 ^ 32) :
    ∃ T2, control_claim_nets iter0 iter1 inst nets T = .ok T2 ∧
      CppMap.contains T2.tracked_prioritized_instances (control_key iter0 inst) = true := by
  have hs : CppMap.find
      (if CppMap.contains T.tracked_signals (control_key iter0 inst) then T
       else { T with tracked_signals :=
                CppMap.set T.tracked_signals (control_key iter0 inst) [] }).tracked_signals
      (control_key iter0 inst) = some [] := by
    unfold CppMap.contains
    cases hf : CppMap.find T.tracked_signals (control_key iter0 inst) with
    | none =>
      simp only [Option.isSome_none, Bool.false_eq_true, if_false, CppMap.find_set_self]
    | some s =>
      rw [hf] at hfirst
      simp only [Option.getD_some] at hfirst
      simp only [Option.isSome_some, if_true, hf, hfirst]
  obtain ⟨res, hrun, hprio⟩ := track_nets_fresh_ok iter1.error (control_key iter0 inst)
    inst.name iter1.oport nets 0 (TRACKED_CONTROL_GOOD, []) _ [] hs rfl (by simpa using hsize)
  obtain ⟨hcode, _, _⟩ := track_nets_fresh _ _ _ _ _ _ _ _ [] res hs rfl
    (by simpa using hsize) hrun
  have hnn : nets ≠ [] := fun e => hne (by rw [e]; rfl)
  refine ⟨store_record res.2 inst.name (control_inst_key iter0 iter1 inst) res.1, ?_,
    hprio hnn⟩
  unfold control_claim_nets
  dsimp only
  rw [if_neg hne, hs]
  dsimp only
  rw [if_neg (by simp), hrun]
  dsimp only
  rw [if_neg (not_not.2 hcode)]

/-- A later claim of as many nets as the key holds returns when the key has
a prioritized instance. -/
theorem control_claim_nets_later_ok (iter0 : CONTROL_SIGNAL_INFO)
    (iter1 : CONTROL_SIGNAL_PRIMITIVE) (inst : INSTANCE) (nets signals : List CppString)
    (T : ControlTracker)
    (hs : CppMap.find T.tracked_signals (control_key iter0 inst) = some signals)
    (hne : signals ≠ []) (hsize : signals.length < 2 ^ 32)
    (hlen : signals.length = nets.length)
    (hp : CppMap.contains T.tracked_prioritized_instances (control_key iter0 inst) = true) :
    ∃ T2, control_claim_nets iter0 iter1 inst nets T = .ok T2 := by
  have hcont : CppMap.contains T.tracked_signals (control_key iter0 inst) = true := by
    simp [CppMap.contains, hs]
  obtain ⟨res, hrun⟩ := track_nets_held_ok iter1.error (control_key iter0 inst)
    inst.name iter1.oport nets 0 (TRACKED_CONTROL_GOOD, []) T signals hs
    (by simp [hlen]) hsize hp
  have hp2 := track_nets_prioritized _ _ _ _ _ _ _ _ _ hrun _ hp
  have hnl : nets.length ≠ 0 := by
    rw [← hlen]
    exact fun e => hne (List.length_eq_zero.1 e)
  unfold control_claim_nets
  dsimp only
  rw [if_neg hnl, if_pos hcont, hs]
  dsimp only
  rw [if_neg (by simp [hlen]), hrun]
  dsimp only
  split
  · unfold CppMap.contains at hp2
    cases hf : CppMap.find res.2.tracked_prioritized_instances (control_key iter0 inst) with
    | none =>
      rw [hf] at hp2
      exact Bool.noConfusion hp2
    | some p => exact ⟨_, rfl⟩
  · exact ⟨_, rfl⟩

/-- A claim of an instance with a good location whose wrapped nets are
found, under a key that the instance has no record of, is the claim of these
nets. -/
theorem control_claim_reduces (wrapped_instances : List WrappedInstance)
    (iter0 : CONTROL_SIGNAL_INFO) (iter1 : CONTROL_SIGNAL_PRIMITIVE) (inst : INSTANCE)
    (T : ControlTracker) (lo : CppString) (nets : List CppString)
    (hgood : inst.parsed_location.status = PARSED_LOCATION_GOOD)
    (hlo : inst.linked_object = .ok lo)
    (hnets : get_wrapped_instance_net_by_port wrapped_instances inst.module lo iter1.oport =
      .ok (([], []), nets))
    (hnew : tracked_record T inst.name (control_inst_key iter0 iter1 inst) = none) :
    control_claim wrapped_instances iter0 iter1 inst T =
      control_claim_nets iter0 iter1 inst nets (track_instance_name T inst.name) := by
  unfold control_claim
  dsimp only
  have hrec : ¬ (tracked_record (track_instance_name T inst.name) inst.name
      (control_inst_key iter0 iter1 inst)).isSome = true := by
    rw [tracked_record_created, hnew]
    exact fun e => Bool.noConfusion e
  have hunk : ¬ inst.parsed_location.status = PARSED_LOCATION_UNKNOWN := by
    rw [hgood]
    decide
  rw [if_neg hrec, if_neg hunk, if_pos hgood, hlo]
  dsimp only
  rw [hnets]
  simp

theorem track_instance_name_prioritized (T : ControlTracker) (name : CppString) :
    (track_instance_name T name).tracked_prioritized_instances =
      T.tracked_prioritized_instances := by
  unfold track_instance_name
  split <;> rfl

/-- A claim takes no instance from `tracked_prioritized_instances`. -/
theorem control_claim_prioritized (wrapped_instances : List WrappedInstance)
    (iter0 : CONTROL_SIGNAL_INFO) (iter1 : CONTROL_SIGNAL_PRIMITIVE) (inst : INSTANCE)
    (T T2 : ControlTracker)
    (h : control_claim wrapped_instances iter0 iter1 inst T = .ok T2)
    (K : CppString) (hK : CppMap.contains T.tracked_prioritized_instances K = true) :
    CppMap.contains T2.tracked_prioritized_instances K = true := by
  unfold control_claim at h
  dsimp only at h
  have hK0 : CppMap.contains
      (track_instance_name T inst.name).tracked_prioritized_instances K = true := by
    rw [track_instance_name_prioritized]
    exact hK
  generalize track_instance_name T inst.name = T0 at h hK0
  repeat' split at h
  all_goals first
    | exact Except.noConfusion h
    | exact control_claim_nets_prioritized _ _ _ _ _ _ h K hK0
    | (have e := Except.ok.inj h
       subst e
       exact hK0)

/-- The grouping loops take no instance from
`tracked_prioritized_instances`. -/
theorem track_claims_prioritized (wrapped_instances : List WrappedInstance) :
    ∀ (claims : List (CONTROL_SIGNAL_INFO × CONTROL_SIGNAL_PRIMITIVE × INSTANCE))
      (T T2 : ControlTracker), track_claims wrapped_instances claims T = .ok T2 →
      ∀ K, CppMap.contains T.tracked_prioritized_instances K = true →
        CppMap.contains T2.tracked_prioritized_instances K = true := by
  intro claims
  induction claims with
  | nil =>
    intro T T2 h K hK
    simp only [track_claims] at h
    have e := Except.ok.inj h
    subst e
    exact hK
  | cons claim rest ih =>
    intro T T2 h K hK
    simp only [track_claims] at h
    split at h
    · exact Except.noConfusion h
    · rename_i T1 h1
      exact ih T1 T2 h K (control_claim_prioritized _ _ _ _ _ _ h1 K hK)

/-- The key of a record of `tracked_instances` holds three `+` or more. -/
theorem control_inst_key_count (iter0 : CONTROL_SIGNAL_INFO)
    (iter1 : CONTROL_SIGNAL_PRIMITIVE) (inst : INSTANCE) :
    3 ≤ (control_inst_key iter0 iter1 inst).count '+' := by
  unfold control_inst_key
  have : "+".toList.count '+' = 1 := by decide
  simp only [List.count_append, this]
  omega

/-- The entry of a good record is built when the key splits into its four
parts and the location has a mode. -/
theorem control_entry_good_ok (st : Extractor) (inst : INSTANCE) (db : PRIMITIVE_DB)
    (linked_object inst_key mode : CppString) (nets : List CppString)
    (hk : ∃ p d r l, split_string inst_key "+".toList 3 = .ok [p, d, r, l])
    (hne : nets.length ≠ 0)
    (hm : CppMap.find st.m_location_mode
      ((if db.is_in_dir then "I".toList else "O".toList) ++ ":".toList ++
        c_str inst.parsed_location.location) = some mode) :
    ∃ entry, control_entry st inst db linked_object inst_key (TRACKED_CONTROL_GOOD, nets) =
      .ok entry := by
  obtain ⟨p, d, r, l, hsp⟩ := hk
  have h1 : ¬ (TRACKED_CONTROL_GOOD = TRACKED_CONTROL_BAD_LOCATION ∨
      TRACKED_CONTROL_GOOD = TRACKED_CONTROL_BAD_WRAPPED_NET) := by decide
  have h2 : ¬ (TRACKED_CONTROL_GOOD = TRACKED_CONTROL_MATCH ∨
      TRACKED_CONTROL_GOOD = TRACKED_CONTROL_ACCEPTABLE_CONFLICT ∨
      TRACKED_CONTROL_GOOD = TRACKED_CONTROL_CONFLICT) := by decide
  unfold control_entry
  rw [hsp]
  dsimp only
  rw [if_neg h1, if_neg h2, if_neg (not_not.2 rfl), if_neg hne]
  dsimp only
  rw [if_pos hne, hm]
  exact ⟨_, rfl⟩

/-- The entry of a record in conflict is built when the key splits into its
four parts and the location has a mode. -/
theorem control_entry_conflict_ok (st : Extractor) (inst : INSTANCE) (db : PRIMITIVE_DB)
    (linked_object inst_key mode reason : CppString) (nets : List CppString) (error : Bool)
    (hk : ∃ p d r l, split_string inst_key "+".toList 3 = .ok [p, d, r, l])
    (hne : nets.length ≠ 0)
    (hm : CppMap.find st.m_location_mode
      ((if db.is_in_dir then "I".toList else "O".toList) ++ ":".toList ++
        c_str inst.parsed_location.location) = some mode) :
    ∃ entry, control_entry st inst db linked_object inst_key
      (if error then TRACKED_CONTROL_CONFLICT else TRACKED_CONTROL_ACCEPTABLE_CONFLICT,
        reason :: nets) = .ok entry := by
  obtain ⟨p, d, r, l, hsp⟩ := hk
  have h1 : ¬ ((if error then TRACKED_CONTROL_CONFLICT
        else TRACKED_CONTROL_ACCEPTABLE_CONFLICT) = TRACKED_CONTROL_BAD_LOCATION ∨
      (if error then TRACKED_CONTROL_CONFLICT
        else TRACKED_CONTROL_ACCEPTABLE_CONFLICT) = TRACKED_CONTROL_BAD_WRAPPED_NET) := by
    cases error <;> decide
  have h2 : ((if error then TRACKED_CONTROL_CONFLICT
        else TRACKED_CONTROL_ACCEPTABLE_CONFLICT) = TRACKED_CONTROL_MATCH ∨
      (if error then TRACKED_CONTROL_CONFLICT
        else TRACKED_CONTROL_ACCEPTABLE_CONFLICT) = TRACKED_CONTROL_ACCEPTABLE_CONFLICT ∨
      (if error then TRACKED_CONTROL_CONFLICT
        else TRACKED_CONTROL_ACCEPTABLE_CONFLICT) = TRACKED_CONTROL_CONFLICT) := by
    cases error <;> decide
  cases nets with
  | nil => exact absurd rfl hne
  | cons net rest =>
    unfold control_entry
    rw [hsp]
    dsimp only
    rw [if_neg h1, if_pos h2]
    dsimp only
    rw [if_pos (by simp), hm]
    exact ⟨_, rfl⟩

/-- The nets that `get_wrapped_instance_net_by_port` hands out without a
reason are one or more. -/
theorem wrapped_nets_found (wrapped_instances : List WrappedInstance)
    (module linked_object port : CppString) (nets : List CppString)
    (h : get_wrapped_instance_net_by_port wrapped_instances module linked_object port =
      .ok (([], []), nets)) : nets.length ≠ 0 := by
  unfold get_wrapped_instance_net_by_port at h
  repeat' split at h
  all_goals first
    | exact Except.noConfusion h
    | (have e := Except.ok.inj h
       have e1 := congrArg (fun x => x.1.1) e
       simp only [ERROR_STR] at e1
       exact absurd e1 (by decide))
    | (have e := Except.ok.inj h
       have e2 := congrArg (fun x => x.2) e
       simp only at e2
       subst e2
       assumption)

set_option maxRecDepth 1000000 in
/-- Counterexample to C10 as stated: in `example_two_delays_wide` the two
delays have good locations in one half bank and claim the load signal with
different wrapped nets, one net for `dly0` and two for `dly1`. The claim of
`dly0`, the third of the run, is recorded as good; the claim of `dly1` fails
the assertion on the number of nets, and so does `write_control_signal`: no
line is emitted and no status is set. -/
theorem C10_counterexample_different_number_of_nets :
    (example_two_delays_instance 1).parsed_location.status = PARSED_LOCATION_GOOD ∧
    (example_two_delays_instance 3).parsed_location.status = PARSED_LOCATION_GOOD ∧
    control_assigned_location example_load_signal (example_two_delays_instance 1) =
      control_assigned_location example_load_signal (example_two_delays_instance 3) ∧
    get_wrapped_instance_net_by_port example_two_delays_wide
      (example_two_delays_instance 1).module "din0".toList "DLY_LOAD".toList =
      .ok (([], []), ["ld0".toList]) ∧
    get_wrapped_instance_net_by_port example_two_delays_wide
      (example_two_delays_instance 3).module "din1".toList "DLY_LOAD".toList =
      .ok (([], []), ["ld1".toList, "ld2".toList]) ∧
    (track_claims example_two_delays_wide
      ((control_claims example_two_delays_located.m_instances).take 3) {}).map
      (fun T => tracked_record T (example_two_delays_instance 1).name
        (control_inst_key example_load_signal
          (CONTROL_SIGNAL_PRIMITIVE.construct "\\I_DELAY" "\\DLY_LOAD" true)
          (example_two_delays_instance 1))) =
      .ok (some (TRACKED_CONTROL_GOOD, ["ld0".toList])) ∧
    (control_claims example_two_delays_located.m_instances)[3]? =
      some (example_load_signal,
        CONTROL_SIGNAL_PRIMITIVE.construct "\\I_DELAY" "\\DLY_LOAD" true,
        example_two_delays_instance 3) ∧
    track_claims example_two_delays_wide
      ((control_claims example_two_delays_located.m_instances).take 4) {} =
      .error .assertion ∧
    write_control_signal example_two_delays_wide example_two_delays_located =
      .error .assertion := by
  refine ⟨?_, ?_, ?_, ?_, ?_, ?_, ?_, ?_, ?_⟩ <;> decide

/-- C10, amended: in the grouping loops of `write_control_signal`, let the
claim of instance `a` under the table entry `first` of the signal `iter0` be
the first on its key (signal and assigned location), with good location and
wrapped nets `nets1`, and let a later claim of instance `b` under the table
entry `later` of the same signal have a good location, the same assigned
location and different wrapped nets `nets2` of the same number. Then the first
claim returns and is recorded as good with its nets, and the later claim
returns, whatever claims that return the loops meet between the two; the first
claim stays recorded as good with its nets, which stay the tracked nets of the
key; the later claim is recorded as a conflict when `later.error` is set, with
the netlist status `false`, and as an acceptable conflict otherwise, with the
netlist status as it was before the claim; and both records stay as they are
to the end of the loops. The second loop builds the entry of the first claim
with one active `set_io` line per net, and the entry of the later claim with
the comment `Error: ...` or `Skip: ...` and only commented-out `set_io`
lines. What the method asserts on the way is assumed: neither instance has a
record under its key before its claim, and the locations have a mode. -/
theorem C10_first_claim_kept_later_conflict_commented_out
    (wrapped_instances : List WrappedInstance) (st : Extractor)
    (iter0 : CONTROL_SIGNAL_INFO) (first later : CONTROL_SIGNAL_PRIMITIVE)
    (a b : INSTANCE) (T : ControlTracker) (la lb : CppString)
    (nets1 nets2 : List CppString)
    (ha : a.parsed_location.status = PARSED_LOCATION_GOOD)
    (hb : b.parsed_location.status = PARSED_LOCATION_GOOD)
    (hloc : control_assigned_location iter0 a = control_assigned_location iter0 b)
    (hla : a.linked_object = .ok la) (hlb : b.linked_object = .ok lb)
    (hnets1 : get_wrapped_instance_net_by_port wrapped_instances a.module la first.oport =
      .ok (([], []), nets1))
    (hnets2 : get_wrapped_instance_net_by_port wrapped_instances b.module lb later.oport =
      .ok (([], []), nets2))
    (hsize : nets1.length < 2 ^ 32) (hdiff : nets1 ≠ nets2)
    (hlen : nets1.length = nets2.length)
    (hfirst : (CppMap.find T.tracked_signals (control_key iter0 a)).getD [] = [])
    (hnew : tracked_record T a.name (control_inst_key iter0 first a) = none)
    (hka : (control_inst_key iter0 first a).length < npos)
    (hkb : (control_inst_key iter0 later b).length < npos) :
    ∃ T1, control_claim wrapped_instances iter0 first a T = .ok T1 ∧
      tracked_record T1 a.name (control_inst_key iter0 first a) =
        some (TRACKED_CONTROL_GOOD, nets1) ∧
      T1.m_netlist_status = T.m_netlist_status ∧
      (∀ (db : PRIMITIVE_DB) (mode : CppString),
        CppMap.find st.m_location_mode
          ((if db.is_in_dir then "I".toList else "O".toList) ++ ":".toList ++
            c_str a.parsed_location.location) = some mode →
        ∃ entry, control_entry st a db la (control_inst_key iter0 first a)
            (TRACKED_CONTROL_GOOD, nets1) = .ok entry ∧
          entry.assignments.map (fun x => (x.str1, x.str2)) =
            nets1.map (fun net => ("set_io".toList, net))) ∧
      ∀ (mid : List (CONTROL_SIGNAL_INFO × CONTROL_SIGNAL_PRIMITIVE × INSTANCE))
        (T2 : ControlTracker), track_claims wrapped_instances mid T1 = .ok T2 →
        tracked_record T2 b.name (control_inst_key iter0 later b) = none →
        ∃ T3, control_claim wrapped_instances iter0 later b T2 = .ok T3 ∧
          T3.m_netlist_status = (if later.error then false else T2.m_netlist_status) ∧
          CppMap.find T3.tracked_signals (control_key iter0 a) = some nets1 ∧
          tracked_record T3 a.name (control_inst_key iter0 first a) =
            some (TRACKED_CONTROL_GOOD, nets1) ∧
          ∃ reason, tracked_record T3 b.name (control_inst_key iter0 later b) =
              some (if later.error then TRACKED_CONTROL_CONFLICT
                else TRACKED_CONTROL_ACCEPTABLE_CONFLICT, reason :: nets2) ∧
            (∀ (rest : List (CONTROL_SIGNAL_INFO × CONTROL_SIGNAL_PRIMITIVE × INSTANCE))
              (T4 : ControlTracker), track_claims wrapped_instances rest T3 = .ok T4 →
              tracked_record T4 a.name (control_inst_key iter0 first a) =
                some (TRACKED_CONTROL_GOOD, nets1) ∧
              tracked_record T4 b.name (control_inst_key iter0 later b) =
                some (if later.error then TRACKED_CONTROL_CONFLICT
                  else TRACKED_CONTROL_ACCEPTABLE_CONFLICT, reason :: nets2)) ∧
            ∀ (db : PRIMITIVE_DB) (mode : CppString),
              CppMap.find st.m_location_mode
                ((if db.is_in_dir then "I".toList else "O".toList) ++ ":".toList ++
                  c_str b.parsed_location.location) = some mode →
              ∃ entry, control_entry st b db lb (control_inst_key iter0 later b)
                  (if later.error then TRACKED_CONTROL_CONFLICT
                    else TRACKED_CONTROL_ACCEPTABLE_CONFLICT, reason :: nets2) = .ok entry ∧
                entry.assignments.map (fun x => (x.str1, x.str2)) =
                  nets2.map (fun net => ("# set_io".toList, net)) ∧
                ("# ".toList ++ c_str ((if later.error then "Error".toList
                  else "Skip".toList) ++ ": ".toList ++ c_str reason)) ∈ entry.comments := by
  have hkey : control_key iter0 b = control_key iter0 a := by
    unfold control_key
    rw [hloc]
  have hl1 : nets1.length ≠ 0 := wrapped_nets_found _ _ _ _ _ hnets1
  have hl2 : nets2.length ≠ 0 := wrapped_nets_found _ _ _ _ _ hnets2
  have hne1 : nets1 ≠ [] := fun e => hl1 (by rw [e]; rfl)
  obtain ⟨T1, c1, p1⟩ := control_claim_nets_first_ok iter0 first a nets1
    (track_instance_name T a.name)
    (by rw [(track_instance_name_signals T a.name).1]; exact hfirst) hl1 hsize
  have h1 : control_claim wrapped_instances iter0 first a T = .ok T1 :=
    (control_claim_reduces _ _ _ _ _ _ _ ha hla hnets1 hnew).trans c1
  obtain ⟨r1, s1, st1⟩ := control_claim_nets_first _ _ _ _ _ _
    (by rw [(track_instance_name_signals T a.name).1]; exact hfirst) hsize c1
  refine ⟨T1, h1, r1, st1.trans (track_instance_name_signals T a.name).2, ?_, ?_⟩
  · intro db mode hm
    obtain ⟨entry, he⟩ := control_entry_good_ok st a db la _ mode nets1
      (split_string_four _ (control_inst_key_count iter0 first a) hka) hl1 hm
    exact ⟨entry, he, control_entry_good _ _ _ _ _ _ _ he⟩
  · intro mid T2 hmid hnewb
    obtain ⟨rmid, smid⟩ := track_claims_keeps _ _ _ _ hmid
    have r2 := rmid _ _ _ r1
    have s2 := smid _ _ s1 hne1 hsize
    have p2 := track_claims_prioritized _ _ _ _ hmid _ p1
    have s2b : CppMap.find (track_instance_name T2 b.name).tracked_signals
        (control_key iter0 b) = some nets1 := by
      rw [(track_instance_name_signals T2 b.name).1, hkey]
      exact s2
    have p2b : CppMap.contains
        (track_instance_name T2 b.name).tracked_prioritized_instances
        (control_key iter0 b) = true := by
      rw [track_instance_name_prioritized, hkey]
      exact p2
    obtain ⟨T3, c2⟩ := control_claim_nets_later_ok iter0 later b nets2 nets1
      (track_instance_name T2 b.name) s2b hne1 hsize hlen p2b
    have h2 : control_claim wrapped_instances iter0 later b T2 = .ok T3 :=
      (control_claim_reduces _ _ _ _ _ _ _ hb hlb hnets2 hnewb).trans c2
    obtain ⟨rlast, _⟩ := control_claim_keeps _ _ _ _ _ _ h2
    obtain ⟨⟨reason, rb⟩, sb, stb⟩ :=
      control_claim_nets_later _ _ _ _ _ _ _ s2b hne1 hsize hdiff c2
    refine ⟨T3, h2, ?_, ?_, rlast _ _ _ r2, reason, rb, ?_, ?_⟩
    · rw [stb, (track_instance_name_signals T2 b.name).2]
    · rw [sb, (track_instance_name_signals T2 b.name).1]
      exact s2
    · intro rest T4 h4
      obtain ⟨rrest, _⟩ := track_claims_keeps _ _ _ _ h4
      exact ⟨rrest _ _ _ (rlast _ _ _ r2), rrest _ _ _ rb⟩
    · intro db mode hm
      obtain ⟨entry, he⟩ := control_entry_conflict_ok st b db lb _ mode reason nets2
        later.error (split_string_four _ (control_inst_key_count iter0 later b) hkb) hl2 hm
      exact ⟨entry, he, control_entry_conflict _ _ _ _ _ _ _ _ _ he⟩

set_option maxRecDepth 1000000 in
/-- Witness for C10: the two delays of `example_two_delays_located` share a
half bank and have different load nets, one each; the claim of `dly0` is the
third claim of the run and the claim of `dly1` the fourth. The run as a whole
writes an active `set_io` for `ld0`, a commented-out one for `ld1`, and
leaves the netlist status `false`. -/
theorem C10_first_claim_kept_later_conflict_commented_out_witness :
    (write_control_signal example_two_delays_wrapped example_two_delays_located).map
      (fun result => (result.1.m_netlist_status,
        (result.2.flatMap (fun entry => entry.assignments)).map
          (fun x => (x.str1, x.str2)))) =
      .ok (false, [("set_io".toList, "ld0".toList), ("# set_io".toList, "ld1".toList)]) ∧
    ∃ T1, control_claim example_two_delays_wrapped example_load_signal
        (CONTROL_SIGNAL_PRIMITIVE.construct "\\I_DELAY" "\\DLY_LOAD" true)
        (example_two_delays_instance 1) (example_two_delays_tracker 2) = .ok T1 ∧
      tracked_record T1 (example_two_delays_instance 1).name
        (control_inst_key example_load_signal
          (CONTROL_SIGNAL_PRIMITIVE.construct "\\I_DELAY" "\\DLY_LOAD" true)
          (example_two_delays_instance 1)) =
        some (TRACKED_CONTROL_GOOD, ["ld0".toList]) ∧
      T1.m_netlist_status = true ∧
      ∃ T3, control_claim example_two_delays_wrapped example_load_signal
          (CONTROL_SIGNAL_PRIMITIVE.construct "\\I_DELAY" "\\DLY_LOAD" true)
          (example_two_delays_instance 3) T1 = .ok T3 ∧
        T3.m_netlist_status = false ∧
        tracked_record T3 (example_two_delays_instance 1).name
          (control_inst_key example_load_signal
            (CONTROL_SIGNAL_PRIMITIVE.construct "\\I_DELAY" "\\DLY_LOAD" true)
            (example_two_delays_instance 1)) =
          some (TRACKED_CONTROL_GOOD, ["ld0".toList]) ∧
        ∃ reason, tracked_record T3 (example_two_delays_instance 3).name
          (control_inst_key example_load_signal
            (CONTROL_SIGNAL_PRIMITIVE.construct "\\I_DELAY" "\\DLY_LOAD" true)
            (example_two_delays_instance 3)) =
          some (TRACKED_CONTROL_CONFLICT, reason :: ["ld1".toList]) := by
  refine ⟨by decide, ?_⟩
  obtain ⟨T1, h1, r1, s1, _, hlater⟩ :=
    C10_first_claim_kept_later_conflict_commented_out
      example_two_delays_wrapped example_two_delays_located example_load_signal
      (CONTROL_SIGNAL_PRIMITIVE.construct "\\I_DELAY" "\\DLY_LOAD" true)
      (CONTROL_SIGNAL_PRIMITIVE.construct "\\I_DELAY" "\\DLY_LOAD" true)
      (example_two_delays_instance 1) (example_two_delays_instance 3)
      (example_two_delays_tracker 2) "din0".toList "din1".toList
      ["ld0".toList] ["ld1".toList]
      (by decide) (by decide) (by decide) (by decide) (by decide) (by decide) (by decide)
      (by decide) (by decide) (by decide) (by decide) (by decide) (by decide) (by decide)
  have hval : control_claim example_two_delays_wrapped example_load_signal
      (CONTROL_SIGNAL_PRIMITIVE.construct "\\I_DELAY" "\\DLY_LOAD" true)
      (example_two_delays_instance 1) (example_two_delays_tracker 2) =
      .ok (example_two_delays_tracker 3) := by decide
  have e1 : T1 = example_two_delays_tracker 3 := Except.ok.inj (h1.symm.trans hval)
  obtain ⟨T3, h3, s3, _, r3, reason, rb, _⟩ := hlater [] T1 rfl (by rw [e1]; decide)
  exact ⟨T1, h1, r1, s1.trans (by decide), T3, h3, s3, r3, reason, rb⟩


/-! ### sort_name -/

theorem plus_join_cons (a : CppString) (l : List CppString) :
    plus_join (a :: l) = a ++ l.flatMap (fun k => '+' :: k) := by
  induction l generalizing a with
  | nil => simp [plus_join]
  | cons b rest ih =>
    rw [plus_join, ih b]
    simp [List.flatMap_cons]

theorem plus_join_length (a : CppString) (l : List CppString) :
    (plus_join (a :: l)).length + 1 = ((a :: l).map (fun k => k.length + 1)).sum := by
  induction l generalizing a with
  | nil => simp [plus_join]
  | cons b rest ih =>
    rw [plus_join]
    have := ih b
    simp only [List.length_append, List.length_cons, List.map_cons, List.sum_cons] at this ⊢
    omega


theorem sort_name_split_join (rest : List CppString) :
    ∀ (a : CppString) (S : CppMap Unit) (n : Nat), rest.length < n →
      (∀ x ∈ a :: rest, PlainName x) → (plus_join (a :: rest)).length < npos →
      sort_name_split n (plus_join (a :: rest)) S =
        .ok ((a :: rest).getLast (List.cons_ne_nil _ _),
          (a :: rest).dropLast.foldl (fun m x => CppMap.set m x ()) S) := by
  induction rest with
  | nil =>
    intro a S n hn hp _
    obtain ⟨m, rfl⟩ : ∃ m, n = m + 1 := ⟨n - 1, by omega⟩
    have ha := (hp a (List.mem_cons_self _ _)).2.1
    simp only [plus_join, sort_name_split, find, findFrom_plus_none a 0 ha, ne_eq,
      not_true_eq_false, if_false, List.getLast_singleton, List.dropLast_single,
      List.foldl_nil]
  | cons b r ih =>
    intro a S n hn hp hlen
    obtain ⟨m, rfl⟩ : ∃ m, n = m + 1 := ⟨n - 1, by omega⟩
    have hpa := hp a (List.mem_cons_self _ _)
    have ha := hpa.2.1
    have hlen2 : (a ++ '+' :: plus_join (b :: r)).length < npos := hlen
    have hidx : findFrom "+".toList (a ++ '+' :: plus_join (b :: r)) 0 = a.length := by
      rw [findFrom_plus_at a _ 0 ha]
      omega
    have hl : a.length ≠ npos := by
      simp only [List.length_append, List.length_cons] at hlen2
      omega
    have h0 : a.length ≠ 0 := fun e => hpa.1 (List.length_eq_zero.1 e)
    have hrest : (plus_join (b :: r)).length < npos := by
      simp only [List.length_append, List.length_cons] at hlen2
      omega
    have hs1 : substr (a ++ '+' :: plus_join (b :: r)) 0 a.length = .ok a := by
      unfold substr
      rw [if_neg (by omega)]
      simp
    have hs2 : substr (a ++ '+' :: plus_join (b :: r)) (a.length + 1) =
        .ok (plus_join (b :: r)) := by
      unfold substr
      rw [if_neg (by simp)]
      have : List.drop (a.length + 1) (a ++ '+' :: plus_join (b :: r)) = plus_join (b :: r) := by
        rw [List.drop_append_eq_append_drop]
        simp
      rw [this, take_npos_of_short _ hrest]
    have hrec := ih b (CppMap.set S a ()) m (by simp only [List.length_cons] at hn; omega)
      (fun x hx => hp x (List.mem_cons_of_mem _ hx)) hrest
    show sort_name_split (m + 1) (a ++ '+' :: plus_join (b :: r)) S = _
    simp only [sort_name_split, find, hidx, ne_eq, hl, not_false_eq_true, if_true, h0,
      if_false, hs1, hs2, bind, Except.bind, hrec]
    simp [List.getLast_cons_cons, List.dropLast_cons₂]


theorem plus_join_count (rest : List CppString) :
    ∀ a : CppString, rest.length ≤ (plus_join (a :: rest)).length := by
  induction rest with
  | nil => intro a; exact Nat.zero_le _
  | cons b r ih =>
    intro a
    have := ih b
    simp only [plus_join, List.length_append, List.length_cons] at this ⊢
    omega

theorem c_str_plain (a : CppString) (h : ∀ c ∈ a, c.toNat ≠ 0) : c_str a = a := by
  unfold c_str
  rw [List.takeWhile_eq_self_iff]
  intro c hc
  simpa using h c hc

theorem sort_name_fold (M : CppMap Unit) :
    ∀ acc : CppString, acc ≠ [] → (∀ c ∈ acc, c.toNat ≠ 0) →
      (∀ x ∈ M, ∀ c ∈ x.1, c.toNat ≠ 0) →
      M.foldl (fun acc it =>
        if acc.length ≠ 0 then c_str acc ++ "+".toList ++ c_str it.1 else it.1) acc =
        acc ++ M.flatMap (fun it => '+' :: it.1) := by
  induction M with
  | nil => intro acc _ _ _; simp
  | cons x rest ih =>
    intro acc hne hnul hM
    have hl : acc.length ≠ 0 := fun e => hne (List.length_eq_zero.1 e)
    have hx := hM x (List.mem_cons_self _ _)
    rw [List.foldl_cons, if_pos hl, c_str_plain acc hnul, c_str_plain x.1 hx]
    rw [ih _ (by simp) ?_ (fun y hy => hM y (List.mem_cons_of_mem _ hy))]
    · simp [List.flatMap_cons]
    · intro c hc
      simp only [List.mem_append] at hc
      rcases hc with (hc | hc) | hc
      · exact hnul c hc
      · have : c = '+' := by simpa using hc
        rw [this]
        decide
      · exact hx c hc

/-- The `std::set` that `sort_name` fills with the names. -/
theorem name_set_find (names : List CppString) :
    ∀ (S : CppMap Unit) (a : CppString),
      CppMap.find (names.foldl (fun m x => CppMap.set m x ()) S) a = some () ↔
        a ∈ names ∨ CppMap.find S a = some () := by
  induction names with
  | nil => intro S a; simp
  | cons b rest ih =>
    intro S a
    rw [List.foldl_cons, ih]
    by_cases h : a = b
    · subst h
      simp [CppMap.find_set_self]
    · rw [CppMap.find_set_ne _ _ _ _ h]
      simp [h]

theorem name_set_ordered (names : List CppString) :
    ∀ S : CppMap Unit, CppMap.Ordered S →
      CppMap.Ordered (names.foldl (fun m x => CppMap.set m x ()) S) := by
  induction names with
  | nil => intro S h; exact h
  | cons b rest ih =>
    intro S h
    exact ih _ (CppMap.ordered_set S b () h)

theorem CppMap.find_of_mem_unit (M : CppMap Unit) (k : CppString) (h : (k, ()) ∈ M) :
    CppMap.find M k = some () := by
  induction M with
  | nil => exact absurd h (List.not_mem_nil _)
  | cons e rest ih =>
    obtain ⟨k1, v1⟩ := e
    simp only [CppMap.find]
    by_cases h1 : k1 = k
    · rw [if_pos h1]
    · rw [if_neg h1]
      rcases List.mem_cons.1 h with e | e
      · exact absurd (congrArg Prod.fst e).symm h1
      · exact ih e

theorem name_set_keys (names : List CppString) (a : CppString) :
    a ∈ (names.foldl (fun m x => CppMap.set m x ()) ([] : CppMap Unit)).map Prod.fst ↔
      a ∈ names := by
  rw [List.mem_map]
  constructor
  · rintro ⟨⟨k, u⟩, hm, rfl⟩
    have := (name_set_find names [] k).1 (CppMap.find_of_mem_unit _ k hm)
    simpa [CppMap.find] using this
  · intro h
    have := (name_set_find names [] a).2 (Or.inl h)
    exact ⟨(a, ()), CppMap.mem_of_find _ _ _ this, rfl⟩

theorem sorted_names_ext (l1 l2 : List CppString)
    (h1 : l1.Pairwise (fun a b => strLt a b = true))
    (h2 : l2.Pairwise (fun a b => strLt a b = true))
    (h : ∀ a, a ∈ l1 ↔ a ∈ l2) : l1 = l2 := by
  have n1 : l1.Nodup := h1.imp (fun hab => strLt_ne _ _ hab)
  have n2 : l2.Nodup := h2.imp (fun hab => strLt_ne _ _ hab)
  have hperm : l1.Perm l2 := (List.perm_ext_iff_of_nodup n1 n2).2 h
  haveI : IsAntisymm CppString (fun a b => strLt a b = true) :=
    ⟨fun a b hab hba => by
      rw [strLt_asymm a b hab] at hba
      exact Bool.noConfusion hba⟩
  exact List.eq_of_perm_of_sorted hperm h1 h2


theorem sort_name_joined (names : List CppString) (hne : names ≠ [])
    (hp : ∀ x ∈ names, PlainName x) (hlen : (plus_join names).length < npos) :
    sort_name (plus_join names) =
      .ok (plus_join ((names.foldl (fun m x => CppMap.set m x ()) ([] : CppMap Unit)).map
        Prod.fst)) := by
  obtain ⟨a, rest, rfl⟩ := List.exists_cons_of_ne_nil hne
  have hfuel : rest.length < (plus_join (a :: rest)).length + 1 :=
    Nat.lt_succ_of_le (plus_join_count rest a)
  have hlast := hp _ (List.getLast_mem (List.cons_ne_nil a rest))
  have hl0 : ¬ ((a :: rest).getLast (List.cons_ne_nil a rest)).length = 0 :=
    fun e => hlast.1 (List.length_eq_zero.1 e)
  have hset : CppMap.set
      ((a :: rest).dropLast.foldl (fun m x => CppMap.set m x ()) ([] : CppMap Unit))
      ((a :: rest).getLast (List.cons_ne_nil a rest)) () =
      (a :: rest).foldl (fun m x => CppMap.set m x ()) ([] : CppMap Unit) := by
    conv_rhs => rw [← List.dropLast_append_getLast (List.cons_ne_nil a rest)]
    rw [List.foldl_append]
    rfl
  unfold sort_name
  simp only [bind, Except.bind, sort_name_split_join rest a [] _ hfuel hp hlen, hl0,
    if_false, pure, Except.pure, hset]
  generalize hM : (a :: rest).foldl (fun m x => CppMap.set m x ()) ([] : CppMap Unit) = M
  have hkeys : ∀ x ∈ M, PlainName x.1 := by
    intro x hx
    apply hp
    rw [← name_set_keys (a :: rest), hM]
    exact List.mem_map_of_mem _ hx
  cases M with
  | nil =>
    have := (name_set_keys (a :: rest) a).2 (List.mem_cons_self _ _)
    rw [hM] at this
    exact absurd this (List.not_mem_nil _)
  | cons x M2 =>
    have hx := hkeys x (List.mem_cons_self _ _)
    rw [List.foldl_cons]
    simp only [List.length_nil, ne_eq, not_true_eq_false, if_false]
    rw [sort_name_fold M2 x.1 hx.1 hx.2.2
      (fun y hy => (hkeys y (List.mem_cons_of_mem _ hy)).2.2)]
    rw [List.map_cons, plus_join_cons, List.flatMap_map]


theorem join_plus_fold (l : List CppString) :
    ∀ acc : CppString, (∀ c ∈ acc, c.toNat ≠ 0) → (∀ x ∈ l, ∀ c ∈ x, c.toNat ≠ 0) →
      l.foldl (fun name o => c_str name ++ "+".toList ++ c_str o) acc =
        acc ++ l.flatMap (fun k => '+' :: k) := by
  induction l with
  | nil => intro acc _ _; simp
  | cons x rest ih =>
    intro acc hnul hl
    have hx := hl x (List.mem_cons_self _ _)
    rw [List.foldl_cons, c_str_plain acc hnul, c_str_plain x hx]
    rw [ih _ ?_ (fun y hy => hl y (List.mem_cons_of_mem _ hy))]
    · simp [List.flatMap_cons]
    · intro c hc
      simp only [List.mem_append] at hc
      rcases hc with (hc | hc) | hc
      · exact hnul c hc
      · have : c = '+' := by simpa using hc
        rw [this]
        decide
      · exact hx c hc

theorem join_plus_plain (l : List CppString) (hl : ∀ x ∈ l, ∀ c ∈ x, c.toNat ≠ 0) :
    join_plus l = plus_join l := by
  unfold join_plus
  rw [join_plus_fold l [] (fun c hc => absurd hc (List.not_mem_nil _)) hl]
  cases l with
  | nil => rfl
  | cons a rest =>
    rw [plus_join_cons]
    simp [List.flatMap_cons]

theorem plus_join_length_perm (l1 l2 : List CppString) (h : l1.Perm l2) :
    (plus_join l1).length = (plus_join l2).length := by
  cases l1 with
  | nil =>
    rw [List.nil_perm.1 h]
  | cons a r =>
    cases l2 with
    | nil => exact absurd (List.perm_nil.1 h) (List.cons_ne_nil _ _)
    | cons b q =>
      have e1 := plus_join_length a r
      have e2 := plus_join_length b q
      have := (h.map (fun k => k.length + 1)).sum_eq
      omega

theorem plus_join_length_le (l1 l2 : List CppString) (hn : l1.Nodup) (h : l1 ⊆ l2) :
    (plus_join l1).length ≤ (plus_join l2).length := by
  obtain ⟨l, hperm, hsub⟩ := List.subperm_of_subset hn h
  rw [← plus_join_length_perm l l1 hperm]
  cases l with
  | nil => exact Nat.zero_le _
  | cons a r =>
    cases l2 with
    | nil => exact absurd hsub (by simp)
    | cons b q =>
      have e1 := plus_join_length a r
      have e2 := plus_join_length b q
      have := (hsub.map (fun k => k.length + 1)).sum_le_sum (fun x _ => Nat.zero_le x)
      omega


theorem sort_name_sorted (names : List CppString) (hne : names ≠ [])
    (hp : ∀ x ∈ names, PlainName x) (hlen : (plus_join names).length < npos)
    (out : List CppString) (hsorted : out.Pairwise (fun a b => strLt a b = true))
    (hmem : ∀ a, a ∈ out ↔ a ∈ names) :
    sort_name (plus_join names) = .ok (plus_join out) := by
  rw [sort_name_joined names hne hp hlen]
  have h1 : ((names.foldl (fun m x => CppMap.set m x ()) ([] : CppMap Unit)).map
      Prod.fst).Pairwise (fun a b => strLt a b = true) :=
    List.pairwise_map.2 (name_set_ordered names [] List.Pairwise.nil)
  rw [sorted_names_ext _ out h1 hsorted (fun a => by rw [name_set_keys, hmem])]

/-- C20: for a non-empty list of names, each non-empty, without `+` and
without NUL, `sort_name` applied to the names joined by `+` returns the
distinct names in ascending string order joined by `+`: the list `out` is
strictly ascending and has exactly the given names as members.  Hence the
linked object of a root with these port names, in whatever order, is that
string, and `sort_name` maps it to itself. -/
theorem C20_sort_name_joins_sorted_distinct_names (names : List CppString)
    (hne : names ≠ []) (hp : ∀ x ∈ names, PlainName x)
    (hlen : (plus_join names).length < npos) :
    ∃ out : List CppString,
      sort_name (plus_join names) = .ok (plus_join out) ∧
      out.Pairwise (fun a b => strLt a b = true) ∧ (∀ a, a ∈ out ↔ a ∈ names) ∧
      (∀ p : PORT_PRIMITIVE,
        (p.base.db.is_standalone || p.base.db.is_fabric_clkbuf) = false →
        (p.port_infos.map (fun port => get_original_name port.realname)).Perm names →
        p.linked_object = .ok (plus_join out)) ∧
      sort_name (plus_join out) = .ok (plus_join out) := by
  refine ⟨(names.foldl (fun m x => CppMap.set m x ()) ([] : CppMap Unit)).map Prod.fst,
    sort_name_joined names hne hp hlen,
    List.pairwise_map.2 (name_set_ordered names [] List.Pairwise.nil),
    name_set_keys names, ?_, ?_⟩
  · intro p hroot hperm
    have hp2 : ∀ x ∈ p.port_infos.map (fun port => get_original_name port.realname),
        PlainName x := fun x hx => hp x (hperm.mem_iff.1 hx)
    unfold PORT_PRIMITIVE.linked_object
    rw [hroot]
    simp only [Bool.false_eq_true, if_false]
    rw [join_plus_plain _ (fun x hx => (hp2 x hx).2.2)]
    refine sort_name_sorted _ ?_ hp2 ?_ _
      (List.pairwise_map.2 (name_set_ordered names [] List.Pairwise.nil)) ?_
    · intro e
      rw [e] at hperm
      exact hne (List.nil_perm.1 hperm)
    · rw [plus_join_length_perm _ _ hperm]
      exact hlen
    · intro a
      rw [name_set_keys, hperm.mem_iff]
  · have hsorted : ((names.foldl (fun m x => CppMap.set m x ()) ([] : CppMap Unit)).map
        Prod.fst).Pairwise (fun a b => strLt a b = true) :=
      List.pairwise_map.2 (name_set_ordered names [] List.Pairwise.nil)
    refine sort_name_sorted _ ?_ ?_ ?_ _ hsorted (fun a => Iff.rfl)
    · obtain ⟨a, rest, rfl⟩ := List.exists_cons_of_ne_nil hne
      intro e
      have := (name_set_keys (a :: rest) a).2 (List.mem_cons_self _ _)
      rw [e] at this
      exact absurd this (List.not_mem_nil _)
    · intro x hx
      exact hp x ((name_set_keys names x).1 hx)
    · refine Nat.lt_of_le_of_lt (plus_join_length_le _ names ?_ ?_) hlen
      · exact hsorted.imp (fun hab => strLt_ne _ _ hab)
      · intro x hx
        exact (name_set_keys names x).1 hx

/-- Witness for C20: the names `b`, `a`, `b` joined as `b+a+b`. -/
theorem C20_sort_name_joins_sorted_distinct_names_witness :
    sort_name "b+a+b".toList = .ok "a+b".toList ∧
    ∃ out : List CppString,
      sort_name (plus_join ["b".toList, "a".toList, "b".toList]) = .ok (plus_join out) ∧
      out.Pairwise (fun a b => strLt a b = true) ∧
      (∀ a, a ∈ out ↔ a ∈ ["b".toList, "a".toList, "b".toList]) ∧
      (∀ p : PORT_PRIMITIVE,
        (p.base.db.is_standalone || p.base.db.is_fabric_clkbuf) = false →
        (p.port_infos.map (fun port => get_original_name port.realname)).Perm
          ["b".toList, "a".toList, "b".toList] →
        p.linked_object = .ok (plus_join out)) ∧
      sort_name (plus_join out) = .ok (plus_join out) :=
  ⟨by decide,
   C20_sort_name_joins_sorted_distinct_names ["b".toList, "a".toList, "b".toList]
    (by decide) (by decide) (by decide)⟩


/-! ### Connections of a cell on declared ports -/

theorem genesis3_regular : ∀ db ∈ genesis3_primitives, RegularDescriptor db := by
  decide

theorem filter_mem_length (ks ds : List CppString) (hk : ks.Nodup) (hd : ds.Nodup) :
    (ks.filter (fun k => decide (k ∈ ds))).length =
      (ds.filter (fun d => decide (d ∈ ks))).length := by
  apply List.Perm.length_eq
  rw [List.perm_ext_iff_of_nodup (hk.filter _) (hd.filter _)]
  intro a
  simp only [List.mem_filter, decide_eq_true_eq]
  exact And.comm

theorem CppMap.length_set {V : Type} (m : CppMap V) (k : CppString) (v : V)
    (h : CppMap.find m k = none) : (CppMap.set m k v).length = m.length + 1 := by
  induction m with
  | nil => rfl
  | cons e rest ih =>
    obtain ⟨k1, v1⟩ := e
    simp only [CppMap.find] at h
    by_cases h2 : k1 = k
    · rw [if_pos h2] at h
      exact Option.noConfusion h
    · rw [if_neg h2] at h
      simp only [CppMap.set]
      by_cases h1 : strLt k k1 = true
      · rw [if_pos h1]
        rfl
      · rw [if_neg h1, if_neg h2]
        simp only [List.length_cons, ih h]

theorem dump_map_find_other (conns : List (CppString × SigSpec)) :
    ∀ (m : CppMap CppString) (k : CppString), k ∉ conns.map Prod.fst →
      CppMap.find (dump_map conns m) k = CppMap.find m k := by
  induction conns with
  | nil => intro m k _; rfl
  | cons it rest ih =>
    intro m k hk
    simp only [List.map_cons, List.mem_cons, not_or] at hk
    show CppMap.find (dump_map rest (CppMap.set m it.1 it.2.dump)) k = _
    rw [ih _ k hk.2, CppMap.find_set_ne _ _ _ _ hk.1]

theorem dump_map_find (conns : List (CppString × SigSpec)) :
    ∀ (m : CppMap CppString) (k : CppString) (sig : SigSpec),
      (conns.map Prod.fst).Nodup → (k, sig) ∈ conns →
      CppMap.find (dump_map conns m) k = some sig.dump := by
  induction conns with
  | nil => intro m k sig _ h; exact absurd h (List.not_mem_nil _)
  | cons it rest ih =>
    intro m k sig hn h
    rw [List.map_cons, List.nodup_cons] at hn
    show CppMap.find (dump_map rest (CppMap.set m it.1 it.2.dump)) k = _
    rcases List.mem_cons.1 h with e | e
    · rw [← e] at hn ⊢
      rw [dump_map_find_other rest _ k hn.1]
      exact CppMap.find_set_self _ _ _
    · exact ih _ k sig hn.2 e

theorem dump_map_length (conns : List (CppString × SigSpec)) :
    ∀ (m : CppMap CppString), (conns.map Prod.fst).Nodup →
      (∀ it ∈ conns, CppMap.find m it.1 = none) →
      (dump_map conns m).length = m.length + conns.length := by
  induction conns with
  | nil => intro m _ _; rfl
  | cons it rest ih =>
    intro m hn hm
    rw [List.map_cons, List.nodup_cons] at hn
    show (dump_map rest (CppMap.set m it.1 it.2.dump)).length = _
    rw [ih _ hn.2, CppMap.length_set _ _ _ (hm it (List.mem_cons_self _ _))]
    · simp only [List.length_cons]
      omega
    · intro x hx
      have hne : x.1 ≠ it.1 := fun e => hn.1 (e ▸ List.mem_map_of_mem Prod.fst hx)
      rw [CppMap.find_set_ne _ _ _ _ hne]
      exact hm x (List.mem_cons_of_mem _ hx)

/-- The entries of a map built from connections with distinct port names
are the connections. -/
theorem dump_map_entries (conns : List (CppString × SigSpec))
    (hn : (conns.map Prod.fst).Nodup) (k v : CppString) :
    CppMap.find (dump_map conns []) k = some v ↔
      ∃ sig, (k, sig) ∈ conns ∧ v = sig.dump := by
  constructor
  · intro h
    by_cases hk : k ∈ conns.map Prod.fst
    · obtain ⟨⟨k2, sig⟩, hm, rfl⟩ := List.mem_map.1 hk
      rw [dump_map_find conns [] _ sig hn hm] at h
      exact ⟨sig, hm, (Option.some.inj h).symm⟩
    · rw [dump_map_find_other conns [] k hk] at h
      exact Option.noConfusion h
  · rintro ⟨sig, hm, rfl⟩
    exact dump_map_find conns [] k sig hn hm


theorem port_cell_connections_eq (db : PRIMITIVE_DB) :
    ∀ (conns : List (CppString × SigSpec)) (P S : CppMap CppString),
      (conns.map Prod.fst).Nodup →
      (∀ it ∈ conns, CppMap.find P it.1 = none ∧ CppMap.find S it.1 = none) →
      port_cell_connections db conns (P, S) =
        .ok (dump_map (conns.filter (fun it => is_primary_port db it.1)) P,
             dump_map (conns.filter (fun it =>
               is_declared_port db it.1 && !is_primary_port db it.1)) S) := by
  intro conns
  induction conns with
  | nil => intro P S _ _; rfl
  | cons it rest ih =>
    intro P S hn hfresh
    rw [List.map_cons, List.nodup_cons] at hn
    have hit := hfresh it (List.mem_cons_self _ _)
    have hrest : ∀ (P2 S2 : CppMap CppString),
        (∀ k, k ≠ it.1 → CppMap.find P2 k = CppMap.find P k) →
        (∀ k, k ≠ it.1 → CppMap.find S2 k = CppMap.find S k) →
        ∀ x ∈ rest, CppMap.find P2 x.1 = none ∧ CppMap.find S2 x.1 = none := by
      intro P2 S2 hP hS x hx
      have hne : x.1 ≠ it.1 := fun e => hn.1 (e ▸ List.mem_map_of_mem Prod.fst hx)
      rw [hP _ hne, hS _ hne]
      exact hfresh x (List.mem_cons_of_mem _ hx)
    have hcP : CppMap.contains P it.1 = false := by
      unfold CppMap.contains
      rw [hit.1]
      rfl
    have hcS : CppMap.contains S it.1 = false := by
      unfold CppMap.contains
      rw [hit.2]
      rfl
    simp only [port_cell_connections, List.filter_cons]
    by_cases hd : is_declared_port db it.1 = true
    · have hd2 := hd
      unfold is_declared_port at hd2
      rw [if_pos hd2]
      by_cases hp : is_primary_port db it.1 = true
      · have hp2 := hp
        unfold is_primary_port at hp2
        rw [hd, Bool.true_and] at hp2
        rw [if_pos hp2, hcP, hp, hd]
        simp only [Bool.false_eq_true, if_false, if_true, Bool.not_true, Bool.and_false]
        rw [ih _ _ hn.2 (hrest _ _ (fun k hk => CppMap.find_set_ne _ _ _ _ hk) (fun _ _ => rfl))]
        rfl
      · have hp2 := hp
        unfold is_primary_port at hp2
        rw [hd, Bool.true_and] at hp2
        have hpf : is_primary_port db it.1 = false := by
          cases h : is_primary_port db it.1 with
          | false => rfl
          | true => exact absurd h hp
        rw [if_neg hp2, hcS, hpf, hd]
        simp only [Bool.false_eq_true, if_false, if_true, Bool.not_false, Bool.and_true]
        rw [ih _ _ hn.2 (hrest _ _ (fun _ _ => rfl) (fun k hk => CppMap.find_set_ne _ _ _ _ hk))]
        rfl
    · have hd2 := hd
      unfold is_declared_port at hd2
      have hdf : is_declared_port db it.1 = false := by
        cases h : is_declared_port db it.1 with
        | false => rfl
        | true => exact absurd h hd
      have hpf : is_primary_port db it.1 = false := by
        unfold is_primary_port
        rw [hdf]
        rfl
      rw [if_neg hd2, hpf, hdf]
      simp only [Bool.false_eq_true, if_false, Bool.false_and]
      exact ih _ _ hn.2 (hrest _ _ (fun _ _ => rfl) (fun _ _ => rfl))

theorem connected_ports_eq (db : PRIMITIVE_DB) :
    ∀ (conns : List (CppString × SigSpec)) (C : CppMap CppString) (i o : Nat),
      connected_ports db conns (C, i, o) =
        (dump_map (conns.filter (fun it => is_declared_port db it.1)) C,
         i + (conns.filter (fun it => decide (it.1 ∈ db.inputs))).length,
         o + (conns.filter (fun it =>
           !decide (it.1 ∈ db.inputs) && decide (it.1 ∈ db.outputs))).length) := by
  intro conns
  induction conns with
  | nil => intro C i o; rfl
  | cons it rest ih =>
    intro C i o
    simp only [connected_ports, List.filter_cons, is_declared_port]
    by_cases h1 : it.1 ∈ db.inputs
    · simp only [h1, decide_True, Bool.true_or, if_true, Bool.not_true, Bool.false_and,
        Bool.false_eq_true, if_false]
      rw [ih]
      simp only [is_declared_port, dump_map, List.foldl_cons, List.length_cons]
      refine Prod.ext rfl (Prod.ext ?_ rfl)
      show i + 1 + _ = i + (_ + 1)
      omega
    · by_cases h2 : it.1 ∈ db.outputs
      · simp only [h1, h2, decide_False, decide_True, Bool.false_or, Bool.not_false,
          Bool.true_and, if_true, Bool.false_eq_true, if_false]
        rw [ih]
        simp only [is_declared_port, dump_map, List.foldl_cons, List.length_cons]
        refine Prod.ext rfl (Prod.ext rfl ?_)
        show o + 1 + _ = o + (_ + 1)
        omega
      · simp only [h1, h2, decide_False, Bool.false_or, Bool.not_false, Bool.and_false,
          Bool.false_eq_true, if_false]
        rw [ih]
        rfl


theorem genesis3_roots_checked : ∀ db ∈ genesis3_primitives,
    (db.is_port || db.is_standalone) = true →
      (decide (db.get_checking_ports.length ≠ 0) || db.is_standalone) = true := by
  decide

theorem is_primary_port_iff (db : PRIMITIVE_DB) (hr : RegularDescriptor db) (k : CppString) :
    is_primary_port db k = true ↔ k ∈ db.get_checking_ports := by
  obtain ⟨_, _, hdisj, _, _, _⟩ := hr
  unfold is_primary_port is_declared_port PRIMITIVE_DB.get_checking_ports
    PRIMITIVE_DB.is_in_dir PRIMITIVE_DB.is_out_dir
  by_cases hdir : db.feature &&& P_IS_IN_DIR = P_IS_NULL
  · have hd2 : ¬ (db.feature &&& P_IS_IN_DIR ≠ P_IS_NULL) := fun h => h hdir
    rw [if_neg hd2]
    by_cases h1 : k ∈ db.inputs
    · have h2 : k ∉ db.outputs := hdisj k h1
      simp [hdir, h1, h2]
    · simp [hdir, h1]
  · have hd2 : db.feature &&& P_IS_IN_DIR ≠ P_IS_NULL := hdir
    rw [if_pos hd2]
    by_cases h1 : k ∈ db.inputs
    · simp [hdir, h1]
    · simp [hdir, h1]

theorem is_secondary_port_iff (db : PRIMITIVE_DB) (hr : RegularDescriptor db) (k : CppString) :
    (is_declared_port db k && !is_primary_port db k) = true ↔
      k ∉ db.get_checking_ports ∧ (k ∈ db.inputs ∨ k ∈ db.outputs) := by
  rw [← is_primary_port_iff db hr k]
  have hdecl : is_declared_port db k = true ↔ (k ∈ db.inputs ∨ k ∈ db.outputs) := by
    unfold is_declared_port
    by_cases h1 : k ∈ db.inputs
    · simp [h1]
    · simp [h1]
  cases hp : is_primary_port db k with
  | false =>
    simp only [Bool.not_false, Bool.and_true, hdecl, Bool.false_eq_true, not_false_eq_true,
      true_and]
  | true => simp

theorem filter_keys_nodup (conns : List (CppString × SigSpec)) (p : CppString → Bool)
    (hn : (conns.map Prod.fst).Nodup) :
    ((conns.filter (fun it => p it.1)).map Prod.fst).Nodup := by
  have : (conns.filter (fun it => p it.1)).map Prod.fst = (conns.map Prod.fst).filter p := by
    rw [List.filter_map]
    rfl
  rw [this]
  exact hn.filter _

theorem count_connected (conns : List (CppString × SigSpec)) (ports : List CppString)
    (hn : (conns.map Prod.fst).Nodup) (hp : ports.Nodup) :
    (conns.filter (fun it => decide (it.1 ∈ ports))).length =
      (ports.filter (fun p => decide (p ∈ conns.map Prod.fst))).length := by
  rw [← filter_mem_length _ _ hn hp, List.filter_map, List.length_map]
  rfl

/-- C16: for a cell of a port or standalone descriptor of the `genesis3`
table (the port names of the cell being distinct, as in a netlist),
`get_port_cell_connections` returns, its status being true exactly when
every checking port of the descriptor is connected on the cell; the primary
map holds exactly the connections on the checking ports, the secondary map
exactly the connections on the other declared ports, and no key is in both
maps. -/
theorem C16_port_cell_connections_true_iff_checking_ports_connected (cell : Cell)
    (db : PRIMITIVE_DB) (hdb : db ∈ genesis3_primitives)
    (hport : (db.is_port || db.is_standalone) = true) (htype : cell.type = db.name)
    (hkeys : (cell.connections.map Prod.fst).Nodup) :
    ∃ (ok : Bool) (P S : CppMap CppString),
      get_port_cell_connections cell db = .ok (ok, P, S) ∧
      (ok = true ↔ ∀ port ∈ db.get_checking_ports, port ∈ cell.connections.map Prod.fst) ∧
      (∀ k v, CppMap.find P k = some v ↔
        k ∈ db.get_checking_ports ∧ ∃ sig, (k, sig) ∈ cell.connections ∧ v = sig.dump) ∧
      (∀ k v, CppMap.find S k = some v ↔
        k ∉ db.get_checking_ports ∧ (k ∈ db.inputs ∨ k ∈ db.outputs) ∧
          ∃ sig, (k, sig) ∈ cell.connections ∧ v = sig.dump) ∧
      (∀ k, ¬ (CppMap.contains P k = true ∧ CppMap.contains S k = true)) := by
  have hr := genesis3_regular db hdb
  have hchk := genesis3_roots_checked db hdb hport
  have hP : ∀ k v, CppMap.find
      (dump_map (cell.connections.filter (fun it => is_primary_port db it.1)) []) k = some v ↔
        k ∈ db.get_checking_ports ∧ ∃ sig, (k, sig) ∈ cell.connections ∧ v = sig.dump := by
    intro k v
    rw [dump_map_entries _ (filter_keys_nodup _ _ hkeys)]
    constructor
    · rintro ⟨sig, hm, hv⟩
      rw [List.mem_filter] at hm
      exact ⟨(is_primary_port_iff db hr k).1 hm.2, sig, hm.1, hv⟩
    · rintro ⟨hk, sig, hm, hv⟩
      exact ⟨sig, List.mem_filter.2 ⟨hm, (is_primary_port_iff db hr k).2 hk⟩, hv⟩
  have hS : ∀ k v, CppMap.find
      (dump_map (cell.connections.filter (fun it =>
        is_declared_port db it.1 && !is_primary_port db it.1)) []) k = some v ↔
        k ∉ db.get_checking_ports ∧ (k ∈ db.inputs ∨ k ∈ db.outputs) ∧
          ∃ sig, (k, sig) ∈ cell.connections ∧ v = sig.dump := by
    intro k v
    rw [dump_map_entries _ (filter_keys_nodup _
      (fun k => is_declared_port db k && !is_primary_port db k) hkeys)]
    constructor
    · rintro ⟨sig, hm, hv⟩
      rw [List.mem_filter] at hm
      have := (is_secondary_port_iff db hr k).1 hm.2
      exact ⟨this.1, this.2, sig, hm.1, hv⟩
    · rintro ⟨hk, hd, sig, hm, hv⟩
      exact ⟨sig, List.mem_filter.2 ⟨hm, (is_secondary_port_iff db hr k).2 ⟨hk, hd⟩⟩, hv⟩
  have hnodup : db.get_checking_ports.Nodup := by
    unfold PRIMITIVE_DB.get_checking_ports
    split
    · exact hr.1
    · exact hr.2.1
  refine ⟨decide (db.get_checking_ports.length =
      (dump_map (cell.connections.filter (fun it => is_primary_port db it.1)) []).length),
    dump_map (cell.connections.filter (fun it => is_primary_port db it.1)) [],
    dump_map (cell.connections.filter (fun it =>
      is_declared_port db it.1 && !is_primary_port db it.1)) [], ?_, ?_, hP, hS, ?_⟩
  · unfold get_port_cell_connections
    have hloop := port_cell_connections_eq db cell.connections [] [] hkeys
      (fun _ _ => ⟨rfl, rfl⟩)
    simp only [hport, htype, hchk, Bool.not_true, Bool.false_eq_true, if_false, ne_eq,
      not_true_eq_false, bind, Except.bind, pure, Except.pure, hloop]
  · rw [decide_eq_true_eq, dump_map_length _ [] (filter_keys_nodup _ _ hkeys)
      (fun _ _ => rfl)]
    have e : cell.connections.filter (fun it => is_primary_port db it.1) =
        cell.connections.filter (fun it => decide (it.1 ∈ db.get_checking_ports)) := by
      apply List.filter_congr
      intro x _
      rw [Bool.eq_iff_iff, is_primary_port_iff db hr, decide_eq_true_eq]
    rw [e, count_connected _ _ hkeys hnodup]
    simp only [List.length_nil, Nat.zero_add]
    constructor
    · intro h port hp
      exact of_decide_eq_true ((List.filter_length_eq_length.1 h.symm) port hp)
    · intro h
      symm
      rw [List.filter_length_eq_length]
      intro a ha
      exact decide_eq_true (h a ha)
  · rintro k ⟨h1, h2⟩
    unfold CppMap.contains at h1 h2
    cases e1 : CppMap.find (dump_map (cell.connections.filter
        (fun it => is_primary_port db it.1)) []) k with
    | none =>
      rw [e1] at h1
      exact Bool.noConfusion h1
    | some v1 =>
      cases e2 : CppMap.find (dump_map (cell.connections.filter (fun it =>
          is_declared_port db it.1 && !is_primary_port db it.1)) []) k with
      | none =>
        rw [e2] at h2
        exact Bool.noConfusion h2
      | some v2 =>
        exact ((hS k v2).1 e2).1 ((hP k v1).1 e1).1


theorem checking_port_found_eq (C : CppMap CppString) (connection : CppString) :
    ∀ ports : List CppString, (∀ key ∈ ports, ∃ v, CppMap.find C key = some v) →
      checking_port_found C connection ports =
        .ok (decide (∃ key ∈ ports, CppMap.find C key = some connection)) := by
  intro ports
  induction ports with
  | nil => intro _; simp [checking_port_found]
  | cons key rest ih =>
    intro h
    obtain ⟨v, hv⟩ := h key (List.mem_cons_self _ _)
    have hrest := ih (fun k hk => h k (List.mem_cons_of_mem _ hk))
    simp only [checking_port_found, CppMap.at, hv, bind, Except.bind, pure, Except.pure]
    by_cases e : v = connection
    · rw [if_pos e]
      congr 1
      symm
      rw [decide_eq_true_eq]
      exact ⟨key, List.mem_cons_self _ _, by rw [hv, e]⟩
    · rw [if_neg e, hrest]
      congr 1
      rw [decide_eq_decide]
      constructor
      · rintro ⟨k, hk, hf⟩
        exact ⟨k, List.mem_cons_of_mem _ hk, hf⟩
      · rintro ⟨k, hk, hf⟩
        rcases List.mem_cons.1 hk with rfl | hk
        · rw [hv] at hf
          exact absurd (Option.some.inj hf) e
        · exact ⟨k, hk, hf⟩

theorem is_declared_port_iff (db : PRIMITIVE_DB) (k : CppString) :
    is_declared_port db k = true ↔ (k ∈ db.inputs ∨ k ∈ db.outputs) := by
  unfold is_declared_port
  by_cases h1 : k ∈ db.inputs
  · simp [h1]
  · simp [h1]

theorem declared_map_entries (cell : Cell) (db : PRIMITIVE_DB)
    (hkeys : (cell.connections.map Prod.fst).Nodup) (k v : CppString) :
    CppMap.find (dump_map (cell.connections.filter (fun it => is_declared_port db it.1)) [])
        k = some v ↔
      (k ∈ db.inputs ∨ k ∈ db.outputs) ∧ ∃ sig, (k, sig) ∈ cell.connections ∧ v = sig.dump := by
  rw [dump_map_entries _ (filter_keys_nodup _ _ hkeys)]
  constructor
  · rintro ⟨sig, hm, hv⟩
    rw [List.mem_filter] at hm
    exact ⟨(is_declared_port_iff db k).1 hm.2, sig, hm.1, hv⟩
  · rintro ⟨hk, sig, hm, hv⟩
    exact ⟨sig, List.mem_filter.2 ⟨hm, (is_declared_port_iff db k).2 hk⟩, hv⟩

theorem connected_among_all (cell : Cell) (ports : List CppString)
    (h : (connected_among cell ports).length = ports.length) :
    ∀ p ∈ ports, ∃ sig, (p, sig) ∈ cell.connections := by
  intro p hp
  have := of_decide_eq_true ((List.filter_length_eq_length.1 h) p hp)
  obtain ⟨⟨k, sig⟩, hm, rfl⟩ := List.mem_map.1 this
  exact ⟨sig, hm⟩


/-- C15: for a cell and a descriptor of the `genesis3` table of the same
type (the port names of the cell being distinct, as in a netlist),
`is_connected_cell` returns, and the map it returns is not empty exactly
when (a) all declared inputs are connected, or the descriptor allows any
inputs and one is connected, or inputs are optional, (b) the same for the
outputs, and (c) a checking port of the descriptor carries the traced net;
a map that is not empty holds exactly the connections of the cell on the
declared inputs and outputs. -/
theorem C15_connected_cell_nonempty_iff_counts_and_checking_net (cell : Cell)
    (db : PRIMITIVE_DB) (connection : CppString) (hdb : db ∈ genesis3_primitives)
    (htype : cell.type = db.name) (hkeys : (cell.connections.map Prod.fst).Nodup) :
    ∃ m : CppMap CppString, is_connected_cell cell db connection = .ok m ∧
      (m ≠ [] ↔
        ((connected_among cell db.inputs).length = db.inputs.length ∨
          (db.is_any_inputs = true ∧ 0 < (connected_among cell db.inputs).length) ∨
          db.is_optional_input = true) ∧
        ((connected_among cell db.outputs).length = db.outputs.length ∨
          (db.is_any_outputs = true ∧ 0 < (connected_among cell db.outputs).length) ∨
          db.is_optional_output = true) ∧
        ∃ port ∈ db.get_checking_ports, ∃ sig, (port, sig) ∈ cell.connections ∧
          sig.dump = connection) ∧
      (m ≠ [] → ∀ k v, CppMap.find m k = some v ↔
        (k ∈ db.inputs ∨ k ∈ db.outputs) ∧
          ∃ sig, (k, sig) ∈ cell.connections ∧ v = sig.dump) := by
  obtain ⟨hin, hout, hdisj, htot, hchk_in, hchk_out⟩ := genesis3_regular db hdb
  have hic : (cell.connections.filter (fun it => decide (it.1 ∈ db.inputs))).length =
      (connected_among cell db.inputs).length := count_connected _ _ hkeys hin
  have hoc : (cell.connections.filter (fun it =>
      !decide (it.1 ∈ db.inputs) && decide (it.1 ∈ db.outputs))).length =
      (connected_among cell db.outputs).length := by
    rw [show connected_among cell db.outputs =
      db.outputs.filter (fun p => decide (p ∈ cell.connections.map Prod.fst)) from rfl,
      ← count_connected _ _ hkeys hout]
    congr 1
    apply List.filter_congr
    intro x _
    by_cases h1 : x.1 ∈ db.inputs
    · simp [h1, hdisj x.1 h1]
    · simp [h1]
  have hE := declared_map_entries cell db hkeys
  generalize hC : dump_map (cell.connections.filter (fun it => is_declared_port db it.1)) []
    = C at hE
  have hrun : is_connected_cell cell db connection =
      if ((connected_among cell db.inputs).length = db.inputs.length ∨
          (db.is_any_inputs = true ∧ 0 < (connected_among cell db.inputs).length) ∨
          db.is_optional_input = true) ∧
        ((connected_among cell db.outputs).length = db.outputs.length ∨
          (db.is_any_outputs = true ∧ 0 < (connected_among cell db.outputs).length) ∨
          db.is_optional_output = true) then
        (checking_port_found C connection db.get_checking_ports).bind
          (fun found => if found then .ok C else .ok [])
      else .ok [] := by
    unfold is_connected_cell
    simp only [htype, ne_eq, not_true_eq_false, if_false, htot, connected_ports_eq, hic, hoc,
      Nat.zero_add, hC, bind, Except.bind, pure, Except.pure, gt_iff_lt]
    simp only [eq_comm (a := db.inputs.length), eq_comm (a := db.outputs.length)]
  have hdecl : ∀ key ∈ db.get_checking_ports, key ∈ db.inputs ∨ key ∈ db.outputs := by
    intro key hk
    unfold PRIMITIVE_DB.get_checking_ports at hk
    split at hk
    · exact Or.inl hk
    · exact Or.inr hk
  have hc : (∃ key ∈ db.get_checking_ports, CppMap.find C key = some connection) ↔
      ∃ port ∈ db.get_checking_ports, ∃ sig, (port, sig) ∈ cell.connections ∧
        sig.dump = connection := by
    constructor
    · rintro ⟨key, hk, hf⟩
      obtain ⟨_, sig, hm, hv⟩ := (hE key connection).1 hf
      exact ⟨key, hk, sig, hm, hv.symm⟩
    · rintro ⟨key, hk, sig, hm, hv⟩
      exact ⟨key, hk, (hE key connection).2 ⟨hdecl key hk, sig, hm, hv.symm⟩⟩
  by_cases hcond : ((connected_among cell db.inputs).length = db.inputs.length ∨
          (db.is_any_inputs = true ∧ 0 < (connected_among cell db.inputs).length) ∨
          db.is_optional_input = true) ∧
        ((connected_among cell db.outputs).length = db.outputs.length ∨
          (db.is_any_outputs = true ∧ 0 < (connected_among cell db.outputs).length) ∨
          db.is_optional_output = true)
  · rw [if_pos hcond] at hrun
    have hall : ∀ key ∈ db.get_checking_ports, ∃ v, CppMap.find C key = some v := by
      intro key hk
      have hk2 := hk
      unfold PRIMITIVE_DB.get_checking_ports at hk2
      by_cases hdir : db.feature &&& P_IS_IN_DIR ≠ P_IS_NULL
      · rw [if_pos hdir] at hk2
        obtain ⟨ha, ho⟩ := hchk_in (decide_eq_true hdir)
        have hcount : (connected_among cell db.inputs).length = db.inputs.length := by
          rcases hcond.1 with h | h | h
          · exact h
          · rw [ha] at h
            exact absurd h.1 Bool.false_ne_true
          · rw [ho] at h
            exact absurd h Bool.false_ne_true
        obtain ⟨sig, hs⟩ := connected_among_all cell _ hcount key hk2
        exact ⟨sig.dump, (hE key sig.dump).2 ⟨Or.inl hk2, sig, hs, rfl⟩⟩
      · rw [if_neg hdir] at hk2
        obtain ⟨ha, ho⟩ := hchk_out (decide_eq_false hdir)
        have hcount : (connected_among cell db.outputs).length = db.outputs.length := by
          rcases hcond.2 with h | h | h
          · exact h
          · rw [ha] at h
            exact absurd h.1 Bool.false_ne_true
          · rw [ho] at h
            exact absurd h Bool.false_ne_true
        obtain ⟨sig, hs⟩ := connected_among_all cell _ hcount key hk2
        exact ⟨sig.dump, (hE key sig.dump).2 ⟨Or.inr hk2, sig, hs, rfl⟩⟩
    rw [checking_port_found_eq C connection _ hall] at hrun
    by_cases hfound : ∃ key ∈ db.get_checking_ports, CppMap.find C key = some connection
    · have hne : C ≠ [] := by
        obtain ⟨key, _, hf⟩ := hfound
        intro e
        rw [e] at hf
        exact Option.noConfusion hf
      refine ⟨C, ?_, ?_, fun _ => hE⟩
      · rw [hrun, decide_eq_true hfound]
        rfl
      · exact ⟨fun _ => ⟨hcond.1, hcond.2, hc.1 hfound⟩, fun _ => hne⟩
    · refine ⟨[], ?_, ?_, fun h => absurd rfl h⟩
      · rw [hrun, decide_eq_false hfound]
        rfl
      · exact ⟨fun h => absurd rfl h, fun h => absurd (hc.2 h.2.2) hfound⟩
  · rw [if_neg hcond] at hrun
    refine ⟨[], hrun, ?_, fun h => absurd rfl h⟩
    exact ⟨fun h => absurd rfl h, fun h => absurd ⟨h.1, h.2.1⟩ hcond⟩


/-- Witness for C16: an input buffer with both ports connected. -/
theorem C16_port_cell_connections_true_iff_checking_ports_connected_witness :
    ∃ (ok : Bool) (P S : CppMap CppString),
      get_port_cell_connections
        (cell_of "\\I_BUF" "\\ibuf" [("\\I", "\\clk"), ("\\O", "\\n1")])
        (genesis3_descriptor "\\I_BUF") = .ok (ok, P, S) ∧
      (ok = true ↔ ∀ port ∈ (genesis3_descriptor "\\I_BUF").get_checking_ports,
        port ∈ (cell_of "\\I_BUF" "\\ibuf"
          [("\\I", "\\clk"), ("\\O", "\\n1")]).connections.map Prod.fst) ∧
      (∀ k v, CppMap.find P k = some v ↔
        k ∈ (genesis3_descriptor "\\I_BUF").get_checking_ports ∧
          ∃ sig, (k, sig) ∈ (cell_of "\\I_BUF" "\\ibuf"
            [("\\I", "\\clk"), ("\\O", "\\n1")]).connections ∧ v = sig.dump) ∧
      (∀ k v, CppMap.find S k = some v ↔
        k ∉ (genesis3_descriptor "\\I_BUF").get_checking_ports ∧
          (k ∈ (genesis3_descriptor "\\I_BUF").inputs ∨
            k ∈ (genesis3_descriptor "\\I_BUF").outputs) ∧
          ∃ sig, (k, sig) ∈ (cell_of "\\I_BUF" "\\ibuf"
            [("\\I", "\\clk"), ("\\O", "\\n1")]).connections ∧ v = sig.dump) ∧
      (∀ k, ¬ (CppMap.contains P k = true ∧ CppMap.contains S k = true)) :=
  C16_port_cell_connections_true_iff_checking_ports_connected
    (cell_of "\\I_BUF" "\\ibuf" [("\\I", "\\clk"), ("\\O", "\\n1")])
    (genesis3_descriptor "\\I_BUF") (by decide) (by decide) (by decide) (by decide)

/-- Witness for C15: a delay whose data input carries the traced net
`n1`. -/
theorem C15_connected_cell_nonempty_iff_counts_and_checking_net_witness :
    ∃ m : CppMap CppString,
      is_connected_cell
        (cell_of "\\I_DELAY" "\\a" [("\\I", "\\n1"), ("\\CLK_IN", "\\c"), ("\\O", "\\d")])
        (genesis3_descriptor "\\I_DELAY") "\\n1".toList = .ok m ∧
      (m ≠ [] ↔
        ((connected_among
            (cell_of "\\I_DELAY" "\\a" [("\\I", "\\n1"), ("\\CLK_IN", "\\c"), ("\\O", "\\d")])
            (genesis3_descriptor "\\I_DELAY").inputs).length =
              (genesis3_descriptor "\\I_DELAY").inputs.length ∨
          ((genesis3_descriptor "\\I_DELAY").is_any_inputs = true ∧
            0 < (connected_among
              (cell_of "\\I_DELAY" "\\a" [("\\I", "\\n1"), ("\\CLK_IN", "\\c"), ("\\O", "\\d")])
              (genesis3_descriptor "\\I_DELAY").inputs).length) ∨
          (genesis3_descriptor "\\I_DELAY").is_optional_input = true) ∧
        ((connected_among
            (cell_of "\\I_DELAY" "\\a" [("\\I", "\\n1"), ("\\CLK_IN", "\\c"), ("\\O", "\\d")])
            (genesis3_descriptor "\\I_DELAY").outputs).length =
              (genesis3_descriptor "\\I_DELAY").outputs.length ∨
          ((genesis3_descriptor "\\I_DELAY").is_any_outputs = true ∧
            0 < (connected_among
              (cell_of "\\I_DELAY" "\\a" [("\\I", "\\n1"), ("\\CLK_IN", "\\c"), ("\\O", "\\d")])
              (genesis3_descriptor "\\I_DELAY").outputs).length) ∨
          (genesis3_descriptor "\\I_DELAY").is_optional_output = true) ∧
        ∃ port ∈ (genesis3_descriptor "\\I_DELAY").get_checking_ports, ∃ sig,
          (port, sig) ∈ (cell_of "\\I_DELAY" "\\a"
            [("\\I", "\\n1"), ("\\CLK_IN", "\\c"), ("\\O", "\\d")]).connections ∧
          sig.dump = "\\n1".toList) ∧
      (m ≠ [] → ∀ k v, CppMap.find m k = some v ↔
        (k ∈ (genesis3_descriptor "\\I_DELAY").inputs ∨
          k ∈ (genesis3_descriptor "\\I_DELAY").outputs) ∧
          ∃ sig, (k, sig) ∈ (cell_of "\\I_DELAY" "\\a"
            [("\\I", "\\n1"), ("\\CLK_IN", "\\c"), ("\\O", "\\d")]).connections ∧
            v = sig.dump) :=
  C15_connected_cell_nonempty_iff_counts_and_checking_net
    (cell_of "\\I_DELAY" "\\a" [("\\I", "\\n1"), ("\\CLK_IN", "\\c"), ("\\O", "\\d")])
    (genesis3_descriptor "\\I_DELAY") "\\n1".toList (by decide) (by decide) (by decide)


/-! ### Cells that the extractor passes over -/

theorem supported_table (st : Extractor) (h : st.m_technology = "genesis3".toList)
    (name : CppString) (req : PRIMITIVE_REQ) :
    is_supported_primitive st name req =
      .ok (is_supported_primitive_in name req genesis3_primitives) := by
  unfold is_supported_primitive
  rw [h]
  rfl

theorem unsupported_any_req (name : CppString) (req : PRIMITIVE_REQ) :
    ∀ table : List PRIMITIVE_DB,
      is_supported_primitive_in name PRIMITIVE_REQ.DONT_CARE table = none →
      is_supported_primitive_in name req table = none := by
  intro table
  induction table with
  | nil => intro _; rfl
  | cons d rest ih =>
    intro h
    simp only [is_supported_primitive_in] at h ⊢
    split at h
    · simp at h
    · rename_i hd
      rw [if_neg hd]
      exact ih h

theorem trace_and_create_port_cells_skip (module : Module) (fuel : Nat)
    (port_infos : List PORT_INFO) :
    ∀ (cells : List Cell) (port_trackers : List Nat) (st : Extractor),
      st.m_technology = "genesis3".toList →
      (∀ x ∈ cells, is_supported_primitive_in x.type PRIMITIVE_REQ.DONT_CARE
        genesis3_primitives = none) →
      trace_and_create_port_cells module fuel port_infos cells port_trackers st = .ok st := by
  intro cells
  induction cells with
  | nil => intro _ st _ _; rfl
  | cons cell rest ih =>
    intro port_trackers st ht hx
    have h0 := hx cell (List.mem_cons_self _ _)
    simp only [trace_and_create_port_cells, supported_table st ht,
      unsupported_any_req _ _ _ h0, bind, Except.bind, pure, Except.pure]
    exact ih port_trackers st ht (fun x hm => hx x (List.mem_cons_of_mem _ hm))

theorem deref_port_ok (st : Extractor) (i : Nat) (h : i < st.m_ports.length) :
    ∃ n, st.deref (.port i) = .ok n := by
  simp only [Extractor.deref, List.getElem?_eq_getElem h]
  exact ⟨_, rfl⟩

theorem deref_child_ok (st : Extractor) (i : Nat) (h : i < st.m_child_primitives.length) :
    ∃ n, st.deref (.child i) = .ok n := by
  simp only [Extractor.deref, List.getElem?_eq_getElem h]
  exact ⟨_, rfl⟩

theorem trace_cells_skip (module : Module) (fuel : Nat) (src dst : CppString)
    (primitive : PrimRef) (st : Extractor) (node : PRIMITIVE)
    (hd : st.deref primitive = .ok node) :
    ∀ cells : List Cell, (∀ cell ∈ cells, cell.type ≠ dst) →
      trace_cells module fuel src dst primitive cells st = .ok st := by
  intro cells
  induction cells with
  | nil => intro _; rfl
  | cons cell rest ih =>
    intro h
    have h0 := h cell (List.mem_cons_self _ _)
    simp only [trace_cells, hd]
    rw [if_neg (fun x => h0 x.2)]
    exact ih (fun c hc => h c (List.mem_cons_of_mem _ hc))

theorem trace_sources_skip (module : Module) (fuel : Nat) (src dst : CppString)
    (st : Extractor) (hcells : ∀ cell ∈ module.cells, cell.type ≠ dst) :
    ∀ sources : List PrimRef, (∀ r ∈ sources, ∃ n, st.deref r = .ok n) →
      trace_sources module fuel src dst sources st = .ok st := by
  intro sources
  induction sources with
  | nil => intro _; rfl
  | cons r rest ih =>
    intro h
    obtain ⟨n, hn⟩ := h r (List.mem_cons_self _ _)
    simp only [trace_sources, trace_cells_skip module fuel src dst r st n hn _ hcells]
    exact ih (fun q hq => h q (List.mem_cons_of_mem _ hq))

theorem trace_next_primitive_skip (module : Module) (fuel : Nat) (src dst : CppString)
    (st : Extractor) (ht : st.m_technology = "genesis3".toList)
    (hsrc : is_supported_primitive_in src PRIMITIVE_REQ.DONT_CARE genesis3_primitives ≠ none)
    (hcells : ∀ cell ∈ module.cells, cell.type ≠ dst) :
    trace_next_primitive module fuel st src dst = .ok st := by
  unfold trace_next_primitive
  rw [supported_table st ht]
  cases hs : is_supported_primitive_in src PRIMITIVE_REQ.DONT_CARE genesis3_primitives with
  | none => exact absurd hs hsrc
  | some d =>
    simp only [bind, Except.bind]
    apply trace_sources_skip module fuel src dst st hcells
    intro r hr
    split at hr
    · obtain ⟨i, hi, rfl⟩ := List.mem_map.1 hr
      exact deref_port_ok st i (List.mem_range.1 hi)
    · obtain ⟨i, hi, rfl⟩ := List.mem_map.1 hr
      exact deref_child_ok st i (List.mem_range.1 hi)

theorem trace_calls_skip (module : Module) (fuel : Nat) (st : Extractor)
    (ht : st.m_technology = "genesis3".toList) :
    ∀ calls : List (CppString × CppString),
      (∀ call ∈ calls, is_supported_primitive_in call.1 PRIMITIVE_REQ.DONT_CARE
        genesis3_primitives ≠ none) →
      (∀ call ∈ calls, ∀ cell ∈ module.cells, cell.type ≠ call.2) →
      trace_calls module fuel calls st = .ok st := by
  intro calls
  induction calls with
  | nil => intro _ _; rfl
  | cons call rest ih =>
    intro hs hc
    simp only [trace_calls, trace_next_primitive_skip module fuel call.1 call.2 st ht
      (hs call (List.mem_cons_self _ _)) (hc call (List.mem_cons_self _ _))]
    exact ih (fun c hm => hs c (List.mem_cons_of_mem _ hm))
      (fun c hm => hc c (List.mem_cons_of_mem _ hm))

theorem extract_trace_pairs_supported : ∀ call ∈ extract_trace_pairs,
    is_supported_primitive_in call.1 PRIMITIVE_REQ.DONT_CARE genesis3_primitives ≠ none ∧
    is_supported_primitive_in call.2 PRIMITIVE_REQ.DONT_CARE genesis3_primitives ≠ none ∧
    call.2 ≠ "\\I_BUF".toList := by
  decide

theorem trace_fabric_clkbuf_cells_skip (module : Module) :
    ∀ (cells : List Cell) (st : Extractor), st.m_technology = "genesis3".toList →
      (∀ x ∈ cells, is_supported_primitive_in x.type PRIMITIVE_REQ.IS_FABRIC_CLKBUF
        genesis3_primitives = none) →
      trace_fabric_clkbuf_cells module cells st = .ok st := by
  intro cells
  induction cells with
  | nil => intro st _ _; rfl
  | cons cell rest ih =>
    intro st ht hx
    have h0 := hx cell (List.mem_cons_self _ _)
    simp only [trace_fabric_clkbuf_cells, supported_table st ht, h0, bind, Except.bind,
      pure, Except.pure]
    exact ih st ht (fun x hm => hx x (List.mem_cons_of_mem _ hm))


/-! ### A single input buffer on a single input port -/

theorem wire_port_infos_input (w : Wire)
    (h : w.port_input = true ∧ w.port_output = false ∧ w.width = 1) :
    wire_port_infos w = [input_port_info w] := by
  obtain ⟨h1, h2, h3⟩ := h
  unfold wire_port_infos input_port_info
  simp [h1, h2, h3, List.range_succ, List.range_zero]

theorem wire_port_infos_not_input (w : Wire) (h : w.port_input = false) :
    ∀ info ∈ wire_port_infos w, info.dir ≠ IO_DIR.IN := by
  intro info hi
  unfold wire_port_infos at hi
  by_cases h2 : w.port_output = true
  · simp [h, h2] at hi
    obtain ⟨i, _, rfl⟩ := hi
    simp
  · simp [h, h2] at hi

theorem find_port_info_skip (connection : CppString) (dir : IO_DIR) :
    ∀ (l1 l2 : List PORT_INFO) (idx : Nat), (∀ info ∈ l1, info.dir ≠ dir) →
      find_port_info connection dir (l1 ++ l2) idx =
        find_port_info connection dir l2 (idx + l1.length) := by
  intro l1
  induction l1 with
  | nil => intro l2 idx _; rfl
  | cons a rest ih =>
    intro l2 idx h
    have ha := h a (List.mem_cons_self _ _)
    show find_port_info connection dir (a :: (rest ++ l2)) idx = _
    simp only [find_port_info]
    rw [if_neg (fun x => ha x.2.symm), ih l2 (idx + 1)
      (fun i hi => h i (List.mem_cons_of_mem _ hi))]
    simp only [List.length_cons]
    congr 1
    omega

theorem find_port_info_input (w : Wire)
    (hw : w.port_input = true ∧ w.port_output = false ∧ w.width = 1) :
    ∀ (wires : List Wire) (idx : Nat), w ∈ wires →
      (∀ x ∈ wires, x.port_input = true → x = w) →
      ∃ i, find_port_info w.name IO_DIR.IN (wires.flatMap wire_port_infos) idx =
        some (i, input_port_info w) := by
  intro wires
  induction wires with
  | nil => intro _ h _; exact absurd h (List.not_mem_nil _)
  | cons x rest ih =>
    intro idx hmem honly
    rw [List.flatMap_cons]
    by_cases hx : x.port_input = true
    · have := honly x (List.mem_cons_self _ _) hx
      subst this
      rw [wire_port_infos_input x hw]
      refine ⟨idx, ?_⟩
      simp [find_port_info, input_port_info]
    · have hxf : x.port_input = false := by
        cases h : x.port_input with
        | false => rfl
        | true => exact absurd h hx
      rw [find_port_info_skip _ _ _ _ idx (wire_port_infos_not_input x hxf)]
      rcases List.mem_cons.1 hmem with e | e
      · rw [← e] at hx
        exact absurd hw.1 hx
      · exact ih _ e (fun y hy => honly y (List.mem_cons_of_mem _ hy))

theorem filter_key_single (k : CppString) (sig : SigSpec) :
    ∀ conns : List (CppString × SigSpec), (conns.map Prod.fst).Nodup →
      (k, sig) ∈ conns → conns.filter (fun it => decide (it.1 = k)) = [(k, sig)] := by
  intro conns
  induction conns with
  | nil => intro _ h; exact absurd h (List.not_mem_nil _)
  | cons it rest ih =>
    intro hn hm
    rw [List.map_cons, List.nodup_cons] at hn
    rcases List.mem_cons.1 hm with e | e
    · subst e
      have hrest : rest.filter (fun it => decide (it.1 = k)) = [] := by
        rw [List.filter_eq_nil_iff]
        intro x hx
        have : x.1 ≠ k := by
          intro e
          apply hn.1
          show k ∈ List.map Prod.fst rest
          rw [← e]
          exact List.mem_map_of_mem Prod.fst hx
        simpa using this
      simp [List.filter_cons, hrest]
    · have hne : it.1 ≠ k := by
        intro e2
        apply hn.1
        rw [e2]
        exact List.mem_map_of_mem Prod.fst e
      rw [List.filter_cons, if_neg (by simpa using hne)]
      exact ih hn.2 e


theorem construct_genesis3 :
    Extractor.construct "genesis3".toList = { m_technology := "genesis3".toList } := by
  decide

theorem input_buffer_facts :
    is_supported_primitive_in "\\I_BUF".toList PRIMITIVE_REQ.IS_PORT genesis3_primitives =
      some (genesis3_descriptor "\\I_BUF") ∧
    is_supported_primitive_in "\\I_BUF".toList PRIMITIVE_REQ.DONT_CARE genesis3_primitives =
      some (genesis3_descriptor "\\I_BUF") ∧
    is_supported_primitive_in "\\I_BUF".toList PRIMITIVE_REQ.IS_FABRIC_CLKBUF
      genesis3_primitives = none ∧
    genesis3_descriptor "\\I_BUF" ∈ genesis3_primitives ∧
    (genesis3_descriptor "\\I_BUF").name = "\\I_BUF".toList ∧
    (genesis3_descriptor "\\I_BUF").get_checking_ports = ["\\I".toList] ∧
    (genesis3_descriptor "\\I_BUF").is_port = true ∧
    (genesis3_descriptor "\\I_BUF").is_standalone = false ∧
    (genesis3_descriptor "\\I_BUF").is_in_dir = true ∧
    (genesis3_descriptor "\\I_BUF").is_clock = false ∧
    (genesis3_descriptor "\\I_BUF").is_fabric_clkbuf = false ∧
    (genesis3_descriptor "\\I_BUF").properties = [] ∧
    (genesis3_descriptor "\\I_BUF").core_clock = [] := by
  decide

theorem trace_and_create_port_cells_append (module : Module) (fuel : Nat)
    (port_infos : List PORT_INFO) (rest : List Cell) :
    ∀ (cells : List Cell) (port_trackers : List Nat) (st : Extractor),
      st.m_technology = "genesis3".toList →
      (∀ x ∈ cells, is_supported_primitive_in x.type PRIMITIVE_REQ.DONT_CARE
        genesis3_primitives = none) →
      trace_and_create_port_cells module fuel port_infos (cells ++ rest) port_trackers st =
        trace_and_create_port_cells module fuel port_infos rest port_trackers st := by
  intro cells
  induction cells with
  | nil => intro _ st _ _; rfl
  | cons cell more ih =>
    intro port_trackers st ht hx
    have h0 := hx cell (List.mem_cons_self _ _)
    show trace_and_create_port_cells module fuel port_infos (cell :: (more ++ rest))
      port_trackers st = _
    simp only [trace_and_create_port_cells, supported_table st ht,
      unsupported_any_req _ _ _ h0, bind, Except.bind, pure, Except.pure]
    exact ih port_trackers st ht (fun x hm => hx x (List.mem_cons_of_mem _ hm))

theorem input_buffer_connections (c : Cell) (w : Wire)
    (hports : (c.connections.map Prod.fst).Nodup)
    (hon : ∃ sig, ("\\I".toList, sig) ∈ c.connections ∧ sig.dump = w.name)
    (htype : c.type = "\\I_BUF".toList) :
    get_port_cell_connections c (genesis3_descriptor "\\I_BUF") =
      .ok (true, [("\\I".toList, w.name)],
        dump_map (c.connections.filter (fun it =>
          is_declared_port (genesis3_descriptor "\\I_BUF") it.1 &&
            !is_primary_port (genesis3_descriptor "\\I_BUF") it.1)) []) := by
  obtain ⟨_, _, _, hmem, hname, hchk, hport, hstand, _⟩ := input_buffer_facts
  obtain ⟨sig, hsig, hdump⟩ := hon
  have hloop := port_cell_connections_eq (genesis3_descriptor "\\I_BUF") c.connections [] []
    hports (fun _ _ => ⟨rfl, rfl⟩)
  have hfilter : c.connections.filter
      (fun it => is_primary_port (genesis3_descriptor "\\I_BUF") it.1) =
      [("\\I".toList, sig)] := by
    rw [← filter_key_single _ sig c.connections hports hsig]
    apply List.filter_congr
    intro x _
    rw [Bool.eq_iff_iff, is_primary_port_iff _ (genesis3_regular _ hmem), hchk,
      decide_eq_true_eq, List.mem_singleton]
  rw [hfilter] at hloop
  unfold get_port_cell_connections
  simp only [hport, hstand, htype, hname, hchk, hloop, Bool.or_false, Bool.not_true,
    Bool.false_eq_true, if_false, ne_eq, not_true_eq_false, bind, Except.bind, pure,
    Except.pure, dump_map, List.foldl_cons, List.foldl_nil, CppMap.set, hdump,
    List.length_singleton, decide_True, decide_not, Bool.true_or, Nat.succ_ne_zero,
    not_false_eq_true]


theorem connect_primary_single (module : Module) (fuel : Nat) (port_infos : List PORT_INFO)
    (k : CppString) (w : Wire) (i : Nat)
    (hfind : find_port_info w.name IO_DIR.IN port_infos 0 = some (i, input_port_info w)) :
    connect_primary module (fuel + 1) IO_DIR.IN port_infos [(k, w.name)]
        { port_trackers := [], m_netlist_status := true } =
      .ok (true, { port_trackers := [i], connected_ports := [input_port_info w],
                   is_bidir := false, m_netlist_status := true }) := by
  simp [connect_primary, get_connected_port, hfind, input_port_info]

theorem input_buffer_construct (c : Cell) (w : Wire) (connections : CppMap CppString) :
    PORT_PRIMITIVE.construct [] (genesis3_descriptor "\\I_BUF") c.name connections
        [input_port_info w] false =
      .ok ({ base := { db := genesis3_descriptor "\\I_BUF", name := c.name, parent := none,
                       grandparent := none, connections := connections,
                       is_port_primitive := true, bidir := false },
             port_infos := [input_port_info w], dir := IO_DIR.IN }, []) := by
  obtain ⟨_, _, _, _, _, _, _, hstand, _, _, hclk, _⟩ := input_buffer_facts
  unfold PORT_PRIMITIVE.construct
  simp [hstand, hclk, input_port_info, pure, Except.pure, bind, Except.bind]

theorem input_buffer_parameters (c : Cell) (st : Extractor) (port : PORT_PRIMITIVE)
    (hports : st.m_ports = [port]) (hdb : port.base.db = genesis3_descriptor "\\I_BUF") :
    get_primitive_parameters st c (.port 0) =
      .ok { st with m_ports := [{ port with base := { port.base with
        parameters := copy_parameters c.parameters port.base.parameters } }] } := by
  obtain ⟨_, _, _, _, _, _, _, _, _, _, _, hprop, _⟩ := input_buffer_facts
  unfold get_primitive_parameters
  simp [Extractor.update, Extractor.deref, hports, check_must_have_params,
    define_data_width, hdb, hprop, CppMap.contains, CppMap.find, pure, Except.pure, bind,
    Except.bind]


theorem port_cells_single (module : Module) (fuel : Nat) (port_infos : List PORT_INFO)
    (c : Cell) (w : Wire) (after : List Cell) (i : Nat)
    (hfind : find_port_info w.name IO_DIR.IN port_infos 0 = some (i, input_port_info w))
    (htype : c.type = "\\I_BUF".toList)
    (hports : (c.connections.map Prod.fst).Nodup)
    (hon : ∃ sig, ("\\I".toList, sig) ∈ c.connections ∧ sig.dump = w.name)
    (hafter : ∀ x ∈ after, is_supported_primitive_in x.type PRIMITIVE_REQ.DONT_CARE
      genesis3_primitives = none) :
    trace_and_create_port_cells module (fuel + 1) port_infos (c :: after) []
        { m_technology := "genesis3".toList } =
      .ok { m_technology := "genesis3".toList, m_ports := [input_buffer_root c w] } := by
  obtain ⟨hsup, _, _, _, _, _, _, _, hdir, _⟩ := input_buffer_facts
  have hst := supported_table ({ m_technology := "genesis3".toList } : Extractor) rfl
  simp only [trace_and_create_port_cells, hst, htype, hsup, bind,
    Except.bind, pure, Except.pure, input_buffer_connections c w hports hon htype, hdir,
    if_true, connect_primary_single module fuel port_infos _ w i hfind,
    input_buffer_construct, List.length_nil, List.nil_append]
  rw [input_buffer_parameters c _ _ rfl rfl]
  exact trace_and_create_port_cells_skip module (fuel + 1) port_infos after _ _ rfl hafter


theorem get_ports_single (module : Module) (c : Cell) (w : Wire) (before after : List Cell)
    (fuel : Nat) (h : SingleInputBuffer module c w before after) :
    get_ports module (fuel + 1) { m_technology := "genesis3".toList } =
      .ok (true, { m_technology := "genesis3".toList, m_ports := [input_buffer_root c w] }) := by
  obtain ⟨i, hfind⟩ := find_port_info_input w h.input module.wires 0 h.wire h.only_input
  have hne : (module.wires.flatMap wire_port_infos).length ≠ 0 := by
    intro e
    rw [List.length_eq_zero.1 e] at hfind
    exact Option.noConfusion hfind
  have hcells := port_cells_single module fuel _ c w after i hfind h.buffer h.ports h.on_port
    (fun x hx => h.others x (List.mem_append_right _ hx))
  have hall : trace_and_create_port_cells module (fuel + 1)
      (module.wires.flatMap wire_port_infos) module.cells []
      { m_technology := "genesis3".toList } =
      .ok { m_technology := "genesis3".toList, m_ports := [input_buffer_root c w] } := by
    rw [h.cells, trace_and_create_port_cells_append module (fuel + 1) _ (c :: after) before
      [] _ rfl (fun x hx => h.others x (List.mem_append_left _ hx))]
    exact hcells
  unfold get_ports trace_and_create_port
  simp only [List.length_nil, ne_eq, not_true_eq_false, if_false, Bool.not_true,
    Bool.false_eq_true, hne, not_false_eq_true, if_true, hall, bind, Except.bind, pure,
    Except.pure]

theorem single_cell_types (module : Module) (c : Cell) (w : Wire) (before after : List Cell)
    (h : SingleInputBuffer module c w before after) :
    (∀ call ∈ extract_trace_pairs, ∀ cell ∈ module.cells, cell.type ≠ call.2) ∧
    (∀ x ∈ module.cells, is_supported_primitive_in x.type PRIMITIVE_REQ.IS_FABRIC_CLKBUF
      genesis3_primitives = none) := by
  have hcase : ∀ x ∈ module.cells, x.type = "\\I_BUF".toList ∨
      is_supported_primitive_in x.type PRIMITIVE_REQ.DONT_CARE genesis3_primitives = none := by
    intro x hx
    rw [h.cells] at hx
    rcases List.mem_append.1 hx with e | e
    · exact Or.inr (h.others x (List.mem_append_left _ e))
    · rcases List.mem_cons.1 e with e | e
      · rw [e]
        exact Or.inl h.buffer
      · exact Or.inr (h.others x (List.mem_append_right _ e))
  constructor
  · intro call hcall cell hcell e
    have hs := extract_trace_pairs_supported call hcall
    rcases hcase cell hcell with h1 | h1
    · exact hs.2.2 (e ▸ h1)
    · rw [e] at h1
      exact hs.2.1 h1
  · intro x hx
    rcases hcase x hx with h1 | h1
    · rw [h1]
      exact input_buffer_facts.2.2.1
    · exact unsupported_any_req _ _ _ h1

theorem tracing_single (module : Module) (c : Cell) (w : Wire) (before after : List Cell)
    (fuel : Nat) (h : SingleInputBuffer module c w before after) (st : Extractor)
    (ht : st.m_technology = "genesis3".toList) (hc : st.m_child_primitives = []) :
    trace_calls module fuel extract_trace_pairs st = .ok st ∧
    trace_fabric_clkbuf module st = .ok st ∧ trace_gearbox_fast_clock st = .ok st := by
  obtain ⟨h1, h2⟩ := single_cell_types module c w before after h
  refine ⟨trace_calls_skip module fuel st ht _
    (fun call hcall => (extract_trace_pairs_supported call hcall).1) h1,
    trace_fabric_clkbuf_cells_skip module _ st ht h2, ?_⟩
  unfold trace_gearbox_fast_clock
  rw [hc]
  rfl


theorem input_buffer_linked_object (c : Cell) (w : Wire)
    (hname : JoinedName (get_original_name w.name)) :
    ∃ lo, (input_buffer_root c w).linked_object = .ok lo := by
  obtain ⟨pieces, hne, hp, hlen, hs⟩ := hname
  obtain ⟨_, _, _, _, _, _, _, hstand, _, _, hclk, _⟩ := input_buffer_facts
  have e : join_plus [get_original_name w.name] = plus_join pieces := by
    rw [← hs]
    show List.drop 1 (c_str [] ++ "+".toList ++ c_str (get_original_name w.name)) = _
    rfl
  have hl : (input_buffer_root c w).linked_object = sort_name (plus_join pieces) := by
    unfold PORT_PRIMITIVE.linked_object
    simp only [input_buffer_root, hstand, hclk, Bool.or_false, Bool.false_eq_true, if_false,
      List.map_cons, List.map_nil, input_port_info, e]
  rw [hl, sort_name_joined pieces hne hp hlen]
  exact ⟨_, rfl⟩

theorem gen_instance_leaf (st : Extractor) (ls : List CppString) (r : PrimRef)
    (pre : CppString) (primitive : PRIMITIVE) (hd : st.deref r = .ok primitive)
    (hc : primitive.child = []) (hg : primitive.gearbox_clocks = [])
    (hi : primitive.inst = none) (hls : ls.length ≠ 0) :
    gen_instance st ls r pre =
      .ok (Extractor.update
        { st with m_instances := st.m_instances ++ [leaf_instance primitive ls r pre] } r
        (fun q => { q with inst := some st.m_instances.length })) := by
  unfold gen_instance
  simp only [hd, hc, hg, hi, child_primitive_types, INSTANCE.construct,
    instance_gearbox_clocks, hls, if_false, bind, Except.bind, pure, Except.pure, ne_eq,
    not_true_eq_false]
  rfl

theorem gen_instances_leaf_root (st : Extractor) (root : PORT_PRIMITIVE) (fuel : Nat)
    (lo : CppString) (hs : st.m_status = true) (hi : st.m_instances = [])
    (hp : st.m_ports = [root]) (hlo : root.linked_object = .ok lo)
    (hprim : root.base.is_port_primitive = true) (hc : root.base.child = [])
    (hg : root.base.gearbox_clocks = []) (hinst : root.base.inst = none)
    (hls : root.linked_objects.length ≠ 0) :
    gen_instances (fuel + 1) st =
      .ok { st with
        m_instances := [leaf_instance root.base root.linked_objects (.port 0) []],
        m_ports := [{ root with base := { root.base with inst := some 0 } }] } := by
  have hd : st.deref (.port 0) = .ok root.base := by
    simp only [Extractor.deref, hp, List.getElem?_cons_zero]
  have hgen := gen_instance_leaf st root.linked_objects (.port 0) [] root.base hd hc hg hinst hls
  unfold gen_instances
  rw [hs, hi, hp]
  simp only [Bool.not_true, Bool.false_eq_true, if_false, List.length_nil, ne_eq,
    not_true_eq_false, List.length_singleton]
  rw [show List.range 1 = [0] from rfl, gen_instances_ports]
  simp only [hp, List.getElem?_cons_zero, hlo]
  rw [gen_instances_rec]
  simp only [hs, Bool.not_true, Bool.false_eq_true, if_false, hd, hprim, if_true, hgen, hc]
  rw [gen_children]
  dsimp only
  rw [gen_instances_ports]
  simp only [Extractor.update, hi, hp, List.nil_append, List.length_nil, List.modify,
    List.modifyTailIdx, List.modifyHead, hprim, hc]

theorem determine_fabric_clock_idle (module : Module) (st : Extractor) (inst : INSTANCE)
    (r : PrimRef) (primitive : PRIMITIVE) (hs : st.m_status = true)
    (hi : st.m_instances = [inst]) (hr : inst.primitive = some r)
    (hd : st.deref r = .ok primitive) (hclk : primitive.db.is_clock = false)
    (hbuf : primitive.db.is_fabric_clkbuf = false) (hprop : primitive.db.properties = [])
    (hcore : primitive.db.core_clock = []) :
    determine_fabric_clock module st = .ok st := by
  have h1 : fabric_clock_instance module st 0 = .ok st := by
    unfold fabric_clock_instance
    simp only [hi, List.getElem?_cons_zero, hr, hd, hclk, hbuf, hprop, CppMap.contains,
      CppMap.find, Option.isSome_none, Bool.or_self, Bool.false_eq_true, if_false]
  have h2 : check_core_clocks st st.m_instances = .ok () := by
    rw [hi, check_core_clocks]
    simp only [hr, hd, hcore, List.length_nil, ne_eq, not_true_eq_false, if_false, bind,
      Except.bind, pure, Except.pure]
    rfl
  unfold determine_fabric_clock
  rw [hs]
  simp only [Bool.not_true, Bool.false_eq_true, if_false, hi, List.length_singleton]
  rw [show List.range 1 = [0] from rfl, fabric_clock_instances, h1]
  dsimp only
  rw [fabric_clock_instances]
  dsimp only
  rw [h2]

theorem join_trace_single (sep t : CppString) (ht : t.length ≠ 0) :
    join_trace sep [t] [] = .ok t := by
  rw [join_trace, if_neg ht]
  simp only [List.length_nil, ne_eq, not_true_eq_false, if_false]
  rw [join_trace]

theorem summarize_leaf_root (st : Extractor) (root : PORT_PRIMITIVE) (fuel : Nat)
    (lo o : CppString) (hs : st.m_status = true) (hp : st.m_ports = [root])
    (hpins : st.m_pin_infos = []) (hlo : root.linked_object = .ok lo)
    (hobj : root.linked_objects = [o]) (hc : root.base.child = [])
    (hdir : root.dir = IO_DIR.IN) (hin : root.base.db.is_in_dir = true)
    (hname : root.base.db.name = "\\I_BUF".toList) :
    ∃ pin : PIN_PORT, summarize (fuel + 1) st = .ok { st with m_pin_infos := [pin] } := by
  have hd : st.deref (.port 0) = .ok root.base := by
    simp only [Extractor.deref, hp, List.getElem?_cons_zero]
  have ht : (get_original_name root.base.db.name).length ≠ 0 := by
    rw [hname]
    decide
  have hmeasure : summarize_measure (fuel + 1) st (List.range st.m_ports.length) = .ok () := by
    rw [hp, List.length_singleton, show List.range 1 = [0] from rfl, summarize_measure]
    simp only [hp, List.getElem?_cons_zero, hlo, bind, Except.bind]
    rw [summarize_size]
    simp only [List.length_singleton, Nat.succ_ne_zero, if_false, hd, hc, List.length_nil,
      ne_eq, not_true_eq_false, join_trace_single _ _ ht, bind, Except.bind, pure,
      Except.pure, one_ne_zero]
    rw [summarize_measure]
  have hpin : ∀ (pin : PIN_PORT) (s : Extractor), s.m_pin_infos = [pin] → pin.name = o →
      pin.is_input = true → get_pin_info s o IO_DIR.IN = .ok (some 0) := by
    intro pin s h1 h2 h3
    simp only [get_pin_info, true_or, if_true, h1, find_pin, h2, h3, and_self, decide_True]
  have hupd : ∀ (pin : PIN_PORT) (s : Extractor), s.m_pin_infos = [pin] → pin.name = o →
      pin.is_input = true →
      update_pin_info s o root.base = .ok { s with m_pin_infos := [pin] } := by
    intro pin s h1 h2 h3
    unfold update_pin_info
    simp only [hin, if_true, hpin pin s h1 h2 h3, h1, List.getElem?_cons_zero, hname, bind,
      Except.bind, pure, Except.pure, List.set_cons_zero]
    simp +decide only [if_false, or_self]
  have hstore : ∀ (pin : PIN_PORT) (s : Extractor), s.m_pin_infos = [pin] → pin.name = o →
      pin.is_input = true →
      store_pin_traces [get_original_name root.base.db.name]
          [get_original_name root.base.db.name] true [o] s =
        .ok { s with m_pin_infos := [{ pin with
          traces := pin.traces ++ [get_original_name root.base.db.name],
          full_traces := pin.full_traces ++ [get_original_name root.base.db.name] }] } := by
    intro pin s h1 h2 h3
    rw [store_pin_traces]
    simp only [if_true, hpin pin s h1 h2 h3, h1, List.getElem?_cons_zero, update_pin_traces,
      join_trace_single _ _ ht, bind, Except.bind, pure, Except.pure, List.set_cons_zero]
    rw [store_pin_traces]
  have hadd : add_pins root (.port 0) [o] st =
      .ok { st with m_pin_infos := [pin_of_root root (.port 0) o] } := by
    rw [add_pins]
    simp only [get_pin_info, hdir, true_or, if_true, hpins, find_pin, ne_eq,
      not_true_eq_false, if_false, bind, Except.bind, pure, Except.pure, List.nil_append]
    rw [add_pins]
    rfl
  have hpi : (pin_of_root root (.port 0) o).is_input = true := hin
  have hreport : ∃ pin : PIN_PORT,
      summarize_report (fuel + 1) (List.range st.m_ports.length) st =
        .ok { st with m_pin_infos := [pin] } := by
    refine ⟨{ pin_of_root root (.port 0) o with
      traces := (pin_of_root root (.port 0) o).traces ++ [get_original_name root.base.db.name],
      full_traces :=
        (pin_of_root root (.port 0) o).full_traces ++
          [get_original_name root.base.db.name] }, ?_⟩
    rw [hp, List.length_singleton, show List.range 1 = [0] from rfl, summarize_report]
    simp only [hp, List.getElem?_cons_zero, hobj, hadd, hlo, hin, bind, Except.bind]
    rw [summarize_pins]
    have hu := hupd (pin_of_root root (.port 0) o)
      { st with m_ports := [root], m_pin_infos := [pin_of_root root (.port 0) o] } rfl rfl hpi
    have hst := hstore (pin_of_root root (.port 0) o)
      { st with m_ports := [root], m_pin_infos := [pin_of_root root (.port 0) o] } rfl rfl hpi
    have hd2 : Extractor.deref
        { st with m_ports := [root], m_pin_infos := [pin_of_root root (.port 0) o] }
        (.port 0) = .ok root.base := rfl
    simp only [List.length_singleton, Nat.succ_ne_zero, if_false, one_ne_zero, hd2,
      List.foldlM_cons, List.foldlM_nil, hu, hc, List.length_nil,
      ne_eq, not_true_eq_false, hst, join_trace_single _ _ ht, bind,
      Except.bind, pure, Except.pure, if_true]
    rw [summarize_report]
  obtain ⟨pin, hpin2⟩ := hreport
  refine ⟨pin, ?_⟩
  unfold summarize
  simp only [hs, Bool.not_true, Bool.false_eq_true, if_false, hmeasure, hpin2, bind,
    Except.bind, pure, Except.pure]

theorem design_count_none (st : Extractor) (ht : st.m_technology = "genesis3".toList) :
    ∀ cells : List Cell,
      (∀ x ∈ cells, is_supported_primitive_in x.type PRIMITIVE_REQ.DONT_CARE
        genesis3_primitives = none) → design_count st cells = .ok 0 := by
  intro cells
  induction cells with
  | nil => intro _; rfl
  | cons x rest ih =>
    intro h
    rw [design_count, supported_table st ht, h x (List.mem_cons_self _ _),
      ih (fun y hy => h y (List.mem_cons_of_mem _ hy))]
    rfl

theorem design_count_single (st : Extractor) (ht : st.m_technology = "genesis3".toList)
    (c : Cell) (after : List Cell) (hc : c.type = "\\I_BUF".toList)
    (hafter : ∀ x ∈ after, is_supported_primitive_in x.type PRIMITIVE_REQ.DONT_CARE
      genesis3_primitives = none) :
    ∀ before : List Cell,
      (∀ x ∈ before, is_supported_primitive_in x.type PRIMITIVE_REQ.DONT_CARE
        genesis3_primitives = none) → design_count st (before ++ c :: after) = .ok 1 := by
  intro before
  induction before with
  | nil =>
    intro _
    rw [List.nil_append, design_count, supported_table st ht, hc,
      input_buffer_facts.2.1, design_count_none st ht after hafter]
    rfl
  | cons x rest ih =>
    intro h
    rw [List.cons_append, design_count, supported_table st ht, h x (List.mem_cons_self _ _),
      ih (fun y hy => h y (List.mem_cons_of_mem _ hy))]
    rfl

theorem finalize_good (st : Extractor) (module : Module) (n : Nat)
    (hd : design_count st module.cells = .ok n)
    (hp : st.m_ports.length + st.m_child_primitives.length = n)
    (hi : instance_count st.m_instances = n) :
    finalize st module = .ok (st, FinalCheck.good) := by
  unfold finalize
  simp only [hd, hp, hi, and_self, if_true, bind, Except.bind, pure, Except.pure]

theorem extract_of_stages (module : Module) (fuel : Nat) (st0 s1 s2 s3 s4 s5 : Extractor)
    (v : FinalCheck) (h0 : st0.m_status = true) (hg : st0.g_standalone_tracker = [])
    (h1 : get_ports module fuel st0 = .ok (true, s1))
    (ht : trace_calls module fuel extract_trace_pairs s1 = .ok s1)
    (hf : trace_fabric_clkbuf module s1 = .ok s1)
    (hgb : trace_gearbox_fast_clock s1 = .ok s1) (hs1 : s1.m_status = true)
    (h2 : gen_instances fuel s1 = .ok s2) (h3 : determine_fabric_clock module s2 = .ok s3)
    (h4 : summarize fuel s3 = .ok s4) (h5 : finalize s4 module = .ok (s5, v)) :
    extract module fuel st0 = .ok (s5.m_status, s5, some v) := by
  have e : { st0 with g_standalone_tracker := [] } = st0 := by
    cases st0
    simp only at hg
    rw [hg]
  unfold extract
  simp only [e]
  simp only [h0, h1, ht, hf, hgb, hs1, h2, h3, h4, h5, Bool.not_true, Bool.false_eq_true,
    if_false, if_true, bind, Except.bind, pure, Except.pure]

theorem input_buffer_instance_fields (c : Cell) (w : Wire) :
    (input_buffer_instance c w).module = "I_BUF".toList ∧
    (input_buffer_instance c w).name = get_original_name c.name ∧
    (input_buffer_instance c w).linked_objects = [get_original_name w.name] ∧
    (input_buffer_instance c w).primitive = some (.port 0) := by
  have hnm : (genesis3_descriptor "\\I_BUF").name = "\\I_BUF".toList :=
    input_buffer_facts.2.2.2.2.1
  refine ⟨?_, ?_, ?_, ?_⟩
  all_goals simp only [input_buffer_instance, leaf_instance, input_buffer_root,
    Bool.false_eq_true, if_false, INSTANCE.add_parameters, INSTANCE.add_connections, hnm]
  rfl

/-- C11, amended: let the module have exactly one one-bit input port `w`,
whose name without its leading backslash is a `+`-separated list of plain
pieces (in particular every name without `+`), and an `I_BUF` cell `c` with
that port on its pin `I` as its only cell of a supported type.  Then
`extract`, on a fresh `genesis3` extractor, returns true and ends with
exactly one root, which is the node of `c` and whose port list is exactly
that port, no traced child, exactly one instance, which is the instance of
`c` linked to the port, and no fabric clock; the final check is good. -/
theorem C11_single_input_buffer_one_root_one_instance_no_clock (module : Module)
    (c : Cell) (w : Wire) (before after : List Cell) (fuel : Nat)
    (h : SingleInputBuffer module c w before after)
    (hname : JoinedName (get_original_name w.name)) :
    ∃ (st : Extractor) (root : PORT_PRIMITIVE) (inst : INSTANCE),
      extract module (fuel + 1) (Extractor.construct "genesis3".toList) =
        .ok (true, st, some FinalCheck.good) ∧
      st.m_ports = [root] ∧ root.base.name = c.name ∧
      root.port_infos = [input_port_info w] ∧ st.m_child_primitives = [] ∧
      st.m_instances = [inst] ∧ inst.name = get_original_name c.name ∧
      inst.linked_objects = [get_original_name w.name] ∧ st.m_fabric_clocks = [] := by
  obtain ⟨_, _, _, _, hnm, _, _, hstand, hdir, hclock, hclk, hprop, hcore⟩ :=
    input_buffer_facts
  obtain ⟨lo, hlo⟩ := input_buffer_linked_object c w hname
  have hobj : (input_buffer_root c w).linked_objects = [get_original_name w.name] := by
    simp only [PORT_PRIMITIVE.linked_objects, input_buffer_root, hstand, hclk, input_port_info,
      Bool.or_false, Bool.false_eq_true, if_false, List.map_cons, List.map_nil]
  have hls : (input_buffer_root c w).linked_objects.length ≠ 0 := by
    rw [hobj]
    exact Nat.succ_ne_zero 0
  obtain ⟨hm, hn, hl, hpr⟩ := input_buffer_instance_fields c w
  have h1 := get_ports_single module c w before after fuel h
  obtain ⟨t1, t2, t3⟩ := tracing_single module c w before after (fuel + 1) h
    { m_technology := "genesis3".toList, m_ports := [input_buffer_root c w] } rfl rfl
  obtain ⟨s2, h2, a1, a2, a3, a4, a5, a6, a7⟩ : ∃ s2 : Extractor,
      gen_instances (fuel + 1)
        { m_technology := "genesis3".toList, m_ports := [input_buffer_root c w] } = .ok s2 ∧
      s2.m_status = true ∧ s2.m_technology = "genesis3".toList ∧
      s2.m_instances = [input_buffer_instance c w] ∧
      s2.m_ports = [{ input_buffer_root c w with
        base := { (input_buffer_root c w).base with inst := some 0 } }] ∧
      s2.m_pin_infos = [] ∧ s2.m_child_primitives = [] ∧ s2.m_fabric_clocks = [] := by
    have h2 := gen_instances_leaf_root
      { m_technology := "genesis3".toList, m_ports := [input_buffer_root c w] }
      (input_buffer_root c w) fuel lo rfl rfl rfl hlo rfl rfl rfl rfl hls
    rw [hobj] at h2
    exact ⟨_, h2, rfl, rfl, rfl, rfl, rfl, rfl, rfl⟩
  have hd2 : s2.deref (.port 0) =
      .ok { (input_buffer_root c w).base with inst := some 0 } := by
    simp only [Extractor.deref, a4, List.getElem?_cons_zero]
  have h3 := determine_fabric_clock_idle module s2 (input_buffer_instance c w) (.port 0)
    { (input_buffer_root c w).base with inst := some 0 } a1 a3 hpr hd2 hclock hclk hprop
    hcore
  obtain ⟨pin, h4⟩ := summarize_leaf_root s2
    { input_buffer_root c w with base := { (input_buffer_root c w).base with inst := some 0 } }
    fuel lo (get_original_name w.name) a1 a4 a5 hlo hobj rfl rfl hdir hnm
  have hcount : design_count { s2 with m_pin_infos := [pin] } module.cells = .ok 1 := by
    rw [h.cells]
    exact design_count_single { s2 with m_pin_infos := [pin] } a2 c after h.buffer
      (fun x hx => h.others x (List.mem_append_right _ hx)) before
      (fun x hx => h.others x (List.mem_append_left _ hx))
  have hicount : instance_count s2.m_instances = 1 := by
    rw [a3]
    simp only [instance_count, List.filter_cons, hm]
    rfl
  have h5 := finalize_good { s2 with m_pin_infos := [pin] } module 1 hcount
    (by
      show s2.m_ports.length + s2.m_child_primitives.length = 1
      rw [a4, a6]
      rfl) hicount
  have hrun := extract_of_stages module (fuel + 1) { m_technology := "genesis3".toList }
    _ s2 s2 _ _ _ rfl rfl h1 t1 t2 t3 rfl h2 h3 h4 h5
  refine ⟨{ s2 with m_pin_infos := [pin] }, _, _, ?_, a4, rfl, rfl, a6, a3, hn, hl, a7⟩
  rw [construct_genesis3, hrun]
  show Except.ok (s2.m_status, _, _) = _
  rw [a1]

/-- Witness for C11: the input buffer on port `din`, with a cell of fabric
logic behind it. -/
theorem C11_single_input_buffer_one_root_one_instance_no_clock_witness :
    ∃ (st : Extractor) (root : PORT_PRIMITIVE) (inst : INSTANCE),
      extract example_single_buffer (0 + 1) (Extractor.construct "genesis3".toList) =
        .ok (true, st, some FinalCheck.good) ∧
      st.m_ports = [root] ∧ root.base.name = "\\ibuf".toList ∧
      root.port_infos = [input_port_info (input_wire "\\din")] ∧
      st.m_child_primitives = [] ∧
      st.m_instances = [inst] ∧ inst.name = get_original_name "\\ibuf".toList ∧
      inst.linked_objects = [get_original_name (input_wire "\\din").name] ∧
      st.m_fabric_clocks = [] :=
  C11_single_input_buffer_one_root_one_instance_no_clock example_single_buffer
    (cell_of "\\I_BUF" "\\ibuf" [("\\I", "\\din"), ("\\O", "\\n1")]) (input_wire "\\din") []
    [cell_of "\\LOGIC" "\\u1" [("\\A", "\\n1")]] 0
    { wire := by decide, input := by decide, only_input := by decide, cells := rfl,
      buffer := rfl, others := by decide, ports := by decide,
      on_port := ⟨wire_sig "\\din", by decide, rfl⟩ }
    ⟨["din".toList], by decide, by decide, by decide, by decide⟩

/-- Counterexample for C11: the module has exactly one one-bit input port,
named `\+a`, and one `I_BUF` cell on it; whatever the fuel, `extract` does
not return: the assertion `index != 0` of `sort_name` fails when the linked
object of the root is built. -/
theorem C11_counterexample_port_name_starts_with_plus :
    SingleInputBuffer example_plus_port
      (cell_of "\\I_BUF" "\\ibuf" [("\\I", "\\+a"), ("\\O", "\\n1")]) (input_wire "\\+a")
      [] [] ∧
    sort_name "+a".toList = .error Fault.assertion ∧
    ∀ fuel : Nat, extract example_plus_port (fuel + 1)
      (Extractor.construct "genesis3".toList) = .error Fault.assertion := by
  have hs : SingleInputBuffer example_plus_port
      (cell_of "\\I_BUF" "\\ibuf" [("\\I", "\\+a"), ("\\O", "\\n1")]) (input_wire "\\+a")
      [] [] :=
    { wire := by decide, input := by decide, only_input := by decide, cells := rfl,
      buffer := rfl, others := by decide, ports := by decide,
      on_port := ⟨wire_sig "\\+a", by decide, rfl⟩ }
  refine ⟨hs, by decide, ?_⟩
  intro fuel
  have h1 := get_ports_single example_plus_port _ _ [] [] fuel hs
  obtain ⟨t1, t2, t3⟩ := tracing_single example_plus_port _ _ [] [] (fuel + 1) hs
    { m_technology := "genesis3".toList,
      m_ports := [input_buffer_root
        (cell_of "\\I_BUF" "\\ibuf" [("\\I", "\\+a"), ("\\O", "\\n1")]) (input_wire "\\+a")] }
    rfl rfl
  have hlo : (input_buffer_root
      (cell_of "\\I_BUF" "\\ibuf" [("\\I", "\\+a"), ("\\O", "\\n1")])
      (input_wire "\\+a")).linked_object = .error Fault.assertion := by
    decide
  have h2 : gen_instances (fuel + 1)
      { m_technology := "genesis3".toList,
        m_ports := [input_buffer_root
          (cell_of "\\I_BUF" "\\ibuf" [("\\I", "\\+a"), ("\\O", "\\n1")])
          (input_wire "\\+a")] } = .error Fault.assertion := by
    unfold gen_instances
    simp only [Bool.not_true, Bool.false_eq_true, if_false, List.length_nil, ne_eq,
      not_true_eq_false, List.length_singleton]
    rw [show List.range 1 = [0] from rfl, gen_instances_ports]
    simp only [List.getElem?_cons_zero, hlo]
  rw [construct_genesis3]
  unfold extract
  simp only [h1, t1, t2, t3, h2, Bool.not_true, Bool.false_eq_true, if_false, if_true,
    bind, Except.bind, pure, Except.pure]

/-! ### The status flags only fall -/

theorem flagsKept_refl (st : Extractor) : FlagsKept st st := ⟨id, id⟩

theorem flagsKept_trans {s t u : Extractor} (h : FlagsKept s t) (g : FlagsKept t u) :
    FlagsKept s u :=
  ⟨fun x => h.1 (g.1 x), fun x => h.2 (g.2 x)⟩

theorem flagsKept_of_eq {s t : Extractor} (h1 : t.m_status = s.m_status)
    (h2 : t.m_netlist_status = s.m_netlist_status) : FlagsKept s t :=
  ⟨fun x => h1 ▸ x, fun x => h2 ▸ x⟩

theorem flagsKept_lower {s t : Extractor} (h1 : t.m_status = s.m_status)
    (h2 : t.m_netlist_status = false) : FlagsKept s t :=
  ⟨fun x => h1 ▸ x, fun x => by rw [h2] at x; exact Bool.noConfusion x⟩

theorem update_m_status (st : Extractor) (r : PrimRef) (f : PRIMITIVE → PRIMITIVE) :
    (st.update r f).m_status = st.m_status := by
  cases r <;> rfl

theorem update_m_netlist_status (st : Extractor) (r : PrimRef) (f : PRIMITIVE → PRIMITIVE) :
    (st.update r f).m_netlist_status = st.m_netlist_status := by
  cases r <;> rfl

theorem flagsKept_update (st : Extractor) (r : PrimRef) (f : PRIMITIVE → PRIMITIVE) :
    FlagsKept st (st.update r f) :=
  flagsKept_of_eq (update_m_status st r f) (update_m_netlist_status st r f)

theorem define_data_width_flags (st st2 : Extractor) (r : PrimRef) (primitive : PRIMITIVE)
    (h : define_data_width st r primitive = .ok st2) : FlagsKept st st2 := by
  unfold define_data_width at h
  simp only [bind, Except.bind, pure, Except.pure, throw, throwThe,
    MonadExceptOf.throw] at h
  repeat' split at h
  all_goals first
    | exact Except.noConfusion h
    | (cases h; exact flagsKept_refl _)
    | (cases h
       exact flagsKept_of_eq (update_m_status _ _ _) (update_m_netlist_status _ _ _))

theorem get_primitive_parameters_flags (st st2 : Extractor) (cell : Cell) (r : PrimRef)
    (h : get_primitive_parameters st cell r = .ok st2) : FlagsKept st st2 := by
  unfold get_primitive_parameters at h
  simp only [bind, Except.bind] at h
  repeat' split at h
  all_goals first
    | exact Except.noConfusion h
    | exact flagsKept_trans (flagsKept_update _ _ _) (define_data_width_flags _ _ _ _ h)

theorem attach_child_flags (st st2 : Extractor) (parent : PrimRef) (parentNode : PRIMITIVE)
    (cell : Cell) (db : PRIMITIVE_DB) (connections : CppMap CppString)
    (h : attach_child st parent parentNode cell db connections = .ok st2) :
    FlagsKept st st2 := by
  unfold attach_child at h
  simp only [bind, Except.bind] at h
  repeat' split at h
  all_goals first
    | exact Except.noConfusion h
    | (refine flagsKept_trans ?_ (get_primitive_parameters_flags _ _ _ _ h)
       exact flagsKept_of_eq (update_m_status _ _ _) (update_m_netlist_status _ _ _))

theorem trace_alias_pairs_flags
    (call : Extractor → CppString → Except Fault (Bool × Extractor))
    (parent : PrimRef) (cell : Cell) (src_is_right : Bool) (connection : CppString)
    (hcall : ∀ st dest found st2, call st dest = .ok (found, st2) → FlagsKept st st2) :
    ∀ (pairs : List (SigSpec × SigSpec)) (st : Extractor) (found : Bool) (st2 : Extractor),
      trace_alias_pairs call parent cell src_is_right connection pairs st = .ok (found, st2) →
      FlagsKept st st2 := by
  intro pairs
  induction pairs with
  | nil =>
    intro st found st2 h
    simp only [trace_alias_pairs] at h
    cases h
    exact flagsKept_refl _
  | cons it rest ih =>
    intro st found st2 h
    simp only [trace_alias_pairs] at h
    split at h
    · exact Except.noConfusion h
    · split at h
      · exact ih st found st2 h
      · split at h
        · exact Except.noConfusion h
        · rename_i _ dest hd _ f s hc
          have k := hcall st dest f s hc
          split at h
          · cases h
            exact flagsKept_trans k (flagsKept_update _ _ _)
          · exact flagsKept_trans k (ih s found st2 h)

theorem trace_next_primitive_rec_flags (module : Module) :
    ∀ (fuel : Nat) (st : Extractor) (parent : PrimRef) (cell : Cell) (connection : CppString)
      (found : Bool) (st2 : Extractor),
      trace_next_primitive_rec module fuel st parent cell connection = .ok (found, st2) →
      FlagsKept st st2 := by
  intro fuel
  induction fuel with
  | zero =>
    intro st parent cell connection found st2 h
    simp only [trace_next_primitive_rec] at h
    exact Except.noConfusion h
  | succ fuel ih =>
    intro st parent cell connection found st2 h
    simp only [trace_next_primitive_rec] at h
    repeat' split at h
    all_goals first
      | exact Except.noConfusion h
      | (rename_i s hs
         cases h
         exact attach_child_flags _ _ _ _ _ _ _ hs)
      | exact trace_alias_pairs_flags _ parent cell _ connection
          (fun s dest f s2 hc => ih s parent cell dest f s2 hc)
          module.connections st found st2 h

theorem trace_cells_flags (module : Module) (fuel : Nat) (src dst : CppString)
    (primitive : PrimRef) :
    ∀ (cells : List Cell) (st st2 : Extractor),
      trace_cells module fuel src dst primitive cells st = .ok st2 → FlagsKept st st2 := by
  intro cells
  induction cells with
  | nil =>
    intro st st2 h
    simp only [trace_cells] at h
    cases h
    exact flagsKept_refl _
  | cons cell rest ih =>
    intro st st2 h
    simp only [trace_cells] at h
    split at h
    · exact Except.noConfusion h
    · split at h
      · split at h
        · exact Except.noConfusion h
        · split at h
          · exact Except.noConfusion h
          · rename_i _ f s hs
            have k := trace_next_primitive_rec_flags module fuel st primitive cell _ f s hs
            refine flagsKept_trans (flagsKept_trans k ?_) (ih _ st2 h)
            split
            · exact flagsKept_update _ _ _
            · exact flagsKept_refl _
      · exact ih st st2 h

theorem trace_sources_flags (module : Module) (fuel : Nat) (src dst : CppString) :
    ∀ (sources : List PrimRef) (st st2 : Extractor),
      trace_sources module fuel src dst sources st = .ok st2 → FlagsKept st st2 := by
  intro sources
  induction sources with
  | nil =>
    intro st st2 h
    simp only [trace_sources] at h
    cases h
    exact flagsKept_refl _
  | cons primitive rest ih =>
    intro st st2 h
    simp only [trace_sources] at h
    split at h
    · exact Except.noConfusion h
    · rename_i s hs
      exact flagsKept_trans (trace_cells_flags module fuel src dst primitive _ st s hs)
        (ih s st2 h)

theorem trace_next_primitive_flags (module : Module) (fuel : Nat) (st st2 : Extractor)
    (src dst : CppString) (h : trace_next_primitive module fuel st src dst = .ok st2) :
    FlagsKept st st2 := by
  unfold trace_next_primitive at h
  simp only [bind, Except.bind] at h
  split at h
  · exact Except.noConfusion h
  · split at h
    · exact Except.noConfusion h
    · exact trace_sources_flags module fuel src dst _ st st2 h

theorem trace_calls_flags (module : Module) (fuel : Nat) :
    ∀ (calls : List (CppString × CppString)) (st st2 : Extractor),
      trace_calls module fuel calls st = .ok st2 → FlagsKept st st2 := by
  intro calls
  induction calls with
  | nil =>
    intro st st2 h
    simp only [trace_calls] at h
    cases h
    exact flagsKept_refl _
  | cons call rest ih =>
    intro st st2 h
    simp only [trace_calls] at h
    split at h
    · exact Except.noConfusion h
    · rename_i s hs
      exact flagsKept_trans (trace_next_primitive_flags module fuel st s call.1 call.2 hs)
        (ih s st2 h)

theorem port_alias_pairs_flags
    (call : PortSearch → CppString → Except Fault (Bool × PortSearch)) (dir : IO_DIR)
    (connection : CppString)
    (hcall : ∀ ps dest status ps2, call ps dest = .ok (status, ps2) →
      ps2.m_netlist_status = true → ps.m_netlist_status = true) :
    ∀ (pairs : List (SigSpec × SigSpec)) (ps : PortSearch) (status : Bool) (ps2 : PortSearch),
      port_alias_pairs call dir connection pairs ps = .ok (status, ps2) →
      ps2.m_netlist_status = true → ps.m_netlist_status = true := by
  intro pairs
  induction pairs with
  | nil =>
    intro ps status ps2 h
    simp only [port_alias_pairs] at h
    cases h
    exact id
  | cons it rest ih =>
    intro ps status ps2 h
    simp only [port_alias_pairs] at h
    split at h
    · exact Except.noConfusion h
    · split at h
      · exact ih ps status ps2 h
      · split at h
        · exact Except.noConfusion h
        · rename_i _ dest hd _ f s hc
          have k := hcall ps dest f s hc
          split at h
          · cases h
            exact k
          · exact fun x => k (ih s status ps2 h x)

theorem get_connected_port_flags (module : Module) (dir : IO_DIR)
    (port_infos : List PORT_INFO) :
    ∀ (fuel : Nat) (connection : CppString) (ps : PortSearch) (loop : Nat) (status : Bool)
      (ps2 : PortSearch),
      get_connected_port module connection dir port_infos fuel ps loop = .ok (status, ps2) →
      ps2.m_netlist_status = true → ps.m_netlist_status = true := by
  intro fuel
  induction fuel with
  | zero =>
    intro connection ps loop status ps2 h
    simp only [get_connected_port] at h
    exact Except.noConfusion h
  | succ fuel ih =>
    intro connection ps loop status ps2 h
    simp only [get_connected_port] at h
    split at h
    · exact Except.noConfusion h
    · split at h
      · cases h
        exact id
      · split at h
        · exact Except.noConfusion h
        · rename_i _ f s hs
          have k := port_alias_pairs_flags _ dir connection
            (fun p dest f2 p2 hc => ih dest p (loop + 1) f2 p2 hc) module.connections ps f s hs
          split at h
          · cases h
            intro x
            exact Bool.noConfusion x
          · cases h
            exact k

theorem connect_primary_flags (module : Module) (fuel : Nat) (dir : IO_DIR)
    (port_infos : List PORT_INFO) :
    ∀ (conns : List (CppString × CppString)) (ps : PortSearch) (status : Bool)
      (ps2 : PortSearch),
      connect_primary module fuel dir port_infos conns ps = .ok (status, ps2) →
      ps2.m_netlist_status = true → ps.m_netlist_status = true := by
  intro conns
  induction conns with
  | nil =>
    intro ps status ps2 h
    simp only [connect_primary] at h
    cases h
    exact id
  | cons iter rest ih =>
    intro ps status ps2 h
    simp only [connect_primary] at h
    split at h
    · exact Except.noConfusion h
    · rename_i _ f s hs
      have k := get_connected_port_flags module dir port_infos fuel iter.2 ps 0 f s hs
      split at h
      · cases h
        intro x
        exact Bool.noConfusion x
      · exact fun x => k (ih s status ps2 h x)

theorem trace_and_create_port_cells_flags (module : Module) (fuel : Nat)
    (port_infos : List PORT_INFO) :
    ∀ (cells : List Cell) (port_trackers : List Nat) (st st2 : Extractor),
      trace_and_create_port_cells module fuel port_infos cells port_trackers st = .ok st2 →
      FlagsKept st st2 := by
  intro cells
  induction cells with
  | nil =>
    intro port_trackers st st2 h
    simp only [trace_and_create_port_cells] at h
    cases h
    exact flagsKept_refl _
  | cons cell rest ih =>
    intro port_trackers st st2 h
    simp only [trace_and_create_port_cells, bind, Except.bind, pure, Except.pure] at h
    repeat' split at h
    all_goals first
      | exact Except.noConfusion h
      | exact ih _ _ _ h
      | (have k3 := ih _ _ _ h
         exact ⟨k3.1, fun x => Bool.noConfusion (k3.2 x)⟩)
      | (have k := connect_primary_flags _ _ _ _ _ _ _ _
           ‹connect_primary _ _ _ _ _ _ = Except.ok _›
         have k3 := ih _ _ _ h
         first
           | exact ⟨k3.1, fun x => k (k3.2 x)⟩
           | (have k2 := get_primitive_parameters_flags _ _ _ _
                ‹get_primitive_parameters _ _ _ = Except.ok _›
              exact ⟨fun x => k2.1 (k3.1 x), fun x => k (k2.2 (k3.2 x))⟩))

theorem get_ports_flags (module : Module) (fuel : Nat) (st st2 : Extractor) (ok : Bool)
    (h : get_ports module fuel st = .ok (ok, st2)) : FlagsKept st st2 := by
  unfold get_ports at h
  simp only [bind, Except.bind, pure, Except.pure, throw, throwThe,
    MonadExceptOf.throw] at h
  repeat' split at h
  all_goals first
    | exact Except.noConfusion h
    | (rename_i s hs
       cases h
       exact trace_and_create_port_cells_flags _ _ _ _ _ _ _ hs)
    | (cases h
       exact ⟨fun x => Bool.noConfusion x, id⟩)

theorem trace_fabric_clkbuf_cells_flags (module : Module) :
    ∀ (cells : List Cell) (st st2 : Extractor),
      trace_fabric_clkbuf_cells module cells st = .ok st2 → FlagsKept st st2 := by
  intro cells
  induction cells with
  | nil =>
    intro st st2 h
    simp only [trace_fabric_clkbuf_cells] at h
    cases h
    exact flagsKept_refl _
  | cons cell rest ih =>
    intro st st2 h
    simp only [trace_fabric_clkbuf_cells, bind, Except.bind, throw, throwThe,
      MonadExceptOf.throw] at h
    repeat' split at h
    all_goals first
      | exact Except.noConfusion h
      | exact ih _ _ h
      | (refine flagsKept_trans ?_ (ih _ _ h)
         exact flagsKept_of_eq rfl rfl)

theorem trace_gearbox_fast_clock_step_flags (st st2 : Extractor) (index : Nat)
    (h : trace_gearbox_fast_clock_step st index = .ok st2) : FlagsKept st st2 := by
  unfold trace_gearbox_fast_clock_step at h
  simp only [bind, Except.bind, pure, Except.pure, throw, throwThe,
    MonadExceptOf.throw] at h
  repeat' split at h
  all_goals first
    | exact Except.noConfusion h
    | (cases h; exact flagsKept_refl _)
    | (cases h; exact flagsKept_lower (update_m_status _ _ _) rfl)

theorem trace_gearbox_fast_clock_loop_flags :
    ∀ (l : List Nat) (st st2 : Extractor),
      trace_gearbox_fast_clock_loop l st = .ok st2 → FlagsKept st st2 := by
  intro l
  induction l with
  | nil =>
    intro st st2 h
    simp only [trace_gearbox_fast_clock_loop] at h
    cases h
    exact flagsKept_refl _
  | cons index rest ih =>
    intro st st2 h
    simp only [trace_gearbox_fast_clock_loop, bind, Except.bind] at h
    split at h
    · exact Except.noConfusion h
    · rename_i s hs
      exact flagsKept_trans (trace_gearbox_fast_clock_step_flags _ _ _ hs) (ih _ _ h)

theorem gen_instance_flags (st st2 : Extractor) (linked_objects : List CppString)
    (r : PrimRef) (pre : CppString) (h : gen_instance st linked_objects r pre = .ok st2) :
    FlagsKept st st2 := by
  unfold gen_instance at h
  simp only [bind, Except.bind, pure, Except.pure, throw, throwThe,
    MonadExceptOf.throw] at h
  repeat' split at h
  all_goals first
    | exact Except.noConfusion h
    | (cases h
       exact flagsKept_of_eq (update_m_status _ _ _) (update_m_netlist_status _ _ _))

theorem gen_wire_loop_flags (linked_object : CppString) (linked_objects : List CppString)
    (child : CppString) (index : Nat) :
    ∀ (wires : List CppString) (trace_connection : CppString) (st st2 : Extractor),
      gen_wire_loop linked_object linked_objects child index wires trace_connection st =
        .ok st2 → FlagsKept st st2 := by
  intro wires
  induction wires with
  | nil =>
    intro tc st st2 h
    simp only [gen_wire_loop] at h
    cases h
    exact flagsKept_refl _
  | cons wire rest ih =>
    intro tc st st2 h
    simp only [gen_wire_loop, bind, Except.bind] at h
    split at h
    · exact Except.noConfusion h
    · refine flagsKept_trans ?_ (ih _ _ _ h)
      exact flagsKept_of_eq rfl rfl

theorem gen_wire_flags (st st2 : Extractor) (linked_object : CppString)
    (linked_objects : List CppString) (r : PrimRef) (child : CppString)
    (h : gen_wire st linked_object linked_objects r child = .ok st2) : FlagsKept st st2 := by
  unfold gen_wire at h
  simp only [bind, Except.bind, pure, Except.pure, throw, throwThe,
    MonadExceptOf.throw] at h
  repeat' split at h
  all_goals first
    | exact Except.noConfusion h
    | (cases h; exact flagsKept_refl _)
    | exact gen_wire_loop_flags _ _ _ _ _ _ _ _ h

theorem gen_child_flags (call : Extractor → PrimRef → Except Fault Extractor)
    (linked_object : CppString) (linked_objects : List CppString) (r : PrimRef)
    (primitive_type : CppString)
    (hcall : ∀ st c st2, call st c = .ok st2 → FlagsKept st st2)
    (st st2 : Extractor) (child : CppString × PrimRef)
    (h : gen_child call linked_object linked_objects r primitive_type st child = .ok st2) :
    FlagsKept st st2 := by
  unfold gen_child at h
  split at h
  · exact Except.noConfusion h
  · rename_i s1 h1
    split at h
    · exact Except.noConfusion h
    · rename_i s2 h2
      exact flagsKept_trans
        (flagsKept_trans (gen_wire_flags _ _ _ _ _ _ h1) (gen_instance_flags _ _ _ _ _ h2))
        (hcall _ _ _ h)

theorem gen_children_flags (call : Extractor → PrimRef → Except Fault Extractor)
    (linked_object : CppString) (linked_objects : List CppString) (r : PrimRef)
    (primitive_type : CppString)
    (hcall : ∀ st c st2, call st c = .ok st2 → FlagsKept st st2) :
    ∀ (children : List (CppString × PrimRef)) (st st2 : Extractor),
      gen_children call linked_object linked_objects r primitive_type children st = .ok st2 →
      FlagsKept st st2 := by
  intro children
  induction children with
  | nil =>
    intro st st2 h
    simp only [gen_children] at h
    cases h
    exact flagsKept_refl _
  | cons child rest ih =>
    intro st st2 h
    simp only [gen_children] at h
    split at h
    · exact Except.noConfusion h
    · rename_i s hs
      exact flagsKept_trans (gen_child_flags _ _ _ _ _ hcall _ _ _ hs) (ih _ _ h)

theorem gen_instances_rec_flags (linked_object : CppString)
    (linked_objects : List CppString) :
    ∀ (fuel : Nat) (st : Extractor) (r : PrimRef) (pre : CppString) (st2 : Extractor),
      gen_instances_rec linked_object linked_objects fuel st r pre = .ok st2 →
      FlagsKept st st2 := by
  intro fuel
  induction fuel with
  | zero =>
    intro st r pre st2 h
    simp only [gen_instances_rec] at h
    exact Except.noConfusion h
  | succ fuel ih =>
    intro st r pre st2 h
    simp only [gen_instances_rec] at h
    split at h
    · exact Except.noConfusion h
    · split at h
      · exact Except.noConfusion h
      · rename_i primitive hp
        split at h
        · exact Except.noConfusion h
        · rename_i s hs
          have k : FlagsKept st s := by
            split at hs
            · exact gen_instance_flags _ _ _ _ _ hs
            · cases hs
              exact flagsKept_refl _
          exact flagsKept_trans k
            (gen_children_flags _ _ _ _ _ (fun a c b hc => ih a c _ b hc) _ _ _ h)

theorem gen_instances_ports_flags (fuel : Nat) :
    ∀ (l : List Nat) (st st2 : Extractor),
      gen_instances_ports fuel l st = .ok st2 → FlagsKept st st2 := by
  intro l
  induction l with
  | nil =>
    intro st st2 h
    simp only [gen_instances_ports] at h
    cases h
    exact flagsKept_refl _
  | cons i rest ih =>
    intro st st2 h
    simp only [gen_instances_ports] at h
    repeat' split at h
    all_goals first
      | exact Except.noConfusion h
      | exact flagsKept_trans
          (gen_instances_rec_flags _ _ _ _ _ _ _
            ‹gen_instances_rec _ _ _ _ _ _ = Except.ok _›) (ih _ _ h)

theorem gen_instances_flags (fuel : Nat) (st st2 : Extractor)
    (h : gen_instances fuel st = .ok st2) : FlagsKept st st2 := by
  unfold gen_instances at h
  repeat' split at h
  all_goals first
    | exact Except.noConfusion h
    | exact gen_instances_ports_flags _ _ _ _ h

theorem flagsKept_netlist_false (st : Extractor) :
    FlagsKept st { st with m_netlist_status := false } :=
  ⟨id, fun x => Bool.noConfusion x⟩

theorem assign_slot_flags (st st2 : Extractor) (j : Nat) (r : PrimRef)
    (primitive : PRIMITIVE) (inst : INSTANCE) (i : Nat) (iport inet oport onet : CppString)
    (fabric : FabricStatus)
    (h : assign_slot st j r primitive inst i iport inet oport onet fabric = .ok st2) :
    FlagsKept st st2 := by
  unfold assign_slot at h
  repeat' split at h
  all_goals first
    | exact Except.noConfusion h
    | (cases h; exact flagsKept_of_eq rfl rfl)

theorem fabric_clock_output_flags (module : Module) (j : Nat) (r : PrimRef)
    (primitive : PRIMITIVE) (is_clock_primitive : Bool) (out : CppString)
    (st : Extractor) (i : Nat) (res : Extractor × Nat)
    (h : fabric_clock_output module j r primitive is_clock_primitive out st i = .ok res) :
    FlagsKept st res.1 := by
  unfold fabric_clock_output at h
  dsimp only at h
  repeat' split at h
  all_goals first
    | exact Except.noConfusion h
    | exact (Except.ok.inj h) ▸ flagsKept_refl st
    | exact (Except.ok.inj h) ▸ flagsKept_netlist_false st
    | exact (Except.ok.inj h) ▸
        assign_slot_flags st _ j r primitive _ i _ _ _ _ _
          ‹assign_slot _ _ _ _ _ _ _ _ _ _ _ = Except.ok _›

theorem fabric_clock_outputs_flags (module : Module) (j : Nat) (r : PrimRef)
    (primitive : PRIMITIVE) (is_clock_primitive : Bool) :
    ∀ (outs : List CppString) (st : Extractor) (i : Nat) (st2 : Extractor),
      fabric_clock_outputs module j r primitive is_clock_primitive outs st i = .ok st2 →
      FlagsKept st st2 := by
  intro outs
  induction outs with
  | nil =>
    intro st i st2 h
    simp only [fabric_clock_outputs] at h
    cases h
    exact flagsKept_refl _
  | cons out rest ih =>
    intro st i st2 h
    simp only [fabric_clock_outputs] at h
    split at h
    · exact Except.noConfusion h
    · rename_i next hn
      exact flagsKept_trans (fabric_clock_output_flags _ _ _ _ _ _ _ _ _ hn) (ih _ _ _ h)

theorem fabric_clock_instance_flags (module : Module) (st st2 : Extractor) (j : Nat)
    (h : fabric_clock_instance module st j = .ok st2) : FlagsKept st st2 := by
  unfold fabric_clock_instance at h
  dsimp only at h
  repeat' split at h
  all_goals first
    | exact Except.noConfusion h
    | (cases h; exact flagsKept_refl _)
    | exact fabric_clock_outputs_flags _ _ _ _ _ _ _ _ _ h

theorem fabric_clock_instances_flags (module : Module) :
    ∀ (l : List Nat) (st st2 : Extractor),
      fabric_clock_instances module l st = .ok st2 → FlagsKept st st2 := by
  intro l
  induction l with
  | nil =>
    intro st st2 h
    simp only [fabric_clock_instances] at h
    cases h
    exact flagsKept_refl _
  | cons j rest ih =>
    intro st st2 h
    simp only [fabric_clock_instances] at h
    split at h
    · exact Except.noConfusion h
    · rename_i s hs
      exact flagsKept_trans (fabric_clock_instance_flags _ _ _ _ hs) (ih _ _ h)

theorem determine_fabric_clock_flags (module : Module) (st st2 : Extractor)
    (h : determine_fabric_clock module st = .ok st2) : FlagsKept st st2 := by
  unfold determine_fabric_clock at h
  repeat' split at h
  all_goals first
    | exact Except.noConfusion h
    | (cases h
       exact fabric_clock_instances_flags _ _ _ _
         ‹fabric_clock_instances _ _ _ = Except.ok _›)

theorem update_pin_info_flags (st st2 : Extractor) (pin_name : CppString)
    (primitive : PRIMITIVE) (h : update_pin_info st pin_name primitive = .ok st2) :
    FlagsKept st st2 := by
  unfold update_pin_info at h
  simp only [bind, Except.bind, pure, Except.pure, throw, throwThe,
    MonadExceptOf.throw] at h
  repeat' split at h
  all_goals first
    | exact Except.noConfusion h
    | (cases h; exact flagsKept_of_eq rfl rfl)

theorem foldlM_flags {α : Type} (f : Extractor → α → Except Fault Extractor)
    (hf : ∀ s a s2, f s a = .ok s2 → FlagsKept s s2) :
    ∀ (l : List α) (s s2 : Extractor), l.foldlM f s = .ok s2 → FlagsKept s s2 := by
  intro l
  induction l with
  | nil =>
    intro s s2 h
    simp only [List.foldlM, pure, Except.pure] at h
    cases h
    exact flagsKept_refl _
  | cons a rest ih =>
    intro s s2 h
    simp only [List.foldlM, bind, Except.bind] at h
    split at h
    · exact Except.noConfusion h
    · rename_i s1 h1
      exact flagsKept_trans (hf _ _ _ h1) (ih _ _ h)

theorem store_pin_traces_flags (traces full_traces : List CppString) (is_in_dir : Bool) :
    ∀ (objects : List CppString) (st st2 : Extractor),
      store_pin_traces traces full_traces is_in_dir objects st = .ok st2 →
      FlagsKept st st2 := by
  intro objects
  induction objects with
  | nil =>
    intro st st2 h
    simp only [store_pin_traces] at h
    cases h
    exact flagsKept_refl _
  | cons object rest ih =>
    intro st st2 h
    simp only [store_pin_traces, bind, Except.bind, pure, Except.pure, throw, throwThe,
      MonadExceptOf.throw] at h
    repeat' split at h
    all_goals first
      | exact Except.noConfusion h
      | (refine flagsKept_trans ?_ (ih _ _ h)
         exact flagsKept_of_eq rfl rfl)

theorem summarize_children_flags
    (call : Extractor → PrimRef → List CppString → List CppString → Except Fault Extractor)
    (traces full_traces : List CppString) (is_in_dir : Bool)
    (hcall : ∀ st c t f st2, call st c t f = .ok st2 → FlagsKept st st2) :
    ∀ (children : List (CppString × PrimRef)) (i : Nat) (st st2 : Extractor),
      summarize_children call traces full_traces is_in_dir children i st = .ok st2 →
      FlagsKept st st2 := by
  intro children
  induction children with
  | nil =>
    intro i st st2 h
    simp only [summarize_children] at h
    cases h
    exact flagsKept_refl _
  | cons child rest ih =>
    intro i st st2 h
    simp only [summarize_children, bind, Except.bind, pure, Except.pure, throw, throwThe,
      MonadExceptOf.throw] at h
    repeat' split at h
    all_goals first
      | exact Except.noConfusion h
      | exact flagsKept_trans (hcall _ _ _ _ _ ‹call _ _ _ _ = Except.ok _›) (ih _ _ _ h)

theorem summarize_pins_flags (objects : List CppString) (is_in_dir : Bool) :
    ∀ (fuel : Nat) (st : Extractor) (r : PrimRef) (traces full_traces : List CppString)
      (st2 : Extractor),
      summarize_pins objects is_in_dir fuel st r traces full_traces = .ok st2 →
      FlagsKept st st2 := by
  intro fuel
  induction fuel with
  | zero =>
    intro st r traces full_traces st2 h
    simp only [summarize_pins] at h
    exact Except.noConfusion h
  | succ fuel ih =>
    intro st r traces full_traces st2 h
    simp only [summarize_pins, bind, Except.bind, pure, Except.pure, throw, throwThe,
      MonadExceptOf.throw] at h
    repeat' split at h
    all_goals first
      | exact Except.noConfusion h
      | exact flagsKept_trans
          (foldlM_flags _ (fun s a s2 hs => update_pin_info_flags s s2 a _ hs) _ _ _
            ‹List.foldlM _ _ _ = Except.ok _›)
          (summarize_children_flags _ _ _ _ (fun a c t f b hc => ih a c t f b hc) _ _ _ _ h)
      | (cases h
         exact flagsKept_trans
          (foldlM_flags _ (fun s a s2 hs => update_pin_info_flags s s2 a _ hs) _ _ _
            ‹List.foldlM _ _ _ = Except.ok _›)
          (store_pin_traces_flags _ _ _ _ _ _ ‹store_pin_traces _ _ _ _ _ = Except.ok _›))

theorem add_pins_flags (port : PORT_PRIMITIVE) (r : PrimRef) :
    ∀ (objects : List CppString) (st st2 : Extractor),
      add_pins port r objects st = .ok st2 → FlagsKept st st2 := by
  intro objects
  induction objects with
  | nil =>
    intro st st2 h
    simp only [add_pins] at h
    cases h
    exact flagsKept_refl _
  | cons object rest ih =>
    intro st st2 h
    simp only [add_pins, bind, Except.bind, pure, Except.pure, throw, throwThe,
      MonadExceptOf.throw] at h
    repeat' split at h
    all_goals first
      | exact Except.noConfusion h
      | (refine flagsKept_trans ?_ (ih _ _ h)
         exact flagsKept_of_eq rfl rfl)

theorem summarize_report_flags (fuel : Nat) :
    ∀ (l : List Nat) (st st2 : Extractor),
      summarize_report fuel l st = .ok st2 → FlagsKept st st2 := by
  intro l
  induction l with
  | nil =>
    intro st st2 h
    simp only [summarize_report] at h
    cases h
    exact flagsKept_refl _
  | cons i rest ih =>
    intro st st2 h
    simp only [summarize_report, bind, Except.bind] at h
    repeat' split at h
    all_goals first
      | exact Except.noConfusion h
      | exact flagsKept_trans
          (flagsKept_trans (add_pins_flags _ _ _ _ _ ‹add_pins _ _ _ _ = Except.ok _›)
            (summarize_pins_flags _ _ _ _ _ _ _ _
              ‹summarize_pins _ _ _ _ _ _ _ = Except.ok _›))
          (ih _ _ h)

theorem summarize_flags (fuel : Nat) (st st2 : Extractor)
    (h : summarize fuel st = .ok st2) : FlagsKept st st2 := by
  unfold summarize at h
  simp only [bind, Except.bind, pure, Except.pure, throw, throwThe,
    MonadExceptOf.throw] at h
  repeat' split at h
  all_goals first
    | exact Except.noConfusion h
    | exact summarize_report_flags _ _ _ _ h

theorem finalize_flags (st st2 : Extractor) (module : Module) (verdict : FinalCheck)
    (h : finalize st module = .ok (st2, verdict)) : FlagsKept st st2 := by
  unfold finalize at h
  simp only [bind, Except.bind, pure, Except.pure] at h
  repeat' split at h
  all_goals first
    | exact Except.noConfusion h
    | (cases h; exact flagsKept_refl _)
    | (cases h; exact flagsKept_lower rfl rfl)

theorem extract_flags (module : Module) (fuel : Nat) (st st2 : Extractor) (r : Bool)
    (verdict : Option FinalCheck) (h : extract module fuel st = .ok (r, st2, verdict)) :
    FlagsKept st st2 := by
  unfold extract at h
  simp only [bind, Except.bind, pure, Except.pure, trace_fabric_clkbuf,
    trace_gearbox_fast_clock] at h
  repeat' split at h
  all_goals first
    | exact Except.noConfusion h
    | (cases h; exact flagsKept_of_eq rfl rfl)
    | (cases h
       have k1 := get_ports_flags _ _ _ _ _ ‹get_ports _ _ _ = Except.ok _›
       first
         | exact k1
         | (have k2 := flagsKept_trans k1
              (trace_calls_flags _ _ _ _ _ ‹trace_calls _ _ _ _ = Except.ok _›)
            have k3 := flagsKept_trans k2
              (trace_fabric_clkbuf_cells_flags _ _ _ _
                ‹trace_fabric_clkbuf_cells _ _ _ = Except.ok _›)
            have k4 := flagsKept_trans k3
              (trace_gearbox_fast_clock_loop_flags _ _ _
                ‹trace_gearbox_fast_clock_loop _ _ = Except.ok _›)
            first
              | exact k4
              | exact flagsKept_trans
                  (flagsKept_trans
                    (flagsKept_trans
                      (flagsKept_trans k4
                        (gen_instances_flags _ _ _ ‹gen_instances _ _ = Except.ok _›))
                      (determine_fabric_clock_flags _ _ _
                        ‹determine_fabric_clock _ _ = Except.ok _›))
                    (summarize_flags _ _ _ ‹summarize _ _ = Except.ok _›))
                  (finalize_flags _ _ _ _ ‹finalize _ _ = Except.ok _›)))

theorem assign_location_at_flags (port location : CppString)
    (properties : List (CppString × CppString)) (st st2 : Extractor) (i : Nat)
    (h : assign_location_at port location properties st i = .ok st2) : FlagsKept st st2 := by
  unfold assign_location_at at h
  dsimp only at h
  repeat' split at h
  all_goals first
    | exact Except.noConfusion h
    | (cases h; exact flagsKept_refl _)

theorem assign_location_loop_flags (port location : CppString)
    (properties : List (CppString × CppString)) :
    ∀ (l : List Nat) (st st2 : Extractor),
      assign_location_loop port location properties l st = .ok st2 → FlagsKept st st2 := by
  intro l
  induction l with
  | nil =>
    intro st st2 h
    simp only [assign_location_loop] at h
    cases h
    exact flagsKept_refl _
  | cons i rest ih =>
    intro st st2 h
    simp only [assign_location_loop] at h
    split at h
    · exact Except.noConfusion h
    · rename_i s hs
      exact flagsKept_trans (assign_location_at_flags _ _ _ _ _ _ hs) (ih _ _ h)

theorem get_primary_object_root_flags (st : Extractor) (i : Nat) (ports : List CppString)
    (res : Extractor × CppString) (h : get_primary_object_root st i ports = .ok res) :
    FlagsKept st res.1 := by
  unfold get_primary_object_root at h
  repeat' split at h
  all_goals first
    | exact Except.noConfusion h
    | exact (Except.ok.inj h) ▸ flagsKept_refl st

theorem get_primary_object_flags (st : Extractor) (i : Nat) (ports : List CppString)
    (res : Extractor × CppString) (h : get_primary_object st i ports = .ok res) :
    FlagsKept st res.1 := by
  unfold get_primary_object at h
  repeat' split at h
  all_goals first
    | exact Except.noConfusion h
    | exact (Except.ok.inj h) ▸ flagsKept_refl st
    | exact get_primary_object_root_flags _ _ _ _ h
    | (have k := get_primary_object_root_flags _ _ _ _
         ‹get_primary_object_root _ _ _ = Except.ok _›
       exact (Except.ok.inj h) ▸ flagsKept_trans k (flagsKept_of_eq rfl rfl))

theorem set_location_flags (st : Extractor) (i : Nat) (value : CppString) :
    FlagsKept st (set_location st i value) :=
  flagsKept_of_eq rfl rfl

theorem get_primary_location_root_flags (st : Extractor) (i : Nat) (ports : List CppString)
    (res : Extractor × CppString) (h : get_primary_location_root st i ports = .ok res) :
    FlagsKept st res.1 := by
  unfold get_primary_location_root at h
  repeat' split at h
  all_goals first
    | exact Except.noConfusion h
    | exact (Except.ok.inj h) ▸ flagsKept_refl st
    | (have k := get_primary_object_root_flags _ _ _ _
         ‹get_primary_object_root _ _ _ = Except.ok _›
       exact (Except.ok.inj h) ▸ k)

theorem get_primary_location_flags (st : Extractor) (i : Nat) (ports : List CppString)
    (res : Extractor × CppString) (h : get_primary_location st i ports = .ok res) :
    FlagsKept st res.1 := by
  unfold get_primary_location at h
  repeat' split at h
  all_goals first
    | exact Except.noConfusion h
    | exact (Except.ok.inj h) ▸ flagsKept_refl st
    | exact get_primary_location_root_flags _ _ _ _ h
    | (have k := get_primary_location_root_flags _ _ _ _
         ‹get_primary_location_root _ _ _ = Except.ok _›
       exact (Except.ok.inj h) ▸ flagsKept_trans k (set_location_flags _ _ _))

theorem finalize_location_flags (st st2 : Extractor) (i : Nat)
    (h : finalize_location st i = .ok st2) : FlagsKept st st2 := by
  unfold finalize_location at h
  dsimp only at h
  repeat' split at h
  all_goals first
    | exact Except.noConfusion h
    | (have k1 := get_primary_object_flags _ _ _ _ ‹get_primary_object _ _ _ = Except.ok _›
       have k2 := get_primary_location_flags _ _ _ _
         ‹get_primary_location _ _ _ = Except.ok _›
       cases h
       exact flagsKept_trans k1 (flagsKept_trans (flagsKept_of_eq rfl rfl) k2))

theorem finalize_locations_flags :
    ∀ (l : List Nat) (st st2 : Extractor),
      finalize_locations l st = .ok st2 → FlagsKept st st2 := by
  intro l
  induction l with
  | nil =>
    intro st st2 h
    simp only [finalize_locations] at h
    cases h
    exact flagsKept_refl _
  | cons i rest ih =>
    intro st st2 h
    simp only [finalize_locations] at h
    split at h
    · exact Except.noConfusion h
    · rename_i s hs
      exact flagsKept_trans (finalize_location_flags _ _ _ hs) (ih _ _ h)

theorem write_clkbuf_output_flags (wrapped_instances : List WrappedInstance)
    (clk : FABRIC_CLOCK) (W W2 : ClockWriter)
    (h : write_clkbuf_output wrapped_instances clk W = .ok W2) :
    W2.m_netlist_status = true → W.m_netlist_status = true := by
  unfold write_clkbuf_output at h
  dsimp only at h
  repeat' split at h
  all_goals first
    | exact Except.noConfusion h
    | (cases h; exact id)
    | (cases h; exact fun x => Bool.noConfusion x)

theorem write_clock_pin_flags (clk : FABRIC_CLOCK) (wrapped_net : CppString)
    (W : ClockWriter) :
    (write_clock_pin clk wrapped_net W).m_netlist_status = true →
      W.m_netlist_status = true := by
  unfold write_clock_pin
  dsimp only
  split
  · exact fun x => Bool.noConfusion x
  · exact id

theorem write_one_fabric_clock_flags (wrapped_instances : List WrappedInstance)
    (clk : FABRIC_CLOCK) (W W2 : ClockWriter)
    (h : write_one_fabric_clock wrapped_instances clk W = .ok W2) :
    W2.m_netlist_status = true → W.m_netlist_status = true := by
  unfold write_one_fabric_clock at h
  split at h
  · split at h
    · exact Except.noConfusion h
    · split at h
      · exact Except.noConfusion h
      · rename_i wrapped_net _
        split at h
        · exact Except.noConfusion h
        · rename_i W1 h1
          cases h
          intro x
          apply write_clock_pin_flags clk wrapped_net W
          split at h1
          · exact write_clkbuf_output_flags _ _ _ _ h1 x
          · cases h1
            exact x
  · split at h
    · exact Except.noConfusion h
    · cases h
      exact id

theorem write_fabric_clocks_flags (wrapped_instances : List WrappedInstance) :
    ∀ (clks : List FABRIC_CLOCK) (W W2 : ClockWriter),
      write_fabric_clocks wrapped_instances clks W = .ok W2 →
      W2.m_netlist_status = true → W.m_netlist_status = true := by
  intro clks
  induction clks with
  | nil =>
    intro W W2 h
    simp only [write_fabric_clocks] at h
    cases h
    exact id
  | cons clk rest ih =>
    intro W W2 h
    simp only [write_fabric_clocks] at h
    split at h
    · exact Except.noConfusion h
    · rename_i W1 h1
      exact fun x => write_one_fabric_clock_flags _ _ _ _ h1 (ih _ _ h x)

theorem write_fabric_clock_flags (wrapped_instances : List WrappedInstance)
    (st st2 : Extractor) (sdc xml : CppString)
    (h : write_fabric_clock wrapped_instances st = .ok (st2, sdc, xml)) :
    FlagsKept st st2 := by
  unfold write_fabric_clock at h
  split at h
  · exact Except.noConfusion h
  · rename_i W hW
    cases h
    exact ⟨id, write_fabric_clocks_flags _ _ _ _ hW⟩

theorem get_fabric_data_flags (wrapped_instances : List WrappedInstance)
    (object : CppString) (input : Bool) (st : Extractor) (res : Extractor × FabricData)
    (h : get_fabric_data wrapped_instances object input st = .ok res) :
    FlagsKept st res.1 := by
  unfold get_fabric_data at h
  dsimp only at h
  repeat' split at h
  all_goals first
    | exact Except.noConfusion h
    | exact (Except.ok.inj h) ▸ flagsKept_refl st
    | exact (Except.ok.inj h) ▸ flagsKept_netlist_false st

theorem note_location_mode_flags (st : Extractor) (location_key mode : CppString) :
    FlagsKept st (note_location_mode st location_key mode) := by
  unfold note_location_mode
  split
  · exact flagsKept_refl _
  · exact flagsKept_of_eq rfl rfl

theorem write_pin_flags (wrapped_instances : List WrappedInstance) (pin : PIN_PORT)
    (st : Extractor) (res : Extractor × SDC_ENTRY)
    (h : write_pin wrapped_instances pin st = .ok res) : FlagsKept st res.1 := by
  unfold write_pin at h
  dsimp only at h
  repeat' split at h
  all_goals first
    | exact Except.noConfusion h
    | exact (Except.ok.inj h) ▸ flagsKept_refl st
    | exact (Except.ok.inj h) ▸ note_location_mode_flags st _ _
    | (have k := flagsKept_trans (note_location_mode_flags st _ _)
         (get_fabric_data_flags _ _ _ _ _ ‹get_fabric_data _ _ _ _ = Except.ok _›)
       first
         | exact (Except.ok.inj h) ▸ k
         | exact (Except.ok.inj h) ▸ flagsKept_trans k (flagsKept_netlist_false _))

theorem write_pins_flags (wrapped_instances : List WrappedInstance) :
    ∀ (pins : List PIN_PORT) (st : Extractor) (res : Extractor × List SDC_ENTRY),
      write_pins wrapped_instances pins st = .ok res → FlagsKept st res.1 := by
  intro pins
  induction pins with
  | nil =>
    intro st res h
    simp only [write_pins] at h
    cases h
    exact flagsKept_refl _
  | cons pin rest ih =>
    intro st res h
    simp only [write_pins] at h
    repeat' split at h
    all_goals first
      | exact Except.noConfusion h
      | exact ih _ _ h
      | (have k1 := write_pin_flags _ _ _ _ ‹write_pin _ _ _ = Except.ok _›
         have k2 := ih _ _ ‹write_pins _ _ _ = Except.ok _›
         cases h
         exact flagsKept_trans k1 k2)

theorem write_data_mode_and_location_flags (wrapped_instances : List WrappedInstance)
    (st st2 : Extractor) (entries : List SDC_ENTRY)
    (h : write_data_mode_and_location wrapped_instances st = .ok (st2, entries)) :
    FlagsKept st st2 :=
  write_pins_flags wrapped_instances _ st (st2, entries) h

theorem track_nets_flags (error : Bool) (key inst_name oport : CppString) :
    ∀ (nets : List CppString) (i : Nat) (record : Nat × List CppString)
      (T : ControlTracker) (res : (Nat × List CppString) × ControlTracker),
      track_nets error key inst_name oport nets i record T = .ok res →
      res.2.m_netlist_status = true → T.m_netlist_status = true := by
  intro nets
  induction nets with
  | nil =>
    intro i record T res h
    simp only [track_nets] at h
    cases h
    exact id
  | cons net rest ih =>
    intro i record T res h
    simp only [track_nets] at h
    repeat' split at h
    all_goals first
      | exact Except.noConfusion h
      | (have k := ih _ _ _ _ h
         first
           | exact k
           | exact fun x => Bool.noConfusion (k x))

theorem store_record_flags (T : ControlTracker) (n k : CppString)
    (record : Nat × List CppString) :
    (store_record T n k record).m_netlist_status = T.m_netlist_status := rfl

theorem control_claim_nets_flags (iter0 : CONTROL_SIGNAL_INFO)
    (iter1 : CONTROL_SIGNAL_PRIMITIVE) (inst : INSTANCE) (wrapped_nets : List CppString)
    (T T2 : ControlTracker)
    (h : control_claim_nets iter0 iter1 inst wrapped_nets T = .ok T2) :
    T2.m_netlist_status = true → T.m_netlist_status = true := by
  unfold control_claim_nets at h
  dsimp only at h
  repeat' split at h
  all_goals first
    | exact Except.noConfusion h
    | (have k := track_nets_flags _ _ _ _ _ _ _ _ _ ‹track_nets _ _ _ _ _ _ _ _ = Except.ok _›
       cases h
       intro x
       have y := k x
       split at y
       · exact y
       · exact y)

theorem control_claim_flags (wrapped_instances : List WrappedInstance)
    (iter0 : CONTROL_SIGNAL_INFO) (iter1 : CONTROL_SIGNAL_PRIMITIVE) (inst : INSTANCE)
    (T T2 : ControlTracker)
    (h : control_claim wrapped_instances iter0 iter1 inst T = .ok T2) :
    T2.m_netlist_status = true → T.m_netlist_status = true := by
  have h0 : (track_instance_name T inst.name).m_netlist_status = T.m_netlist_status := by
    unfold track_instance_name
    split <;> rfl
  unfold control_claim at h
  dsimp only at h
  generalize track_instance_name T inst.name = T0 at h h0
  repeat' split at h
  all_goals first
    | exact Except.noConfusion h
    | (have k := control_claim_nets_flags _ _ _ _ _ _ h
       exact fun x => h0 ▸ k x)
    | (cases h
       intro x
       have y : (T0.m_netlist_status && _) = true := x
       rw [Bool.and_eq_true] at y
       exact h0 ▸ y.1)

theorem track_claims_flags (wrapped_instances : List WrappedInstance) :
    ∀ (claims : List (CONTROL_SIGNAL_INFO × CONTROL_SIGNAL_PRIMITIVE × INSTANCE))
      (T T2 : ControlTracker), track_claims wrapped_instances claims T = .ok T2 →
      T2.m_netlist_status = true → T.m_netlist_status = true := by
  intro claims
  induction claims with
  | nil =>
    intro T T2 h
    simp only [track_claims] at h
    cases h
    exact id
  | cons claim rest ih =>
    intro T T2 h
    simp only [track_claims] at h
    split at h
    · exact Except.noConfusion h
    · rename_i T1 h1
      exact fun x => control_claim_flags _ _ _ _ _ _ h1 (ih _ _ h x)

theorem write_control_signal_flags (wrapped_instances : List WrappedInstance)
    (st st2 : Extractor) (entries : List SDC_ENTRY)
    (h : write_control_signal wrapped_instances st = .ok (st2, entries)) :
    FlagsKept st st2 := by
  unfold write_control_signal at h
  repeat' split at h
  all_goals first
    | exact Except.noConfusion h
    | (have k := track_claims_flags _ _ _ _ ‹track_claims _ _ _ = Except.ok _›
       cases h
       exact ⟨id, k⟩)

theorem core_clock_claim_flags (st : Extractor) (inst : INSTANCE) (entry : SDC_ENTRY)
    (T : CoreClockTracker) (res : CoreClockTracker × SDC_ENTRY)
    (h : core_clock_claim st inst entry T = .ok res) :
    res.1.m_netlist_status = true → T.m_netlist_status = true := by
  unfold core_clock_claim at h
  dsimp only at h
  repeat' split at h
  all_goals first
    | exact Except.noConfusion h
    | (cases h; exact id)
    | (cases h; exact fun x => Bool.noConfusion x)

theorem core_clock_entry_flags (st : Extractor) (inst : INSTANCE) (T : CoreClockTracker)
    (res : CoreClockTracker × Option SDC_ENTRY)
    (h : core_clock_entry st inst T = .ok res) :
    res.1.m_netlist_status = true → T.m_netlist_status = true := by
  unfold core_clock_entry at h
  dsimp only at h
  repeat' split at h
  all_goals first
    | exact Except.noConfusion h
    | (cases h; exact id)
    | (cases h; exact fun x => Bool.noConfusion x)
    | (have k := core_clock_claim_flags _ _ _ _ _ ‹core_clock_claim _ _ _ _ = Except.ok _›
       cases h
       exact k)

theorem core_clock_entries_flags (st : Extractor) :
    ∀ (l : List INSTANCE) (T : CoreClockTracker) (res : CoreClockTracker × List SDC_ENTRY),
      core_clock_entries st l T = .ok res →
      res.1.m_netlist_status = true → T.m_netlist_status = true := by
  intro l
  induction l with
  | nil =>
    intro T res h
    simp only [core_clock_entries] at h
    cases h
    exact id
  | cons inst rest ih =>
    intro T res h
    simp only [core_clock_entries] at h
    repeat' split at h
    all_goals first
      | exact Except.noConfusion h
      | exact ih _ _ h
      | (have k1 := core_clock_entry_flags _ _ _ _ ‹core_clock_entry _ _ _ = Except.ok _›
         have k2 := ih _ _ ‹core_clock_entries _ _ _ = Except.ok _›
         cases h
         exact fun x => k1 (k2 x))

theorem write_gearbox_core_clock_flags (st st2 : Extractor) (entries : List SDC_ENTRY)
    (h : write_gearbox_core_clock st = .ok (st2, entries)) : FlagsKept st st2 := by
  unfold write_gearbox_core_clock at h
  repeat' split at h
  all_goals first
    | exact Except.noConfusion h
    | (have k := core_clock_entries_flags _ _ _ _ ‹core_clock_entries _ _ _ = Except.ok _›
       cases h
       exact ⟨id, k⟩)

theorem post_sdc_comment_flags (entry entry2 : SDC_ENTRY) (type comment : CppString)
    (st st2 : Extractor) (h : post_sdc_comment entry type comment st = .ok (st2, entry2)) :
    FlagsKept st st2 := by
  unfold post_sdc_comment at h
  split at h
  · cases h
    refine ⟨id, fun x => ?_⟩
    have y : (st.m_netlist_status && _) = true := x
    rw [Bool.and_eq_true] at y
    exact y.1
  · exact Except.noConfusion h

theorem write_sdc_flags (wrapped_instances : List WrappedInstance) (st st2 : Extractor)
    (files : SdcFiles) (h : write_sdc wrapped_instances st = .ok (st2, files)) :
    FlagsKept st st2 := by
  unfold write_sdc at h
  simp only [bind, Except.bind, pure, Except.pure] at h
  repeat' split at h
  all_goals first
    | exact Except.noConfusion h
    | (have k1 := finalize_locations_flags _ _ _ ‹finalize_locations _ _ = Except.ok _›
       have k2 := write_fabric_clock_flags _ _ _ _ _ ‹write_fabric_clock _ _ = Except.ok _›
       have k3 := write_data_mode_and_location_flags _ _ _ _
         ‹write_data_mode_and_location _ _ = Except.ok _›
       have k4 := write_control_signal_flags _ _ _ _
         ‹write_control_signal _ _ = Except.ok _›
       have k5 := write_gearbox_core_clock_flags _ _ _
         ‹write_gearbox_core_clock _ = Except.ok _›
       cases h
       exact flagsKept_trans k1
         (flagsKept_trans k2 (flagsKept_trans k3 (flagsKept_trans k4 k5))))

theorem operation_flags (st st2 : Extractor) (h : Operation st st2) : FlagsKept st st2 := by
  cases h
  all_goals first
    | exact ⟨fun _ => rfl, fun _ => rfl⟩
    | (rename_i h
       first
         | exact extract_flags _ _ _ _ _ _ h
         | exact get_ports_flags _ _ _ _ _ h
         | exact trace_next_primitive_flags _ _ _ _ _ _ h
         | exact trace_fabric_clkbuf_cells_flags _ _ _ _ h
         | exact trace_gearbox_fast_clock_loop_flags _ _ _ h
         | exact gen_instances_flags _ _ _ h
         | exact determine_fabric_clock_flags _ _ _ h
         | exact summarize_flags _ _ _ h
         | exact finalize_flags _ _ _ _ h
         | exact assign_location_loop_flags _ _ _ _ _ _ h
         | exact write_sdc_flags _ _ _ _ h
         | exact write_fabric_clock_flags _ _ _ _ _ h
         | exact write_data_mode_and_location_flags _ _ _ _ h
         | exact write_control_signal_flags _ _ _ _ h
         | exact write_gearbox_core_clock_flags _ _ _ h
         | exact post_sdc_comment_flags _ _ _ _ _ _ h)

theorem operations_flags (st st2 : Extractor) (h : Relation.ReflTransGen Operation st st2) :
    FlagsKept st st2 := by
  induction h with
  | refl => exact flagsKept_refl _
  | tail _ step ih => exact flagsKept_trans ih (operation_flags _ _ step)

theorem json_status_eq (st : Extractor) :
    json_status st =
      if st.m_status = true ∧ st.m_netlist_status = true then "true".toList
      else "false".toList := by
  unfold json_status
  cases st.m_status <;> cases st.m_netlist_status <;> rfl

theorem write_json_head_eq (msgs : List MSG) (st : Extractor) (tail : CppString) :
    write_json_head msgs st ++ tail =
      "\x7b\n    \"status\": ".toList ++ json_status st ++ ",\n".toList ++
        (write_json_messages msgs ++ "  \"instances\": [".toList ++ tail) := by
  unfold write_json_head
  have e : "\x7b\n    \"status\": ".toList = "\x7b\n".toList ++ "    \"status\": ".toList := rfl
  rw [e]
  simp only [List.append_assoc]

theorem write_json_text (msgs : List MSG) (map_space : Nat) (st : Extractor) :
    ∃ rest, (write_json msgs map_space st).1 =
      "\x7b\n    \"status\": ".toList ++ json_status st ++ ",\n".toList ++ rest := by
  unfold write_json
  split
  · split
    · exact ⟨_, write_json_head_eq msgs st _⟩
    · exact ⟨_, (List.append_assoc _ _ _).trans
        ((List.append_assoc _ _ _).trans (write_json_head_eq msgs st _))⟩
  · exact ⟨_, (List.append_assoc _ _ _).trans (write_json_head_eq msgs st _)⟩

/-- C12: along every sequence of operations that return (the constructor,
`extract` and its stages, `assign_location`, `write_sdc` and its four section
writers, `post_sdc_comment`), a flag `m_status` or `m_netlist_status` that is
`false` stays `false`; and the text of `write_json` starts with the status
`true` when both flags are `true` and with the status `false` otherwise. -/
theorem C12_status_flags_never_rise_and_json_status_is_their_conjunction
    (st st2 : Extractor) (msgs : List MSG) (map_space : Nat)
    (h : Relation.ReflTransGen Operation st st2) :
    (st.m_status = false → st2.m_status = false) ∧
    (st.m_netlist_status = false → st2.m_netlist_status = false) ∧
    ∃ rest, (write_json msgs map_space st2).1 =
      "\x7b\n    \"status\": ".toList ++
        (if st2.m_status = true ∧ st2.m_netlist_status = true then "true".toList
         else "false".toList) ++ ",\n".toList ++ rest := by
  obtain ⟨k1, k2⟩ := operations_flags st st2 h
  refine ⟨fun x => ?_, fun x => ?_, ?_⟩
  · cases hs : st2.m_status with
    | false => rfl
    | true => rw [k1 hs] at x; exact Bool.noConfusion x
  · cases hs : st2.m_netlist_status with
    | false => rfl
    | true => rw [k2 hs] at x; exact Bool.noConfusion x
  · rw [← json_status_eq]
    exact write_json_text msgs map_space st2

theorem unsupported_extract (technology : CppString) (module : Module) (fuel : Nat)
    (h : CppMap.contains SUPPORTED_PRIMITIVES technology = false) :
    extract module fuel (Extractor.construct technology) =
      .ok (false, { m_technology := technology, m_status := false }, none) := by
  unfold extract Extractor.construct
  simp only [h, Bool.not_false, if_true, pure, Except.pure]

/-- Witness for C12: an extractor for the unknown technology `genesis2`
runs `extract`, `assign_location` and `write_sdc`. -/
theorem C12_status_flags_never_rise_and_json_status_is_their_conjunction_witness :
    Relation.ReflTransGen Operation (Extractor.construct "genesis2".toList)
      (Extractor.construct "genesis2".toList) ∧
    ((Extractor.construct "genesis2".toList).m_status = false →
      (Extractor.construct "genesis2".toList).m_status = false) ∧
    ((Extractor.construct "genesis2".toList).m_netlist_status = false →
      (Extractor.construct "genesis2".toList).m_netlist_status = false) ∧
    ∃ rest, (write_json [] 4 (Extractor.construct "genesis2".toList)).1 =
      "\x7b\n    \"status\": ".toList ++
        (if (Extractor.construct "genesis2".toList).m_status = true ∧
            (Extractor.construct "genesis2".toList).m_netlist_status = true then
          "true".toList
         else "false".toList) ++ ",\n".toList ++ rest :=
  have run : Relation.ReflTransGen Operation (Extractor.construct "genesis2".toList)
      (Extractor.construct "genesis2".toList) :=
    ((Relation.ReflTransGen.single
      (Operation.step_extract example_single_buffer 1 _ _ false none
        (unsupported_extract "genesis2".toList example_single_buffer 1 rfl))).tail
      (Operation.step_assign_location "din".toList "HP_1_0_0P".toList [] _ _ rfl)).tail
      (Operation.step_write_sdc [] _ _ _ rfl)
  ⟨run, C12_status_flags_never_rise_and_json_status_is_their_conjunction _ _ [] 4 run⟩

theorem no_port_infos (module : Module)
    (h : ∀ w ∈ module.wires,
      (w.port_input = false ∧ w.port_output = false) ∨ w.width.toNat = 0) :
    module.wires.flatMap wire_port_infos = [] := by
  rw [List.flatMap_eq_nil_iff]
  intro w hw
  unfold wire_port_infos
  rcases h w hw with ⟨h1, h2⟩ | h0
  · simp [h1, h2]
  · simp [h0]

/-- C13: for a technology that the table `SUPPORTED_PRIMITIVES` does not
have, or a top module none of whose wires has a bit of an input, output or
inout port, `extract` returns `false` and leaves no root, no traced child and
no instance, and `write_json` then writes the status `false` and an array of
instances that is empty. -/
theorem C13_unsupported_technology_or_no_port_bit_returns_false_without_instances
    (technology : CppString) (module : Module) (fuel : Nat) (msgs : List MSG)
    (map_space : Nat)
    (h : CppMap.contains SUPPORTED_PRIMITIVES technology = false ∨
      ∀ w ∈ module.wires,
        (w.port_input = false ∧ w.port_output = false) ∨ w.width.toNat = 0) :
    ∃ st, extract module fuel (Extractor.construct technology) = .ok (false, st, none) ∧
      st.m_ports = [] ∧ st.m_child_primitives = [] ∧ st.m_instances = [] ∧
      write_json msgs map_space st =
        ("\x7b\n    \"status\": false,\n".toList ++ write_json_messages msgs ++
          "  \"instances\": [\n  ]\n\x7d\n".toList, none) := by
  have hj : ∀ st : Extractor, st.m_status = false →
      write_json msgs map_space st =
        ("\x7b\n    \"status\": false,\n".toList ++ write_json_messages msgs ++
          "  \"instances\": [\n  ]\n\x7d\n".toList, none) := by
    intro st hs
    unfold write_json
    rw [if_neg (fun c => by rw [hs] at c; exact Bool.noConfusion c.1)]
    have e1 : json_status st = "false".toList := by
      unfold json_status
      rw [hs]
      rfl
    have e2 : "\x7b\n    \"status\": false,\n".toList =
        "\x7b\n    \"status\": ".toList ++ "false".toList ++ ",\n".toList := rfl
    have e3 : "  \"instances\": [\n  ]\n\x7d\n".toList =
        "  \"instances\": [".toList ++ ("\n  ]".toList ++ "\n\x7d\n".toList) := rfl
    rw [List.append_assoc, write_json_head_eq, e1, e2, e3]
    simp only [List.append_assoc]
  by_cases hs : CppMap.contains SUPPORTED_PRIMITIVES technology = false
  · exact ⟨_, unsupported_extract technology module fuel hs, rfl, rfl, rfl, hj _ rfl⟩
  · have hw := h.resolve_left hs
    have ht : CppMap.contains SUPPORTED_PRIMITIVES technology = true := by
      cases hc : CppMap.contains SUPPORTED_PRIMITIVES technology with
      | true => rfl
      | false => exact absurd hc hs
    refine ⟨{ m_technology := technology, m_status := false }, ?_, rfl, rfl, rfl, hj _ rfl⟩
    unfold extract Extractor.construct get_ports
    simp only [ht, no_port_infos module hw, Bool.not_true, Bool.false_eq_true, if_false,
      List.length_nil, ne_eq, not_true_eq_false, bind, Except.bind, pure, Except.pure,
      Bool.not_false, if_true]

/-- Witness for C13: the technology `genesis3` and a module whose only wire
is not a port. -/
theorem C13_unsupported_technology_or_no_port_bit_returns_false_without_instances_witness :
    ∃ st, extract example_no_ports 5 (Extractor.construct "genesis3".toList) =
        .ok (false, st, none) ∧
      st.m_ports = [] ∧ st.m_child_primitives = [] ∧ st.m_instances = [] ∧
      write_json [{ offset := 1, msg := "Extract".toList }] 4 st =
        ("\x7b\n    \"status\": false,\n".toList ++
          write_json_messages [{ offset := 1, msg := "Extract".toList }] ++
          "  \"instances\": [\n  ]\n\x7d\n".toList, none) :=
  C13_unsupported_technology_or_no_port_bit_returns_false_without_instances
    "genesis3".toList example_no_ports 5 [{ offset := 1, msg := "Extract".toList }] 4
    (Or.inr (by decide))

/-! ### Port search through alias pairs -/

theorem first_alias_dest_step (src_is_right : Bool) (connection : CppString) :
    ∀ (left right : List CppString) (dest : CppString),
      first_alias_dest src_is_right connection left right = some dest →
      ∃ i : Nat, (if src_is_right then right else left)[i]? = some connection ∧
        (if src_is_right then left else right)[i]? = some dest := by
  intro left
  induction left with
  | nil =>
    intro right dest h
    simp only [first_alias_dest] at h
    exact Option.noConfusion h
  | cons l left ih =>
    intro right dest h
    cases right with
    | nil =>
      simp only [first_alias_dest] at h
      exact Option.noConfusion h
    | cons r right =>
      cases src_is_right with
      | false =>
        simp only [first_alias_dest, Bool.false_eq_true, if_false] at h ih ⊢
        split at h
        · rename_i hsrc
          cases h
          exact ⟨0, by simp [hsrc], by simp⟩
        · obtain ⟨i, h1, h2⟩ := ih right dest h
          exact ⟨i + 1, by simpa using h1, by simpa using h2⟩
      | true =>
        simp only [first_alias_dest, if_true] at h ih ⊢
        split at h
        · rename_i hsrc
          cases h
          exact ⟨0, by simp [hsrc], by simp⟩
        · obtain ⟨i, h1, h2⟩ := ih right dest h
          exact ⟨i + 1, by simpa using h1, by simpa using h2⟩

theorem alias_step_of_first (module : Module) (src_is_right : Bool)
    (it : SigSpec × SigSpec) (hit : it ∈ module.connections) (connection dest : CppString)
    (h : first_alias_dest src_is_right connection (get_signals it.1) (get_signals it.2) =
      some dest) : AliasStep module src_is_right connection dest := by
  obtain ⟨i, h1, h2⟩ := first_alias_dest_step _ _ _ _ _ h
  refine ⟨it, hit, i, ?_, ?_⟩
  · cases src_is_right
    · simpa using h1
    · simpa using h1
  · cases src_is_right
    · simpa using h2
    · simpa using h2

theorem find_port_info_some (connection : CppString) (dir : IO_DIR) :
    ∀ (l : List PORT_INFO) (index : Nat) (found : Nat × PORT_INFO),
      find_port_info connection dir l index = some found →
      connection = found.2.fullname ∧ dir = found.2.dir ∧ found.2 ∈ l := by
  intro l
  induction l with
  | nil =>
    intro index found h
    simp only [find_port_info] at h
    exact Option.noConfusion h
  | cons info rest ih =>
    intro index found h
    simp only [find_port_info] at h
    split at h
    · rename_i hc
      cases h
      exact ⟨hc.1, hc.2, List.mem_cons_self _ _⟩
    · obtain ⟨a, b, c⟩ := ih _ _ h
      exact ⟨a, b, List.mem_cons_of_mem _ c⟩

theorem port_alias_pairs_returns (module : Module) (dir : IO_DIR)
    (port_infos : List PORT_INFO) (connection : CppString)
    (call : PortSearch → CppString → Except Fault (Bool × PortSearch))
    (hlen : ∀ it ∈ module.connections,
      (get_signals it.1).length = (get_signals it.2).length)
    (hcall : ∀ ps dest, AliasStep module (decide (dir ≠ IO_DIR.IN)) connection dest →
      ps.port_trackers.length ≤ port_infos.length →
      ∃ r, call ps dest = .ok r ∧ PortFound dir ps r ∧
        (r.1 = true → PortReachable module dir port_infos dest)) :
    ∀ (pairs : List (SigSpec × SigSpec)), (∀ it ∈ pairs, it ∈ module.connections) →
      ∀ ps : PortSearch, ps.port_trackers.length ≤ port_infos.length →
      ∃ r, port_alias_pairs call dir connection pairs ps = .ok r ∧ PortFound dir ps r ∧
        (r.1 = true → PortReachable module dir port_infos connection) := by
  intro pairs
  induction pairs with
  | nil =>
    intro _ ps _
    refine ⟨(false, ps), rfl, ⟨fun _ => ⟨rfl, rfl⟩, fun x => Bool.noConfusion x⟩,
      fun x => Bool.noConfusion x⟩
  | cons it rest ih =>
    intro hsub ps htrack
    have hit : it ∈ module.connections := hsub it (List.mem_cons_self _ _)
    have hrest : ∀ x ∈ rest, x ∈ module.connections :=
      fun x hx => hsub x (List.mem_cons_of_mem _ hx)
    simp only [port_alias_pairs]
    rw [if_neg (by simpa using hlen it hit)]
    cases hf : first_alias_dest (decide (dir ≠ IO_DIR.IN)) connection (get_signals it.1)
        (get_signals it.2) with
    | none => exact ih hrest ps htrack
    | some dest =>
      have hstep := alias_step_of_first module _ it hit connection dest hf
      obtain ⟨r, hr, hq, hreach⟩ := hcall ps dest hstep htrack
      simp only [hr]
      cases hs : r.1 with
      | true =>
        simp only [if_true]
        refine ⟨(true, r.2), rfl, ⟨fun x => Bool.noConfusion x, fun _ => hq.2 hs⟩, fun _ => ?_⟩
        obtain ⟨net, hpath, hinfo⟩ := hreach hs
        exact ⟨net, Relation.ReflTransGen.head hstep hpath, hinfo⟩
      | false =>
        simp only [Bool.false_eq_true, if_false]
        obtain ⟨e1, e2⟩ := hq.1 hs
        obtain ⟨r2, hr2, hq2, hreach2⟩ := ih hrest r.2 (e2 ▸ htrack)
        refine ⟨r2, hr2, ⟨fun x => ?_, fun x => ?_⟩, hreach2⟩
        · obtain ⟨f1, f2⟩ := hq2.1 x
          exact ⟨f1.trans e1, f2.trans e2⟩
        · obtain ⟨info, f1, f2⟩ := hq2.2 x
          exact ⟨info, by rw [f1, e1], f2⟩

theorem get_connected_port_returns (module : Module) (dir : IO_DIR)
    (port_infos : List PORT_INFO) (rank : CppString → Nat)
    (hacyc : ∀ a b, AliasStep module (decide (dir ≠ IO_DIR.IN)) a b → rank b < rank a)
    (hlen : ∀ it ∈ module.connections,
      (get_signals it.1).length = (get_signals it.2).length) :
    ∀ (fuel : Nat) (connection : CppString) (ps : PortSearch) (loop : Nat),
      ps.port_trackers.length ≤ port_infos.length → rank connection < fuel →
      ∃ r, get_connected_port module connection dir port_infos fuel ps loop = .ok r ∧
        PortFound dir ps r ∧ (r.1 = true → PortReachable module dir port_infos connection) := by
  intro fuel
  induction fuel with
  | zero =>
    intro connection ps loop _ hfuel
    exact absurd hfuel (Nat.not_lt_zero _)
  | succ fuel ih =>
    intro connection ps loop htrack hfuel
    simp only [get_connected_port]
    rw [if_neg (Nat.not_lt.mpr htrack)]
    cases hf : find_port_info connection dir port_infos 0 with
    | some found =>
      obtain ⟨a, b, c⟩ := find_port_info_some _ _ _ _ _ hf
      refine ⟨_, rfl, ⟨fun x => Bool.noConfusion x, fun _ => ⟨found.2, rfl, b.symm⟩⟩,
        fun _ => ⟨connection, Relation.ReflTransGen.refl, found.2, c, a, b⟩⟩
    | none =>
      obtain ⟨r, hr, hq, hreach⟩ := port_alias_pairs_returns module dir port_infos connection
        (fun ps dest => get_connected_port module dest dir port_infos fuel ps (loop + 1))
        hlen
        (fun p dest hstep hp =>
          ih dest p (loop + 1) hp
            (Nat.lt_of_lt_of_le (hacyc _ _ hstep) (Nat.lt_succ_iff.mp hfuel)))
        module.connections (fun _ h => h) ps htrack
      simp only [hr]
      split
      · exact ⟨_, rfl, ⟨fun x => hq.1 x, fun x => hq.2 x⟩, hreach⟩
      · exact ⟨_, rfl, hq, hreach⟩

/-- C14, amended: in a module whose alias pairs have sides of equal width
and admit a rank of the nets that falls along every alias pair read in the
direction of the search (no alias cycle, no net aliased to itself),
`get_connected_port` returns once the fuel exceeds the rank of the net; it
returns `false` and leaves `connected_ports` as it was when no port record of
the requested direction is reachable from the net through alias pairs, and
when it returns `true` it has appended exactly one port record, of the
requested direction. -/
theorem C14_get_connected_port_returns_without_alias_cycle (module : Module) (dir : IO_DIR)
    (port_infos : List PORT_INFO) (rank : CppString → Nat) (connection : CppString)
    (ps : PortSearch) (loop fuel : Nat)
    (hacyc : ∀ a b, AliasStep module (decide (dir ≠ IO_DIR.IN)) a b → rank b < rank a)
    (hlen : ∀ it ∈ module.connections,
      (get_signals it.1).length = (get_signals it.2).length)
    (htrack : ps.port_trackers.length ≤ port_infos.length)
    (hfuel : rank connection < fuel) :
    ∃ (status : Bool) (ps2 : PortSearch),
      get_connected_port module connection dir port_infos fuel ps loop = .ok (status, ps2) ∧
      (status = false → ps2.connected_ports = ps.connected_ports) ∧
      (¬ PortReachable module dir port_infos connection →
        status = false ∧ ps2.connected_ports = ps.connected_ports) ∧
      (status = true →
        ∃ info, ps2.connected_ports = ps.connected_ports ++ [info] ∧ info.dir = dir) := by
  obtain ⟨r, hr, hq, hreach⟩ := get_connected_port_returns module dir port_infos rank hacyc
    hlen fuel connection ps loop htrack hfuel
  refine ⟨r.1, r.2, hr, fun x => (hq.1 x).1, fun hn => ?_, hq.2⟩
  have hs : r.1 = false := by
    cases hb : r.1 with
    | false => rfl
    | true => exact absurd (hreach hb) hn
  exact ⟨hs, (hq.1 hs).1⟩

/-- Counterexample for C14: the net `n1` is no port and an alias pair
connects it to itself; whatever the fuel, the search from `n1` for an input
port does not return: each call makes the same call again. -/
theorem C14_counterexample_self_alias_never_returns :
    find_port_info "\\n1".toList IO_DIR.IN
        (example_self_alias.wires.flatMap wire_port_infos) 0 = none ∧
    ∀ fuel loop : Nat,
      get_connected_port example_self_alias "\\n1".toList IO_DIR.IN
        (example_self_alias.wires.flatMap wire_port_infos) fuel {} loop =
        .error Fault.out_of_fuel := by
  refine ⟨by decide, ?_⟩
  intro fuel
  induction fuel with
  | zero =>
    intro loop
    rfl
  | succ fuel ih =>
    intro loop
    have hf : find_port_info "\\n1".toList IO_DIR.IN
        (example_self_alias.wires.flatMap wire_port_infos) 0 = none := by
      decide
    have ha : first_alias_dest (decide (IO_DIR.IN ≠ IO_DIR.IN)) "\\n1".toList
        (get_signals (wire_sig "\\n1")) (get_signals (wire_sig "\\n1")) =
        some "\\n1".toList := by
      decide
    have hl : ¬ (get_signals (wire_sig "\\n1")).length ≠
        (get_signals (wire_sig "\\n1")).length := fun c => c rfl
    have hc : example_self_alias.connections = [(wire_sig "\\n1", wire_sig "\\n1")] := rfl
    have ht : ¬ ([] : List Nat).length >
        (example_self_alias.wires.flatMap wire_port_infos).length := by
      decide
    simp only [get_connected_port]
    rw [if_neg ht]
    simp only [hf, hc, port_alias_pairs, if_neg hl, ha, ih (loop + 1)]

/-- Witness for C14: the net `n1` of the input buffer reaches the input
port `din` through one alias pair. -/
theorem C14_get_connected_port_returns_without_alias_cycle_witness :
    ∃ (status : Bool) (ps2 : PortSearch),
      get_connected_port example_alias_hop "\\n1".toList IO_DIR.IN
        (example_alias_hop.wires.flatMap wire_port_infos) 2 {} 0 = .ok (status, ps2) ∧
      (status = false → ps2.connected_ports = ({} : PortSearch).connected_ports) ∧
      (¬ PortReachable example_alias_hop IO_DIR.IN
          (example_alias_hop.wires.flatMap wire_port_infos) "\\n1".toList →
        status = false ∧ ps2.connected_ports = ({} : PortSearch).connected_ports) ∧
      (status = true →
        ∃ info, ps2.connected_ports = ({} : PortSearch).connected_ports ++ [info] ∧
          info.dir = IO_DIR.IN) :=
  C14_get_connected_port_returns_without_alias_cycle example_alias_hop IO_DIR.IN
    (example_alias_hop.wires.flatMap wire_port_infos)
    (fun net => if net = "\\n1".toList then 1 else 0) "\\n1".toList {} 0 2
    (by
      rintro a b ⟨it, hit, i, h1, h2⟩
      have e : it = (wire_sig "\\n1", wire_sig "\\din") := by
        simpa [example_alias_hop] using hit
      subst e
      have g1 : get_signals (wire_sig "\\n1") = ["\\n1".toList] := rfl
      have g2 : get_signals (wire_sig "\\din") = ["\\din".toList] := rfl
      simp only [ne_eq, not_true_eq_false, decide_False, Bool.false_eq_true, if_false, g1,
        g2] at h1 h2
      cases i with
      | zero =>
        simp only [List.getElem?_cons_zero, Option.some.injEq] at h1 h2
        subst h1 h2
        decide
      | succ i => simp at h1)
    (by decide) (by decide) (by decide)

/-! ### Paths of traced children -/

theorem pathsKept_refl (st : Extractor) : PathsKept st st :=
  fun _ n h => ⟨n, h, rfl, rfl, rfl, rfl, rfl⟩

theorem pathsKept_trans {s t u : Extractor} (h : PathsKept s t) (g : PathsKept t u) :
    PathsKept s u := by
  intro q n hn
  obtain ⟨m, hm, a1, a2, a3, a4, a5⟩ := h q n hn
  obtain ⟨k, hk, b1, b2, b3, b4, b5⟩ := g q m hm
  exact ⟨k, hk, a1.trans b1, a2.trans b2, a3.trans b3, a4.trans b4, a5.trans b5⟩

theorem pathsKept_update (st : Extractor) (r : PrimRef) (f : PRIMITIVE → PRIMITIVE)
    (hf : ∀ n, SamePaths n (f n)) : PathsKept st (st.update r f) := by
  intro q n h
  rw [deref_update]
  by_cases e : q = r
  · rw [if_pos e, h]
    exact ⟨f n, rfl, hf n⟩
  · rw [if_neg e]
    exact ⟨n, h, rfl, rfl, rfl, rfl, rfl⟩

theorem pathsKept_of_deref_eq {st st2 : Extractor} (h : ∀ q, st2.deref q = st.deref q) :
    PathsKept st st2 :=
  fun q n hn => ⟨n, (h q).trans hn, rfl, rfl, rfl, rfl, rfl⟩

theorem pathsKept_data_width (st : Extractor) (r : PrimRef) (w : Int) (i : Nat) :
    PathsKept st
      { (st.update r (fun p => { p with data_width := w })) with
        m_ports := (st.update r (fun p => { p with data_width := w })).m_ports.modify
          (fun q => { q with chain_data_width := w }) i } :=
  pathsKept_trans
    (pathsKept_update st r (fun p => { p with data_width := w })
      (fun _ => ⟨rfl, rfl, rfl, rfl, rfl⟩))
    (pathsKept_of_deref_eq (fun q => deref_chain_data_width _ i w q))

theorem define_data_width_paths (st st2 : Extractor) (r : PrimRef) (primitive : PRIMITIVE)
    (h : define_data_width st r primitive = .ok st2) : PathsKept st st2 := by
  unfold define_data_width at h
  simp only [bind, Except.bind, pure, Except.pure, throw, throwThe,
    MonadExceptOf.throw] at h
  repeat' split at h
  all_goals first
    | exact Except.noConfusion h
    | (cases h; exact pathsKept_refl _)
    | (cases h; exact pathsKept_data_width _ _ _ _)

theorem get_primitive_parameters_paths (st st2 : Extractor) (cell : Cell) (r : PrimRef)
    (h : get_primitive_parameters st cell r = .ok st2) : PathsKept st st2 := by
  unfold get_primitive_parameters at h
  simp only [bind, Except.bind] at h
  split at h
  · exact Except.noConfusion h
  · split at h
    · exact Except.noConfusion h
    · exact pathsKept_trans
        (pathsKept_update st r
          (fun p => { p with parameters := copy_parameters cell.parameters p.parameters })
          (fun _ => ⟨rfl, rfl, rfl, rfl, rfl⟩))
        (define_data_width_paths _ _ _ _ h)

theorem attach_child_result (st st2 : Extractor) (parent : PrimRef) (parentNode : PRIMITIVE)
    (cell : Cell) (db : PRIMITIVE_DB) (connections : CppMap CppString)
    (hpr : st.deref parent = .ok parentNode)
    (h : attach_child st parent parentNode cell db connections = .ok st2) :
    ∃ p2 child, st2.deref parent = .ok p2 ∧
      p2.child_connections = parentNode.child_connections ∧
      CppMap.find p2.child cell.name = some (.child st.m_child_primitives.length) ∧
      st2.deref (.child st.m_child_primitives.length) = .ok child ∧
      child.name = cell.name ∧ child.db = db ∧ child.connections = connections := by
  unfold attach_child at h
  simp only [PRIMITIVE.construct, hpr, bind, Except.bind, pure, Except.pure] at h
  have hk := get_primitive_parameters_paths _ _ _ _ h
  have hparent_ne : parent ≠ .child st.m_child_primitives.length := by
    intro e
    rw [e] at hpr
    exact Nat.lt_irrefl _ (deref_child_lt st _ _ hpr)
  have hne2 : PrimRef.child st.m_child_primitives.length ≠ parent := fun e => hparent_ne e.symm
  obtain ⟨p2, hp2, _, _, _, c4, c5⟩ := hk parent
    { parentNode with
      child := CppMap.set parentNode.child cell.name (.child st.m_child_primitives.length) }
    (by
      rw [deref_update, if_pos rfl, deref_push, if_neg hparent_ne, hpr])
  obtain ⟨child, hch, d1, d2, d3, _, _⟩ := hk (.child st.m_child_primitives.length) _
    (by
      rw [deref_update, if_neg hne2, deref_push, if_pos rfl])
  refine ⟨p2, child, hp2, c5.symm, ?_, hch, d1.symm, d2.symm, d3.symm⟩
  rw [← c4]
  exact CppMap.find_set_self _ _ _

theorem checking_port_found_true (C : CppMap CppString) (connection : CppString) :
    ∀ ports : List CppString, checking_port_found C connection ports = .ok true →
      ∃ key ∈ ports, CppMap.find C key = some connection := by
  intro ports
  induction ports with
  | nil =>
    intro h
    simp only [checking_port_found] at h
    cases h
  | cons key rest ih =>
    intro h
    simp only [checking_port_found, bind, Except.bind, CppMap.at, pure, Except.pure] at h
    cases hf : CppMap.find C key with
    | none =>
      rw [hf] at h
      exact Except.noConfusion h
    | some net =>
      rw [hf] at h
      dsimp only at h
      split at h
      · rename_i hn
        exact ⟨key, List.mem_cons_self _ _, hn ▸ hf⟩
      · obtain ⟨k, hk, hv⟩ := ih h
        exact ⟨k, List.mem_cons_of_mem _ hk, hv⟩

theorem is_connected_cell_checked (cell : Cell) (db : PRIMITIVE_DB) (connection : CppString)
    (C : CppMap CppString) (h : is_connected_cell cell db connection = .ok C)
    (hne : C.length ≠ 0) :
    ∃ key ∈ db.get_checking_ports, CppMap.find C key = some connection := by
  unfold is_connected_cell at h
  simp only [bind, Except.bind, pure, Except.pure, throw, throwThe,
    MonadExceptOf.throw] at h
  repeat' split at h
  all_goals first
    | exact Except.noConfusion h
    | (cases h; exact absurd rfl hne)
    | (cases h
       rename_i hc hv
       exact checking_port_found_true _ _ _ (hv ▸ hc))

theorem trace_alias_pairs_result (module : Module) (parent : PrimRef) (cell : Cell)
    (src_is_right : Bool) (connection : CppString)
    (call : Extractor → CppString → Except Fault (Bool × Extractor))
    (hcall : ∀ s dest s2, call s dest = .ok (false, s2) → s2 = s) :
    ∀ (pairs : List (SigSpec × SigSpec)), (∀ it ∈ pairs, it ∈ module.connections) →
      ∀ (st : Extractor) (found : Bool) (st2 : Extractor),
      trace_alias_pairs call parent cell src_is_right connection pairs st = .ok (found, st2) →
      (found = false → st2 = st) ∧
      (found = true → ∃ dest s, AliasStep module src_is_right connection dest ∧
        call st dest = .ok (true, s) ∧
        st2 = s.update parent (fun p =>
          { p with
            child_connections := CppMap.set p.child_connections cell.name
              (dest :: (CppMap.find p.child_connections cell.name).getD []) })) := by
  intro pairs
  induction pairs with
  | nil =>
    intro _ st found st2 h
    simp only [trace_alias_pairs] at h
    cases h
    exact ⟨fun _ => rfl, fun x => Bool.noConfusion x⟩
  | cons it rest ih =>
    intro hsub st found st2 h
    have hit : it ∈ module.connections := hsub it (List.mem_cons_self _ _)
    have hrest : ∀ x ∈ rest, x ∈ module.connections :=
      fun x hx => hsub x (List.mem_cons_of_mem _ hx)
    simp only [trace_alias_pairs] at h
    split at h
    · exact Except.noConfusion h
    · split at h
      · exact ih hrest st found st2 h
      · rename_i dest hd
        split at h
        · exact Except.noConfusion h
        · rename_i f s hc
          split at h
          · rename_i hf
            cases h
            subst hf
            exact ⟨fun x => Bool.noConfusion x,
              fun _ => ⟨dest, s, alias_step_of_first module _ it hit connection dest hd, hc,
                rfl⟩⟩
          · rename_i hf
            have hf2 : f = false := by
              cases f with
              | false => rfl
              | true => exact absurd rfl hf
            subst hf2
            have e := hcall st dest s hc
            subst e
            exact ih hrest s found st2 h

theorem trace_next_primitive_rec_result (module : Module) (parent : PrimRef) (cell : Cell) :
    ∀ (fuel : Nat) (st : Extractor) (connection : CppString) (found : Bool)
      (st2 : Extractor),
      trace_next_primitive_rec module fuel st parent cell connection = .ok (found, st2) →
      (found = false → st2 = st) ∧
      (found = true → ∀ parentNode, st.deref parent = .ok parentNode →
        CppMap.find parentNode.child_connections cell.name = none →
        ∃ db path,
          is_supported_primitive st cell.type PRIMITIVE_REQ.NOT_PORT = .ok (some db) ∧
          TracedThrough module parent cell db connection path st2) := by
  intro fuel
  induction fuel with
  | zero =>
    intro st connection found st2 h
    simp only [trace_next_primitive_rec] at h
    exact Except.noConfusion h
  | succ fuel ih =>
    intro st connection found st2 h
    simp only [trace_next_primitive_rec] at h
    split at h
    · exact Except.noConfusion h
    · rename_i parentNode0 hpr
      split at h
      · exact Except.noConfusion h
      · split at h
        · exact Except.noConfusion h
        · exact Except.noConfusion h
        · rename_i db hdb
          split at h
          · exact Except.noConfusion h
          · rename_i connections hc
            split at h
            · rename_i hne
              split at h
              · exact Except.noConfusion h
              · rename_i s hs
                have e0 := Except.ok.inj h
                have e1 : found = true := (congrArg Prod.fst e0).symm
                have e2 : s = st2 := congrArg Prod.snd e0
                subst e2
                refine ⟨fun x => by rw [e1] at x; exact Bool.noConfusion x,
                  fun _ parentNode hp hfresh => ?_⟩
                have e : parentNode0 = parentNode := Except.ok.inj (hpr.symm.trans hp)
                subst e
                obtain ⟨p2, child, a1, a2, a3, a4, a5, a6, a7⟩ :=
                  attach_child_result st s parent parentNode0 cell db connections hpr hs
                obtain ⟨port, hport, hv⟩ := is_connected_cell_checked cell db connection _ hc hne
                refine ⟨db, [], hdb, ?_⟩
                unfold TracedThrough
                refine ⟨List.Chain.nil, p2, child, _, a1, a3, a4, a5, a6,
                  ⟨port, hport, ?_⟩, ?_⟩
                · rw [a7]
                  exact hv
                · rw [a2, hfresh]
                  rfl
            · obtain ⟨r1, r2⟩ := trace_alias_pairs_result module parent cell db.is_in_dir
                connection
                (fun st dest => trace_next_primitive_rec module fuel st parent cell dest)
                (fun s dest s2 hs => (ih s dest false s2 hs).1 rfl)
                module.connections (fun _ x => x) st found st2 h
              refine ⟨r1, fun hf parentNode hp hfresh => ?_⟩
              obtain ⟨dest, s, hstep, hcall, hst2⟩ := r2 hf
              obtain ⟨db2, path, hdb2, hchain, p2, child, j, b1, b2, b3, b4, b5, b6, b7⟩ :=
                (ih st dest true s hcall).2 rfl parentNode hp hfresh
              have e : db2 = db := Option.some.inj (Except.ok.inj (hdb2.symm.trans hdb))
              subst e
              have hpath : (CppMap.find p2.child_connections cell.name).getD [] = path := by
                rw [b7]
                split
                · rename_i hp0
                  exact hp0.symm
                · rfl
              refine ⟨db2, dest :: path, hdb2, ?_⟩
              unfold TracedThrough
              refine ⟨List.Chain.cons hstep hchain, ?_⟩
              rw [hst2]
              have hlast : ∀ port, CppMap.find child.connections port =
                  some ((dest :: path).getLast (by simp)) →
                  CppMap.find child.connections port =
                    some ((connection :: dest :: path).getLast (by simp)) := by
                intro port hv
                rw [hv]
                exact congrArg some
                  (@List.getLast_cons _ connection (dest :: path) (List.cons_ne_nil _ _)).symm
              obtain ⟨port, hport, hv⟩ := b6
              have hparent : (s.update parent (fun p =>
                  { p with
                    child_connections := CppMap.set p.child_connections cell.name
                      (dest :: (CppMap.find p.child_connections cell.name).getD []) })).deref
                    parent =
                  .ok { p2 with
                    child_connections := CppMap.set p2.child_connections cell.name
                      (dest :: (CppMap.find p2.child_connections cell.name).getD []) } := by
                rw [deref_update, if_pos rfl, b1]
              have hrec : CppMap.find (CppMap.set p2.child_connections cell.name
                  (dest :: (CppMap.find p2.child_connections cell.name).getD [])) cell.name =
                  (if dest :: path = [] then none else some (dest :: path)) := by
                rw [CppMap.find_set_self, hpath, if_neg (List.cons_ne_nil _ _)]
              by_cases hj : PrimRef.child j = parent
              · have hchild : (s.update parent (fun p =>
                    { p with
                      child_connections := CppMap.set p.child_connections cell.name
                        (dest :: (CppMap.find p.child_connections cell.name).getD []) })).deref
                      (.child j) =
                    .ok { child with
                      child_connections := CppMap.set child.child_connections cell.name
                        (dest :: (CppMap.find child.child_connections cell.name).getD []) } := by
                  rw [deref_update, if_pos hj, b3]
                exact ⟨_, _, j, hparent, b2, hchild, b4, b5, ⟨port, hport, hlast port hv⟩, hrec⟩
              · have hchild : (s.update parent (fun p =>
                    { p with
                      child_connections := CppMap.set p.child_connections cell.name
                        (dest :: (CppMap.find p.child_connections cell.name).getD []) })).deref
                      (.child j) = .ok child := by
                  rw [deref_update, if_neg hj, b3]
                exact ⟨_, _, j, hparent, b2, hchild, b4, b5, ⟨port, hport, hlast port hv⟩, hrec⟩

/-- C17: when the recursive `trace_next_primitive`, called for a cell on
the net `connection` in a state where the parent has no path recorded for the
cell, returns `true`, the cell is a child of the parent and there are nets
`path = [n1, ..., nk]` such that each of `(connection, n1)`, `(n1, n2)`, ... is
an alias pair of the module read in the direction of the descriptor of the
cell, the last of `connection, n1, ..., nk` is the net on a checking port of
the child, and the path recorded for the child is `[n1, ..., nk]` when
`k >= 1`, while none is recorded when `k = 0`. -/
theorem C17_recorded_path_is_the_alias_chain_in_traversal_order (module : Module)
    (fuel : Nat) (st st2 : Extractor) (parent : PrimRef) (parentNode : PRIMITIVE)
    (cell : Cell) (connection : CppString)
    (hp : st.deref parent = .ok parentNode)
    (hfresh : CppMap.find parentNode.child_connections cell.name = none)
    (h : trace_next_primitive_rec module fuel st parent cell connection = .ok (true, st2)) :
    ∃ (db : PRIMITIVE_DB) (path : List CppString) (p2 child : PRIMITIVE) (j : Nat),
      is_supported_primitive st cell.type PRIMITIVE_REQ.NOT_PORT = .ok (some db) ∧
      List.Chain (AliasStep module db.is_in_dir) connection path ∧
      st2.deref parent = .ok p2 ∧ CppMap.find p2.child cell.name = some (.child j) ∧
      st2.deref (.child j) = .ok child ∧ child.name = cell.name ∧
      (∃ port ∈ db.get_checking_ports,
        CppMap.find child.connections port =
          some ((connection :: path).getLast (by simp))) ∧
      (path ≠ [] → CppMap.find p2.child_connections cell.name = some path) ∧
      (path = [] → CppMap.find p2.child_connections cell.name = none) := by
  obtain ⟨db, path, hdb, hchain, p2, child, j, b1, b2, b3, b4, _, b6, b7⟩ :=
    (trace_next_primitive_rec_result module parent cell fuel st connection true st2 h).2 rfl
      parentNode hp hfresh
  refine ⟨db, path, p2, child, j, hdb, hchain, b1, b2, b3, b4, b6, fun hne => ?_, fun he => ?_⟩
  · rw [b7, if_neg hne]
  · rw [b7, if_pos he]

set_option maxRecDepth 100000 in
/-- Witness for C17: the delay of `example_two_hops` is traced from the net
`n1` through the alias pairs `n2 = n1` and `n3 = n2`, and the path recorded
for it is `n2`, `n3`. -/
theorem C17_recorded_path_is_the_alias_chain_in_traversal_order_witness :
    (match example_two_hops_traced.deref (.port 0) with
      | .ok p => CppMap.find p.child_connections "\\dly".toList
      | .error _ => none) = some ["\\n2".toList, "\\n3".toList] ∧
    ∃ (db : PRIMITIVE_DB) (path : List CppString) (p2 child : PRIMITIVE) (j : Nat),
      is_supported_primitive example_two_hops_roots example_two_hops_delay.type
        PRIMITIVE_REQ.NOT_PORT = .ok (some db) ∧
      List.Chain (AliasStep example_two_hops db.is_in_dir) "\\n1".toList path ∧
      example_two_hops_traced.deref (.port 0) = .ok p2 ∧
      CppMap.find p2.child example_two_hops_delay.name = some (.child j) ∧
      example_two_hops_traced.deref (.child j) = .ok child ∧
      child.name = example_two_hops_delay.name ∧
      (∃ port ∈ db.get_checking_ports,
        CppMap.find child.connections port =
          some (("\\n1".toList :: path).getLast (by simp))) ∧
      (path ≠ [] → CppMap.find p2.child_connections example_two_hops_delay.name = some path) ∧
      (path = [] → CppMap.find p2.child_connections example_two_hops_delay.name = none) :=
  ⟨by decide,
    C17_recorded_path_is_the_alias_chain_in_traversal_order example_two_hops 10
      example_two_hops_roots example_two_hops_traced (.port 0)
      (input_buffer_root (cell_of "\\I_BUF" "\\ibuf" [("\\I", "\\din"), ("\\O", "\\n1")])
        (input_wire "\\din")).base
      example_two_hops_delay "\\n1".toList (by decide) (by decide) (by decide)⟩

/-! ### Pass-through wires of a traced child -/

theorem construct_wire (st : Extractor) (name : CppString) (linked_objects : List CppString)
    (hl : linked_objects ≠ []) :
    ∃ inst, INSTANCE.construct st "WIRE".toList name linked_objects none [] [] [] = .ok inst ∧
      inst.module = "WIRE".toList ∧ inst.name = get_original_name name ∧
      inst.primitive = none ∧ inst.connections = [] := by
  have hlen : ¬ linked_objects.length = 0 := fun h => hl (List.length_eq_zero.mp h)
  unfold INSTANCE.construct
  simp only [hlen, if_false, instance_gearbox_clocks, bind, Except.bind, pure, Except.pure]
  exact ⟨_, rfl, (by decide : get_original_name "WIRE".toList = "WIRE".toList), rfl, rfl,
    rfl⟩

theorem wire_connections (inst : INSTANCE) (a b : CppString) (h : inst.connections = []) :
    (inst.add_connections [("I".toList, a), ("O".toList, b)]).connections =
      [("I".toList, get_original_name a), ("O".toList, get_original_name b)] := by
  have hI : get_original_name "I".toList = "I".toList := by decide
  have hO : get_original_name "O".toList = "O".toList := by decide
  have hlt : strLt "O".toList "I".toList = false := by decide
  have hne : ¬ "I".toList = "O".toList := by decide
  simp only [INSTANCE.add_connections, h, List.foldl, hI, hO, CppMap.set, hlt, hne,
    Bool.false_eq_true, if_false]

/-- The name that `gen_wire` gives to a wire of the child `child`, with the
counter `index`. -/
theorem wire_name_original (child linked_object : CppString) (index : Nat) :
    get_original_name ("AUTO_".toList ++ c_str (get_original_name child) ++ "_".toList ++
        c_str linked_object ++ "_#".toList ++ fmt_d (int_of_uint32 index)) =
      "AUTO_".toList ++ c_str (get_original_name child) ++ "_".toList ++
        c_str linked_object ++ "_#".toList ++ fmt_d (int_of_uint32 index) := rfl

theorem gen_wire_loop_records (linked_object : CppString) (linked_objects : List CppString)
    (child : CppString) (index : Nat) (hl : linked_objects ≠ []) :
    ∀ (wires : List CppString) (tc : CppString) (st : Extractor),
      ∃ block : List INSTANCE,
        gen_wire_loop linked_object linked_objects child index wires tc st =
          .ok { st with m_instances := st.m_instances ++ block } ∧
        block.length = wires.length ∧
        (∀ w ∈ block, w.name =
          "AUTO_".toList ++ c_str (get_original_name child) ++ "_".toList ++
            c_str linked_object ++ "_#".toList ++ fmt_d (int_of_uint32 index)) ∧
        ∀ (j : Nat) (w : INSTANCE), block[j]? = some w →
          w.module = "WIRE".toList ∧ w.primitive = none ∧
          ∃ a b, (tc :: wires)[j]? = some a ∧ wires[j]? = some b ∧
            w.connections =
              [("I".toList, get_original_name a), ("O".toList, get_original_name b)] := by
  intro wires
  induction wires with
  | nil =>
    intro tc st
    refine ⟨[], ?_, rfl, fun w hw => absurd hw (List.not_mem_nil w), fun j w hw => ?_⟩
    · simp only [gen_wire_loop, List.append_nil]
    · simp at hw
  | cons wire rest ih =>
    intro tc st
    obtain ⟨inst, hi, h1, h2, h3, h4⟩ := construct_wire st
      ("AUTO_".toList ++ c_str (get_original_name child) ++ "_".toList ++
        c_str linked_object ++ "_#".toList ++ fmt_d (int_of_uint32 index))
      linked_objects hl
    obtain ⟨block, hb, hlen, hname, hrec⟩ := ih wire
      { st with m_instances := st.m_instances ++
          [inst.add_connections [("I".toList, tc), ("O".toList, wire)]] }
    refine ⟨inst.add_connections [("I".toList, tc), ("O".toList, wire)] :: block, ?_, ?_,
      ?_, ?_⟩
    · simp only [gen_wire_loop, bind, Except.bind, hi]
      rw [hb]
      simp only [List.append_assoc, List.singleton_append]
    · simp only [List.length_cons, hlen]
    · intro w hw
      rcases List.mem_cons.mp hw with e | hw2
      · rw [e]
        exact h2.trans (wire_name_original child linked_object index)
      · exact hname w hw2
    · intro j w hw
      cases j with
      | zero =>
        have e : inst.add_connections [("I".toList, tc), ("O".toList, wire)] = w := by
          simpa using hw
        subst e
        exact ⟨h1, h3, tc, wire, List.getElem?_cons_zero, List.getElem?_cons_zero,
          wire_connections inst tc wire h4⟩
      | succ j =>
        have hw2 : block[j]? = some w := by simpa using hw
        obtain ⟨g1, g2, a, b, ga, gb, gc⟩ := hrec j w hw2
        exact ⟨g1, g2, a, b, by simpa using ga, by simpa using gb, gc⟩

theorem construct_primitive (st : Extractor) (m n : CppString) (ls : List CppString)
    (p : Option PrimRef) (pre : CppString) (post : List CppString)
    (gcs : CppMap (List PrimRef)) (inst : INSTANCE)
    (h : INSTANCE.construct st m n ls p pre post gcs = .ok inst) : inst.primitive = p := by
  unfold INSTANCE.construct at h
  simp only [bind, Except.bind, pure, Except.pure, throw, throwThe,
    MonadExceptOf.throw] at h
  repeat' split at h
  all_goals first
    | exact Except.noConfusion h
    | (have e := Except.ok.inj h
       subst e
       rfl)

theorem gen_instance_record (st st2 : Extractor) (linked_objects : List CppString)
    (r : PrimRef) (pre : CppString) (h : gen_instance st linked_objects r pre = .ok st2) :
    ∃ inst, st2.m_instances = st.m_instances ++ [inst] ∧ inst.primitive = some r := by
  unfold gen_instance at h
  simp only [bind, Except.bind, pure, Except.pure, throw, throwThe,
    MonadExceptOf.throw] at h
  repeat' split at h
  all_goals first
    | exact Except.noConfusion h
    | (have e := Except.ok.inj h
       subst e
       rw [update_m_instances]
       have k := construct_primitive _ _ _ _ _ _ _ _ _ ‹INSTANCE.construct _ _ _ _ _ _ _ _ = Except.ok _›
       exact ⟨_, rfl, k⟩)

/-- C18: for a child of a node with the recorded path `[n1, ..., nk]`,
`gen_wire` returns and appends exactly `k` records to the instances; record
`j` is a `WIRE` without node whose connection `I` is `n(j-1)` and whose
connection `O` is `nj`, both without leading backslash, where `n0` is the net
on the out-trace port of the parent; and in the child loop of the recursive
`gen_instances` the instance of the child follows right after these
records. -/
theorem C18_gen_wire_emits_one_wire_per_path_net_right_before_the_child
    (st : Extractor) (linked_object : CppString) (linked_objects : List CppString)
    (r c : PrimRef) (primitive : PRIMITIVE) (child : CppString) (path : List CppString)
    (n0 : CppString)
    (hl : linked_objects ≠ [])
    (hp : st.deref r = .ok primitive)
    (hc : CppMap.contains primitive.child child = true)
    (hpath : CppMap.find primitive.child_connections child = some path)
    (hn0 : primitive.get_outtrace_connection = .ok n0) :
    ∃ wires : List INSTANCE,
      gen_wire st linked_object linked_objects r child =
        .ok { st with m_instances := st.m_instances ++ wires } ∧
      wires.length = path.length ∧
      (∀ (j : Nat) (w : INSTANCE), wires[j]? = some w →
        w.module = "WIRE".toList ∧ w.primitive = none ∧
        ∃ a b, (n0 :: path)[j]? = some a ∧ path[j]? = some b ∧
          w.connections =
            [("I".toList, get_original_name a), ("O".toList, get_original_name b)]) ∧
      (∀ (fuel : Nat) (primitive_type : CppString) (st2 : Extractor),
        gen_child
          (fun s q => gen_instances_rec linked_object linked_objects fuel s q primitive_type)
          linked_object linked_objects r primitive_type st (child, c) = .ok st2 →
        ∃ inst rest, inst.primitive = some c ∧
          st2.m_instances = st.m_instances ++ wires ++ inst :: rest) := by
  obtain ⟨wires, hw, hlen, _, hrec⟩ :=
    gen_wire_loop_records linked_object linked_objects child 0 hl path n0 st
  have hgw : gen_wire st linked_object linked_objects r child =
      .ok { st with m_instances := st.m_instances ++ wires } := by
    unfold gen_wire
    simp only [hp, bind, Except.bind, hc, Bool.not_true, Bool.false_eq_true, if_false, hpath,
      hn0]
    exact hw
  refine ⟨wires, hgw, hlen, hrec, fun fuel primitive_type st2 h => ?_⟩
  unfold gen_child at h
  rw [hgw] at h
  dsimp only at h
  split at h
  · exact Except.noConfusion h
  · rename_i s2 h2
    obtain ⟨inst, e2, hi⟩ := gen_instance_record _ _ _ _ _ h2
    obtain ⟨rest, e3⟩ := gen_instances_rec_appends _ _ _ _ _ _ _ h
    exact ⟨inst, rest, hi, by rw [e3, e2]; simp⟩

set_option maxRecDepth 100000 in
/-- Witness for C18: for the delay of `example_two_hops`, whose recorded
path is `n2`, `n3`, `gen_wire` appends two wires, from `n1` to `n2` and from
`n2` to `n3`. -/
theorem C18_gen_wire_emits_one_wire_per_path_net_right_before_the_child_witness :
    (match gen_wire example_two_hops_ready "din".toList ["din".toList] (.port 0)
        "\\dly".toList with
      | .ok s => s.m_instances.map (fun w => (w.module, w.connections))
      | .error _ => []) =
      [("WIRE".toList, [("I".toList, "n1".toList), ("O".toList, "n2".toList)]),
       ("WIRE".toList, [("I".toList, "n2".toList), ("O".toList, "n3".toList)])] ∧
    ∃ wires : List INSTANCE,
      gen_wire example_two_hops_ready "din".toList ["din".toList] (.port 0) "\\dly".toList =
        .ok { example_two_hops_ready with
              m_instances := example_two_hops_ready.m_instances ++ wires } ∧
      wires.length = ["\\n2".toList, "\\n3".toList].length ∧
      (∀ (j : Nat) (w : INSTANCE), wires[j]? = some w →
        w.module = "WIRE".toList ∧ w.primitive = none ∧
        ∃ a b, ("\\n1".toList :: ["\\n2".toList, "\\n3".toList])[j]? = some a ∧
          ["\\n2".toList, "\\n3".toList][j]? = some b ∧
          w.connections =
            [("I".toList, get_original_name a), ("O".toList, get_original_name b)]) ∧
      (∀ (fuel : Nat) (primitive_type : CppString) (st2 : Extractor),
        gen_child
          (fun s q => gen_instances_rec "din".toList ["din".toList] fuel s q primitive_type)
          "din".toList ["din".toList] (.port 0) primitive_type example_two_hops_ready
          ("\\dly".toList, .child 0) = .ok st2 →
        ∃ inst rest, inst.primitive = some (.child 0) ∧
          st2.m_instances = example_two_hops_ready.m_instances ++ wires ++ inst :: rest) :=
  ⟨by decide,
    C18_gen_wire_emits_one_wire_per_path_net_right_before_the_child example_two_hops_ready
      "din".toList ["din".toList] (.port 0) (.child 0) example_two_hops_parent "\\dly".toList
      ["\\n2".toList, "\\n3".toList] "\\n1".toList (by decide) (by decide) (by decide)
      (by decide) (by decide)⟩

set_option maxRecDepth 100000 in
/-- C19: the counter in the names of the wires is never advanced. Every
record that the wire loop of `gen_wire` appends for one child carries the same
name, the one with the counter `0`; in the run of `extract` on
`example_two_hops`, whose delay is reached through two alias pairs, instance
generation yields the buffer, two wires that are both named
`AUTO_dly_din_#0`, and the delay. -/
theorem C19_wires_of_one_child_all_carry_the_name_with_counter_zero :
    (∀ (linked_object first_object : CppString) (linked_objects : List CppString)
        (child : CppString) (wires : List CppString) (trace_connection : CppString)
        (st : Extractor),
      ∃ block : List INSTANCE,
        gen_wire_loop linked_object (first_object :: linked_objects) child 0 wires
            trace_connection st =
          .ok { st with m_instances := st.m_instances ++ block } ∧
        block.map (fun w => w.name) =
          List.replicate wires.length
            ("AUTO_".toList ++ c_str (get_original_name child) ++ "_".toList ++
              c_str linked_object ++ "_#0".toList)) ∧
    gen_instances 10 example_two_hops_ready = .ok example_two_hops_generated ∧
    example_two_hops_generated.m_instances.map (fun w => (w.module, w.name)) =
      [("I_BUF".toList, "ibuf".toList), ("WIRE".toList, "AUTO_dly_din_#0".toList),
       ("WIRE".toList, "AUTO_dly_din_#0".toList), ("I_DELAY".toList, "dly".toList)] := by
  refine ⟨fun linked_object first_object linked_objects child wires tc st => ?_,
    by decide, by decide⟩
  obtain ⟨block, hb, hlen, hname, _⟩ :=
    gen_wire_loop_records linked_object (first_object :: linked_objects) child 0
      (List.cons_ne_nil _ _) wires tc st
  refine ⟨block, hb, ?_⟩
  rw [← hlen]
  refine List.eq_replicate_iff.mpr ⟨List.length_map _ _, fun b hb2 => ?_⟩
  obtain ⟨w, hw, e⟩ := List.mem_map.mp hb2
  have h0 : fmt_d (int_of_uint32 0) = "0".toList := by decide
  rw [← e, hname w hw, h0, List.append_assoc _ "_#".toList "0".toList]
  rfl

/-! ### Escaping in the JSON report -/

theorem write_json_data_cons (c : Char) (s : CppString) :
    write_json_data (c :: s) =
      (if c = '\\' ∨ c = '"' then ['\\', c] else [c]) ++ write_json_data s := by
  unfold write_json_data
  rw [List.flatMap_cons]
  by_cases h1 : c = '\\'
  · simp [h1]
  · by_cases h2 : c = '"'
    · simp [h2]
    · simp [h1, h2]

/-- C21: `write_json_data` copies the characters of the text in order and
puts one backslash in front of every backslash and every double quote; the
output is as long as the text plus the number of its backslashes and double
quotes, and dropping the escaping backslashes gives the text back. -/
theorem C21_write_json_data_escapes_backslash_and_quote (s : CppString) :
    write_json_data s =
        s.flatMap (fun c => if c = '\\' ∨ c = '"' then ['\\', c] else [c]) ∧
      (write_json_data s).length =
        s.length + s.countP (fun c => decide (c = '\\') || decide (c = '"')) ∧
      spec_unescape false (write_json_data s) = s := by
  induction s with
  | nil => exact ⟨rfl, rfl, rfl⟩
  | cons c s ih =>
    obtain ⟨ih1, ih2, ih3⟩ := ih
    rw [write_json_data_cons, List.flatMap_cons, ← ih1]
    by_cases h : c = '\\' ∨ c = '"'
    · have hd : (decide (c = '\\') || decide (c = '"')) = true := by
        rcases h with h | h <;> simp [h]
      refine ⟨by rw [if_pos h], ?_, ?_⟩
      · rw [if_pos h, List.countP_cons]
        simp only [hd, if_true, List.cons_append, List.nil_append, List.length_cons, ih2]
        omega
      · rw [if_pos h]
        simp only [List.cons_append, List.nil_append, spec_unescape, Bool.false_eq_true,
          if_false, if_true, List.append_eq, ih3]
    · have hd : ¬ (decide (c = '\\') || decide (c = '"')) = true := by
        intro x
        simp only [Bool.or_eq_true, decide_eq_true_eq] at x
        exact h x
      have h1 : ¬ c = '\\' := fun x => h (Or.inl x)
      refine ⟨by rw [if_neg h], ?_, ?_⟩
      · rw [if_neg h, List.countP_cons]
        simp only [hd, Bool.false_eq_true, if_false, List.cons_append, List.nil_append, List.length_cons, ih2]
        omega
      · rw [if_neg h]
        simp only [List.cons_append, List.nil_append, spec_unescape, Bool.false_eq_true,
          if_false, h1, List.append_eq, ih3]

/-! ### The remapped location -/

/-- A location that `parse_location` has found GOOD has an empty failure
reason, a type `P` or `R` and a bank digit. -/
theorem good_location_fields (location : CppString) (parsed p : PARSED_LOCATION)
    (h : parse_location location parsed = .ok p) (hg : p.status = PARSED_LOCATION_GOOD) :
    p.failure_reason.length = 0 ∧ (p.type = "P".toList ∨ p.type = "R".toList) ∧
      (∃ b : Char, p.bank = [b] ∧ 49 ≤ b.toNat ∧ b.toNat ≤ 54) ∧
      0 ≤ p.index ∧ p.index < 40 := by
  have he := parse_location_entry_of_ok location parsed p h
  rcases parse_location_cases location parsed p h with h1 | h1 | h1
  · rw [h1.2.1] at hg
    exact absurd hg (by decide)
  · rw [h1.2.2.1] at hg
    exact absurd hg (by decide)
  · obtain ⟨t, b, cc, idx, pair, pol, hgr, h2⟩ := h1
    rcases h2 with ⟨hi, _, hr⟩ | ⟨_, hb, _⟩
    · subst hr
      refine ⟨he.2.2.2.2.2, ?_, ⟨b, rfl, hgr.2.2.1⟩, ?_, ?_⟩
      · rcases hgr.2.1 with e | e
        · exact Or.inl (by subst e; rfl)
        · exact Or.inr (by subst e; rfl)
      · exact Int.natCast_nonneg _
      · show ((decimalValue idx : Nat) : Int) < 40
        exact_mod_cast hi
    · rw [hb] at hg
      exact absurd hg (by decide)

theorem c_str_singleton (c : Char) (h : c.toNat ≠ 0) : c_str [c] = [c] := by
  simp [c_str, h]

/-- C22: for a location that `parse_location` has found GOOD,
`get_assigned_location` with the rule `half-first` returns `H<type>_<bank>_0_0P`
when the index is below 20 and `H<type>_<bank>_20_10P` otherwise, with the type
and the bank of the location, and notes the remapping in the entry; with the
empty rule it returns the location text and leaves the entry as it is. -/
theorem C22_get_assigned_location_half_first_anchors (location : CppString)
    (parsed p : PARSED_LOCATION) (entry : SDC_ENTRY)
    (h : parse_location location parsed = .ok p) (hg : p.status = PARSED_LOCATION_GOOD) :
    (∃ e2, get_assigned_location entry "half-first".toList p =
        .ok (e2, "H".toList ++ p.type ++ "_".toList ++ p.bank ++
          (if p.index < 20 then "_0_0P".toList else "_20_10P".toList)) ∧
      e2.assignments = entry.assignments ∧
      e2.comments = entry.comments ++
        ["# Remap location from ".toList ++ c_str p.location ++ " to ".toList ++
          ("H".toList ++ p.type ++ "_".toList ++ p.bank ++
            (if p.index < 20 then "_0_0P".toList else "_20_10P".toList))]) ∧
    get_assigned_location entry [] p = .ok (entry, p.location) := by
  obtain ⟨hf, ht, ⟨b, hb, hb1, hb2⟩, _, _⟩ := good_location_fields location parsed p h hg
  have hct : c_str p.type = p.type := by
    rcases ht with e | e <;> rw [e] <;> decide
  have hcb : c_str p.bank = p.bank := by
    rw [hb]
    exact c_str_singleton b (by omega)
  have hr1 : ("half-first".toList = ([] : CppString) ∨
      "half-first".toList = "half-first".toList) := Or.inr rfl
  have hall : ∀ tail : CppString, (∀ c ∈ tail, c.toNat ≠ 0) →
      c_str ("H".toList ++ p.type ++ "_".toList ++ p.bank ++ tail) =
        "H".toList ++ p.type ++ "_".toList ++ p.bank ++ tail := by
    intro tail htail
    unfold c_str
    rw [List.takeWhile_eq_self_iff]
    intro c hc
    simp only [List.mem_append] at hc
    have hne : c.toNat ≠ 0 := by
      rcases hc with (((hc | hc) | hc) | hc) | hc
      · have : c = 'H' := by simpa using hc
        rw [this]; decide
      · rcases ht with e | e <;> rw [e] at hc
        · have : c = 'P' := by simpa using hc
          rw [this]; decide
        · have : c = 'R' := by simpa using hc
          rw [this]; decide
      · have : c = '_' := by simpa using hc
        rw [this]; decide
      · rw [hb] at hc
        have : c = b := by simpa using hc
        rw [this]; omega
      · exact htail c hc
    simpa using hne
  constructor
  · unfold get_assigned_location
    rw [if_neg (not_not.mpr hr1), if_neg (not_not.mpr hg), if_neg (not_not.mpr hf),
      if_pos rfl]
    by_cases hi : p.index < 20
    · simp only [if_pos hi, hct, hcb]
      exact ⟨_, rfl, rfl, by rw [hall _ (by decide)]⟩
    · simp only [if_neg hi, hct, hcb]
      exact ⟨_, rfl, rfl, by rw [hall _ (by decide)]⟩
  · unfold get_assigned_location
    rw [if_neg (not_not.mpr (Or.inl rfl)), if_neg (not_not.mpr hg),
      if_neg (not_not.mpr hf), if_neg (by decide)]

/-- Witness for C22: the location `HP_3_24_12P`, whose index is 24, is
remapped to `HP_3_20_10P`. -/
theorem C22_get_assigned_location_half_first_anchors_witness :
    (get_assigned_location {} "half-first".toList
        { location := "HP_3_24_12P".toList, type := "P".toList, bank := "3".toList,
          index := 24, status := PARSED_LOCATION_GOOD }).map (fun r => r.2) =
      .ok "HP_3_20_10P".toList ∧
    (∃ e2, get_assigned_location {} "half-first".toList
        { location := "HP_3_24_12P".toList, type := "P".toList, bank := "3".toList,
          index := 24, status := PARSED_LOCATION_GOOD } =
        .ok (e2, "H".toList ++ "P".toList ++ "_".toList ++ "3".toList ++
          (if (24 : Int) < 20 then "_0_0P".toList else "_20_10P".toList)) ∧
      e2.assignments = ({} : SDC_ENTRY).assignments ∧
      e2.comments = ({} : SDC_ENTRY).comments ++
        ["# Remap location from ".toList ++ c_str "HP_3_24_12P".toList ++ " to ".toList ++
          ("H".toList ++ "P".toList ++ "_".toList ++ "3".toList ++
            (if (24 : Int) < 20 then "_0_0P".toList else "_20_10P".toList))]) ∧
    get_assigned_location {} []
        { location := "HP_3_24_12P".toList, type := "P".toList, bank := "3".toList,
          index := 24, status := PARSED_LOCATION_GOOD } = .ok ({}, "HP_3_24_12P".toList) :=
  ⟨by decide,
    C22_get_assigned_location_half_first_anchors "HP_3_24_12P".toList
      { location := "HP_3_24_12P".toList }
      { location := "HP_3_24_12P".toList, type := "P".toList, bank := "3".toList,
        index := 24, status := PARSED_LOCATION_GOOD } {} (by decide) (by decide)⟩

/-! ### The port records of a wire -/

theorem range_flatMap_one {α : Type} (f : Nat → α) (n : Nat) :
    ((List.range n).flatMap (fun i => [f i])).length = n ∧
      ∀ i, i < n → ((List.range n).flatMap (fun i => [f i]))[i]? = some (f i) := by
  induction n with
  | zero => exact ⟨rfl, fun i hi => absurd hi (Nat.not_lt_zero i)⟩
  | succ n ih =>
    obtain ⟨hl, hg⟩ := ih
    rw [List.range_succ, List.flatMap_append]
    refine ⟨by simp [hl], fun i hi => ?_⟩
    by_cases h : i < n
    · rw [List.getElem?_append_left (by rw [hl]; exact h)]
      exact hg i h
    · have e : i = n := by omega
      subst e
      rw [List.getElem?_append_right (by rw [hl]), hl]
      simp

theorem range_flatMap_two {α : Type} (f g : Nat → α) (n : Nat) :
    ((List.range n).flatMap (fun i => [f i, g i])).length = 2 * n ∧
      ∀ i, i < n →
        ((List.range n).flatMap (fun i => [f i, g i]))[2 * i]? = some (f i) ∧
        ((List.range n).flatMap (fun i => [f i, g i]))[2 * i + 1]? = some (g i) := by
  induction n with
  | zero => exact ⟨rfl, fun i hi => absurd hi (Nat.not_lt_zero i)⟩
  | succ n ih =>
    obtain ⟨hl, hg⟩ := ih
    rw [List.range_succ, List.flatMap_append]
    refine ⟨by simp [hl]; omega, fun i hi => ?_⟩
    by_cases h : i < n
    · rw [List.getElem?_append_left (by rw [hl]; omega),
        List.getElem?_append_left (by rw [hl]; omega)]
      exact hg i h
    · have e : i = n := by omega
      subst e
      rw [List.getElem?_append_right (by rw [hl]),
        List.getElem?_append_right (by rw [hl]; omega), hl]
      have e1 : 2 * i - 2 * i = 0 := by omega
      have e2 : 2 * i + 1 - 2 * i = 1 := by omega
      rw [e1, e2]
      simp

theorem c_str_of_no_nul (s : CppString) (h : ∀ c ∈ s, c.toNat ≠ 0) : c_str s = s := by
  unfold c_str
  rw [List.takeWhile_eq_self_iff]
  intro c hc
  simpa using h c hc

theorem fmt_d_natCast (i : Nat) : fmt_d (i : Int) = Nat.toDigits 10 i := by
  unfold fmt_d
  rw [if_neg (by omega)]
  rfl

theorem int_add_exact (a b : Int) (hlo : -2 ^ 31 ≤ a + b) (hhi : a + b < 2 ^ 31) :
    int_add a b = a + b := by
  unfold int_add
  rw [Int.emod_eq_of_lt (by omega) (by omega)]
  omega

theorem flatMap_congr_range {α : Type} (f g : Nat → List α) (n : Nat)
    (h : ∀ i, i < n → f i = g i) :
    (List.range n).flatMap f = (List.range n).flatMap g := by
  induction n with
  | zero => rfl
  | succ n ih =>
    rw [List.range_succ, List.flatMap_append, List.flatMap_append,
      ih (fun i hi => h i (Nat.lt_succ_of_lt hi))]
    simp [h n (Nat.lt_succ_self n)]

theorem wire_port_infos_one (wire : Wire) (hname : ∀ c ∈ wire.name, c.toNat ≠ 0)
    (hlo : -2 ^ 31 ≤ wire.start_offset) (hhi : wire.start_offset + wire.width ≤ 2 ^ 31)
    (dir : IO_DIR) (hd : dir = IO_DIR.IN ∨ dir = IO_DIR.OUT)
    (h : (if wire.port_input ∧ ¬ wire.port_output then IO_DIR.IN
      else if ¬ wire.port_input ∧ wire.port_output then IO_DIR.OUT
      else if wire.port_input ∧ wire.port_output then IO_DIR.INOUT
      else IO_DIR.UNKNOWN) = dir) :
    wire_port_infos wire =
      (List.range wire.width.toNat).flatMap (fun i => [spec_port_record wire dir false i]) := by
  have hne : dir ≠ IO_DIR.INOUT := by
    rcases hd with e | e <;> rw [e] <;> decide
  have hany : dir = IO_DIR.IN ∨ dir = IO_DIR.OUT ∨ dir = IO_DIR.INOUT := by
    rcases hd with e | e
    · exact Or.inl e
    · exact Or.inr (Or.inl e)
  unfold wire_port_infos
  simp only [h, if_pos hany, if_neg hne, decide_eq_false hne]
  apply flatMap_congr_range
  intro i hi
  have hi2 : (i : Int) < wire.width := by omega
  simp only [spec_port_record, c_str_of_no_nul wire.name hname, fmt_d_natCast,
    int_add_exact wire.start_offset i (by omega) (by omega)]

theorem wire_port_infos_two (wire : Wire) (hname : ∀ c ∈ wire.name, c.toNat ≠ 0)
    (hlo : -2 ^ 31 ≤ wire.start_offset) (hhi : wire.start_offset + wire.width ≤ 2 ^ 31)
    (hi : wire.port_input = true) (ho : wire.port_output = true) :
    wire_port_infos wire =
      (List.range wire.width.toNat).flatMap (fun i =>
        [spec_port_record wire IO_DIR.IN true i, spec_port_record wire IO_DIR.OUT true i]) := by
  unfold wire_port_infos
  simp only [hi, ho, not_true_eq_false, and_false, false_and, if_false, and_self, if_true,
    or_true, decide_True]
  apply flatMap_congr_range
  intro i hlt
  have hi2 : (i : Int) < wire.width := by omega
  simp only [spec_port_record, c_str_of_no_nul wire.name hname, fmt_d_natCast,
    int_add_exact wire.start_offset i (by omega) (by omega)]

/-- C29: `get_ports` hands to `trace_and_create_port` the port records of the
wires in wire order. A wire that is only input or only output and `w` bits
wide gives `w` records, the one of bit `i` with the indexed name `name[i]` and
the real name `name[start_offset + i]` when `w > 1` and with the name of the
wire for both when `w = 1`; a wire that is both gives `2w` records, for each
bit an input-side record followed by an output-side record, both flagged
bidirectional; a wire that is neither gives none. The wire is one the program
can hold and number: its width and start offset are `int`s (`hint`) and the
bit numbers `start_offset + i` stay in the range of `int` (`hhi`), the sum
`wire->start_offset + index` being an `int` sum printed with `%d`. -/
theorem C29_get_ports_expands_every_port_wire_bit_by_bit (wire : Wire)
    (hname : ∀ c ∈ wire.name, c.toNat ≠ 0) (hint : wire.is_int)
    (hhi : wire.start_offset + wire.width ≤ 2 ^ 31) :
    (wire.port_input = true → wire.port_output = false →
      (wire_port_infos wire).length = wire.width.toNat ∧
      ∀ i, i < wire.width.toNat →
        (wire_port_infos wire)[i]? = some (spec_port_record wire IO_DIR.IN false i)) ∧
    (wire.port_input = false → wire.port_output = true →
      (wire_port_infos wire).length = wire.width.toNat ∧
      ∀ i, i < wire.width.toNat →
        (wire_port_infos wire)[i]? = some (spec_port_record wire IO_DIR.OUT false i)) ∧
    (wire.port_input = true → wire.port_output = true →
      (wire_port_infos wire).length = 2 * wire.width.toNat ∧
      ∀ i, i < wire.width.toNat →
        (wire_port_infos wire)[2 * i]? = some (spec_port_record wire IO_DIR.IN true i) ∧
        (wire_port_infos wire)[2 * i + 1]? =
          some (spec_port_record wire IO_DIR.OUT true i)) ∧
    (wire.port_input = false → wire.port_output = false → wire_port_infos wire = []) ∧
    ∀ (module : Module) (fuel : Nat) (st : Extractor),
      st.m_ports.length = 0 → st.m_status = true →
      get_ports module fuel st =
        if (module.wires.flatMap wire_port_infos).length ≠ 0 then
          (trace_and_create_port module fuel (module.wires.flatMap wire_port_infos) st).map
            (fun s => (s.m_status, s))
        else .ok (false, { st with m_status := false }) := by
  refine ⟨fun hi ho => ?_, fun hi ho => ?_, fun hi ho => ?_, fun hi ho => ?_,
    fun module fuel st hp hs => ?_⟩
  · rw [wire_port_infos_one wire hname hint.2.1 hhi IO_DIR.IN (Or.inl rfl)
      (by simp [hi, ho])]
    exact range_flatMap_one _ _
  · rw [wire_port_infos_one wire hname hint.2.1 hhi IO_DIR.OUT (Or.inr rfl)
      (by simp [hi, ho])]
    exact range_flatMap_one _ _
  · rw [wire_port_infos_two wire hname hint.2.1 hhi hi ho]
    exact range_flatMap_two _ _ _
  · unfold wire_port_infos
    simp [hi, ho]
  · unfold get_ports
    simp only [hp, ne_eq, not_true_eq_false, if_false, hs, Bool.not_true, Bool.false_eq_true,
      bind, Except.bind, pure, Except.pure]
    split
    · cases trace_and_create_port module fuel
        (module.wires.flatMap wire_port_infos) st <;> rfl
    · rfl

set_option maxRecDepth 100000 in
/-- Witness for C29: the inout bus `io` of three bits with start offset 4
gives six records; the records of bit 1 are named `io[1]`, with the real name
`io[5]`. -/
theorem C29_get_ports_expands_every_port_wire_bit_by_bit_witness :
    (wire_port_infos example_inout_bus).map (fun r => (r.dir, r.fullname, r.realname)) =
      [(IO_DIR.IN, "\\io[0]".toList, "\\io[4]".toList),
       (IO_DIR.OUT, "\\io[0]".toList, "\\io[4]".toList),
       (IO_DIR.IN, "\\io[1]".toList, "\\io[5]".toList),
       (IO_DIR.OUT, "\\io[1]".toList, "\\io[5]".toList),
       (IO_DIR.IN, "\\io[2]".toList, "\\io[6]".toList),
       (IO_DIR.OUT, "\\io[2]".toList, "\\io[6]".toList)] ∧
    (wire_port_infos example_inout_bus).length = 2 * example_inout_bus.width.toNat ∧
    ∀ i, i < example_inout_bus.width.toNat →
      (wire_port_infos example_inout_bus)[2 * i]? =
        some (spec_port_record example_inout_bus IO_DIR.IN true i) ∧
      (wire_port_infos example_inout_bus)[2 * i + 1]? =
        some (spec_port_record example_inout_bus IO_DIR.OUT true i) :=
  ⟨by decide,
    (C29_get_ports_expands_every_port_wire_bit_by_bit example_inout_bus
      (by decide) (by decide) (by decide)).2.2.1 rfl rfl⟩

/-! ### Following the wires of the wrapped netlist -/

theorem wireStep_mono {l1 l2 : List WrappedInstance} (h : ∀ w ∈ l1, w ∈ l2)
    {a b : CppString} (s : WireStep l1 a b) : WireStep l2 a b := by
  obtain ⟨w, hw, r⟩ := s
  exact ⟨w, h w hw, r⟩

theorem wireReach_mono {l1 l2 : List WrappedInstance} (h : ∀ w ∈ l1, w ∈ l2)
    {a b : CppString} (r : Relation.ReflTransGen (WireStep l1) a b) :
    Relation.ReflTransGen (WireStep l2) a b :=
  Relation.ReflTransGen.mono (fun _ _ s => wireStep_mono h s) r

theorem chainOrdered_tail {a : WrappedInstance} {l : List WrappedInstance}
    (h : ChainOrdered (a :: l)) : ChainOrdered l := by
  intro i j w1 w2 x h1 h2 m1 m2 o1 i2
  have k := h (i + 1) (j + 1) w1 w2 x (by simpa using h1) (by simpa using h2) m1 m2 o1 i2
  omega

/-- A net other than the start that is reached over wires is the `O` net of
one of them. -/
theorem wireReach_last {l : List WrappedInstance} {c z : CppString}
    (r : Relation.ReflTransGen (WireStep l) c z) (hne : c ≠ z) :
    ∃ w ∈ l, w.module = "WIRE".toList ∧
      w.connectivity.lookup "O".toList = some (WrappedValue.str z) := by
  rcases Relation.ReflTransGen.cases_tail r with e | ⟨y, _, s⟩
  · exact absurd e.symm hne
  · obtain ⟨w, hw, m, _, o⟩ := s
    exact ⟨w, hw, m, o⟩

theorem follow_wires_reaches :
    ∀ (l : List WrappedInstance) (c : CppString), WiresComplete l → ChainOrdered l →
      ∃ z, follow_wires "I".toList "O".toList l c = .ok z ∧
        Relation.ReflTransGen (WireStep l) c z ∧
        ∀ w ∈ l, w.module = "WIRE".toList →
          w.connectivity.lookup "I".toList ≠ some (WrappedValue.str z) := by
  intro l
  induction l with
  | nil =>
    intro c _ _
    exact ⟨c, rfl, Relation.ReflTransGen.refl, fun w hw => absurd hw (List.not_mem_nil w)⟩
  | cons a rest ih =>
    intro c hcomp hord
    have hcomp2 : WiresComplete rest := fun w hw => hcomp w (List.mem_cons_of_mem _ hw)
    have hord2 : ChainOrdered rest := chainOrdered_tail hord
    have hsub : ∀ w ∈ rest, w ∈ a :: rest := fun w hw => List.mem_cons_of_mem _ hw
    -- a wire of the rest whose output is the input of `a` contradicts the order
    have hfirst : ∀ (x : CppString), a.module = "WIRE".toList →
        a.connectivity.lookup "I".toList = some (WrappedValue.str x) →
        ∀ w ∈ a :: rest, w.module = "WIRE".toList →
          w.connectivity.lookup "O".toList ≠ some (WrappedValue.str x) := by
      intro x ma ia w hw mw ow
      obtain ⟨j, hj⟩ := List.getElem?_of_mem hw
      have k := hord j 0 w a x hj List.getElem?_cons_zero mw ma ow ia
      omega
    by_cases hm : a.module = "WIRE".toList
    · obtain ⟨⟨va, hva⟩, ⟨d, hd⟩⟩ := hcomp a (List.mem_cons_self _ _) hm
      by_cases hv : va = WrappedValue.str c
      · -- the wire is taken
        subst hv
        obtain ⟨z, hz, hr, hmax⟩ := ih d hcomp2 hord2
        have hne : c ≠ z := by
          intro e
          subst e
          by_cases hdc : d = c
          · subst hdc
            exact hfirst d hm hva a (List.mem_cons_self _ _) hm hd
          · obtain ⟨w, hw, mw, ow⟩ := wireReach_last hr hdc
            exact hfirst c hm hva w (hsub w hw) mw ow
        refine ⟨z, ?_, ?_, ?_⟩
        · simp only [follow_wires, hm, if_true, wrapped_at, hva, hd, wrapped_string]
          exact hz
        · exact Relation.ReflTransGen.head ⟨a, List.mem_cons_self _ _, hm, hva, hd⟩
            (wireReach_mono hsub hr)
        · intro w hw mw iw
          rcases List.mem_cons.mp hw with e | hw2
          · subst e
            rw [hva] at iw
            exact hne (WrappedValue.str.inj (Option.some.inj iw))
          · exact hmax w hw2 mw iw
      · -- the wire does not continue the net
        obtain ⟨z, hz, hr, hmax⟩ := ih c hcomp2 hord2
        refine ⟨z, ?_, wireReach_mono hsub hr, ?_⟩
        · simp only [follow_wires, hm, if_true, wrapped_at, hva, hv, if_false]
          exact hz
        · intro w hw mw iw
          rcases List.mem_cons.mp hw with e | hw2
          · subst e
            have hcz : c ≠ z := by
              intro e
              subst e
              rw [hva] at iw
              exact hv (Option.some.inj iw)
            obtain ⟨w2, hw2, mw2, ow2⟩ := wireReach_last hr hcz
            exact hfirst z hm iw w2 (hsub w2 hw2) mw2 ow2
          · exact hmax w hw2 mw iw
    · obtain ⟨z, hz, hr, hmax⟩ := ih c hcomp2 hord2
      refine ⟨z, ?_, wireReach_mono hsub hr, ?_⟩
      · simp only [follow_wires, hm, if_false]
        exact hz
      · intro w hw mw iw
        rcases List.mem_cons.mp hw with e | hw2
        · subst e
          exact absurd mw hm
        · exact hmax w hw2 mw iw

/-- C26: when every `WIRE` of the wrapped netlist has an `I` and a string `O`
and the wires are listed in chain order, `get_output_wrapped_net` returns, and
there is a net `z` that is reached from the net on the output port of the clock
primitive by following wires from `I` to `O` and that no wire continues, such
that the result is `z` when `z` is a connectivity key of the first fabric
instance and the empty string otherwise. -/
theorem C26_get_output_wrapped_net_follows_wires_in_chain_order
    (wrapped_instances : List WrappedInstance) (index : Nat) (clk : FABRIC_CLOCK)
    (inst : WrappedInstance) (n0 : CppString)
    (hi : wrapped_instances[index]? = some inst)
    (hport : inst.connectivity.lookup clk.oport = some (WrappedValue.str n0))
    (hn0 : n0 ≠ [])
    (hcomp : WiresComplete wrapped_instances) (hord : ChainOrdered wrapped_instances) :
    ∃ z, Relation.ReflTransGen (WireStep wrapped_instances) n0 z ∧
      (∀ b, ¬ WireStep wrapped_instances z b) ∧
      ((∃ fabric, first_fabric wrapped_instances = some fabric ∧
          (fabric.connectivity.lookup z).isSome = true) →
        get_output_wrapped_net wrapped_instances index clk = .ok z) ∧
      (¬ (∃ fabric, first_fabric wrapped_instances = some fabric ∧
          (fabric.connectivity.lookup z).isSome = true) →
        get_output_wrapped_net wrapped_instances index clk = .ok []) := by
  obtain ⟨z, hz, hr, hmax⟩ := follow_wires_reaches wrapped_instances n0 hcomp hord
  have hlen : ¬ n0.length = 0 := fun h => hn0 (List.length_eq_zero.mp h)
  have hrun : get_output_wrapped_net wrapped_instances index clk =
      if on_fabric wrapped_instances z = true then .ok z else .ok [] := by
    unfold get_output_wrapped_net get_wrapped_net
    simp only [hi, hport, wrapped_string, hlen, if_false, hz]
  refine ⟨z, hr, fun b s => ?_, fun hf => ?_, fun hf => ?_⟩
  · obtain ⟨w, hw, m, iw, _⟩ := s
    exact hmax w hw m iw
  · obtain ⟨fabric, h1, h2⟩ := hf
    rw [hrun, if_pos (by simp only [on_fabric, h1, h2])]
  · have hno : ¬ on_fabric wrapped_instances z = true := by
      intro h
      unfold on_fabric at h
      split at h
      · rename_i fabric hfab
        exact hf ⟨fabric, hfab, h⟩
      · exact Bool.noConfusion h
    rw [hrun, if_neg hno]

/-- Counterexample for C26: in `example_wires_reversed` the wires lead from
the output net `n1` of the clock buffer over `n2` to `n3`, which no wire
continues and which is a key of the fabric instance, but the wire from `n2` is
listed before the wire from `n1`, and `get_output_wrapped_net` returns the
empty string. -/
theorem C26_counterexample_wires_listed_against_the_chain :
    WiresComplete example_wires_reversed ∧
    Relation.ReflTransGen (WireStep example_wires_reversed) "n1".toList "n3".toList ∧
    (∀ b, ¬ WireStep example_wires_reversed "n3".toList b) ∧
    (∃ fabric, first_fabric example_wires_reversed = some fabric ∧
      (fabric.connectivity.lookup "n3".toList).isSome = true) ∧
    get_output_wrapped_net example_wires_reversed 0 example_wires_clock = .ok [] := by
  refine ⟨?_, ?_, ?_, ⟨_, rfl, rfl⟩, by decide⟩
  · intro w hw m
    simp only [example_wires_reversed, List.mem_cons, List.mem_singleton,
      List.not_mem_nil, or_false] at hw
    rcases hw with e | e | e | e <;> subst e
    · exact ⟨⟨_, rfl⟩, ⟨_, rfl⟩⟩
    · exact ⟨⟨_, rfl⟩, ⟨_, rfl⟩⟩
    · exact ⟨⟨_, rfl⟩, ⟨_, rfl⟩⟩
    · exact absurd m (by decide)
  · refine Relation.ReflTransGen.head (b := "n2".toList) ?_
      (Relation.ReflTransGen.single ?_)
    · exact ⟨_, List.mem_cons_of_mem _ (List.mem_cons_of_mem _ (List.mem_cons_self _ _)),
        rfl, rfl, rfl⟩
    · exact ⟨_, List.mem_cons_of_mem _ (List.mem_cons_self _ _), rfl, rfl, rfl⟩
  · intro b s
    obtain ⟨w, hw, m, iw, _⟩ := s
    simp only [example_wires_reversed, List.mem_cons, List.mem_singleton,
      List.not_mem_nil, or_false] at hw
    rcases hw with e | e | e | e <;> subst e
    · exact absurd m (by decide)
    · exact absurd iw (by decide)
    · exact absurd iw (by decide)
    · exact absurd m (by decide)

theorem example_wires_in_order_complete : WiresComplete example_wires_in_order := by
  intro w hw m
  simp only [example_wires_in_order, List.mem_cons, List.mem_singleton,
    List.not_mem_nil, or_false] at hw
  rcases hw with e | e | e | e <;> subst e
  · exact ⟨⟨_, rfl⟩, ⟨_, rfl⟩⟩
  · exact ⟨⟨_, rfl⟩, ⟨_, rfl⟩⟩
  · exact ⟨⟨_, rfl⟩, ⟨_, rfl⟩⟩
  · exact absurd m (by decide)

theorem example_wires_in_order_ordered : ChainOrdered example_wires_in_order := by
  intro i j w1 w2 x h1 h2 m1 m2 o1 i2
  have hi : i < 4 := by
    by_contra h
    have : example_wires_in_order[i]? = none :=
      List.getElem?_eq_none (by simp [example_wires_in_order]; omega)
    rw [this] at h1
    exact Option.noConfusion h1
  have hj : j < 4 := by
    by_contra h
    have : example_wires_in_order[j]? = none :=
      List.getElem?_eq_none (by simp [example_wires_in_order]; omega)
    rw [this] at h2
    exact Option.noConfusion h2
  interval_cases i <;> interval_cases j <;>
    simp only [example_wires_in_order, List.getElem?_cons_zero, List.getElem?_cons_succ,
      Option.some.injEq] at h1 h2 <;>
    subst h1 <;> subst h2 <;>
    first
      | omega
      | exact absurd m1 (by decide)
      | exact absurd m2 (by decide)
      | (have e1 := WrappedValue.str.inj (Option.some.inj o1)
         have e2 := WrappedValue.str.inj (Option.some.inj i2)
         exact absurd (e1.trans e2.symm) (by decide))

/-- Witness for C26: with the wires in chain order the net `n3` is
returned. -/
theorem C26_get_output_wrapped_net_follows_wires_in_chain_order_witness :
    get_output_wrapped_net example_wires_in_order 0 example_wires_clock =
      .ok "n3".toList ∧
    ∃ z, Relation.ReflTransGen (WireStep example_wires_in_order) "n1".toList z ∧
      (∀ b, ¬ WireStep example_wires_in_order z b) ∧
      ((∃ fabric, first_fabric example_wires_in_order = some fabric ∧
          (fabric.connectivity.lookup z).isSome = true) →
        get_output_wrapped_net example_wires_in_order 0 example_wires_clock = .ok z) ∧
      (¬ (∃ fabric, first_fabric example_wires_in_order = some fabric ∧
          (fabric.connectivity.lookup z).isSome = true) →
        get_output_wrapped_net example_wires_in_order 0 example_wires_clock = .ok []) :=
  ⟨by decide,
    C26_get_output_wrapped_net_follows_wires_in_chain_order example_wires_in_order 0
      example_wires_clock
      { module := "CLK_BUF".toList, name := "z".toList,
        connectivity :=
          [("I".toList, .str "clk".toList), ("O".toList, .str "n1".toList)] }
      "n1".toList rfl rfl (by decide) example_wires_in_order_complete
      example_wires_in_order_ordered⟩

/-! ### One core clock per pin pair -/

theorem sameWiring_refl (a : PRIMITIVE) : SameWiring a a := ⟨rfl, rfl, rfl, rfl⟩

theorem sameWiring_trans {a b c : PRIMITIVE} (h : SameWiring a b) (g : SameWiring b c) :
    SameWiring a c :=
  ⟨h.1.trans g.1, h.2.1.trans g.2.1, h.2.2.1.trans g.2.2.1, h.2.2.2.trans g.2.2.2⟩

theorem forall2_sameWiring_refl : ∀ (l : List PRIMITIVE), List.Forall₂ SameWiring l l
  | [] => List.Forall₂.nil
  | a :: rest => List.Forall₂.cons (sameWiring_refl a) (forall2_sameWiring_refl rest)

theorem forall2_sameWiring_modify (f : PRIMITIVE → PRIMITIVE)
    (hf : ∀ b, SameWiring b (f b)) :
    ∀ (l1 l2 : List PRIMITIVE) (j : Nat), List.Forall₂ SameWiring l1 l2 →
      List.Forall₂ SameWiring l1 (l2.modify f j) := by
  intro l1 l2 j h
  induction h generalizing j with
  | nil => cases j <;> exact List.Forall₂.nil
  | cons hab _ ih =>
    cases j with
    | zero => exact List.Forall₂.cons (sameWiring_trans hab (hf _)) (by assumption)
    | succ j => exact List.Forall₂.cons hab (ih j)

theorem forall2_getElem {R : PRIMITIVE → PRIMITIVE → Prop} :
    ∀ (l1 l2 : List PRIMITIVE), List.Forall₂ R l1 l2 → ∀ (i : Nat) (a : PRIMITIVE),
      l1[i]? = some a → ∃ b, l2[i]? = some b ∧ R a b := by
  intro l1 l2 h
  induction h with
  | nil =>
    intro i a ha
    simp at ha
  | cons hab _ ih =>
    intro i a ha
    cases i with
    | zero =>
      simp only [List.getElem?_cons_zero, Option.some.injEq] at ha
      subst ha
      exact ⟨_, List.getElem?_cons_zero, hab⟩
    | succ i =>
      simp only [List.getElem?_cons_succ] at ha
      obtain ⟨b, hb, r⟩ := ih i a ha
      exact ⟨b, by simpa using hb, r⟩

theorem forall2_getElem_right {R : PRIMITIVE → PRIMITIVE → Prop} :
    ∀ (l1 l2 : List PRIMITIVE), List.Forall₂ R l1 l2 → ∀ (i : Nat) (b : PRIMITIVE),
      l2[i]? = some b → ∃ a, l1[i]? = some a ∧ R a b := by
  intro l1 l2 h
  induction h with
  | nil =>
    intro i b hb
    simp at hb
  | cons hab _ ih =>
    intro i b hb
    cases i with
    | zero =>
      simp only [List.getElem?_cons_zero, Option.some.injEq] at hb
      subst hb
      exact ⟨_, List.getElem?_cons_zero, hab⟩
    | succ i =>
      simp only [List.getElem?_cons_succ] at hb
      obtain ⟨a, ha, r⟩ := ih i b hb
      exact ⟨a, by simpa using ha, r⟩

/-- The search for a chain member of higher priority depends on the wiring
only. -/
theorem high_priority_congr (p q : PRIMITIVE) (hpq : SameWiring p q) :
    ∀ (l1 l2 : List PRIMITIVE), List.Forall₂ SameWiring l1 l2 →
      high_priority_fast_clock p l1 = high_priority_fast_clock q l2 := by
  intro l1 l2 h
  induction h with
  | nil => rfl
  | cons hab _ ih =>
    obtain ⟨d1, n1, g1, _⟩ := hab
    obtain ⟨_, n0, g0, _⟩ := hpq
    simp only [high_priority_fast_clock, ih, d1, n1, g1, n0, g0]

theorem high_priority_nonempty_iff (p : PRIMITIVE) :
    ∀ (l : List PRIMITIVE), high_priority_fast_clock p l ≠ [] ↔
      ∃ s ∈ l, p.name ≠ s.name ∧ p.grandparent = s.grandparent ∧
        s.db.fast_clock.length > 0 ∧ s.db.is_lower_fast_clock_priority = false := by
  intro l
  induction l with
  | nil => simp [high_priority_fast_clock]
  | cons a rest ih =>
    simp only [high_priority_fast_clock]
    by_cases hc : p.name ≠ a.name ∧ p.grandparent = a.grandparent ∧
        a.db.fast_clock.length > 0 ∧ a.db.is_lower_fast_clock_priority = false
    · rw [if_pos hc]
      constructor
      · intro _
        exact ⟨a, List.mem_cons_self _ _, hc⟩
      · intro _
        simp
    · rw [if_neg hc, ih]
      constructor
      · rintro ⟨s, hs, r⟩
        exact ⟨s, List.mem_cons_of_mem _ hs, r⟩
      · rintro ⟨s, hs, r⟩
        rcases List.mem_cons.mp hs with e | hs2
        · subst e
          exact absurd r hc
        · exact ⟨s, hs2, r⟩

theorem clock_output_none_iff (clock : CppString) (connections : CppMap CppString) :
    ∀ (outputs : List CppString), clock_output clock connections outputs = none ↔
      ∀ o ∈ outputs, CppMap.find connections o ≠ some clock := by
  intro outputs
  induction outputs with
  | nil => simp [clock_output]
  | cons a rest ih =>
    simp only [clock_output]
    by_cases hc : CppMap.find connections a = some clock
    · rw [if_pos hc]
      constructor
      · intro h
        exact Option.noConfusion h
      · intro h
        exact absurd hc (h a (List.mem_cons_self _ _))
    · rw [if_neg hc, ih]
      constructor
      · intro h o ho
        rcases List.mem_cons.mp ho with e | ho2
        · subst e
          exact hc
        · exact h o ho2
      · intro h o ho
        exact h o (List.mem_cons_of_mem _ ho)

theorem clock_output_some (clock : CppString) (connections : CppMap CppString) :
    ∀ (outputs : List CppString) (o : CppString),
      clock_output clock connections outputs = some o →
      o ∈ outputs ∧ CppMap.find connections o = some clock := by
  intro outputs
  induction outputs with
  | nil =>
    intro o h
    simp [clock_output] at h
  | cons a rest ih =>
    intro o h
    simp only [clock_output] at h
    split at h
    · rename_i hc
      have e := Option.some.inj h
      subst e
      exact ⟨List.mem_cons_self _ _, hc⟩
    · obtain ⟨h1, h2⟩ := ih o h
      exact ⟨List.mem_cons_of_mem _ h1, h2⟩

theorem clock_producer_congr (clock : CppString) :
    ∀ (l1 l2 : List PRIMITIVE), List.Forall₂ SameWiring l1 l2 → ∀ n,
      clock_producer clock l1 n = clock_producer clock l2 n := by
  intro l1 l2 h
  induction h with
  | nil =>
    intro n
    rfl
  | cons hab _ ih =>
    intro n
    obtain ⟨d1, _, _, c1⟩ := hab
    simp only [clock_producer, ih, d1, c1]

theorem clock_producer_none_iff (clock : CppString) :
    ∀ (l : List PRIMITIVE) (n : Nat), clock_producer clock l n = none ↔
      ∀ c ∈ l, c.db.is_gearbox_clock = true → ∀ o ∈ c.db.outputs,
        CppMap.find c.connections o ≠ some clock := by
  intro l
  induction l with
  | nil =>
    intro n
    simp [clock_producer]
  | cons a rest ih =>
    intro n
    simp only [clock_producer]
    by_cases hg : a.db.is_gearbox_clock = true
    · rw [if_pos hg]
      cases ho : clock_output clock a.connections a.db.outputs with
      | some o =>
        obtain ⟨h1, h2⟩ := clock_output_some clock _ _ o ho
        simp only
        constructor
        · intro h
          exact Option.noConfusion h
        · intro h
          exact absurd h2 (h a (List.mem_cons_self _ _) hg o h1)
      | none =>
        simp only
        rw [ih]
        constructor
        · intro h c hc g o hco
          rcases List.mem_cons.mp hc with e | hc2
          · subst e
            exact (clock_output_none_iff clock _ _).mp ho o hco
          · exact h c hc2 g o hco
        · intro h c hc
          exact h c (List.mem_cons_of_mem _ hc)
    · rw [if_neg hg, ih]
      constructor
      · intro h c hc g o hco
        rcases List.mem_cons.mp hc with e | hc2
        · subst e
          exact absurd g hg
        · exact h c hc2 g o hco
      · intro h c hc
        exact h c (List.mem_cons_of_mem _ hc)

theorem clock_producer_some (clock : CppString) :
    ∀ (l : List PRIMITIVE) (n j : Nat) (o : CppString),
      clock_producer clock l n = some (j, o) →
      ∃ c, n ≤ j ∧ l[j - n]? = some c ∧ c.db.is_gearbox_clock = true ∧ o ∈ c.db.outputs ∧
        CppMap.find c.connections o = some clock := by
  intro l
  induction l with
  | nil =>
    intro n j o h
    simp [clock_producer] at h
  | cons a rest ih =>
    intro n j o h
    simp only [clock_producer] at h
    split at h
    · rename_i hg
      split at h
      · rename_i o2 ho
        have e := Option.some.inj h
        have e1 : n = j := congrArg Prod.fst e
        have e2 : o2 = o := congrArg Prod.snd e
        subst e1
        subst e2
        obtain ⟨h1, h2⟩ := clock_output_some clock _ _ o2 ho
        exact ⟨a, Nat.le_refl _, by simp, hg, h1, h2⟩
      · obtain ⟨c, hn, hc, r⟩ := ih (n + 1) j o h
        refine ⟨c, by omega, ?_, r⟩
        have e : j - n = (j - (n + 1)) + 1 := by omega
        rw [e, List.getElem?_cons_succ]
        exact hc
    · obtain ⟨c, hn, hc, r⟩ := ih (n + 1) j o h
      refine ⟨c, by omega, ?_, r⟩
      have e : j - n = (j - (n + 1)) + 1 := by omega
      rw [e, List.getElem?_cons_succ]
      exact hc

/-- What the body of the loop of `trace_gearbox_fast_clock` does for the
node at position `i`, case by case. -/
theorem fast_clock_step_cases (st st2 : Extractor) (i : Nat)
    (h : trace_gearbox_fast_clock_step st i = .ok st2) :
    ∃ c, st.m_child_primitives[i]? = some c ∧
      ((c.db.fast_clock = [] ∧ st2 = st) ∨
       (c.db.fast_clock ≠ [] ∧ c.db.is_clock = false ∧
         ∃ clock, CppMap.find c.connections c.db.fast_clock = some clock ∧
          ((c.db.is_lower_fast_clock_priority = true ∧
              high_priority_fast_clock c st.m_child_primitives ≠ [] ∧ st2 = st) ∨
           (¬ (c.db.is_lower_fast_clock_priority = true ∧
                high_priority_fast_clock c st.m_child_primitives ≠ []) ∧
              ∃ j o, clock_producer clock st.m_child_primitives 0 = some (j, o) ∧
                st2 = st.update (.child j) (fun q =>
                  { q with
                    gearbox_clocks := CppMap.set q.gearbox_clocks (get_original_name o)
                      ((CppMap.find q.gearbox_clocks (get_original_name o)).getD [] ++
                        [PrimRef.child i]) })) ∨
           (¬ (c.db.is_lower_fast_clock_priority = true ∧
                high_priority_fast_clock c st.m_child_primitives ≠ []) ∧
              clock_producer clock st.m_child_primitives 0 = none ∧
              st2 = { st.update (.child i) (fun q =>
                        { q with errors := q.errors ++ [not_routable_msg c clock] }) with
                      m_netlist_status := false })))) := by
  unfold trace_gearbox_fast_clock_step at h
  simp only [Extractor.deref, bind, Except.bind, pure, Except.pure, throw, throwThe,
    MonadExceptOf.throw] at h
  cases hc : st.m_child_primitives[i]? with
  | none =>
    rw [hc] at h
    exact Except.noConfusion h
  | some c =>
    rw [hc] at h
    refine ⟨c, rfl, ?_⟩
    dsimp only at h
    by_cases hn : c.db.fast_clock.length > 0
    · have hne : c.db.fast_clock ≠ [] := by
        intro e
        rw [e] at hn
        exact absurd hn (by decide)
      simp only [hn, decide_True, if_true, Bool.true_and] at h
      cases hcl : c.db.is_clock with
      | true =>
        rw [hcl] at h
        exact Except.noConfusion h
      | false =>
        rw [hcl] at h
        simp only [Bool.false_eq_true, if_false] at h
        cases hf : CppMap.find c.connections c.db.fast_clock with
        | none =>
          simp only [CppMap.contains, hf, Option.isSome_none, Bool.not_false, if_true] at h
          exact Except.noConfusion h
        | some clock =>
          simp only [CppMap.contains, hf, Option.isSome_some, Bool.not_true,
            Bool.false_eq_true, if_false, CppMap.at] at h
          refine Or.inr ⟨hne, rfl, clock, rfl, ?_⟩
          by_cases hp : c.db.is_lower_fast_clock_priority = true ∧
              high_priority_fast_clock c st.m_child_primitives ≠ []
          · have hl : (if c.db.is_lower_fast_clock_priority = true then
                high_priority_fast_clock c st.m_child_primitives else []).length ≠ 0 := by
              rw [if_pos hp.1]
              exact fun e => hp.2 (List.length_eq_zero.mp e)
            rw [if_pos hl] at h
            exact Or.inl ⟨hp.1, hp.2, (Except.ok.inj h).symm⟩
          · have hl : ¬ (if c.db.is_lower_fast_clock_priority = true then
                high_priority_fast_clock c st.m_child_primitives else []).length ≠ 0 := by
              intro k
              by_cases hlow : c.db.is_lower_fast_clock_priority = true
              · rw [if_pos hlow] at k
                exact hp ⟨hlow, fun e => k (by rw [e]; rfl)⟩
              · rw [if_neg hlow] at k
                exact k rfl
            rw [if_neg hl] at h
            cases hprod : clock_producer clock st.m_child_primitives 0 with
            | none =>
              rw [hprod] at h
              exact Or.inr (Or.inr ⟨hp, rfl, (Except.ok.inj h).symm⟩)
            | some r =>
              obtain ⟨j, o⟩ := r
              rw [hprod] at h
              exact Or.inr (Or.inl ⟨hp, j, o, rfl, (Except.ok.inj h).symm⟩)
    · have he : c.db.fast_clock = [] := by
        cases hfc : c.db.fast_clock with
        | nil => rfl
        | cons a rest =>
          rw [hfc] at hn
          exact absurd (Nat.succ_pos _) hn
      simp only [hn, decide_False, Bool.false_eq_true, if_false] at h
      exact Or.inl ⟨he, (Except.ok.inj h).symm⟩

theorem getElem?_modify_some (f : PRIMITIVE → PRIMITIVE) (l : List PRIMITIVE) (j i : Nat)
    (c q : PRIMITIVE) (hc : l[i]? = some c) (hq : (l.modify f j)[i]? = some q) :
    q = if j = i then f c else c := by
  rw [List.getElem?_modify, hc] at hq
  exact (Option.some.inj hq).symm

theorem update_child_primitives (st : Extractor) (j : Nat) (f : PRIMITIVE → PRIMITIVE) :
    (st.update (.child j) f).m_child_primitives = st.m_child_primitives.modify f j := rfl

theorem not_routable_msg_congr (p c : PRIMITIVE) (h : SameWiring p c) (clock : CppString) :
    not_routable_msg c clock = not_routable_msg p clock := by
  unfold not_routable_msg
  rw [h.1, h.2.1]

/-- The effect of one round of the loop of `trace_gearbox_fast_clock`, told
with the decisions taken on the nodes as they were at the start. -/
theorem fast_clock_step_effect (L0 : List PRIMITIVE) (cur s1 : Extractor) (i0 : Nat)
    (h : trace_gearbox_fast_clock_step cur i0 = .ok s1)
    (hw : List.Forall₂ SameWiring L0 cur.m_child_primitives) :
    ∃ p0, L0[i0]? = some p0 ∧ List.Forall₂ SameWiring L0 s1.m_child_primitives ∧
      (∀ i c q, cur.m_child_primitives[i]? = some c → s1.m_child_primitives[i]? = some q →
        ((i = i0 ∧ ∃ clock, Unrouted L0 p0 clock ∧
            q.errors = c.errors ++ [not_routable_msg p0 clock]) ∨
          (¬ (i = i0 ∧ ∃ clock, Unrouted L0 p0 clock) ∧ q.errors = c.errors))) ∧
      (s1.m_netlist_status = true ↔
        cur.m_netlist_status = true ∧ ¬ ∃ clock, Unrouted L0 p0 clock) ∧
      (∀ j c q port x, cur.m_child_primitives[j]? = some c →
        s1.m_child_primitives[j]? = some q → x ∈ q.consumers port →
        x ∈ c.consumers port ∨ (x = PrimRef.child i0 ∧ Routed L0 p0 j port)) := by
  obtain ⟨c0, hc0, hcases⟩ := fast_clock_step_cases cur s1 i0 h
  obtain ⟨p0, hp0, hpc⟩ := forall2_getElem_right _ _ hw i0 c0 hc0
  have hhp : high_priority_fast_clock c0 cur.m_child_primitives =
      high_priority_fast_clock p0 L0 := (high_priority_congr p0 c0 hpc _ _ hw).symm
  have hprod : ∀ clock, clock_producer clock cur.m_child_primitives 0 =
      clock_producer clock L0 0 := fun clock => (clock_producer_congr clock _ _ hw 0).symm
  have hfc : c0.db.fast_clock = p0.db.fast_clock := by rw [hpc.1]
  have hfind : CppMap.find c0.connections c0.db.fast_clock =
      CppMap.find p0.connections p0.db.fast_clock := by rw [hpc.1, hpc.2.2.2]
  have hlow : c0.db.is_lower_fast_clock_priority = p0.db.is_lower_fast_clock_priority := by
    rw [hpc.1]
  have hclk : c0.db.is_clock = p0.db.is_clock := by rw [hpc.1]
  refine ⟨p0, hp0, ?_⟩
  -- the cases that leave the state as it is
  have same : s1 = cur → (¬ ∃ clock, Unrouted L0 p0 clock) →
      List.Forall₂ SameWiring L0 s1.m_child_primitives ∧
      (∀ i c q, cur.m_child_primitives[i]? = some c → s1.m_child_primitives[i]? = some q →
        ((i = i0 ∧ ∃ clock, Unrouted L0 p0 clock ∧
            q.errors = c.errors ++ [not_routable_msg p0 clock]) ∨
          (¬ (i = i0 ∧ ∃ clock, Unrouted L0 p0 clock) ∧ q.errors = c.errors))) ∧
      (s1.m_netlist_status = true ↔
        cur.m_netlist_status = true ∧ ¬ ∃ clock, Unrouted L0 p0 clock) ∧
      (∀ j c q port x, cur.m_child_primitives[j]? = some c →
        s1.m_child_primitives[j]? = some q → x ∈ q.consumers port →
        x ∈ c.consumers port ∨ (x = PrimRef.child i0 ∧ Routed L0 p0 j port)) := by
    intro e hno
    subst e
    refine ⟨hw, fun i c q hc hq => ?_, ⟨fun x => ⟨x, hno⟩, fun x => x.1⟩,
      fun j c q port x hc hq hx => ?_⟩
    · have e : q = c := Option.some.inj (hq.symm.trans hc)
      subst e
      exact Or.inr ⟨fun k => hno k.2, rfl⟩
    · have e : q = c := Option.some.inj (hq.symm.trans hc)
      subst e
      exact Or.inl hx
  rcases hcases with ⟨he, hs⟩ | ⟨hne, hnc, clock, hf, hsub⟩
  · exact same hs (fun ⟨_, k⟩ => k.1 (hfc ▸ he))
  · rw [hfc] at hne
    rw [hfind] at hf
    rw [hclk] at hnc
    rcases hsub with ⟨hl, hh, hs⟩ | ⟨hnp, j, o, hpr, hs⟩ | ⟨hnp, hpr, hs⟩
    · rw [hlow] at hl
      rw [hhp] at hh
      exact same hs (fun ⟨_, k⟩ => k.2.2.1 ⟨hl, hh⟩)
    · rw [hlow, hhp] at hnp
      rw [hprod] at hpr
      have hno : ¬ ∃ clock, Unrouted L0 p0 clock := by
        rintro ⟨clock2, _, k2, _, k4⟩
        have e : clock2 = clock := Option.some.inj (k2.symm.trans hf)
        subst e
        rw [hpr] at k4
        exact Option.noConfusion k4
      subst hs
      rw [update_child_primitives]
      refine ⟨by
          apply forall2_sameWiring_modify
          · exact fun b => ⟨rfl, rfl, rfl, rfl⟩
          · exact hw,
        fun i c q hc hq => ?_, ?_, fun j2 c q port x hc hq hx => ?_⟩
      · have e := getElem?_modify_some _ _ j i c q hc hq
        refine Or.inr ⟨fun k => hno k.2, ?_⟩
        rw [e]
        split <;> rfl
      · rw [update_m_netlist_status]
        exact ⟨fun x => ⟨x, hno⟩, fun x => x.1⟩
      · have e := getElem?_modify_some _ _ j j2 c q hc hq
        by_cases hj : j = j2
        · subst hj
          rw [if_pos rfl] at e
          subst e
          unfold PRIMITIVE.consumers at hx ⊢
          dsimp only at hx
          by_cases hport : port = get_original_name o
          · subst hport
            rw [CppMap.find_set_self] at hx
            simp only [Option.getD_some, List.mem_append, List.mem_singleton] at hx
            rcases hx with hx | hx
            · exact Or.inl hx
            · exact Or.inr ⟨hx, hne, hnc, clock, o, hf, hnp, hpr, rfl⟩
          · rw [CppMap.find_set_ne _ _ _ _ hport] at hx
            exact Or.inl hx
        · rw [if_neg hj] at e
          subst e
          exact Or.inl hx
    · rw [hlow, hhp] at hnp
      rw [hprod] at hpr
      have hyes : Unrouted L0 p0 clock := ⟨hne, hf, hnp, hpr⟩
      subst hs
      show List.Forall₂ SameWiring L0
          (cur.update (.child i0) (fun q =>
            { q with errors := q.errors ++ [not_routable_msg c0 clock] })).m_child_primitives ∧
        _
      rw [update_child_primitives]
      refine ⟨by
          apply forall2_sameWiring_modify
          · exact fun b => ⟨rfl, rfl, rfl, rfl⟩
          · exact hw,
        fun i c q hc hq => ?_, ?_, fun j2 c q port x hc hq hx => ?_⟩
      · have e := getElem?_modify_some _ _ i0 i c q hc
          (by rw [← update_child_primitives]; exact hq)
        by_cases hi : i0 = i
        · subst hi
          rw [if_pos rfl] at e
          refine Or.inl ⟨rfl, clock, hyes, ?_⟩
          rw [e, not_routable_msg_congr p0 c0 hpc]
        · rw [if_neg hi] at e
          exact Or.inr ⟨fun k => hi k.1.symm, by rw [e]⟩
      · constructor
        · intro x
          exact Bool.noConfusion x
        · intro x
          exact absurd ⟨clock, hyes⟩ x.2
      · have e := getElem?_modify_some _ _ i0 j2 c q hc
          (by rw [← update_child_primitives]; exact hq)
        by_cases hi : i0 = j2
        · rw [if_pos hi] at e
          subst e
          exact Or.inl hx
        · rw [if_neg hi] at e
          subst e
          exact Or.inl hx

/-- The effect of the loop of `trace_gearbox_fast_clock` over the positions
`idxs`, told with the decisions taken on the nodes as they were at the
start. -/
theorem fast_clock_loop_effect (L0 : List PRIMITIVE) :
    ∀ (idxs : List Nat) (cur st2 : Extractor), idxs.Nodup →
      trace_gearbox_fast_clock_loop idxs cur = .ok st2 →
      List.Forall₂ SameWiring L0 cur.m_child_primitives →
      List.Forall₂ SameWiring L0 st2.m_child_primitives ∧
      (∀ i p c q, L0[i]? = some p → cur.m_child_primitives[i]? = some c →
        st2.m_child_primitives[i]? = some q →
        ((i ∈ idxs ∧ ∃ clock, Unrouted L0 p clock ∧
            q.errors = c.errors ++ [not_routable_msg p clock]) ∨
          (¬ (i ∈ idxs ∧ ∃ clock, Unrouted L0 p clock) ∧ q.errors = c.errors))) ∧
      (st2.m_netlist_status = true ↔
        cur.m_netlist_status = true ∧
          ∀ i ∈ idxs, ∀ p, L0[i]? = some p → ¬ ∃ clock, Unrouted L0 p clock) ∧
      (∀ j c q port x, cur.m_child_primitives[j]? = some c →
        st2.m_child_primitives[j]? = some q → x ∈ q.consumers port →
        x ∈ c.consumers port ∨
          ∃ i ∈ idxs, x = PrimRef.child i ∧ ∃ p, L0[i]? = some p ∧ Routed L0 p j port) := by
  intro idxs
  induction idxs with
  | nil =>
    intro cur st2 _ h hw
    simp only [trace_gearbox_fast_clock_loop] at h
    have e := Except.ok.inj h
    subst e
    refine ⟨hw, fun i p c q _ hc hq => ?_, ?_, fun j c q port x hc hq hx => ?_⟩
    · have e : q = c := Option.some.inj (hq.symm.trans hc)
      subst e
      exact Or.inr ⟨fun k => absurd k.1 (List.not_mem_nil i), rfl⟩
    · exact ⟨fun x => ⟨x, fun i hi => absurd hi (List.not_mem_nil i)⟩, fun x => x.1⟩
    · have e : q = c := Option.some.inj (hq.symm.trans hc)
      subst e
      exact Or.inl hx
  | cons i0 rest ih =>
    intro cur st2 hnd h hw
    have hnot : i0 ∉ rest := (List.nodup_cons.mp hnd).1
    have hnd2 : rest.Nodup := (List.nodup_cons.mp hnd).2
    simp only [trace_gearbox_fast_clock_loop, bind, Except.bind] at h
    split at h
    · exact Except.noConfusion h
    · rename_i s1 hs1
      obtain ⟨p0, hp0, hw1, a1, b1, c1⟩ := fast_clock_step_effect L0 cur s1 i0 hs1 hw
      obtain ⟨hw2, a2, b2, c2⟩ := ih s1 st2 hnd2 h hw1
      refine ⟨hw2, fun i p c q hp hc hq => ?_, ?_, fun j c q port x hc hq hx => ?_⟩
      · obtain ⟨m, hm, _⟩ := forall2_getElem _ _ hw1 i p hp
        rcases a1 i c m hc hm with ⟨e0, clock, hu, he⟩ | ⟨hn1, he1⟩
        · subst e0
          have ep : p0 = p := Option.some.inj (hp0.symm.trans hp)
          subst ep
          rcases a2 i p0 m q hp hm hq with ⟨hi, _⟩ | ⟨_, he2⟩
          · exact absurd hi hnot
          · exact Or.inl ⟨List.mem_cons_self _ _, clock, hu, by rw [he2, he]⟩
        · rcases a2 i p m q hp hm hq with ⟨hi, clock, hu, he2⟩ | ⟨hn2, he2⟩
          · exact Or.inl ⟨List.mem_cons_of_mem _ hi, clock, hu, by rw [he2, he1]⟩
          · refine Or.inr ⟨?_, by rw [he2, he1]⟩
            rintro ⟨hi, hu⟩
            rcases List.mem_cons.mp hi with e0 | hi2
            · subst e0
              have ep : p0 = p := Option.some.inj (hp0.symm.trans hp)
              subst ep
              exact hn1 ⟨rfl, hu⟩
            · exact hn2 ⟨hi2, hu⟩
      · constructor
        · intro x
          obtain ⟨y, hall⟩ := b2.mp x
          obtain ⟨z, hno⟩ := b1.mp y
          refine ⟨z, fun i hi p hp => ?_⟩
          rcases List.mem_cons.mp hi with e0 | hi2
          · subst e0
            have ep : p0 = p := Option.some.inj (hp0.symm.trans hp)
            subst ep
            exact hno
          · exact hall i hi2 p hp
        · rintro ⟨z, hall⟩
          exact b2.mpr ⟨b1.mpr ⟨z, hall i0 (List.mem_cons_self _ _) p0 hp0⟩,
            fun i hi p hp => hall i (List.mem_cons_of_mem _ hi) p hp⟩
      · obtain ⟨a, ha, _⟩ := forall2_getElem_right _ _ hw j c hc
        obtain ⟨m, hm, _⟩ := forall2_getElem _ _ hw1 j a ha
        rcases c2 j m q port x hm hq hx with k | ⟨i, hi, r⟩
        · rcases c1 j c m port x hc hm k with k2 | ⟨ex, r⟩
          · exact Or.inl k2
          · exact Or.inr ⟨i0, List.mem_cons_self _ _, ex, p0, hp0, r⟩
        · exact Or.inr ⟨i, List.mem_cons_of_mem _ hi, r⟩

/-- The effect of `trace_gearbox_fast_clock` on the traced nodes. -/
theorem trace_gearbox_fast_clock_effect (st st2 : Extractor)
    (h : trace_gearbox_fast_clock st = .ok st2) :
    List.Forall₂ SameWiring st.m_child_primitives st2.m_child_primitives ∧
    (∀ (i : Nat) (p q : PRIMITIVE), st.m_child_primitives[i]? = some p →
      st2.m_child_primitives[i]? = some q →
      ((∃ clock, Unrouted st.m_child_primitives p clock ∧
          q.errors = p.errors ++ [not_routable_msg p clock]) ∨
        ((¬ ∃ clock, Unrouted st.m_child_primitives p clock) ∧ q.errors = p.errors))) ∧
    (st2.m_netlist_status = true ↔
      st.m_netlist_status = true ∧
        ∀ p ∈ st.m_child_primitives, ¬ ∃ clock, Unrouted st.m_child_primitives p clock) ∧
    (∀ j c q port x, st.m_child_primitives[j]? = some c →
      st2.m_child_primitives[j]? = some q → x ∈ q.consumers port →
      x ∈ c.consumers port ∨
        ∃ i p, x = PrimRef.child i ∧ st.m_child_primitives[i]? = some p ∧
          Routed st.m_child_primitives p j port) := by
  unfold trace_gearbox_fast_clock at h
  obtain ⟨hw, a, b, c⟩ := fast_clock_loop_effect st.m_child_primitives _ st st2
    (List.nodup_range _) h (forall2_sameWiring_refl _)
  refine ⟨hw, fun i p q hp hq => ?_, ?_, fun j c0 q port x hc hq hx => ?_⟩
  · have hi : i ∈ List.range st.m_child_primitives.length := by
      rw [List.mem_range]
      by_contra k
      rw [List.getElem?_eq_none (by omega)] at hp
      exact Option.noConfusion hp
    rcases a i p p q hp hp hq with ⟨_, r⟩ | ⟨hn, r⟩
    · exact Or.inl r
    · exact Or.inr ⟨fun k => hn ⟨hi, k⟩, r⟩
  · rw [b]
    constructor
    · rintro ⟨z, hall⟩
      refine ⟨z, fun p hp => ?_⟩
      obtain ⟨i, hi⟩ := List.getElem?_of_mem hp
      have hlt : i ∈ List.range st.m_child_primitives.length := by
        rw [List.mem_range]
        by_contra k
        rw [List.getElem?_eq_none (by omega)] at hi
        exact Option.noConfusion hi
      exact hall i hlt p hi
    · rintro ⟨z, hall⟩
      exact ⟨z, fun i _ p hp => hall p (List.mem_iff_getElem?.mpr ⟨i, hp⟩)⟩
  · rcases c j c0 q port x hc hq hx with k | ⟨i, _, ex, p, hp, r⟩
    · exact Or.inl k
    · exact Or.inr ⟨i, p, ex, hp, r⟩

/-- The assertions of `trace_gearbox_fast_clock` on a node with a fast-clock
port: it is no clock and has a net on the port. -/
theorem fast_clock_loop_asserts (L0 : List PRIMITIVE) :
    ∀ (idxs : List Nat) (cur st2 : Extractor),
      trace_gearbox_fast_clock_loop idxs cur = .ok st2 →
      List.Forall₂ SameWiring L0 cur.m_child_primitives →
      ∀ i ∈ idxs, ∀ p, L0[i]? = some p → p.db.fast_clock ≠ [] →
        p.db.is_clock = false ∧
          ∃ clock, CppMap.find p.connections p.db.fast_clock = some clock := by
  intro idxs
  induction idxs with
  | nil =>
    intro cur st2 _ _ i hi
    exact absurd hi (List.not_mem_nil i)
  | cons i0 rest ih =>
    intro cur st2 h hw i hi p hp hne
    simp only [trace_gearbox_fast_clock_loop, bind, Except.bind] at h
    split at h
    · exact Except.noConfusion h
    · rename_i s1 hs1
      obtain ⟨_, _, hw1, _⟩ := fast_clock_step_effect L0 cur s1 i0 hs1 hw
      rcases List.mem_cons.mp hi with e0 | hi2
      · subst e0
        obtain ⟨c0, hc0, hcases⟩ := fast_clock_step_cases cur s1 i hs1
        obtain ⟨p0, hp0, hpc⟩ := forall2_getElem_right _ _ hw i c0 hc0
        have ep : p0 = p := Option.some.inj (hp0.symm.trans hp)
        subst ep
        rcases hcases with ⟨he, _⟩ | ⟨_, hnc, clock, hf, _⟩
        · rw [← hpc.1] at he
          exact absurd he hne
        · rw [← hpc.1] at hnc
          rw [← hpc.1, ← hpc.2.2.2] at hf
          exact ⟨hnc, clock, hf⟩
      · exact ih s1 st2 h hw1 i hi2 p hp hne

theorem fast_clock_asserts (st st2 : Extractor) (h : trace_gearbox_fast_clock st = .ok st2)
    (p : PRIMITIVE) (hp : p ∈ st.m_child_primitives) (hne : p.db.fast_clock ≠ []) :
    p.db.is_clock = false ∧
      ∃ clock, CppMap.find p.connections p.db.fast_clock = some clock := by
  unfold trace_gearbox_fast_clock at h
  obtain ⟨i, hi⟩ := List.getElem?_of_mem hp
  have hlt : i ∈ List.range st.m_child_primitives.length := by
    rw [List.mem_range]
    by_contra k
    rw [List.getElem?_eq_none (by omega)] at hi
    exact Option.noConfusion hi
  exact fast_clock_loop_asserts st.m_child_primitives _ st st2 h
    (forall2_sameWiring_refl _) i hlt p hi hne

theorem length_pos_iff_ne_nil (s : CppString) : s.length > 0 ↔ s ≠ [] := by
  cases s with
  | nil => simp
  | cons a rest => simp

/-- When nodes of the list with one name have one descriptor, the search of
the code for a chain member of higher priority, which passes over the nodes
with the name of the node, succeeds exactly when the node is
out-prioritized. -/
theorem outPrioritized_iff (L : List PRIMITIVE)
    (hdbs : ∀ a ∈ L, ∀ b ∈ L, a.name = b.name → a.db = b.db)
    (p : PRIMITIVE) (hp : p ∈ L) (hne : p.db.fast_clock ≠ []) :
    (p.db.is_lower_fast_clock_priority = true ∧ high_priority_fast_clock p L ≠ []) ↔
      OutPrioritized L p := by
  rw [high_priority_nonempty_iff]
  constructor
  · rintro ⟨hl, s, hs, _, hg, hf, hlo⟩
    exact ⟨hne, hl, s, hs, hg.symm, (length_pos_iff_ne_nil _).mp hf, hlo⟩
  · rintro ⟨_, hl, s, hs, hg, hf, hlo⟩
    refine ⟨hl, s, hs, ?_, hg.symm, (length_pos_iff_ne_nil _).mpr hf, hlo⟩
    intro en
    rw [← hdbs p hp s hs en, hl] at hlo
    exact Bool.noConfusion hlo

theorem unrouted_iff (L : List PRIMITIVE)
    (hdbs : ∀ a ∈ L, ∀ b ∈ L, a.name = b.name → a.db = b.db)
    (p : PRIMITIVE) (hp : p ∈ L) (clock : CppString)
    (hf : CppMap.find p.connections p.db.fast_clock = some clock) :
    Unrouted L p clock ↔ NotRoutable L p := by
  unfold Unrouted NotRoutable
  constructor
  · rintro ⟨hne, _, hno, hprod⟩
    refine ⟨hne, fun k => hno ((outPrioritized_iff L hdbs p hp hne).mpr k), ?_⟩
    rw [hf]
    exact (clock_producer_none_iff clock L 0).mp hprod
  · rintro ⟨hne, hno, hall⟩
    refine ⟨hne, hf, fun k => hno ((outPrioritized_iff L hdbs p hp hne).mp k), ?_⟩
    rw [hf] at hall
    exact (clock_producer_none_iff clock L 0).mpr hall

/-- C23: when `trace_gearbox_fast_clock` returns, a traced node has got one
error string more, the message for the net on its fast-clock port, if its
descriptor names a fast-clock port, the node is not a lower-priority node with
a node of normal priority with a fast-clock port in its chain, and no declared
output of a traced gearbox-clock node carries the net on its fast-clock port;
otherwise its errors are as before. A lower-priority node with such a chain
member is registered with no producer. The netlist status is false afterwards
exactly when it was false before or some traced node meets the condition.
The traced nodes may share names, as the nodes of one cell that two chains
reach do; `hdbs`, that traced nodes with one name have one descriptor, is the
invariant that `tracing_same_name_same_db` proves of the state that `extract`
hands to the method, on every module whose cells have pairwise distinct
names. -/
theorem C23_fast_clock_error_exactly_when_no_producer (st st2 : Extractor)
    (h : trace_gearbox_fast_clock st = .ok st2)
    (hdbs : ∀ a ∈ st.m_child_primitives, ∀ b ∈ st.m_child_primitives,
      a.name = b.name → a.db = b.db) :
    (∀ (i : Nat) (p : PRIMITIVE), st.m_child_primitives[i]? = some p →
      ∃ q, st2.m_child_primitives[i]? = some q ∧
        (NotRoutable st.m_child_primitives p →
          ∃ clock, CppMap.find p.connections p.db.fast_clock = some clock ∧
            q.errors = p.errors ++ [not_routable_msg p clock]) ∧
        (¬ NotRoutable st.m_child_primitives p → q.errors = p.errors) ∧
        (OutPrioritized st.m_child_primitives p →
          q.errors = p.errors ∧
          ∀ (j : Nat) (c r : PRIMITIVE) (port : CppString),
            st.m_child_primitives[j]? = some c → st2.m_child_primitives[j]? = some r →
            PrimRef.child i ∈ r.consumers port → PrimRef.child i ∈ c.consumers port)) ∧
    (st2.m_netlist_status = false ↔
      st.m_netlist_status = false ∨
        ∃ p ∈ st.m_child_primitives, NotRoutable st.m_child_primitives p) := by
  obtain ⟨hw, a, b, c⟩ := trace_gearbox_fast_clock_effect st st2 h
  have bridge : ∀ p ∈ st.m_child_primitives,
      ((∃ clock, Unrouted st.m_child_primitives p clock) ↔
        NotRoutable st.m_child_primitives p) := by
    intro p hp
    constructor
    · rintro ⟨clock, hu⟩
      exact (unrouted_iff _ hdbs p hp clock hu.2.1).mp hu
    · intro hn
      obtain ⟨_, clock, hf⟩ := fast_clock_asserts st st2 h p hp hn.1
      exact ⟨clock, (unrouted_iff _ hdbs p hp clock hf).mpr hn⟩
  constructor
  · intro i p hp
    have hmem : p ∈ st.m_child_primitives := List.mem_iff_getElem?.mpr ⟨i, hp⟩
    obtain ⟨q, hq, _⟩ := forall2_getElem _ _ hw i p hp
    have herr := a i p q hp hq
    have hnot : ¬ NotRoutable st.m_child_primitives p → q.errors = p.errors := by
      intro hn
      rcases herr with ⟨clock, hu, _⟩ | ⟨_, he⟩
      · exact absurd ((bridge p hmem).mp ⟨clock, hu⟩) hn
      · exact he
    refine ⟨q, hq, fun hn => ?_, hnot, fun ho => ⟨hnot (fun k => k.2.1 ho), ?_⟩⟩
    · rcases herr with ⟨clock, hu, he⟩ | ⟨hno, _⟩
      · exact ⟨clock, hu.2.1, he⟩
      · exact absurd ((bridge p hmem).mpr hn) hno
    · intro j c0 r port hc hr hin
      rcases c j c0 r port _ hc hr hin with k | ⟨i2, p2, ex, hp2, hrt⟩
      · exact k
      · have ei : i = i2 := PrimRef.child.inj ex
        subst ei
        have ep : p2 = p := Option.some.inj (hp2.symm.trans hp)
        subst ep
        obtain ⟨hne, _, _, _, _, hno, _⟩ := hrt
        exact absurd ((outPrioritized_iff _ hdbs p2 hmem hne).mpr ho) hno
  · have hb : st2.m_netlist_status = true ↔ st.m_netlist_status = true ∧
        ∀ p ∈ st.m_child_primitives, ¬ NotRoutable st.m_child_primitives p := by
      rw [b]
      constructor
      · rintro ⟨z, hall⟩
        exact ⟨z, fun p hp k => hall p hp ((bridge p hp).mpr k)⟩
      · rintro ⟨z, hall⟩
        exact ⟨z, fun p hp k => hall p hp ((bridge p hp).mp k)⟩
    constructor
    · intro hfalse
      by_cases hs : st.m_netlist_status = true
      · refine Or.inr ?_
        by_contra hno
        have : st2.m_netlist_status = true :=
          hb.mpr ⟨hs, fun p hp k => hno ⟨p, hp, k⟩⟩
        rw [hfalse] at this
        exact Bool.noConfusion this
      · exact Or.inl (by simpa using hs)
    · intro hor
      by_contra hne
      have ht : st2.m_netlist_status = true := by simpa using hne
      obtain ⟨z, hall⟩ := hb.mp ht
      rcases hor with k | ⟨p, hp, k⟩
      · rw [z] at k
        exact Bool.noConfusion k
      · exact hall p hp k

theorem genesis3_gearbox_clock_is_clock :
    ∀ db ∈ genesis3_primitives, db.is_gearbox_clock = true → db.is_clock = true := by
  decide

/-- C24: when `trace_gearbox_fast_clock` on nodes with descriptors of the
`genesis3` table has added the node at position `i` to the consumers that the
node at position `j` lists for a clock output, the producer is another node: a
gearbox-clock node with a declared output of that name that carries the net on
the fast-clock port of the consumer. -/
theorem C24_registered_producer_is_another_node_that_carries_the_clock
    (st st2 : Extractor) (h : trace_gearbox_fast_clock st = .ok st2)
    (hdb : ∀ c ∈ st.m_child_primitives, c.db ∈ genesis3_primitives)
    (i j : Nat) (c r : PRIMITIVE) (port : CppString)
    (hc : st.m_child_primitives[j]? = some c) (hr : st2.m_child_primitives[j]? = some r)
    (hin : PrimRef.child i ∈ r.consumers port)
    (hnot : PrimRef.child i ∉ c.consumers port) :
    i ≠ j ∧ c.db.is_gearbox_clock = true ∧
      ∃ p o clock, st.m_child_primitives[i]? = some p ∧ p.db.fast_clock ≠ [] ∧
        CppMap.find p.connections p.db.fast_clock = some clock ∧ o ∈ c.db.outputs ∧
        port = get_original_name o ∧ CppMap.find c.connections o = some clock := by
  obtain ⟨_, _, _, hcons⟩ := trace_gearbox_fast_clock_effect st st2 h
  rcases hcons j c r port _ hc hr hin with k | ⟨i2, p, ex, hp, hrt⟩
  · exact absurd k hnot
  · have ei : i = i2 := PrimRef.child.inj ex
    subst ei
    obtain ⟨hne, hclk, clock, o, hf, _, hprod, hport⟩ := hrt
    obtain ⟨c2, _, hc2, hg, ho, hfo⟩ := clock_producer_some clock _ 0 j o hprod
    have ec : c2 = c := Option.some.inj (hc2.symm.trans hc)
    subst ec
    refine ⟨?_, hg, p, o, clock, hp, hne, hf, ho, hport, hfo⟩
    intro eij
    subst eij
    have ep : p = c2 := Option.some.inj (hp.symm.trans hc)
    subst ep
    have := genesis3_gearbox_clock_is_clock p.db
      (hdb p (List.mem_iff_getElem?.mpr ⟨i, hp⟩)) hg
    rw [hclk] at this
    exact Bool.noConfusion this

set_option maxRecDepth 100000 in
/-- Witness for C23: in `example_two_hops` no gearbox-clock node carries the
net `c` on the port `CLK_IN` of the delay, which gets the error, and the
netlist status falls. -/
theorem C23_fast_clock_error_exactly_when_no_producer_witness :
    example_two_hops_linked.m_netlist_status = true ∧
    example_two_hops_linked.m_child_primitives.map (fun c => c.errors) = [[]] ∧
    example_two_hops_ready.m_child_primitives.map (fun c => c.errors) =
      [["\\I_DELAY \\dly fast clock port \\CLK_IN (net: \\c) is not routable".toList]] ∧
    (example_two_hops_ready.m_netlist_status = false ↔
      example_two_hops_linked.m_netlist_status = false ∨
        ∃ p ∈ example_two_hops_linked.m_child_primitives,
          NotRoutable example_two_hops_linked.m_child_primitives p) :=
  ⟨by decide, by decide, by decide,
    (C23_fast_clock_error_exactly_when_no_producer example_two_hops_linked
      example_two_hops_ready (by decide) (by decide)).2⟩

set_option maxRecDepth 100000 in
/-- Counterexample for C24: in `example_shared_clock` the clock buffer `z`,
whose chain root is the buffer of `clk`, gets the delay `dly0` as consumer of
its output `O`, and the chain root of `dly0` is the buffer of `din0`. -/
theorem C24_counterexample_producer_in_the_chain_of_another_port :
    trace_gearbox_fast_clock example_shared_clock_traced =
      .ok example_shared_clock_routed ∧
    (child_at example_shared_clock_traced 0).consumers "O".toList = [] ∧
    (child_at example_shared_clock_routed 0).consumers "O".toList =
      [PrimRef.child 1, PrimRef.child 2] ∧
    (child_at example_shared_clock_traced 0).name = "\\z".toList ∧
    (child_at example_shared_clock_traced 0).grandparent = some (PrimRef.port 0) ∧
    (child_at example_shared_clock_traced 1).name = "\\dly0".toList ∧
    (child_at example_shared_clock_traced 1).grandparent = some (PrimRef.port 1) := by
  decide

set_option maxRecDepth 100000 in
/-- Witness for C24: the delay `dly0` of `example_shared_clock` is
registered with the clock buffer `z`, another node, whose output `O` carries
the net on the port `CLK_IN` of the delay. -/
theorem C24_registered_producer_is_another_node_that_carries_the_clock_witness :
    (1 : Nat) ≠ 0 ∧
    (child_at example_shared_clock_traced 0).db.is_gearbox_clock = true ∧
    ∃ p o clock, example_shared_clock_traced.m_child_primitives[1]? = some p ∧
      p.db.fast_clock ≠ [] ∧
      CppMap.find p.connections p.db.fast_clock = some clock ∧
      o ∈ (child_at example_shared_clock_traced 0).db.outputs ∧
      "O".toList = get_original_name o ∧
      CppMap.find (child_at example_shared_clock_traced 0).connections o = some clock :=
  C24_registered_producer_is_another_node_that_carries_the_clock
    example_shared_clock_traced example_shared_clock_routed (by decide) (by decide)
    1 0 (child_at example_shared_clock_traced 0) (child_at example_shared_clock_routed 0)
    "O".toList (by decide) (by decide) (by decide) (by decide)

/-! ### The walk of the second `summarize` and the pins -/

theorem deref_of_sameCounts (s s2 : Extractor) (h : SameCounts s s2) :
    s2.deref = s.deref := by
  funext r
  cases r with
  | port i => simp only [Extractor.deref, h.1]
  | child i => simp only [Extractor.deref, h.2.1]

theorem foldlM_append_ok {α : Type} (f : Extractor → α → Except Fault Extractor)
    (l1 l2 : List α) (s s1 s2 : Extractor) (h1 : l1.foldlM f s = .ok s1)
    (h2 : l2.foldlM f s1 = .ok s2) : (l1 ++ l2).foldlM f s = .ok s2 := by
  rw [List.foldlM_append, h1]
  exact h2

theorem run_summary_events_same (objects : List CppString) (is_in_dir : Bool) :
    ∀ (e : SummaryEvent) (s s2 : Extractor),
      run_summary_event objects is_in_dir s e = .ok s2 → SameCounts s s2 := by
  intro e s s2 h
  cases e with
  | node primitive =>
    exact foldlM_same _ (fun s a s2 hs => update_pin_info_same s s2 a _ hs) _ _ _ h
  | leaf traces full_traces =>
    simp only [run_summary_event] at h
    repeat' split at h
    all_goals first
      | exact Except.noConfusion h
      | exact (Except.ok.inj h) ▸
          store_pin_traces_same _ _ _ _ _ _ ‹store_pin_traces _ _ _ _ _ = Except.ok _›

theorem summarize_children_walk (objects : List CppString) (D : PrimRef → Except Fault PRIMITIVE)
    (call : Extractor → PrimRef → List CppString → List CppString → Except Fault Extractor)
    (wcall : PrimRef → List CppString → List CppString → Except Fault (List SummaryEvent))
    (is_in_dir : Bool)
    (hcall : ∀ s c t f s2, s.deref = D → call s c t f = .ok s2 →
      ∃ evs, wcall c t f = .ok evs ∧
        evs.foldlM (run_summary_event objects is_in_dir) s = .ok s2 ∧ s2.deref = D)
    (traces full_traces : List CppString) :
    ∀ (children : List (CppString × PrimRef)) (i : Nat) (st st2 : Extractor),
      st.deref = D →
      summarize_children call traces full_traces is_in_dir children i st = .ok st2 →
      ∃ evs, summary_walk_children D wcall traces full_traces is_in_dir children i = .ok evs ∧
        evs.foldlM (run_summary_event objects is_in_dir) st = .ok st2 ∧ st2.deref = D := by
  intro children
  induction children with
  | nil =>
    intro i st st2 hD h
    simp only [summarize_children] at h
    cases h
    exact ⟨[], rfl, rfl, hD⟩
  | cons child rest ih =>
    intro i st st2 hD h
    simp only [summarize_children, bind, Except.bind, pure, Except.pure, throw, throwThe,
      MonadExceptOf.throw] at h
    rw [hD] at h
    cases hc : D child.2 with
    | error e => rw [hc] at h; exact Except.noConfusion h
    | ok c =>
      rw [hc] at h
      try dsimp only at h
      by_cases hdir : is_in_dir ≠ c.db.is_in_dir
      · rw [if_pos hdir] at h; exact Except.noConfusion h
      · rw [if_neg hdir] at h
        try dsimp only at h
        by_cases hi : i = 0
        · simp only [hi, if_true] at h
          cases h1 : call st child.2 (traces ++ [get_original_name c.db.name])
              (full_traces ++ [get_original_name c.db.name]) with
          | error e => rw [h1] at h; exact Except.noConfusion h
          | ok s1 =>
            rw [h1] at h
            try dsimp only at h
            obtain ⟨evs, hw, hf, hD1⟩ := hcall _ _ _ _ _ hD h1
            obtain ⟨more, hw2, hf2, hD2⟩ := ih _ _ _ hD1 h
            refine ⟨evs ++ more, ?_, foldlM_append_ok _ _ _ _ _ _ hf hf2, hD2⟩
            simp only [summary_walk_children, hc, if_neg hdir, hi, if_true, hw, hw2]
        · simp only [hi, if_false] at h
          cases ht : trace_indent traces with
          | error e => rw [ht] at h; exact Except.noConfusion h
          | ok indent =>
            rw [ht] at h
            try dsimp only at h
            cases h1 : call st child.2 ([indent] ++ [get_original_name c.db.name])
                (full_traces ++ [get_original_name c.db.name]) with
            | error e => rw [h1] at h; exact Except.noConfusion h
            | ok s1 =>
              rw [h1] at h
              try dsimp only at h
              obtain ⟨evs, hw, hf, hD1⟩ := hcall _ _ _ _ _ hD h1
              obtain ⟨more, hw2, hf2, hD2⟩ := ih _ _ _ hD1 h
              refine ⟨evs ++ more, ?_, foldlM_append_ok _ _ _ _ _ _ hf hf2, hD2⟩
              simp only [summary_walk_children, hc, if_neg hdir, hi, if_false, ht,
                Except.map, hw, hw2]

theorem summarize_pins_walk (objects : List CppString) (is_in_dir : Bool) :
    ∀ (fuel : Nat) (st : Extractor) (r : PrimRef) (traces full_traces : List CppString)
      (st2 : Extractor),
      summarize_pins objects is_in_dir fuel st r traces full_traces = .ok st2 →
      ∃ evs, summary_walk st.deref is_in_dir fuel r traces full_traces = .ok evs ∧
        evs.foldlM (run_summary_event objects is_in_dir) st = .ok st2 ∧
        st2.deref = st.deref := by
  intro fuel
  induction fuel with
  | zero =>
    intro st r traces full_traces st2 h
    simp only [summarize_pins] at h
    exact Except.noConfusion h
  | succ fuel ih =>
    intro st r traces full_traces st2 h
    simp only [summarize_pins, bind, Except.bind, pure, Except.pure, throw, throwThe,
      MonadExceptOf.throw] at h
    by_cases hl : traces.length = 0
    · rw [if_pos hl] at h; exact Except.noConfusion h
    · rw [if_neg hl] at h
      try dsimp only at h
      cases hr : st.deref r with
      | error e => rw [hr] at h; exact Except.noConfusion h
      | ok primitive =>
        rw [hr] at h
        try dsimp only at h
        cases hu : objects.foldlM (fun st object => update_pin_info st object primitive) st with
        | error e => rw [hu] at h; exact Except.noConfusion h
        | ok s1 =>
          rw [hu] at h
          try dsimp only at h
          have hD1 : s1.deref = st.deref :=
            deref_of_sameCounts _ _
              (foldlM_same _ (fun s a s2 hs => update_pin_info_same s s2 a _ hs) _ _ _ hu)
          by_cases hch : primitive.child.length ≠ 0
          · rw [if_pos hch] at h
            obtain ⟨evs, hw, hf, hD2⟩ :=
              summarize_children_walk objects st.deref
                (fun st c t f => summarize_pins objects is_in_dir fuel st c t f)
                (fun c t f => summary_walk st.deref is_in_dir fuel c t f) is_in_dir
                (fun s c t f s2 hs hcall => by
                  obtain ⟨evs, hw, hf, hD⟩ := ih s c t f s2 hcall
                  rw [hs] at hw hD
                  exact ⟨evs, hw, hf, hD⟩)
                traces full_traces primitive.child 0 s1 st2 hD1 h
            refine ⟨SummaryEvent.node primitive :: evs, ?_, ?_, hD2⟩
            · simp only [summary_walk, if_neg hl, hr, if_pos hch, hw]
            · simp only [List.foldlM, bind, Except.bind, run_summary_event, hu]
              exact hf
          · rw [if_neg hch] at h
            cases hs : store_pin_traces traces full_traces is_in_dir objects s1 with
            | error e => rw [hs] at h; exact Except.noConfusion h
            | ok s2 =>
              rw [hs] at h
              try dsimp only at h
              cases hj : join_trace " |-> ".toList
                  (if is_in_dir then traces else traces.reverse) [] with
              | error e =>
                simp only [hj] at h
                exact Except.noConfusion h
              | ok x =>
                simp only [hj] at h
                cases h
                refine ⟨[SummaryEvent.node primitive, SummaryEvent.leaf traces full_traces],
                  ?_, ?_, ?_⟩
                · simp only [summary_walk, if_neg hl, hr, if_neg hch]
                · simp only [List.foldlM, bind, Except.bind, run_summary_event, hu, hs, hj,
                    pure, Except.pure]
                · rw [deref_of_sameCounts _ _ (store_pin_traces_same _ _ _ _ _ _ hs), hD1]

theorem mem_walk_nodes (p : PRIMITIVE) :
    ∀ evs : List SummaryEvent, p ∈ walk_nodes evs ↔ SummaryEvent.node p ∈ evs := by
  intro evs
  induction evs with
  | nil => simp [walk_nodes]
  | cons e rest ih =>
    cases e with
    | node p0 =>
      simp only [walk_nodes, List.mem_cons, ih, SummaryEvent.node.injEq]
    | leaf t f =>
      simp only [walk_nodes, List.mem_cons, ih, reduceCtorEq, false_or]

theorem mem_walk_chains (names : List CppString) :
    ∀ evs : List SummaryEvent,
      names ∈ walk_chains evs ↔ ∃ t, SummaryEvent.leaf t names ∈ evs := by
  intro evs
  induction evs with
  | nil => simp [walk_chains]
  | cons e rest ih =>
    cases e with
    | node p0 =>
      simp only [walk_chains, List.mem_cons, ih, reduceCtorEq, false_or]
    | leaf t f =>
      simp only [walk_chains, List.mem_cons, ih, SummaryEvent.leaf.injEq]
      constructor
      · rintro (h | ⟨t2, h⟩)
        · exact ⟨t, Or.inl ⟨rfl, h⟩⟩
        · exact ⟨t2, Or.inr h⟩
      · rintro ⟨t2, h | h⟩
        · exact Or.inl h.2
        · exact Or.inr ⟨t2, h⟩

theorem walk_nodes_append (a b : List SummaryEvent) :
    walk_nodes (a ++ b) = walk_nodes a ++ walk_nodes b := by
  induction a with
  | nil => rfl
  | cons e rest ih =>
    cases e with
    | node p0 => simp only [List.cons_append, walk_nodes, List.append_eq, ih]
    | leaf t f => simp only [List.cons_append, walk_nodes, List.append_eq, ih]

theorem walk_chains_append (a b : List SummaryEvent) :
    walk_chains (a ++ b) = walk_chains a ++ walk_chains b := by
  induction a with
  | nil => rfl
  | cons e rest ih =>
    cases e with
    | node p0 => simp only [List.cons_append, walk_chains, List.append_eq, ih]
    | leaf t f => simp only [List.cons_append, walk_chains, List.append_eq, ih]

/-- What the child loop of the walk returns: the events of the calls on the
children, each child handed the full traces extended by its type name. -/
theorem summary_walk_children_spec (D : PrimRef → Except Fault PRIMITIVE)
    (call : PrimRef → List CppString → List CppString → Except Fault (List SummaryEvent))
    (traces full_traces : List CppString) (is_in_dir : Bool) :
    ∀ (children : List (CppString × PrimRef)) (i : Nat) (evs : List SummaryEvent),
      summary_walk_children D call traces full_traces is_in_dir children i = .ok evs →
      (∀ e ∈ evs, ∃ (k : CppString) (c : PrimRef) (cn : PRIMITIVE) (t : List CppString)
          (sub : List SummaryEvent),
          (k, c) ∈ children ∧ D c = .ok cn ∧ cn.db.is_in_dir = is_in_dir ∧
          call c t (full_traces ++ [get_original_name cn.db.name]) = .ok sub ∧ e ∈ sub) ∧
      (∀ (k : CppString) (c : PrimRef), (k, c) ∈ children →
        ∃ (cn : PRIMITIVE) (t : List CppString) (sub : List SummaryEvent),
          D c = .ok cn ∧ cn.db.is_in_dir = is_in_dir ∧
          call c t (full_traces ++ [get_original_name cn.db.name]) = .ok sub ∧
          ∀ e ∈ sub, e ∈ evs) := by
  intro children
  induction children with
  | nil =>
    intro i evs h
    simp only [summary_walk_children] at h
    cases h
    exact ⟨fun e he => absurd he (List.not_mem_nil _),
      fun k c hk => absurd hk (List.not_mem_nil _)⟩
  | cons child rest ih =>
    intro i evs h
    simp only [summary_walk_children] at h
    cases hc : D child.2 with
    | error e => rw [hc] at h; exact Except.noConfusion h
    | ok cn =>
      rw [hc] at h
      try dsimp only at h
      by_cases hdir : is_in_dir ≠ cn.db.is_in_dir
      · rw [if_pos hdir] at h; exact Except.noConfusion h
      · rw [if_neg hdir] at h
        have hd : cn.db.is_in_dir = is_in_dir := (not_not.mp hdir).symm
        cases ht : (if i = 0 then Except.ok traces
            else (trace_indent traces).map (fun indent => [indent])) with
        | error e => rw [ht] at h; exact Except.noConfusion h
        | ok temp =>
          rw [ht] at h
          try dsimp only at h
          cases h1 : call child.2 (temp ++ [get_original_name cn.db.name])
              (full_traces ++ [get_original_name cn.db.name]) with
          | error e => rw [h1] at h; exact Except.noConfusion h
          | ok sub =>
            rw [h1] at h
            try dsimp only at h
            cases h2 : summary_walk_children D call traces full_traces is_in_dir rest
                (i + 1) with
            | error e => rw [h2] at h; exact Except.noConfusion h
            | ok more =>
              rw [h2] at h
              try dsimp only at h
              cases h
              obtain ⟨ih1, ih2⟩ := ih _ _ h2
              constructor
              · intro e he
                rcases List.mem_append.mp he with he | he
                · exact ⟨child.1, child.2, cn, _, sub, List.mem_cons_self _ _, hc, hd, h1, he⟩
                · obtain ⟨k, c, cn2, t, sub2, hk, hc2, hd2, hcall, hin⟩ := ih1 e he
                  exact ⟨k, c, cn2, t, sub2, List.mem_cons_of_mem _ hk, hc2, hd2, hcall, hin⟩
              · intro k c hk
                rcases List.mem_cons.mp hk with hk | hk
                · have e1 : c = child.2 := congrArg Prod.snd hk
                  subst e1
                  exact ⟨cn, _, sub, hc, hd, h1, fun e he => List.mem_append_left _ he⟩
                · obtain ⟨cn2, t, sub2, hc2, hd2, hcall, hin⟩ := ih2 k c hk
                  exact ⟨cn2, t, sub2, hc2, hd2, hcall,
                    fun e he => List.mem_append_right _ (hin e he)⟩

/-- What the walk returns at a node: the node, then the events of the walks
of its children, or the leaf with the traces collected. -/
theorem summary_walk_spec (D : PrimRef → Except Fault PRIMITIVE) (is_in_dir : Bool)
    (fuel : Nat) (r : PrimRef) (traces full_traces : List CppString)
    (evs : List SummaryEvent)
    (h : summary_walk D is_in_dir (fuel + 1) r traces full_traces = .ok evs) :
    ∃ p : PRIMITIVE, D r = .ok p ∧
      ((p.child = [] ∧ evs = [SummaryEvent.node p, SummaryEvent.leaf traces full_traces]) ∨
       (p.child ≠ [] ∧ ∃ sub, evs = SummaryEvent.node p :: sub ∧
          summary_walk_children D (fun c t f => summary_walk D is_in_dir fuel c t f)
            traces full_traces is_in_dir p.child 0 = .ok sub)) := by
  simp only [summary_walk] at h
  by_cases hl : traces.length = 0
  · rw [if_pos hl] at h; exact Except.noConfusion h
  · rw [if_neg hl] at h
    cases hr : D r with
    | error e => rw [hr] at h; exact Except.noConfusion h
    | ok p =>
      rw [hr] at h
      try dsimp only at h
      refine ⟨p, rfl, ?_⟩
      by_cases hch : p.child.length ≠ 0
      · rw [if_pos hch] at h
        cases hs : summary_walk_children D (fun c t f => summary_walk D is_in_dir fuel c t f)
            traces full_traces is_in_dir p.child 0 with
        | error e => rw [hs] at h; exact Except.noConfusion h
        | ok sub =>
          rw [hs] at h
          try dsimp only at h
          cases h
          exact Or.inr ⟨fun e => hch (by rw [e]; rfl), sub, rfl, rfl⟩
      · rw [if_neg hch] at h
        cases h
        exact Or.inl ⟨List.length_eq_zero.mp (not_not.mp hch), rfl⟩

theorem summary_walk_sound (D : PrimRef → Except Fault PRIMITIVE) (is_in_dir : Bool) :
    ∀ (fuel : Nat) (r : PrimRef) (traces full_traces : List CppString)
      (evs : List SummaryEvent),
      summary_walk D is_in_dir fuel r traces full_traces = .ok evs →
      (∀ p, SummaryEvent.node p ∈ evs → InChain D r p) ∧
      (∀ t names, SummaryEvent.leaf t names ∈ evs → LeafChain D r full_traces names) ∧
      (∀ p, SummaryEvent.node p ∈ evs → (∀ p0, D r = .ok p0 → p0.db.is_in_dir = is_in_dir) →
        p.db.is_in_dir = is_in_dir) := by
  intro fuel
  induction fuel with
  | zero =>
    intro r traces full_traces evs h
    simp only [summary_walk] at h
    exact Except.noConfusion h
  | succ fuel ih =>
    intro r traces full_traces evs h
    obtain ⟨p0, hr, hcase⟩ := summary_walk_spec D is_in_dir fuel r traces full_traces evs h
    rcases hcase with ⟨hch, hev⟩ | ⟨hch, sub, hev, hsub⟩
    · subst hev
      refine ⟨?_, ?_, ?_⟩
      · intro p hp
        simp only [List.mem_cons, SummaryEvent.node.injEq, List.mem_singleton,
          reduceCtorEq, or_false, List.not_mem_nil] at hp
        rw [hp]
        exact InChain.root r p0 hr
      · intro t names hp
        simp only [List.mem_cons, SummaryEvent.leaf.injEq, List.mem_singleton,
          reduceCtorEq, false_or, List.not_mem_nil, or_false] at hp
        rw [hp.2]
        exact LeafChain.leaf r p0 full_traces hr hch
      · intro p hp hroot
        simp only [List.mem_cons, SummaryEvent.node.injEq, List.mem_singleton,
          reduceCtorEq, or_false, List.not_mem_nil] at hp
        rw [hp]
        exact hroot p0 hr
    · subst hev
      obtain ⟨hs1, -⟩ := summary_walk_children_spec D _ traces full_traces is_in_dir _ _ _ hsub
      refine ⟨?_, ?_, ?_⟩
      · intro p hp
        rcases List.mem_cons.mp hp with hp | hp
        · cases hp
          exact InChain.root r p0 hr
        · obtain ⟨k, c, cn, t, sub2, hk, hc, hd, hcall, hin⟩ := hs1 _ hp
          exact InChain.step r c p0 p k hr hk ((ih _ _ _ _ hcall).1 p hin)
      · intro t names hp
        rcases List.mem_cons.mp hp with hp | hp
        · cases hp
        · obtain ⟨k, c, cn, t2, sub2, hk, hc, hd, hcall, hin⟩ := hs1 _ hp
          exact LeafChain.step r c p0 cn k full_traces names hr hk hc
            ((ih _ _ _ _ hcall).2.1 t names hin)
      · intro p hp hroot
        rcases List.mem_cons.mp hp with hp | hp
        · cases hp
          exact hroot p0 hr
        · obtain ⟨k, c, cn, t, sub2, hk, hc, hd, hcall, hin⟩ := hs1 _ hp
          exact (ih _ _ _ _ hcall).2.2 p hin
            (fun q hq => by rw [hc] at hq; cases hq; exact hd)

theorem summary_walk_nodes_complete (D : PrimRef → Except Fault PRIMITIVE) (is_in_dir : Bool)
    (r : PrimRef) (p : PRIMITIVE) (hin : InChain D r p) :
    ∀ (fuel : Nat) (traces full_traces : List CppString) (evs : List SummaryEvent),
      summary_walk D is_in_dir fuel r traces full_traces = .ok evs →
      SummaryEvent.node p ∈ evs := by
  induction hin with
  | root r p hr =>
    intro fuel traces full_traces evs h
    cases fuel with
    | zero => simp only [summary_walk] at h; exact Except.noConfusion h
    | succ fuel =>
      obtain ⟨p0, hr0, hcase⟩ := summary_walk_spec D is_in_dir fuel r traces full_traces evs h
      rw [hr] at hr0
      cases hr0
      rcases hcase with ⟨-, hev⟩ | ⟨-, sub, hev, -⟩
      · rw [hev]; exact List.mem_cons_self _ _
      · rw [hev]; exact List.mem_cons_self _ _
  | step r c p0 p k hr hk _ ih =>
    intro fuel traces full_traces evs h
    cases fuel with
    | zero => simp only [summary_walk] at h; exact Except.noConfusion h
    | succ fuel =>
      obtain ⟨p1, hr1, hcase⟩ := summary_walk_spec D is_in_dir fuel r traces full_traces evs h
      rw [hr] at hr1
      cases hr1
      rcases hcase with ⟨hch, -⟩ | ⟨-, sub, hev, hsub⟩
      · rw [hch] at hk; exact absurd hk (List.not_mem_nil _)
      · obtain ⟨-, hs2⟩ :=
          summary_walk_children_spec D _ traces full_traces is_in_dir _ _ _ hsub
        obtain ⟨cn, t, sub2, hc, hd, hcall, hall⟩ := hs2 k c hk
        rw [hev]
        exact List.mem_cons_of_mem _ (hall _ (ih _ _ _ _ hcall))

theorem summary_walk_chains_complete (D : PrimRef → Except Fault PRIMITIVE) (is_in_dir : Bool)
    (r : PrimRef) (start names : List CppString) (hin : LeafChain D r start names) :
    ∀ (fuel : Nat) (traces : List CppString) (evs : List SummaryEvent),
      summary_walk D is_in_dir fuel r traces start = .ok evs →
      ∃ t, SummaryEvent.leaf t names ∈ evs := by
  induction hin with
  | leaf r p start hr hch =>
    intro fuel traces evs h
    cases fuel with
    | zero => simp only [summary_walk] at h; exact Except.noConfusion h
    | succ fuel =>
      obtain ⟨p0, hr0, hcase⟩ := summary_walk_spec D is_in_dir fuel r traces start evs h
      rw [hr] at hr0
      cases hr0
      rcases hcase with ⟨-, hev⟩ | ⟨hne, -⟩
      · rw [hev]; exact ⟨traces, List.mem_cons_of_mem _ (List.mem_cons_self _ _)⟩
      · exact absurd hch hne
  | step r c p cn k start names hr hk hc _ ih =>
    intro fuel traces evs h
    cases fuel with
    | zero => simp only [summary_walk] at h; exact Except.noConfusion h
    | succ fuel =>
      obtain ⟨p1, hr1, hcase⟩ := summary_walk_spec D is_in_dir fuel r traces start evs h
      rw [hr] at hr1
      cases hr1
      rcases hcase with ⟨hch, -⟩ | ⟨-, sub, hev, hsub⟩
      · rw [hch] at hk; exact absurd hk (List.not_mem_nil _)
      · obtain ⟨-, hs2⟩ :=
          summary_walk_children_spec D _ traces start is_in_dir _ _ _ hsub
        obtain ⟨cn2, t, sub2, hc2, hd, hcall, hall⟩ := hs2 k c hk
        rw [hc] at hc2
        cases hc2
        obtain ⟨t2, ht2⟩ := ih _ _ _ hcall
        rw [hev]
        exact ⟨t2, List.mem_cons_of_mem _ (hall _ ht2)⟩

/-! ### Pins under the loops of `summarize` -/

theorem find_pin_eq (name : CppString) (dir_in : Bool) :
    ∀ (pins : List PIN_PORT) (k : Nat),
      find_pin name dir_in pins k =
        if (name, dir_in) ∈ pins.map pin_key then
          some (k + @List.indexOf _ instBEqOfDecidableEq (name, dir_in) (pins.map pin_key))
        else none := by
  intro pins
  induction pins with
  | nil => intro k; simp [find_pin]
  | cons q rest ih =>
    intro k
    have hcond : (q.name = name ∧ ((q.is_input = true ∧ dir_in = true) ∨
        (q.is_input = false ∧ dir_in = false))) ↔ pin_key q = (name, dir_in) := by
      unfold pin_key
      rw [Prod.mk.injEq]
      cases q.is_input <;> cases dir_in <;> simp
    by_cases hk : pin_key q = (name, dir_in)
    · rw [find_pin, if_pos (hcond.mpr hk), List.map_cons, hk, if_pos (List.mem_cons_self _ _),
        List.indexOf_cons_self]
      rfl
    · rw [find_pin, if_neg (fun h => hk (hcond.mp h)), ih]
      have hk2 : ¬ ((name, dir_in) = pin_key q) := fun h => hk h.symm
      rw [List.map_cons, List.indexOf_cons_ne _ hk]
      simp only [List.mem_cons, hk2, false_or]
      split
      · congr 1; omega
      · rfl

theorem find_pin_congr (name : CppString) (dir_in : Bool) (pins pins2 : List PIN_PORT)
    (h : pins2.map pin_key = pins.map pin_key) (k : Nat) :
    find_pin name dir_in pins2 k = find_pin name dir_in pins k := by
  rw [find_pin_eq, find_pin_eq, h]

theorem pin_hits_congr (objects : List CppString) (dir_in : Bool) (pins pins2 : List PIN_PORT)
    (h : pins2.map pin_key = pins.map pin_key) (j : Nat) :
    pin_hits pins2 objects dir_in j = pin_hits pins objects dir_in j := by
  unfold pin_hits
  congr 2
  funext o
  rw [find_pin_congr o dir_in pins pins2 h]

theorem pin_hits_cons (pins : List PIN_PORT) (o : CppString) (rest : List CppString)
    (dir_in : Bool) (j : Nat) :
    pin_hits pins (o :: rest) dir_in j =
      (if find_pin o dir_in pins 0 = some j then 1 else 0) + pin_hits pins rest dir_in j := by
  unfold pin_hits
  by_cases h : find_pin o dir_in pins 0 = some j
  · rw [List.filter_cons_of_pos (by simpa using h), if_pos h, List.length_cons]
    omega
  · rw [List.filter_cons_of_neg (by simpa using h), if_neg h]
    omega

theorem map_key_set (pins : List PIN_PORT) (idx : Nat) (pin pin2 : PIN_PORT)
    (h : pins[idx]? = some pin) (hk : pin_key pin2 = pin_key pin) :
    (pins.set idx pin2).map pin_key = pins.map pin_key := by
  apply List.ext_getElem?
  intro i
  rw [List.getElem?_map, List.getElem?_map, List.getElem?_set]
  by_cases hi : idx = i
  · subst hi
    rw [if_pos rfl, h]
    have hlt : idx < pins.length := by
      rcases Nat.lt_or_ge idx pins.length with hl | hl
      · exact hl
      · rw [List.getElem?_eq_none hl] at h; exact Option.noConfusion h
    simp [hlt, hk]
  · rw [if_neg hi]

theorem pinSteps_effect (R : PIN_PORT → PIN_PORT → Prop) (dir_in : Bool)
    (hR : ∀ q q2, R q q2 → pin_key q2 = pin_key q) :
    ∀ (objects : List CppString) (pins pins2 : List PIN_PORT),
      PinSteps R dir_in objects pins pins2 →
      pins2.map pin_key = pins.map pin_key ∧
      ∀ (j : Nat) (q : PIN_PORT), pins[j]? = some q →
        ∃ q2, pins2[j]? = some q2 ∧ IterRel R (pin_hits pins objects dir_in j) q q2 := by
  intro objects pins pins2 h
  induction h with
  | nil pins =>
    refine ⟨rfl, fun j q hq => ⟨q, hq, ?_⟩⟩
    simp only [pin_hits, List.filter_nil, List.length_nil, IterRel]
  | cons o rest pins pins2 idx pin pin2 hf hp hr _ ih =>
    obtain ⟨ihk, ihp⟩ := ih
    have hkeys : (pins.set idx pin2).map pin_key = pins.map pin_key :=
      map_key_set pins idx pin pin2 hp (hR _ _ hr)
    refine ⟨ihk.trans hkeys, ?_⟩
    intro j q hq
    have hlt : idx < pins.length := by
      rcases Nat.lt_or_ge idx pins.length with hl | hl
      · exact hl
      · rw [List.getElem?_eq_none hl] at hp; exact Option.noConfusion hp
    rw [pin_hits_cons]
    by_cases hj : idx = j
    · subst hj
      rw [hp] at hq
      cases hq
      have h1 : (pins.set idx pin2)[idx]? = some pin2 := by
        rw [List.getElem?_set, if_pos rfl]
        simp [hlt]
      obtain ⟨q2, hq2, hit⟩ := ihp idx pin2 h1
      rw [pin_hits_congr rest dir_in pins _ hkeys] at hit
      refine ⟨q2, hq2, ?_⟩
      rw [if_pos hf, Nat.add_comm]
      exact ⟨pin2, hr, hit⟩
    · have h1 : (pins.set idx pin2)[j]? = some q := by
        rw [List.getElem?_set, if_neg hj]
        exact hq
      obtain ⟨q2, hq2, hit⟩ := ihp j q h1
      rw [pin_hits_congr rest dir_in pins _ hkeys] at hit
      refine ⟨q2, hq2, ?_⟩
      have hne : ¬ (find_pin o dir_in pins 0 = some j) := by
        rw [hf]
        intro e
        exact hj (Option.some.inj e)
      rw [if_neg hne, Nat.zero_add]
      exact hit

theorem get_pin_info_dir (st : Extractor) (name : CppString) (b : Bool) :
    get_pin_info st name (if b then IO_DIR.IN else IO_DIR.OUT) =
      .ok (find_pin name b st.m_pin_infos 0) := by
  cases b <;> simp [get_pin_info]

theorem ddr_not_serdes (p : PRIMITIVE) (hd : IsDdrType p) : ¬ IsSerdesType p := by
  rcases hd with hd | hd <;> rintro (hs | hs | hs) <;> rw [hd] at hs <;>
    exact absurd hs (by decide)

theorem modeStep_ddr (p : PRIMITIVE) (m : CppString) (hd : IsDdrType p)
    (hm : ¬ m.length ≠ 0) : ModeStep p m "DDR".toList :=
  ⟨fun _ => ⟨List.length_eq_zero.mp (not_not.mp hm), rfl⟩,
   fun hs => absurd hs (ddr_not_serdes p hd),
   fun hn _ => absurd hd hn⟩

theorem modeStep_serdes (p : PRIMITIVE) (m m2 : CppString) (hd : ¬ IsDdrType p)
    (hst : IsSerdesType p) (hm : ¬ m.length ≠ 0) (h2 : m2 ≠ []) (hs : SerdesMode p m2) :
    ModeStep p m m2 :=
  ⟨fun h => absurd h hd,
   fun _ => ⟨List.length_eq_zero.mp (not_not.mp hm), h2, hs⟩,
   fun _ hn => absurd hst hn⟩

theorem update_pin_info_step (st st2 : Extractor) (o : CppString) (p : PRIMITIVE)
    (h : update_pin_info st o p = .ok st2) :
    ∃ (idx : Nat) (pin pin2 : PIN_PORT),
      find_pin o p.db.is_in_dir st.m_pin_infos 0 = some idx ∧
      st.m_pin_infos[idx]? = some pin ∧ NodeRel p pin pin2 ∧
      st2.m_pin_infos = st.m_pin_infos.set idx pin2 := by
  unfold update_pin_info at h
  rw [get_pin_info_dir] at h
  cases hf : find_pin o p.db.is_in_dir st.m_pin_infos 0 with
  | none =>
    simp only [bind, Except.bind, pure, Except.pure, throw, throwThe, MonadExceptOf.throw,
      hf] at h
    exact Except.noConfusion h
  | some idx =>
    cases hp : st.m_pin_infos[idx]? with
    | none =>
      simp only [bind, Except.bind, pure, Except.pure, throw, throwThe, MonadExceptOf.throw,
        hf, hp] at h
      exact Except.noConfusion h
    | some pin =>
      refine ⟨idx, pin, ?_⟩
      simp only [bind, Except.bind, pure, Except.pure, throw, throwThe, MonadExceptOf.throw,
        hf, hp] at h
      by_cases hd : p.db.name = "\\I_DDR".toList ∨ p.db.name = "\\O_DDR".toList
      · rw [if_pos hd] at h
        by_cases hm : pin.mode.length ≠ 0
        · rw [if_pos hm] at h; exact Except.noConfusion h
        · rw [if_neg hm] at h
          have hms := modeStep_ddr p pin.mode hd hm
          repeat' split at h
          all_goals first
            | exact Except.noConfusion h
            | (cases h; refine ⟨_, rfl, hp, ?_, rfl⟩; exact ⟨rfl, rfl, rfl, rfl, rfl, hms⟩)
      · rw [if_neg hd] at h
        by_cases hs : p.db.name = "\\I_SERDES".toList ∨ p.db.name = "\\O_SERDES".toList ∨
            p.db.name = "\\O_SERDES_CLK".toList
        · rw [if_pos hs] at h
          by_cases hm : pin.mode.length ≠ 0
          · rw [if_pos hm] at h; exact Except.noConfusion h
          · rw [if_neg hm] at h
            have hm0 : pin.mode = [] := List.length_eq_zero.mp (not_not.mp hm)
            cases hw : CppMap.find p.parameters "\\WIDTH".toList with
            | some w =>
              rw [hw] at h
              try dsimp only at h
              cases hv : stoi w with
              | error e => rw [hv] at h; exact Except.noConfusion h
              | ok v =>
                rw [hv] at h
                try dsimp only at h
                have hne : ("RATE_".toList ++ fmt_d v) ≠ [] := by
                  intro e
                  exact absurd (congrArg List.length e) (by simp)
                have hl : ¬ ("RATE_".toList ++ fmt_d v).length = 0 :=
                  fun e => hne (List.length_eq_zero.mp e)
                rw [if_neg hl] at h
                have hms : ModeStep p pin.mode ("RATE_".toList ++ fmt_d v) :=
                  modeStep_serdes p _ _ hd hs hm hne
                    ⟨fun w2 hw2 => by
                        rw [hw] at hw2; cases hw2; exact ⟨v, hv, rfl⟩,
                     fun hn => by rw [hw] at hn; exact Option.noConfusion hn,
                     fun hn => by rw [hw] at hn; exact Option.noConfusion hn,
                     fun hn => by rw [hw] at hn; exact Option.noConfusion hn⟩
                repeat' split at h
                all_goals first
                  | exact Except.noConfusion h
                  | (cases h; refine ⟨_, rfl, hp, ?_, rfl⟩; exact ⟨rfl, rfl, rfl, rfl, rfl, hms⟩)
            | none =>
              rw [hw] at h
              try dsimp only at h
              cases hdr : CppMap.find p.parameters "\\DATA_RATE".toList with
              | some d =>
                rw [hdr] at h
                try dsimp only at h
                by_cases hl : (get_param_string d).length = 0
                · rw [if_pos hl] at h
                  have hms : ModeStep p pin.mode "SDR".toList :=
                    modeStep_serdes p _ _ hd hs hm (by decide)
                      ⟨fun w2 hw2 => by rw [hw] at hw2; exact Option.noConfusion hw2,
                       fun _ d2 hd2 hne => by
                        rw [hdr] at hd2; cases hd2
                        exact absurd (List.length_eq_zero.mp hl) hne,
                       fun _ _ _ _ => rfl,
                       fun _ _ => rfl⟩
                  repeat' split at h
                  all_goals first
                    | exact Except.noConfusion h
                    | (cases h; refine ⟨_, rfl, hp, ?_, rfl⟩; exact ⟨rfl, rfl, rfl, rfl, rfl, hms⟩)
                · rw [if_neg hl] at h
                  have hne : get_param_string d ≠ [] := fun e => hl (by rw [e]; rfl)
                  have hms : ModeStep p pin.mode (get_param_string d) :=
                    modeStep_serdes p _ _ hd hs hm hne
                      ⟨fun w2 hw2 => by rw [hw] at hw2; exact Option.noConfusion hw2,
                       fun _ d2 hd2 _ => by rw [hdr] at hd2; cases hd2; rfl,
                       fun _ d2 hd2 he => by
                        rw [hdr] at hd2; cases hd2; exact absurd he hne,
                       fun _ hn => by rw [hdr] at hn; exact Option.noConfusion hn⟩
                  repeat' split at h
                  all_goals first
                    | exact Except.noConfusion h
                    | (cases h; refine ⟨_, rfl, hp, ?_, rfl⟩; exact ⟨rfl, rfl, rfl, rfl, rfl, hms⟩)
              | none =>
                rw [hdr] at h
                try dsimp only at h
                rw [if_pos (not_not.mp hm)] at h
                have hms : ModeStep p pin.mode "SDR".toList :=
                  modeStep_serdes p _ _ hd hs hm (by decide)
                    ⟨fun w2 hw2 => by rw [hw] at hw2; exact Option.noConfusion hw2,
                     fun _ d2 hd2 _ => by rw [hdr] at hd2; exact Option.noConfusion hd2,
                     fun _ _ _ _ => rfl,
                     fun _ _ => rfl⟩
                repeat' split at h
                all_goals first
                  | exact Except.noConfusion h
                  | (cases h; refine ⟨_, rfl, hp, ?_, rfl⟩; exact ⟨rfl, rfl, rfl, rfl, rfl, hms⟩)
        · rw [if_neg hs] at h
          have hms : ModeStep p pin.mode pin.mode :=
            ⟨fun h => absurd h hd, fun h => absurd h hs, fun _ _ => rfl⟩
          repeat' split at h
          all_goals first
            | exact Except.noConfusion h
            | (cases h; refine ⟨_, rfl, hp, ?_, rfl⟩; exact ⟨rfl, rfl, rfl, rfl, rfl, hms⟩)

theorem update_pin_info_fold_steps (p : PRIMITIVE) :
    ∀ (objects : List CppString) (st st2 : Extractor),
      objects.foldlM (fun st object => update_pin_info st object p) st = .ok st2 →
      PinSteps (NodeRel p) p.db.is_in_dir objects st.m_pin_infos st2.m_pin_infos := by
  intro objects
  induction objects with
  | nil =>
    intro st st2 h
    simp only [List.foldlM, pure, Except.pure] at h
    cases h
    exact PinSteps.nil _
  | cons o rest ih =>
    intro st st2 h
    simp only [List.foldlM, bind, Except.bind] at h
    cases h1 : update_pin_info st o p with
    | error e => rw [h1] at h; exact Except.noConfusion h
    | ok s1 =>
      rw [h1] at h
      try dsimp only at h
      obtain ⟨idx, pin, pin2, hf, hp, hr, hset⟩ := update_pin_info_step st s1 o p h1
      have hrest := ih s1 st2 h
      rw [hset] at hrest
      exact PinSteps.cons o rest _ _ idx pin pin2 hf hp hr hrest

theorem store_pin_traces_steps (traces full_traces : List CppString) (is_in_dir : Bool) :
    ∀ (objects : List CppString) (st st2 : Extractor),
      store_pin_traces traces full_traces is_in_dir objects st = .ok st2 →
      PinSteps (LeafRel traces full_traces is_in_dir) is_in_dir objects
        st.m_pin_infos st2.m_pin_infos := by
  intro objects
  induction objects with
  | nil =>
    intro st st2 h
    simp only [store_pin_traces] at h
    cases h
    exact PinSteps.nil _
  | cons o rest ih =>
    intro st st2 h
    rw [store_pin_traces, get_pin_info_dir] at h
    simp only [bind, Except.bind, pure, Except.pure, throw, throwThe, MonadExceptOf.throw,
      update_pin_traces] at h
    cases hf : find_pin o is_in_dir st.m_pin_infos 0 with
    | none => rw [hf] at h; exact Except.noConfusion h
    | some idx =>
      rw [hf] at h
      try dsimp only at h
      cases hp : st.m_pin_infos[idx]? with
      | none => rw [hp] at h; exact Except.noConfusion h
      | some pin =>
        rw [hp] at h
        try dsimp only at h
        cases ht : join_trace " |-> ".toList
            (if is_in_dir then traces else traces.reverse) [] with
        | error e => simp only [ht] at h; exact Except.noConfusion h
        | ok t =>
          cases hft : join_trace " |-> ".toList
              (if is_in_dir then full_traces else full_traces.reverse) [] with
          | error e => simp only [ht, hft] at h; exact Except.noConfusion h
          | ok f =>
            simp only [ht, hft] at h
            have hrest := ih _ st2 h
            exact PinSteps.cons o rest _ _ idx pin
              { pin with traces := pin.traces ++ [t], full_traces := pin.full_traces ++ [f] }
              hf hp ⟨rfl, rfl, rfl, rfl, ⟨t, ht, rfl⟩, ⟨f, hft, rfl⟩⟩ hrest

theorem eventRel_key (is_in_dir : Bool) (e : SummaryEvent) (q q2 : PIN_PORT)
    (h : EventRel is_in_dir e q q2) : pin_key q2 = pin_key q := by
  cases e with
  | node p =>
    obtain ⟨h1, h2, -⟩ := h
    unfold pin_key
    rw [h1, h2]
  | leaf t f =>
    obtain ⟨h1, h2, -⟩ := h
    unfold pin_key
    rw [h1, h2]

theorem run_summary_event_steps (objects : List CppString) (is_in_dir : Bool)
    (e : SummaryEvent) (st st2 : Extractor)
    (h : run_summary_event objects is_in_dir st e = .ok st2)
    (hd : ∀ p, e = SummaryEvent.node p → p.db.is_in_dir = is_in_dir) :
    PinSteps (EventRel is_in_dir e) is_in_dir objects st.m_pin_infos st2.m_pin_infos := by
  cases e with
  | node p =>
    have h1 := update_pin_info_fold_steps p objects st st2 h
    rw [hd p rfl] at h1
    exact h1
  | leaf t f =>
    simp only [run_summary_event] at h
    cases hs : store_pin_traces t f is_in_dir objects st with
    | error e => rw [hs] at h; exact Except.noConfusion h
    | ok s1 =>
      rw [hs] at h
      try dsimp only at h
      cases hj : join_trace " |-> ".toList (if is_in_dir then t else t.reverse) [] with
      | error e => rw [hj] at h; exact Except.noConfusion h
      | ok x =>
        rw [hj] at h
        cases h
        exact store_pin_traces_steps t f is_in_dir objects st _ hs

theorem summary_events_run (objects : List CppString) (is_in_dir : Bool) :
    ∀ (evs : List SummaryEvent) (st st2 : Extractor),
      evs.foldlM (run_summary_event objects is_in_dir) st = .ok st2 →
      (∀ p, SummaryEvent.node p ∈ evs → p.db.is_in_dir = is_in_dir) →
      st2.m_pin_infos.map pin_key = st.m_pin_infos.map pin_key ∧
      ∀ (j : Nat) (q : PIN_PORT), st.m_pin_infos[j]? = some q →
        ∃ q2, st2.m_pin_infos[j]? = some q2 ∧
          PinRun is_in_dir (pin_hits st.m_pin_infos objects is_in_dir j) evs q q2 := by
  intro evs
  induction evs with
  | nil =>
    intro st st2 h _
    simp only [List.foldlM, pure, Except.pure] at h
    cases h
    exact ⟨rfl, fun j q hq => ⟨q, hq, rfl⟩⟩
  | cons e rest ih =>
    intro st st2 h hd
    simp only [List.foldlM, bind, Except.bind] at h
    cases h1 : run_summary_event objects is_in_dir st e with
    | error err => rw [h1] at h; exact Except.noConfusion h
    | ok s1 =>
      rw [h1] at h
      try dsimp only at h
      have hsteps := run_summary_event_steps objects is_in_dir e st s1 h1
        (fun p hp => hd p (by rw [hp]; exact List.mem_cons_self _ _))
      obtain ⟨hk1, hp1⟩ :=
        pinSteps_effect _ is_in_dir (eventRel_key is_in_dir e) objects _ _ hsteps
      obtain ⟨hk2, hp2⟩ := ih s1 st2 h (fun p hp => hd p (List.mem_cons_of_mem _ hp))
      refine ⟨hk2.trans hk1, ?_⟩
      intro j q hq
      obtain ⟨q1, hq1, hit1⟩ := hp1 j q hq
      obtain ⟨q2, hq2, hrun⟩ := hp2 j q1 hq1
      rw [pin_hits_congr objects is_in_dir _ _ hk1] at hrun
      exact ⟨q2, hq2, q1, hit1, hrun⟩

/-! ### What a walk leaves in a pin -/

theorem intercalate_cons_cons (sep a b : CppString) (rest : List CppString) :
    List.intercalate sep (a :: b :: rest) = a ++ sep ++ List.intercalate sep (b :: rest) := by
  simp [List.intercalate, List.intersperse]

theorem intercalate_single (sep a : CppString) : List.intercalate sep [a] = a := by
  simp [List.intercalate, List.intersperse]

theorem join_trace_acc (sep : CppString) (hsep : ∀ c ∈ sep, c.toNat ≠ 0) :
    ∀ (l : List CppString) (acc x : CppString),
      (∀ t ∈ l, ∀ c ∈ t, c.toNat ≠ 0) → (∀ c ∈ acc, c.toNat ≠ 0) → acc ≠ [] →
      join_trace sep l acc = .ok x → x = List.intercalate sep (acc :: l) := by
  intro l
  induction l with
  | nil =>
    intro acc x _ _ _ h
    simp only [join_trace] at h
    cases h
    exact (intercalate_single sep acc).symm
  | cons t rest ih =>
    intro acc x hl hacc hne h
    simp only [join_trace] at h
    by_cases ht : t.length = 0
    · rw [if_pos ht] at h; exact Except.noConfusion h
    · rw [if_neg ht] at h
      have hlen : acc.length ≠ 0 := fun e => hne (List.length_eq_zero.mp e)
      rw [if_pos hlen] at h
      have htn : ∀ c ∈ t, c.toNat ≠ 0 := hl t (List.mem_cons_self _ _)
      rw [c_str_of_no_nul acc hacc, c_str_of_no_nul t htn] at h
      have h2 := ih (acc ++ sep ++ t) x
        (fun t2 ht2 => hl t2 (List.mem_cons_of_mem _ ht2))
        (fun c hc => by
          rcases List.mem_append.mp hc with hc | hc
          · rcases List.mem_append.mp hc with hc | hc
            · exact hacc c hc
            · exact hsep c hc
          · exact htn c hc)
        (fun e => hne (List.append_eq_nil.mp (List.append_eq_nil.mp e).1).1) h
      rw [h2, intercalate_cons_cons sep acc t rest]
      cases rest with
      | nil => rw [intercalate_single, intercalate_single]
      | cons r rs =>
        rw [intercalate_cons_cons, intercalate_cons_cons]
        simp only [List.append_assoc]

/-- The trace loops join names that hold no NUL by the separator. -/
theorem join_trace_intercalate (sep : CppString) (hsep : ∀ c ∈ sep, c.toNat ≠ 0)
    (l : List CppString) (x : CppString) (hl : ∀ t ∈ l, ∀ c ∈ t, c.toNat ≠ 0)
    (h : join_trace sep l [] = .ok x) : x = List.intercalate sep l := by
  cases l with
  | nil =>
    simp only [join_trace] at h
    cases h
    rfl
  | cons t rest =>
    simp only [join_trace] at h
    by_cases ht : t.length = 0
    · rw [if_pos ht] at h; exact Except.noConfusion h
    · rw [if_neg ht] at h
      simp only [List.length_nil, ne_eq, not_true_eq_false, if_false] at h
      exact join_trace_acc sep hsep rest t x
        (fun t2 ht2 => hl t2 (List.mem_cons_of_mem _ ht2))
        (hl t (List.mem_cons_self _ _)) (fun e => ht (by rw [e]; rfl)) h

theorem iterRel_one (R : PIN_PORT → PIN_PORT → Prop) (q q2 : PIN_PORT)
    (h : IterRel R 1 q q2) : R q q2 := by
  obtain ⟨q1, h1, h2⟩ := h
  simp only [IterRel] at h2
  rw [h2]
  exact h1

theorem pinRun_zero (is_in_dir : Bool) :
    ∀ (evs : List SummaryEvent) (q q2 : PIN_PORT), PinRun is_in_dir 0 evs q q2 → q2 = q := by
  intro evs
  induction evs with
  | nil => intro q q2 h; exact h
  | cons e rest ih =>
    intro q q2 h
    obtain ⟨q1, h1, h2⟩ := h
    simp only [IterRel] at h1
    rw [ih _ _ h2, h1]

theorem pinRun_one_kept (is_in_dir : Bool) :
    ∀ (evs : List SummaryEvent) (q q2 : PIN_PORT), PinRun is_in_dir 1 evs q q2 →
      q2.name = q.name ∧ q2.is_input = q.is_input ∧ q2.primitive = q.primitive := by
  intro evs
  induction evs with
  | nil => intro q q2 h; rw [show q2 = q from h]; exact ⟨rfl, rfl, rfl⟩
  | cons e rest ih =>
    intro q q2 h
    obtain ⟨q1, h1, h2⟩ := h
    have hr := iterRel_one _ _ _ h1
    obtain ⟨a, b, c⟩ := ih _ _ h2
    cases e with
    | node p =>
      obtain ⟨a1, b1, c1, -⟩ := hr
      exact ⟨a.trans a1, b.trans b1, c.trans c1⟩
    | leaf t f =>
      obtain ⟨a1, b1, c1, -⟩ := hr
      exact ⟨a.trans a1, b.trans b1, c.trans c1⟩

theorem pinRun_one_mode (is_in_dir : Bool) :
    ∀ (evs : List SummaryEvent) (q q2 : PIN_PORT), PinRun is_in_dir 1 evs q q2 →
      ModeFold (walk_nodes evs) q.mode q2.mode := by
  intro evs
  induction evs with
  | nil => intro q q2 h; rw [show q2 = q from h]; exact rfl
  | cons e rest ih =>
    intro q q2 h
    obtain ⟨q1, h1, h2⟩ := h
    have hr := iterRel_one _ _ _ h1
    have h3 := ih _ _ h2
    cases e with
    | node p =>
      obtain ⟨-, -, -, -, -, hm⟩ := hr
      exact ⟨q1.mode, hm, h3⟩
    | leaf t f =>
      obtain ⟨-, -, -, hm, -⟩ := hr
      simp only [walk_nodes]
      rw [← hm]
      exact h3

theorem pinRun_one_full_traces (is_in_dir : Bool) :
    ∀ (evs : List SummaryEvent) (q q2 : PIN_PORT), PinRun is_in_dir 1 evs q q2 →
      ∃ texts : List CppString, q2.full_traces = q.full_traces ++ texts ∧
        List.Forall₂ (fun names text =>
          join_trace " |-> ".toList (if is_in_dir then names else names.reverse) [] = .ok text)
          (walk_chains evs) texts := by
  intro evs
  induction evs with
  | nil =>
    intro q q2 h
    rw [show q2 = q from h]
    exact ⟨[], (List.append_nil _).symm, List.Forall₂.nil⟩
  | cons e rest ih =>
    intro q q2 h
    obtain ⟨q1, h1, h2⟩ := h
    have hr := iterRel_one _ _ _ h1
    obtain ⟨texts, ht, hall⟩ := ih _ _ h2
    cases e with
    | node p =>
      obtain ⟨-, -, -, -, hf, -⟩ := hr
      refine ⟨texts, ?_, hall⟩
      rw [ht, hf]
    | leaf t f =>
      obtain ⟨-, -, -, -, -, ⟨x, hx, hf⟩⟩ := hr
      refine ⟨x :: texts, ?_, List.Forall₂.cons hx hall⟩
      rw [ht, hf, List.append_assoc]
      rfl

theorem modeFold_nonempty :
    ∀ (nodes : List PRIMITIVE) (m m2 : CppString), ModeFold nodes m m2 → m ≠ [] → m2 = m := by
  intro nodes
  induction nodes with
  | nil => intro m m2 h _; exact h
  | cons p rest ih =>
    intro m m2 h hne
    obtain ⟨m1, hs, hf⟩ := h
    obtain ⟨h1, h2, h3⟩ := hs
    by_cases hd : IsDdrType p
    · exact absurd (h1 hd).1 hne
    · by_cases hsd : IsSerdesType p
      · exact absurd (h2 hsd).1 hne
      · have e : m1 = m := h3 hd hsd
        rw [e] at hf
        exact ih _ _ hf hne

theorem modeFold_none :
    ∀ (nodes : List PRIMITIVE) (m m2 : CppString), ModeFold nodes m m2 →
      (∀ p ∈ nodes, ¬ IsDdrType p ∧ ¬ IsSerdesType p) → m2 = m := by
  intro nodes
  induction nodes with
  | nil => intro m m2 h _; exact h
  | cons p rest ih =>
    intro m m2 h hall
    obtain ⟨m1, hs, hf⟩ := h
    obtain ⟨hd, hsd⟩ := hall p (List.mem_cons_self _ _)
    have e : m1 = m := hs.2.2 hd hsd
    rw [e] at hf
    exact ih _ _ hf (fun p2 hp2 => hall p2 (List.mem_cons_of_mem _ hp2))

theorem modeFold_mem :
    ∀ (nodes : List PRIMITIVE) (m m2 : CppString), ModeFold nodes m m2 →
      ∀ p ∈ nodes, (IsDdrType p ∨ IsSerdesType p) → ModeStep p [] m2 := by
  intro nodes
  induction nodes with
  | nil => intro m m2 _ p hp; exact absurd hp (List.not_mem_nil _)
  | cons p0 rest ih =>
    intro m m2 h p hp hmode
    obtain ⟨m1, hs, hf⟩ := h
    rcases List.mem_cons.mp hp with hp | hp
    · subst hp
      have hm1 : m1 ≠ [] := by
        rcases hmode with hd | hsd
        · rw [(hs.1 hd).2]; decide
        · exact (hs.2.1 hsd).2.1
      have hm0 : m = [] := by
        rcases hmode with hd | hsd
        · exact (hs.1 hd).1
        · exact (hs.2.1 hsd).1
      rw [modeFold_nonempty rest m1 m2 hf hm1, ← hm0]
      exact hs
    · exact ih m1 m2 hf p hp hmode

/-! ### The pins of `summarize()` -/

theorem getElem?_lt_of_some {α : Type} (l : List α) (j : Nat) (a : α) (h : l[j]? = some a) :
    j < l.length := by
  rcases Nat.lt_or_ge j l.length with hl | hl
  · exact hl
  · rw [List.getElem?_eq_none hl] at h; exact Option.noConfusion h

theorem pin_hits_eq (pins : List PIN_PORT) (hk : (pins.map pin_key).Nodup)
    (objects : List CppString) (dir_in : Bool) (j : Nat) (q : PIN_PORT)
    (hq : pins[j]? = some q) :
    pin_hits pins objects dir_in j =
      (objects.filter (fun o => decide (pin_key q = (o, dir_in)))).length := by
  unfold pin_hits
  congr 2
  funext o
  have hj : j < (pins.map pin_key).length := by
    rw [List.length_map]; exact getElem?_lt_of_some _ _ _ hq
  have hkj : (pins.map pin_key)[j] = pin_key q := by
    have h1 : (pins.map pin_key)[j]? = some (pin_key q) := by
      rw [List.getElem?_map, hq]; rfl
    rw [List.getElem?_eq_getElem hj] at h1
    exact Option.some.inj h1
  rw [find_pin_eq]
  by_cases hmem : (o, dir_in) ∈ pins.map pin_key
  · rw [if_pos hmem, Nat.zero_add]
    by_cases he : pin_key q = (o, dir_in)
    · have hidx : @List.indexOf _ instBEqOfDecidableEq (o, dir_in) (pins.map pin_key) = j := by
        rw [← he, ← hkj]
        exact List.indexOf_getElem hk j hj
      simp only [hidx, he, decide_True]
    · have hidx : @List.indexOf _ instBEqOfDecidableEq (o, dir_in) (pins.map pin_key) ≠ j := by
        intro e
        apply he
        subst e
        rw [← hkj]
        exact List.getElem_indexOf _
      have hne : ¬ (some (@List.indexOf _ instBEqOfDecidableEq (o, dir_in)
          (pins.map pin_key)) = some j) :=
        fun e => hidx (Option.some.inj e)
      simp only [hne, he, decide_False]
  · rw [if_neg hmem]
    have he : ¬ pin_key q = (o, dir_in) := by
      intro e
      apply hmem
      rw [← e, ← hkj]
      exact List.getElem_mem _
    simp only [he, decide_False, reduceCtorEq]

theorem filter_eq_length_one (objects : List CppString) (hn : objects.Nodup) (o0 : CppString)
    (hm : o0 ∈ objects) (P : CppString → Prop) [DecidablePred P] (hP : ∀ o, P o ↔ o = o0) :
    (objects.filter (fun o => decide (P o))).length = 1 := by
  induction objects with
  | nil => exact absurd hm (List.not_mem_nil _)
  | cons a rest ih =>
    obtain ⟨ha, hrest⟩ := List.nodup_cons.mp hn
    by_cases e : a = o0
    · rw [List.filter_cons_of_pos (by simpa using (hP a).mpr e)]
      have hnone : rest.filter (fun o => decide (P o)) = [] := by
        rw [List.filter_eq_nil_iff]
        intro o ho hpo
        have : o = o0 := (hP o).mp (by simpa using hpo)
        rw [this, ← e] at ho
        exact ha ho
      rw [hnone]
      rfl
    · rw [List.filter_cons_of_neg (by simpa using fun h => e ((hP a).mp h))]
      rcases List.mem_cons.mp hm with h | h
      · exact absurd h.symm e
      · exact ih hrest h

theorem add_pins_spec (port : PORT_PRIMITIVE) (r : PrimRef)
    (hdir : port.dir = if port.base.db.is_in_dir then IO_DIR.IN else IO_DIR.OUT) :
    ∀ (objects : List CppString) (st st2 : Extractor),
      add_pins port r objects st = .ok st2 →
      (st.m_pin_infos.map pin_key).Nodup →
      st2.m_pin_infos = st.m_pin_infos ++ objects.map (pin_of_root port r) ∧
        (st2.m_pin_infos.map pin_key).Nodup := by
  intro objects
  induction objects with
  | nil =>
    intro st st2 h hk
    simp only [add_pins] at h
    cases h
    exact ⟨by rw [List.map_nil, List.append_nil], hk⟩
  | cons o rest ih =>
    intro st st2 h hk
    rw [add_pins, hdir, get_pin_info_dir] at h
    simp only [bind, Except.bind, pure, Except.pure, throw, throwThe, MonadExceptOf.throw] at h
    by_cases hfound : find_pin o port.base.db.is_in_dir st.m_pin_infos 0 ≠ none
    · rw [if_pos hfound] at h; exact Except.noConfusion h
    · rw [if_neg hfound] at h
      try dsimp only at h
      have hnone := not_not.mp hfound
      rw [find_pin_eq] at hnone
      have hnot : (o, port.base.db.is_in_dir) ∉ st.m_pin_infos.map pin_key := by
        intro hm
        rw [if_pos hm] at hnone
        exact Option.noConfusion hnone
      obtain ⟨h1, h2⟩ := ih _ st2 h (by
        show ((st.m_pin_infos ++ [pin_of_root port r o]).map pin_key).Nodup
        rw [List.map_append, List.map_singleton]
        apply List.Nodup.append hk (List.nodup_singleton _)
        intro k hk1 hk2
        rw [List.mem_singleton] at hk2
        rw [hk2] at hk1
        exact hnot hk1)
      refine ⟨?_, h2⟩
      rw [h1]
      show (st.m_pin_infos ++ [pin_of_root port r o]) ++ _ = _
      rw [List.append_assoc]
      rfl

theorem summarize_report_pins (fuel : Nat) (D : PrimRef → Except Fault PRIMITIVE)
    (ports : List PORT_PRIMITIVE)
    (hdir : ∀ port ∈ ports,
      port.dir = if port.base.db.is_in_dir then IO_DIR.IN else IO_DIR.OUT) :
    ∀ (roots : List Nat) (st st2 : Extractor),
      st.deref = D → st.m_ports = ports →
      summarize_report fuel roots st = .ok st2 →
      (st.m_pin_infos.map pin_key).Nodup →
      (∀ q ∈ st.m_pin_infos, PinSummary D ports q) →
      ∀ q ∈ st2.m_pin_infos, PinSummary D ports q := by
  intro roots
  induction roots with
  | nil =>
    intro st st2 _ _ h _ hall
    simp only [summarize_report] at h
    cases h
    exact hall
  | cons i rest ih =>
    intro st st2 hD hP h hk hall
    simp only [summarize_report] at h
    cases hport : st.m_ports[i]? with
    | none => rw [hport] at h; exact Except.noConfusion h
    | some port =>
      rw [hport] at h
      simp only [bind, Except.bind] at h
      cases ha : add_pins port (.port i) port.linked_objects st with
      | error e => rw [ha] at h; exact Except.noConfusion h
      | ok st1 =>
        rw [ha] at h
        try dsimp only at h
        cases hl : port.linked_object with
        | error e => rw [hl] at h; exact Except.noConfusion h
        | ok name =>
          rw [hl] at h
          try dsimp only at h
          cases hs : summarize_pins port.linked_objects port.base.db.is_in_dir fuel st1
              (.port i) [get_original_name port.base.db.name]
              [get_original_name port.base.db.name] with
          | error e => rw [hs] at h; exact Except.noConfusion h
          | ok st3 =>
            rw [hs] at h
            try dsimp only at h
            have hmem : port ∈ ports := by
              rw [← hP]; exact List.mem_iff_getElem?.mpr ⟨i, hport⟩
            obtain ⟨hpins1, hk1⟩ :=
              add_pins_spec port (.port i) (hdir port hmem) _ st st1 ha hk
            have hsame1 := add_pins_same port (.port i) _ st st1 ha
            have hD1 : st1.deref = D := by rw [deref_of_sameCounts _ _ hsame1, hD]
            have hsame3 := summarize_pins_same _ _ _ _ _ _ _ _ hs
            obtain ⟨evs, hw, hf, hD3⟩ := summarize_pins_walk _ _ _ _ _ _ _ _ hs
            rw [hD1] at hw hD3
            have hroot : D (.port i) = .ok port.base := by
              rw [← hD]
              simp only [Extractor.deref, hport]
            have hnodes : ∀ p, SummaryEvent.node p ∈ evs →
                p.db.is_in_dir = port.base.db.is_in_dir := fun p hp =>
              (summary_walk_sound D _ _ _ _ _ _ hw).2.2 p hp
                (fun p0 hp0 => by rw [hroot] at hp0; cases hp0; rfl)
            obtain ⟨hk3, hrun⟩ := summary_events_run _ _ evs st1 st3 hf hnodes
            refine ih st3 st2 hD3 ?_ h (by rw [hk3]; exact hk1) ?_
            · rw [hsame3.1, hsame1.1, hP]
            · intro q2 hq2
              obtain ⟨j, hj⟩ := List.mem_iff_getElem?.mp hq2
              have hlen : st3.m_pin_infos.length = st1.m_pin_infos.length := by
                have := congrArg List.length hk3
                rw [List.length_map, List.length_map] at this
                exact this
              have hj1 : j < st1.m_pin_infos.length := by
                rw [← hlen]; exact getElem?_lt_of_some _ _ _ hj
              obtain ⟨q, hq⟩ : ∃ q, st1.m_pin_infos[j]? = some q :=
                ⟨_, List.getElem?_eq_getElem hj1⟩
              obtain ⟨q3, hq3, hpr⟩ := hrun j _ hq
              rw [hj] at hq3
              cases hq3
              rw [pin_hits_eq _ hk1 _ _ j _ hq] at hpr
              have hqmem : q ∈ st1.m_pin_infos := List.mem_iff_getElem?.mpr ⟨j, hq⟩
              have hkeys1 : (st.m_pin_infos.map pin_key ++
                  port.linked_objects.map (fun o => (o, port.base.db.is_in_dir))).Nodup := by
                have := hk1
                rw [hpins1, List.map_append, List.map_map] at this
                exact this
              by_cases hob : ∃ o0 ∈ port.linked_objects,
                  pin_key q = (o0, port.base.db.is_in_dir)
              · obtain ⟨o0, ho0, hkey⟩ := hob
                have hobj : port.linked_objects.Nodup :=
                  List.Nodup.of_map _ (List.Nodup.of_append_right hkeys1)
                have hone := filter_eq_length_one _ hobj o0 ho0
                  (fun o => pin_key q = (o, port.base.db.is_in_dir))
                  (fun o => by
                    rw [hkey]
                    constructor
                    · intro e; exact (congrArg Prod.fst e).symm
                    · intro e; rw [e])
                rw [hone] at hpr
                have hnew : pin_of_root port (.port i) o0 ∈ st1.m_pin_infos := by
                  rw [hpins1]
                  exact List.mem_append_right _ (List.mem_map_of_mem _ ho0)
                have heq : q = pin_of_root port (.port i) o0 :=
                  List.inj_on_of_nodup_map hk1 hqmem hnew (by rw [hkey]; rfl)
                rw [heq] at hpr
                have hname : q2.name = o0 := (pinRun_one_kept _ _ _ _ hpr).1
                refine ⟨i, port, fuel, evs, by rw [← hP]; exact hport, by rw [hname]; exact ho0,
                  hw, ?_⟩
                rw [hname]
                exact hpr
              · have hzero : (port.linked_objects.filter (fun o =>
                    decide (pin_key q = (o, port.base.db.is_in_dir)))).length
                      = 0 := by
                  rw [List.length_eq_zero, List.filter_eq_nil_iff]
                  intro o ho hpo
                  exact hob ⟨o, ho, by simpa using hpo⟩
                rw [hzero] at hpr
                rw [pinRun_zero _ _ _ _ hpr]
                rw [hpins1] at hqmem
                rcases List.mem_append.mp hqmem with hold | hnew
                · exact hall _ hold
                · obtain ⟨o, ho, heq⟩ := List.mem_map.mp hnew
                  exact absurd ⟨o, ho, by rw [← heq]; rfl⟩ hob

theorem summarize_pin_summary (fuel : Nat) (st st2 : Extractor)
    (h : summarize fuel st = .ok st2) (hpins : st.m_pin_infos = [])
    (hdir : ∀ port ∈ st.m_ports,
      port.dir = if port.base.db.is_in_dir then IO_DIR.IN else IO_DIR.OUT) :
    ∀ q ∈ st2.m_pin_infos, PinSummary st.deref st.m_ports q := by
  unfold summarize at h
  simp only [bind, Except.bind, pure, Except.pure, throw, throwThe, MonadExceptOf.throw] at h
  repeat' split at h
  all_goals first
    | exact Except.noConfusion h
    | exact summarize_report_pins fuel st.deref st.m_ports hdir _ st st2 rfl rfl h
        (by rw [hpins]; exact List.nodup_nil)
        (fun q hq => by rw [hpins] at hq; exact absurd hq (List.not_mem_nil _))

theorem get_original_name_no_nul (name : CppString) (h : ∀ c ∈ name, c.toNat ≠ 0) :
    ∀ c ∈ get_original_name name, c.toNat ≠ 0 := by
  intro c hc
  unfold get_original_name at hc
  split at hc
  · exact h c (List.mem_cons_of_mem _ hc)
  · exact h c hc

theorem leafChain_no_nul (D : PrimRef → Except Fault PRIMITIVE)
    (hD : ∀ r p, D r = .ok p → ∀ c ∈ p.db.name, c.toNat ≠ 0)
    (r : PrimRef) (start names : List CppString) (h : LeafChain D r start names) :
    (∀ t ∈ start, ∀ c ∈ t, c.toNat ≠ 0) → ∀ t ∈ names, ∀ c ∈ t, c.toNat ≠ 0 := by
  induction h with
  | leaf r p start _ _ => exact fun hs => hs
  | step r c p cn k start names _ _ hc _ ih =>
    intro hs
    apply ih
    intro t ht
    rcases List.mem_append.mp ht with ht | ht
    · exact hs t ht
    · rw [List.mem_singleton] at ht
      rw [ht]
      exact get_original_name_no_nul _ (hD c cn hc)

theorem deref_mem (st : Extractor) (r : PrimRef) (p : PRIMITIVE) (h : st.deref r = .ok p) :
    p ∈ st.m_ports.map (fun port => port.base) ++ st.m_child_primitives := by
  cases r with
  | port i =>
    simp only [Extractor.deref] at h
    split at h
    · rename_i port hport
      cases h
      exact List.mem_append_left _
        (List.mem_map_of_mem _ (List.mem_iff_getElem?.mpr ⟨i, hport⟩))
    · exact Except.noConfusion h
  | child i =>
    simp only [Extractor.deref] at h
    split at h
    · rename_i c hc
      cases h
      exact List.mem_append_right _ (List.mem_iff_getElem?.mpr ⟨i, hc⟩)
    · exact Except.noConfusion h

/-- C28 (amended): after `summarize()` has returned on a state without
pins, every pin belongs to a linked object of a root, and its full traces are,
one for each leaf of the chain tree of the root, the type names from the root
to the leaf joined by ` |-> `, in this order for an input-direction root and
in reverse order for an output-direction root (the roots carry the direction
of their descriptor, and no type name holds a NUL). -/
theorem C28_full_trace_joins_the_chain_names_by_bar_arrows (fuel : Nat) (st st2 : Extractor)
    (h : summarize fuel st = .ok st2) (hpins : st.m_pin_infos = [])
    (hdir : ∀ port ∈ st.m_ports,
      port.dir = if port.base.db.is_in_dir then IO_DIR.IN else IO_DIR.OUT)
    (hnul : ∀ p ∈ st.m_ports.map (fun port => port.base) ++ st.m_child_primitives,
      ∀ c ∈ p.db.name, c.toNat ≠ 0)
    (q : PIN_PORT) (hq : q ∈ st2.m_pin_infos) :
    ∃ (i : Nat) (port : PORT_PRIMITIVE) (chains : List (List CppString)),
      st.m_ports[i]? = some port ∧ q.primitive = .port i ∧
      q.name ∈ port.linked_objects ∧ q.is_input = port.base.db.is_in_dir ∧
      (∀ names, names ∈ chains ↔
        LeafChain st.deref (.port i) [get_original_name port.base.db.name] names) ∧
      q.full_traces = chains.map (fun names =>
        List.intercalate " |-> ".toList
          (if port.base.db.is_in_dir then names else names.reverse)) := by
  obtain ⟨i, port, fuel2, evs, hport, hname, hw, hrun⟩ :=
    summarize_pin_summary fuel st st2 h hpins hdir q hq
  obtain ⟨-, hin, hprim⟩ := pinRun_one_kept _ _ _ _ hrun
  obtain ⟨texts, hft, hall⟩ := pinRun_one_full_traces _ _ _ _ hrun
  have hD : ∀ r p, st.deref r = .ok p → ∀ c ∈ p.db.name, c.toNat ≠ 0 :=
    fun r p hr => hnul p (deref_mem st r p hr)
  have hroot : st.deref (.port i) = .ok port.base := by
    simp only [Extractor.deref, hport]
  have hchain : ∀ names, names ∈ walk_chains evs ↔
      LeafChain st.deref (.port i) [get_original_name port.base.db.name] names := by
    intro names
    rw [mem_walk_chains]
    constructor
    · rintro ⟨t, ht⟩
      exact (summary_walk_sound _ _ _ _ _ _ _ hw).2.1 t names ht
    · intro hl
      exact summary_walk_chains_complete _ _ _ _ _ hl _ _ _ hw
  refine ⟨i, port, walk_chains evs, hport, hprim, hname, hin, hchain, ?_⟩
  rw [hft]
  show [] ++ texts = _
  rw [List.nil_append]
  have hgood : ∀ names ∈ walk_chains evs, ∀ t ∈ names, ∀ c ∈ t, c.toNat ≠ 0 := by
    intro names hn
    refine leafChain_no_nul _ hD _ _ _ ((hchain names).mp hn) ?_
    intro t ht
    rw [List.mem_singleton] at ht
    rw [ht]
    exact get_original_name_no_nul _ (hD _ _ hroot)
  clear hchain hft hrun hw
  generalize walk_chains evs = chains at hall hgood
  induction hall with
  | nil => rfl
  | @cons names text rest_names rest_texts hx _ ih =>
    rw [List.map_cons, ← ih (fun n hn => hgood n (List.mem_cons_of_mem _ hn))]
    congr 1
    apply join_trace_intercalate _ (by decide) _ _ _ hx
    intro t ht
    have hg := hgood names (List.mem_cons_self _ _)
    by_cases hb : port.base.db.is_in_dir = true
    · rw [if_pos hb] at ht; exact hg t ht
    · rw [if_neg hb] at ht; exact hg t (List.mem_reverse.mp ht)

/-- C30 (amended): after `summarize()` has returned on a state without
pins, the mode of every pin is `DDR` if the chain tree of its root contains an
`I_DDR` or `O_DDR`; if it contains an `I_SERDES`, `O_SERDES` or `O_SERDES_CLK`,
it is `RATE_<n>` for the `WIDTH` parameter `n` of that primitive, without
`WIDTH` the value of its `DATA_RATE` parameter if that is not empty, and `SDR`
if the value is empty or neither parameter is there; and it is empty if the
chain tree contains none of these primitives. -/
theorem C30_pin_mode_follows_the_mode_primitive_of_the_chain (fuel : Nat)
    (st st2 : Extractor) (h : summarize fuel st = .ok st2) (hpins : st.m_pin_infos = [])
    (hdir : ∀ port ∈ st.m_ports,
      port.dir = if port.base.db.is_in_dir then IO_DIR.IN else IO_DIR.OUT)
    (q : PIN_PORT) (hq : q ∈ st2.m_pin_infos) :
    ∃ (i : Nat) (port : PORT_PRIMITIVE),
      st.m_ports[i]? = some port ∧ q.primitive = .port i ∧ q.name ∈ port.linked_objects ∧
      (∀ p, InChain st.deref (.port i) p → IsDdrType p → q.mode = "DDR".toList) ∧
      (∀ p, InChain st.deref (.port i) p → IsSerdesType p → SerdesMode p q.mode) ∧
      ((∀ p, InChain st.deref (.port i) p → ¬ IsDdrType p ∧ ¬ IsSerdesType p) →
        q.mode = []) := by
  obtain ⟨i, port, fuel2, evs, hport, hname, hw, hrun⟩ :=
    summarize_pin_summary fuel st st2 h hpins hdir q hq
  obtain ⟨-, -, hprim⟩ := pinRun_one_kept _ _ _ _ hrun
  have hfold : ModeFold (walk_nodes evs) [] q.mode := pinRun_one_mode _ _ _ _ hrun
  have hmem : ∀ p, InChain st.deref (.port i) p → p ∈ walk_nodes evs := fun p hp =>
    (mem_walk_nodes p evs).mpr (summary_walk_nodes_complete _ _ _ _ hp _ _ _ _ hw)
  refine ⟨i, port, hport, hprim, hname, ?_, ?_, ?_⟩
  · intro p hp hd
    exact ((modeFold_mem _ _ _ hfold p (hmem p hp) (Or.inl hd)).1 hd).2
  · intro p hp hs
    exact ((modeFold_mem _ _ _ hfold p (hmem p hp) (Or.inr hs)).2.1 hs).2.2
  · intro hnone
    exact modeFold_none _ _ _ hfold (fun p hp =>
      hnone p ((summary_walk_sound _ _ _ _ _ _ _ hw).1 p ((mem_walk_nodes p evs).mp hp)))

/-- Witness for C28: the pin of port `clk` of `example_clock_and_delay`,
whose input buffer drives a delay and a clock buffer. -/
theorem C28_full_trace_joins_the_chain_names_by_bar_arrows_witness :
    ∃ (i : Nat) (port : PORT_PRIMITIVE) (chains : List (List CppString)),
      example_clock_and_delay_traced.m_ports[i]? = some port ∧
      example_clock_pin.primitive = .port i ∧
      example_clock_pin.name ∈ port.linked_objects ∧
      example_clock_pin.is_input = port.base.db.is_in_dir ∧
      (∀ names, names ∈ chains ↔
        LeafChain example_clock_and_delay_traced.deref (.port i)
          [get_original_name port.base.db.name] names) ∧
      example_clock_pin.full_traces = chains.map (fun names =>
        List.intercalate " |-> ".toList
          (if port.base.db.is_in_dir then names else names.reverse)) :=
  C28_full_trace_joins_the_chain_names_by_bar_arrows 10 example_clock_and_delay_traced
    example_clock_and_delay_summarized (by decide) (by decide) (by decide) (by decide)
    example_clock_pin (by decide)

/-- Counterexample for C28: `extract` on `example_clock_and_delay`, whose
input buffer on port `clk` drives the delay `a` and the clock buffer `z`,
returns with one pin; its traces and full traces are joined by ` |-> `, and
the string `I_BUF -> I_DELAY` of the chain from the buffer to the delay is not
among them. -/
theorem C28_counterexample_recorded_traces_are_joined_by_bar_arrows :
    (extract example_clock_and_delay 10 (Extractor.construct "genesis3".toList)).map
        (fun result => result.2.1.m_pin_infos.map
          (fun q => (q.name, q.is_input, q.traces, q.full_traces))) =
      .ok [("clk".toList, true,
            ["I_BUF |-> I_DELAY".toList, "      |-> CLK_BUF".toList],
            ["I_BUF |-> I_DELAY".toList, "I_BUF |-> CLK_BUF".toList])] ∧
    LeafChain example_clock_and_delay_extracted.2.1.deref (.port 0)
      ["I_BUF".toList] ["I_BUF".toList, "I_DELAY".toList] ∧
    List.intercalate " -> ".toList ["I_BUF".toList, "I_DELAY".toList] =
      "I_BUF -> I_DELAY".toList ∧
    ∀ q ∈ example_clock_and_delay_extracted.2.1.m_pin_infos,
      "I_BUF -> I_DELAY".toList ∉ q.traces ++ q.full_traces := by
  refine ⟨rfl, ?_, by decide, by decide⟩
  have hm : (summary_walk example_clock_and_delay_extracted.2.1.deref true 10 (.port 0)
      ["I_BUF".toList] ["I_BUF".toList]).map walk_chains =
      .ok [["I_BUF".toList, "I_DELAY".toList], ["I_BUF".toList, "CLK_BUF".toList]] := by
    decide
  cases hw : summary_walk example_clock_and_delay_extracted.2.1.deref true 10 (.port 0)
      ["I_BUF".toList] ["I_BUF".toList] with
  | error e => rw [hw] at hm; exact Except.noConfusion hm
  | ok evs =>
    rw [hw] at hm
    have hc : walk_chains evs =
        [["I_BUF".toList, "I_DELAY".toList], ["I_BUF".toList, "CLK_BUF".toList]] :=
      Except.ok.inj hm
    obtain ⟨t, ht⟩ := (mem_walk_chains ["I_BUF".toList, "I_DELAY".toList] evs).mp
      (by rw [hc]; exact List.mem_cons_self _ _)
    exact (summary_walk_sound _ _ _ _ _ _ _ hw).2.1 t _ ht

/-- Witness for C30: the pin of port `din` of `example_ddr_input`, whose
input buffer drives an `I_DDR`. -/
theorem C30_pin_mode_follows_the_mode_primitive_of_the_chain_witness :
    ∃ (i : Nat) (port : PORT_PRIMITIVE),
      example_ddr_input_traced.m_ports[i]? = some port ∧
      example_ddr_pin.primitive = .port i ∧ example_ddr_pin.name ∈ port.linked_objects ∧
      (∀ p, InChain example_ddr_input_traced.deref (.port i) p → IsDdrType p →
        example_ddr_pin.mode = "DDR".toList) ∧
      (∀ p, InChain example_ddr_input_traced.deref (.port i) p → IsSerdesType p →
        SerdesMode p example_ddr_pin.mode) ∧
      ((∀ p, InChain example_ddr_input_traced.deref (.port i) p →
          ¬ IsDdrType p ∧ ¬ IsSerdesType p) →
        example_ddr_pin.mode = []) :=
  C30_pin_mode_follows_the_mode_primitive_of_the_chain 10 example_ddr_input_traced
    example_ddr_input_summarized (by decide) (by decide) (by decide) example_ddr_pin
    (by decide)

/-- Counterexample for C30: `extract` on `example_serdes_clock` returns
with one pin, for port `cko` of root 0; the chain of the root contains the
`O_SERDES_CLK` cell, which has no `WIDTH` parameter and a `DATA_RATE`
parameter whose value is the empty string; the mode of the pin is `SDR`, not
that value. -/
theorem C30_counterexample_empty_data_rate_gives_sdr :
    (extract example_serdes_clock 10 (Extractor.construct "genesis3".toList)).map
        (fun result => result.2.1.m_pin_infos.map (fun q => (q.name, q.primitive, q.mode))) =
      .ok [("cko".toList, PrimRef.port 0, "SDR".toList)] ∧
    InChain example_serdes_clock_extracted.deref (.port 0)
      (child_at example_serdes_clock_extracted 0) ∧
    IsSerdesType (child_at example_serdes_clock_extracted 0) ∧
    CppMap.find (child_at example_serdes_clock_extracted 0).parameters "\\WIDTH".toList =
      none ∧
    CppMap.find (child_at example_serdes_clock_extracted 0).parameters "\\DATA_RATE".toList =
      some "\"\"".toList ∧
    get_param_string "\"\"".toList = [] := by
  refine ⟨by decide, ?_, Or.inr (Or.inr (by decide)), by decide, by decide, by decide⟩
  have hk : (example_serdes_clock_extracted.deref (.port 0)).map
      (fun p => p.child.map Prod.snd) = .ok [PrimRef.child 0] := by decide
  cases hr : example_serdes_clock_extracted.deref (.port 0) with
  | error e => rw [hr] at hk; exact Except.noConfusion hk
  | ok p0 =>
    rw [hr] at hk
    have hc : p0.child.map Prod.snd = [PrimRef.child 0] := Except.ok.inj hk
    have hmem : PrimRef.child 0 ∈ p0.child.map Prod.snd := by
      rw [hc]; exact List.mem_cons_self _ _
    obtain ⟨kc, hkc, hsnd⟩ := List.mem_map.mp hmem
    have hkc2 : (kc.1, PrimRef.child 0) ∈ p0.child := by
      rw [← hsnd]; exact hkc
    exact InChain.step (.port 0) (.child 0) p0 _ kc.1 hr hkc2
      (InChain.root (.child 0) _ (by decide))

/-! ### Roots and their names through the stages of `extract` -/

theorem rootsKept_refl (st : Extractor) : RootsKept st st := ⟨rfl, rfl⟩

theorem rootsKept_trans {s t u : Extractor} (h : RootsKept s t) (g : RootsKept t u) :
    RootsKept s u :=
  ⟨g.1.trans h.1, g.2.trans h.2⟩

theorem rootsKept_of_eq {s t : Extractor}
    (h1 : t.m_ports.map root_sig = s.m_ports.map root_sig)
    (h2 : t.g_standalone_tracker = s.g_standalone_tracker) : RootsKept s t :=
  ⟨h1, h2⟩

theorem map_sig_modify (l : List PORT_PRIMITIVE) (g : PORT_PRIMITIVE → PORT_PRIMITIVE)
    (hg : ∀ q, root_sig (g q) = root_sig q) (i : Nat) :
    (l.modify g i).map root_sig = l.map root_sig := by
  apply List.ext_getElem?
  intro j
  rw [List.getElem?_map, List.getElem?_map, List.getElem?_modify]
  cases l[j]? with
  | none => rfl
  | some a =>
    by_cases h : i = j
    · simp [h, hg]
    · simp [h]

theorem update_roots (st : Extractor) (r : PrimRef) (f : PRIMITIVE → PRIMITIVE)
    (hf : ∀ p, (f p).db = p.db) :
    (st.update r f).m_ports.map root_sig = st.m_ports.map root_sig := by
  cases r with
  | port i =>
    exact map_sig_modify _ _ (fun q => by
      show ((f q.base).db, q.standalone_name) = (q.base.db, q.standalone_name)
      rw [hf]) i
  | child i => rfl

theorem update_tracker (st : Extractor) (r : PrimRef) (f : PRIMITIVE → PRIMITIVE) :
    (st.update r f).g_standalone_tracker = st.g_standalone_tracker := by
  cases r <;> rfl

theorem rootsKept_update (st : Extractor) (r : PrimRef) (f : PRIMITIVE → PRIMITIVE)
    (hf : ∀ p, (f p).db = p.db) : RootsKept st (st.update r f) :=
  rootsKept_of_eq (update_roots st r f hf) (update_tracker st r f)

theorem rootsKept_chain_width (st : Extractor) (i : Nat) (w : Int) :
    RootsKept st
      { st with m_ports := st.m_ports.modify (fun q => { q with chain_data_width := w }) i } := by
  refine ⟨map_sig_modify _ _ ?_ _, rfl⟩
  intro _
  rfl

theorem define_data_width_roots (st st2 : Extractor) (r : PrimRef) (primitive : PRIMITIVE)
    (h : define_data_width st r primitive = .ok st2) : RootsKept st st2 := by
  unfold define_data_width at h
  simp only [bind, Except.bind, pure, Except.pure, throw, throwThe,
    MonadExceptOf.throw] at h
  repeat' split at h
  all_goals first
    | exact Except.noConfusion h
    | (cases h; exact rootsKept_refl _)
    | (cases h
       refine rootsKept_trans (rootsKept_update _ _ _ ?_) (rootsKept_chain_width _ _ _)
       intro _
       rfl)

theorem get_primitive_parameters_roots (st st2 : Extractor) (cell : Cell) (r : PrimRef)
    (h : get_primitive_parameters st cell r = .ok st2) : RootsKept st st2 := by
  unfold get_primitive_parameters at h
  simp only [bind, Except.bind] at h
  repeat' split at h
  all_goals first
    | exact Except.noConfusion h
    | (refine rootsKept_trans (rootsKept_update _ _ _ ?_) (define_data_width_roots _ _ _ _ h); intro _; rfl)

theorem attach_child_roots (st st2 : Extractor) (parent : PrimRef) (parentNode : PRIMITIVE)
    (cell : Cell) (db : PRIMITIVE_DB) (connections : CppMap CppString)
    (h : attach_child st parent parentNode cell db connections = .ok st2) :
    RootsKept st st2 := by
  unfold attach_child at h
  simp only [bind, Except.bind] at h
  repeat' split at h
  all_goals first
    | exact Except.noConfusion h
    | (refine rootsKept_trans ?_ (get_primitive_parameters_roots _ _ _ _ h)
       (refine rootsKept_of_eq (update_roots _ _ _ ?_) (update_tracker _ _ _); intro _; rfl))

theorem trace_alias_pairs_roots
    (call : Extractor → CppString → Except Fault (Bool × Extractor))
    (parent : PrimRef) (cell : Cell) (src_is_right : Bool) (connection : CppString)
    (hcall : ∀ st dest found st2, call st dest = .ok (found, st2) → RootsKept st st2) :
    ∀ (pairs : List (SigSpec × SigSpec)) (st : Extractor) (found : Bool) (st2 : Extractor),
      trace_alias_pairs call parent cell src_is_right connection pairs st = .ok (found, st2) →
      RootsKept st st2 := by
  intro pairs
  induction pairs with
  | nil =>
    intro st found st2 h
    simp only [trace_alias_pairs] at h
    cases h
    exact rootsKept_refl _
  | cons it rest ih =>
    intro st found st2 h
    simp only [trace_alias_pairs] at h
    split at h
    · exact Except.noConfusion h
    · split at h
      · exact ih st found st2 h
      · split at h
        · exact Except.noConfusion h
        · rename_i _ dest hd _ f s hc
          have k := hcall st dest f s hc
          split at h
          · cases h
            (refine rootsKept_trans k (rootsKept_update _ _ _ ?_); intro _; rfl)
          · exact rootsKept_trans k (ih s found st2 h)

theorem trace_next_primitive_rec_roots (module : Module) :
    ∀ (fuel : Nat) (st : Extractor) (parent : PrimRef) (cell : Cell) (connection : CppString)
      (found : Bool) (st2 : Extractor),
      trace_next_primitive_rec module fuel st parent cell connection = .ok (found, st2) →
      RootsKept st st2 := by
  intro fuel
  induction fuel with
  | zero =>
    intro st parent cell connection found st2 h
    simp only [trace_next_primitive_rec] at h
    exact Except.noConfusion h
  | succ fuel ih =>
    intro st parent cell connection found st2 h
    simp only [trace_next_primitive_rec] at h
    repeat' split at h
    all_goals first
      | exact Except.noConfusion h
      | (rename_i s hs
         cases h
         exact attach_child_roots _ _ _ _ _ _ _ hs)
      | exact trace_alias_pairs_roots _ parent cell _ connection
          (fun s dest f s2 hc => ih s parent cell dest f s2 hc)
          module.connections st found st2 h

theorem trace_cells_roots (module : Module) (fuel : Nat) (src dst : CppString)
    (primitive : PrimRef) :
    ∀ (cells : List Cell) (st st2 : Extractor),
      trace_cells module fuel src dst primitive cells st = .ok st2 → RootsKept st st2 := by
  intro cells
  induction cells with
  | nil =>
    intro st st2 h
    simp only [trace_cells] at h
    cases h
    exact rootsKept_refl _
  | cons cell rest ih =>
    intro st st2 h
    simp only [trace_cells] at h
    split at h
    · exact Except.noConfusion h
    · split at h
      · split at h
        · exact Except.noConfusion h
        · split at h
          · exact Except.noConfusion h
          · rename_i _ f s hs
            have k := trace_next_primitive_rec_roots module fuel st primitive cell _ f s hs
            refine rootsKept_trans (rootsKept_trans k ?_) (ih _ st2 h)
            split
            · (refine rootsKept_update _ _ _ ?_; intro _; split <;> rfl)
            · exact rootsKept_refl _
      · exact ih st st2 h

theorem trace_sources_roots (module : Module) (fuel : Nat) (src dst : CppString) :
    ∀ (sources : List PrimRef) (st st2 : Extractor),
      trace_sources module fuel src dst sources st = .ok st2 → RootsKept st st2 := by
  intro sources
  induction sources with
  | nil =>
    intro st st2 h
    simp only [trace_sources] at h
    cases h
    exact rootsKept_refl _
  | cons primitive rest ih =>
    intro st st2 h
    simp only [trace_sources] at h
    split at h
    · exact Except.noConfusion h
    · rename_i s hs
      exact rootsKept_trans (trace_cells_roots module fuel src dst primitive _ st s hs)
        (ih s st2 h)

theorem trace_next_primitive_roots (module : Module) (fuel : Nat) (st st2 : Extractor)
    (src dst : CppString) (h : trace_next_primitive module fuel st src dst = .ok st2) :
    RootsKept st st2 := by
  unfold trace_next_primitive at h
  simp only [bind, Except.bind] at h
  split at h
  · exact Except.noConfusion h
  · split at h
    · exact Except.noConfusion h
    · exact trace_sources_roots module fuel src dst _ st st2 h

theorem trace_calls_roots (module : Module) (fuel : Nat) :
    ∀ (calls : List (CppString × CppString)) (st st2 : Extractor),
      trace_calls module fuel calls st = .ok st2 → RootsKept st st2 := by
  intro calls
  induction calls with
  | nil =>
    intro st st2 h
    simp only [trace_calls] at h
    cases h
    exact rootsKept_refl _
  | cons call rest ih =>
    intro st st2 h
    simp only [trace_calls] at h
    split at h
    · exact Except.noConfusion h
    · rename_i s hs
      exact rootsKept_trans (trace_next_primitive_roots module fuel st s call.1 call.2 hs)
        (ih s st2 h)

theorem trace_gearbox_fast_clock_step_roots (st st2 : Extractor) (index : Nat)
    (h : trace_gearbox_fast_clock_step st index = .ok st2) : RootsKept st st2 := by
  unfold trace_gearbox_fast_clock_step at h
  simp only [bind, Except.bind, pure, Except.pure, throw, throwThe,
    MonadExceptOf.throw] at h
  repeat' split at h
  all_goals first
    | exact Except.noConfusion h
    | (cases h; exact rootsKept_refl _)

theorem trace_gearbox_fast_clock_loop_roots :
    ∀ (l : List Nat) (st st2 : Extractor),
      trace_gearbox_fast_clock_loop l st = .ok st2 → RootsKept st st2 := by
  intro l
  induction l with
  | nil =>
    intro st st2 h
    simp only [trace_gearbox_fast_clock_loop] at h
    cases h
    exact rootsKept_refl _
  | cons index rest ih =>
    intro st st2 h
    simp only [trace_gearbox_fast_clock_loop, bind, Except.bind] at h
    split at h
    · exact Except.noConfusion h
    · rename_i s hs
      exact rootsKept_trans (trace_gearbox_fast_clock_step_roots _ _ _ hs) (ih _ _ h)

theorem gen_instance_roots (st st2 : Extractor) (linked_objects : List CppString)
    (r : PrimRef) (pre : CppString) (h : gen_instance st linked_objects r pre = .ok st2) :
    RootsKept st st2 := by
  unfold gen_instance at h
  simp only [bind, Except.bind, pure, Except.pure, throw, throwThe,
    MonadExceptOf.throw] at h
  repeat' split at h
  all_goals first
    | exact Except.noConfusion h
    | (cases h
       (refine rootsKept_of_eq (update_roots _ _ _ ?_) (update_tracker _ _ _); intro _; rfl))

theorem gen_wire_loop_roots (linked_object : CppString) (linked_objects : List CppString)
    (child : CppString) (index : Nat) :
    ∀ (wires : List CppString) (trace_connection : CppString) (st st2 : Extractor),
      gen_wire_loop linked_object linked_objects child index wires trace_connection st =
        .ok st2 → RootsKept st st2 := by
  intro wires
  induction wires with
  | nil =>
    intro tc st st2 h
    simp only [gen_wire_loop] at h
    cases h
    exact rootsKept_refl _
  | cons wire rest ih =>
    intro tc st st2 h
    simp only [gen_wire_loop, bind, Except.bind] at h
    split at h
    · exact Except.noConfusion h
    · refine rootsKept_trans ?_ (ih _ _ _ h)
      exact rootsKept_of_eq rfl rfl

theorem gen_wire_roots (st st2 : Extractor) (linked_object : CppString)
    (linked_objects : List CppString) (r : PrimRef) (child : CppString)
    (h : gen_wire st linked_object linked_objects r child = .ok st2) : RootsKept st st2 := by
  unfold gen_wire at h
  simp only [bind, Except.bind, pure, Except.pure, throw, throwThe,
    MonadExceptOf.throw] at h
  repeat' split at h
  all_goals first
    | exact Except.noConfusion h
    | (cases h; exact rootsKept_refl _)
    | exact gen_wire_loop_roots _ _ _ _ _ _ _ _ h

theorem gen_child_roots (call : Extractor → PrimRef → Except Fault Extractor)
    (linked_object : CppString) (linked_objects : List CppString) (r : PrimRef)
    (primitive_type : CppString)
    (hcall : ∀ st c st2, call st c = .ok st2 → RootsKept st st2)
    (st st2 : Extractor) (child : CppString × PrimRef)
    (h : gen_child call linked_object linked_objects r primitive_type st child = .ok st2) :
    RootsKept st st2 := by
  unfold gen_child at h
  split at h
  · exact Except.noConfusion h
  · rename_i s1 h1
    split at h
    · exact Except.noConfusion h
    · rename_i s2 h2
      exact rootsKept_trans
        (rootsKept_trans (gen_wire_roots _ _ _ _ _ _ h1) (gen_instance_roots _ _ _ _ _ h2))
        (hcall _ _ _ h)

theorem gen_children_roots (call : Extractor → PrimRef → Except Fault Extractor)
    (linked_object : CppString) (linked_objects : List CppString) (r : PrimRef)
    (primitive_type : CppString)
    (hcall : ∀ st c st2, call st c = .ok st2 → RootsKept st st2) :
    ∀ (children : List (CppString × PrimRef)) (st st2 : Extractor),
      gen_children call linked_object linked_objects r primitive_type children st = .ok st2 →
      RootsKept st st2 := by
  intro children
  induction children with
  | nil =>
    intro st st2 h
    simp only [gen_children] at h
    cases h
    exact rootsKept_refl _
  | cons child rest ih =>
    intro st st2 h
    simp only [gen_children] at h
    split at h
    · exact Except.noConfusion h
    · rename_i s hs
      exact rootsKept_trans (gen_child_roots _ _ _ _ _ hcall _ _ _ hs) (ih _ _ h)

theorem gen_instances_rec_roots (linked_object : CppString)
    (linked_objects : List CppString) :
    ∀ (fuel : Nat) (st : Extractor) (r : PrimRef) (pre : CppString) (st2 : Extractor),
      gen_instances_rec linked_object linked_objects fuel st r pre = .ok st2 →
      RootsKept st st2 := by
  intro fuel
  induction fuel with
  | zero =>
    intro st r pre st2 h
    simp only [gen_instances_rec] at h
    exact Except.noConfusion h
  | succ fuel ih =>
    intro st r pre st2 h
    simp only [gen_instances_rec] at h
    split at h
    · exact Except.noConfusion h
    · split at h
      · exact Except.noConfusion h
      · rename_i primitive hp
        split at h
        · exact Except.noConfusion h
        · rename_i s hs
          have k : RootsKept st s := by
            split at hs
            · exact gen_instance_roots _ _ _ _ _ hs
            · cases hs
              exact rootsKept_refl _
          exact rootsKept_trans k
            (gen_children_roots _ _ _ _ _ (fun a c b hc => ih a c _ b hc) _ _ _ h)

theorem gen_instances_ports_roots (fuel : Nat) :
    ∀ (l : List Nat) (st st2 : Extractor),
      gen_instances_ports fuel l st = .ok st2 → RootsKept st st2 := by
  intro l
  induction l with
  | nil =>
    intro st st2 h
    simp only [gen_instances_ports] at h
    cases h
    exact rootsKept_refl _
  | cons i rest ih =>
    intro st st2 h
    simp only [gen_instances_ports] at h
    repeat' split at h
    all_goals first
      | exact Except.noConfusion h
      | exact rootsKept_trans
          (gen_instances_rec_roots _ _ _ _ _ _ _
            ‹gen_instances_rec _ _ _ _ _ _ = Except.ok _›) (ih _ _ h)

theorem gen_instances_roots (fuel : Nat) (st st2 : Extractor)
    (h : gen_instances fuel st = .ok st2) : RootsKept st st2 := by
  unfold gen_instances at h
  repeat' split at h
  all_goals first
    | exact Except.noConfusion h
    | exact gen_instances_ports_roots _ _ _ _ h

theorem finalize_roots (st st2 : Extractor) (module : Module) (verdict : FinalCheck)
    (h : finalize st module = .ok (st2, verdict)) : RootsKept st st2 := by
  unfold finalize at h
  simp only [bind, Except.bind, pure, Except.pure] at h
  repeat' split at h
  all_goals first
    | exact Except.noConfusion h
    | (cases h; exact rootsKept_refl _)

/-! ### Creation of the roots -/

theorem supported_genesis3 (st : Extractor) (name : CppString) (req : PRIMITIVE_REQ)
    (db : PRIMITIVE_DB) (h : is_supported_primitive st name req = .ok (some db)) :
    db ∈ genesis3_primitives := by
  unfold is_supported_primitive at h
  simp only [bind, Except.bind, pure, Except.pure] at h
  split at h
  · exact Except.noConfusion h
  · rename_i table htable
    have hin := is_supported_primitive_in_mem name req db table
      (Except.ok.inj h)
    have ht : table = genesis3_primitives := by
      unfold CppMap.at at htable
      simp only [SUPPORTED_PRIMITIVES, CppMap.find] at htable
      repeat' split at htable
      all_goals first
        | exact Except.noConfusion htable
        | simp_all
    exact ht ▸ hin

theorem earlier_append_le (sigs : List (PRIMITIVE_DB × CppString))
    (s : PRIMITIVE_DB × CppString) (i : Nat) (K : CppString) (hi : i ≤ sigs.length) :
    earlier_of_kind (sigs ++ [s]) i K = earlier_of_kind sigs i K := by
  unfold earlier_of_kind
  rw [List.take_append_of_le_length hi]

theorem earlier_append_last (sigs : List (PRIMITIVE_DB × CppString))
    (s : PRIMITIVE_DB × CppString) (K : CppString) :
    earlier_of_kind (sigs ++ [s]) (sigs ++ [s]).length K =
      earlier_of_kind sigs sigs.length K +
        (if standalone_kind s.1 = some K then 1 else 0) := by
  unfold earlier_of_kind
  rw [List.take_length, List.take_length, List.filter_append, List.length_append]
  congr 1
  by_cases h : standalone_kind s.1 = some K
  · rw [List.filter_cons_of_pos (by simpa using h), if_pos h]
    rfl
  · rw [List.filter_cons_of_neg (by simpa using h), if_neg h]
    rfl

theorem int_of_uint32_mod (n : Nat) : int_of_uint32 (n % 2 ^ 32) = int_of_uint32 n := by
  unfold int_of_uint32
  rw [Nat.mod_mod]

theorem tracker_step (tracker : CppMap Nat) (K : CppString) (v : Nat) :
    (CppMap.find (if CppMap.contains tracker K = true then tracker
        else CppMap.set tracker K 0) K).getD 0 = (CppMap.find tracker K).getD 0 ∧
    ∀ K2, (CppMap.find (CppMap.set (if CppMap.contains tracker K = true then tracker
        else CppMap.set tracker K 0) K v) K2).getD 0 =
      if K2 = K then v else (CppMap.find tracker K2).getD 0 := by
  by_cases hc : CppMap.contains tracker K = true
  · rw [if_pos hc]
    refine ⟨rfl, fun K2 => ?_⟩
    by_cases hk : K2 = K
    · rw [if_pos hk, hk, CppMap.find_set_self]
      rfl
    · rw [if_neg hk, CppMap.find_set_ne _ _ _ _ hk]
  · rw [if_neg hc]
    have hnone : CppMap.find tracker K = none :=
      CppMap.find_of_not_contains tracker K (by simpa using hc)
    refine ⟨by rw [CppMap.find_set_self, hnone]; rfl, fun K2 => ?_⟩
    by_cases hk : K2 = K
    · rw [if_pos hk, hk, CppMap.find_set_self]
      rfl
    · rw [if_neg hk, CppMap.find_set_ne _ _ _ _ hk, CppMap.find_set_ne _ _ _ _ hk]

theorem construct_sig (tracker : CppMap Nat) (db : PRIMITIVE_DB) (p : CppString)
    (c : CppMap CppString) (ps : List PORT_INFO) (b : Bool) (port : PORT_PRIMITIVE)
    (tracker2 : CppMap Nat)
    (h : PORT_PRIMITIVE.construct tracker db p c ps b = .ok (port, tracker2)) :
    (standalone_kind db = none ∧ port.standalone_name = [] ∧ tracker2 = tracker) ∨
    (∃ K, standalone_kind db = some K ∧
      port.standalone_name =
        c_str K ++ "#".toList ++ fmt_d (int_of_uint32 ((CppMap.find tracker K).getD 0)) ∧
      ∀ K2, (CppMap.find tracker2 K2).getD 0 =
        if K2 = K then ((CppMap.find tracker K).getD 0 + 1) % 2 ^ 32
        else (CppMap.find tracker K2).getD 0) := by
  unfold PORT_PRIMITIVE.construct at h
  simp only [bind, Except.bind, pure, Except.pure, throw, throwThe,
    MonadExceptOf.throw] at h
  by_cases hk : (db.is_standalone || db.is_fabric_clkbuf) = true
  · simp only [hk, if_true] at h
    have hkind : standalone_kind db = some (if db.is_standalone = true then
        get_original_name db.name else "FABRIC_CLKBUF".toList) := by
      unfold standalone_kind
      rw [if_pos hk]
    generalize (if db.is_standalone = true then get_original_name db.name
      else "FABRIC_CLKBUF".toList) = K at h hkind
    have ts := tracker_step tracker K (((CppMap.find tracker K).getD 0 + 1) % 2 ^ 32)
    generalize (if CppMap.contains tracker K = true then tracker
      else CppMap.set tracker K 0) = t1 at h ts
    obtain ⟨ts1, ts2⟩ := ts
    repeat' split at h
    all_goals first
      | exact Except.noConfusion h
      | (cases h
         refine Or.inr ⟨K, hkind, ?_, ?_⟩
         · show c_str K ++ "#".toList ++ fmt_d (int_of_uint32 _) = _
           rw [ts1]
         · intro K2
           rw [← ts2 K2, ts1])
  · simp only [if_neg hk] at h
    repeat' split at h
    all_goals first
      | exact Except.noConfusion h
      | (cases h
         refine Or.inl ⟨?_, rfl, rfl⟩
         unfold standalone_kind
         rw [if_neg hk])

theorem namedRoots_nil : NamedRoots [] [] :=
  ⟨fun s hs => absurd hs (List.not_mem_nil _),
   fun i s K hs => by simp at hs,
   fun K => rfl⟩

theorem namedRoots_push (sigs : List (PRIMITIVE_DB × CppString)) (tracker : CppMap Nat)
    (db : PRIMITIVE_DB) (p : CppString) (c : CppMap CppString) (ps : List PORT_INFO)
    (b : Bool) (port : PORT_PRIMITIVE) (tracker2 : CppMap Nat)
    (hdb : db ∈ genesis3_primitives)
    (hc : PORT_PRIMITIVE.construct tracker db p c ps b = .ok (port, tracker2))
    (inv : NamedRoots sigs tracker) : NamedRoots (sigs ++ [root_sig port]) tracker2 := by
  obtain ⟨i1, i2, i3⟩ := inv
  have hbase : port.base.db = db := (port_construct_base _ _ _ _ _ _ _ _ hc).2.2.2.2.2
  have hsig := construct_sig _ _ _ _ _ _ _ _ hc
  refine ⟨?_, ?_, ?_⟩
  · intro s hs
    rcases List.mem_append.mp hs with hs | hs
    · exact i1 s hs
    · rw [List.mem_singleton] at hs
      rw [hs]
      show port.base.db ∈ _
      rw [hbase]
      exact hdb
  · intro i s K hs hk
    by_cases hi : i < sigs.length
    · rw [List.getElem?_append_left hi] at hs
      rw [earlier_append_le _ _ _ _ (Nat.le_of_lt hi)]
      exact i2 i s K hs hk
    · have hlt : i < (sigs ++ [root_sig port]).length := getElem?_lt_of_some _ _ _ hs
      rw [List.length_append, List.length_singleton] at hlt
      have hi2 : i = sigs.length := by omega
      subst hi2
      rw [List.getElem?_append_right (Nat.le_refl _), Nat.sub_self] at hs
      have hs2 : s = root_sig port := (Option.some.inj hs).symm
      subst hs2
      rw [earlier_append_le _ _ _ _ (Nat.le_refl _)]
      have hk2 : standalone_kind db = some K := by rw [← hbase]; exact hk
      rcases hsig with ⟨hnone, -, -⟩ | ⟨K0, hk0, hname, -⟩
      · rw [hnone] at hk2
        exact Option.noConfusion hk2
      · rw [hk0] at hk2
        have e : K0 = K := Option.some.inj hk2
        subst e
        show port.standalone_name = _
        rw [hname, i3 K0, int_of_uint32_mod]
  · intro K
    rw [earlier_append_last]
    have hk1 : standalone_kind (root_sig port).1 = standalone_kind db := by
      show standalone_kind port.base.db = _
      rw [hbase]
    rw [hk1]
    rcases hsig with ⟨hnone, -, ht⟩ | ⟨K0, hk0, -, ht⟩
    · rw [hnone, ht, i3 K]
      simp
    · rw [ht K, hk0]
      by_cases hk : K = K0
      · subst hk
        rw [if_pos rfl, if_pos rfl, i3 K]
        omega
      · rw [if_neg hk, if_neg (fun e => hk (Option.some.inj e).symm), i3 K]
        rfl

theorem namedRoots_of_rootsKept {s t : Extractor} (h : RootsKept s t)
    (inv : NamedRoots (s.m_ports.map root_sig) s.g_standalone_tracker) :
    NamedRoots (t.m_ports.map root_sig) t.g_standalone_tracker := by
  rw [h.1, h.2]
  exact inv

theorem port_cell_named (st st3 : Extractor) (b : Bool) (db : PRIMITIVE_DB)
    (req : PRIMITIVE_REQ) (name : CppString) (c : CppMap CppString) (ps : List PORT_INFO)
    (bd : Bool) (v : PORT_PRIMITIVE × CppMap Nat) (cell : Cell)
    (inv : NamedRoots (st.m_ports.map root_sig) st.g_standalone_tracker)
    (hdb : is_supported_primitive st cell.type req = .ok (some db))
    (hc : PORT_PRIMITIVE.construct st.g_standalone_tracker db name c ps bd = .ok v)
    (hg : get_primitive_parameters
      { st with m_netlist_status := b, m_ports := st.m_ports ++ [v.1],
                g_standalone_tracker := v.2 } cell (.port st.m_ports.length) = .ok st3) :
    NamedRoots (st3.m_ports.map root_sig) st3.g_standalone_tracker := by
  apply namedRoots_of_rootsKept (get_primitive_parameters_roots _ _ _ _ hg)
  show NamedRoots ((st.m_ports ++ [v.1]).map root_sig) v.2
  rw [List.map_append, List.map_singleton]
  exact namedRoots_push _ _ db name c ps bd v.1 v.2
    (supported_genesis3 st cell.type req db hdb) hc inv

theorem trace_and_create_port_cells_named (module : Module) (fuel : Nat)
    (port_infos : List PORT_INFO) :
    ∀ (cells : List Cell) (port_trackers : List Nat) (st st2 : Extractor),
      NamedRoots (st.m_ports.map root_sig) st.g_standalone_tracker →
      trace_and_create_port_cells module fuel port_infos cells port_trackers st = .ok st2 →
      NamedRoots (st2.m_ports.map root_sig) st2.g_standalone_tracker := by
  intro cells
  induction cells with
  | nil =>
    intro pt st st2 inv h
    simp only [trace_and_create_port_cells] at h
    exact (Except.ok.inj h) ▸ inv
  | cons cell rest ih =>
    intro pt st st2 inv h
    simp only [trace_and_create_port_cells, bind, Except.bind, pure, Except.pure] at h
    repeat' split at h
    all_goals first
      | exact Except.noConfusion h
      | exact ih _ _ _ inv h
      | (refine ih _ _ _ ?_ h; exact inv)
      | exact ih _ _ _ (port_cell_named st _ _ _ _ _ _ _ _ _ cell inv
          ‹is_supported_primitive st cell.type _ = Except.ok (some _)›
          ‹PORT_PRIMITIVE.construct _ _ _ _ _ _ = Except.ok _›
          ‹get_primitive_parameters _ _ _ = Except.ok _›) h

theorem get_ports_named (module : Module) (fuel : Nat) (st st2 : Extractor) (ok : Bool)
    (inv : NamedRoots (st.m_ports.map root_sig) st.g_standalone_tracker)
    (h : get_ports module fuel st = .ok (ok, st2)) :
    NamedRoots (st2.m_ports.map root_sig) st2.g_standalone_tracker := by
  unfold get_ports at h
  simp only [bind, Except.bind, pure, Except.pure, throw, throwThe,
    MonadExceptOf.throw, trace_and_create_port] at h
  repeat' split at h
  all_goals first
    | exact Except.noConfusion h
    | (have e := congrArg Prod.snd (Except.ok.inj h)
       simp only at e
       subst e
       first
         | exact trace_and_create_port_cells_named _ _ _ _ _ _ _ inv
             ‹trace_and_create_port_cells _ _ _ _ _ _ = Except.ok _›
         | exact inv)

theorem clkbuf_cell_named (st : Extractor) (db : PRIMITIVE_DB) (req : PRIMITIVE_REQ)
    (name type : CppString) (c : CppMap CppString) (ps : List PORT_INFO) (bd : Bool)
    (v : PORT_PRIMITIVE × CppMap Nat)
    (inv : NamedRoots (st.m_ports.map root_sig) st.g_standalone_tracker)
    (hdb : is_supported_primitive st type req = .ok (some db))
    (hc : PORT_PRIMITIVE.construct st.g_standalone_tracker db name c ps bd = .ok v) :
    NamedRoots ((st.m_ports ++ [v.1]).map root_sig) v.2 := by
  rw [List.map_append, List.map_singleton]
  exact namedRoots_push _ _ db name c ps bd v.1 v.2 (supported_genesis3 st type req db hdb)
    hc inv

theorem trace_fabric_clkbuf_cells_named (module : Module) :
    ∀ (cells : List Cell) (st st2 : Extractor),
      NamedRoots (st.m_ports.map root_sig) st.g_standalone_tracker →
      trace_fabric_clkbuf_cells module cells st = .ok st2 →
      NamedRoots (st2.m_ports.map root_sig) st2.g_standalone_tracker := by
  intro cells
  induction cells with
  | nil =>
    intro st st2 inv h
    simp only [trace_fabric_clkbuf_cells] at h
    exact (Except.ok.inj h) ▸ inv
  | cons cell rest ih =>
    intro st st2 inv h
    simp only [trace_fabric_clkbuf_cells, bind, Except.bind, pure, Except.pure, throw,
      throwThe, MonadExceptOf.throw] at h
    repeat' split at h
    all_goals first
      | exact Except.noConfusion h
      | exact ih _ _ inv h
      | (refine ih _ _ ?_ h
         exact clkbuf_cell_named st _ _ _ cell.type _ _ _ _ inv
           ‹is_supported_primitive st cell.type _ = Except.ok (some _)›
           ‹PORT_PRIMITIVE.construct _ _ _ _ _ _ = Except.ok _›)

theorem namedRoots_of_sameCounts {s t : Extractor} (h : SameCounts s t)
    (tracker : CppMap Nat) (inv : NamedRoots (s.m_ports.map root_sig) tracker) :
    NamedRoots (t.m_ports.map root_sig) tracker := by
  rw [h.1]
  exact inv

theorem namedRoots_of_sigs {s t : Extractor}
    (h : t.m_ports.map root_sig = s.m_ports.map root_sig)
    (tracker : CppMap Nat) (inv : NamedRoots (s.m_ports.map root_sig) tracker) :
    NamedRoots (t.m_ports.map root_sig) tracker := by
  rw [h]
  exact inv

/-- The roots that a run of `extract` leaves are named as the constructor
names them one after the other, starting from the empty tracker. -/
theorem extract_named (module : Module) (fuel : Nat) (st st2 : Extractor) (r : Bool)
    (verdict : Option FinalCheck) (h : extract module fuel st = .ok (r, st2, verdict))
    (hports : st.m_ports = []) :
    ∃ tracker, NamedRoots (st2.m_ports.map root_sig) tracker := by
  have inv0 : NamedRoots
      (({ st with g_standalone_tracker := [] } : Extractor).m_ports.map root_sig)
      ({ st with g_standalone_tracker := [] } : Extractor).g_standalone_tracker := by
    show NamedRoots (st.m_ports.map root_sig) []
    rw [hports]
    exact namedRoots_nil
  unfold extract at h
  simp only [bind, Except.bind, pure, Except.pure, trace_fabric_clkbuf,
    trace_gearbox_fast_clock] at h
  repeat' split at h
  all_goals first
    | exact Except.noConfusion h
    | (cases h; exact ⟨_, inv0⟩)
    | (cases h
       have k1 := get_ports_named _ _ _ _ _ inv0 ‹get_ports _ _ _ = Except.ok _›
       first
         | exact ⟨_, k1⟩
         | (have k2 := namedRoots_of_rootsKept
              (trace_calls_roots _ _ _ _ _ ‹trace_calls _ _ _ _ = Except.ok _›) k1
            have k3 := trace_fabric_clkbuf_cells_named _ _ _ _ k2
              ‹trace_fabric_clkbuf_cells _ _ _ = Except.ok _›
            have k4 := namedRoots_of_rootsKept
              (trace_gearbox_fast_clock_loop_roots _ _ _
                ‹trace_gearbox_fast_clock_loop _ _ = Except.ok _›) k3
            first
              | exact ⟨_, k4⟩
              | (have k5 := namedRoots_of_rootsKept
                   (gen_instances_roots _ _ _ ‹gen_instances _ _ = Except.ok _›) k4
                 have k6 := namedRoots_of_sameCounts
                   (determine_fabric_clock_same _ _ _
                     ‹determine_fabric_clock _ _ = Except.ok _›) _ k5
                 have k7 := namedRoots_of_sameCounts
                   (summarize_same _ _ _ ‹summarize _ _ = Except.ok _›) _ k6
                 have k8 := finalize_roots _ _ _ _ ‹finalize _ _ = Except.ok _›
                 exact ⟨_, namedRoots_of_sigs k8.1 _ k7⟩)))

/-! ### The standalone names of a run -/

theorem genesis3_kinds_checked :
    ∀ db ∈ genesis3_primitives,
      (match standalone_kind db with
       | some K => K.all (fun c => decide (c.toNat ≠ 0 ∧ c ≠ '#')) &&
           (!db.is_standalone || decide (K ≠ "FABRIC_CLKBUF".toList))
       | none => true) = true := by
  decide

theorem genesis3_kinds (db : PRIMITIVE_DB) (hdb : db ∈ genesis3_primitives) (K : CppString)
    (hk : standalone_kind db = some K) :
    (∀ c ∈ K, c.toNat ≠ 0 ∧ c ≠ '#') ∧
      (db.is_standalone = true → K ≠ "FABRIC_CLKBUF".toList) := by
  have h := genesis3_kinds_checked db hdb
  rw [hk] at h
  simp only [Bool.and_eq_true, List.all_eq_true, decide_eq_true_eq, Bool.or_eq_true,
    Bool.not_eq_true'] at h
  refine ⟨h.1, fun hs => ?_⟩
  rcases h.2 with h2 | h2
  · rw [hs] at h2; exact Bool.noConfusion h2
  · exact h2

theorem earlier_of_kind_ports (ports : List PORT_PRIMITIVE) (i : Nat) (K : CppString) :
    earlier_of_kind (ports.map root_sig) i K =
      ((ports.take i).filter (fun r => decide (standalone_kind r.base.db = some K))).length := by
  unfold earlier_of_kind
  rw [← List.map_take, List.filter_map, List.length_map]
  rfl

theorem earlier_le (sigs : List (PRIMITIVE_DB × CppString)) (i : Nat) (K : CppString) :
    earlier_of_kind sigs i K ≤ i := by
  unfold earlier_of_kind
  exact (List.length_filter_le _ _).trans (List.length_take_le _ _)

theorem earlier_succ (sigs : List (PRIMITIVE_DB × CppString)) (i : Nat) (K : CppString) :
    earlier_of_kind sigs i K ≤ earlier_of_kind sigs (i + 1) K ∧
    ∀ s, sigs[i]? = some s → standalone_kind s.1 = some K →
      earlier_of_kind sigs (i + 1) K = earlier_of_kind sigs i K + 1 := by
  unfold earlier_of_kind
  rw [List.take_succ, List.filter_append, List.length_append]
  refine ⟨Nat.le_add_right _ _, ?_⟩
  intro s hs hk
  rw [hs]
  show _ + ([s].filter _).length = _
  rw [List.filter_cons_of_pos (by simpa using hk)]
  rfl

theorem earlier_mono (sigs : List (PRIMITIVE_DB × CppString)) (K : CppString) (i : Nat) :
    ∀ d : Nat, earlier_of_kind sigs i K ≤ earlier_of_kind sigs (i + d) K := by
  intro d
  induction d with
  | zero => exact Nat.le_refl _
  | succ d ih => exact ih.trans (earlier_succ sigs (i + d) K).1

theorem earlier_lt (sigs : List (PRIMITIVE_DB × CppString)) (K : CppString) (i j : Nat)
    (hij : i < j) (s : PRIMITIVE_DB × CppString) (hs : sigs[i]? = some s)
    (hk : standalone_kind s.1 = some K) :
    earlier_of_kind sigs i K < earlier_of_kind sigs j K := by
  have h1 := (earlier_succ sigs i K).2 s hs hk
  have h2 := earlier_mono sigs K (i + 1) (j - (i + 1))
  rw [show i + 1 + (j - (i + 1)) = j by omega] at h2
  omega

theorem append_sep_inj (c : Char) :
    ∀ (a b x y : CppString), c ∉ a → c ∉ b → a ++ c :: x = b ++ c :: y → a = b := by
  intro a
  induction a with
  | nil =>
    intro b x y _ hb h
    cases b with
    | nil => rfl
    | cons b0 bs =>
      have e : c = b0 := (List.cons.inj h).1
      exact absurd (e ▸ List.mem_cons_self _ _) hb
  | cons a0 as ih =>
    intro b x y ha hb h
    cases b with
    | nil =>
      have e : a0 = c := (List.cons.inj h).1
      exact absurd (e ▸ List.mem_cons_self _ _) ha
    | cons b0 bs =>
      obtain ⟨e1, e2⟩ := List.cons.inj h
      rw [e1, ih bs x y (fun hc => ha (List.mem_cons_of_mem _ hc))
        (fun hc => hb (List.mem_cons_of_mem _ hc)) e2]

theorem fmt_d_count (k : Nat) (hk : k < 2 ^ 31) :
    fmt_d (int_of_uint32 k) = Nat.toDigits 10 k := by
  unfold int_of_uint32
  have h32 : k % 2 ^ 32 = k := Nat.mod_eq_of_lt (by omega)
  rw [h32, if_pos hk, fmt_d_natCast]

/-- C27: in the state that a run of `extract` started without roots
leaves, which holds fewer than `2 ^ 31` roots, every root with a tracker key
`K` (its type name for a standalone root, `FABRIC_CLKBUF` for a fabric clock
buffer) has the standalone name `K#k`, where `k` is the decimal numeral of the
number of earlier roots with the key `K`; the key of a standalone root is
never `FABRIC_CLKBUF`; and the standalone names of two different roots with a
key differ.  The tracker the run starts with does not matter, so the numbers
start again at 0 in every run. -/
theorem C27_standalone_roots_are_numbered_by_kind_from_zero (module : Module) (fuel : Nat)
    (st st2 : Extractor) (r : Bool) (verdict : Option FinalCheck)
    (h : extract module fuel st = .ok (r, st2, verdict)) (hports : st.m_ports = [])
    (hsmall : st2.m_ports.length < 2 ^ 31) :
    (∀ (i : Nat) (port : PORT_PRIMITIVE) (K : CppString), st2.m_ports[i]? = some port →
      standalone_kind port.base.db = some K →
      port.standalone_name = K ++ "#".toList ++ Nat.toDigits 10
        ((st2.m_ports.take i).filter
          (fun q => decide (standalone_kind q.base.db = some K))).length) ∧
    (∀ port ∈ st2.m_ports, port.base.db.is_standalone = true →
      standalone_kind port.base.db ≠ some "FABRIC_CLKBUF".toList) ∧
    (∀ (i j : Nat) (p q : PORT_PRIMITIVE), i < j → st2.m_ports[i]? = some p →
      st2.m_ports[j]? = some q → standalone_kind p.base.db ≠ none →
      standalone_kind q.base.db ≠ none → p.standalone_name ≠ q.standalone_name) := by
  obtain ⟨tracker, n1, n2, -⟩ := extract_named module fuel st st2 r verdict h hports
  have hsig : ∀ (i : Nat) (port : PORT_PRIMITIVE), st2.m_ports[i]? = some port →
      (st2.m_ports.map root_sig)[i]? = some (root_sig port) := by
    intro i port hp
    rw [List.getElem?_map, hp]
    rfl
  have hkind : ∀ (i : Nat) (port : PORT_PRIMITIVE) (K : CppString),
      st2.m_ports[i]? = some port → standalone_kind port.base.db = some K →
      (∀ c ∈ K, c.toNat ≠ 0 ∧ c ≠ '#') ∧
        (port.base.db.is_standalone = true → K ≠ "FABRIC_CLKBUF".toList) := by
    intro i port K hp hk
    have hmem : (root_sig port).1 ∈ genesis3_primitives :=
      n1 _ (List.mem_iff_getElem?.mpr ⟨i, hsig i port hp⟩)
    exact genesis3_kinds _ hmem K hk
  have hname : ∀ (i : Nat) (port : PORT_PRIMITIVE) (K : CppString),
      st2.m_ports[i]? = some port → standalone_kind port.base.db = some K →
      port.standalone_name = K ++ "#".toList ++
        fmt_d (int_of_uint32 (earlier_of_kind (st2.m_ports.map root_sig) i K)) := by
    intro i port K hp hk
    have h2 := n2 i (root_sig port) K (hsig i port hp) hk
    rw [c_str_of_no_nul K (fun c hc => ((hkind i port K hp hk).1 c hc).1)] at h2
    exact h2
  refine ⟨?_, ?_, ?_⟩
  · intro i port K hp hk
    have hi : i < st2.m_ports.length := getElem?_lt_of_some _ _ _ hp
    have hle := earlier_le (st2.m_ports.map root_sig) i K
    rw [hname i port K hp hk, fmt_d_count _ (by omega), earlier_of_kind_ports]
  · intro port hmem hs hk
    obtain ⟨i, hp⟩ := List.mem_iff_getElem?.mp hmem
    exact (hkind i port _ hp hk).2 hs rfl
  · intro i j p q hij hp hq hkp hkq heq
    obtain ⟨Kp, hKp⟩ := Option.ne_none_iff_exists'.mp hkp
    obtain ⟨Kq, hKq⟩ := Option.ne_none_iff_exists'.mp hkq
    rw [hname i p Kp hp hKp, hname j q Kq hq hKq] at heq
    have hj : j < st2.m_ports.length := getElem?_lt_of_some _ _ _ hq
    have e1 : Kp = Kq := by
      apply append_sep_inj '#' Kp Kq _ _
        (fun hc => ((hkind i p Kp hp hKp).1 _ hc).2 rfl)
        (fun hc => ((hkind j q Kq hq hKq).1 _ hc).2 rfl)
      simpa [List.append_assoc] using heq
    subst e1
    have e2 := List.append_cancel_left heq
    have hlt := earlier_lt (st2.m_ports.map root_sig) Kp i j hij (root_sig p) (hsig i p hp) hKp
    have hle := earlier_le (st2.m_ports.map root_sig) j Kp
    have e3 := int_of_uint32_injective _ _ (by omega) (by omega) (fmt_d_injective _ _ e2)
    omega

/-- Witness for C27: the run on `example_two_oscillators`, two boot clocks
and two fabric clock buffers, started with a tracker that holds 7 for
`BOOT_CLOCK`. -/
theorem C27_standalone_roots_are_numbered_by_kind_from_zero_witness :
    example_two_oscillators_extracted.2.1.m_ports.map (fun p => p.standalone_name) =
      ["".toList, "BOOT_CLOCK#0".toList, "BOOT_CLOCK#1".toList, "FABRIC_CLKBUF#0".toList,
       "FABRIC_CLKBUF#1".toList] ∧
    ((∀ (i : Nat) (port : PORT_PRIMITIVE) (K : CppString),
      example_two_oscillators_extracted.2.1.m_ports[i]? = some port →
      standalone_kind port.base.db = some K →
      port.standalone_name = K ++ "#".toList ++ Nat.toDigits 10
        ((example_two_oscillators_extracted.2.1.m_ports.take i).filter
          (fun q => decide (standalone_kind q.base.db = some K))).length) ∧
    (∀ port ∈ example_two_oscillators_extracted.2.1.m_ports,
      port.base.db.is_standalone = true →
      standalone_kind port.base.db ≠ some "FABRIC_CLKBUF".toList) ∧
    (∀ (i j : Nat) (p q : PORT_PRIMITIVE), i < j →
      example_two_oscillators_extracted.2.1.m_ports[i]? = some p →
      example_two_oscillators_extracted.2.1.m_ports[j]? = some q →
      standalone_kind p.base.db ≠ none →
      standalone_kind q.base.db ≠ none → p.standalone_name ≠ q.standalone_name)) :=
  ⟨by decide,
   C27_standalone_roots_are_numbered_by_kind_from_zero example_two_oscillators 10
    example_used_extractor example_two_oscillators_extracted.2.1
    example_two_oscillators_extracted.1 example_two_oscillators_extracted.2.2
    rfl rfl (by decide)⟩

/-! ### parse_location as a function of the string -/

/-- A record that passes the entry assertion of `parse_location` is a fresh
record but for its `location` text. -/
theorem entry_record_eq (p : PARSED_LOCATION) (hp : ParseLocationEntry p) :
    p = { PARSED_LOCATION.fresh with location := p.location } := by
  obtain ⟨h1, h2, h3, h4, h5, h6⟩ := hp
  cases p with
  | mk location type bank is_clock index status failure_reason =>
    simp only at h1 h2 h3 h4 h5 h6
    have e1 := List.length_eq_zero.1 h1
    have e2 := List.length_eq_zero.1 h2
    have e6 := List.length_eq_zero.1 h6
    subst e1 e2 h3 h4 e6
    rw [h5]
    rfl

/-- The outcome of `parse_location` on a record that passes the entry
assertion is the outcome on a fresh record, with the `location` text of the
record handed in. -/
theorem parse_location_of_entry (s : CppString) (p : PARSED_LOCATION)
    (hp : ParseLocationEntry p) :
    parse_location s p =
      Except.map (fun r => { r with location := p.location })
        (parse_location s PARSED_LOCATION.fresh) := by
  have he := entry_record_eq p hp
  generalize p.location = l at he
  subst he
  have hp2 := hp
  by_cases hs : s = []
  · subst hs
    rw [parse_location_empty _ hp2, parse_location_empty _ fresh_entry]
    rfl
  · cases hm : regex_match_location s with
    | none =>
      rw [parse_location_unmatched s _ hp2 hs hm,
        parse_location_unmatched s _ fresh_entry hs hm]
      rfl
    | some m =>
      obtain ⟨t, b, cc, idx, pair, pol, hg, _⟩ := grammar_of_regex_match s m hm
      rw [parse_location_matched s _ t b cc idx pair pol hp2 hg,
        parse_location_matched s _ t b cc idx pair pol fresh_entry hg]
      repeat' split
      all_goals rfl

/-- What a returning call of `parse_location` returns is the record it
leaves. -/
theorem parse_location_left_of_ok (s : CppString) (p r : PARSED_LOCATION)
    (h : parse_location s p = .ok r) : parse_location_left s p = r := by
  unfold parse_location at h
  unfold parse_location_left
  cases hm : regex_match_location s with
  | none =>
    simp only [hm] at h ⊢
    split_ifs at h ⊢
    all_goals first | exact Except.noConfusion h | exact Except.ok.inj h
  | some m =>
    cases hi : stoi m.m4 with
    | error e =>
      simp only [hm, hi] at h ⊢
      split_ifs at h ⊢
      all_goals first | exact Except.noConfusion h | exact Except.ok.inj h
    | ok i =>
      cases hq : stoi m.m5 with
      | error e =>
        simp only [hm, hi, hq] at h ⊢
        split_ifs at h ⊢
        all_goals first | exact Except.noConfusion h | exact Except.ok.inj h
      | ok q =>
        simp only [hm, hi, hq] at h ⊢
        split_ifs at h ⊢
        all_goals first | exact Except.noConfusion h | exact Except.ok.inj h

/-- When `std::stoi` throws in `parse_location`, the record is left BAD with
an empty failure reason. -/
theorem parse_location_left_of_throw (s : CppString) (p : PARSED_LOCATION)
    (h : parse_location s p = .error .out_of_range) :
    (parse_location_left s p).status = PARSED_LOCATION_BAD ∧
      (parse_location_left s p).failure_reason = [] := by
  unfold parse_location at h
  unfold parse_location_left
  cases hm : regex_match_location s with
  | none =>
    simp only [hm] at h ⊢
    split_ifs at h ⊢
    all_goals first
      | exact Except.noConfusion h
      | exact absurd h (by simp)
  | some m =>
    cases hi : stoi m.m4 with
    | error e =>
      simp only [hm, hi] at h ⊢
      split_ifs at h ⊢ with h1 h2 h3
      all_goals first
        | exact ⟨rfl, List.length_eq_zero.1 h1.2.2.2.2.2⟩
        | exact Except.noConfusion h
        | exact absurd h (by simp)
    | ok i =>
      cases hq : stoi m.m5 with
      | error e =>
        simp only [hm, hi, hq] at h ⊢
        split_ifs at h ⊢ with h1 h2 h3
        all_goals first
          | exact ⟨rfl, List.length_eq_zero.1 h1.2.2.2.2.2⟩
          | exact Except.noConfusion h
          | exact absurd h (by simp)
      | ok q =>
        simp only [hm, hi, hq] at h ⊢
        split_ifs at h ⊢
        all_goals first
          | exact Except.noConfusion h
          | exact absurd h (by simp)

/-- A string of the grammar is not empty. -/
theorem grammar_ne_nil (s : CppString) (t b : Char) (cc idx pair : CppString) (pol : Char)
    (hg : LocationGrammar s t b cc idx pair pol) : s ≠ [] := by
  rw [hg.1]
  exact List.cons_ne_nil _ _

/-- The pieces of a string of the grammar are determined by the string. -/
theorem grammar_pieces_unique (s : CppString) (t b t2 b2 : Char)
    (cc idx pair cc2 idx2 pair2 : CppString) (pol pol2 : Char)
    (hg : LocationGrammar s t b cc idx pair pol)
    (hg2 : LocationGrammar s t2 b2 cc2 idx2 pair2 pol2) :
    t = t2 ∧ b = b2 ∧ cc = cc2 ∧ idx = idx2 ∧ pair = pair2 ∧ pol = pol2 := by
  have h1 := regex_match_of_grammar s t b cc idx pair pol hg
  have h2 := regex_match_of_grammar s t2 b2 cc2 idx2 pair2 pol2 hg2
  rw [h1] at h2
  have e := Option.some.inj h2
  simp only [LocationMatch.mk.injEq, List.cons.injEq, and_true] at e
  exact e

/-- A call of `parse_location` on a record that passes the entry assertion
returns, unless the string is of the grammar and its index, or its pair index
when the index is below 40, does not fit an `int`: then `std::stoi` throws
`std::out_of_range`, and the record is left BAD with an empty reason. -/
theorem parse_location_returns_or_throws (s : CppString) (p : PARSED_LOCATION)
    (hp : ParseLocationEntry p) :
    (¬ LocationOverflows s ∧ ∃ r, parse_location s p = .ok r) ∨
    (LocationOverflows s ∧ parse_location s p = .error .out_of_range ∧
      (parse_location_left s p).status = PARSED_LOCATION_BAD ∧
      (parse_location_left s p).failure_reason = []) := by
  by_cases hs : s = []
  · refine Or.inl ⟨?_, _, by rw [hs]; exact parse_location_empty p hp⟩
    rintro ⟨t, b, cc, idx, pair, pol, hg, _⟩
    exact grammar_ne_nil s t b cc idx pair pol hg hs
  · cases hm : regex_match_location s with
    | none =>
      refine Or.inl ⟨?_, _, parse_location_unmatched s p hp hs hm⟩
      rintro ⟨t, b, cc, idx, pair, pol, hg, _⟩
      rw [regex_match_of_grammar s t b cc idx pair pol hg] at hm
      exact Option.noConfusion hm
    | some m =>
      obtain ⟨t, b, cc, idx, pair, pol, hg, _⟩ := grammar_of_regex_match s m hm
      have hpl := parse_location_matched s p t b cc idx pair pol hp hg
      by_cases h1 : INT_MAX < (decimalValue idx : Int)
      · rw [if_pos h1] at hpl
        exact Or.inr ⟨⟨t, b, cc, idx, pair, pol, hg, Or.inl h1⟩, hpl,
          parse_location_left_of_throw s p hpl⟩
      · rw [if_neg h1] at hpl
        by_cases h2 : decimalValue idx < 40
        · rw [if_pos h2] at hpl
          by_cases h3 : INT_MAX < (decimalValue pair : Int)
          · rw [if_pos h3] at hpl
            exact Or.inr ⟨⟨t, b, cc, idx, pair, pol, hg, Or.inr ⟨h2, h3⟩⟩, hpl,
              parse_location_left_of_throw s p hpl⟩
          · rw [if_neg h3] at hpl
            refine Or.inl ⟨?_, ?_⟩
            · rintro ⟨t2, b2, cc2, idx2, pair2, pol2, hg2, ho⟩
              obtain ⟨_, _, _, e4, e5, _⟩ :=
                grammar_pieces_unique s t b t2 b2 cc idx pair cc2 idx2 pair2 pol pol2 hg hg2
              subst e4 e5
              rcases ho with ho | ho
              · exact h1 ho
              · exact h3 ho.2
            · rw [hpl]
              split_ifs <;> exact ⟨_, rfl⟩
        · rw [if_neg h2] at hpl
          refine Or.inl ⟨?_, _, hpl⟩
          rintro ⟨t2, b2, cc2, idx2, pair2, pol2, hg2, ho⟩
          obtain ⟨_, _, _, e4, e5, _⟩ :=
            grammar_pieces_unique s t b t2 b2 cc idx pair cc2 idx2 pair2 pol pol2 hg hg2
          subst e4 e5
          rcases ho with ho | ho
          · exact h1 ho
          · exact h2 ho.1

/-- Every returning call of `parse_location` leaves a status GOOD, BAD or
SKIP, and an empty failure reason exactly with GOOD. -/
theorem parse_location_status_of_ok (s : CppString) (p r : PARSED_LOCATION)
    (h : parse_location s p = .ok r) :
    (r.status = PARSED_LOCATION_GOOD ∨ r.status = PARSED_LOCATION_BAD ∨
      r.status = PARSED_LOCATION_SKIP) ∧
    (r.failure_reason = [] ↔ r.status = PARSED_LOCATION_GOOD) := by
  have hp := parse_location_entry_of_ok s p r h
  rcases parse_location_cases s p r h with ⟨_, h1, h2⟩ | ⟨_, _, h1, h2⟩ | h3
  · refine ⟨Or.inr (Or.inr h1), ⟨fun e => absurd e h2, fun e => ?_⟩⟩
    rw [h1] at e
    exact absurd e (by decide)
  · refine ⟨Or.inr (Or.inl h1), ⟨fun e => absurd e h2, fun e => ?_⟩⟩
    rw [h1] at e
    exact absurd e (by decide)
  · obtain ⟨t, b, cc, idx, pair, pol, hg, h4⟩ := h3
    rcases h4 with ⟨_, _, hr⟩ | ⟨_, h1, h2⟩
    · subst hr
      exact ⟨Or.inl rfl, ⟨fun _ => rfl, fun _ => List.length_eq_zero.1 hp.2.2.2.2.2⟩⟩
    · refine ⟨Or.inr (Or.inl h1), ⟨fun e => absurd e h2, fun e => ?_⟩⟩
      rw [h1] at e
      exact absurd e (by decide)

/-- C31: `parse_location` is a function of its string argument: on two
records that pass its entry assertion (fresh records, whatever their
`location` text) two calls on the same string have the same outcome, with
the same type, bank, clock flag, index, status and failure reason (and the
same exception where `std::stoi` throws); the `location` text is what the
record had, and the record is what the call on a fresh record gives. -/
theorem C31_parse_location_is_a_function_of_the_string (s : CppString)
    (p1 p2 : PARSED_LOCATION) (h1 : ParseLocationEntry p1) (h2 : ParseLocationEntry p2) :
    Except.map parsed_fields (parse_location s p1) =
      Except.map parsed_fields (parse_location s p2) ∧
    parsed_fields (parse_location_left s p1) = parsed_fields (parse_location_left s p2) ∧
    parse_location s p1 =
      Except.map (fun r => { r with location := p1.location })
        (parse_location s PARSED_LOCATION.fresh) ∧
    (p1 = PARSED_LOCATION.fresh → p2 = PARSED_LOCATION.fresh →
      parse_location s p1 = parse_location s p2) := by
  have e1 := parse_location_of_entry s p1 h1
  have e2 := parse_location_of_entry s p2 h2
  refine ⟨?_, ?_, e1, ?_⟩
  · rw [e1, e2]
    cases parse_location s PARSED_LOCATION.fresh <;> rfl
  · have g1 := entry_record_eq p1 h1
    have g2 := entry_record_eq p2 h2
    generalize p1.location = l1 at g1
    generalize p2.location = l2 at g2
    subst g1 g2
    unfold parse_location_left
    cases hm : regex_match_location s with
    | none =>
      simp only [hm]
      split_ifs <;> rfl
    | some m =>
      cases hi : stoi m.m4 with
      | error e =>
        simp only [hm, hi]
        split_ifs <;> rfl
      | ok i =>
        cases hq : stoi m.m5 with
        | error e =>
          simp only [hm, hi, hq]
          split_ifs <;> rfl
        | ok q =>
          simp only [hm, hi, hq]
          split_ifs <;> rfl
  · intro a b
    rw [a, b]

/-- Witness for C31: the record of an instance whose location text is
`HP_1_4_2P` and a fresh record, on the string `HP_1_4_2P`. -/
theorem C31_parse_location_is_a_function_of_the_string_witness :
    ParseLocationEntry { location := "HP_1_4_2P".toList } ∧
    ParseLocationEntry PARSED_LOCATION.fresh ∧
    Except.map parsed_fields
        (parse_location "HP_1_4_2P".toList { location := "HP_1_4_2P".toList }) =
      Except.map parsed_fields
        (parse_location "HP_1_4_2P".toList PARSED_LOCATION.fresh) ∧
    Except.map parsed_fields (parse_location "HP_1_4_2P".toList PARSED_LOCATION.fresh) =
      .ok ("P".toList, "1".toList, false, 4, PARSED_LOCATION_GOOD, []) :=
  ⟨by decide, by decide,
    (C31_parse_location_is_a_function_of_the_string "HP_1_4_2P".toList
      { location := "HP_1_4_2P".toList } PARSED_LOCATION.fresh (by decide) (by decide)).1,
    rfl⟩

/-- C40: on a record that passes the entry assertion, every call of
`parse_location` that returns leaves a status GOOD, BAD or SKIP, never
UNKNOWN, and a failure reason that is empty exactly when the status is GOOD;
the call returns on every string but those of the grammar whose index, or
pair index when the index is below 40, does not fit an `int`: there
`std::stoi` throws `std::out_of_range`, the call does not return, and the
record is left BAD with an empty failure reason. -/
theorem C40_returned_status_is_never_unknown_and_reason_empty_iff_good (s : CppString)
    (p : PARSED_LOCATION) (hp : ParseLocationEntry p) :
    (∀ r, parse_location s p = .ok r →
      (r.status = PARSED_LOCATION_GOOD ∨ r.status = PARSED_LOCATION_BAD ∨
        r.status = PARSED_LOCATION_SKIP) ∧
      r.status ≠ PARSED_LOCATION_UNKNOWN ∧
      (r.failure_reason = [] ↔ r.status = PARSED_LOCATION_GOOD)) ∧
    ((¬ LocationOverflows s ∧ ∃ r, parse_location s p = .ok r) ∨
      (LocationOverflows s ∧ parse_location s p = .error .out_of_range ∧
        (parse_location_left s p).status = PARSED_LOCATION_BAD ∧
        (parse_location_left s p).failure_reason = [])) := by
  refine ⟨?_, parse_location_returns_or_throws s p hp⟩
  intro r h
  obtain ⟨k1, k2⟩ := parse_location_status_of_ok s p r h
  refine ⟨k1, ?_, k2⟩
  rcases k1 with e | e | e <;> rw [e] <;> decide

/-- Witness for C40: the string `HP_1_2147483648_0P`, whose index is one more
than the largest `int`: the call does not return. -/
theorem C40_returned_status_is_never_unknown_and_reason_empty_iff_good_witness :
    ParseLocationEntry PARSED_LOCATION.fresh ∧
    parse_location "HP_1_2147483648_0P".toList PARSED_LOCATION.fresh =
      .error .out_of_range ∧
    (parse_location_left "HP_1_2147483648_0P".toList PARSED_LOCATION.fresh).status =
      PARSED_LOCATION_BAD ∧
    (parse_location_left "HP_1_2147483648_0P".toList
      PARSED_LOCATION.fresh).failure_reason = [] ∧
    Except.map parsed_fields
        (parse_location "HP_1_40_20P".toList PARSED_LOCATION.fresh) =
      .ok ("P".toList, "1".toList, false, 40, PARSED_LOCATION_BAD,
        "Location HP_1_40_20P is range of index range".toList) :=
  ⟨by decide,
    ((C40_returned_status_is_never_unknown_and_reason_empty_iff_good
      "HP_1_2147483648_0P".toList PARSED_LOCATION.fresh (by decide)).2.resolve_left
      (fun k => by
        obtain ⟨r, hr⟩ := k.2
        have hE : parse_location "HP_1_2147483648_0P".toList PARSED_LOCATION.fresh =
            .error .out_of_range := by decide
        rw [hE] at hr
        exact Except.noConfusion hr)).2.1,
    by decide, by decide, rfl⟩

/-! ### Locations derived from a GOOD location -/

/-- A record that `parse_location` has returned GOOD: its type letter, bank
digit, clock flag and index below 40. -/
theorem good_record_shape (s : CppString) (p r : PARSED_LOCATION)
    (h : parse_location s p = .ok r) (hg : r.status = PARSED_LOCATION_GOOD) :
    ∃ (t b : Char) (n : Nat), r.type = [t] ∧ r.bank = [b] ∧ r.index = (n : Int) ∧
      (t = 'P' ∨ t = 'R') ∧ 49 ≤ b.toNat ∧ b.toNat ≤ 54 ∧ n < 40 ∧
      (s.getLast? = some 'P' ↔ n % 2 = 0) := by
  rcases parse_location_cases s p r h with h1 | h1 | h1
  · rw [h1.2.1] at hg
    exact absurd hg (by decide)
  · rw [h1.2.2.1] at hg
    exact absurd hg (by decide)
  · obtain ⟨t, b, cc, idx, pair, pol, hgr, h2⟩ := h1
    rcases h2 with ⟨hi, hc, hr⟩ | ⟨_, hb, _⟩
    · subst hr
      refine ⟨t, b, decimalValue idx, rfl, rfl, rfl, hgr.2.1, hgr.2.2.1.1, hgr.2.2.1.2, hi, ?_⟩
      have hl : s.getLast? = some pol := by
        rw [hgr.1]
        have e : 'H' :: t :: '_' :: b :: '_' :: (cc ++ idx ++ '_' :: (pair ++ [pol])) =
            ('H' :: t :: '_' :: b :: '_' :: (cc ++ idx ++ '_' :: pair)) ++ [pol] := by
          simp
        rw [e, List.getLast?_append]
        rfl
      rw [hl]
      rcases hc.2 with ⟨h0, hp⟩ | ⟨h1, hp⟩
      · rw [hp]
        exact ⟨fun _ => h0, fun _ => rfl⟩
      · rw [hp]
        constructor
        · intro e
          exact absurd (Option.some.inj e) (by decide)
        · intro e
          omega
    · rw [hb] at hg
      exact absurd hg (by decide)

/-- The anchor `H<t>_<b>_0_0P` is GOOD with index 0. -/
theorem anchor_zero_good (t b : Char) (ht : t = 'P' ∨ t = 'R')
    (hb1 : 49 ≤ b.toNat) (hb2 : b.toNat ≤ 54) :
    parse_location ("H".toList ++ [t] ++ "_".toList ++ [b] ++ "_0_0P".toList)
        PARSED_LOCATION.fresh =
      .ok { type := [t], bank := [b], is_clock := false, index := 0,
            status := PARSED_LOCATION_GOOD } := by
  have hg : LocationGrammar ("H".toList ++ [t] ++ "_".toList ++ [b] ++ "_0_0P".toList)
      t b [] "0".toList "0".toList 'P' :=
    ⟨rfl, ht, ⟨hb1, hb2⟩, Or.inl rfl, ⟨by decide, by decide⟩, ⟨by decide, by decide⟩,
      Or.inl rfl⟩
  rw [parse_location_matched _ _ _ _ _ _ _ _ fresh_entry hg]
  rfl

/-- The anchor `H<t>_<b>_20_10P` is GOOD with index 20. -/
theorem anchor_twenty_good (t b : Char) (ht : t = 'P' ∨ t = 'R')
    (hb1 : 49 ≤ b.toNat) (hb2 : b.toNat ≤ 54) :
    parse_location ("H".toList ++ [t] ++ "_".toList ++ [b] ++ "_20_10P".toList)
        PARSED_LOCATION.fresh =
      .ok { type := [t], bank := [b], is_clock := false, index := 20,
            status := PARSED_LOCATION_GOOD } := by
  have hg : LocationGrammar ("H".toList ++ [t] ++ "_".toList ++ [b] ++ "_20_10P".toList)
      t b [] "20".toList "10".toList 'P' :=
    ⟨rfl, ht, ⟨hb1, hb2⟩, Or.inl rfl, ⟨by decide, by decide⟩, ⟨by decide, by decide⟩,
      Or.inl rfl⟩
  rw [parse_location_matched _ _ _ _ _ _ _ _ fresh_entry hg]
  rfl

/-- The positive pin `H<t>_<b>[_CC]_<n-1>_<n/2>P` of the pair of an odd
index `n` below 40 is GOOD with index `n - 1` and the clock flag. -/
theorem pair_alternate_good (t b : Char) (clock : Bool) (n : Nat)
    (ht : t = 'P' ∨ t = 'R') (hb1 : 49 ≤ b.toNat) (hb2 : b.toNat ≤ 54)
    (hn : n < 40) (hodd : n % 2 = 1) :
    parse_location ("H".toList ++ [t] ++ "_".toList ++ [b] ++
        (if clock then "_CC".toList else []) ++ "_".toList ++
        Nat.toDigits 10 (n - 1) ++ "_".toList ++ Nat.toDigits 10 (n / 2) ++ "P".toList)
        PARSED_LOCATION.fresh =
      .ok { type := [t], bank := [b], is_clock := clock, index := ((n - 1 : Nat) : Int),
            status := PARSED_LOCATION_GOOD } := by
  have h1 : n - 1 < 40 := by omega
  have h2 : n / 2 < 40 := by omega
  obtain ⟨hne, hd, hv⟩ := toDigits_small (n - 1) h1
  obtain ⟨hne2, hd2, hv2⟩ := toDigits_small (n / 2) h2
  have hg : LocationGrammar ("H".toList ++ [t] ++ "_".toList ++ [b] ++
        (if clock then "_CC".toList else []) ++ "_".toList ++
        Nat.toDigits 10 (n - 1) ++ "_".toList ++ Nat.toDigits 10 (n / 2) ++ "P".toList)
      t b (if clock then "CC_".toList else []) (Nat.toDigits 10 (n - 1))
      (Nat.toDigits 10 (n / 2)) 'P' := by
    refine ⟨?_, ht, ⟨hb1, hb2⟩, ?_, ⟨hne, hd⟩, ⟨hne2, hd2⟩, Or.inl rfl⟩
    · cases clock <;> simp
    · cases clock
      · exact Or.inl rfl
      · exact Or.inr rfl
  rw [parse_location_matched _ _ _ _ _ _ _ _ fresh_entry hg]
  have hmax : ¬ INT_MAX < ((n - 1 : Nat) : Int) := by
    unfold INT_MAX
    omega
  have hmax2 : ¬ INT_MAX < ((n / 2 : Nat) : Int) := by
    unfold INT_MAX
    omega
  have hhalf : (n - 1) / 2 = n / 2 := by omega
  have hpol : ((n - 1) % 2 = 0 ∧ 'P' = 'P') ∨ ((n - 1) % 2 = 1 ∧ 'P' = 'N') :=
    Or.inl ⟨by omega, rfl⟩
  rw [hv, hv2, if_neg hmax, if_pos h1, if_neg hmax2, if_pos hhalf, if_pos hpol]
  cases clock <;> simp [matchedRecord, PARSED_LOCATION.fresh, hv]

/-- C38: every location text that the writers derive from a location that
`parse_location` has found GOOD is GOOD again, with the same type and bank:
the anchor of the half bank, `H<type>_<bank>_0_0P` for an index below 20 and
`H<type>_<bank>_20_10P` otherwise, as `get_assigned_location` with the rule
`half-first` and `write_control_signal` for a signal shared by the half bank
build it, has index 0 or 20 and no clock flag; and for an odd index the
location of the data nets in `write_data_mode_and_location` (the half `B`) ends
in `P` and has the index one less and the same clock flag. -/
theorem C38_derived_locations_of_a_good_location_are_good (s : CppString)
    (p r : PARSED_LOCATION) (entry : SDC_ENTRY) (iter0 : CONTROL_SIGNAL_INFO)
    (inst : INSTANCE) (pin : PIN_PORT)
    (h : parse_location s p = .ok r) (hg : r.status = PARSED_LOCATION_GOOD)
    (hinst : inst.parsed_location = r)
    (hshared : iter0.rules &&& CSR_IS_SHARED_HALF_BANK ≠ 0) :
    (∃ e2 a, get_assigned_location entry "half-first".toList r = .ok (e2, a) ∧
      control_assigned_location iter0 inst = a ∧
      parse_location a PARSED_LOCATION.fresh =
        .ok { type := r.type, bank := r.bank, is_clock := false,
              index := if r.index < 20 then 0 else 20,
              status := PARSED_LOCATION_GOOD }) ∧
    (r.index % 2 = 1 →
      (pair_location pin 'B' r).getLast? = some 'P' ∧
      parse_location (pair_location pin 'B' r) PARSED_LOCATION.fresh =
        .ok { type := r.type, bank := r.bank, is_clock := r.is_clock,
              index := r.index - 1, status := PARSED_LOCATION_GOOD }) := by
  obtain ⟨t, b, n, ht, hb, hidx, htt, hb1, hb2, hn, _⟩ := good_record_shape s p r h hg
  obtain ⟨hf, _⟩ := good_location_fields s p r h hg
  have ht0 : t.toNat ≠ 0 := by
    rcases htt with e | e <;> rw [e] <;> decide
  have hct : c_str r.type = [t] := by
    rw [ht]
    exact c_str_singleton t ht0
  have hcb : c_str r.bank = [b] := by
    rw [hb]
    exact c_str_singleton b (by omega)
  have hr1 : ("half-first".toList = ([] : CppString) ∨
      "half-first".toList = "half-first".toList) := Or.inr rfl
  constructor
  · subst hinst
    have hca : control_assigned_location iter0 inst =
        if inst.parsed_location.index < 20 then
          "H".toList ++ [t] ++ "_".toList ++ [b] ++ "_0_0P".toList
        else "H".toList ++ [t] ++ "_".toList ++ [b] ++ "_20_10P".toList := by
      unfold control_assigned_location
      rw [if_pos (And.intro hg hshared), hct, hcb]
    have hga : ∃ e2, get_assigned_location entry "half-first".toList inst.parsed_location =
        .ok (e2, if inst.parsed_location.index < 20 then
          "H".toList ++ [t] ++ "_".toList ++ [b] ++ "_0_0P".toList
        else "H".toList ++ [t] ++ "_".toList ++ [b] ++ "_20_10P".toList) := by
      unfold get_assigned_location
      rw [if_neg (not_not.mpr hr1), if_neg (not_not.mpr hg), if_neg (not_not.mpr hf),
        if_pos rfl, hct, hcb]
      exact ⟨_, rfl⟩
    obtain ⟨e2, hga⟩ := hga
    refine ⟨e2, _, hga, hca, ?_⟩
    by_cases hi : inst.parsed_location.index < 20
    · rw [if_pos hi, if_pos hi, anchor_zero_good t b htt hb1 hb2, ht, hb]
    · rw [if_neg hi, if_neg hi, anchor_twenty_good t b htt hb1 hb2, ht, hb]
  · intro hodd
    have hn1 : n % 2 = 1 := by
      rw [hidx] at hodd
      omega
    have hsub : r.index - 1 = ((n - 1 : Nat) : Int) := by
      rw [hidx]
      omega
    have hdiv : Int.tdiv r.index 2 = ((n / 2 : Nat) : Int) := by
      rw [hidx]
      exact (Int.ofNat_tdiv n 2).symm
    have hloc : pair_location pin 'B' r =
        "H".toList ++ [t] ++ "_".toList ++ [b] ++
          (if r.is_clock then "_CC".toList else []) ++ "_".toList ++
          Nat.toDigits 10 (n - 1) ++ "_".toList ++ Nat.toDigits 10 (n / 2) ++
          "P".toList := by
      unfold pair_location
      rw [if_neg (by decide), hct, hcb, hsub, hdiv, fmt_d_natCast, fmt_d_natCast]
    rw [hloc]
    refine ⟨?_, ?_⟩
    · rw [List.getLast?_append]
      rfl
    · rw [pair_alternate_good t b r.is_clock n htt hb1 hb2 hn hn1, ht, hb, hsub]

/-- Witness for C38: the location `HR_2_CC_25_12N` of bank 2 with the clock
marker and the odd index 25; its anchor is `HR_2_20_10P` and the positive pin of
its pair `HR_2_CC_24_12P`. -/
theorem C38_derived_locations_of_a_good_location_are_good_witness :
    parse_location "HR_2_CC_25_12N".toList PARSED_LOCATION.fresh =
      .ok { type := "R".toList, bank := "2".toList, is_clock := true, index := 25,
            status := PARSED_LOCATION_GOOD } ∧
    control_assigned_location
        { name := "f2g_trx_dly_ld".toList, dir := IO_DIR.IN,
          rules := CSR_IS_SHARED_HALF_BANK, primitives := [] }
        { module := "I_DELAY".toList, name := "dly".toList, linked_objects := ["din".toList],
          primitive := none, pre_primitive := [], post_primitives := [],
          parsed_location :=
            { type := "R".toList, bank := "2".toList, is_clock := true, index := 25,
              status := PARSED_LOCATION_GOOD } } = "HR_2_20_10P".toList ∧
    pair_location
        { name := "din".toList, primitive := PrimRef.port 0, is_input := true,
          is_standalone := false, is_fabric_clkbuf := false,
          location := "HR_2_CC_25_12N".toList } 'B'
        { type := "R".toList, bank := "2".toList, is_clock := true, index := 25,
          status := PARSED_LOCATION_GOOD } = "HR_2_CC_24_12P".toList ∧
    parse_location "HR_2_CC_24_12P".toList PARSED_LOCATION.fresh =
      .ok { type := "R".toList, bank := "2".toList, is_clock := true, index := 24,
            status := PARSED_LOCATION_GOOD } :=
  ⟨by decide, by decide, by decide,
    ((C38_derived_locations_of_a_good_location_are_good "HR_2_CC_25_12N".toList
      PARSED_LOCATION.fresh
      { type := "R".toList, bank := "2".toList, is_clock := true, index := 25,
        status := PARSED_LOCATION_GOOD }
      {}
      { name := "f2g_trx_dly_ld".toList, dir := IO_DIR.IN,
        rules := CSR_IS_SHARED_HALF_BANK, primitives := [] }
      { module := "I_DELAY".toList, name := "dly".toList, linked_objects := ["din".toList],
        primitive := none, pre_primitive := [], post_primitives := [],
        parsed_location :=
          { type := "R".toList, bank := "2".toList, is_clock := true, index := 25,
            status := PARSED_LOCATION_GOOD } }
      { name := "din".toList, primitive := PrimRef.port 0, is_input := true,
        is_standalone := false, is_fabric_clkbuf := false,
        location := "HR_2_CC_25_12N".toList }
      (by decide) (by decide) rfl (by decide)).2 (by decide)).2⟩

/-! ### get_rid_trait and get_trait -/

theorem findFrom_colon (s : CppString) (i : Nat) :
    findFrom ":".toList s i =
      if ':' ∈ s then i + (trait_name s).length else npos := by
  induction s generalizing i with
  | nil => rfl
  | cons c t ih =>
    show (if startsWith (c :: t) [':'] then i else findFrom [':'] t (i + 1)) = _
    by_cases hc : c = ':'
    · subst hc
      simp [startsWith, trait_name]
    · have hs : startsWith (c :: t) [':'] = false := by
        simp [startsWith, hc]
      rw [hs]
      have := ih (i + 1)
      simp only [String.toList] at this
      simp only [Bool.false_eq_true, if_false]
      rw [this]
      have hne : ¬ ':' = c := fun e => hc e.symm
      by_cases hm : ':' ∈ t
      · simp [hm, trait_name, hc]
        omega
      · simp [hm, hne]

theorem find_colon (s : CppString) :
    find s ":".toList = if ':' ∈ s then (trait_name s).length else npos := by
  unfold find
  rw [findFrom_colon]
  simp

theorem trait_name_length_le (s : CppString) : (trait_name s).length ≤ s.length := by
  unfold trait_name
  exact (List.takeWhile_sublist _).length_le

theorem trait_name_of_no_colon (s : CppString) (h : ':' ∉ s) : trait_name s = s := by
  unfold trait_name
  rw [List.takeWhile_eq_self_iff]
  intro c hc
  have : c ≠ ':' := fun e => h (e ▸ hc)
  simpa using this

theorem trait_name_length_lt (s : CppString) (h : ':' ∈ s) :
    (trait_name s).length < s.length := by
  induction s with
  | nil => exact absurd h (List.not_mem_nil _)
  | cons c t ih =>
    by_cases hc : c = ':'
    · subst hc
      simp [trait_name]
    · have ht : ':' ∈ t := by
        rcases List.mem_cons.1 h with e | e
        · exact absurd e.symm hc
        · exact e
      have := ih ht
      simp only [trait_name] at this
      simp [trait_name, hc]
      exact this

theorem take_trait_name (s : CppString) :
    s.take (trait_name s).length = trait_name s := by
  unfold trait_name
  induction s with
  | nil => rfl
  | cons c t ih =>
    by_cases hc : c = ':'
    · subst hc
      simp
    · simp [hc, ih]

theorem drop_trait_name (s : CppString) :
    s.drop ((trait_name s).length + 1) = trait_text s := by
  unfold trait_name trait_text
  induction s with
  | nil => rfl
  | cons c t ih =>
    by_cases hc : c = ':'
    · subst hc
      simp
    · simp [hc, ih]

theorem trait_name_pos (s : CppString) (hne : s ≠ []) (hh : s.head? ≠ some ':') :
    0 < (trait_name s).length := by
  cases s with
  | nil => exact absurd rfl hne
  | cons c t =>
    have hc : c ≠ ':' := fun e => hh (by rw [e]; rfl)
    simp [trait_name, hc]

/-- The position of the first colon that passes the assertions of the two
helpers: the entry is not empty and does not start with a colon. -/
theorem colon_index_ok (s : CppString) :
    (s.length ≠ 0 ∧ (find s ":".toList = npos ∨ find s ":".toList > 0)) ↔
      (s ≠ [] ∧ s.head? ≠ some ':') := by
  rw [find_colon]
  constructor
  · rintro ⟨h1, h2⟩
    have hne : s ≠ [] := fun e => h1 (by rw [e]; rfl)
    refine ⟨hne, ?_⟩
    intro hh
    cases s with
    | nil => exact hne rfl
    | cons c t =>
      have hc : c = ':' := Option.some.inj hh
      subst hc
      simp [trait_name, npos] at h2
  · rintro ⟨h1, h2⟩
    refine ⟨fun e => h1 (List.length_eq_zero.1 e), ?_⟩
    by_cases hm : ':' ∈ s
    · rw [if_pos hm]
      exact Or.inr (trait_name_pos s h1 h2)
    · rw [if_neg hm]
      exact Or.inl rfl

/-- The name that `get_rid_trait` keeps of an entry. -/
theorem rid_head (s : CppString) (hlen : s.length < npos) (hne : s ≠ [])
    (hh : s.head? ≠ some ':') :
    (if find s ":".toList > 0 then substr s 0 (find s ":".toList) else .ok s) =
      .ok (trait_name s) := by
  rw [find_colon]
  by_cases hm : ':' ∈ s
  · rw [if_pos hm, if_pos (trait_name_pos s hne hh)]
    unfold substr
    rw [if_neg (by omega)]
    simp [take_trait_name]
  · rw [if_neg hm, if_pos (by decide)]
    unfold substr
    rw [if_neg (by omega), trait_name_of_no_colon s hm]
    simp only [List.drop_zero]
    rw [List.take_of_length_le (by omega)]

/-- The value that `get_trait` reads of an entry: for an entry without a
colon the position `npos + 1` wraps to 0 and the value is the whole entry. -/
theorem trait_value (s : CppString) (hlen : s.length < npos) :
    substr s ((find s ":".toList + 1) % 2 ^ 64) = .ok (stored_trait s) := by
  rw [find_colon]
  unfold stored_trait
  have hn : npos = 2 ^ 64 - 1 := rfl
  by_cases hm : ':' ∈ s
  · have h1 := trait_name_length_lt s hm
    rw [if_pos hm, if_pos hm, Nat.mod_eq_of_lt (by omega)]
    unfold substr
    rw [if_neg (by omega), drop_trait_name]
    rw [List.take_of_length_le]
    have : (trait_text s).length ≤ s.length := by
      rw [← drop_trait_name]
      simp
    omega
  · rw [if_neg hm, if_neg hm]
    have : (npos + 1) % 2 ^ 64 = 0 := by decide
    rw [this]
    unfold substr
    rw [if_neg (by omega)]
    simp only [List.drop_zero]
    rw [List.take_of_length_le (by omega)]

/-- The helper `get_rid_trait` returns the name parts of the entries, in
order, when no entry is empty or starts with a colon. -/
theorem get_rid_trait_names (strings : List CppString)
    (hlen : ∀ str ∈ strings, str.length < npos)
    (hok : ∀ str ∈ strings, str ≠ [] ∧ str.head? ≠ some ':') :
    get_rid_trait strings = .ok (strings.map trait_name) := by
  induction strings with
  | nil => rfl
  | cons str rest ih =>
    have h1 := hok str (List.mem_cons_self _ _)
    have h2 := (colon_index_ok str).2 h1
    have ih2 := ih (fun s hs => hlen s (List.mem_cons_of_mem _ hs))
      (fun s hs => hok s (List.mem_cons_of_mem _ hs))
    have hpos : find str ":".toList > 0 := by
      rcases h2.2 with e | e
      · rw [e]
        decide
      · exact e
    have hk := rid_head str (hlen str (List.mem_cons_self _ _)) h1.1 h1.2
    rw [if_pos hpos] at hk
    unfold get_rid_trait
    rw [if_neg h2.1]
    dsimp only
    rw [if_neg (not_not.mpr h2.2), if_pos hpos]
    simp only [bind, Except.bind, pure, Except.pure]
    rw [hk]
    dsimp only
    rw [ih2]
    rfl

/-- A returning call of `get_rid_trait` has met no entry that is empty or
starts with a colon. -/
theorem get_rid_trait_ok (strings : List CppString) (r : List CppString)
    (h : get_rid_trait strings = .ok r) :
    ∀ str ∈ strings, str ≠ [] ∧ str.head? ≠ some ':' := by
  induction strings generalizing r with
  | nil =>
    intro str hs
    exact absurd hs (List.not_mem_nil _)
  | cons str rest ih =>
    unfold get_rid_trait at h
    by_cases h1 : str.length = 0
    · rw [if_pos h1] at h
      exact Except.noConfusion h
    · rw [if_neg h1] at h
      dsimp only at h
      by_cases h2 : find str ":".toList = npos ∨ find str ":".toList > 0
      · rw [if_neg (not_not.mpr h2)] at h
        simp only [bind, Except.bind, pure, Except.pure] at h
        cases ht : get_rid_trait rest with
        | error e =>
          rw [ht] at h
          split at h <;> exact Except.noConfusion h
        | ok tail =>
          intro s hs
          rcases List.mem_cons.1 hs with e | e
          · rw [e]
            exact (colon_index_ok str).1 ⟨h1, h2⟩
          · exact ih tail ht s e
      · rw [if_pos h2] at h
        exact Except.noConfusion h

/-- A key is in a map exactly when the lookup finds a value. -/
theorem contains_iff_find {V : Type} (m : CppMap V) (k : CppString) :
    CppMap.contains m k = true ↔ ∃ v, CppMap.find m k = some v := by
  unfold CppMap.contains
  exact Option.isSome_iff_exists

/-- One round of the loop of `get_trait` on an entry that passes the
assertions: the entry is stored under its name part. -/
theorem get_trait_loop_step (str : CppString) (rest : List CppString)
    (temp : CppMap CppString) (hlen : str.length < npos)
    (hne : str ≠ []) (hh : str.head? ≠ some ':') (hv : stored_trait str ≠ [])
    (hc : CppMap.contains temp (trait_name str) = false) :
    get_trait_loop (str :: rest) temp =
      get_trait_loop rest (CppMap.set temp (trait_name str) (stored_trait str)) := by
  have h2 := (colon_index_ok str).2 ⟨hne, hh⟩
  have hpos : find str ":".toList > 0 := by
    rcases h2.2 with e | e
    · rw [e]
      decide
    · exact e
  have hk := rid_head str hlen hne hh
  rw [if_pos hpos] at hk
  conv_lhs => unfold get_trait_loop
  rw [if_neg h2.1]
  dsimp only
  rw [if_neg (not_not.mpr h2.2), if_pos hpos]
  simp only [bind, Except.bind]
  rw [hk]
  simp only
  rw [trait_value str hlen]
  simp only
  rw [if_neg (fun e => hv (List.length_eq_zero.1 e))]
  simp only [hc, Bool.false_eq_true, if_false]

/-- What a returning round of the loop of `get_trait` has checked and
done. -/
theorem get_trait_loop_cons_ok (str : CppString) (rest : List CppString)
    (temp m : CppMap CppString) (hlen : str.length < npos)
    (h : get_trait_loop (str :: rest) temp = .ok m) :
    str ≠ [] ∧ str.head? ≠ some ':' ∧ stored_trait str ≠ [] ∧
      CppMap.contains temp (trait_name str) = false ∧
      get_trait_loop rest (CppMap.set temp (trait_name str) (stored_trait str)) = .ok m := by
  unfold get_trait_loop at h
  by_cases h1 : str.length = 0
  · rw [if_pos h1] at h
    exact Except.noConfusion h
  · rw [if_neg h1] at h
    dsimp only at h
    by_cases h2 : find str ":".toList = npos ∨ find str ":".toList > 0
    · rw [if_neg (not_not.mpr h2)] at h
      obtain ⟨hne, hh⟩ := (colon_index_ok str).1 ⟨h1, h2⟩
      have hpos : find str ":".toList > 0 := by
        rcases h2 with e | e
        · rw [e]
          decide
        · exact e
      have hk := rid_head str hlen hne hh
      rw [if_pos hpos] at hk
      rw [if_pos hpos] at h
      simp only [bind, Except.bind] at h
      rw [hk] at h
      simp only at h
      rw [trait_value str hlen] at h
      simp only at h
      by_cases h3 : (stored_trait str).length = 0
      · rw [if_pos h3] at h
        exact Except.noConfusion h
      · rw [if_neg h3] at h
        cases hc : CppMap.contains temp (trait_name str) with
        | true =>
          rw [hc] at h
          exact Except.noConfusion h
        | false =>
          rw [hc] at h
          exact ⟨hne, hh, fun e => h3 (by rw [e]; rfl), rfl, h⟩
    · rw [if_pos h2] at h
      exact Except.noConfusion h

/-- The map that the loop of `get_trait` returns holds what the map it
started with held, and every entry under its name part. -/
theorem get_trait_loop_find (strings : List CppString) (temp m : CppMap CppString)
    (hlen : ∀ str ∈ strings, str.length < npos)
    (h : get_trait_loop strings temp = .ok m) (k v : CppString) :
    CppMap.find m k = some v ↔
      (CppMap.find temp k = some v ∨
        ∃ str ∈ strings, trait_name str = k ∧ stored_trait str = v) := by
  induction strings generalizing temp with
  | nil =>
    unfold get_trait_loop at h
    cases h
    simp
  | cons str rest ih =>
    obtain ⟨_, _, _, hc, h2⟩ :=
      get_trait_loop_cons_ok str rest temp m (hlen str (List.mem_cons_self _ _)) h
    rw [ih _ (fun s hs => hlen s (List.mem_cons_of_mem _ hs)) h2]
    have hnone := CppMap.find_of_not_contains temp _ hc
    by_cases hk : k = trait_name str
    · subst hk
      rw [CppMap.find_set_self, hnone]
      constructor
      · rintro (e | ⟨s, hs, e1, e2⟩)
        · exact Or.inr ⟨str, List.mem_cons_self _ _, rfl, Option.some.inj e⟩
        · exact Or.inr ⟨s, List.mem_cons_of_mem _ hs, e1, e2⟩
      · rintro (e | ⟨s, hs, e1, e2⟩)
        · exact Option.noConfusion e
        · rcases List.mem_cons.1 hs with e | e
          · subst e
            exact Or.inl (by rw [e2])
          · exact Or.inr ⟨s, e, e1, e2⟩
    · rw [CppMap.find_set_ne _ _ _ _ hk]
      constructor
      · rintro (e | ⟨s, hs, e1, e2⟩)
        · exact Or.inl e
        · exact Or.inr ⟨s, List.mem_cons_of_mem _ hs, e1, e2⟩
      · rintro (e | ⟨s, hs, e1, e2⟩)
        · exact Or.inl e
        · rcases List.mem_cons.1 hs with e | e
          · subst e
            exact absurd e1.symm hk
          · exact Or.inr ⟨s, e, e1, e2⟩

/-- The loop of `get_trait` returns exactly on the entries that pass its
assertions and whose name parts are new to the map and pairwise distinct. -/
theorem get_trait_loop_returns (strings : List CppString) (temp : CppMap CppString)
    (hlen : ∀ str ∈ strings, str.length < npos) :
    (∃ m, get_trait_loop strings temp = .ok m) ↔
      (TraitEntries strings ∧
        ∀ str ∈ strings, CppMap.contains temp (trait_name str) = false) := by
  induction strings generalizing temp with
  | nil =>
    constructor
    · intro _
      exact ⟨⟨fun s hs => absurd hs (List.not_mem_nil _), List.nodup_nil⟩,
        fun s hs => absurd hs (List.not_mem_nil _)⟩
    · intro _
      exact ⟨temp, rfl⟩
  | cons str rest ih =>
    have hl := hlen str (List.mem_cons_self _ _)
    have hlr : ∀ s ∈ rest, s.length < npos := fun s hs => hlen s (List.mem_cons_of_mem _ hs)
    have hfresh : ∀ (k : CppString), k ≠ trait_name str →
        (CppMap.contains (CppMap.set temp (trait_name str) (stored_trait str)) k = false ↔
          CppMap.contains temp k = false) := by
      intro k hk
      unfold CppMap.contains
      rw [CppMap.find_set_ne _ _ _ _ hk]
    have hself : CppMap.contains (CppMap.set temp (trait_name str) (stored_trait str))
        (trait_name str) = true := by
      unfold CppMap.contains
      rw [CppMap.find_set_self]
      rfl
    constructor
    · rintro ⟨m, h⟩
      obtain ⟨h1, h2, h3, hc, h4⟩ := get_trait_loop_cons_ok str rest temp m hl h
      obtain ⟨⟨k1, k2⟩, k3⟩ := (ih _ hlr).1 ⟨m, h4⟩
      have hnot : trait_name str ∉ rest.map trait_name := by
        intro hm
        obtain ⟨s, hs, e⟩ := List.mem_map.1 hm
        have := k3 s hs
        rw [e, hself] at this
        exact Bool.noConfusion this
      refine ⟨⟨?_, ?_⟩, ?_⟩
      · intro s hs
        rcases List.mem_cons.1 hs with e | e
        · rw [e]
          exact ⟨h1, h2, h3⟩
        · exact k1 s e
      · exact List.nodup_cons.2 ⟨hnot, k2⟩
      · intro s hs
        rcases List.mem_cons.1 hs with e | e
        · rw [e]
          exact hc
        · have hk : trait_name s ≠ trait_name str := by
            intro e2
            exact hnot (e2 ▸ List.mem_map_of_mem _ e)
          exact (hfresh _ hk).1 (k3 s e)
    · rintro ⟨⟨k1, k2⟩, k3⟩
      obtain ⟨h1, h2, h3⟩ := k1 str (List.mem_cons_self _ _)
      have hnd := List.nodup_cons.1 k2
      rw [get_trait_loop_step str rest temp hl h1 h2 h3 (k3 str (List.mem_cons_self _ _))]
      refine (ih _ hlr).2 ⟨⟨fun s hs => k1 s (List.mem_cons_of_mem _ hs), hnd.2⟩, ?_⟩
      intro s hs
      have hk : trait_name s ≠ trait_name str := by
        intro e2
        exact hnd.1 (e2 ▸ List.mem_map_of_mem _ hs)
      exact (hfresh _ hk).2 (k3 s (List.mem_cons_of_mem _ hs))

/-- C32: what `get_trait` and `get_rid_trait` do on a list of output entries
(each shorter than `npos`). `get_trait` returns exactly when no entry is empty,
starts with a colon or ends with its first colon and no two entries have the
same name part; the map it returns has a key for the name part of EVERY entry:
an entry `name:trait` is stored as `name` with the text after the first colon,
and an entry without a colon is stored under itself with itself as the value
(the position `npos + 1` of the value wraps to 0), so it does contribute a
key. `get_rid_trait` returns the name parts of the entries, in order. -/
theorem C32_get_trait_stores_every_entry_under_its_name (strings : List CppString)
    (hlen : ∀ str ∈ strings, str.length < npos) :
    ((∃ m, get_trait strings = .ok m) ↔ TraitEntries strings) ∧
    (∀ m, get_trait strings = .ok m →
      (∀ k v, CppMap.find m k = some v ↔
        ∃ str ∈ strings, trait_name str = k ∧ stored_trait str = v) ∧
      (∀ str ∈ strings, ':' ∈ str →
        CppMap.find m (trait_name str) = some (trait_text str)) ∧
      (∀ str ∈ strings, ':' ∉ str → CppMap.find m str = some str) ∧
      get_rid_trait strings = .ok (strings.map trait_name)) ∧
    ((∃ r, get_rid_trait strings = .ok r) ↔
      ∀ str ∈ strings, str ≠ [] ∧ str.head? ≠ some ':') ∧
    (∀ r, get_rid_trait strings = .ok r → r = strings.map trait_name) := by
  have hret := get_trait_loop_returns strings [] hlen
  refine ⟨?_, ?_, ?_, ?_⟩
  · unfold get_trait
    rw [hret]
    exact ⟨fun k => k.1, fun k => ⟨k, fun _ _ => rfl⟩⟩
  · intro m h
    have hf := get_trait_loop_find strings [] m hlen h
    have hall : ∀ k v, CppMap.find m k = some v ↔
        ∃ str ∈ strings, trait_name str = k ∧ stored_trait str = v := by
      intro k v
      rw [hf k v]
      constructor
      · rintro (e | e)
        · exact Option.noConfusion e
        · exact e
      · exact Or.inr
    have hte := (hret.1 ⟨m, h⟩).1
    refine ⟨hall, ?_, ?_, ?_⟩
    · intro str hs hc
      refine (hall _ _).2 ⟨str, hs, rfl, ?_⟩
      unfold stored_trait
      rw [if_pos hc]
    · intro str hs hc
      refine (hall _ _).2 ⟨str, hs, trait_name_of_no_colon str hc, ?_⟩
      unfold stored_trait
      rw [if_neg hc]
    · exact get_rid_trait_names strings hlen (fun s hs => ⟨(hte.1 s hs).1, (hte.1 s hs).2.1⟩)
  · constructor
    · rintro ⟨r, h⟩
      exact get_rid_trait_ok strings r h
    · intro h
      exact ⟨_, get_rid_trait_names strings hlen h⟩
  · intro r h
    have h2 := get_rid_trait_names strings hlen (get_rid_trait_ok strings r h)
    rw [h2] at h
    exact (Except.ok.inj h).symm

/-- Witness for C32: the outputs of the descriptor of `PLL`. The entry
`\FAST_CLK:NOT_CORE` is stored as `\FAST_CLK` with `NOT_CORE`, and the four
entries without a trait are stored under themselves. -/
theorem C32_get_trait_stores_every_entry_under_its_name_witness :
    get_trait ["\\CLK_OUT".toList, "\\CLK_OUT_DIV2".toList, "\\CLK_OUT_DIV3".toList,
        "\\CLK_OUT_DIV4".toList, "\\FAST_CLK:NOT_CORE".toList] =
      .ok [("\\CLK_OUT".toList, "\\CLK_OUT".toList),
           ("\\CLK_OUT_DIV2".toList, "\\CLK_OUT_DIV2".toList),
           ("\\CLK_OUT_DIV3".toList, "\\CLK_OUT_DIV3".toList),
           ("\\CLK_OUT_DIV4".toList, "\\CLK_OUT_DIV4".toList),
           ("\\FAST_CLK".toList, "NOT_CORE".toList)] ∧
    get_rid_trait ["\\CLK_OUT".toList, "\\CLK_OUT_DIV2".toList, "\\CLK_OUT_DIV3".toList,
        "\\CLK_OUT_DIV4".toList, "\\FAST_CLK:NOT_CORE".toList] =
      .ok ["\\CLK_OUT".toList, "\\CLK_OUT_DIV2".toList, "\\CLK_OUT_DIV3".toList,
           "\\CLK_OUT_DIV4".toList, "\\FAST_CLK".toList] ∧
    get_trait ["\\O".toList] = .ok [("\\O".toList, "\\O".toList)] ∧
    (∀ str ∈ ["\\O".toList], str.length < npos) ∧
    CppMap.find [("\\O".toList, "\\O".toList)] "\\O".toList = some "\\O".toList :=
  ⟨by decide, by decide, by decide, by decide,
    ((C32_get_trait_stores_every_entry_under_its_name ["\\O".toList] (by decide)).2.1
      [("\\O".toList, "\\O".toList)] (by decide)).2.2.1 "\\O".toList
      (List.mem_singleton.2 rfl) (by decide)⟩

/-! ### Instances without a primitive -/

theorem stamp_parameter_primitive (inst inst2 : INSTANCE) (name value : CppString)
    (h : stamp_parameter inst name value = .ok inst2) :
    inst2.primitive = inst.primitive := by
  unfold stamp_parameter at h
  simp only [bind, Except.bind, pure, Except.pure] at h
  split at h
  · exact Except.noConfusion h
  · have e := Except.ok.inj h
    subst e
    rfl

theorem stamp_from_clock_primitive (st : Extractor) (r : PrimRef) (primitive : PRIMITIVE)
    (inst inst2 : INSTANCE) (h : stamp_from_clock st r primitive inst = .ok inst2) :
    inst2.primitive = inst.primitive := by
  unfold stamp_from_clock at h
  repeat' split at h
  all_goals first
    | exact Except.noConfusion h
    | exact (Except.ok.inj h) ▸ rfl
    | exact stamp_parameter_primitive _ _ _ _ h

theorem assign_slot_prims (st st2 : Extractor) (j : Nat) (r : PrimRef)
    (primitive : PRIMITIVE) (inst : INSTANCE) (i : Nat)
    (iport inet oport onet : CppString) (fabric : FabricStatus)
    (hj : st.m_instances[j]? = some inst)
    (h : assign_slot st j r primitive inst i iport inet oport onet fabric = .ok st2) :
    st2.m_instances.map (fun w => w.primitive) =
      st.m_instances.map (fun w => w.primitive) := by
  unfold assign_slot at h
  split at h
  · exact Except.noConfusion h
  · rename_i inst1 h1
    split at h
    · exact Except.noConfusion h
    · rename_i inst2 h2
      split at h
      · exact Except.noConfusion h
      · split at h
        · exact Except.noConfusion h
        · have e := Except.ok.inj h
          subst e
          refine map_set_same _ _ _ inst _ hj ?_
          have hm : inst2.primitive = inst.primitive :=
            (stamp_from_clock_primitive _ _ _ _ _ h2).trans
              (stamp_parameter_primitive _ _ _ _ h1)
          rw [← hm]
          split <;> rfl

theorem fabric_clock_output_prims (module : Module) (j : Nat) (r : PrimRef)
    (primitive : PRIMITIVE) (is_clock_primitive : Bool) (out : CppString)
    (st : Extractor) (i : Nat) (res : Extractor × Nat)
    (h : fabric_clock_output module j r primitive is_clock_primitive out st i = .ok res) :
    res.1.m_instances.map (fun w => w.primitive) =
      st.m_instances.map (fun w => w.primitive) := by
  unfold fabric_clock_output at h
  dsimp only at h
  repeat' split at h
  all_goals first
    | exact Except.noConfusion h
    | exact (Except.ok.inj h) ▸ rfl
    | exact (Except.ok.inj h) ▸
        assign_slot_prims st _ j r primitive _ i _ _ _ _ _ ‹st.m_instances[j]? = some _›
          ‹assign_slot _ _ _ _ _ _ _ _ _ _ _ = Except.ok _›

theorem fabric_clock_outputs_prims (module : Module) (j : Nat) (r : PrimRef)
    (primitive : PRIMITIVE) (is_clock_primitive : Bool) :
    ∀ (outs : List CppString) (st : Extractor) (i : Nat) (st2 : Extractor),
      fabric_clock_outputs module j r primitive is_clock_primitive outs st i = .ok st2 →
      st2.m_instances.map (fun w => w.primitive) =
        st.m_instances.map (fun w => w.primitive) := by
  intro outs
  induction outs with
  | nil =>
    intro st i st2 h
    simp only [fabric_clock_outputs] at h
    exact (Except.ok.inj h) ▸ rfl
  | cons out rest ih =>
    intro st i st2 h
    simp only [fabric_clock_outputs] at h
    split at h
    · exact Except.noConfusion h
    · rename_i next hn
      exact (ih _ _ _ h).trans (fabric_clock_output_prims _ _ _ _ _ _ _ _ _ hn)

theorem fabric_clock_instance_prims (module : Module) (st st2 : Extractor) (j : Nat)
    (h : fabric_clock_instance module st j = .ok st2) :
    st2.m_instances.map (fun w => w.primitive) =
      st.m_instances.map (fun w => w.primitive) := by
  unfold fabric_clock_instance at h
  dsimp only at h
  repeat' split at h
  all_goals first
    | exact Except.noConfusion h
    | exact (Except.ok.inj h) ▸ rfl
    | exact fabric_clock_outputs_prims _ _ _ _ _ _ _ _ _ h

/-- The first loop of `determine_fabric_clock` reads the descriptor of the
instance at position `j` through its primitive; for an instance without one
the read is through a null pointer. -/
theorem fabric_clock_instance_wire (module : Module) (st : Extractor) (j : Nat)
    (inst : INSTANCE) (hj : st.m_instances[j]? = some inst) (hn : inst.primitive = none) :
    fabric_clock_instance module st j = .error .null_deref := by
  unfold fabric_clock_instance
  rw [hj]
  dsimp only
  rw [hn]

/-- The first loop of `determine_fabric_clock` does not get past an
instance without a primitive. -/
theorem fabric_clock_instances_wire (module : Module) :
    ∀ (js : List Nat) (st : Extractor),
      (∃ j ∈ js, ∃ inst, st.m_instances[j]? = some inst ∧ inst.primitive = none) →
      ∃ e, fabric_clock_instances module js st = .error e := by
  intro js
  induction js with
  | nil =>
    rintro st ⟨j, hj, _⟩
    exact absurd hj (List.not_mem_nil _)
  | cons j0 rest ih =>
    rintro st ⟨j, hj, inst, hi, hn⟩
    simp only [fabric_clock_instances]
    cases h0 : fabric_clock_instance module st j0 with
    | error e => exact ⟨e, rfl⟩
    | ok st1 =>
      dsimp only
      rcases List.mem_cons.1 hj with e | e
      · subst e
        rw [fabric_clock_instance_wire module st j inst hi hn] at h0
        exact Except.noConfusion h0
      · have hp := fabric_clock_instance_prims module st st1 j0 h0
        have hg : (st1.m_instances.map (fun w => w.primitive))[j]? = some none := by
          rw [hp, List.getElem?_map, hi]
          simp [hn]
        rw [List.getElem?_map] at hg
        cases h1 : st1.m_instances[j]? with
        | none =>
          rw [h1] at hg
          exact Option.noConfusion hg
        | some inst1 =>
          rw [h1] at hg
          exact ih st1 ⟨j, e, inst1, h1, Option.some.inj hg⟩

/-- The method `determine_fabric_clock` does not return on a state with an
instance without a primitive. -/
theorem determine_fabric_clock_wire (module : Module) (st : Extractor)
    (h : ∃ inst ∈ st.m_instances, inst.primitive = none) :
    ∃ e, determine_fabric_clock module st = .error e := by
  obtain ⟨inst, hm, hn⟩ := h
  obtain ⟨j, hj, hg⟩ := List.getElem_of_mem hm
  unfold determine_fabric_clock
  split
  · exact ⟨_, rfl⟩
  · obtain ⟨e, he⟩ := fabric_clock_instances_wire module (List.range st.m_instances.length) st
      ⟨j, List.mem_range.2 hj, inst, by rw [List.getElem?_eq_getElem hj, hg], hn⟩
    rw [he]
    exact ⟨e, rfl⟩

/-- The method `write_instance` reads the errors of an instance through its
primitive, also when there is none. -/
theorem write_instance_wire (st : Extractor) (map_space : Nat) (inst : INSTANCE)
    (hn : inst.primitive = none) :
    ∃ e, write_instance st map_space inst = .error e := by
  unfold write_instance
  repeat' split
  all_goals first
    | exact ⟨_, rfl⟩
    | (have k := ‹inst.primitive = some _›
       rw [hn] at k
       exact Option.noConfusion k)

/-- The method `assign_location` reads the direction of an instance linked
to the port through its primitive before it tests the primitive. -/
theorem assign_location_at_wire (port location : CppString)
    (properties : List (CppString × CppString)) (st : Extractor) (i : Nat)
    (inst : INSTANCE) (hi : st.m_instances[i]? = some inst)
    (hp : port ∈ inst.linked_objects) (hn : inst.primitive = none) :
    assign_location_at port location properties st i = .error .null_deref := by
  unfold assign_location_at
  rw [hi]
  dsimp only
  rw [if_pos hp, hn]

theorem assign_properties_fold_links (port : CppString) :
    ∀ (properties : List (CppString × CppString)) (start : INSTANCE),
      (properties.foldl (fun inst iter =>
        { inst with
          properties := CppMap.set inst.properties port
            (CppMap.set ((CppMap.find inst.properties port).getD []) iter.1 iter.2) })
        start).linked_objects = start.linked_objects ∧
      (properties.foldl (fun inst iter =>
        { inst with
          properties := CppMap.set inst.properties port
            (CppMap.set ((CppMap.find inst.properties port).getD []) iter.1 iter.2) })
        start).primitive = start.primitive := by
  intro properties
  induction properties with
  | nil =>
    intro start
    exact ⟨rfl, rfl⟩
  | cons p rest ih =>
    intro start
    simp only [List.foldl_cons]
    exact ih _

theorem assign_properties_links (port : CppString) (properties : List (CppString × CppString))
    (inst : INSTANCE) :
    (assign_properties port properties inst).linked_objects = inst.linked_objects ∧
      (assign_properties port properties inst).primitive = inst.primitive := by
  unfold assign_properties
  dsimp only
  have k := assign_properties_fold_links port properties
    (if CppMap.contains inst.properties port = true then inst
      else { inst with properties := CppMap.set inst.properties port [] })
  refine ⟨k.1.trans ?_, k.2.trans ?_⟩ <;> split <;> rfl

/-- The body of the loop of `assign_location` changes neither the linked
objects nor the primitive of an instance. -/
theorem assign_location_at_links (port location : CppString)
    (properties : List (CppString × CppString)) (st st2 : Extractor) (i : Nat)
    (h : assign_location_at port location properties st i = .ok st2) :
    st2.m_instances.map (fun w => (w.linked_objects, w.primitive)) =
      st.m_instances.map (fun w => (w.linked_objects, w.primitive)) := by
  unfold assign_location_at at h
  repeat' split at h
  all_goals first
    | exact Except.noConfusion h
    | exact (Except.ok.inj h) ▸ rfl
    | (have e := Except.ok.inj h
       subst e
       refine map_set_same _ _ _ _ _ ‹st.m_instances[i]? = some _› ?_
       first
         | rfl
         | exact Prod.ext (assign_properties_links _ _ _).1 (assign_properties_links _ _ _).2)

/-- The loop of `assign_location` does not get past an instance that is
linked to the port and has no primitive. -/
theorem assign_location_loop_wire (port location : CppString)
    (properties : List (CppString × CppString)) :
    ∀ (js : List Nat) (st : Extractor),
      (∃ j ∈ js, ∃ inst, st.m_instances[j]? = some inst ∧ port ∈ inst.linked_objects ∧
        inst.primitive = none) →
      ∃ e, assign_location_loop port location properties js st = .error e := by
  intro js
  induction js with
  | nil =>
    rintro st ⟨j, hj, _⟩
    exact absurd hj (List.not_mem_nil _)
  | cons j0 rest ih =>
    rintro st ⟨j, hj, inst, hi, hp, hn⟩
    simp only [assign_location_loop]
    cases h0 : assign_location_at port location properties st j0 with
    | error e => exact ⟨e, rfl⟩
    | ok st1 =>
      dsimp only
      rcases List.mem_cons.1 hj with e | e
      · subst e
        rw [assign_location_at_wire port location properties st j inst hi hp hn] at h0
        exact Except.noConfusion h0
      · have hq := assign_location_at_links port location properties st st1 j0 h0
        have hg : (st1.m_instances.map (fun w => (w.linked_objects, w.primitive)))[j]? =
            some (inst.linked_objects, none) := by
          rw [hq, List.getElem?_map, hi]
          simp [hn]
        rw [List.getElem?_map] at hg
        cases h1 : st1.m_instances[j]? with
        | none =>
          rw [h1] at hg
          exact Option.noConfusion hg
        | some inst1 =>
          rw [h1] at hg
          have e2 := Option.some.inj hg
          have e3 : inst1.linked_objects = inst.linked_objects := congrArg Prod.fst e2
          have e4 : inst1.primitive = none := congrArg Prod.snd e2
          exact ih st1 ⟨j, e, inst1, h1, by rw [e3]; exact hp, e4⟩

/-- C33: the three readers do read the primitive of an instance that has
none. On every state with an instance without a primitive (a pass-through
`WIRE` record of `gen_wire`) `determine_fabric_clock` does not return: its first
loop reads the descriptor of every instance through the primitive;
`write_instance` does not return for such an instance (it reads the errors of
the primitive); and `assign_location` does not return for a port that such an
instance is linked to (it reads the direction before it tests the
primitive). -/
theorem C33_instances_without_primitive_are_read_through_it (module : Module)
    (st : Extractor) (inst : INSTANCE) (port : CppString)
    (hm : inst ∈ st.m_instances) (hn : inst.primitive = none)
    (hp : port ∈ inst.linked_objects) :
    (∃ e, determine_fabric_clock module st = .error e) ∧
    (∀ map_space, ∃ e, write_instance st map_space inst = .error e) ∧
    (∀ location properties, ∃ e,
      assign_location port location properties st = .error e) ∧
    (∀ i location properties, st.m_instances[i]? = some inst →
      fabric_clock_instance module st i = .error .null_deref ∧
      assign_location_at port location properties st i = .error .null_deref) := by
  refine ⟨determine_fabric_clock_wire module st ⟨inst, hm, hn⟩,
    fun map_space => write_instance_wire st map_space inst hn, ?_, ?_⟩
  · intro location properties
    obtain ⟨j, hj, hg⟩ := List.getElem_of_mem hm
    unfold assign_location
    exact assign_location_loop_wire port location properties _ st
      ⟨j, List.mem_range.2 hj, inst, by rw [List.getElem?_eq_getElem hj, hg], hp, hn⟩
  · intro i location properties hi
    exact ⟨fabric_clock_instance_wire module st i inst hi hn,
      assign_location_at_wire port location properties st i inst hi hp hn⟩

set_option maxRecDepth 100000 in
/-- Witness for C33: the run of `extract` on `example_two_hops`, an input
buffer whose output reaches a delay through two alias pairs. After
`gen_instances` the second instance is a `WIRE` without primitive, linked to
`din`; `determine_fabric_clock` reads through it, and so the run of `extract`
ends there. -/
theorem C33_instances_without_primitive_are_read_through_it_witness :
    gen_instances 10 example_two_hops_ready = .ok example_two_hops_generated ∧
    example_two_hops_generated.m_instances.map (fun w => (w.module, w.primitive)) =
      [("I_BUF".toList, some (.port 0)), ("WIRE".toList, none), ("WIRE".toList, none),
       ("I_DELAY".toList, some (.child 0))] ∧
    example_two_hops_generated.m_instances[1]? = some example_two_hops_wire ∧
    determine_fabric_clock example_two_hops example_two_hops_generated =
      .error .null_deref ∧
    extract example_two_hops 10 (Extractor.construct "genesis3".toList) =
      .error .null_deref ∧
    (∃ e, assign_location "din".toList "HP_1_4_2P".toList [] example_two_hops_generated =
      .error e) :=
  ⟨by decide, by decide, by decide, by decide, by decide,
    (C33_instances_without_primitive_are_read_through_it example_two_hops
      example_two_hops_generated example_two_hops_wire "din".toList
      (by decide) (by decide) (by decide)).2.2.1 "HP_1_4_2P".toList []⟩

/-- The cell loop of the entry function `trace_next_primitive` reads the
out-trace connection of a source of the traced kind at the first cell of the
destination type; when the connection map of the source does not have the
out-trace port of its descriptor, the assertion of `get_outtrace_connection`
fails there. -/
theorem trace_cells_open_outtrace (module : Module) (fuel : Nat) (src dest : CppString)
    (r : PrimRef) (node : PRIMITIVE) (st : Extractor)
    (hd : st.deref r = .ok node) (hs : node.db.name = src)
    (ho : CppMap.contains node.connections node.db.outtrace_connection = false) :
    ∀ cells : List Cell, (∃ cell ∈ cells, cell.type = dest) →
      trace_cells module fuel src dest r cells st = .error .assertion := by
  intro cells
  induction cells with
  | nil =>
    rintro ⟨cell, hc, _⟩
    exact absurd hc (List.not_mem_nil _)
  | cons c rest ih =>
    rintro ⟨cell, hc, ht⟩
    simp only [trace_cells, hd]
    by_cases h1 : c.type = dest
    · rw [if_pos ⟨hs, h1⟩]
      unfold PRIMITIVE.get_outtrace_connection
      rw [ho]
      rfl
    · rw [if_neg (fun k => h1 k.2)]
      rcases List.mem_cons.1 hc with e | e
      · exact absurd (e ▸ ht) h1
      · exact ih ⟨cell, e, ht⟩

/-- C34: the connection map of a root need not contain the out-trace port
of its descriptor. `get_outtrace_connection` returns the net exactly when
the map has the port; when it has not, the cell loop of the entry function
`trace_next_primitive` for a source of the traced kind fails the assertion
as soon as the module has a cell of the destination type. -/
theorem C34_root_without_outtrace_port_fails_the_assertion (node : PRIMITIVE) :
    ((∃ net, node.get_outtrace_connection = .ok net) ↔
      CppMap.contains node.connections node.db.outtrace_connection = true) ∧
    (CppMap.contains node.connections node.db.outtrace_connection = false →
      node.get_outtrace_connection = .error .assertion ∧
      ∀ (module : Module) (fuel : Nat) (dest : CppString) (r : PrimRef) (st : Extractor),
        st.deref r = .ok node → (∃ cell ∈ module.cells, cell.type = dest) →
        trace_cells module fuel node.db.name dest r module.cells st =
          .error .assertion) := by
  constructor
  · unfold PRIMITIVE.get_outtrace_connection
    cases hc : CppMap.contains node.connections node.db.outtrace_connection with
    | false =>
      simp
    | true =>
      simp only [if_true, iff_true]
      unfold CppMap.contains at hc
      obtain ⟨v, hv⟩ := Option.isSome_iff_exists.1 hc
      unfold CppMap.at
      rw [hv]
      exact ⟨v, rfl⟩
  · intro ho
    refine ⟨?_, fun module fuel dest r st hd hcell =>
      trace_cells_open_outtrace module fuel node.db.name dest r node st hd rfl ho
        module.cells hcell⟩
    unfold PRIMITIVE.get_outtrace_connection
    rw [ho]
    rfl

set_option maxRecDepth 100000 in
/-- Witness for C34: the run of `extract` on `example_open_buffer`. Port
discovery makes the buffer `ibuf` a root with the one connection `I`; the
first traced pair, `I_BUF` to `CLK_BUF`, reads its out-trace port `O` for the
clock buffer `z`, and the assertion fails. -/
theorem C34_root_without_outtrace_port_fails_the_assertion_witness :
    get_ports example_open_buffer 10 (Extractor.construct "genesis3".toList) =
      .ok (true, example_open_buffer_roots) ∧
    example_open_buffer_roots.m_ports.map
        (fun p => (p.base.name, p.base.db.name, p.base.db.outtrace_connection,
          p.base.connections)) =
      [("\\ibuf".toList, "\\I_BUF".toList, "\\O".toList,
        [("\\I".toList, "\\din".toList)])] ∧
    trace_next_primitive example_open_buffer 10 example_open_buffer_roots
      "\\I_BUF".toList "\\CLK_BUF".toList = .error .assertion ∧
    extract example_open_buffer 10 (Extractor.construct "genesis3".toList) =
      .error .assertion ∧
    (∀ node, example_open_buffer_roots.deref (.port 0) = .ok node →
      trace_cells example_open_buffer 10 node.db.name "\\CLK_BUF".toList (.port 0)
        example_open_buffer.cells example_open_buffer_roots = .error .assertion) :=
  ⟨by decide, rfl, by decide, by decide, fun node hd =>
    ((C34_root_without_outtrace_port_fails_the_assertion node).2
      (by
        have e : example_open_buffer_roots.deref (.port 0) =
            .ok (input_buffer_root (cell_of "\\I_BUF" "\\ibuf" [("\\I", "\\din")])
              (input_wire "\\din")).base := by decide
        rw [e] at hd
        have e2 := Except.ok.inj hd
        subst e2
        decide)).2 example_open_buffer 10 "\\CLK_BUF".toList (.port 0)
      example_open_buffer_roots hd
      ⟨cell_of "\\CLK_BUF" "\\z" [("\\I", "\\n1"), ("\\O", "\\c")], by decide, rfl⟩⟩

/-! ### The primary object of a root instance -/

theorem first_located_key (m : CppMap CppString) (k : CppString)
    (h : first_located m = some k) : CppMap.contains m k = true := by
  induction m with
  | nil => exact Option.noConfusion h
  | cons e rest ih =>
    obtain ⟨k1, v1⟩ := e
    unfold first_located at h
    unfold CppMap.contains CppMap.find
    by_cases hv : v1.length ≠ 0
    · rw [if_pos hv] at h
      have e := Option.some.inj h
      subst e
      simp
    · rw [if_neg hv] at h
      by_cases hk : k1 = k
      · simp [hk]
      · simp only [hk, if_false]
        exact ih h

theorem first_located_mem (m : CppMap CppString) (k : CppString)
    (h : first_located m = some k) : ∃ v, (k, v) ∈ m := by
  induction m with
  | nil => exact Option.noConfusion h
  | cons e rest ih =>
    obtain ⟨k1, v1⟩ := e
    unfold first_located at h
    by_cases hv : v1.length ≠ 0
    · rw [if_pos hv] at h
      have e := Option.some.inj h
      subst e
      exact ⟨v1, List.mem_cons_self _ _⟩
    · rw [if_neg hv] at h
      obtain ⟨v, hm⟩ := ih h
      exact ⟨v, List.mem_cons_of_mem _ hm⟩

/-- The value that `get_primary_object` gives a root instance: a key of the
locations when the net on the primary port is none, is a key, or some object
has a location; and otherwise that net itself. -/
theorem choose_primary_object_cases (inst : INSTANCE) (ports : List CppString)
    (hp : inst.primary_object = []) :
    (inst.locations ≠ [] → (∀ kv ∈ inst.locations, kv.1 ≠ []) →
      (design_object_of inst ports = [] ∨
        CppMap.contains inst.locations (design_object_of inst ports) = true ∨
        first_located inst.locations ≠ none) →
      CppMap.contains inst.locations (inst.choose_primary_object ports) = true) ∧
    (design_object_of inst ports ≠ [] →
      CppMap.contains inst.locations (design_object_of inst ports) = false →
      first_located inst.locations = none →
      inst.choose_primary_object ports = design_object_of inst ports) := by
  have hd : inst.choose_primary_object ports =
      (let design_object := design_object_of inst ports
       let primary_object : CppString :=
         if design_object.length > 0 ∧
             CppMap.contains inst.locations design_object = true ∧
             ((CppMap.find inst.locations design_object).getD []).length > 0 then
           design_object
         else (first_located inst.locations).getD inst.primary_object
       let primary_object :=
         if primary_object.length = 0 ∧ design_object.length > 0 then design_object
         else primary_object
       let primary_object :=
         if primary_object.length = 0 then
           match inst.locations with
           | [] => primary_object
           | (k, _) :: _ => k
         else primary_object
       primary_object) := rfl
  rw [hd, hp]
  generalize design_object_of inst ports = d
  constructor
  · intro hne hkeys hor
    dsimp only
    by_cases h1 : d.length > 0 ∧ CppMap.contains inst.locations d = true ∧
        ((CppMap.find inst.locations d).getD []).length > 0
    · rw [if_pos h1]
      have hx : ¬ (d.length = 0 ∧ d.length > 0) := fun k => by omega
      rw [if_neg hx, if_neg (by omega)]
      exact h1.2.1
    · rw [if_neg h1]
      cases hf : first_located inst.locations with
      | some k =>
        have hk := first_located_key _ _ hf
        obtain ⟨v, hm⟩ := first_located_mem _ _ hf
        have hkne : k.length ≠ 0 := fun e => hkeys _ hm (List.length_eq_zero.1 e)
        simp only [Option.getD_some]
        have hx : ¬ (k.length = 0 ∧ d.length > 0) := fun c => hkne c.1
        rw [if_neg hx, if_neg hkne]
        exact hk
      | none =>
        simp only [Option.getD_none, List.length_nil, true_and]
        by_cases hdl : d.length > 0
        · rw [if_pos hdl, if_neg (by omega)]
          rcases hor with e | e | e
          · rw [e] at hdl
            exact absurd hdl (by decide)
          · exact e
          · exact absurd hf e
        · rw [if_neg hdl]
          simp only [List.length_nil, if_true]
          cases hl : inst.locations with
          | nil => exact absurd hl hne
          | cons e rest =>
            obtain ⟨k1, v1⟩ := e
            simp [CppMap.contains, CppMap.find]
  · intro hdne hnk hnone
    dsimp only
    have hdl : d.length > 0 := List.length_pos.2 hdne
    have h1 : ¬ (d.length > 0 ∧ CppMap.contains inst.locations d = true ∧
        ((CppMap.find inst.locations d).getD []).length > 0) := by
      rw [hnk]
      exact fun k => Bool.noConfusion k.2.1
    rw [if_neg h1, hnone]
    simp only [Option.getD_none, List.length_nil, true_and]
    rw [if_pos hdl, if_neg (by omega)]

/-- With no location assigned and the net on the primary port no linked
object, `finalize_location` fails the assertion of `get_primary_location` on
the instance of a root. -/
theorem finalize_location_fails (st : Extractor) (i : Nat) (inst : INSTANCE) (r : PrimRef)
    (node : PRIMITIVE) (hi : st.m_instances[i]? = some inst)
    (hfresh : inst.parsed_location = {}) (hp : inst.primary_object = [])
    (hr : inst.primitive = some r) (hn : st.deref r = .ok node)
    (hg : node.grandparent = none)
    (hdne : design_object_of inst PRIMARY_PORTS ≠ [])
    (hnk : CppMap.contains inst.locations (design_object_of inst PRIMARY_PORTS) = false)
    (hnone : first_located inst.locations = none) :
    finalize_location st i = .error .assertion := by
  have hc := (choose_primary_object_cases inst PRIMARY_PORTS hp).2 hdne hnk hnone
  have hfind := CppMap.find_of_not_contains _ _ hnk
  have hdl : (design_object_of inst PRIMARY_PORTS).length ≠ 0 :=
    fun e => hdne (List.length_eq_zero.1 e)
  have hpn : inst.primitive ≠ none := by
    rw [hr]
    exact fun e => Option.noConfusion e
  unfold finalize_location
  rw [hi]
  dsimp only
  rw [hfresh, if_pos (by decide)]
  have h1 : get_primary_object st i PRIMARY_PORTS =
      .ok ({ st with
             m_instances := st.m_instances.set i
               { inst with primary_object := design_object_of inst PRIMARY_PORTS } },
           design_object_of inst PRIMARY_PORTS) := by
    unfold get_primary_object
    rw [hi]
    dsimp only
    rw [if_pos ⟨by rw [hp]; rfl, hpn⟩, hr]
    dsimp only
    rw [hn]
    dsimp only
    rw [hg]
    dsimp only
    unfold get_primary_object_root
    rw [hi]
    dsimp only
    rw [if_pos ⟨by rw [hp]; rfl, hpn⟩, hc, hr]
  rw [h1]
  dsimp only
  rw [getElem?_set_self _ _ _ _ hi]
  dsimp only
  rw [List.set_set]
  generalize hst2 : ({ st with
      m_instances := st.m_instances.set i
        { inst with primary_object := design_object_of inst PRIMARY_PORTS } } :
        Extractor) = st2
  have hi2 : st2.m_instances[i]? =
      some { inst with primary_object := design_object_of inst PRIMARY_PORTS } := by
    rw [← hst2]
    exact getElem?_set_self _ _ _ _ hi
  have hn2 : st2.deref r = .ok node := by
    rw [← hst2, deref_m_instances]
    exact hn
  have h2 : get_primary_location st2 i PRIMARY_PORTS = .error .assertion := by
    unfold get_primary_location
    rw [hi2]
    dsimp only
    rw [hfresh, if_pos ⟨rfl, hpn⟩, hr]
    dsimp only
    rw [hn2]
    dsimp only
    rw [hg]
    dsimp only
    unfold get_primary_location_root
    rw [hi2]
    dsimp only
    rw [hfresh, if_pos ⟨rfl, hpn⟩]
    unfold get_primary_object_root
    rw [hi2]
    dsimp only
    rw [if_neg (fun k => hdl k.1)]
    dsimp only
    rw [if_pos hdl, hi2]
    dsimp only
    rw [hfind]
  rw [h2]

/-- C35: the primary object that `get_primary_object` chooses for the
instance of a root is not always a linked object. It is a key of the locations
map when the instance connects none of the ports `I_P`, `O_P`, when the net on
that port is named like a linked object, or when some linked object has a
location; but with no location assigned and a net on the port that is not
named like a linked object, the third step of the method takes that net, and
`finalize_location` then fails the assertion of `get_primary_location`. -/
theorem C35_primary_object_is_the_port_net_when_nothing_is_located (inst : INSTANCE)
    (hp : inst.primary_object = []) :
    (inst.locations ≠ [] → (∀ kv ∈ inst.locations, kv.1 ≠ []) →
      (design_object_of inst PRIMARY_PORTS = [] ∨
        CppMap.contains inst.locations (design_object_of inst PRIMARY_PORTS) = true ∨
        first_located inst.locations ≠ none) →
      CppMap.contains inst.locations (inst.choose_primary_object PRIMARY_PORTS) = true) ∧
    (design_object_of inst PRIMARY_PORTS ≠ [] →
      CppMap.contains inst.locations (design_object_of inst PRIMARY_PORTS) = false →
      first_located inst.locations = none →
      inst.choose_primary_object PRIMARY_PORTS = design_object_of inst PRIMARY_PORTS ∧
      ∀ (st : Extractor) (i : Nat) (r : PrimRef) (node : PRIMITIVE),
        st.m_instances[i]? = some inst → inst.parsed_location = {} →
        inst.primitive = some r → st.deref r = .ok node → node.grandparent = none →
        finalize_location st i = .error .assertion) := by
  obtain ⟨k1, k2⟩ := choose_primary_object_cases inst PRIMARY_PORTS hp
  refine ⟨k1, fun hdne hnk hnone => ⟨k2 hdne hnk hnone, ?_⟩⟩
  intro st i r node hi hfresh hr hn hg
  exact finalize_location_fails st i inst r node hi hfresh hp hr hn hg hdne hnk hnone

set_option maxRecDepth 100000 in
/-- Witness for C35: the run of `extract` on `example_pair_alias` returns
true with the one instance `ibuf`, linked to `n` and `p`, whose connection
`I_P` is the net `n1`; no location is assigned, the primary object becomes
`n1`, and `finalize_location` fails the assertion. -/
theorem C35_primary_object_is_the_port_net_when_nothing_is_located_witness :
    extract example_pair_alias 10 (Extractor.construct "genesis3".toList) =
      .ok (true, example_pair_alias_extracted, some FinalCheck.good) ∧
    example_pair_alias_extracted.m_instances = [example_pair_alias_instance] ∧
    example_pair_alias_instance.linked_objects = ["n".toList, "p".toList] ∧
    example_pair_alias_instance.locations = [("n".toList, []), ("p".toList, [])] ∧
    design_object_of example_pair_alias_instance PRIMARY_PORTS = "n1".toList ∧
    example_pair_alias_instance.choose_primary_object PRIMARY_PORTS = "n1".toList ∧
    finalize_location example_pair_alias_extracted 0 = .error .assertion :=
  ⟨by decide, by decide, by decide, by decide, by decide,
    ((C35_primary_object_is_the_port_net_when_nothing_is_located
      example_pair_alias_instance (by decide)).2 (by decide) (by decide) (by decide)).1,
    ((C35_primary_object_is_the_port_net_when_nothing_is_located
      example_pair_alias_instance (by decide)).2 (by decide) (by decide) (by decide)).2
      example_pair_alias_extracted 0 (.port 0)
      example_pair_alias_root
      (by decide) (by decide) (by decide) (by decide) (by decide)⟩

/-- C40 as stated fails: `HP_1_2147483648_0P` is a string of the location
grammar whose index is one more than the largest `int`; `std::stoi` throws
`std::out_of_range` on it, `parse_location` does not return, and the record is
left with the status BAD and no failure reason. -/
theorem C40_counterexample_index_beyond_int :
    LocationGrammar "HP_1_2147483648_0P".toList 'P' '1' [] "2147483648".toList
      "0".toList 'P' ∧
    parse_location "HP_1_2147483648_0P".toList PARSED_LOCATION.fresh =
      .error .out_of_range ∧
    (parse_location_left "HP_1_2147483648_0P".toList PARSED_LOCATION.fresh).status =
      PARSED_LOCATION_BAD ∧
    (parse_location_left "HP_1_2147483648_0P".toList
      PARSED_LOCATION.fresh).failure_reason = [] := by
  refine ⟨⟨rfl, Or.inl rfl, by decide, Or.inl rfl, ⟨by decide, by decide⟩,
    ⟨by decide, by decide⟩, Or.inl rfl⟩, by decide, by decide, by decide⟩

/-! ### Properties kept by the traced pairs -/

/-- The attachment of a child leaves the name, the descriptor, the parent
and the chain root of every node that was there, and the new node has the
name of the cell, the descriptor handed in, the parent it was attached to and
the chain root of that parent (the parent itself when it is a root). -/
theorem attach_child_nodes (st st2 : Extractor) (parent : PrimRef) (parentNode : PRIMITIVE)
    (cell : Cell) (db : PRIMITIVE_DB) (connections : CppMap CppString)
    (hpr : st.deref parent = .ok parentNode)
    (h : attach_child st parent parentNode cell db connections = .ok st2) :
    (∀ r n, st.deref r = .ok n →
      ∃ m, st2.deref r = .ok m ∧ m.name = n.name ∧ m.db = n.db ∧
        m.parent = n.parent ∧ m.grandparent = n.grandparent) ∧
    (∀ r m, st2.deref r = .ok m →
      (∃ n, st.deref r = .ok n ∧ m.name = n.name ∧ m.db = n.db ∧
        m.parent = n.parent ∧ m.grandparent = n.grandparent) ∨
      (r = .child st.m_child_primitives.length ∧ m.name = cell.name ∧ m.db = db ∧
        m.parent = some parent ∧
        m.grandparent =
          (if parentNode.grandparent = none then some parent else parentNode.grandparent))) := by
  unfold attach_child at h
  simp only [PRIMITIVE.construct, hpr, bind, Except.bind, pure, Except.pure] at h
  have hs := get_primitive_parameters_shape _ _ _ _ h
  have hparent_ne : parent ≠ .child st.m_child_primitives.length := by
    intro e
    rw [e] at hpr
    exact Nat.lt_irrefl _ (deref_child_lt st _ _ hpr)
  constructor
  · intro r n hn
    have hrne : r ≠ .child st.m_child_primitives.length := by
      intro e
      rw [e] at hn
      exact Nat.lt_irrefl _ (deref_child_lt st _ _ hn)
    by_cases hr : r = parent
    · subst hr
      obtain ⟨m, hm, s⟩ := (hs r).1 _ (by
        rw [deref_update, if_pos rfl, deref_push, if_neg hparent_ne, hpr])
      rw [hpr] at hn
      have e := Except.ok.inj hn
      subst e
      exact ⟨m, hm, s.1.symm, s.2.2.2.2.2.1.symm, s.2.1.symm, s.2.2.1.symm⟩
    · obtain ⟨m, hm, s⟩ := (hs r).1 n (by
        rw [deref_update, if_neg hr, deref_push, if_neg hrne]
        exact hn)
      exact ⟨m, hm, s.1.symm, s.2.2.2.2.2.1.symm, s.2.1.symm, s.2.2.1.symm⟩
  · intro r m hm
    obtain ⟨n, hn, s⟩ := (hs r).2 m hm
    rw [deref_update] at hn
    by_cases hr : r = parent
    · subst hr
      rw [if_pos rfl, deref_push, if_neg hparent_ne, hpr] at hn
      have e := Except.ok.inj hn
      subst e
      exact Or.inl ⟨parentNode, hpr, s.1.symm, s.2.2.2.2.2.1.symm, s.2.1.symm, s.2.2.1.symm⟩
    · rw [if_neg hr, deref_push] at hn
      by_cases hnew : r = .child st.m_child_primitives.length
      · rw [if_pos hnew] at hn
        have e := Except.ok.inj hn
        subst e
        exact Or.inr ⟨hnew, s.1.symm, s.2.2.2.2.2.1.symm, s.2.1.symm, s.2.2.1.symm⟩
      · rw [if_neg hnew] at hn
        exact Or.inl ⟨n, hn, s.1.symm, s.2.2.2.2.2.1.symm, s.2.1.symm, s.2.2.1.symm⟩

theorem pair_alias_pairs {P : Extractor → Prop}
    (hshape : ∀ st st2, ShapeEq st.deref st2.deref → P st → P st2)
    (call : Extractor → CppString → Except Fault (Bool × Extractor))
    (parent : PrimRef) (cell : Cell) (src_is_right : Bool) (connection : CppString)
    (hcall : ∀ st dest found st2, P st → call st dest = .ok (found, st2) → P st2) :
    ∀ (pairs : List (SigSpec × SigSpec)) (st : Extractor) (found : Bool) (st2 : Extractor),
      P st →
      trace_alias_pairs call parent cell src_is_right connection pairs st = .ok (found, st2) →
      P st2 := by
  intro pairs
  induction pairs with
  | nil =>
    intro st found st2 inv h
    simp only [trace_alias_pairs] at h
    have e := Except.ok.inj h
    have e2 : st = st2 := congrArg Prod.snd e
    exact e2 ▸ inv
  | cons it rest ih =>
    intro st found st2 inv h
    simp only [trace_alias_pairs] at h
    split at h
    · exact Except.noConfusion h
    · split at h
      · exact ih st found st2 inv h
      · split at h
        · exact Except.noConfusion h
        · rename_i _ dest hd _ f s hc
          have inv2 : P s := hcall st dest f s inv hc
          split at h
          · have e := Except.ok.inj h
            have e2 := congrArg Prod.snd e
            simp only at e2
            rw [← e2]
            exact hshape _ _
              (shapeEq_update s parent _ (fun _ => ⟨rfl, rfl, rfl, rfl, rfl, rfl, rfl⟩)) inv2
          · exact ih s found st2 inv2 h

/-- The recursive `trace_next_primitive` from a node whose descriptor is the
source of a traced pair, on a cell of the module of the destination type,
keeps a property that the traced pairs keep. -/
theorem pair_rec {P : Extractor → Prop} {module : Module}
    {calls : List (CppString × CppString)} (hP : PairClosed module calls P)
    (src : CppString) (parent : PrimRef) (cell : Cell) (hcell : cell ∈ module.cells)
    (hpair : (src, cell.type) ∈ calls) :
    ∀ (fuel : Nat) (st : Extractor) (connection : CppString) (found : Bool)
      (st2 : Extractor),
      (P st ∧ ∀ pn, st.deref parent = .ok pn → pn.db.name = src) →
      trace_next_primitive_rec module fuel st parent cell connection = .ok (found, st2) →
      (P st2 ∧ ∀ pn, st2.deref parent = .ok pn → pn.db.name = src) := by
  have hshape : ∀ st st2, ShapeEq st.deref st2.deref →
      (P st ∧ ∀ pn, st.deref parent = .ok pn → pn.db.name = src) →
      (P st2 ∧ ∀ pn, st2.deref parent = .ok pn → pn.db.name = src) := by
    intro st st2 hs inv
    refine ⟨hP.shape st st2 hs inv.1, fun pn hpn => ?_⟩
    obtain ⟨n, hn, s⟩ := (hs parent).2 pn hpn
    rw [← s.2.2.2.2.2.1]
    exact inv.2 n hn
  intro fuel
  induction fuel with
  | zero =>
    intro st connection found st2 _ h
    simp only [trace_next_primitive_rec] at h
    exact Except.noConfusion h
  | succ fuel ih =>
    intro st connection found st2 inv h
    simp only [trace_next_primitive_rec] at h
    split at h
    · exact Except.noConfusion h
    · rename_i parentNode hpr
      split at h
      · exact Except.noConfusion h
      · rename_i hnot
        split at h
        · exact Except.noConfusion h
        · exact Except.noConfusion h
        · rename_i db hdb
          split at h
          · exact Except.noConfusion h
          · split at h
            · split at h
              · exact Except.noConfusion h
              · rename_i s hs
                have e := Except.ok.inj h
                have e2 : s = st2 := congrArg Prod.snd e
                rw [← e2]
                have hc : CppMap.contains parentNode.child cell.name = false := by
                  cases hc : CppMap.contains parentNode.child cell.name with
                  | false => rfl
                  | true => exact absurd hc hnot
                have hsrc : parentNode.db.name = src := inv.2 parentNode hpr
                refine ⟨hP.attach st s parent parentNode cell db _ inv.1 hpr hcell
                  (by rw [hsrc]; exact hpair) hc hdb hs, fun pn hpn => ?_⟩
                obtain ⟨m, hm, _, hdbm, _⟩ :=
                  (attach_child_nodes st s parent parentNode cell db _ hpr hs).1 parent
                    parentNode hpr
                rw [hm] at hpn
                have e3 := Except.ok.inj hpn
                subst e3
                rw [hdbm]
                exact hsrc
            · exact pair_alias_pairs hshape _ parent cell _ connection
                (fun s dest f s2 hi hc => ih s dest f s2 hi hc)
                module.connections st found st2 inv h

theorem pair_cells {P : Extractor → Prop} {module : Module}
    {calls : List (CppString × CppString)} (hP : PairClosed module calls P)
    (fuel : Nat) (src dst : CppString) (hpair : (src, dst) ∈ calls) (primitive : PrimRef) :
    ∀ (cells : List Cell), (∀ c ∈ cells, c ∈ module.cells) →
      ∀ (st st2 : Extractor), P st →
      trace_cells module fuel src dst primitive cells st = .ok st2 → P st2 := by
  intro cells
  induction cells with
  | nil =>
    intro _ st st2 inv h
    simp only [trace_cells] at h
    exact (Except.ok.inj h) ▸ inv
  | cons cell rest ih =>
    intro hsub st st2 inv h
    have hrest : ∀ c ∈ rest, c ∈ module.cells := fun c hc => hsub c (List.mem_cons_of_mem _ hc)
    simp only [trace_cells] at h
    split at h
    · exact Except.noConfusion h
    · rename_i node hnode
      split at h
      · rename_i hcond
        split at h
        · exact Except.noConfusion h
        · split at h
          · exact Except.noConfusion h
          · rename_i _ f s hs
            have inv2 : P s :=
              (pair_rec hP src primitive cell (hsub cell (List.mem_cons_self _ _))
                (by rw [hcond.2]; exact hpair) fuel st _ f s
                ⟨inv, fun pn hpn => by
                  rw [hnode] at hpn
                  rw [← Except.ok.inj hpn]
                  exact hcond.1⟩ hs).1
            refine ih hrest _ st2 ?_ h
            split
            · exact hP.shape _ _ (shapeEq_update s primitive _ (fun p => by
                split
                · exact ⟨rfl, rfl, rfl, rfl, rfl, rfl, rfl⟩
                · exact ⟨rfl, rfl, rfl, rfl, rfl, rfl, rfl⟩)) inv2
            · exact inv2
      · exact ih hrest st st2 inv h

theorem pair_sources {P : Extractor → Prop} {module : Module}
    {calls : List (CppString × CppString)} (hP : PairClosed module calls P)
    (fuel : Nat) (src dst : CppString) (hpair : (src, dst) ∈ calls) :
    ∀ (sources : List PrimRef) (st st2 : Extractor), P st →
      trace_sources module fuel src dst sources st = .ok st2 → P st2 := by
  intro sources
  induction sources with
  | nil =>
    intro st st2 inv h
    simp only [trace_sources] at h
    exact (Except.ok.inj h) ▸ inv
  | cons primitive rest ih =>
    intro st st2 inv h
    simp only [trace_sources] at h
    split at h
    · exact Except.noConfusion h
    · rename_i s hs
      exact ih s st2
        (pair_cells hP fuel src dst hpair primitive _ (fun _ hc => hc) st s inv hs) h

theorem pair_next_primitive {P : Extractor → Prop} {module : Module}
    {calls : List (CppString × CppString)} (hP : PairClosed module calls P)
    (fuel : Nat) (st st2 : Extractor) (src dst : CppString) (hpair : (src, dst) ∈ calls)
    (inv : P st) (h : trace_next_primitive module fuel st src dst = .ok st2) : P st2 := by
  unfold trace_next_primitive at h
  simp only [bind, Except.bind] at h
  split at h
  · exact Except.noConfusion h
  · split at h
    · exact Except.noConfusion h
    · exact pair_sources hP fuel src dst hpair _ st st2 inv h

/-- The tracing calls of `extract` keep every property that the traced pairs
keep. -/
theorem pair_calls {P : Extractor → Prop} {module : Module}
    {calls : List (CppString × CppString)} (hP : PairClosed module calls P) (fuel : Nat) :
    ∀ (todo : List (CppString × CppString)), (∀ c ∈ todo, c ∈ calls) →
      ∀ (st st2 : Extractor), P st →
      trace_calls module fuel todo st = .ok st2 → P st2 := by
  intro todo
  induction todo with
  | nil =>
    intro _ st st2 inv h
    simp only [trace_calls] at h
    exact (Except.ok.inj h) ▸ inv
  | cons call rest ih =>
    intro hsub st st2 inv h
    simp only [trace_calls] at h
    split at h
    · exact Except.noConfusion h
    · rename_i s hs
      exact ih (fun c hc => hsub c (List.mem_cons_of_mem _ hc)) s st2
        (pair_next_primitive hP fuel st s call.1 call.2
          (hsub call (List.mem_cons_self _ _)) inv hs) h

/-! ### Properties kept by the creation of roots -/

theorem is_supported_primitive_in_facts (name : CppString) (req : PRIMITIVE_REQ)
    (db : PRIMITIVE_DB) :
    ∀ (table : List PRIMITIVE_DB), is_supported_primitive_in name req table = some db →
      db.is_ready = true ∧ db.name = name ∧
      (req = PRIMITIVE_REQ.IS_PORT → db.is_port = true) ∧
      (req = PRIMITIVE_REQ.NOT_PORT → db.is_port = false) ∧
      (req = PRIMITIVE_REQ.IS_STANDALONE → db.is_standalone = true) ∧
      (req = PRIMITIVE_REQ.IS_FABRIC_CLKBUF → db.is_fabric_clkbuf = true) := by
  intro table
  induction table with
  | nil =>
    intro h
    simp [is_supported_primitive_in] at h
  | cons d rest ih =>
    intro h
    simp only [is_supported_primitive_in] at h
    split at h
    · rename_i hd
      split at h
      · rename_i hreq
        have e := Option.some.inj h
        subst e
        simp only [Bool.and_eq_true, decide_eq_true_eq] at hd
        refine ⟨hd.1, hd.2, ?_, ?_, ?_, ?_⟩
        all_goals
          intro hr
          subst hr
          simp at hreq
          exact hreq
      · exact Option.noConfusion h
    · exact ih h

/-- The descriptor that `is_supported_primitive` finds is a ready entry of
the genesis3 table with the name asked for, and it meets the requirement. -/
theorem supported_facts (st : Extractor) (name : CppString) (req : PRIMITIVE_REQ)
    (db : PRIMITIVE_DB) (h : is_supported_primitive st name req = .ok (some db)) :
    db ∈ genesis3_primitives ∧ db.is_ready = true ∧ db.name = name ∧
      (req = PRIMITIVE_REQ.IS_PORT → db.is_port = true) ∧
      (req = PRIMITIVE_REQ.NOT_PORT → db.is_port = false) ∧
      (req = PRIMITIVE_REQ.IS_STANDALONE → db.is_standalone = true) ∧
      (req = PRIMITIVE_REQ.IS_FABRIC_CLKBUF → db.is_fabric_clkbuf = true) := by
  refine ⟨supported_genesis3 st name req db h, ?_⟩
  unfold is_supported_primitive at h
  simp only [bind, Except.bind, pure, Except.pure] at h
  split at h
  · exact Except.noConfusion h
  · exact is_supported_primitive_in_facts name req db _ (Except.ok.inj h)

theorem root_cell_step {reqs : List PRIMITIVE_REQ} {P : List Cell → Extractor → Prop}
    (hP : RootClosed reqs P)
    (cell : Cell) (rest : List Cell) (st st3 : Extractor) (b : Bool) (db : PRIMITIVE_DB)
    (req : PRIMITIVE_REQ) (c : CppMap CppString) (ps : List PORT_INFO) (bd : Bool)
    (v : PORT_PRIMITIVE × CppMap Nat) (inv : P (cell :: rest) st) (hreq : req ∈ reqs)
    (hdb : is_supported_primitive st cell.type req = .ok (some db))
    (hc : PORT_PRIMITIVE.construct st.g_standalone_tracker db cell.name c ps bd = .ok v)
    (hg : get_primitive_parameters
      { st with m_netlist_status := b, m_ports := st.m_ports ++ [v.1],
                g_standalone_tracker := v.2 } cell (.port st.m_ports.length) = .ok st3) :
    P rest st3 := by
  have inv1 : P (cell :: rest) { st with m_netlist_status := b } :=
    hP.shape _ st _ (ShapeEq.of_eq (fun r => by cases r <;> rfl)) inv
  have inv2 := hP.push cell rest { st with m_netlist_status := b } db req c ps bd v inv1
    hreq hdb hc
  exact hP.shape _ _ _ (get_primitive_parameters_shape _ _ _ _ hg) inv2

theorem root_cells {reqs : List PRIMITIVE_REQ} {P : List Cell → Extractor → Prop}
    (hP : RootClosed reqs P) (hport : PRIMITIVE_REQ.IS_PORT ∈ reqs)
    (hstand : PRIMITIVE_REQ.IS_STANDALONE ∈ reqs)
    (module : Module) (fuel : Nat) (port_infos : List PORT_INFO) :
    ∀ (cells : List Cell) (port_trackers : List Nat) (st st2 : Extractor),
      P cells st →
      trace_and_create_port_cells module fuel port_infos cells port_trackers st = .ok st2 →
      P [] st2 := by
  intro cells
  induction cells with
  | nil =>
    intro pt st st2 inv h
    simp only [trace_and_create_port_cells] at h
    exact (Except.ok.inj h) ▸ inv
  | cons cell rest ih =>
    intro pt st st2 inv h
    have hstat : ∀ b, P (cell :: rest) { st with m_netlist_status := b } := fun b =>
      hP.shape _ st _ (ShapeEq.of_eq (fun r => by cases r <;> rfl)) inv
    simp only [trace_and_create_port_cells, bind, Except.bind, pure, Except.pure] at h
    repeat' split at h
    all_goals first
      | exact Except.noConfusion h
      | exact ih _ _ _ (hP.skip _ _ _ inv) h
      | exact ih _ _ _ (hP.skip _ _ _ (hstat _)) h
      | (have k := ‹is_supported_primitive st cell.type _ = Except.ok (some _)›
         exact ih _ _ _ (root_cell_step hP cell rest st _ _ _ _ _ _ _ _ inv
           (by first | exact hport | exact hstand) k
           ‹PORT_PRIMITIVE.construct _ _ _ _ _ _ = Except.ok _›
           ‹get_primitive_parameters _ _ _ = Except.ok _›) h)

theorem root_get_ports {reqs : List PRIMITIVE_REQ} {P : List Cell → Extractor → Prop}
    (hP : RootClosed reqs P) (hport : PRIMITIVE_REQ.IS_PORT ∈ reqs)
    (hstand : PRIMITIVE_REQ.IS_STANDALONE ∈ reqs)
    (module : Module) (fuel : Nat) (st st2 : Extractor) (ok : Bool)
    (inv : P module.cells st) (hnil : P module.cells st → P [] st)
    (h : get_ports module fuel st = .ok (ok, st2)) : P [] st2 := by
  unfold get_ports at h
  simp only [bind, Except.bind, pure, Except.pure, throw, throwThe,
    MonadExceptOf.throw, trace_and_create_port] at h
  repeat' split at h
  all_goals first
    | exact Except.noConfusion h
    | (have e := congrArg Prod.snd (Except.ok.inj h)
       simp only at e
       subst e
       first
         | exact root_cells hP hport hstand _ _ _ _ _ _ _ inv
             ‹trace_and_create_port_cells _ _ _ _ _ _ = Except.ok _›
         | exact hP.shape _ st _ (ShapeEq.of_eq (fun r => by cases r <;> rfl)) (hnil inv))

theorem root_fabric_cells {reqs : List PRIMITIVE_REQ} {P : List Cell → Extractor → Prop}
    (hP : RootClosed reqs P) (hfab : PRIMITIVE_REQ.IS_FABRIC_CLKBUF ∈ reqs)
    (module : Module) :
    ∀ (cells : List Cell) (st st2 : Extractor), P cells st →
      trace_fabric_clkbuf_cells module cells st = .ok st2 → P [] st2 := by
  intro cells
  induction cells with
  | nil =>
    intro st st2 inv h
    simp only [trace_fabric_clkbuf_cells] at h
    exact (Except.ok.inj h) ▸ inv
  | cons cell rest ih =>
    intro st st2 inv h
    simp only [trace_fabric_clkbuf_cells, bind, Except.bind, pure, Except.pure, throw,
      throwThe, MonadExceptOf.throw] at h
    repeat' split at h
    all_goals first
      | exact Except.noConfusion h
      | exact ih _ _ (hP.skip _ _ _ inv) h
      | exact ih _ _ (hP.push cell rest st _ _ _ _ _ _ inv hfab
          ‹is_supported_primitive st cell.type _ = Except.ok (some _)›
          ‹PORT_PRIMITIVE.construct _ _ _ _ _ _ = Except.ok _›) h

theorem trace_gearbox_fast_clock_step_shape (st st2 : Extractor) (index : Nat)
    (h : trace_gearbox_fast_clock_step st index = .ok st2) :
    ShapeEq st.deref st2.deref := by
  unfold trace_gearbox_fast_clock_step at h
  simp only [bind, Except.bind, pure, Except.pure, throw, throwThe,
    MonadExceptOf.throw] at h
  repeat' split at h
  all_goals first
    | exact Except.noConfusion h
    | exact (Except.ok.inj h) ▸ shapeEq_refl _
    | (have e := Except.ok.inj h
       subst e
       exact shapeEq_update st _ _ (fun _ => ⟨rfl, rfl, rfl, rfl, rfl, rfl, rfl⟩))

/-- The search for the producers of the fast clocks leaves the shape of all
nodes alone. -/
theorem trace_gearbox_fast_clock_shape :
    ∀ (indices : List Nat) (st st2 : Extractor),
      trace_gearbox_fast_clock_loop indices st = .ok st2 →
      ShapeEq st.deref st2.deref := by
  intro indices
  induction indices with
  | nil =>
    intro st st2 h
    simp only [trace_gearbox_fast_clock_loop] at h
    exact (Except.ok.inj h) ▸ shapeEq_refl _
  | cons index rest ih =>
    intro st st2 h
    simp only [trace_gearbox_fast_clock_loop, bind, Except.bind] at h
    split at h
    · exact Except.noConfusion h
    · rename_i s hs
      exact shapeEq_trans (trace_gearbox_fast_clock_step_shape st s index hs) (ih s st2 h)

/-! ### Every node comes from a cell -/

/-- In the genesis3 table the two descriptors of a traced pair have the same
direction flag. -/
theorem traced_pairs_same_direction :
    ∀ d1 ∈ genesis3_primitives, ∀ d2 ∈ genesis3_primitives,
      (d1.name, d2.name) ∈ extract_trace_pairs → d1.is_in_dir = d2.is_in_dir := by
  decide

theorem port_construct_name (tracker : CppMap Nat) (db : PRIMITIVE_DB) (p : CppString)
    (c : CppMap CppString) (ps : List PORT_INFO) (b : Bool) (port : PORT_PRIMITIVE)
    (tracker2 : CppMap Nat)
    (h : PORT_PRIMITIVE.construct tracker db p c ps b = .ok (port, tracker2)) :
    port.base.name = p := by
  unfold PORT_PRIMITIVE.construct at h
  simp only [bind, Except.bind, pure, Except.pure, throw, throwThe,
    MonadExceptOf.throw] at h
  repeat' split at h
  all_goals first
    | exact Except.noConfusion h
    | (have e := congrArg Prod.fst (Except.ok.inj h)
       simp only at e
       subst e
       rfl)

theorem deref_port_lt (st : Extractor) (i : Nat) (n : PRIMITIVE)
    (h : st.deref (.port i) = .ok n) : i < st.m_ports.length := by
  obtain ⟨p, hp, _⟩ := (deref_port_iff st i n).1 h
  exact (List.getElem?_eq_some.1 hp).1

theorem nodesOfCells_shape (module : Module) (st st2 : Extractor)
    (hs : ShapeEq st.deref st2.deref) (inv : NodesOfCells module st) :
    NodesOfCells module st2 := by
  intro r m hm
  obtain ⟨n, hn, s⟩ := (hs r).2 m hm
  obtain ⟨a, b, c, d, e, f⟩ := inv r n hn
  have hname : n.name = m.name := s.1
  have hdb : n.db = m.db := s.2.2.2.2.2.1
  have hpar : n.parent = m.parent := s.2.1
  have hgr : n.grandparent = m.grandparent := s.2.2.1
  rw [← hdb, ← hname, ← hpar, ← hgr]
  refine ⟨a, b, c, d, ?_, ?_⟩
  · intro pr hpr
    obtain ⟨pn, hpn, k⟩ := e pr hpr
    obtain ⟨pm, hpm, t⟩ := (hs pr).1 pn hpn
    refine ⟨pm, hpm, ?_⟩
    rw [← t.2.2.2.2.2.1]
    exact k
  · intro g hg
    obtain ⟨gn, hgn, k⟩ := f g hg
    obtain ⟨gm, hgm, t⟩ := (hs g).1 gn hgn
    refine ⟨gm, hgm, ?_⟩
    rw [← t.2.2.2.2.2.1]
    exact k

/-- The creation of roots keeps that every node comes from a cell of the
module, as long as the cells still to visit are cells of the module. -/
theorem rootClosed_nodesOfCells (module : Module) :
    RootClosed [PRIMITIVE_REQ.IS_PORT, PRIMITIVE_REQ.IS_STANDALONE,
        PRIMITIVE_REQ.IS_FABRIC_CLKBUF]
      (fun rest st => (∀ c ∈ rest, c ∈ module.cells) ∧ NodesOfCells module st) where
  shape := fun rest st st2 hs inv => ⟨inv.1, nodesOfCells_shape module st st2 hs inv.2⟩
  skip := fun cell rest st inv => ⟨fun c hc => inv.1 c (List.mem_cons_of_mem _ hc), inv.2⟩
  push := by
    intro cell rest st db req c ps bd v inv hreq hdb hc
    refine ⟨fun c hc => inv.1 c (List.mem_cons_of_mem _ hc), ?_⟩
    obtain ⟨h1, h2, _, _, _, h6⟩ := port_construct_base _ _ _ _ _ _ v.1 v.2 hc
    have hname := port_construct_name _ _ _ _ _ _ v.1 v.2 hc
    obtain ⟨f1, f2, f3, f4, _, f6, f7⟩ := supported_facts st cell.type req db hdb
    have hold : ∀ q n, st.deref q = .ok n →
        Extractor.deref { st with m_ports := st.m_ports ++ [v.1],
                                  g_standalone_tracker := v.2 } q = .ok n := by
      intro q n hn
      rw [deref_push_port, if_neg]
      · exact hn
      · intro e
        rw [e] at hn
        exact Nat.lt_irrefl _ (deref_port_lt st _ _ hn)
    intro r n hn
    rw [deref_push_port] at hn
    by_cases hr : r = .port st.m_ports.length
    · rw [if_pos hr] at hn
      have e := Except.ok.inj hn
      subst e
      rw [h6, hname, h1, h2]
      refine ⟨f1, f2, ⟨cell, inv.1 cell (List.mem_cons_self _ _), rfl, f3.symm⟩, ?_, ?_, ?_⟩
      · intro _ _
        simp only [List.mem_cons, List.mem_singleton, List.not_mem_nil, or_false] at hreq
        rcases hreq with e | e | e
        · rw [f4 e]
          rfl
        · rw [f6 e]
          simp
        · rw [f7 e]
          simp
      · intro pr hpr
        exact Option.noConfusion hpr
      · intro g hg
        exact Option.noConfusion hg
    · rw [if_neg hr] at hn
      obtain ⟨a, b, c2, d, e, f⟩ := inv.2 r n hn
      refine ⟨a, b, c2, d, ?_, ?_⟩
      · intro pr hpr
        obtain ⟨pn, hpn, k⟩ := e pr hpr
        exact ⟨pn, hold pr pn hpn, k⟩
      · intro g hg
        obtain ⟨gn, hgn, k⟩ := f g hg
        exact ⟨gn, hold g gn hgn, k⟩

/-- The tracing of the pairs of `extract` keeps that every node comes from a
cell of the module. -/
theorem pairClosed_nodesOfCells (module : Module) :
    PairClosed module extract_trace_pairs (NodesOfCells module) where
  shape := nodesOfCells_shape module
  attach := by
    intro st st2 parent parentNode cell db connections inv hpr hcell hpair _ hdb h
    obtain ⟨hold, hnew⟩ := attach_child_nodes st st2 parent parentNode cell db connections
      hpr h
    obtain ⟨f1, f2, f3, _, f5, _, _⟩ :=
      supported_facts st cell.type PRIMITIVE_REQ.NOT_PORT db hdb
    obtain ⟨pa, _, _, _, _, pf⟩ := inv parent parentNode hpr
    have hdir : parentNode.db.is_in_dir = db.is_in_dir :=
      traced_pairs_same_direction _ pa _ f1 (by rw [f3]; exact hpair)
    intro r m hm
    rcases hnew r m hm with ⟨n, hn, e1, e2, e3, e4⟩ | ⟨hr, e1, e2, e3, e4⟩
    · obtain ⟨a, b, c, d, e, f⟩ := inv r n hn
      rw [e1, e2, e3, e4]
      refine ⟨a, b, c, d, ?_, ?_⟩
      · intro pr hp
        obtain ⟨pn, hpn, k⟩ := e pr hp
        obtain ⟨pm, hpm, _, t, _⟩ := hold pr pn hpn
        refine ⟨pm, hpm, ?_⟩
        rw [t]
        exact k
      · intro g hg
        obtain ⟨gn, hgn, k⟩ := f g hg
        obtain ⟨gm, hgm, _, t, _⟩ := hold g gn hgn
        refine ⟨gm, hgm, ?_⟩
        rw [t]
        exact k
    · rw [e1, e2, e3, e4]
      refine ⟨f1, f2, ⟨cell, hcell, rfl, f3.symm⟩, ?_, ?_, ?_⟩
      · intro i hi
        rw [hr] at hi
        exact PrimRef.noConfusion hi
      · intro pr hp
        have e := Option.some.inj hp
        subst e
        obtain ⟨pm, hpm, _, t, _⟩ := hold parent parentNode hpr
        refine ⟨pm, hpm, ?_, f5 rfl⟩
        rw [t, f3]
        exact hpair
      · intro g hg
        by_cases hnone : parentNode.grandparent = none
        · rw [if_pos hnone] at hg
          have e := Option.some.inj hg
          subst e
          obtain ⟨pm, hpm, _, t, _⟩ := hold parent parentNode hpr
          refine ⟨pm, hpm, ?_⟩
          rw [t]
          exact hdir.symm
        · rw [if_neg hnone] at hg
          obtain ⟨gn, hgn, k⟩ := pf g hg
          obtain ⟨gm, hgm, _, t, _⟩ := hold g gn hgn
          refine ⟨gm, hgm, ?_⟩
          rw [t, ← k]
          exact hdir.symm

/-- After port discovery and all tracing calls of `extract`, every node
comes from a cell of the module. -/
theorem tracing_nodesOfCells (module : Module) (fuel : Nat) (s0 s1 s2 s3 s4 : Extractor)
    (ok : Bool) (hp : s0.m_ports = []) (hc : s0.m_child_primitives = [])
    (h1 : get_ports module fuel s0 = .ok (ok, s1))
    (h2 : trace_calls module fuel extract_trace_pairs s1 = .ok s2)
    (h3 : trace_fabric_clkbuf module s2 = .ok s3)
    (h4 : trace_gearbox_fast_clock s3 = .ok s4) :
    NodesOfCells module s4 := by
  have i0 : NodesOfCells module s0 := by
    intro r n hn
    cases r with
    | port i => simp [Extractor.deref, hp] at hn
    | child i => simp [Extractor.deref, hc] at hn
  have i1 := root_get_ports (rootClosed_nodesOfCells module) (by decide) (by decide)
    module fuel s0 s1 ok
    ⟨fun _ hc => hc, i0⟩ (fun inv => ⟨fun _ hc => absurd hc (List.not_mem_nil _), inv.2⟩) h1
  have i2 := pair_calls (pairClosed_nodesOfCells module) fuel _ (fun _ hc => hc) s1 s2
    i1.2 h2
  have i3 := root_fabric_cells (rootClosed_nodesOfCells module) (by decide) module _ s2 s3
    ⟨fun _ hc => hc, i2⟩ h3
  exact nodesOfCells_shape module s3 s4 (trace_gearbox_fast_clock_shape _ s3 s4 h4) i3.2

/-! ### Direction flags along the chains -/

theorem genesis3_names_nonempty :
    ∀ db ∈ genesis3_primitives, (get_original_name db.name).length ≠ 0 := by
  decide

theorem deref_of_sameNodes {s t : Extractor} (h : SameNodes s t) (r : PrimRef) :
    t.deref r = s.deref r := by
  cases r with
  | port i => simp only [Extractor.deref, h.1]
  | child i => simp only [Extractor.deref, h.2]

theorem edgesAgree_of_nodes (module : Module) (st : Extractor) (inv : TreeInv st)
    (h : NodesOfCells module st) : EdgesAgree st := by
  intro r n k x hn hk
  obtain ⟨j, c, hx, hc, hcp, _⟩ := inv.childmaps r n k x hn hk
  subst hx
  obtain ⟨cdb, _, _, _, cpar, _⟩ := h (.child j) c hc
  obtain ⟨pn, hpn, hpair, _⟩ := cpar r hcp
  rw [hn] at hpn
  have e := Except.ok.inj hpn
  subst e
  exact ⟨c, hc, (traced_pairs_same_direction _ (h r n hn).1 _ cdb hpair).symm, cdb⟩

theorem edgesAgree_grown {s t : Extractor} (g : Grown s t) (h : EdgesAgree s) :
    EdgesAgree t := by
  intro r m k x hm hk
  obtain ⟨n, hn, gn⟩ := (g r).2 m hm
  obtain ⟨c, hc, hdir, hmem⟩ := h r n k x hn (gn.1 ▸ hk)
  obtain ⟨c2, hc2, gc⟩ := (g x).1 c hc
  exact ⟨c2, hc2, by rw [gc.2.2.1, gn.2.2.1]; exact hdir, gc.2.2.1 ▸ hmem⟩

theorem edgesAgree_same {s t : Extractor} (g : SameNodes s t) (h : EdgesAgree s) :
    EdgesAgree t := by
  intro r n k x hn hk
  rw [deref_of_sameNodes g] at hn
  obtain ⟨c, hc, k2⟩ := h r n k x hn hk
  exact ⟨c, by rw [deref_of_sameNodes g]; exact hc, k2⟩

/-- A node below another one has its direction flag. -/
theorem reach_direction (st : Extractor) (h : EdgesAgree st) :
    ∀ r x, Reach st r x → ∀ n c, st.deref r = .ok n → st.deref x = .ok c →
      c.db.is_in_dir = n.db.is_in_dir := by
  intro r x p
  induction p with
  | edge e =>
    intro n c hn hc
    obtain ⟨n2, k, hn2, hk⟩ := e
    rw [hn] at hn2
    have e2 := Except.ok.inj hn2
    subst e2
    obtain ⟨c2, hc2, hdir, _⟩ := h _ n k _ hn hk
    rw [hc] at hc2
    rw [Except.ok.inj hc2]
    exact hdir
  | step e _ ih =>
    intro n c hn hc
    obtain ⟨n2, k, hn2, hk⟩ := e
    rw [hn] at hn2
    have e2 := Except.ok.inj hn2
    subst e2
    obtain ⟨c2, hc2, hdir, _⟩ := h _ n k _ hn hk
    rw [ih c2 c hc2 hc]
    exact hdir

theorem join_trace_returns (sep : CppString) :
    ∀ (traces : List CppString) (trace : CppString), (∀ t ∈ traces, t.length ≠ 0) →
      ∃ s, join_trace sep traces trace = .ok s := by
  intro traces
  induction traces with
  | nil =>
    intro trace _
    exact ⟨trace, rfl⟩
  | cons t rest ih =>
    intro trace h
    simp only [join_trace]
    rw [if_neg (h t (List.mem_cons_self _ _))]
    split
    · exact ih _ (fun u hu => h u (List.mem_cons_of_mem _ hu))
    · exact ih _ (fun u hu => h u (List.mem_cons_of_mem _ hu))

/-- The child loop of the measuring traversal ends without assertion when
every child has the direction flag handed down and no recursive call ends
with one. -/
theorem summarize_size_children_checks (st : Extractor)
    (call : PrimRef → List CppString → Except Fault Unit) (traces : List CppString)
    (b : Bool) :
    ∀ (children : List (CppString × PrimRef)),
      (∀ child ∈ children, ∃ c, st.deref child.2 = .ok c ∧ c.db.is_in_dir = b ∧
        (call child.2 (traces ++ [get_original_name c.db.name]) = .ok () ∨
          call child.2 (traces ++ [get_original_name c.db.name]) = .error .out_of_fuel)) →
      summarize_size_children st call traces b children = .ok () ∨
        summarize_size_children st call traces b children = .error .out_of_fuel := by
  intro children
  induction children with
  | nil =>
    intro _
    exact Or.inl rfl
  | cons child rest ih =>
    intro h
    obtain ⟨c, hc, hdir, hcall⟩ := h child (List.mem_cons_self _ _)
    have hrest := ih (fun x hx => h x (List.mem_cons_of_mem _ hx))
    have hne : ¬ (b ≠ c.db.is_in_dir) := fun k => k hdir.symm
    simp only [summarize_size_children, bind, Except.bind, hc, pure, Except.pure, throw,
      throwThe, MonadExceptOf.throw, if_neg hne]
    rcases hcall with k | k
    · rw [k]
      exact hrest
    · rw [k]
      exact Or.inr rfl

/-- The measuring traversal from a node with the direction flag handed down
ends without assertion: it returns, or the fuel is used up. -/
theorem summarize_size_checks (st : Extractor) (h : EdgesAgree st) (b : Bool) :
    ∀ (fuel : Nat) (r : PrimRef) (n : PRIMITIVE) (traces : List CppString),
      st.deref r = .ok n → n.db.is_in_dir = b → traces.length ≠ 0 →
      (∀ t ∈ traces, t.length ≠ 0) →
      summarize_size st b fuel r traces = .ok () ∨
        summarize_size st b fuel r traces = .error .out_of_fuel := by
  intro fuel
  induction fuel with
  | zero =>
    intro r n traces _ _ _ _
    exact Or.inr rfl
  | succ fuel ih =>
    intro r n traces hn hb hlen hall
    simp only [summarize_size, bind, Except.bind, hn, pure, Except.pure, throw,
      throwThe, MonadExceptOf.throw, if_neg hlen]
    split
    · apply summarize_size_children_checks
      intro child hchild
      obtain ⟨c, hc, hdir, hmem⟩ := h r n child.1 child.2 hn hchild
      refine ⟨c, hc, hdir.trans hb, ?_⟩
      refine ih child.2 c _ hc (hdir.trans hb) (by simp) ?_
      intro t ht
      rcases List.mem_append.1 ht with k | k
      · exact hall t k
      · rw [List.mem_singleton.1 k]
        exact genesis3_names_nonempty _ hmem
    · obtain ⟨s, hs⟩ := join_trace_returns " -> ".toList traces [] hall
      rw [hs]
      exact Or.inl rfl

/-- The child loop of the reporting traversal returns when every child has
the direction flag handed down, no trace is empty and every recursive call
returns. -/
theorem summarize_children_checks (s : Extractor)
    (call : Extractor → PrimRef → List CppString → List CppString → Except Fault Extractor)
    (traces full_traces : List CppString) (b : Bool)
    (hall : ∀ t ∈ traces, t.length ≠ 0)
    (hcall : ∀ st x t f, SameNodes s st → ∃ st2, call st x t f = .ok st2 ∧ SameNodes s st2) :
    ∀ (children : List (CppString × PrimRef)) (i : Nat) (st : Extractor), SameNodes s st →
      (∀ child ∈ children, ∃ c, s.deref child.2 = .ok c ∧ c.db.is_in_dir = b) →
      ∃ st2, summarize_children call traces full_traces b children i st = .ok st2 ∧
        SameNodes s st2 := by
  intro children
  induction children with
  | nil =>
    intro i st hst _
    exact ⟨st, rfl, hst⟩
  | cons child rest ih =>
    intro i st hst h
    obtain ⟨c, hc, hdir⟩ := h child (List.mem_cons_self _ _)
    have hc2 : st.deref child.2 = .ok c := by
      rw [deref_of_sameNodes hst]
      exact hc
    have hne : ¬ (b ≠ c.db.is_in_dir) := fun k => k hdir.symm
    have hind : ∃ indent, trace_indent traces = .ok indent := by
      unfold trace_indent
      rw [if_neg]
      · exact ⟨_, rfl⟩
      · intro k
        obtain ⟨t, ht, hz⟩ := List.any_eq_true.1 k
        exact hall t ht (of_decide_eq_true hz)
    obtain ⟨indent, hi⟩ := hind
    simp only [summarize_children, bind, Except.bind, hc2, pure, Except.pure, throw,
      throwThe, MonadExceptOf.throw, if_neg hne]
    by_cases h0 : i = 0
    · rw [if_pos h0]
      obtain ⟨st2, h2, hs2⟩ := hcall st child.2 (traces ++ [get_original_name c.db.name])
        (full_traces ++ [get_original_name c.db.name]) hst
      simp only [h2]
      exact ih (i + 1) st2 hs2 (fun x hx => h x (List.mem_cons_of_mem _ hx))
    · rw [if_neg h0]
      simp only [hi]
      obtain ⟨st2, h2, hs2⟩ := hcall st child.2 ([indent] ++ [get_original_name c.db.name])
        (full_traces ++ [get_original_name c.db.name]) hst
      simp only [h2]
      exact ih (i + 1) st2 hs2 (fun x hx => h x (List.mem_cons_of_mem _ hx))

theorem gen_instances_grown (fuel : Nat) (s s2 : Extractor) (inv : TreeInv s)
    (fresh : NodesFresh s) (h : gen_instances fuel s = .ok s2) : Grown s s2 := by
  unfold gen_instances at h
  split at h
  · exact Except.noConfusion h
  · split at h
    · exact Except.noConfusion h
    · have hw : NonWire s := fun r n hn => (fresh r n hn).2
      exact (gen_instances_ports_step fuel _ s s2 hw
        (fun i n hn => (inv.roots i n hn).2.2) h).1.grown

/-- C39: take a run of the phases of `extract` from a state without nodes,
with the genesis3 table and the pairs that `extract` traces.  After the
tracing phase every traced child has a parent and a chain root, and both
have its direction flag.  In the state that `summarize` reads, every entry
of a child map points to a node with the flag of the node holding the map,
and every node below a root has the flag of the root, which is the value
that both traversals hand down.  So the measuring traversal from a root ends
without a failed assertion (it returns, or the fuel is used up), and the
child loop of the reporting traversal, at a root or at a node below it,
returns whenever its recursive calls return. -/
theorem C39_traced_children_have_the_direction_of_parent_and_chain_root
    (module : Module) (fuel : Nat) (s0 s1 s2 s3 s4 s5 s6 : Extractor) (ok : Bool)
    (hp : s0.m_ports = []) (hc : s0.m_child_primitives = [])
    (h1 : get_ports module fuel s0 = .ok (ok, s1))
    (h2 : trace_calls module fuel extract_trace_pairs s1 = .ok s2)
    (h3 : trace_fabric_clkbuf module s2 = .ok s3)
    (h4 : trace_gearbox_fast_clock s3 = .ok s4)
    (h5 : gen_instances fuel s4 = .ok s5)
    (h6 : determine_fabric_clock module s5 = .ok s6) :
    (∀ (j : Nat) (c : PRIMITIVE), s4.m_child_primitives[j]? = some c →
      ∃ pr pn g gn, c.parent = some pr ∧ s4.deref pr = .ok pn ∧
        c.grandparent = some g ∧ s4.deref g = .ok gn ∧
        c.db.is_in_dir = pn.db.is_in_dir ∧ c.db.is_in_dir = gn.db.is_in_dir) ∧
    EdgesAgree s6 ∧
    (∀ (i : Nat) (port : PORT_PRIMITIVE) (x : PrimRef) (c : PRIMITIVE),
      s6.m_ports[i]? = some port → Reach s6 (.port i) x →
      s6.deref x = .ok c → c.db.is_in_dir = port.base.db.is_in_dir) ∧
    (∀ (i : Nat) (port : PORT_PRIMITIVE) (fuel2 : Nat), s6.m_ports[i]? = some port →
      summarize_size s6 port.base.db.is_in_dir fuel2 (.port i)
          [get_original_name port.base.db.name] = .ok () ∨
        summarize_size s6 port.base.db.is_in_dir fuel2 (.port i)
          [get_original_name port.base.db.name] = .error .out_of_fuel) ∧
    (∀ (i : Nat) (port : PORT_PRIMITIVE) (x : PrimRef) (n : PRIMITIVE)
        (call : Extractor → PrimRef → List CppString → List CppString →
          Except Fault Extractor)
        (traces full_traces : List CppString) (k : Nat) (st : Extractor),
      s6.m_ports[i]? = some port →
      (x = .port i ∨ Reach s6 (.port i) x) → s6.deref x = .ok n →
      (∀ t ∈ traces, t.length ≠ 0) →
      (∀ st y t f, SameNodes s6 st → ∃ st2, call st y t f = .ok st2 ∧ SameNodes s6 st2) →
      SameNodes s6 st →
      ∃ st2, summarize_children call traces full_traces port.base.db.is_in_dir
        n.child k st = .ok st2) := by
  have i1 := get_ports_inv module fuel s0 s1 ok (empty_inv s0 hp hc) h1
  have i2 := trace_calls_inv (traceClosed_treeInv.and traceClosed_nodesFresh) module fuel
    _ s1 s2 i1 h2
  have i3 := trace_fabric_clkbuf_cells_inv module _ s2 s3 i2 h3
  have i4 := trace_gearbox_fast_clock_loop_inv _ s3 s4 i3 h4
  have nodes := tracing_nodesOfCells module fuel s0 s1 s2 s3 s4 ok hp hc h1 h2 h3 h4
  have g5 := gen_instances_grown fuel s4 s5 i4.1 i4.2 h5
  have c6 := determine_fabric_clock_same module s5 s6 h6
  have n6 : SameNodes s5 s6 := ⟨c6.1, c6.2.1⟩
  have e6 : EdgesAgree s6 :=
    edgesAgree_same n6 (edgesAgree_grown g5 (edgesAgree_of_nodes module s4 i4.1 nodes))
  have hroot : ∀ i port, s6.m_ports[i]? = some port →
      s6.deref (.port i) = .ok port.base ∧ port.base.db ∈ genesis3_primitives := by
    intro i port hport
    have hd : s6.deref (.port i) = .ok port.base := (deref_port_iff s6 i _).2 ⟨port, hport, rfl⟩
    refine ⟨hd, ?_⟩
    rw [deref_of_sameNodes n6] at hd
    obtain ⟨n4, hn4, g⟩ := (g5 (.port i)).2 _ hd
    rw [g.2.2.1]
    exact (nodes _ n4 hn4).1
  refine ⟨?_, e6, ?_, ?_, ?_⟩
  · intro j c hj
    have hcd : s4.deref (.child j) = .ok c := (deref_child_iff s4 j c).2 hj
    obtain ⟨_, pr, pn, hpar, hpn, _, _, hg⟩ := i4.1.children j c hcd
    obtain ⟨cdb, _, _, _, cpar, cgr⟩ := nodes _ c hcd
    obtain ⟨pn2, hpn2, hpair, _⟩ := cpar pr hpar
    obtain ⟨gn, hgn, hdir⟩ := cgr _ hg
    rw [hpn] at hpn2
    have e := Except.ok.inj hpn2
    subst e
    exact ⟨pr, pn, _, gn, hpar, hpn, hg, hgn,
      (traced_pairs_same_direction _ (nodes _ pn hpn).1 _ cdb hpair).symm, hdir⟩
  · intro i port x c hport hreach hx
    exact reach_direction s6 e6 _ _ hreach _ _ (hroot i port hport).1 hx
  · intro i port fuel2 hport
    obtain ⟨hd, hmem⟩ := hroot i port hport
    refine summarize_size_checks s6 e6 _ fuel2 _ _ _ hd rfl (by simp) ?_
    intro t ht
    rw [List.mem_singleton.1 ht]
    exact genesis3_names_nonempty _ hmem
  · intro i port x n call traces full_traces k st hport hx hn hall hcall hst
    have hflag : n.db.is_in_dir = port.base.db.is_in_dir := by
      rcases hx with e | p
      · subst e
        rw [(hroot i port hport).1] at hn
        rw [← Except.ok.inj hn]
      · exact reach_direction s6 e6 _ _ p _ _ (hroot i port hport).1 hn
    obtain ⟨st2, h2, _⟩ := summarize_children_checks s6 call traces full_traces
      port.base.db.is_in_dir hall hcall n.child k st hst (by
        intro child hchild
        obtain ⟨c, hcd, hdir, _⟩ := e6 x n child.1 child.2 hn hchild
        exact ⟨c, hcd, hdir.trans hflag⟩)
    exact ⟨st2, h2⟩

set_option maxRecDepth 100000 in
/-- Witness for C39: the phases of `extract` on the example with a clock
buffer and a delay behind one input buffer. -/
theorem C39_traced_children_have_the_direction_of_parent_and_chain_root_witness :
    example_clock_and_delay_clocked.m_child_primitives.length = 2 ∧
    determine_fabric_clock example_clock_and_delay example_clock_and_delay_generated =
      .ok example_clock_and_delay_slotted ∧
    ((∀ (j : Nat) (c : PRIMITIVE),
      example_clock_and_delay_clocked.m_child_primitives[j]? = some c →
      ∃ pr pn g gn, c.parent = some pr ∧ example_clock_and_delay_clocked.deref pr = .ok pn ∧
        c.grandparent = some g ∧ example_clock_and_delay_clocked.deref g = .ok gn ∧
        c.db.is_in_dir = pn.db.is_in_dir ∧ c.db.is_in_dir = gn.db.is_in_dir) ∧
    EdgesAgree example_clock_and_delay_slotted ∧
    (∀ (i : Nat) (port : PORT_PRIMITIVE) (x : PrimRef) (c : PRIMITIVE),
      example_clock_and_delay_slotted.m_ports[i]? = some port →
      Reach example_clock_and_delay_slotted (.port i) x →
      example_clock_and_delay_slotted.deref x = .ok c →
      c.db.is_in_dir = port.base.db.is_in_dir) ∧
    (∀ (i : Nat) (port : PORT_PRIMITIVE) (fuel2 : Nat),
      example_clock_and_delay_slotted.m_ports[i]? = some port →
      summarize_size example_clock_and_delay_slotted port.base.db.is_in_dir fuel2 (.port i)
          [get_original_name port.base.db.name] = .ok () ∨
        summarize_size example_clock_and_delay_slotted port.base.db.is_in_dir fuel2 (.port i)
          [get_original_name port.base.db.name] = .error .out_of_fuel) ∧
    (∀ (i : Nat) (port : PORT_PRIMITIVE) (x : PrimRef) (n : PRIMITIVE)
        (call : Extractor → PrimRef → List CppString → List CppString →
          Except Fault Extractor)
        (traces full_traces : List CppString) (k : Nat) (st : Extractor),
      example_clock_and_delay_slotted.m_ports[i]? = some port →
      (x = .port i ∨ Reach example_clock_and_delay_slotted (.port i) x) →
      example_clock_and_delay_slotted.deref x = .ok n →
      (∀ t ∈ traces, t.length ≠ 0) →
      (∀ st y t f, SameNodes example_clock_and_delay_slotted st →
        ∃ st2, call st y t f = .ok st2 ∧ SameNodes example_clock_and_delay_slotted st2) →
      SameNodes example_clock_and_delay_slotted st →
      ∃ st2, summarize_children call traces full_traces port.base.db.is_in_dir
        n.child k st = .ok st2)) :=
  have h6 : determine_fabric_clock example_clock_and_delay
      example_clock_and_delay_generated = .ok example_clock_and_delay_slotted := by
    decide
  ⟨by decide, h6,
   C39_traced_children_have_the_direction_of_parent_and_chain_root example_clock_and_delay
    10 (Extractor.construct "genesis3".toList) example_clock_and_delay_roots
    example_clock_and_delay_traced example_clock_and_delay_traced
    example_clock_and_delay_clocked example_clock_and_delay_generated
    example_clock_and_delay_slotted true rfl rfl (by decide) (by decide) (by decide)
    (by decide) (by decide) h6⟩

/-! ### One root per cell -/

theorem genesis3_names_unique :
    ∀ d1 ∈ genesis3_primitives, ∀ d2 ∈ genesis3_primitives, d1.name = d2.name → d1 = d2 := by
  decide

theorem genesis3_port_not_fabric :
    ∀ d ∈ genesis3_primitives, (d.is_port || d.is_standalone) = true →
      d.is_fabric_clkbuf = false := by
  decide

theorem genesis3_destination_flags :
    ∀ d ∈ genesis3_primitives, ∀ p ∈ extract_trace_pairs, d.name = p.2 →
      d.is_standalone = false ∧ d.is_fabric_clkbuf = false := by
  decide

/-- Two nodes with the same name, in a module whose cells have pairwise
distinct names, come from the same cell and so have the same descriptor. -/
theorem same_name_same_db (module : Module) (hnd : (module.cells.map Cell.name).Nodup)
    (st : Extractor) (nodes : NodesOfCells module st) (r1 r2 : PrimRef) (n1 n2 : PRIMITIVE)
    (h1 : st.deref r1 = .ok n1) (h2 : st.deref r2 = .ok n2) (hname : n1.name = n2.name) :
    n1.db = n2.db := by
  obtain ⟨m1, _, ⟨c1, hc1, e1, t1⟩, _⟩ := nodes r1 n1 h1
  obtain ⟨m2, _, ⟨c2, hc2, e2, t2⟩, _⟩ := nodes r2 n2 h2
  have hc : c1 = c2 := List.inj_on_of_nodup_map hnd hc1 hc2 (by rw [e1, e2, hname])
  exact genesis3_names_unique _ m1 _ m2 (by rw [← t1, ← t2, hc])

/-- When `extract` comes to `trace_gearbox_fast_clock` on a module whose
cells have pairwise distinct names, traced nodes with one name have one
descriptor. -/
theorem tracing_same_name_same_db (module : Module) (fuel : Nat) (s0 s1 s2 s3 : Extractor)
    (ok : Bool) (hnd : (module.cells.map Cell.name).Nodup)
    (hp : s0.m_ports = []) (hc : s0.m_child_primitives = [])
    (h1 : get_ports module fuel s0 = .ok (ok, s1))
    (h2 : trace_calls module fuel extract_trace_pairs s1 = .ok s2)
    (h3 : trace_fabric_clkbuf module s2 = .ok s3) :
    ∀ a ∈ s3.m_child_primitives, ∀ b ∈ s3.m_child_primitives, a.name = b.name →
      a.db = b.db := by
  have i0 : NodesOfCells module s0 := by
    intro r n hn
    cases r with
    | port i => simp [Extractor.deref, hp] at hn
    | child i => simp [Extractor.deref, hc] at hn
  have i1 := root_get_ports (rootClosed_nodesOfCells module) (by decide) (by decide)
    module fuel s0 s1 ok
    ⟨fun _ hc => hc, i0⟩ (fun inv => ⟨fun _ hc => absurd hc (List.not_mem_nil _), inv.2⟩) h1
  have i2 := pair_calls (pairClosed_nodesOfCells module) fuel _ (fun _ hc => hc) s1 s2
    i1.2 h2
  have i3 := root_fabric_cells (rootClosed_nodesOfCells module) (by decide) module _ s2 s3
    ⟨fun _ hc => hc, i2⟩ h3
  intro a ha b hb hname
  obtain ⟨i, hi⟩ := List.getElem?_of_mem ha
  obtain ⟨j, hj⟩ := List.getElem?_of_mem hb
  have da : s3.deref (.child i) = .ok a := by simp [Extractor.deref, hi]
  have db : s3.deref (.child j) = .ok b := by simp [Extractor.deref, hj]
  exact same_name_same_db module hnd s3 i3.2 _ _ a b da db hname

theorem rootsDistinct_of_names {s t : Extractor}
    (h : ∀ i m, t.deref (.port i) = .ok m → ∃ n, s.deref (.port i) = .ok n ∧ m.name = n.name)
    (inv : RootsDistinct s) : RootsDistinct t := by
  intro i j mi mj hi hj hname
  obtain ⟨ni, hni, ei⟩ := h i mi hi
  obtain ⟨nj, hnj, ej⟩ := h j mj hj
  exact inv i j ni nj hni hnj (by rw [← ei, ← ej, hname])

theorem noFabricRoot_of_dbs {s t : Extractor}
    (h : ∀ i m, t.deref (.port i) = .ok m → ∃ n, s.deref (.port i) = .ok n ∧ m.db = n.db)
    (inv : NoFabricRoot s) : NoFabricRoot t := by
  intro i m hm
  obtain ⟨n, hn, e⟩ := h i m hm
  rw [e]
  exact inv i n hn

/-- Port discovery creates at most one root per cell, and none for a fabric
clock buffer. -/
theorem rootClosed_ports :
    RootClosed [PRIMITIVE_REQ.IS_PORT, PRIMITIVE_REQ.IS_STANDALONE]
      (fun rest st => (rest.map Cell.name).Nodup ∧ RootsDistinct st ∧ NoFabricRoot st ∧
        ∀ i n, st.deref (.port i) = .ok n → n.name ∉ rest.map Cell.name) where
  shape := by
    intro rest st st2 hs inv
    refine ⟨inv.1, ?_, ?_, ?_⟩
    · refine rootsDistinct_of_names (fun i m hm => ?_) inv.2.1
      obtain ⟨n, hn, s⟩ := (hs _).2 m hm
      exact ⟨n, hn, s.1.symm⟩
    · refine noFabricRoot_of_dbs (fun i m hm => ?_) inv.2.2.1
      obtain ⟨n, hn, s⟩ := (hs _).2 m hm
      exact ⟨n, hn, s.2.2.2.2.2.1.symm⟩
    · intro i m hm
      obtain ⟨n, hn, s⟩ := (hs _).2 m hm
      rw [← s.1]
      exact inv.2.2.2 i n hn
  skip := by
    intro cell rest st inv
    refine ⟨(List.nodup_cons.1 inv.1).2, inv.2.1, inv.2.2.1, ?_⟩
    intro i n hn hmem
    exact inv.2.2.2 i n hn (List.mem_cons_of_mem _ hmem)
  push := by
    intro cell rest st db req c ps bd v inv hreq hdb hc
    obtain ⟨_, _, _, _, _, h6⟩ := port_construct_base _ _ _ _ _ _ v.1 v.2 hc
    have hname := port_construct_name _ _ _ _ _ _ v.1 v.2 hc
    obtain ⟨f1, _, _, f4, _, f6, _⟩ := supported_facts st cell.type req db hdb
    have hnf : db.is_fabric_clkbuf = false := by
      apply genesis3_port_not_fabric db f1
      simp only [List.mem_cons, List.mem_singleton, List.not_mem_nil, or_false] at hreq
      rcases hreq with e | e
      · rw [f4 e]
        rfl
      · rw [f6 e]
        simp
    have hnd := List.nodup_cons.1 inv.1
    have hnew : ∀ i m,
        Extractor.deref
          { st with m_ports := st.m_ports ++ [v.1], g_standalone_tracker := v.2 }
          (.port i) = .ok m →
        (i = st.m_ports.length ∧ m = v.1.base) ∨
          (i < st.m_ports.length ∧ st.deref (.port i) = .ok m) := by
      intro i m hm
      rw [deref_push_port] at hm
      by_cases hi : PrimRef.port i = .port st.m_ports.length
      · rw [if_pos hi] at hm
        exact Or.inl ⟨PrimRef.port.inj hi, (Except.ok.inj hm).symm⟩
      · rw [if_neg hi] at hm
        exact Or.inr ⟨deref_port_lt st i m hm, hm⟩
    refine ⟨hnd.2, ?_, ?_, ?_⟩
    · intro i j mi mj hi hj hn
      rcases hnew i mi hi with ⟨ei, em⟩ | ⟨li, hi2⟩
      · rcases hnew j mj hj with ⟨ej, _⟩ | ⟨_, hj2⟩
        · rw [ei, ej]
        · exfalso
          apply inv.2.2.2 j mj hj2
          rw [← hn, em, hname]
          exact List.mem_cons_self _ _
      · rcases hnew j mj hj with ⟨_, em⟩ | ⟨_, hj2⟩
        · exfalso
          apply inv.2.2.2 i mi hi2
          rw [hn, em, hname]
          exact List.mem_cons_self _ _
        · exact inv.2.1 i j mi mj hi2 hj2 hn
    · intro i m hm
      rcases hnew i m hm with ⟨_, em⟩ | ⟨_, hm2⟩
      · rw [em, h6]
        exact hnf
      · exact inv.2.2.1 i m hm2
    · intro i m hm hmem
      rcases hnew i m hm with ⟨_, em⟩ | ⟨_, hm2⟩
      · rw [em, hname] at hmem
        exact hnd.1 hmem
      · exact inv.2.2.2 i m hm2 (List.mem_cons_of_mem _ hmem)

/-- The tracing of pairs leaves the names and descriptors of the roots
alone. -/
theorem pairClosed_roots (module : Module) (calls : List (CppString × CppString)) :
    PairClosed module calls (fun st => RootsDistinct st ∧ NoFabricRoot st) where
  shape := by
    intro st st2 hs inv
    constructor
    · refine rootsDistinct_of_names (fun i m hm => ?_) inv.1
      obtain ⟨n, hn, s⟩ := (hs _).2 m hm
      exact ⟨n, hn, s.1.symm⟩
    · refine noFabricRoot_of_dbs (fun i m hm => ?_) inv.2
      obtain ⟨n, hn, s⟩ := (hs _).2 m hm
      exact ⟨n, hn, s.2.2.2.2.2.1.symm⟩
  attach := by
    intro st st2 parent parentNode cell db connections inv hpr _ _ _ _ h
    have hnew := (attach_child_nodes st st2 parent parentNode cell db connections hpr h).2
    constructor
    · refine rootsDistinct_of_names (fun i m hm => ?_) inv.1
      rcases hnew _ m hm with ⟨n, hn, e, _⟩ | ⟨hr, _⟩
      · exact ⟨n, hn, e⟩
      · exact PrimRef.noConfusion hr
    · refine noFabricRoot_of_dbs (fun i m hm => ?_) inv.2
      rcases hnew _ m hm with ⟨n, hn, _, e, _⟩ | ⟨hr, _⟩
      · exact ⟨n, hn, e⟩
      · exact PrimRef.noConfusion hr

/-- The search for fabric clock buffers creates at most one root per cell
when the cells of the module have pairwise distinct names. -/
theorem rootClosed_fabric (module : Module) (hnd : (module.cells.map Cell.name).Nodup) :
    RootClosed [PRIMITIVE_REQ.IS_FABRIC_CLKBUF]
      (fun rest st => ((rest.map Cell.name).Nodup ∧ RootsDistinct st ∧
        ∀ i n, st.deref (.port i) = .ok n → n.db.is_fabric_clkbuf = true →
          n.name ∉ rest.map Cell.name) ∧
        ((∀ c ∈ rest, c ∈ module.cells) ∧ NodesOfCells module st)) where
  shape := by
    intro rest st st2 hs inv
    refine ⟨⟨inv.1.1, ?_, ?_⟩, (rootClosed_nodesOfCells module).shape rest st st2 hs inv.2⟩
    · refine rootsDistinct_of_names (fun i m hm => ?_) inv.1.2.1
      obtain ⟨n, hn, s⟩ := (hs _).2 m hm
      exact ⟨n, hn, s.1.symm⟩
    · intro i m hm hf
      obtain ⟨n, hn, s⟩ := (hs _).2 m hm
      rw [← s.1]
      exact inv.1.2.2 i n hn (by rw [s.2.2.2.2.2.1]; exact hf)
  skip := by
    intro cell rest st inv
    refine ⟨⟨(List.nodup_cons.1 inv.1.1).2, inv.1.2.1, ?_⟩,
      (rootClosed_nodesOfCells module).skip cell rest st inv.2⟩
    intro i n hn hf hmem
    exact inv.1.2.2 i n hn hf (List.mem_cons_of_mem _ hmem)
  push := by
    intro cell rest st db req c ps bd v inv hreq hdb hc
    have hreq1 : req = PRIMITIVE_REQ.IS_FABRIC_CLKBUF := List.mem_singleton.1 hreq
    have nodes2 := (rootClosed_nodesOfCells module).push cell rest st db req c ps bd v inv.2
      (by rw [hreq1]; decide) hdb hc
    refine ⟨?_, nodes2⟩
    obtain ⟨_, _, _, _, _, h6⟩ := port_construct_base _ _ _ _ _ _ v.1 v.2 hc
    have hname := port_construct_name _ _ _ _ _ _ v.1 v.2 hc
    obtain ⟨f1, _, f3, _, _, _, f7⟩ := supported_facts st cell.type req db hdb
    have hnd2 := List.nodup_cons.1 inv.1.1
    have hnew : ∀ i m,
        Extractor.deref
          { st with m_ports := st.m_ports ++ [v.1], g_standalone_tracker := v.2 }
          (.port i) = .ok m →
        (i = st.m_ports.length ∧ m = v.1.base) ∨
          (i < st.m_ports.length ∧ st.deref (.port i) = .ok m) := by
      intro i m hm
      rw [deref_push_port] at hm
      by_cases hi : PrimRef.port i = .port st.m_ports.length
      · rw [if_pos hi] at hm
        exact Or.inl ⟨PrimRef.port.inj hi, (Except.ok.inj hm).symm⟩
      · rw [if_neg hi] at hm
        exact Or.inr ⟨deref_port_lt st i m hm, hm⟩
    have hold : ∀ i m, st.deref (.port i) = .ok m → m.name ≠ cell.name := by
      intro i m hm hn
      obtain ⟨m1, _, ⟨c1, hc1, e1, t1⟩, _⟩ := inv.2.2 _ m hm
      have hcell : c1 = cell :=
        List.inj_on_of_nodup_map hnd hc1 (inv.2.1 cell (List.mem_cons_self _ _))
          (by rw [e1, hn])
      have hdbs : m.db = db := genesis3_names_unique _ m1 _ f1 (by rw [← t1, hcell, f3])
      apply inv.1.2.2 i m hm (by rw [hdbs]; exact f7 hreq1)
      rw [hn]
      exact List.mem_cons_self _ _
    refine ⟨hnd2.2, ?_, ?_⟩
    · intro i j mi mj hi hj hn
      rcases hnew i mi hi with ⟨ei, em⟩ | ⟨li, hi2⟩
      · rcases hnew j mj hj with ⟨ej, _⟩ | ⟨_, hj2⟩
        · rw [ei, ej]
        · exfalso
          apply hold j mj hj2
          rw [← hn, em, hname]
      · rcases hnew j mj hj with ⟨_, em⟩ | ⟨_, hj2⟩
        · exfalso
          apply hold i mi hi2
          rw [hn, em, hname]
        · exact inv.1.2.1 i j mi mj hi2 hj2 hn
    · intro i m hm hf hmem
      rcases hnew i m hm with ⟨_, em⟩ | ⟨_, hm2⟩
      · rw [em, hname] at hmem
        exact hnd2.1 hmem
      · exact inv.1.2.2 i m hm2 hf (List.mem_cons_of_mem _ hmem)

/-- After port discovery and all tracing calls of `extract` on a module
whose cells have pairwise distinct names, no two roots have the same
name. -/
theorem tracing_rootsDistinct (module : Module) (fuel : Nat) (s0 s1 s2 s3 s4 : Extractor)
    (ok : Bool) (hnd : (module.cells.map Cell.name).Nodup)
    (hp : s0.m_ports = []) (hc : s0.m_child_primitives = [])
    (h1 : get_ports module fuel s0 = .ok (ok, s1))
    (h2 : trace_calls module fuel extract_trace_pairs s1 = .ok s2)
    (h3 : trace_fabric_clkbuf module s2 = .ok s3)
    (h4 : trace_gearbox_fast_clock s3 = .ok s4) :
    RootsDistinct s4 := by
  have hno : ∀ i n, s0.deref (.port i) ≠ .ok n := by
    intro i n hn
    simp [Extractor.deref, hp] at hn
  have n0 : NodesOfCells module s0 := by
    intro r n hn
    cases r with
    | port i => simp [Extractor.deref, hp] at hn
    | child i => simp [Extractor.deref, hc] at hn
  have i1 := root_get_ports rootClosed_ports (by decide) (by decide) module fuel s0 s1 ok
    ⟨hnd, fun i j ni _ hi => absurd hi (hno i ni), fun i n hn => absurd hn (hno i n),
      fun i n hn => absurd hn (hno i n)⟩
    (fun inv => ⟨List.nodup_nil, inv.2.1, inv.2.2.1, fun i n hn => absurd hn (hno i n)⟩) h1
  have m1 := root_get_ports (rootClosed_nodesOfCells module) (by decide) (by decide)
    module fuel s0 s1 ok ⟨fun _ hc => hc, n0⟩
    (fun inv => ⟨fun _ hc => absurd hc (List.not_mem_nil _), inv.2⟩) h1
  have i2 := pair_calls (pairClosed_roots module extract_trace_pairs) fuel _
    (fun _ hc => hc) s1 s2 ⟨i1.2.1, i1.2.2.1⟩ h2
  have m2 := pair_calls (pairClosed_nodesOfCells module) fuel _ (fun _ hc => hc) s1 s2
    m1.2 h2
  have i3 := root_fabric_cells (rootClosed_fabric module hnd) (by decide) module _ s2 s3
    ⟨⟨hnd, i2.1, fun i n hn hf => by
      rw [i2.2 i n hn] at hf
      exact Bool.noConfusion hf⟩, fun _ hc => hc, m2⟩ h3
  refine rootsDistinct_of_names (fun i m hm => ?_) i3.1.2.1
  obtain ⟨n, hn, s⟩ := (trace_gearbox_fast_clock_shape _ s3 s4 h4 _).2 m hm
  exact ⟨n, hn, s.1.symm⟩

set_option maxRecDepth 100000 in
/-- Counterexample for C36: two output buffers `a` and `b` are driven by the
output of one output register `d`.  The tracing calls reach `d` once from
each buffer and create two traced children with the name of `d`, one below
each root, although the cell names of the module are pairwise distinct, the
netlist status stays true and port discovery returns true. -/
theorem C36_counterexample_register_behind_two_buffers :
    (example_shared_ddr.cells.map Cell.name).Nodup ∧
    get_ports example_shared_ddr 10 (Extractor.construct "genesis3".toList) =
      .ok (true, example_shared_ddr_roots) ∧
    trace_calls example_shared_ddr 10 extract_trace_pairs example_shared_ddr_roots =
      .ok example_shared_ddr_traced ∧
    trace_fabric_clkbuf example_shared_ddr example_shared_ddr_traced =
      .ok example_shared_ddr_traced ∧
    trace_gearbox_fast_clock example_shared_ddr_traced = .ok example_shared_ddr_traced ∧
    example_shared_ddr_traced.m_netlist_status = true ∧
    example_shared_ddr_traced.m_ports.map (fun p => p.base.name) =
      ["\\a".toList, "\\b".toList] ∧
    example_shared_ddr_traced.m_child_primitives.map (fun c => c.name) =
      ["\\d".toList, "\\d".toList] ∧
    example_shared_ddr_traced.m_child_primitives.map (fun c => c.parent) =
      [some (.port 0), some (.port 1)] := by
  refine ⟨by decide, by decide, by decide, by decide, by decide, by decide, by decide,
    by decide, by decide⟩

/-- C36, amended: for every module whose cells have pairwise distinct
names, after port discovery and all tracing calls of `extract` every node
has the name and the type of a cell of the module, no two roots have the
same name, no root has the name of a traced child, and no two children of
one parent have the same name.  A cell that is connected to two parents gets
one traced child below each of them, so its name can occur more than once
among the names of `m_child_primitives`. -/
theorem C36_one_root_per_cell_and_one_child_per_cell_and_parent
    (module : Module) (fuel : Nat) (s0 s1 s2 s3 s4 : Extractor) (ok : Bool)
    (hnd : (module.cells.map Cell.name).Nodup)
    (hp : s0.m_ports = []) (hc : s0.m_child_primitives = [])
    (h1 : get_ports module fuel s0 = .ok (ok, s1))
    (h2 : trace_calls module fuel extract_trace_pairs s1 = .ok s2)
    (h3 : trace_fabric_clkbuf module s2 = .ok s3)
    (h4 : trace_gearbox_fast_clock s3 = .ok s4) :
    (∀ (r : PrimRef) (n : PRIMITIVE), s4.deref r = .ok n →
      ∃ cell ∈ module.cells, cell.name = n.name ∧ cell.type = n.db.name) ∧
    (∀ (i j : Nat) (p q : PORT_PRIMITIVE), s4.m_ports[i]? = some p →
      s4.m_ports[j]? = some q → p.base.name = q.base.name → i = j) ∧
    (∀ (i j : Nat) (p : PORT_PRIMITIVE) (c : PRIMITIVE), s4.m_ports[i]? = some p →
      s4.m_child_primitives[j]? = some c → p.base.name ≠ c.name) ∧
    (∀ (i j : Nat) (c d : PRIMITIVE), s4.m_child_primitives[i]? = some c →
      s4.m_child_primitives[j]? = some d → c.name = d.name → c.parent = d.parent →
      i = j) := by
  have i1 := get_ports_inv module fuel s0 s1 ok (empty_inv s0 hp hc) h1
  have i2 := trace_calls_inv (traceClosed_treeInv.and traceClosed_nodesFresh) module fuel
    _ s1 s2 i1 h2
  have i3 := trace_fabric_clkbuf_cells_inv module _ s2 s3 i2 h3
  have i4 := trace_gearbox_fast_clock_loop_inv _ s3 s4 i3 h4
  have nodes := tracing_nodesOfCells module fuel s0 s1 s2 s3 s4 ok hp hc h1 h2 h3 h4
  have roots := tracing_rootsDistinct module fuel s0 s1 s2 s3 s4 ok hnd hp hc h1 h2 h3 h4
  refine ⟨fun r n hn => (nodes r n hn).2.2.1, ?_, ?_, ?_⟩
  · intro i j p q hi hj hn
    exact roots i j p.base q.base ((deref_port_iff s4 i _).2 ⟨p, hi, rfl⟩)
      ((deref_port_iff s4 j _).2 ⟨q, hj, rfl⟩) hn
  · intro i j p c hi hj hn
    have hpd : s4.deref (.port i) = .ok p.base := (deref_port_iff s4 i _).2 ⟨p, hi, rfl⟩
    have hcd : s4.deref (.child j) = .ok c := (deref_child_iff s4 j c).2 hj
    have hdb := same_name_same_db module hnd s4 nodes _ _ _ _ hpd hcd hn
    obtain ⟨_, pr, pn, hpar, _⟩ := i4.1.children j c hcd
    obtain ⟨cdb, _, _, _, cpar, _⟩ := nodes _ c hcd
    obtain ⟨pn2, _, hpair, hport⟩ := cpar pr hpar
    obtain ⟨hs, hf⟩ := genesis3_destination_flags c.db cdb _ hpair rfl
    have hflag := (nodes _ p.base hpd).2.2.2.1 i rfl
    rw [hdb, hport, hs, hf] at hflag
    exact Bool.noConfusion hflag
  · intro i j c d hi hj hn hpar
    have hcd : s4.deref (.child i) = .ok c := (deref_child_iff s4 i c).2 hi
    have hdd : s4.deref (.child j) = .ok d := (deref_child_iff s4 j d).2 hj
    obtain ⟨_, pr, pn, hp1, hpn, _, hfind, _⟩ := i4.1.children i c hcd
    obtain ⟨_, pr2, pn2, hp2, hpn2, _, hfind2, _⟩ := i4.1.children j d hdd
    rw [hpar, hp2] at hp1
    have e := Option.some.inj hp1
    subst e
    rw [hpn2] at hpn
    have e2 := Except.ok.inj hpn
    subst e2
    rw [hn, hfind2] at hfind
    exact (PrimRef.child.inj (Option.some.inj hfind)).symm

set_option maxRecDepth 100000 in
/-- Witness for C36: the phases of `extract` on the example with a clock
buffer and a delay behind one input buffer. -/
theorem C36_one_root_per_cell_and_one_child_per_cell_and_parent_witness :
    (example_clock_and_delay.cells.map Cell.name).Nodup ∧
    example_clock_and_delay_clocked.m_child_primitives.length = 2 ∧
    ((∀ (r : PrimRef) (n : PRIMITIVE), example_clock_and_delay_clocked.deref r = .ok n →
      ∃ cell ∈ example_clock_and_delay.cells, cell.name = n.name ∧ cell.type = n.db.name) ∧
    (∀ (i j : Nat) (p q : PORT_PRIMITIVE),
      example_clock_and_delay_clocked.m_ports[i]? = some p →
      example_clock_and_delay_clocked.m_ports[j]? = some q →
      p.base.name = q.base.name → i = j) ∧
    (∀ (i j : Nat) (p : PORT_PRIMITIVE) (c : PRIMITIVE),
      example_clock_and_delay_clocked.m_ports[i]? = some p →
      example_clock_and_delay_clocked.m_child_primitives[j]? = some c →
      p.base.name ≠ c.name) ∧
    (∀ (i j : Nat) (c d : PRIMITIVE),
      example_clock_and_delay_clocked.m_child_primitives[i]? = some c →
      example_clock_and_delay_clocked.m_child_primitives[j]? = some d →
      c.name = d.name → c.parent = d.parent → i = j)) :=
  ⟨by decide, by decide,
   C36_one_root_per_cell_and_one_child_per_cell_and_parent example_clock_and_delay
    10 (Extractor.construct "genesis3".toList) example_clock_and_delay_roots
    example_clock_and_delay_traced example_clock_and_delay_traced
    example_clock_and_delay_clocked true (by decide) rfl rfl (by decide) (by decide)
    (by decide) (by decide)⟩

/-! ### Properties kept by instance generation -/

theorem gen_wire_loop_closed {P : Extractor → Prop} (hP : GenClosed P)
    (linked_object : CppString) (linked_objects : List CppString)
    (child : CppString) (index : Nat) :
    ∀ (wires : List CppString) (trace_connection : CppString) (st st2 : Extractor),
      P st →
      gen_wire_loop linked_object linked_objects child index wires trace_connection st =
        .ok st2 → P st2 := by
  intro wires
  induction wires with
  | nil =>
    intro tc st st2 inv h
    simp only [gen_wire_loop] at h
    exact (Except.ok.inj h) ▸ inv
  | cons wire rest ih =>
    intro tc st st2 inv h
    simp only [gen_wire_loop, bind, Except.bind] at h
    split at h
    · exact Except.noConfusion h
    · exact ih _ _ _ (hP.append st _ inv) h

theorem gen_wire_closed {P : Extractor → Prop} (hP : GenClosed P) (st st2 : Extractor)
    (linked_object : CppString) (linked_objects : List CppString) (r : PrimRef)
    (child : CppString) (inv : P st)
    (h : gen_wire st linked_object linked_objects r child = .ok st2) : P st2 := by
  unfold gen_wire at h
  simp only [bind, Except.bind, pure, Except.pure, throw, throwThe,
    MonadExceptOf.throw] at h
  repeat' split at h
  all_goals first
    | exact Except.noConfusion h
    | exact gen_wire_loop_closed hP _ _ _ _ _ _ _ _ inv h
    | exact (Except.ok.inj h) ▸ inv

theorem gen_child_closed {P : Extractor → Prop} (hP : GenClosed P)
    (call : Extractor → PrimRef → Except Fault Extractor)
    (hcall : ∀ st c st2, P st → call st c = .ok st2 → P st2)
    (linked_object : CppString) (linked_objects : List CppString) (r : PrimRef)
    (primitive_type : CppString) (st st2 : Extractor) (child : CppString × PrimRef)
    (inv : P st)
    (h : gen_child call linked_object linked_objects r primitive_type st child = .ok st2) :
    P st2 := by
  unfold gen_child at h
  split at h
  · exact Except.noConfusion h
  · rename_i s1 h1
    split at h
    · exact Except.noConfusion h
    · rename_i s2 h2
      exact hcall _ _ _ (hP.mark _ _ _ _ _ (gen_wire_closed hP _ _ _ _ _ _ inv h1) h2) h

theorem gen_children_closed {P : Extractor → Prop} (hP : GenClosed P)
    (call : Extractor → PrimRef → Except Fault Extractor)
    (hcall : ∀ st c st2, P st → call st c = .ok st2 → P st2)
    (linked_object : CppString) (linked_objects : List CppString) (r : PrimRef)
    (primitive_type : CppString) :
    ∀ (children : List (CppString × PrimRef)) (st st2 : Extractor), P st →
      gen_children call linked_object linked_objects r primitive_type children st = .ok st2 →
      P st2 := by
  intro children
  induction children with
  | nil =>
    intro st st2 inv h
    simp only [gen_children] at h
    exact (Except.ok.inj h) ▸ inv
  | cons child rest ih =>
    intro st st2 inv h
    simp only [gen_children] at h
    split at h
    · exact Except.noConfusion h
    · rename_i s hs
      exact ih _ _ (gen_child_closed hP call hcall _ _ _ _ _ _ _ inv hs) h

theorem gen_instances_rec_closed {P : Extractor → Prop} (hP : GenClosed P)
    (linked_object : CppString) (linked_objects : List CppString) :
    ∀ (fuel : Nat) (st : Extractor) (r : PrimRef) (pre : CppString) (st2 : Extractor),
      P st → gen_instances_rec linked_object linked_objects fuel st r pre = .ok st2 →
      P st2 := by
  intro fuel
  induction fuel with
  | zero =>
    intro st r pre st2 _ h
    simp only [gen_instances_rec] at h
    exact Except.noConfusion h
  | succ fuel ih =>
    intro st r pre st2 inv h
    simp only [gen_instances_rec] at h
    split at h
    · exact Except.noConfusion h
    · split at h
      · exact Except.noConfusion h
      · split at h
        · exact Except.noConfusion h
        · rename_i s hs
          have inv1 : P s := by
            split at hs
            · exact hP.mark _ _ _ _ _ inv hs
            · exact (Except.ok.inj hs) ▸ inv
          exact gen_children_closed hP _ (fun s c s2 hi hc => ih s c _ s2 hi hc)
            _ _ _ _ _ _ _ inv1 h

theorem gen_instances_ports_closed {P : Extractor → Prop} (hP : GenClosed P) (fuel : Nat) :
    ∀ (l : List Nat) (st st2 : Extractor), P st →
      gen_instances_ports fuel l st = .ok st2 → P st2 := by
  intro l
  induction l with
  | nil =>
    intro st st2 inv h
    simp only [gen_instances_ports] at h
    exact (Except.ok.inj h) ▸ inv
  | cons i rest ih =>
    intro st st2 inv h
    simp only [gen_instances_ports] at h
    repeat' split at h
    all_goals first
      | exact Except.noConfusion h
      | exact ih _ _ (gen_instances_rec_closed hP _ _ _ _ _ _ _ inv
          ‹gen_instances_rec _ _ _ _ _ _ = Except.ok _›) h

/-- Instance generation keeps every property that the appending of an
instance and `gen_instance` keep. -/
theorem gen_instances_closed {P : Extractor → Prop} (hP : GenClosed P) (fuel : Nat)
    (st st2 : Extractor) (inv : P st) (h : gen_instances fuel st = .ok st2) : P st2 := by
  unfold gen_instances at h
  repeat' split at h
  all_goals first
    | exact Except.noConfusion h
    | exact gen_instances_ports_closed hP fuel _ _ _ inv h

theorem construct_names (st : Extractor) (m n : CppString) (ls : List CppString)
    (p : Option PrimRef) (pre : CppString) (post : List CppString)
    (gcs : CppMap (List PrimRef)) (inst : INSTANCE)
    (h : INSTANCE.construct st m n ls p pre post gcs = .ok inst) :
    inst.name = get_original_name n ∧ inst.module = get_original_name m := by
  unfold INSTANCE.construct at h
  simp only [bind, Except.bind, pure, Except.pure, throw, throwThe,
    MonadExceptOf.throw] at h
  repeat' split at h
  all_goals first
    | exact Except.noConfusion h
    | (have e := Except.ok.inj h
       subst e
       exact ⟨rfl, rfl⟩)

/-- The effect of `gen_instance` for the node at `r`: an instance with the
name and the descriptor name of the node, both without the leading
backslash, is appended, and the node gets its position. -/
theorem gen_instance_effect (st st2 : Extractor) (linked_objects : List CppString)
    (r : PrimRef) (pre : CppString) (h : gen_instance st linked_objects r pre = .ok st2) :
    ∃ primitive inst, st.deref r = .ok primitive ∧
      inst.name = get_original_name primitive.name ∧
      inst.module = get_original_name primitive.db.name ∧
      st2 = Extractor.update { st with m_instances := st.m_instances ++ [inst] } r
        (fun q => { q with inst := some st.m_instances.length }) := by
  unfold gen_instance at h
  simp only [bind, Except.bind, pure, Except.pure, throw, throwThe,
    MonadExceptOf.throw] at h
  repeat' split at h
  all_goals first
    | exact Except.noConfusion h
    | (have e := Except.ok.inj h
       have k := construct_names _ _ _ _ _ _ _ _ _
         ‹INSTANCE.construct _ _ _ _ _ _ _ _ = Except.ok _›
       refine ⟨_, _, ‹st.deref r = Except.ok _›, ?_, ?_, e.symm⟩
       · exact k.1
       · exact k.2)

theorem deref_marked (st : Extractor) (l : List INSTANCE) (r : PrimRef) (k : Nat)
    (q : PrimRef) (m : PRIMITIVE)
    (h : (Extractor.update { st with m_instances := l } r
      (fun p => { p with inst := some k })).deref q = .ok m) :
    ∃ n, st.deref q = .ok n ∧ m.name = n.name ∧ m.db = n.db ∧ (q ≠ r → m.inst = n.inst) := by
  rw [deref_update, deref_m_instances] at h
  by_cases hq : q = r
  · rw [if_pos hq] at h
    cases hd : st.deref q with
    | error e =>
      rw [hd] at h
      exact Except.noConfusion h
    | ok n =>
      rw [hd] at h
      have e := Except.ok.inj h
      subst e
      exact ⟨n, rfl, rfl, rfl, fun c => absurd hq c⟩
  · rw [if_neg hq] at h
    exact ⟨m, h, rfl, rfl, fun _ => rfl⟩

theorem nodesNamed_of_nodes (module : Module) (st : Extractor)
    (h : NodesOfCells module st) : NodesNamed module st :=
  fun r n hn => ⟨(h r n hn).1, (h r n hn).2.1, (h r n hn).2.2.1⟩

/-- Instance generation keeps the names and descriptors of the nodes, and
every node that got its instance has one with its name that is no
`WIRE`. -/
theorem genClosed_named (module : Module) :
    GenClosed (fun st => NodesNamed module st ∧ InstancesNamed st) where
  append := by
    intro st inst inv
    constructor
    · intro r n hn
      rw [deref_m_instances] at hn
      exact inv.1 r n hn
    · intro r n hn hi
      rw [deref_m_instances] at hn
      obtain ⟨w, hw, k⟩ := inv.2 r n hn hi
      exact ⟨w, List.mem_append_left _ hw, k⟩
  mark := by
    intro st st2 linked_objects r pre inv h
    obtain ⟨primitive, inst, hprim, hname, hmod, e⟩ := gen_instance_effect _ _ _ _ _ h
    subst e
    constructor
    · intro q m hm
      obtain ⟨n, hn, e1, e2, _⟩ := deref_marked st _ r _ q m hm
      rw [e1, e2]
      exact inv.1 q n hn
    · intro q m hm hi
      rw [update_m_instances]
      obtain ⟨n, hn, e1, _, e3⟩ := deref_marked st _ r _ q m hm
      by_cases hq : q = r
      · subst hq
        rw [hprim] at hn
        have e := Except.ok.inj hn
        subst e
        refine ⟨inst, List.mem_append_right _ (List.mem_singleton_self _), ?_, ?_⟩
        · rw [hname, e1]
        · rw [hmod]
          exact genesis3_not_wire _ (inv.1 q primitive hprim).1
      · rw [e3 hq] at hi
        obtain ⟨w, hw, k⟩ := inv.2 q n hn hi
        exact ⟨w, List.mem_append_left _ hw, by rw [e1]; exact k.1, k.2⟩

theorem gen_instances_marked (fuel : Nat) (s s2 : Extractor) (inv : TreeInv s)
    (fresh : NodesFresh s) (h : gen_instances fuel s = .ok s2) :
    ∀ r n, s2.deref r = .ok n → n.inst.isSome = true := by
  unfold gen_instances at h
  split at h
  · exact Except.noConfusion h
  · split at h
    · exact Except.noConfusion h
    · have hw : NonWire s := fun r n hn => (fresh r n hn).2
      obtain ⟨g, m⟩ := gen_instances_ports_step fuel _ s s2 hw
        (fun i n hn => (inv.roots i n hn).2.2) h
      intro r n hn
      have hmark : Marked s2 r := by
        obtain ⟨n0, hn0, _⟩ := (g.grown r).2 n hn
        cases r with
        | port i =>
          exact (m i (List.mem_range.2 (deref_port_lt s i n0 hn0))).1
        | child j =>
          obtain ⟨i, p⟩ := reach_of_treeInv s inv j n0 hn0
          have hi : i < s.m_ports.length := by
            cases p with
            | edge e =>
              obtain ⟨x, _, hx, _⟩ := e
              exact deref_port_lt s i x hx
            | step e _ =>
              obtain ⟨x, _, hx, _⟩ := e
              exact deref_port_lt s i x hx
          exact (m i (List.mem_range.2 hi)).2 _ p
      obtain ⟨m2, hm2, hi⟩ := hmark
      rw [hn] at hm2
      rw [Except.ok.inj hm2]
      exact hi

/-- After instance generation on the traced nodes every node has the name
and type of a cell of the module and an instance with its name that is no
`WIRE`. -/
theorem pipeline_named (module : Module) (fuel : Nat) (s0 s1 s2 s3 s4 s5 : Extractor)
    (ok : Bool) (hp : s0.m_ports = []) (hc : s0.m_child_primitives = [])
    (h1 : get_ports module fuel s0 = .ok (ok, s1))
    (h2 : trace_calls module fuel extract_trace_pairs s1 = .ok s2)
    (h3 : trace_fabric_clkbuf module s2 = .ok s3)
    (h4 : trace_gearbox_fast_clock s3 = .ok s4)
    (h5 : gen_instances fuel s4 = .ok s5) :
    NodesNamed module s5 ∧
    ∀ r n, s5.deref r = .ok n →
      ∃ inst ∈ s5.m_instances, inst.name = get_original_name n.name ∧
        inst.module ≠ "WIRE".toList := by
  have i1 := get_ports_inv module fuel s0 s1 ok (empty_inv s0 hp hc) h1
  have i2 := trace_calls_inv (traceClosed_treeInv.and traceClosed_nodesFresh) module fuel
    _ s1 s2 i1 h2
  have i3 := trace_fabric_clkbuf_cells_inv module _ s2 s3 i2 h3
  have i4 := trace_gearbox_fast_clock_loop_inv _ s3 s4 i3 h4
  have nodes := tracing_nodesOfCells module fuel s0 s1 s2 s3 s4 ok hp hc h1 h2 h3 h4
  have n5 := gen_instances_closed (genClosed_named module) fuel s4 s5
    ⟨nodesNamed_of_nodes module s4 nodes, fun r n hn hi => by
      rw [(i4.2 r n hn).1] at hi
      exact Bool.noConfusion hi⟩ h5
  exact ⟨n5.1, fun r n hn =>
    n5.2 r n hn (gen_instances_marked fuel s4 s5 i4.1 i4.2 h5 r n hn)⟩

/-! ### The names of the instances after their generation -/

theorem stamp_parameter_inst_name (inst inst2 : INSTANCE) (name value : CppString)
    (h : stamp_parameter inst name value = .ok inst2) :
    inst2.name = inst.name := by
  unfold stamp_parameter at h
  simp only [bind, Except.bind, pure, Except.pure] at h
  split at h
  · exact Except.noConfusion h
  · have e := Except.ok.inj h
    subst e
    rfl

theorem stamp_from_clock_inst_name (st : Extractor) (r : PrimRef) (primitive : PRIMITIVE)
    (inst inst2 : INSTANCE) (h : stamp_from_clock st r primitive inst = .ok inst2) :
    inst2.name = inst.name := by
  unfold stamp_from_clock at h
  repeat' split at h
  all_goals first
    | exact Except.noConfusion h
    | exact (Except.ok.inj h) ▸ rfl
    | exact stamp_parameter_inst_name _ _ _ _ h

theorem assign_slot_inst_names (st st2 : Extractor) (j : Nat) (r : PrimRef)
    (primitive : PRIMITIVE) (inst : INSTANCE) (i : Nat)
    (iport inet oport onet : CppString) (fabric : FabricStatus)
    (hj : st.m_instances[j]? = some inst)
    (h : assign_slot st j r primitive inst i iport inet oport onet fabric = .ok st2) :
    st2.m_instances.map (fun w => w.name) =
      st.m_instances.map (fun w => w.name) := by
  unfold assign_slot at h
  split at h
  · exact Except.noConfusion h
  · rename_i inst1 h1
    split at h
    · exact Except.noConfusion h
    · rename_i inst2 h2
      split at h
      · exact Except.noConfusion h
      · split at h
        · exact Except.noConfusion h
        · have e := Except.ok.inj h
          subst e
          refine map_set_same _ _ _ inst _ hj ?_
          have hm : inst2.name = inst.name :=
            (stamp_from_clock_inst_name _ _ _ _ _ h2).trans
              (stamp_parameter_inst_name _ _ _ _ h1)
          rw [← hm]
          split <;> rfl

theorem fabric_clock_output_inst_names (module : Module) (j : Nat) (r : PrimRef)
    (primitive : PRIMITIVE) (is_clock_primitive : Bool) (out : CppString)
    (st : Extractor) (i : Nat) (res : Extractor × Nat)
    (h : fabric_clock_output module j r primitive is_clock_primitive out st i = .ok res) :
    res.1.m_instances.map (fun w => w.name) =
      st.m_instances.map (fun w => w.name) := by
  unfold fabric_clock_output at h
  dsimp only at h
  repeat' split at h
  all_goals first
    | exact Except.noConfusion h
    | exact (Except.ok.inj h) ▸ rfl
    | exact (Except.ok.inj h) ▸
        assign_slot_inst_names st _ j r primitive _ i _ _ _ _ _ ‹st.m_instances[j]? = some _›
          ‹assign_slot _ _ _ _ _ _ _ _ _ _ _ = Except.ok _›

theorem fabric_clock_outputs_inst_names (module : Module) (j : Nat) (r : PrimRef)
    (primitive : PRIMITIVE) (is_clock_primitive : Bool) :
    ∀ (outs : List CppString) (st : Extractor) (i : Nat) (st2 : Extractor),
      fabric_clock_outputs module j r primitive is_clock_primitive outs st i = .ok st2 →
      st2.m_instances.map (fun w => w.name) =
        st.m_instances.map (fun w => w.name) := by
  intro outs
  induction outs with
  | nil =>
    intro st i st2 h
    simp only [fabric_clock_outputs] at h
    exact (Except.ok.inj h) ▸ rfl
  | cons out rest ih =>
    intro st i st2 h
    simp only [fabric_clock_outputs] at h
    split at h
    · exact Except.noConfusion h
    · rename_i next hn
      exact (ih _ _ _ h).trans (fabric_clock_output_inst_names _ _ _ _ _ _ _ _ _ hn)

theorem fabric_clock_instance_inst_names (module : Module) (st st2 : Extractor) (j : Nat)
    (h : fabric_clock_instance module st j = .ok st2) :
    st2.m_instances.map (fun w => w.name) =
      st.m_instances.map (fun w => w.name) := by
  unfold fabric_clock_instance at h
  dsimp only at h
  repeat' split at h
  all_goals first
    | exact Except.noConfusion h
    | exact (Except.ok.inj h) ▸ rfl
    | exact fabric_clock_outputs_inst_names _ _ _ _ _ _ _ _ _ h

theorem fabric_clock_instances_inst_names (module : Module) :
    ∀ (js : List Nat) (st st2 : Extractor),
      fabric_clock_instances module js st = .ok st2 →
      st2.m_instances.map (fun w => w.name) = st.m_instances.map (fun w => w.name) := by
  intro js
  induction js with
  | nil =>
    intro st st2 h
    simp only [fabric_clock_instances] at h
    exact (Except.ok.inj h) ▸ rfl
  | cons j rest ih =>
    intro st st2 h
    simp only [fabric_clock_instances] at h
    split at h
    · exact Except.noConfusion h
    · rename_i s hs
      exact (ih _ _ h).trans (fabric_clock_instance_inst_names _ _ _ _ hs)

/-- The method `determine_fabric_clock` leaves the names of the instances
alone. -/
theorem determine_fabric_clock_inst_names (module : Module) (st st2 : Extractor)
    (h : determine_fabric_clock module st = .ok st2) :
    st2.m_instances.map (fun w => w.name) = st.m_instances.map (fun w => w.name) := by
  unfold determine_fabric_clock at h
  repeat' split at h
  all_goals first
    | exact Except.noConfusion h
    | exact (Except.ok.inj h) ▸
        fabric_clock_instances_inst_names _ _ _ _
          ‹fabric_clock_instances _ _ _ = Except.ok _›

/-! ### The summary leaves nodes and instances alone -/

theorem sameInstances_refl (s : Extractor) : SameInstances s s := ⟨rfl, rfl, rfl⟩

theorem sameInstances_trans {s t u : Extractor} (h : SameInstances s t)
    (g : SameInstances t u) : SameInstances s u :=
  ⟨g.1.trans h.1, g.2.1.trans h.2.1, g.2.2.trans h.2.2⟩

theorem update_pin_info_insts (st st2 : Extractor) (pin_name : CppString)
    (primitive : PRIMITIVE) (h : update_pin_info st pin_name primitive = .ok st2) :
    SameInstances st st2 := by
  unfold update_pin_info at h
  simp only [bind, Except.bind] at h
  repeat' split at h
  all_goals first
    | exact Except.noConfusion h
    | exact (Except.ok.inj h) ▸ (⟨rfl, rfl, rfl⟩ : SameInstances st _)

theorem foldlM_insts {α : Type} (f : Extractor → α → Except Fault Extractor)
    (hf : ∀ s a s2, f s a = .ok s2 → SameInstances s s2) :
    ∀ (l : List α) (s s2 : Extractor), l.foldlM f s = .ok s2 → SameInstances s s2 := by
  intro l
  induction l with
  | nil =>
    intro s s2 h
    simp only [List.foldlM, pure, Except.pure] at h
    exact (Except.ok.inj h) ▸ sameInstances_refl s
  | cons a rest ih =>
    intro s s2 h
    simp only [List.foldlM, bind, Except.bind] at h
    split at h
    · exact Except.noConfusion h
    · rename_i s1 h1
      exact sameInstances_trans (hf _ _ _ h1) (ih _ _ h)

theorem store_pin_traces_insts (traces full_traces : List CppString) (is_in_dir : Bool) :
    ∀ (objects : List CppString) (st st2 : Extractor),
      store_pin_traces traces full_traces is_in_dir objects st = .ok st2 →
      SameInstances st st2 := by
  intro objects
  induction objects with
  | nil =>
    intro st st2 h
    simp only [store_pin_traces] at h
    exact (Except.ok.inj h) ▸ sameInstances_refl st
  | cons object rest ih =>
    intro st st2 h
    simp only [store_pin_traces, bind, Except.bind] at h
    repeat' split at h
    all_goals first
      | exact Except.noConfusion h
      | (refine sameInstances_trans ?_ (ih _ _ h)
         exact ⟨rfl, rfl, rfl⟩)

theorem summarize_children_insts
    (call : Extractor → PrimRef → List CppString → List CppString → Except Fault Extractor)
    (hcall : ∀ s c t f s2, call s c t f = .ok s2 → SameInstances s s2)
    (traces full_traces : List CppString) (is_in_dir : Bool) :
    ∀ (children : List (CppString × PrimRef)) (i : Nat) (st st2 : Extractor),
      summarize_children call traces full_traces is_in_dir children i st = .ok st2 →
      SameInstances st st2 := by
  intro children
  induction children with
  | nil =>
    intro i st st2 h
    simp only [summarize_children] at h
    exact (Except.ok.inj h) ▸ sameInstances_refl st
  | cons child rest ih =>
    intro i st st2 h
    simp only [summarize_children, bind, Except.bind] at h
    repeat' split at h
    all_goals first
      | exact Except.noConfusion h
      | exact sameInstances_trans
          (hcall _ _ _ _ _ ‹call _ _ _ _ = Except.ok _›) (ih _ _ _ h)

theorem summarize_pins_insts (objects : List CppString) (is_in_dir : Bool) :
    ∀ (fuel : Nat) (st : Extractor) (r : PrimRef) (traces full_traces : List CppString)
      (st2 : Extractor),
      summarize_pins objects is_in_dir fuel st r traces full_traces = .ok st2 →
      SameInstances st st2 := by
  intro fuel
  induction fuel with
  | zero =>
    intro st r t f st2 h
    simp only [summarize_pins] at h
    exact Except.noConfusion h
  | succ fuel ih =>
    intro st r t f st2 h
    simp only [summarize_pins, bind, Except.bind] at h
    repeat' split at h
    all_goals first
      | exact Except.noConfusion h
      | exact sameInstances_trans
          (foldlM_insts _ (fun s a s2 hs => update_pin_info_insts s s2 a _ hs) _ _ _
            ‹List.foldlM _ _ _ = Except.ok _›)
          (summarize_children_insts _ (fun s c t f s2 hs => ih s c t f s2 hs) _ _ _ _ _ _ _ h)
      | exact (Except.ok.inj h) ▸ sameInstances_trans
          (foldlM_insts _ (fun s a s2 hs => update_pin_info_insts s s2 a _ hs) _ _ _
            ‹List.foldlM _ _ _ = Except.ok _›)
          (store_pin_traces_insts _ _ _ _ _ _ ‹store_pin_traces _ _ _ _ _ = Except.ok _›)

theorem add_pins_insts (port : PORT_PRIMITIVE) (r : PrimRef) :
    ∀ (objects : List CppString) (st st2 : Extractor),
      add_pins port r objects st = .ok st2 → SameInstances st st2 := by
  intro objects
  induction objects with
  | nil =>
    intro st st2 h
    simp only [add_pins] at h
    exact (Except.ok.inj h) ▸ sameInstances_refl st
  | cons object rest ih =>
    intro st st2 h
    simp only [add_pins, bind, Except.bind] at h
    repeat' split at h
    all_goals first
      | exact Except.noConfusion h
      | (refine sameInstances_trans ?_ (ih _ _ h)
         exact ⟨rfl, rfl, rfl⟩)

theorem summarize_report_insts (fuel : Nat) :
    ∀ (ports : List Nat) (st st2 : Extractor),
      summarize_report fuel ports st = .ok st2 → SameInstances st st2 := by
  intro ports
  induction ports with
  | nil =>
    intro st st2 h
    simp only [summarize_report] at h
    exact (Except.ok.inj h) ▸ sameInstances_refl st
  | cons i rest ih =>
    intro st st2 h
    simp only [summarize_report, bind, Except.bind] at h
    repeat' split at h
    all_goals first
      | exact Except.noConfusion h
      | exact sameInstances_trans
          (sameInstances_trans (add_pins_insts _ _ _ _ _ ‹add_pins _ _ _ _ = Except.ok _›)
            (summarize_pins_insts _ _ _ _ _ _ _ _
              ‹summarize_pins _ _ _ _ _ _ _ = Except.ok _›))
          (ih _ _ h)

theorem summarize_insts (fuel : Nat) (st st2 : Extractor)
    (h : summarize fuel st = .ok st2) : SameInstances st st2 := by
  unfold summarize at h
  simp only [bind, Except.bind, pure, Except.pure, throw, throwThe,
    MonadExceptOf.throw] at h
  repeat' split at h
  all_goals first
    | exact Except.noConfusion h
    | exact summarize_report_insts _ _ _ _ h

/-! ### A good final check with one node per name -/

theorem supported_result (st : Extractor) (name : CppString) (req : PRIMITIVE_REQ)
    (x : Option PRIMITIVE_DB) (h : is_supported_primitive st name req = .ok x) :
    x = is_supported_primitive_in name req genesis3_primitives := by
  unfold is_supported_primitive at h
  simp only [bind, Except.bind, pure, Except.pure] at h
  split at h
  · exact Except.noConfusion h
  · rename_i table htable
    have ht : table = genesis3_primitives := by
      unfold CppMap.at at htable
      simp only [SUPPORTED_PRIMITIVES, CppMap.find] at htable
      repeat' split at htable
      all_goals first
        | exact Except.noConfusion htable
        | simp_all
    rw [← Except.ok.inj h, ht]

theorem is_supported_primitive_in_ready (name : CppString) (d : PRIMITIVE_DB)
    (hr : d.is_ready = true) (hn : d.name = name) :
    ∀ (table : List PRIMITIVE_DB), d ∈ table →
      (is_supported_primitive_in name PRIMITIVE_REQ.DONT_CARE table).isSome = true := by
  intro table
  induction table with
  | nil =>
    intro h
    exact absurd h (List.not_mem_nil _)
  | cons e rest ih =>
    intro h
    simp only [is_supported_primitive_in]
    split
    · simp
    · rename_i hcond
      rcases List.mem_cons.1 h with k | k
      · exfalso
        apply hcond
        rw [← k, hr, hn]
        simp
      · exact ih k

/-- The count of `finalize` is the number of cells that pass its test, and
the test returns for every cell when the count does. -/
theorem design_count_filter (st : Extractor) :
    ∀ (cells : List Cell) (N : Nat), design_count st cells = .ok N →
      N = (cells.filter (cell_supported st)).length ∧
      ∀ cell ∈ cells, ∃ x,
        is_supported_primitive st cell.type PRIMITIVE_REQ.DONT_CARE = .ok x := by
  intro cells
  induction cells with
  | nil =>
    intro N h
    simp only [design_count] at h
    exact ⟨(Except.ok.inj h).symm, fun c hc => absurd hc (List.not_mem_nil _)⟩
  | cons cell rest ih =>
    intro N h
    simp only [design_count, bind, Except.bind, pure, Except.pure] at h
    split at h
    · exact Except.noConfusion h
    · rename_i db hdb
      split at h
      · exact Except.noConfusion h
      · rename_i n hn
        obtain ⟨e1, e2⟩ := ih n hn
        have e := Except.ok.inj h
        constructor
        · cases db with
          | none =>
            have hs : cell_supported st cell = false := by
              unfold cell_supported
              rw [hdb]
            rw [List.filter_cons_of_neg (by rw [hs]; exact Bool.false_ne_true), ← e, e1]
            rfl
          | some d =>
            have hs : cell_supported st cell = true := by
              unfold cell_supported
              rw [hdb]
            rw [List.filter_cons_of_pos hs, ← e, e1]
            rfl
        · intro c hc
          rcases List.mem_cons.1 hc with k | k
          · exact ⟨db, by rw [k]; exact hdb⟩
          · exact e2 c k

theorem mem_node_names (st : Extractor) (name : CppString) :
    name ∈ node_names st ↔ ∃ r n, st.deref r = .ok n ∧ n.name = name := by
  unfold node_names
  rw [List.mem_append, List.mem_map, List.mem_map]
  constructor
  · rintro (⟨p, hp, e⟩ | ⟨c, hc, e⟩)
    · obtain ⟨i, hi⟩ := List.mem_iff_getElem?.1 hp
      exact ⟨.port i, p.base, (deref_port_iff st i _).2 ⟨p, hi, rfl⟩, e⟩
    · obtain ⟨j, hj⟩ := List.mem_iff_getElem?.1 hc
      exact ⟨.child j, c, (deref_child_iff st j c).2 hj, e⟩
  · rintro ⟨r, n, hn, e⟩
    cases r with
    | port i =>
      obtain ⟨p, hp, hb⟩ := (deref_port_iff st i n).1 hn
      exact Or.inl ⟨p, List.mem_iff_getElem?.2 ⟨i, hp⟩, by rw [hb]; exact e⟩
    | child j =>
      exact Or.inr ⟨n, List.mem_iff_getElem?.2 ⟨j, (deref_child_iff st j n).1 hn⟩, e⟩

theorem instance_kept (l l2 : List INSTANCE)
    (hn : l2.map (fun w => w.name) = l.map (fun w => w.name))
    (hm : l2.map (fun w => w.module) = l.map (fun w => w.module))
    (w : INSTANCE) (hw : w ∈ l) :
    ∃ w2 ∈ l2, w2.name = w.name ∧ w2.module = w.module := by
  obtain ⟨k, hk⟩ := List.mem_iff_getElem?.1 hw
  have h1 : (l2.map (fun w => w.name))[k]? = some w.name := by
    rw [hn, List.getElem?_map, hk]
    rfl
  have h2 : (l2.map (fun w => w.module))[k]? = some w.module := by
    rw [hm, List.getElem?_map, hk]
    rfl
  rw [List.getElem?_map] at h1 h2
  cases h3 : l2[k]? with
  | none =>
    rw [h3] at h1
    exact Option.noConfusion h1
  | some w2 =>
    rw [h3] at h1 h2
    exact ⟨w2, List.mem_iff_getElem?.2 ⟨k, h3⟩, Option.some.inj h1, Option.some.inj h2⟩

theorem finalize_good_state (s st : Extractor) (module : Module)
    (h : finalize s module = .ok (st, FinalCheck.good)) : st = s := by
  unfold finalize at h
  simp only [bind, Except.bind, pure, Except.pure] at h
  repeat' split at h
  all_goals first
    | exact Except.noConfusion h
    | exact (congrArg Prod.fst (Except.ok.inj h)).symm
    | exact FinalCheck.noConfusion (congrArg Prod.snd (Except.ok.inj h))

/-- C37, amended: take a run of `extract` from a state without nodes up to
`finalize`.  If `finalize` reports `Final checking is good`, it leaves the
state, and so the netlist status, unchanged; and if moreover no two nodes
have the same name, then every cell of the module whose type is a supported
primitive has a node with its name among the roots and traced children and
an instance that is no `WIRE` with its name (without the leading
backslash). -/
theorem C37_good_final_check_with_distinct_node_names_covers_every_supported_cell
    (module : Module) (fuel : Nat) (s0 s1 s2 s3 s4 s5 s6 s7 st : Extractor) (ok : Bool)
    (hp : s0.m_ports = []) (hc : s0.m_child_primitives = [])
    (h1 : get_ports module fuel s0 = .ok (ok, s1))
    (h2 : trace_calls module fuel extract_trace_pairs s1 = .ok s2)
    (h3 : trace_fabric_clkbuf module s2 = .ok s3)
    (h4 : trace_gearbox_fast_clock s3 = .ok s4)
    (h5 : gen_instances fuel s4 = .ok s5)
    (h6 : determine_fabric_clock module s5 = .ok s6)
    (h7 : summarize fuel s6 = .ok s7)
    (h8 : finalize s7 module = .ok (st, FinalCheck.good))
    (hnames : (node_names st).Nodup) :
    st = s7 ∧
    ∀ cell ∈ module.cells, ∀ db,
      is_supported_primitive st cell.type PRIMITIVE_REQ.DONT_CARE = .ok (some db) →
      (∃ r n, st.deref r = .ok n ∧ n.name = cell.name) ∧
      (∃ inst ∈ st.m_instances, inst.module ≠ "WIRE".toList ∧
        inst.name = get_original_name cell.name) := by
  have hst := finalize_good_state s7 st module h8
  subst hst
  refine ⟨rfl, ?_⟩
  obtain ⟨named5, inst5⟩ := pipeline_named module fuel s0 s1 s2 s3 s4 s5 ok hp hc h1 h2 h3
    h4 h5
  have c6 := determine_fabric_clock_same module s5 s6 h6
  have n6 := determine_fabric_clock_inst_names module s5 s6 h6
  have c7 := summarize_insts fuel s6 st h7
  have hnodes : SameNodes s5 st := ⟨c7.1.trans c6.1, c7.2.1.trans c6.2.1⟩
  have named : NodesNamed module st := by
    intro r n hn
    rw [deref_of_sameNodes hnodes] at hn
    exact named5 r n hn
  have hinst : ∀ r n, st.deref r = .ok n →
      ∃ inst ∈ st.m_instances, inst.module ≠ "WIRE".toList ∧
        inst.name = get_original_name n.name := by
    intro r n hn
    rw [deref_of_sameNodes hnodes] at hn
    obtain ⟨w, hw, e1, e2⟩ := inst5 r n hn
    obtain ⟨w2, hw2, k1, k2⟩ := instance_kept s5.m_instances st.m_instances
      (by rw [c7.2.2]; exact n6) (by rw [c7.2.2]; exact c6.2.2) w hw
    exact ⟨w2, hw2, by rw [k2]; exact e2, by rw [k1]; exact e1⟩
  obtain ⟨_, _, _, N, hN, hgood⟩ := finalize_verdict st st module _ h8
  obtain ⟨hcount, hret⟩ := design_count_filter st module.cells N hN
  have hlen : (node_names st).length = N := by
    unfold node_names
    rw [List.length_append, List.length_map, List.length_map]
    exact ((hgood.1 rfl).1).symm
  have hsub : node_names st ⊆ (module.cells.filter (cell_supported st)).map Cell.name := by
    intro name hname
    obtain ⟨r, n, hn, e⟩ := (mem_node_names st name).1 hname
    obtain ⟨hmem, hready, cell, hcell, e1, e2⟩ := named r n hn
    refine List.mem_map.2 ⟨cell, List.mem_filter.2 ⟨hcell, ?_⟩, by rw [e1, e]⟩
    obtain ⟨x, hx⟩ := hret cell hcell
    have hx2 := supported_result st _ _ x hx
    have hsome := is_supported_primitive_in_ready cell.type n.db hready e2.symm _ hmem
    unfold cell_supported
    rw [hx, hx2]
    cases hq : is_supported_primitive_in cell.type PRIMITIVE_REQ.DONT_CARE
        genesis3_primitives with
    | none =>
      rw [hq] at hsome
      exact Bool.noConfusion hsome
    | some d => rfl
  have hperm := (List.subperm_of_subset hnames hsub).perm_of_length_le
    (by rw [List.length_map, hlen, hcount])
  intro cell hcell db hdb
  have hin : cell.name ∈ node_names st := by
    apply hperm.symm.subset
    refine List.mem_map.2 ⟨cell, List.mem_filter.2 ⟨hcell, ?_⟩, rfl⟩
    unfold cell_supported
    rw [hdb]
  obtain ⟨r, n, hn, e⟩ := (mem_node_names st _).1 hin
  refine ⟨⟨r, n, hn, e⟩, ?_⟩
  obtain ⟨w, hw, k1, k2⟩ := hinst r n hn
  exact ⟨w, hw, k1, by rw [k2, e]⟩

set_option maxRecDepth 100000 in
/-- Witness for C37: the run of `extract` on the example with a clock buffer
and a delay behind one input buffer, whose three nodes have three names. -/
theorem C37_good_final_check_with_distinct_node_names_covers_every_supported_cell_witness :
    finalize example_clock_and_delay_extracted.2.1 example_clock_and_delay =
      .ok (example_clock_and_delay_extracted.2.1, FinalCheck.good) ∧
    (node_names example_clock_and_delay_extracted.2.1).Nodup ∧
    (example_clock_and_delay_extracted.2.1 = example_clock_and_delay_extracted.2.1 ∧
    ∀ cell ∈ example_clock_and_delay.cells, ∀ db,
      is_supported_primitive example_clock_and_delay_extracted.2.1 cell.type
        PRIMITIVE_REQ.DONT_CARE = .ok (some db) →
      (∃ r n, example_clock_and_delay_extracted.2.1.deref r = .ok n ∧ n.name = cell.name) ∧
      (∃ inst ∈ example_clock_and_delay_extracted.2.1.m_instances,
        inst.module ≠ "WIRE".toList ∧ inst.name = get_original_name cell.name)) :=
  have h8 : finalize example_clock_and_delay_extracted.2.1 example_clock_and_delay =
      .ok (example_clock_and_delay_extracted.2.1, FinalCheck.good) := by
    decide
  have hnames : (node_names example_clock_and_delay_extracted.2.1).Nodup := by
    decide
  ⟨h8, hnames,
   C37_good_final_check_with_distinct_node_names_covers_every_supported_cell
    example_clock_and_delay 10 (Extractor.construct "genesis3".toList)
    example_clock_and_delay_roots example_clock_and_delay_traced
    example_clock_and_delay_traced example_clock_and_delay_clocked
    example_clock_and_delay_generated example_clock_and_delay_slotted
    example_clock_and_delay_extracted.2.1 example_clock_and_delay_extracted.2.1 true
    rfl rfl (by decide) (by decide) (by decide) (by decide) (by decide) (by decide)
    (by decide) h8 hnames⟩

set_option maxRecDepth 100000 in
/-- Counterexample for C37: in `example_shared_ddr` the output register `d`
is traced once from each of the two output buffers and the input register
`x` is reached by no chain.  The design holds four supported cells, the run
holds four nodes and four instances that are no wires, so `finalize` reports
`Final checking is good` and leaves the state with the netlist status true;
yet the supported cell `x` has no node and no instance. -/
theorem C37_counterexample_unreached_register_with_good_check :
    extract example_shared_ddr 10 (Extractor.construct "genesis3".toList) =
      .ok (true, example_shared_ddr_extracted.2.1, some FinalCheck.good) ∧
    finalize example_shared_ddr_extracted.2.1 example_shared_ddr =
      .ok (example_shared_ddr_extracted.2.1, FinalCheck.good) ∧
    example_shared_ddr_extracted.2.1.m_netlist_status = true ∧
    cell_of "\\I_DDR" "\\x" [("\\D", "\\u1"), ("\\C", "\\u2")] ∈ example_shared_ddr.cells ∧
    cell_supported example_shared_ddr_extracted.2.1
      (cell_of "\\I_DDR" "\\x" [("\\D", "\\u1"), ("\\C", "\\u2")]) = true ∧
    node_names example_shared_ddr_extracted.2.1 =
      ["\\a".toList, "\\b".toList, "\\d".toList, "\\d".toList] ∧
    "\\x".toList ∉ node_names example_shared_ddr_extracted.2.1 ∧
    example_shared_ddr_extracted.2.1.m_instances.map (fun inst => inst.name) =
      ["a".toList, "d".toList, "b".toList, "d".toList] ∧
    (∀ inst ∈ example_shared_ddr_extracted.2.1.m_instances, inst.name ≠ "x".toList) := by
  refine ⟨by decide, by decide, by decide, by decide, by decide, by decide, by decide,
    by decide, by decide⟩

end PrimitivesExtractor
